import Mathlib

/-!
libkcudf: the KCUDF reducer.

A shallow embedding of `src/kcudf/reduce.{hh,cpp}` together with the part of
`src/kcudf/gwriter.{hh,cpp}` (the three boost graphs behind `GraphWriter`) the
reducer works on, followed by the properties of the reducer.

Modelling conventions.

* A package is its identifier (an `unsigned int`, here a `Nat`).
* The three boost graphs are `adjacency_list<setS, listS, ...>`: every vertex owns
  a set of out-edges (and, for the two directed graphs, a set of in-edges) that
  iterates in the order of the vertex descriptors, which are heap addresses.  The
  address of the vertex of a package is the field `addr`; nothing is assumed
  about it.  The vertex list iterates in insertion order.
* `std::map`s keyed by package identifiers are total functions; they are only
  ever read at registered packages.
* `unsigned int` counters wrap modulo `2^32`.
* The `while` loop of `process` is run with fuel; `none` means that the fuel ran
  out, never that the loop returned.
-/

namespace KCudf

/-! ## reduce.hh: states and operations -/

/-- Possible states for a package inside the reducer (`enum PKR_STATE`). -/
inductive PKR_STATE where
  | PKR_CU
  | PKR_CI
  | PKR_MU
  | PKR_MI
  | PKR_SR
  | PKR_FL
  | PKR_AB
  deriving DecidableEq, Repr

/-- Possible operations on a package during the reducing process (`enum PK_OP`). -/
inductive PK_OP where
  | PK_MU
  | PK_MI
  | PK_CI
  | PK_CU
  | PK_UCP
  | PK_USP
  | PK_UPD
  deriving DecidableEq, Repr

/-- Identification of the todo list a task goes to (`enum TD_LST`). -/
inductive TD_LST where
  | TD_1
  | TD_2
  deriving DecidableEq, Repr

/-- Final state after a run of the reducer (`enum RD_OUT`). -/
inductive RD_OUT where
  | RDO_FAIL
  | RDO_SOL
  | RDO_SEARCH
  deriving DecidableEq, Repr

open PKR_STATE PK_OP TD_LST RD_OUT

/-- The integer value of a state, used as the row index of `tf`. -/
def PKR_STATE.toNat : PKR_STATE → Nat
  | PKR_CU => 0
  | PKR_CI => 1
  | PKR_MU => 2
  | PKR_MI => 3
  | PKR_SR => 4
  | PKR_FL => 5
  | PKR_AB => 6

/-- The integer value of an operation, used as the column index of `tf`. -/
def PK_OP.toNat : PK_OP → Nat
  | PK_MU => 0
  | PK_MI => 1
  | PK_CI => 2
  | PK_CU => 3
  | PK_UCP => 4
  | PK_USP => 5
  | PK_UPD => 6

/-- The array `KCudfReducer::tf[5][4]`, row by row. -/
def tfTable : List (List PKR_STATE) :=
  [ [PKR_MU, PKR_MI, PKR_SR, PKR_CU],   -- PKR_CU
    [PKR_MU, PKR_MI, PKR_CI, PKR_SR],   -- PKR_CI
    [PKR_MU, PKR_FL, PKR_MU, PKR_MU],   -- PKR_MU
    [PKR_FL, PKR_MI, PKR_MI, PKR_MI],   -- PKR_MI
    [PKR_AB, PKR_AB, PKR_SR, PKR_SR] ]  -- PKR_SR

/-- The read `tf[st][op]`; `none` is a read outside of the array. -/
def tf (st : PKR_STATE) (op : PK_OP) : Option PKR_STATE :=
  match tfTable[st.toNat]? with
  | none => none
  | some row => row[op.toNat]?

/-- The predicate `KCudfReducer::isSP`. -/
def isSP (st : PKR_STATE) : Bool := st == PKR_CI || st == PKR_MI

/-- The predicate `KCudfReducer::isSPI`. -/
def isSPI (st : PKR_STATE) : Bool := isSP st || st == PKR_SR

/-- The predicate `KCudfReducer::isCP`. -/
def isCP (st : PKR_STATE) : Bool := st != PKR_MU

/-! ## Machine integers and maps -/

/-- The modulus of `unsigned int`. -/
def UINT : Nat := 4294967296

/-- The statement `x += 1` (or `x++`) on an `unsigned int`. -/
def uinc (x : Nat) : Nat := (x + 1) % UINT

/-- The statement `x -= 1` on an `unsigned int`. -/
def udec (x : Nat) : Nat := (x + (UINT - 1)) % UINT

/-- The assignment `m[k] = v` on a map seen as a function. -/
def setAt {α : Type} (m : Nat → α) (k : Nat) (v : α) : Nat → α :=
  fun x => if x = k then v else m x

/-- Insertion in a `std::set` of vertices that iterates by vertex address. -/
def setInsert (addr : Nat → Nat) (x : Nat) (l : List Nat) : List Nat :=
  if x ∈ l then l else List.orderedInsert (fun a b => addr a ≤ addr b) x l

/-! ## gwriter.hh: the three graphs -/

/-- The data of `class GraphWriter`: the registered packages (the common vertex
list of the three graphs, in insertion order), their `(keep, install)` flags
(`statem`) and the edge containers of the dependency graph (`deps`), of the
undirected conflict graph (`confs`) and of the provides graph (`pvds`). -/
structure GraphWriter where
  addr : Nat → Nat
  pkgs : List Nat
  statem : Nat → Bool × Bool
  deps_out : Nat → List Nat
  deps_in : Nat → List Nat
  confs_adj : Nat → List Nat
  pvds_out : Nat → List Nat
  pvds_in : Nat → List Nat

namespace GraphWriter

/-- The graph writer right after construction, for the given vertex addresses. -/
def empty (addr : Nat → Nat) : GraphWriter :=
  { addr := addr, pkgs := [], statem := fun _ => (false, false),
    deps_out := fun _ => [], deps_in := fun _ => [], confs_adj := fun _ => [],
    pvds_out := fun _ => [], pvds_in := fun _ => [] }

/-- The method `GraphWriter::isPackage`. -/
def isPackage (g : GraphWriter) (p : Nat) : Bool := decide (p ∈ g.pkgs)

/-- The method `GraphWriter::package`: a vertex is added to the graphs; the maps
`nodesm` and `statem` keep the entry of an identifier that is already there. -/
def package (g : GraphWriter) (id : Nat) (keep install : Bool) : GraphWriter :=
  { g with
    pkgs := g.pkgs ++ [id]
    statem := if id ∈ g.pkgs then g.statem else setAt g.statem id (keep, install) }

/-- The call `add_edge` on the dependency graph. -/
def add_dep (g : GraphWriter) (p q : Nat) : GraphWriter :=
  if q ∈ g.deps_out p then g
  else { g with
    deps_out := setAt g.deps_out p (setInsert g.addr q (g.deps_out p))
    deps_in := setAt g.deps_in q (setInsert g.addr p (g.deps_in q)) }

/-- The call `add_edge` on the (undirected) conflict graph. -/
def add_conf (g : GraphWriter) (p q : Nat) : GraphWriter :=
  if q ∈ g.confs_adj p then g
  else
    let adj := setAt g.confs_adj p (setInsert g.addr q (g.confs_adj p))
    { g with confs_adj := setAt adj q (setInsert g.addr p (adj q)) }

/-- The call `add_edge` on the provides graph. -/
def add_pvd (g : GraphWriter) (p q : Nat) : GraphWriter :=
  if q ∈ g.pvds_out p then g
  else { g with
    pvds_out := setAt g.pvds_out p (setInsert g.addr q (g.pvds_out p))
    pvds_in := setAt g.pvds_in q (setInsert g.addr p (g.pvds_in q)) }

/-- The writer method `GraphWriter::dependency(id, id2, desc)`; `none` when one of
the identifiers is not registered (`nodesm.at` throws). -/
def dependency (g : GraphWriter) (id id2 : Nat) : Option GraphWriter :=
  if g.isPackage id && g.isPackage id2 then some (g.add_dep id id2) else none

/-- The writer method `GraphWriter::conflict(id, id2, desc)`. -/
def conflict (g : GraphWriter) (id id2 : Nat) : Option GraphWriter :=
  if g.isPackage id && g.isPackage id2 then some (g.add_conf id id2) else none

/-- The writer method `GraphWriter::provides(id, id2, desc)`. -/
def provides_add (g : GraphWriter) (id id2 : Nat) : Option GraphWriter :=
  if g.isPackage id && g.isPackage id2 then some (g.add_pvd id id2) else none

/-- The method `GraphWriter::packages`. -/
def packages (g : GraphWriter) : List Nat := g.pkgs

/-- The method `GraphWriter::numPackages`. -/
def numPackages (g : GraphWriter) : Nat := g.pkgs.length

/-- The method `GraphWriter::install`. -/
def install (g : GraphWriter) (p : Nat) : Bool := (g.statem p).2

/-- The method `GraphWriter::keep`. -/
def keep (g : GraphWriter) (p : Nat) : Bool := (g.statem p).1

/-- The method `GraphWriter::dependencies(p)`. -/
def dependencies (g : GraphWriter) (p : Nat) : List Nat := g.deps_out p

/-- The method `GraphWriter::dependers(p)`. -/
def dependers (g : GraphWriter) (p : Nat) : List Nat := g.deps_in p

/-- The method `GraphWriter::conflicts(p)`. -/
def conflicts (g : GraphWriter) (p : Nat) : List Nat := g.confs_adj p

/-- The method `GraphWriter::provides(p)`. -/
def provides (g : GraphWriter) (p : Nat) : List Nat := g.pvds_out p

/-- The method `GraphWriter::providers(p)`. -/
def providers (g : GraphWriter) (p : Nat) : List Nat := g.pvds_in p

/-- The test `GraphWriter::dependency(p, q)`. -/
def hasDependency (g : GraphWriter) (p q : Nat) : Bool :=
  (g.dependencies p).any (fun d => d == q)

end GraphWriter

/-! ## reduce.hh: the reducer -/

/-- Type for tasks to be done (`task_t`). -/
abbrev task_t := PK_OP × Nat

/-- The data of `class KCudfReducer` (the statistics apart). -/
structure KCudfReducer extends GraphWriter where
  pkg_st : Nat → PKR_STATE
  sp : Nat → Nat
  cp : Nat → Nat
  todo1 : List task_t
  todo2 : List task_t
  init_search : List Nat

/-- What a KCUDF writer is handed over. -/
inductive Event where
  | package (id : Nat) (keep install : Bool)
  | dependency (id id2 : Nat)
  | conflict (id id2 : Nat)
  | provides (id id2 : Nat)
  deriving DecidableEq, Repr

/-- How one turn of the `while` loop of `process` ends. -/
inductive Turn where
  | next (r : KCudfReducer)
  | fail (r : KCudfReducer)
  | assertion (r : KCudfReducer)

/-- How `process` ends: it returns, or an assertion stops it. -/
inductive Processed where
  | returned (out : RD_OUT) (r : KCudfReducer)
  | assertion (r : KCudfReducer)

/-- How `reduce` ends: it returns, having handed `solved` and `search` to its
two writers, or an assertion stops it. -/
inductive Reduced where
  | returned (out : RD_OUT) (solved search : List Event) (r : KCudfReducer)
  | assertion (r : KCudfReducer)

namespace KCudfReducer

/-- The reducer right after construction with the paranoid set `seeds`. -/
def create (addr : Nat → Nat) (seeds : List Nat) : KCudfReducer :=
  { toGraphWriter := GraphWriter.empty addr, pkg_st := fun _ => PKR_CU,
    sp := fun _ => 0, cp := fun _ => 0, todo1 := [], todo2 := [],
    init_search := seeds }

/-- The method `KCudfReducer::addTask`. -/
def addTask (r : KCudfReducer) (op : PK_OP) (pk : Nat) (t : TD_LST) : KCudfReducer :=
  match t with
  | TD_1 => { r with todo1 := r.todo1 ++ [(op, pk)] }
  | TD_2 => { r with todo2 := r.todo2 ++ [(op, pk)] }

/-- The method `KCudfReducer::nextTask`; `none` when both lists are empty (the
source then reads the front of an empty list). -/
def nextTask (r : KCudfReducer) : Option (task_t × KCudfReducer) :=
  match r.todo1 with
  | t :: rest => some (t, { r with todo1 := rest })
  | [] =>
    match r.todo2 with
    | t :: rest => some (t, { r with todo2 := rest })
    | [] => none

/-- The method `KCudfReducer::workTodo`. -/
def workTodo (r : KCudfReducer) : Bool := !r.todo1.isEmpty || !r.todo2.isEmpty

/-- The initial state of a package with the given flags. -/
def startState (keep install : Bool) : PKR_STATE :=
  if keep then (if install then PKR_MI else PKR_MU)
  else (if install then PKR_CI else PKR_CU)

/-- The method `KCudfReducer::package`. -/
def package (r : KCudfReducer) (p : Nat) (keep install : Bool) : KCudfReducer :=
  let r1 : KCudfReducer :=
    { r with
      pkg_st := if p ∈ r.pkgs then r.pkg_st else setAt r.pkg_st p (startState keep install)
      toGraphWriter := r.toGraphWriter.package p keep install }
  if p ∈ r.init_search then r1.addTask PK_CI p TD_2 else r1

/-- The setter `KCudfReducer::state(p, st)`. -/
def setState (r : KCudfReducer) (p : Nat) (st : PKR_STATE) : KCudfReducer :=
  { r with pkg_st := setAt r.pkg_st p st }

/-- The getter `KCudfReducer::state(id)`. -/
def state (r : KCudfReducer) (id : Nat) : PKR_STATE := r.pkg_st id

/-- A loop `for (p : ps) addTask(op, p, t);`. -/
def addTasks (r : KCudfReducer) (op : PK_OP) (ps : List Nat) (t : TD_LST) : KCudfReducer :=
  ps.foldl (fun r p => r.addTask op p t) r

/-- The method `KCudfReducer::update`. -/
def update (r : KCudfReducer) (pid : Nat) : KCudfReducer :=
  match r.state pid with
  | PKR_MI =>
    (r.addTasks PK_MI (r.dependencies pid) TD_1).addTasks PK_MU (r.conflicts pid) TD_1
  | PKR_MU => r.addTasks PK_MU (r.dependers pid) TD_1
  | PKR_CI =>
    (r.addTasks PK_CI (r.dependencies pid) TD_2).addTasks PK_CU (r.conflicts pid) TD_2
  | PKR_CU => r.addTasks PK_CU (r.dependers pid) TD_2
  | PKR_SR =>
    ((r.addTasks PK_CI (r.dependencies pid) TD_2).addTasks PK_CU (r.conflicts pid) TD_2).addTasks
      PK_CU (r.dependers pid) TD_2
  | _ => r

/-- The counting loop of the initialisation of `process` over the providers of
one package: the pair `(c, s)`. -/
def countProviders (r : KCudfReducer) (pid : Nat) : Nat × Nat :=
  (r.providers pid).foldl
    (fun cs pvdr =>
      let s := if isSP (r.state pvdr) then uinc cs.2 else cs.2
      let c := if isCP (r.state pvdr) then uinc cs.1 else cs.1
      (c, s))
    (0, 0)

/-- The initialisation loop of `process`. -/
def initLoop (r : KCudfReducer) : KCudfReducer :=
  r.packages.foldl
    (fun r pid =>
      let cs := r.countProviders pid
      ({ r with sp := setAt r.sp pid cs.2, cp := setAt r.cp pid cs.1 } : KCudfReducer).addTask
        PK_UPD pid TD_1)
    r

/-- The loop `sp[p] += 1` over the provides of `pkgId`. -/
def spInc (r : KCudfReducer) (pkgId : Nat) : KCudfReducer :=
  (r.provides pkgId).foldl (fun r p => { r with sp := setAt r.sp p (uinc (r.sp p)) }) r

/-- The loop `sp[p] -= 1` over the provides of `pkgId`, with its `PK_USP` tasks. -/
def spDec (r : KCudfReducer) (pkgId : Nat) : KCudfReducer :=
  (r.provides pkgId).foldl
    (fun r p =>
      let r1 : KCudfReducer := { r with sp := setAt r.sp p (udec (r.sp p)) }
      if r1.sp p = 0 ∧ isSPI (r1.state p) = true then r1.addTask PK_USP p TD_2 else r1)
    r

/-- The loop `cp[p] -= 1` over the provides of `pkgId`, with its `PK_UCP` tasks. -/
def cpDec (r : KCudfReducer) (pkgId : Nat) : KCudfReducer :=
  (r.provides pkgId).foldl
    (fun r p =>
      let r1 : KCudfReducer := { r with cp := setAt r.cp p (udec (r.cp p)) }
      if r1.cp p ≤ 1 then r1.addTask PK_UCP p TD_1 else r1)
    r

/-- The body of `if (currState != nextState)` in `process`. -/
def changeState (r : KCudfReducer) (pkgId : Nat) (currState nextState : PKR_STATE) :
    KCudfReducer :=
  let r1 := if !isSP currState && isSP nextState then r.spInc pkgId else r
  let r2 := if isSP currState && !isSP nextState then r1.spDec pkgId else r1
  let r3 := if !isSPI currState && isSPI nextState && decide (r2.sp pkgId = 0)
    then r2.addTask PK_UPD pkgId TD_2 else r2
  let r4 := if isCP currState && !isCP nextState then r3.cpDec pkgId else r3
  (r4.setState pkgId nextState).update pkgId

/-- The loop over the providers of `pkgId` in the `PK_UCP` branch of `process`;
`none` when `GraphWriter::dependency` fails. -/
def ucpLoop (r : KCudfReducer) (pkgId : Nat) : Option KCudfReducer :=
  (r.providers pkgId).foldlM
    (fun r p =>
      if isCP (r.state p) && !r.hasDependency pkgId p then
        match r.toGraphWriter.dependency pkgId p with
        | some g =>
          some ((({ r with toGraphWriter := g } : KCudfReducer).addTask PK_UPD p TD_1).addTask
            PK_UPD pkgId TD_1)
        | none => none
      else some r)
    r

/-- One turn of the `while` loop of `process` on the task `(op, pkgId)` that
`nextTask` returned. -/
def turn (r : KCudfReducer) (op : PK_OP) (pkgId : Nat) : Turn :=
  let currState := r.state pkgId
  if op = PK_MU ∨ op = PK_MI ∨ op = PK_CI ∨ op = PK_CU then
    match tf currState op with
    | none => Turn.assertion r
    | some nextState =>
      if nextState = PKR_FL then Turn.fail r
      else if nextState = PKR_AB then Turn.assertion r
      else if currState ≠ nextState then Turn.next (r.changeState pkgId currState nextState)
      else Turn.next r
  else if op = PK_UCP then
    let r1 := if r.cp pkgId = 0 then r.addTask PK_MU pkgId TD_1 else r
    if r1.cp pkgId = 1 then
      match r1.ucpLoop pkgId with
      | some r2 => Turn.next r2
      | none => Turn.assertion r1
    else Turn.next r1
  else if op = PK_USP ∧ r.sp pkgId = 0 ∧ isSPI (r.state pkgId) = true then
    Turn.next ((r.addTasks PK_CI (r.providers pkgId) TD_2).addTask PK_CU pkgId TD_2)
  else if op = PK_UPD then
    Turn.next (((r.update pkgId).addTask PK_UCP pkgId TD_1).addTask PK_USP pkgId TD_2)
  else Turn.next r

/-- One turn of the `while` loop of `process`, `nextTask` included; `none` when
there is no work to do. -/
def iteration (r : KCudfReducer) : Option Turn :=
  match r.nextTask with
  | none => none
  | some (t, r1) => some (r1.turn t.1 t.2)

/-- The `while` loop of `process`, run for at most `fuel` turns. -/
def processLoop : Nat → KCudfReducer → Option Processed
  | 0, r => if r.workTodo then none else some (Processed.returned RDO_SEARCH r)
  | fuel + 1, r =>
    match r.iteration with
    | none => some (Processed.returned RDO_SEARCH r)
    | some (Turn.next r1) => processLoop fuel r1
    | some (Turn.fail r1) => some (Processed.returned RDO_FAIL r1)
    | some (Turn.assertion r1) => some (Processed.assertion r1)

/-- The method `KCudfReducer::process`, its loop run for at most `fuel` turns. -/
def process (fuel : Nat) (r : KCudfReducer) : Option Processed :=
  processLoop fuel r.initLoop

/-- The method `KCudfReducer::incDeps`: what it hands to the writer. -/
def incDeps (r : KCudfReducer) (pkg : Nat) : List Event :=
  ((r.dependencies pkg).filter (fun p => r.state p == PKR_SR)).map (fun p => Event.dependency pkg p)

/-- The method `KCudfReducer::incConfs`: what it hands to the writer. -/
def incConfs (r : KCudfReducer) (pkg : Nat) : List Event :=
  ((r.conflicts pkg).filter (fun p => r.state p == PKR_SR)).map (fun p => Event.conflict pkg p)

/-- The method `KCudfReducer::incPvds`: what it hands to the writer. -/
def incPvds (r : KCudfReducer) (pkg : Nat) : List Event :=
  ((r.provides pkg).filter (fun p => r.state p == PKR_SR)).map (fun p => Event.provides pkg p)

/-- The method `KCudfReducer::incPvdrs`: what it hands to the writer. -/
def incPvdrs (r : KCudfReducer) (pkg : Nat) : List Event :=
  ((r.providers pkg).filter (fun p => r.state p == PKR_SR)).map (fun p => Event.provides p pkg)

/-- The first loop of `reduce` for one package: what the solved writer and the
search writer are handed, in this order. -/
def reducePackage (r : KCudfReducer) (pkg : Nat) : List Event × List Event :=
  match r.state pkg with
  | PKR_CI | PKR_MI =>
    ([Event.package pkg true true],
      if r.sp pkg = 0 then [Event.package pkg true true] else [])
  | PKR_SR => ([], [Event.package pkg (r.keep pkg) (r.install pkg)])
  | PKR_MU | PKR_CU => ([Event.package pkg true false], [])
  | _ => ([], [])

/-- The second loop of `reduce` for one package: what the search writer is
handed. -/
def reduceRelations (r : KCudfReducer) (pkg : Nat) : List Event :=
  match r.state pkg with
  | PKR_MI | PKR_CI =>
    (if r.sp pkg = 0 then r.incPvdrs pkg else []) ++
      (r.incDeps pkg ++ (r.incConfs pkg ++ r.incPvds pkg))
  | PKR_SR => r.incDeps pkg ++ (r.incConfs pkg ++ r.incPvds pkg)
  | _ => []

/-- The set `srch` of `reduce`: the packages declared to the search writer. -/
def srch (r : KCudfReducer) : List Nat :=
  r.packages.filter (fun pkg =>
    (isSP (r.state pkg) && decide (r.sp pkg = 0)) || r.state pkg == PKR_SR)

/-- What the two loops of `reduce` hand to the solved writer. -/
def reduceSolved (r : KCudfReducer) : List Event :=
  (r.packages.map (fun pkg => (r.reducePackage pkg).1)).flatten

/-- What the two loops of `reduce` hand to the search writer: the packages of
the first loop, then the relations of the second. -/
def reduceSearch (r : KCudfReducer) : List Event :=
  (r.packages.map (fun pkg => (r.reducePackage pkg).2)).flatten ++
    (r.packages.map (fun pkg => r.reduceRelations pkg)).flatten

/-- The method `KCudfReducer::reduce`, the loop of `process` run for at most
`fuel` turns. -/
def reduce (fuel : Nat) (r : KCudfReducer) : Option Reduced :=
  match r.process fuel with
  | none => none
  | some (Processed.assertion r1) => some (Reduced.assertion r1)
  | some (Processed.returned RDO_FAIL r1) => some (Reduced.returned RDO_FAIL [] [] r1)
  | some (Processed.returned _ r1) =>
    some (Reduced.returned (if 0 < r1.srch.length then RDO_SEARCH else RDO_SOL)
      r1.reduceSolved r1.reduceSearch r1)

end KCudfReducer

/-! ## kcudf.cpp: the reader, statement by statement -/

/-- A statement of a KCUDF file. -/
inductive Stmt where
  | P (id : Nat) (keep install : Bool)
  | D (id id2 : Nat)
  | C (id id2 : Nat)
  | R (id id2 : Nat)
  deriving DecidableEq, Repr

namespace KCudfReducer

/-- What `read` does with one statement when the writer is a reducer; `none`
when a writer method throws. -/
def readStmt (r : KCudfReducer) : Stmt → Option KCudfReducer
  | Stmt.P id keep install =>
    let r1 := r.package id keep install
    (r1.toGraphWriter.dependency id id).map (fun g => { r1 with toGraphWriter := g })
  | Stmt.D id id2 => (r.toGraphWriter.dependency id id2).map (fun g => { r with toGraphWriter := g })
  | Stmt.C id id2 => (r.toGraphWriter.conflict id id2).map (fun g => { r with toGraphWriter := g })
  | Stmt.R id id2 =>
    (r.toGraphWriter.provides_add id id2).map (fun g => { r with toGraphWriter := g })

/-- The function `read` on the statements of a file, the writer being a reducer. -/
def read (r : KCudfReducer) (stmts : List Stmt) : Option KCudfReducer :=
  stmts.foldlM readStmt r

/-- The tasks `nextTask` returns when it is called until no work is left, at most
`n` times. -/
def drain : Nat → KCudfReducer → List task_t
  | 0, _ => []
  | n + 1, r =>
    match r.nextTask with
    | none => []
    | some (t, r1) => t :: drain n r1

/-- A sequence of `addTask` calls. -/
def addAll (r : KCudfReducer) (calls : List (PK_OP × Nat × TD_LST)) : KCudfReducer :=
  calls.foldl (fun r c => r.addTask c.1 c.2.1 c.2.2) r

/-- The tasks a sequence of `addTask` calls sends to the list `t`, in call order. -/
def sentTo (t : TD_LST) (calls : List (PK_OP × Nat × TD_LST)) : List task_t :=
  (calls.filter (fun c => c.2.2 = t)).map (fun c => (c.1, c.2.1))

end KCudfReducer

/-! ## Well-formed inputs -/

/-- The graphs a reducer holds once a KCUDF file has been read: the packages are
declared once, there are fewer than `2^32` of them, every edge container is a
set of registered packages, the in-edges mirror the out-edges and conflicts are
undirected. -/
def GraphWriter.WF (g : GraphWriter) : Prop :=
  g.pkgs.Nodup ∧ g.pkgs.length < UINT ∧
  (∀ p ∈ g.pkgs, (g.deps_out p).Nodup ∧ ∀ q ∈ g.deps_out p, q ∈ g.pkgs ∧ p ∈ g.deps_in q) ∧
  (∀ q ∈ g.pkgs, (g.deps_in q).Nodup ∧ ∀ p ∈ g.deps_in q, p ∈ g.pkgs ∧ q ∈ g.deps_out p) ∧
  (∀ p ∈ g.pkgs, (g.confs_adj p).Nodup ∧ ∀ q ∈ g.confs_adj p, q ∈ g.pkgs ∧ p ∈ g.confs_adj q) ∧
  (∀ p ∈ g.pkgs, (g.pvds_out p).Nodup ∧ ∀ q ∈ g.pvds_out p, q ∈ g.pkgs ∧ p ∈ g.pvds_in q) ∧
  (∀ q ∈ g.pkgs, (g.pvds_in q).Nodup ∧ ∀ p ∈ g.pvds_in q, p ∈ g.pkgs ∧ q ∈ g.pvds_out p)

instance (g : GraphWriter) : Decidable g.WF := by
  unfold GraphWriter.WF; infer_instance

/-- The reducer as `reduce` finds it: the graphs are well formed, every package
is in the state its flags give it, the first todo list is empty and the second
holds the `PK_CI` tasks of the paranoid seeds. -/
def KCudfReducer.Ready (r : KCudfReducer) : Prop :=
  r.toGraphWriter.WF ∧
  (∀ p ∈ r.pkgs, r.pkg_st p = KCudfReducer.startState (r.keep p) (r.install p)) ∧
  r.todo1 = [] ∧ (∀ t ∈ r.todo2, t.1 = PK_CI ∧ t.2 ∈ r.pkgs)

instance (r : KCudfReducer) : Decidable r.Ready := by
  unfold KCudfReducer.Ready; infer_instance

/-! ## Closed forms, case analysis of a turn, invariants and measures -/

/-- The map after a loop `m[p] = f(m[p])` over `ps`. -/
def mapAt (f : Nat → Nat) (m : Nat → Nat) (ps : List Nat) : Nat → Nat :=
  ps.foldl (fun m p => setAt m p (f (m p))) m

/-- The map after a loop `m[p] = f(p)` over `ps`. -/
def assignAll (f : Nat → Nat) (m : Nat → Nat) (ps : List Nat) : Nat → Nat :=
  ps.foldl (fun m p => setAt m p (f p)) m

/-- The tasks `update` sends to the first todo list for a package in state `st`. -/
def updTasks1 (g : GraphWriter) (st : PKR_STATE) (pid : Nat) : List task_t :=
  match st with
  | PKR_MI => (g.deps_out pid).map (fun p => (PK_MI, p)) ++
      (g.confs_adj pid).map (fun p => (PK_MU, p))
  | PKR_MU => (g.deps_in pid).map (fun p => (PK_MU, p))
  | _ => []

/-- The tasks `update` sends to the second todo list for a package in state `st`. -/
def updTasks2 (g : GraphWriter) (st : PKR_STATE) (pid : Nat) : List task_t :=
  match st with
  | PKR_CI => (g.deps_out pid).map (fun p => (PK_CI, p)) ++
      (g.confs_adj pid).map (fun p => (PK_CU, p))
  | PKR_CU => (g.deps_in pid).map (fun p => (PK_CU, p))
  | PKR_SR => (g.deps_out pid).map (fun p => (PK_CI, p)) ++
      ((g.confs_adj pid).map (fun p => (PK_CU, p)) ++ (g.deps_in pid).map (fun p => (PK_CU, p)))
  | _ => []

/-- The `PK_USP` tasks of the loop `sp[p] -= 1` over `ps`. -/
def uspTasks (st : Nat → PKR_STATE) : (Nat → Nat) → List Nat → List task_t
  | _, [] => []
  | sp, p :: ps =>
    (if udec (sp p) = 0 ∧ isSPI (st p) = true then [(PK_USP, p)] else []) ++
      uspTasks st (setAt sp p (udec (sp p))) ps

/-- The `PK_UCP` tasks of the loop `cp[p] -= 1` over `ps`. -/
def ucpTasks : (Nat → Nat) → List Nat → List task_t
  | _, [] => []
  | cp, p :: ps =>
    (if udec (cp p) ≤ 1 then [(PK_UCP, p)] else []) ++ ucpTasks (setAt cp p (udec (cp p))) ps

/-- The safe-provider counters after the two `sp` loops of a change of state. -/
def newSp (r : KCudfReducer) (pkgId : Nat) (currState nextState : PKR_STATE) : Nat → Nat :=
  if !isSP currState && isSP nextState then mapAt uinc r.sp (r.pvds_out pkgId)
  else if isSP currState && !isSP nextState then mapAt udec r.sp (r.pvds_out pkgId)
  else r.sp

/-- One turn of the loop of the `PK_UCP` branch, `GraphWriter::dependency` being
known to succeed. -/
def ucpStep (pkgId : Nat) (r : KCudfReducer) (p : Nat) : KCudfReducer :=
  if isCP (r.pkg_st p) && !decide (p ∈ r.deps_out pkgId) then
    { r with
      toGraphWriter := r.toGraphWriter.add_dep pkgId p
      todo1 := r.todo1 ++ [(PK_UPD, p), (PK_UPD, pkgId)] }
  else r

/-- The operations that go through the transition table. -/
def PK_OP.isTransition (op : PK_OP) : Bool :=
  op == PK_MU || op == PK_MI || op == PK_CI || op == PK_CU

/-- The effect of a turn of the loop on the task `(op, pkgId)` that goes on to
the next turn, case by case. -/
inductive Moved (r : KCudfReducer) (pkgId : Nat) : PK_OP → KCudfReducer → Prop
  | keep (op : PK_OP) (hop : op.isTransition = true)
      (htf : tf (r.pkg_st pkgId) op = some (r.pkg_st pkgId)) : Moved r pkgId op r
  | change (op : PK_OP) (nextState : PKR_STATE) (hop : op.isTransition = true)
      (htf : tf (r.pkg_st pkgId) op = some nextState) (hne : r.pkg_st pkgId ≠ nextState)
      (hfl : nextState ≠ PKR_FL) (hab : nextState ≠ PKR_AB) :
      Moved r pkgId op (r.changeState pkgId (r.pkg_st pkgId) nextState)
  | ucp0 (h : r.cp pkgId = 0) :
      Moved r pkgId PK_UCP { r with todo1 := r.todo1 ++ [(PK_MU, pkgId)] }
  | ucp1 (h : r.cp pkgId = 1) :
      Moved r pkgId PK_UCP ((r.pvds_in pkgId).foldl (ucpStep pkgId) r)
  | ucpN (h0 : r.cp pkgId ≠ 0) (h1 : r.cp pkgId ≠ 1) : Moved r pkgId PK_UCP r
  | usp (h : r.sp pkgId = 0) (hs : isSPI (r.pkg_st pkgId) = true) :
      Moved r pkgId PK_USP
        { r with todo2 := (r.todo2 ++ (r.pvds_in pkgId).map (fun p => (PK_CI, p))) ++
            [(PK_CU, pkgId)] }
  | uspN (h : ¬ (r.sp pkgId = 0 ∧ isSPI (r.pkg_st pkgId) = true)) : Moved r pkgId PK_USP r
  | upd :
      Moved r pkgId PK_UPD
        { r with
          todo1 := (r.todo1 ++ updTasks1 r.toGraphWriter (r.pkg_st pkgId) pkgId) ++
            [(PK_UCP, pkgId)]
          todo2 := (r.todo2 ++ updTasks2 r.toGraphWriter (r.pkg_st pkgId) pkgId) ++
            [(PK_USP, pkgId)] }

/-- One turn of the loop that goes on to the next turn: the oldest task of the
first list, or of the second list when the first is empty, is taken off and
carried out. -/
inductive Stepped (r : KCudfReducer) : KCudfReducer → Prop
  | first (op : PK_OP) (pkgId : Nat) (rest : List task_t) (r1 : KCudfReducer)
      (h1 : r.todo1 = (op, pkgId) :: rest)
      (hm : Moved { r with todo1 := rest } pkgId op r1) : Stepped r r1
  | second (op : PK_OP) (pkgId : Nat) (rest : List task_t) (r1 : KCudfReducer)
      (h1 : r.todo1 = []) (h2 : r.todo2 = (op, pkgId) :: rest)
      (hm : Moved { r with todo2 := rest } pkgId op r1) : Stepped r r1

/-- The states the loop of `process` goes through from `r0` on. -/
inductive Reach (r0 : KCudfReducer) : KCudfReducer → Prop
  | start : Reach r0 r0
  | turn (r r1 : KCudfReducer) (h : Reach r0 r) (ht : r.iteration = some (Turn.next r1)) :
      Reach r0 r1

/-- The states a package can be in (neither failure nor abort). -/
def PKR_STATE.valid (st : PKR_STATE) : Bool := st != PKR_FL && st != PKR_AB

/-- The operations found on the first todo list. -/
def PK_OP.isMust (op : PK_OP) : Bool :=
  op == PK_MU || op == PK_MI || op == PK_UCP || op == PK_UPD

/-- The operations found on the second todo list. -/
def PK_OP.isCan (op : PK_OP) : Bool :=
  op == PK_CI || op == PK_CU || op == PK_USP || op == PK_UPD

/-- The basic invariant of the loop: the graphs are well formed, every package
is in one of the five states, and both todo lists hold tasks on registered
packages, the first with its four operations and the second with its four. -/
def Base (r : KCudfReducer) : Prop :=
  r.toGraphWriter.WF ∧ (∀ p ∈ r.pkgs, (r.pkg_st p).valid = true) ∧
  (∀ t ∈ r.todo1, t.2 ∈ r.pkgs ∧ t.1.isMust = true) ∧
  (∀ t ∈ r.todo2, t.2 ∈ r.pkgs ∧ t.1.isCan = true)

/-- What no turn of the loop changes: the packages, their flags, the conflict
graph, the provides graph and the vertex addresses. -/
def SameFrame (r r1 : KCudfReducer) : Prop :=
  r1.pkgs = r.pkgs ∧ r1.statem = r.statem ∧ r1.confs_adj = r.confs_adj ∧
  r1.pvds_out = r.pvds_out ∧ r1.pvds_in = r.pvds_in ∧ r1.addr = r.addr ∧
  r1.init_search = r.init_search

/-- The provider counters are exact: for every package, `cp` is the number of
its providers that are not in state `MU` and `sp` the number of its providers
in state `CI` or `MI`. -/
def Counters (r : KCudfReducer) : Prop :=
  ∀ p ∈ r.pkgs,
    r.cp p = (r.pvds_in p).countP (fun q => isCP (r.pkg_st q)) ∧
    r.sp p = (r.pvds_in p).countP (fun q => isSP (r.pkg_st q))

/-- The weight of a task among `n` packages: one more than the weight of all
tasks it can send without changing a state or adding an edge. -/
def weight (n : Nat) : PK_OP → Nat
  | PK_UCP => 2
  | PK_USP => n + 2
  | PK_UPD => 4 * n + 5
  | _ => 1

/-- The weight of a todo list. -/
def tasksWeight (n : Nat) (l : List task_t) : Nat := (l.map (fun t => weight n t.1)).sum

/-- The number of packages still in state `CU` or `CI`. -/
def undecided (r : KCudfReducer) : Nat :=
  r.pkgs.countP (fun p => r.pkg_st p == PKR_CU || r.pkg_st p == PKR_CI)

/-- The number of (package, provider) pairs with no dependency edge between them. -/
def missing (r : KCudfReducer) : Nat :=
  (r.pkgs.map (fun p => (r.pvds_in p).countP (fun q => !decide (q ∈ r.deps_out p)))).sum

/-- The quantity every turn of the loop decreases. -/
def potential (r : KCudfReducer) : Nat :=
  tasksWeight r.pkgs.length r.todo1 + tasksWeight r.pkgs.length r.todo2 +
    (r.pkgs.length * r.pkgs.length + 11 * r.pkgs.length + 5) * undecided r +
    (8 * r.pkgs.length + 10) * missing r

/-- What the loop returned, in terms of the state `r` of the last turn. -/
def Ended (r : KCudfReducer) (res : Processed) : Prop :=
  (r.todo1 = [] ∧ r.todo2 = [] ∧ res = Processed.returned RDO_SEARCH r) ∨
  (∃ r1, r.iteration = some (Turn.fail r1) ∧ res = Processed.returned RDO_FAIL r1) ∨
  (∃ r1, r.iteration = some (Turn.assertion r1) ∧ res = Processed.assertion r1)

/-- The must obligations are met or pending on the list `l`: the dependencies
of an `MI` package are `MI`, its conflicts are `MU`, the dependers of an `MU`
package are `MU`, a package without candidate provider is `MU` and a package
with one candidate provider depends on it, unless a task of `l` is still to
bring this about. -/
def MustPending (g : GraphWriter) (st : Nat → PKR_STATE) (cp : Nat → Nat) (l : List task_t) :
    Prop :=
  (∀ p ∈ g.pkgs, st p = PKR_MI → ∀ q ∈ g.deps_out p,
    st q = PKR_MI ∨ (PK_MI, q) ∈ l ∨ (PK_UPD, p) ∈ l) ∧
  (∀ p ∈ g.pkgs, st p = PKR_MI → ∀ c ∈ g.confs_adj p,
    st c = PKR_MU ∨ (PK_MU, c) ∈ l ∨ (PK_UPD, p) ∈ l) ∧
  (∀ q ∈ g.pkgs, st q = PKR_MU → ∀ p ∈ g.deps_in q,
    st p = PKR_MU ∨ (PK_MU, p) ∈ l ∨ (PK_UPD, q) ∈ l) ∧
  (∀ p ∈ g.pkgs, cp p = 0 →
    st p = PKR_MU ∨ (PK_MU, p) ∈ l ∨ (PK_UCP, p) ∈ l ∨ (PK_UPD, p) ∈ l) ∧
  (∀ p ∈ g.pkgs, cp p = 1 → ∀ q ∈ g.pvds_in p, isCP (st q) = true →
    q ∈ g.deps_out p ∨ (PK_UCP, p) ∈ l ∨ (PK_UPD, p) ∈ l)

/-- The must obligations are met, and the must tasks of the list `l` change
nothing any more. -/
def Saturated (g : GraphWriter) (st : Nat → PKR_STATE) (cp : Nat → Nat) (l : List task_t) :
    Prop :=
  (∀ p ∈ g.pkgs, st p = PKR_MI → ∀ q ∈ g.deps_out p, st q = PKR_MI) ∧
  (∀ p ∈ g.pkgs, st p = PKR_MI → ∀ c ∈ g.confs_adj p, st c = PKR_MU) ∧
  (∀ q ∈ g.pkgs, st q = PKR_MU → ∀ p ∈ g.deps_in q, st p = PKR_MU) ∧
  (∀ p ∈ g.pkgs, cp p = 0 → st p = PKR_MU) ∧
  (∀ p ∈ g.pkgs, cp p = 1 → ∀ q ∈ g.pvds_in p, isCP (st q) = true → q ∈ g.deps_out p) ∧
  (∀ q, (PK_MI, q) ∈ l → st q = PKR_MI) ∧
  (∀ q, (PK_MU, q) ∈ l → st q = PKR_MU)

/-- No package is in the search state. -/
def NoSearch (r : KCudfReducer) : Prop := ∀ p ∈ r.pkgs, r.pkg_st p ≠ PKR_SR

/-- The two phases of the loop: until the first list is empty for the first
time no package is in the search state and the must obligations are met or
pending on the first list; from then on they are met for good. -/
def Phase (r : KCudfReducer) : Prop :=
  (NoSearch r ∧ MustPending r.toGraphWriter r.pkg_st r.cp r.todo1) ∨
  Saturated r.toGraphWriter r.pkg_st r.cp r.todo1

/-- The can obligations of the `CI` packages are met or pending: a dependency of
a `CI` package is not `CU` and a conflict of a `CI` package is not `CI`, unless
a task of the second list `l2`, or a `PK_UPD` task of the first list `l1`, is
still to bring this about. -/
def CanPending (g : GraphWriter) (st : Nat → PKR_STATE) (l1 l2 : List task_t) : Prop :=
  (∀ p ∈ g.pkgs, st p = PKR_CI → ∀ q ∈ g.deps_out p,
    st q ≠ PKR_CU ∨ (PK_CI, q) ∈ l2 ∨ (PK_UPD, p) ∈ l1) ∧
  (∀ p ∈ g.pkgs, st p = PKR_CI → ∀ c ∈ g.confs_adj p,
    st c ≠ PKR_CI ∨ (PK_CU, c) ∈ l2 ∨ (PK_UPD, p) ∈ l1)

/-- An install assignment that agrees with `install` on every package with
`keep`, makes every dependency hold, installs no two packages in conflict and
gives every installed package an installed provider. -/
def Feasible (g : GraphWriter) (σ : Nat → Bool) : Prop :=
  (∀ p ∈ g.pkgs, g.keep p = true → σ p = g.install p) ∧
  (∀ p ∈ g.pkgs, ∀ q ∈ g.dependencies p, σ p = true → σ q = true) ∧
  (∀ p ∈ g.pkgs, ∀ c ∈ g.conflicts p, ¬ (σ p = true ∧ σ c = true)) ∧
  (∀ p ∈ g.pkgs, σ p = true → ∃ q ∈ g.providers p, σ q = true)

/-- The states and the must tasks of the list `l` hold in the assignment `σ`:
it installs the `MI` packages and the targets of the `PK_MI` tasks, and
installs neither the `MU` packages nor the targets of the `PK_MU` tasks. -/
def Entailed (g : GraphWriter) (st : Nat → PKR_STATE) (l : List task_t) (σ : Nat → Bool) :
    Prop :=
  (∀ p ∈ g.pkgs, st p = PKR_MI → σ p = true) ∧
  (∀ p ∈ g.pkgs, st p = PKR_MU → σ p = false) ∧
  (∀ q, (PK_MI, q) ∈ l → σ q = true) ∧
  (∀ q, (PK_MU, q) ∈ l → σ q = false)

/-- The packages the solved slice declares with `install = true`. -/
def installedBy (solved : List Event) (p : Nat) : Prop :=
  ∃ k, Event.package p k true ∈ solved

/-- The state after `k` more turns of the loop of `process`, as long as the loop
goes on to a next turn. -/
def KCudfReducer.turns : Nat → KCudfReducer → KCudfReducer
  | 0, r => r
  | k + 1, r =>
    match r.iteration with
    | some (Turn.next r1) => KCudfReducer.turns k r1
    | _ => r

/-! ## Reading the output -/

/-- The flags an event declares for the package `p`, if it declares `p`. -/
def Event.declares (p : Nat) : Event → Option (Bool × Bool)
  | Event.package id keep install => if id = p then some (keep, install) else none
  | _ => none

/-- The declarations of the package `p` a writer received, as `(keep, install)`
pairs, in order. -/
def declarations (evs : List Event) (p : Nat) : List (Bool × Bool) :=
  evs.filterMap (Event.declares p)

/-- Some task of the run is an `FL` transition: in a state the loop of `process`
goes through, `nextTask` returns `PK_MI` for a package in `MU` or `PK_MU` for a
package in `MI`. -/
def FailingTurn (r0 : KCudfReducer) : Prop :=
  ∃ r op pkgId r1, Reach r0.initLoop r ∧ r.nextTask = some ((op, pkgId), r1) ∧
    ((op = PK_MI ∧ r.state pkgId = PKR_MU) ∨ (op = PK_MU ∧ r.state pkgId = PKR_MI))

/-- The package is declared in the search slice: it ends in `SR`, or in `MI` or
`CI` without safe provider. -/
def InSearch (r : KCudfReducer) (p : Nat) : Prop :=
  r.state p = PKR_SR ∨ ((r.state p = PKR_MI ∨ r.state p = PKR_CI) ∧ r.sp p = 0)

/-! ## kcudf.hh: the disjunction trie -/

/-- A `std::set<unsigned int>`, kept as the ascending list of its elements, the
order in which the set is iterated. -/
abbrev IdSet := List Nat

/-- The values of `IdSet` that are sets: strictly ascending lists. -/
def IdSet.ok (s : IdSet) : Prop := s.Sorted (fun a b => a < b)

instance (s : IdSet) : Decidable s.ok := by
  unfold IdSet.ok; infer_instance

/-- The method `std::set::insert`. -/
def IdSet.insert (s : IdSet) (x : Nat) : IdSet :=
  if x ∈ s then s else s.orderedInsert (fun a b => a ≤ b) x

/-- The set that holds the elements of a list. -/
def IdSet.ofList (l : List Nat) : IdSet := l.foldl IdSet.insert []

/-- The class `DTNode`: the node identifier `tree_node`, the flag `cmp` that
tells whether it is meaningful, and the children by key.  The order of the
children is never observed. -/
inductive DTNode where
  | mk (tree_node : Nat) (cmp : Bool) (children : List (Nat × DTNode))

namespace DTNode

/-- The constructor `DTNode::DTNode`. -/
def create : DTNode := DTNode.mk 0 false []

/-- The member `tree_node`. -/
def tree_node : DTNode → Nat
  | DTNode.mk tn _ _ => tn

/-- The method `DTNode::computed`. -/
def computed : DTNode → Bool
  | DTNode.mk _ cmp _ => cmp

/-- The member `children`. -/
def children : DTNode → List (Nat × DTNode)
  | DTNode.mk _ _ ch => ch

/-- The method `DTNode::setNode`. -/
def setNode : DTNode → Nat → DTNode
  | DTNode.mk _ _ ch, n => DTNode.mk n true ch

/-- The child under the key `u`, if there is one (`hasChild` and `getChild`). -/
def getChild (n : DTNode) (u : Nat) : Option DTNode := n.children.lookup u

/-- The children with the child under the key `u` set to `c`: what `addChild`
does for a new key, and what the update of the child in place amounts to for a
key that is there. -/
def setChild : List (Nat × DTNode) → Nat → DTNode → List (Nat × DTNode)
  | [], u, c => [(u, c)]
  | (k, c1) :: rest, u, c => if k == u then (u, c) :: rest else (k, c1) :: setChild rest u c

/-- The loop and the end of `DTNode::addDisjunction` at the node `curr`, the
elements of `e` still to go, in ascending order: the answer and the node
after the call. -/
def addDisjunctionFrom (id : Nat) : List Nat → DTNode → Nat × DTNode
  | [], curr => if curr.computed then (curr.tree_node, curr) else (id, curr.setNode id)
  | curr_node :: e, curr =>
    let child := match curr.getChild curr_node with
      | some c => c
      | none => DTNode.create
    let res := addDisjunctionFrom id e child
    (res.1, DTNode.mk curr.tree_node curr.computed (setChild curr.children curr_node res.2))

/-- The method `DTNode::addDisjunction`: the answer and the trie after the call. -/
def addDisjunction (n : DTNode) (id : Nat) (pvds : IdSet) : Nat × DTNode :=
  addDisjunctionFrom id pvds n

/-- A sequence of `addDisjunction` calls on one trie: the answers in call order
and the trie after the last call. -/
def offers (n : DTNode) : List (Nat × IdSet) → List Nat × DTNode
  | [] => ([], n)
  | (id, pvds) :: calls =>
    let res := n.addDisjunction id pvds
    let rest := offers res.2 calls
    (res.1 :: rest.1, rest.2)

/-- The identifier the trie holds for the key `e`, if the node of `e` exists and
is computed. -/
def find : List Nat → DTNode → Option Nat
  | [], n => if n.computed then some n.tree_node else none
  | k :: e, n =>
    match n.getChild k with
    | some c => find e c
    | none => none

end DTNode

/-- The candidate identifier of the earliest of the calls `pre` whose provider
set is `s`, if there is such a call. -/
def DTNode.firstOffer (pre : List (Nat × IdSet)) (s : IdSet) : Option Nat :=
  (pre.find? (fun c => decide (c.2 = s))).map Prod.fst

/-! ## cudf.h: the CUDF document the translator reads

The CUDF library (`cudf.h`: `CudfDoc`, `CudfPackage`, `Vpkg`) is not part of
the sources.  A document is taken as data: the values its accessors return.
The printing functions of the library the translator builds keys with are taken
as a parameter, `Printer`. -/

/-- The relational operators of a versioned package (`ROP_*`). -/
inductive RelOp where
  | ROP_NOP
  | ROP_EQ
  | ROP_NEQ
  | ROP_GE
  | ROP_GT
  | ROP_LE
  | ROP_LT
  deriving DecidableEq, Repr

/-- The values of the `keep` property of a package (`KP_*`). -/
inductive KeepOp where
  | KP_NONE
  | KP_VERSION
  | KP_PACKAGE
  | KP_FEATURE
  deriving DecidableEq, Repr

open RelOp KeepOp

/-- A versioned package `Vpkg`: what `getName`, `getRel`, `getVersion` and
`versioned` return. -/
structure Vpkg where
  name : String
  rel : RelOp
  version : Int
  versioned : Bool
  deriving DecidableEq, Repr

/-- A package of the document, `CudfPackage`: what `name`, `version`,
`installed`, `keep`, `depends` (a conjunction of disjunctions), `conflicts` and
`provides` return. -/
structure CudfPackage where
  name : String
  version : Int
  installed : Bool
  keep : KeepOp
  depends : List (List Vpkg)
  conflicts : List Vpkg
  provides : List Vpkg
  deriving DecidableEq, Repr

/-- A document, `CudfDoc`: its packages and the three lists of its request. -/
structure CudfDoc where
  getPackages : List CudfPackage
  reqToInstall : List Vpkg
  reqToRemove : List Vpkg
  reqToUpgrade : List Vpkg
  deriving DecidableEq, Repr

/-- The printing functions of the CUDF library: `Vpkg::serialize`, and
`operator<<` on a `Vpkg` and on a list of them. -/
structure Printer where
  serialize : Vpkg → String
  print : Vpkg → String
  printList : List Vpkg → String

/-- The operator `PkUnit::operator&&` of `cudf.cpp`, for the unit of name `name`
and version `version`. -/
def PkUnit.compatible (name : String) (version : Int) (vp : Vpkg) : Bool :=
  if name ≠ vp.name then false
  else
    match vp.rel with
    | ROP_EQ => decide (version = vp.version)
    | ROP_NEQ => decide (version ≠ vp.version)
    | ROP_LE => decide (version ≤ vp.version)
    | ROP_LT => decide (version < vp.version)
    | ROP_GE => decide (version ≥ vp.version)
    | ROP_GT => decide (version > vp.version)
    | ROP_NOP => true

/-! ## kcudf.hh: the packages of the translator -/

/-- What ends a translation without a result: a failed `assert`, one of the two
exceptions of the translator, a read through a pointer or a map entry nothing
stands behind, and a chain of calls that does not end. -/
inductive Failure where
  | assertion
  | InvalidProvide
  | FailedRequest
  | undefined
  | diverges
  deriving DecidableEq, Repr

/-- The method `std::set::erase` of a value. -/
def IdSet.erase (s : IdSet) (x : Nat) : IdSet := s.filter (fun y => y ≠ x)

/-- A `std::map`, kept as the list of its entries in ascending key order. -/
abbrev StdMap (κ ν : Type) := List (κ × ν)

/-- The entry of a key (`find`), if there is one. -/
def StdMap.find {κ ν : Type} [DecidableEq κ] (m : StdMap κ ν) (k : κ) : Option ν :=
  (List.find? (fun e => decide (e.1 = k)) m).map Prod.snd

/-- The test `count(k) > 0`. -/
def StdMap.has {κ ν : Type} [DecidableEq κ] (m : StdMap κ ν) (k : κ) : Bool :=
  (StdMap.find m k).isSome

/-- The order of two strings, `std::string::operator<`: the first character that
differs decides, and a proper prefix comes first. -/
def ltChars : List Char → List Char → Bool
  | [], [] => false
  | [], _ :: _ => true
  | _ :: _, [] => false
  | a :: s, b :: t =>
    if a.toNat < b.toNat then true
    else if b.toNat < a.toNat then false
    else ltChars s t

/-- The order `std::less` of the keys of a `std::map`. -/
class Key (κ : Type) where
  lt : κ → κ → Bool

instance : Key Nat := ⟨fun a b => decide (a < b)⟩

instance : Key Int := ⟨fun a b => decide (a < b)⟩

instance : Key String := ⟨fun a b => ltChars a.data b.data⟩

/-- The assignment `m[k] = v`. -/
def StdMap.set {κ ν : Type} [DecidableEq κ] [Key κ] :
    StdMap κ ν → κ → ν → StdMap κ ν
  | [], k, v => [(k, v)]
  | (k1, v1) :: rest, k, v =>
    if k = k1 then (k, v) :: rest
    else if Key.lt k k1 then (k, v) :: (k1, v1) :: rest
    else (k1, v1) :: StdMap.set rest k v

/-- The objects of class `Package` and of its two subclasses: `nm` is the name
of a `SelfPackage` and `none` for a `Disjunction`, whose members `forwarded`,
`fwd`, `providers`, `conf_but`, `has_but` and `flt` follow.  A pointer to an
object is the identifier the object was created with.  The strings `info` and
`keep_info`, which only go to diagnostics, and the set `provides`, which is
never used, are left out. -/
structure Package where
  install : Bool
  keep : Bool
  id : Nat
  version : Int
  conflicts : IdSet
  dependencies : IdSet
  nm : Option String
  forwarded : Bool
  fwd : Option Nat
  providers : IdSet
  conf_but : Nat
  has_but : Bool
  flt : Bool
  deriving DecidableEq, Repr

/-- The data of `class KCudfData`, with the objects it points to and the static
counter `Package::next_id`.  The map `packages` takes a key to a pointer. -/
structure KCudfData where
  next_id : Nat
  heap : Nat → Option Package
  packages : StdMap Nat Nat
  concrete : StdMap String (StdMap Int Nat)
  specv : StdMap String (StdMap Int Nat)
  constv : StdMap String Nat
  bigPackages_ : IdSet
  crtPackages_ : List Nat
  conPackages_ : List Nat

namespace KCudfData

/-- The data before the constructor runs, the counter `Package::next_id` being
`n`. -/
def empty (n : Nat) : KCudfData :=
  { next_id := n, heap := fun _ => none, packages := [], concrete := [], specv := [],
    constv := [], bigPackages_ := [], crtPackages_ := [], conPackages_ := [] }

/-- The object behind a pointer. -/
def obj (d : KCudfData) (p : Nat) : Except Failure Package :=
  match d.heap p with
  | some o => pure o
  | none => throw Failure.undefined

/-- The object behind the pointer `p` replaced by `o`. -/
def put (d : KCudfData) (p : Nat) (o : Package) : KCudfData :=
  { d with heap := setAt d.heap p (some o) }

/-- The read `packages[k]` (or `packages.at(k)`) followed by a read through the
pointer: the pointer stored under the key `k`. -/
def ptr (d : KCudfData) (k : Nat) : Except Failure Nat :=
  match StdMap.find d.packages k with
  | some p => pure p
  | none => throw Failure.undefined

/-- The object the virtual methods of a `Disjunction` end on: each of them
starts with `if (forwarded) return fwd->method(...)`.  At most `fuel` calls. -/
def targetFrom : Nat → KCudfData → Nat → Except Failure Nat
  | 0, _, _ => throw Failure.diverges
  | fuel + 1, d, p => do
    let o ← d.obj p
    if o.forwarded then
      match o.fwd with
      | some q => targetFrom fuel d q
      | none => throw Failure.undefined
    else pure p

/-- The object a chain of forwards ends on. -/
def target (d : KCudfData) (p : Nat) : Except Failure Nat :=
  targetFrom (d.next_id + 1) d p

/-- The virtual method `getId`. -/
def getId (d : KCudfData) (p : Nat) : Except Failure Nat := do
  let t ← d.target p
  let o ← d.obj t
  pure o.id

/-- The virtual method `isConcrete`. -/
def isConcrete (d : KCudfData) (p : Nat) : Except Failure Bool := do
  let t ← d.target p
  let o ← d.obj t
  pure o.nm.isSome

/-- The virtual method `getVersion`: a `Disjunction` that is not forwarded
returns `Package::getId()`. -/
def getVersion (d : KCudfData) (p : Nat) : Except Failure Int := do
  let t ← d.target p
  let o ← d.obj t
  pure (if o.nm.isSome then o.version else (o.id : Int))

/-- The virtual method `markInstall`. -/
def markInstall (d : KCudfData) (p : Nat) (st : Bool) : Except Failure KCudfData := do
  let t ← d.target p
  let o ← d.obj t
  if o.install ≠ st then
    if o.keep && !o.install then throw Failure.assertion
    else pure (d.put t { o with install := st })
  else pure d

/-- The virtual method `markKeep`. -/
def markKeep (d : KCudfData) (p : Nat) (st : Bool) : Except Failure KCudfData := do
  let t ← d.target p
  let o ← d.obj t
  pure (d.put t { o with keep := st })

/-- The virtual method `markedInstall`. -/
def markedInstall (d : KCudfData) (p : Nat) : Except Failure Bool := do
  let t ← d.target p
  let o ← d.obj t
  pure o.install

/-- The virtual method `markedKeep`. -/
def markedKeep (d : KCudfData) (p : Nat) : Except Failure Bool := do
  let t ← d.target p
  let o ← d.obj t
  pure o.keep

/-- The virtual method `addConflict`. -/
def addConflict (d : KCudfData) (p c : Nat) : Except Failure KCudfData := do
  let t ← d.target p
  let o ← d.obj t
  pure (d.put t { o with conflicts := o.conflicts.insert c })

/-- The virtual method `addDependency`. -/
def addDependency (d : KCudfData) (p q : Nat) : Except Failure KCudfData := do
  let t ← d.target p
  let o ← d.obj t
  pure (d.put t { o with dependencies := o.dependencies.insert q })

/-- The method `Package::getDependencies`, which is not virtual. -/
def getDependencies (d : KCudfData) (p : Nat) : Except Failure IdSet := do
  let o ← d.obj p
  pure o.dependencies

/-- The method `Package::getConflicts`, which is not virtual. -/
def getConflicts (d : KCudfData) (p : Nat) : Except Failure IdSet := do
  let o ← d.obj p
  pure o.conflicts

/-- The method `Disjunction::addProvider`. -/
def addProvider (d : KCudfData) (p q : Nat) : Except Failure KCudfData := do
  let o ← d.obj p
  if o.nm.isSome then throw Failure.undefined
  else if o.forwarded then throw Failure.assertion
  else pure (d.put p { o with providers := o.providers.insert q })

/-- The method `Disjunction::getProviders`: the object whose set it returns.
Every step of a chain of forwards asserts that the chain does not end on a
`SelfPackage`. -/
def providersOwner (d : KCudfData) (p : Nat) : Except Failure Nat := do
  let o ← d.obj p
  if o.forwarded then
    let t ← d.target p
    let ot ← d.obj t
    if ot.nm.isSome then throw Failure.assertion else pure t
  else if o.nm.isSome then throw Failure.undefined
  else pure p

/-- The method `Disjunction::getProviders`, read. -/
def getProviders (d : KCudfData) (p : Nat) : Except Failure IdSet := do
  let t ← d.providersOwner p
  let o ← d.obj t
  pure o.providers

/-- The method `Disjunction::addBut`. -/
def addBut (d : KCudfData) (p q : Nat) : Except Failure KCudfData := do
  let o ← d.obj p
  pure (d.put p { o with conf_but := q, has_but := true })

/-- The expression `new SelfPackage(name, inst, v)`: the pointer to the new
object. -/
def newSelfPackage (d : KCudfData) (name : String) (inst : Bool) (v : Int) :
    Except Failure (Nat × KCudfData) :=
  if v < 0 then throw Failure.assertion
  else
    pure (d.next_id,
      { d with
        next_id := d.next_id + 1
        heap := setAt d.heap d.next_id (some
          { install := inst, keep := false, id := d.next_id, version := v, conflicts := [],
            dependencies := [], nm := some name, forwarded := false, fwd := none,
            providers := [], conf_but := 0, has_but := false, flt := false }) })

/-- The expressions `new Disjunction(inf)`, with `v = -1`, and
`new Disjunction(v, inf)`: the pointer to the new object. -/
def newDisjunctionObject (d : KCudfData) (v : Int) : Nat × KCudfData :=
  (d.next_id,
    { d with
      next_id := d.next_id + 1
      heap := setAt d.heap d.next_id (some
        { install := false, keep := false, id := d.next_id, version := v, conflicts := [],
          dependencies := [], nm := none, forwarded := false, fwd := none,
          providers := [], conf_but := 0, has_but := false, flt := false }) })

/-- The assignment `packages[p->getId()] = p`. -/
def register (d : KCudfData) (p : Nat) : Except Failure KCudfData := do
  let k ← d.getId p
  pure { d with packages := StdMap.set d.packages k p }

end KCudfData

/-- The read `m[k]` of a `std::map`, which enters the default value under a key
that is not there: the value and the map after the read. -/
def StdMap.index {κ ν : Type} [DecidableEq κ] [Key κ]
    (m : StdMap κ ν) (k : κ) (dflt : ν) : ν × StdMap κ ν :=
  match StdMap.find m k with
  | some v => (v, m)
  | none => (dflt, StdMap.set m k dflt)

/-- The conversion of an `int` to `unsigned int`. -/
def toUnsigned (v : Int) : Nat := (v % 4294967296).toNat

/-- The conversion of an `unsigned int` to `int`. -/
def toSigned (n : Nat) : Int :=
  if n % 4294967296 < 2147483648 then ((n % 4294967296 : Nat) : Int)
  else ((n % 4294967296 : Nat) : Int) - 4294967296

namespace KCudfData

/-- The method `Disjunction::flat` on the object `p`, the map `pkgs` being
`packages`; at most `fuel` nested calls. -/
def flatFrom : Nat → KCudfData → Nat → Except Failure KCudfData
  | 0, _, _ => throw Failure.diverges
  | fuel + 1, d, p => do
    let o ← d.obj p
    if o.forwarded then
      match o.fwd with
      | none => throw Failure.undefined
      | some q =>
        if (← d.isConcrete q) then throw Failure.assertion
        else flatFrom fuel d q
    else if o.nm.isSome then throw Failure.undefined
    else if o.flt then pure d
    else do
      let d1 ← o.providers.foldlM (fun d q => do
        let x ← d.ptr q
        if (← d.isConcrete x) then pure d else flatFrom fuel d x) d
      let toAdd ← o.providers.foldlM (fun (toAdd : IdSet) q => do
        let x ← d1.ptr q
        if (← d1.isConcrete x) then pure (toAdd.insert q)
        else do
          let ox ← d1.obj x
          if !ox.flt then throw Failure.assertion
          else
            (← d1.getProviders x).foldlM (fun (toAdd : IdSet) rp => do
              let y ← d1.ptr rp
              if (← d1.isConcrete y) then pure (toAdd.insert rp)
              else throw Failure.assertion) toAdd) []
      let ps ← toAdd.foldlM (fun (ps : IdSet) q => do
        let y ← d1.ptr q
        if (← d1.isConcrete y) then pure (ps.insert q) else throw Failure.assertion) []
      let o1 ← d1.obj p
      pure (d1.put p
        { o1 with
          providers := if o1.has_but then ps.erase o1.conf_but else ps
          flt := true })

/-- The method `Disjunction::flat`. -/
def flat (d : KCudfData) (p : Nat) : Except Failure KCudfData :=
  flatFrom (d.next_id + 1) d p

/-- The method `Disjunction::setForward` on the object `a`, at most `fuel`
nested calls. -/
def setForwardFrom : Nat → KCudfData → Nat → Nat → Except Failure KCudfData
  | 0, _, _, _ => throw Failure.diverges
  | fuel + 1, d, a, p => do
    let o ← d.obj a
    if o.forwarded then
      match o.fwd with
      | none => throw Failure.undefined
      | some q =>
        if (← d.isConcrete q) then throw Failure.assertion
        else setForwardFrom fuel d q p
    else if o.nm.isSome then throw Failure.undefined
    else do
      if (← d.getId p) = o.id then throw Failure.assertion
      else do
        let d1 ← o.dependencies.foldlM (fun d x => d.addDependency p x) d
        let d2 ← o.conflicts.foldlM (fun d x => d.addConflict p x) d1
        let pid ← d2.getId p
        let o2 ← d2.obj a
        pure (d2.put a
          { o2 with
            providers := if pid ∈ o2.providers then o2.providers.erase pid else o2.providers
            fwd := some p
            forwarded := true })

/-- The method `Disjunction::setForward`. -/
def setForward (d : KCudfData) (a p : Nat) : Except Failure KCudfData :=
  setForwardFrom (d.next_id + 1) d a p

/-- The read `specv[name][version]`. -/
def specvAt (d : KCudfData) (name : String) (version : Int) : Nat × KCudfData :=
  let r := StdMap.index d.specv name []
  let r2 := StdMap.index r.1 version 0
  (r2.1, { d with specv := StdMap.set r.2 name r2.2 })

/-- The assignment `specv[name][version] = id`. -/
def specvSet (d : KCudfData) (name : String) (version : Int) (id : Nat) : KCudfData :=
  { d with
    specv := StdMap.set d.specv name
      (StdMap.set ((StdMap.find d.specv name).getD []) version id) }

/-- The test `specv.count(name) > 0 && specv[name].count(version) > 0`. -/
def specvHas (d : KCudfData) (name : String) (version : Int) : Bool :=
  match StdMap.find d.specv name with
  | some m => StdMap.has m version
  | none => false

/-- The read `concrete[name][version]`. -/
def concreteAt (d : KCudfData) (name : String) (version : Int) : Nat × KCudfData :=
  let r := StdMap.index d.concrete name []
  let r2 := StdMap.index r.1 version 0
  (r2.1, { d with concrete := StdMap.set r.2 name r2.2 })

/-- The assignment `concrete[name][version] = id`. -/
def concreteSet (d : KCudfData) (name : String) (version : Int) (id : Nat) : KCudfData :=
  { d with
    concrete := StdMap.set d.concrete name
      (StdMap.set ((StdMap.find d.concrete name).getD []) version id) }

/-- The method `KCudfData::newDisjunction`. -/
def newDisjunction (d : KCudfData) (s : String) : Except Failure (Nat × KCudfData) := do
  let r := d.newDisjunctionObject (-1)
  let d1 ← r.2.register r.1
  pure (r.1, { d1 with constv := StdMap.set d1.constv s (← d1.getId r.1) })

/-- The method `KCudfData::getDisjunction(const std::string&)`. -/
def getDisjunction (d : KCudfData) (name : String) : Except Failure (Nat × KCudfData) :=
  match StdMap.find d.constv name with
  | none => d.newDisjunction name
  | some k => do pure (← d.ptr k, d)

/-- The method `KCudfData::addDisjunction`. -/
def addDisjunction (d : KCudfData) (name : String) (version : Int) :
    Except Failure (Nat × KCudfData) :=
  match (StdMap.find d.specv name).bind (fun m => StdMap.find m version) with
  | some k => do pure (← d.ptr k, d)
  | none => do
    let r := d.newDisjunctionObject version
    let d1 ← r.2.register r.1
    pure (r.1, d1.specvSet name version (← d1.getId r.1))

/-- The method `KCudfData::addDepDisjunction`. -/
def addDepDisjunction (d : KCudfData) (name : String) (version : Int) :
    Except Failure (Nat × KCudfData) :=
  match (StdMap.find d.specv name).bind (fun m => StdMap.find m version) with
  | some k => do pure (← d.ptr k, d)
  | none => do
    let r := d.newDisjunctionObject version
    let d1 ← r.2.register r.1
    let d2 := d1.specvSet name version (← d1.getId r.1)
    let (all, d3) ← d2.getDisjunction (name ++ "-pvall")
    let d4 ← d3.addProvider r.1 (← d3.getId all)
    pure (r.1, d4)

/-- The method `KCudfData::solveConstraint`: the identifiers it appends. -/
def solveConstraint (d : KCudfData) (c : Vpkg) : List Nat :=
  match StdMap.find d.specv c.name with
  | some m => (m.filter (fun e => PkUnit.compatible c.name e.1 c)).map Prod.snd
  | none => []

/-- The key of a constraint that is not an equality: `name-pvany` when it is not
versioned, its serialisation otherwise. -/
def constraintKey (pr : Printer) (cs : Vpkg) : String :=
  if !cs.versioned then cs.name ++ "-pvany" else pr.serialize cs

/-- The method `KCudfData::getDepDisjunction`. -/
def getDepDisjunction (pr : Printer) (d : KCudfData) (cs : Vpkg) :
    Except Failure (Nat × KCudfData) :=
  if cs.rel = ROP_EQ then throw Failure.assertion
  else
    match StdMap.find d.constv (constraintKey pr cs) with
    | none => do
      let (p, d1) ← d.newDisjunction (constraintKey pr cs)
      let d2 ← (d1.solveConstraint cs).foldlM (fun d x => d.addProvider p x) d1
      match StdMap.find d2.constv (cs.name ++ "-pvall") with
      | some k => do
        let d3 ← d2.addProvider p (← d2.getId (← d2.ptr k))
        pure (p, d3)
      | none => pure (p, d2)
    | some k => do pure (← d.ptr k, d)

/-- The method `KCudfData::getDisjunction(const Vpkg&)`. -/
def getDisjunctionOf (pr : Printer) (d : KCudfData) (cs : Vpkg) :
    Except Failure (Nat × KCudfData) :=
  if cs.rel = ROP_EQ then throw Failure.assertion
  else
    match StdMap.find d.constv (constraintKey pr cs) with
    | none => do
      let (p, d1) ← d.newDisjunction (constraintKey pr cs)
      let d2 ← (d1.solveConstraint cs).foldlM (fun d x => d.addProvider p x) d1
      pure (p, d2)
    | some k => do pure (← d.ptr k, d)

/-- The method `KCudfData::pairwiseConflicting`. -/
def pairwiseConflicting (d : KCudfData) (s : IdSet) : Except Failure KCudfData :=
  s.foldlM (fun d p =>
    s.foldlM (fun d q =>
      if p ≠ q then do d.addConflict (← d.ptr p) q else pure d) d) d

end KCudfData

/-! ## kcudf.cpp: the passes of the translator over the document -/

namespace KCudfData

/-- The body of the loop of `KCudfData::processConcretePackages`. -/
def processConcretePackage (d : KCudfData) (pi : CudfPackage) : Except Failure KCudfData := do
  let (p, d) ← d.newSelfPackage pi.name pi.installed pi.version
  if ((StdMap.find d.concrete pi.name).bind (fun m => StdMap.find m pi.version)).isSome then
    throw Failure.assertion
  else do
    let d := d.concreteSet pi.name pi.version (← d.getId p)
    let d ← d.register p
    let (dj, d) := d.newDisjunctionObject (-1)
    let d ← d.addDependency p (← d.getId dj)
    let d ← d.addProvider dj (← d.getId p)
    let d ← d.register dj
    let (all, d) ← d.getDisjunction (pi.name ++ "-pvall")
    let d ← d.addProvider dj (← d.getId all)
    let d ← d.addDependency all (← d.getId dj)
    let d ← d.register all
    let d := d.specvSet pi.name pi.version (← d.getId dj)
    if pi.installed then do
      let (any, d) ← d.getDisjunction (pi.name ++ "-pvany")
      let d ← d.addProvider any (← d.getId all)
      d.addDependency all (← d.getId any)
    else pure d

/-- The method `KCudfData::processConcretePackages`. -/
def processConcretePackages (d : KCudfData) (doc : CudfDoc) : Except Failure KCudfData :=
  doc.getPackages.foldlM processConcretePackage d

/-- The body of the loop of `KCudfData::processInstalledPackages`. -/
def processInstalledPackage (d : KCudfData) (pi : CudfPackage) : Except Failure KCudfData := do
  let (pi_id, d) := d.specvAt pi.name pi.version
  match StdMap.find d.constv (pi.name ++ "-pvany") with
  | some k => do
    let dsj ← d.ptr k
    let d ← d.addProvider dsj pi_id
    let p ← d.ptr pi_id
    d.addDependency p (← d.getId dsj)
  | none => pure d

/-- The method `KCudfData::processInstalledPackages`. -/
def processInstalledPackages (d : KCudfData) (doc : CudfDoc) : Except Failure KCudfData :=
  doc.getPackages.foldlM processInstalledPackage d

/-- The body of the loop of `KCudfData::processEqualityConstraints` over the
packages. -/
def processEqualityPackage (d : KCudfData) (pi : CudfPackage) : Except Failure KCudfData := do
  let (cpi_id, d) := d.concreteAt pi.name pi.version
  let (pi_id, d) := d.specvAt pi.name pi.version
  let d ←
    if pi.keep = KP_VERSION then
      if !pi.installed then throw Failure.assertion
      else do
        let p ← d.ptr pi_id
        let d ← d.markInstall p true
        d.markKeep p true
    else pure d
  let d ← pi.conflicts.foldlM (fun d vpki =>
    if vpki.rel = ROP_EQ then do
      let (p, d) ← d.addDisjunction vpki.name vpki.version
      d.addConflict (← d.ptr cpi_id) (← d.getId p)
    else pure d) d
  let d ← pi.depends.foldlM (fun d cni =>
    cni.foldlM (fun d djj =>
      if djj.rel = ROP_EQ then do
        let (p, d) ← d.addDepDisjunction djj.name djj.version
        d.addDependency (← d.ptr cpi_id) (← d.getId p)
      else pure d) d) d
  pi.provides.foldlM (fun d vpki =>
    if vpki.rel = ROP_EQ then do
      let (p, d) ← d.addDisjunction vpki.name vpki.version
      if (← d.isConcrete p) then throw Failure.assertion
      else do
        let d ← d.addProvider p cpi_id
        let d ← d.addDependency (← d.ptr cpi_id) cpi_id
        let (al, d) ← d.getDisjunction (vpki.name ++ "-pvall")
        let d ← d.addProvider p (← d.getId al)
        d.addDependency al (← d.getId p)
    else pure d) d

/-- The loops of `KCudfData::processEqualityConstraints` over the request. -/
def processEqualityRequest (d : KCudfData) (vpks : List Vpkg) : Except Failure KCudfData :=
  vpks.foldlM (fun d vpk =>
    if vpk.rel = ROP_EQ then do
      let (_, d) ← d.addDisjunction vpk.name vpk.version
      pure d
    else pure d) d

/-- The method `KCudfData::processEqualityConstraints`. -/
def processEqualityConstraints (d : KCudfData) (doc : CudfDoc) : Except Failure KCudfData := do
  let d ← doc.getPackages.foldlM processEqualityPackage d
  let d ← d.processEqualityRequest doc.reqToInstall
  d.processEqualityRequest doc.reqToRemove

/-- The body of the loop of `KCudfData::processProvides`.  The pointer `cpi_pkg`
is `packages[cpi_id]`, read where it is used. -/
def processProvidesPackage (d : KCudfData) (pi : CudfPackage) : Except Failure KCudfData := do
  let (cpi_id, d) := d.concreteAt pi.name pi.version
  pi.provides.foldlM (fun d vpki =>
    if vpki.versioned then
      if vpki.rel ≠ ROP_EQ then throw Failure.InvalidProvide
      else pure d
    else do
      let (all, d) ← d.getDisjunction (vpki.name ++ "-pvall")
      let d ← d.addProvider all cpi_id
      d.addDependency (← d.ptr cpi_id) (← d.getId all)) d

/-- The method `KCudfData::processProvides`. -/
def processProvides (d : KCudfData) (doc : CudfDoc) : Except Failure KCudfData :=
  doc.getPackages.foldlM processProvidesPackage d

/-- The dependency of the package `cpi_pkg` on a disjunction `cni` of more than
one term, whose key was not there: the branch `else` of `constv.count(s) > 0`
in `KCudfData::processRangeConstraints`. -/
def newDependencyDisjunction (pr : Printer) (d : KCudfData) (cpi_pkg : Nat) (cni : List Vpkg) :
    Except Failure KCudfData := do
  let (p, d) ← d.newDisjunction (pr.printList cni)
  let d ← cni.foldlM (fun d djj =>
    let ts := if !djj.versioned then djj.name ++ "-pvany" else pr.serialize djj
    match StdMap.find d.constv ts with
    | some k => d.addProvider p k
    | none =>
      if d.specvHas djj.name djj.version then
        let r := d.specvAt djj.name djj.version
        r.2.addProvider p r.1
      else throw Failure.assertion) d
  d.addDependency cpi_pkg (← d.getId p)

/-- One term `cni` of the conjunction `depends` of the package `cpi_pkg` in
`KCudfData::processRangeConstraints`. -/
def processRangeDependency (pr : Printer) (cpi_pkg : Nat) (d : KCudfData) (cni : List Vpkg) :
    Except Failure KCudfData := do
  let d ← cni.foldlM (fun d djj =>
    if djj.rel ≠ ROP_EQ then do
      let (_, d) ← getDepDisjunction pr d djj
      pure d
    else pure d) d
  if cni.length > 1 then
    match StdMap.find d.constv (pr.printList cni) with
    | some k => d.addDependency cpi_pkg k
    | none => newDependencyDisjunction pr d cpi_pkg cni
  else
    match cni with
    | [] => throw Failure.undefined
    | vcni :: _ =>
      match StdMap.find d.constv
          (if vcni.versioned then pr.print vcni else vcni.name ++ "-pvany") with
      | some k => d.addDependency cpi_pkg k
      | none =>
        match StdMap.find d.specv vcni.name with
        | none => throw Failure.assertion
        | some int_map =>
          match StdMap.find int_map vcni.version with
          | none => throw Failure.assertion
          | some k => d.addDependency cpi_pkg k

/-- The body of the loop of `KCudfData::processRangeConstraints`. -/
def processRangePackage (pr : Printer) (doc : CudfDoc) (d : KCudfData) (pi : CudfPackage) :
    Except Failure KCudfData := do
  let (cpi_id, d) := d.concreteAt pi.name pi.version
  let cpi_pkg ← d.ptr cpi_id
  let d ← pi.conflicts.foldlM (fun d vpki =>
    if vpki.rel ≠ ROP_EQ then do
      let (d_any, d) ← getDepDisjunction pr d vpki
      let (dj, d) ← d.getDisjunction
        (vpki.name ++ "-any\\" ++ pi.name ++ "=" ++ toString pi.version)
      let d ← d.addProvider dj (← d.getId d_any)
      let d ← d.addBut dj cpi_id
      d.addConflict cpi_pkg (← d.getId dj)
    else pure d) d
  let d ← pi.depends.foldlM (processRangeDependency pr cpi_pkg) d
  let d ← doc.reqToInstall.foldlM (fun d vpk =>
    if vpk.rel ≠ ROP_EQ then do
      let (_, d) ← getDisjunctionOf pr d vpk
      pure d
    else pure d) d
  doc.reqToRemove.foldlM (fun d vpk =>
    if vpk.rel ≠ ROP_EQ then do
      let (_, d) ← getDisjunctionOf pr d vpk
      pure d
    else pure d) d

/-- The method `KCudfData::processRangeConstraints`. -/
def processRangeConstraints (pr : Printer) (d : KCudfData) (doc : CudfDoc) :
    Except Failure KCudfData :=
  doc.getPackages.foldlM (processRangePackage pr doc) d

/-- The method `KCudfData::fixInstallVirtuals`. -/
def fixInstallVirtuals (d : KCudfData) : Except Failure KCudfData :=
  d.constv.foldlM (fun d e => do
    let dj ← d.ptr e.2
    if (← d.isConcrete dj) then pure d
    else
      (← d.getProviders dj).foldlM (fun d i => do
        let pi ← d.ptr i
        if !(← d.isConcrete pi) then throw Failure.assertion
        else if (← d.markedInstall pi) then d.markInstall dj true
        else pure d) d) d

end KCudfData

/-! ## kcudf.cpp: the request and the constructor -/

/-- The statistics of a translation, `TranslatorStats`. -/
structure TranslatorStats where
  cp : Nat
  rd : Nat
  ed : Nat
  zp : Nat
  deriving DecidableEq, Repr

/-- The two sets of `KCudfData::processRequest`.  They are sets of pointers;
they are iterated in ascending order of the identifiers the objects were
created with. -/
structure Marks where
  toInstall : IdSet
  toUninstall : IdSet
  deriving DecidableEq, Repr

namespace KCudfData

/-- The case `KP_PACKAGE` of `KCudfData::processRequest`. -/
def keepPackage (d : KCudfData) (dsj : DTNode) (ms : Marks) (pi : CudfPackage) :
    Except Failure (KCudfData × DTNode × Marks) := do
  let r := StdMap.index d.concrete pi.name []
  let d := { d with concrete := r.2 }
  let range := IdSet.ofList (r.1.map Prod.snd)
  if range.length > 1 then
    if StdMap.has d.constv (pi.name ++ "-keep-pkg") then pure (d, dsj, ms)
    else do
      let (dj, d) ← d.getDisjunction (pi.name ++ "-keep-pkg")
      let d ← range.foldlM (fun d i => d.addProvider dj i) d
      let d ← d.flat dj
      let res := dsj.addDisjunction (← d.getId dj) (← d.getProviders dj)
      let d ← if res.1 ≠ (← d.getId dj) then do d.setForward dj (← d.ptr res.1) else pure d
      pure (d, res.2, { ms with toInstall := ms.toInstall.insert dj })
  else do
    let (k, d) := d.concreteAt pi.name pi.version
    pure (d, dsj, { ms with toInstall := ms.toInstall.insert (← d.ptr k) })

/-- The case `KP_FEATURE` of `KCudfData::processRequest`. -/
def keepFeature (d : KCudfData) (ms : Marks) (pi : CudfPackage) :
    Except Failure (KCudfData × Marks) :=
  if pi.provides.length = 0 then throw Failure.assertion
  else
    pi.provides.foldlM (fun (s : KCudfData × Marks) vpki =>
      if vpki.versioned && vpki.rel = ROP_EQ then
        if !s.1.specvHas vpki.name vpki.version then throw Failure.assertion
        else do
          let (k, d) := s.1.specvAt vpki.name vpki.version
          pure (d, { s.2 with toInstall := s.2.toInstall.insert (← d.ptr k) })
      else if vpki.versioned then throw Failure.assertion
      else
        match StdMap.find s.1.constv (vpki.name ++ "-pvany") with
        | none => throw Failure.assertion
        | some k => do
          pure (s.1, { s.2 with toInstall := s.2.toInstall.insert (← s.1.ptr k) })) (d, ms)

/-- The first loop of `KCudfData::processRequest`: the keep constraints of one
package. -/
def processKeep (s : KCudfData × DTNode × Marks) (pi : CudfPackage) :
    Except Failure (KCudfData × DTNode × Marks) :=
  match pi.keep with
  | KP_PACKAGE => keepPackage s.1 s.2.1 s.2.2 pi
  | KP_FEATURE => do
    let (d, ms) ← keepFeature s.1 s.2.2 pi
    pure (d, s.2.1, ms)
  | KP_VERSION => do
    let (k, d) := s.1.concreteAt pi.name pi.version
    if !(← d.markedKeep (← d.ptr k)) then throw Failure.assertion
    else
      let (k, d) := d.concreteAt pi.name pi.version
      if !(← d.markedInstall (← d.ptr k)) then throw Failure.assertion
      else pure (d, s.2.1, s.2.2)
  | KP_NONE => pure s

/-- The loop over the versions of the name, from the highest down, in the
upgrade of `vpk`: the range, the flag `interested` and the packages to
uninstall. -/
def upgradeRange (d : KCudfData) (vpk : Vpkg) (int_map : StdMap Int Nat) (ms : Marks) :
    Except Failure (IdSet × Bool × Marks) :=
  int_map.reverse.foldlM (fun (s : IdSet × Bool × Marks) e => do
    let p ← d.ptr e.2
    let curr_version := toUnsigned (← d.getVersion p)
    if curr_version = 0 then throw Failure.assertion
    else if PkUnit.compatible vpk.name (toSigned curr_version) vpk && s.2.1 then do
      pure (s.1.insert (← d.getId p), !(← d.markedInstall p), s.2.2)
    else
      pure (s.1, s.2.1, { s.2.2 with toUninstall := s.2.2.toUninstall.insert p }))
    ([], true, ms)

/-- The body of the loop of `KCudfData::processRequest` over the upgrades. -/
def processUpgrade (pr : Printer) (s : KCudfData × DTNode × Marks) (vpk : Vpkg) :
    Except Failure (KCudfData × DTNode × Marks) := do
  let (upg, d) := s.1.newDisjunctionObject (-1)
  let d ← d.register upg
  if StdMap.has d.constv (pr.serialize vpk ++ "-req-upg") then pure (d, s.2.1, s.2.2)
  else do
    let ms ←
      match StdMap.find d.constv (vpk.name ++ "-pvall") with
      | some k => do
        let p ← d.ptr k
        if (← d.markedInstall p) then throw Failure.FailedRequest
        else pure { s.2.2 with toUninstall := s.2.2.toUninstall.insert p }
      | none => pure s.2.2
    match StdMap.find d.specv vpk.name with
    | none => throw Failure.assertion
    | some int_map => do
      let (range, _, ms) ← d.upgradeRange vpk int_map ms
      let d ← d.pairwiseConflicting range
      let (tmp, d) := d.newDisjunctionObject (-1)
      let d ← range.foldlM (fun d i => d.addProvider tmp i) d
      let d ← d.flat tmp
      let res := s.2.1.addDisjunction (← d.getId tmp) (← d.getProviders tmp)
      let d ←
        if res.1 ≠ (← d.getId tmp) then d.addProvider upg res.1
        else do
          let d ← d.register tmp
          d.addProvider upg (← d.getId tmp)
      pure (d, res.2, { ms with toInstall := ms.toInstall.insert upg })

/-- The loop of `KCudfData::processRequest` over the packages to install. -/
def processInstall (pr : Printer) (s : KCudfData × Marks) (vpk : Vpkg) :
    Except Failure (KCudfData × Marks) :=
  if vpk.rel = ROP_EQ then
    if !StdMap.has s.1.specv vpk.name then throw Failure.assertion
    else do
      let (k, d) := s.1.specvAt vpk.name vpk.version
      pure (d, { s.2 with toInstall := s.2.toInstall.insert (← d.ptr k) })
  else
    match StdMap.find s.1.constv (constraintKey pr vpk) with
    | none => throw Failure.assertion
    | some k => do
      pure (s.1, { s.2 with toInstall := s.2.toInstall.insert (← s.1.ptr k) })

/-- The loop of `KCudfData::processRequest` over the packages to remove. -/
def processRemove (pr : Printer) (s : KCudfData × Marks) (vpk : Vpkg) :
    Except Failure (KCudfData × Marks) :=
  if vpk.rel = ROP_EQ then
    if !StdMap.has s.1.specv vpk.name then throw Failure.assertion
    else do
      let (k, d) := s.1.specvAt vpk.name vpk.version
      pure (d, { s.2 with toUninstall := s.2.toUninstall.insert (← d.ptr k) })
  else
    match StdMap.find s.1.constv (pr.serialize vpk) with
    | none => throw Failure.assertion
    | some k => do
      pure (s.1, { s.2 with toUninstall := s.2.toUninstall.insert (← s.1.ptr k) })

/-- The two loops `Mark packages` that end `KCudfData::processRequest`. -/
def markPackages (d : KCudfData) (ms : Marks) : Except Failure KCudfData := do
  let d ← ms.toInstall.foldlM (fun d i => do
    if (← d.markedKeep i) && !(← d.markedInstall i) then throw Failure.FailedRequest
    else do
      let d ← d.markInstall i true
      d.markKeep i true) d
  ms.toUninstall.foldlM (fun d i => do
    let d ← d.markInstall i false
    d.markKeep i true) d

/-- The method `KCudfData::processRequest`: the data and the trie after it. -/
def processRequest (pr : Printer) (d : KCudfData) (doc : CudfDoc) (dsj : DTNode) :
    Except Failure (KCudfData × DTNode) := do
  let s ← doc.getPackages.foldlM processKeep (d, dsj, { toInstall := [], toUninstall := [] })
  let s ← doc.reqToUpgrade.foldlM (processUpgrade pr) s
  let t ← doc.reqToInstall.foldlM (processInstall pr) (s.1, s.2.2)
  let t ← doc.reqToRemove.foldlM (processRemove pr) t
  let d ← t.1.markPackages t.2
  pure (d, s.2.1)

/-- The method `KCudfData::installedProviders`. -/
def installedProviders (d : KCudfData) (k : Nat) : Except Failure Nat := do
  let p ← d.ptr k
  if (← d.isConcrete p) then do pure (if (← d.markedInstall p) then 1 else 0)
  else do
    (← d.getProviders p).foldlM (fun (c : Nat) pv => do
      let q ← d.ptr pv
      if !(← d.isConcrete q) then throw Failure.assertion
      else pure (if (← d.markedInstall q) then uinc c else c)) 0

/-- The body of the loop of `KCudfData::consistent`: the counter `inst`, the set
`done` and the list `conPackages_`. -/
def consistentStep (d : KCudfData) (s : Nat × IdSet × List Nat) (e : Nat × Nat) :
    Except Failure (Nat × IdSet × List Nat) := do
  let pi_id ← d.getId e.2
  if (← d.isConcrete e.2) && !decide (pi_id ∈ s.2.1) then do
    let rp ← d.ptr (← d.getId e.2)
    if !(← d.isConcrete rp) then throw Failure.assertion
    else do
      let s1 ←
        if (← d.markedInstall rp) then do
          let dep_cons ← (← d.getDependencies rp).foldlM (fun (b : Bool) k => do
            pure (if (← d.installedProviders k) = 0 then false else b)) true
          if dep_cons then do
            let cnf_cons ← (← d.getConflicts rp).foldlM (fun (b : Bool) k => do
              pure (if (← d.installedProviders k) ≠ 0 then false else b)) true
            let id ← d.getId rp
            pure (uinc s.1, if cnf_cons then s.2.2 ++ [id] else s.2.2)
          else pure (uinc s.1, s.2.2)
        else pure (s.1, s.2.2)
      pure (s1.1, s.2.1.insert (← d.getId rp), s1.2)
  else pure s

/-- The method `KCudfData::consistent`: its value and the data, whose member
`conPackages_` it fills. -/
def consistent (d : KCudfData) : Except Failure (Bool × KCudfData) := do
  let s ← d.packages.foldlM (consistentStep d) (0, [], d.conPackages_)
  pure (decide (s.1 = s.2.2.length), { d with conPackages_ := s.2.2 })

/-- The loop `fill in bigPackages` that ends the constructor. -/
def fillBigPackages (d : KCudfData) : Except Failure KCudfData :=
  d.packages.foldlM (fun d e => do
    if (← d.isConcrete e.2) && (← d.markedInstall e.2) then do
      let rp ← d.ptr (← d.getId e.2)
      let o ← d.obj rp
      match o.nm with
      | none => throw Failure.undefined
      | some name =>
        match StdMap.find d.constv (name ++ "-pvany") with
        | none => throw Failure.assertion
        | some k => do
          let dj ← d.ptr k
          pure { d with
            crtPackages_ := d.crtPackages_ ++ [← d.getId rp]
            bigPackages_ := d.bigPackages_.insert (← d.getId dj) }
    else pure d) d

/-- The loop `Flat all the disjunction packages` of the constructor. -/
def flatAll (d : KCudfData) : Except Failure KCudfData :=
  d.packages.foldlM (fun d e => do
    if !(← d.isConcrete e.2) then d.flat e.2 else pure d) d

/-- The first loop of `Try to compress disjunctions`: the concrete packages
enter the trie. -/
def internConcretes (d : KCudfData) (dt : DTNode) : Except Failure DTNode :=
  d.packages.foldlM (fun dt e => do
    if (← d.isConcrete e.2) then do
      let id ← d.getId e.2
      let res := dt.addDisjunction (← d.getId e.2) (IdSet.insert [] id)
      if res.1 ≠ id then throw Failure.assertion else pure res.2
    else pure dt) dt

/-- The second loop of `Try to compress disjunctions`: the data, the trie and
the counter `compressed`. -/
def compress (d : KCudfData) (dt : DTNode) : Except Failure (KCudfData × DTNode × Nat) :=
  d.packages.foldlM (fun (s : KCudfData × DTNode × Nat) e => do
    if !(← s.1.isConcrete e.2) then do
      let res := s.2.1.addDisjunction (← s.1.getId e.2) (← s.1.getProviders e.2)
      if res.1 ≠ (← s.1.getId e.2) then do
        let d ← s.1.setForward e.2 (← s.1.ptr res.1)
        pure (d, res.2, uinc s.2.2)
      else pure (s.1, res.2, s.2.2)
    else pure s) (d, dt, 0)

/-- The loop of the constructor over the disjunctions without provider: the data
and the counter `zero_prov`. -/
def zeroProviders (d : KCudfData) : Except Failure (KCudfData × Nat) :=
  d.packages.foldlM (fun (s : KCudfData × Nat) e => do
    if !(← s.1.isConcrete e.2) then do
      let n := (← s.1.getProviders e.2).length
      if n = 1 then throw Failure.assertion
      else if n = 0 then do
        let d ← s.1.markInstall e.2 false
        let d ← d.markKeep e.2 true
        pure (d, uinc s.2)
      else pure s
    else pure s) (d, 0)

/-- The constructor `KCudfData::KCudfData(const CudfDoc&, TranslatorStats&)` up to
the call of `processRequest`, the counter `Package::next_id` being `n` when it
starts: the data, the trie and the counters `compressed` and `zero_prov`. -/
def beforeRequest (pr : Printer) (n : Nat) (doc : CudfDoc) :
    Except Failure (KCudfData × DTNode × Nat × Nat) := do
  let d ← (KCudfData.empty n).processConcretePackages doc
  let d ← d.processInstalledPackages doc
  let d ← d.processEqualityConstraints doc
  let d ← d.processProvides doc
  let d ← processRangeConstraints pr d doc
  let d ← d.flatAll
  let dt ← d.internConcretes DTNode.create
  let (d, dt, compressed) ← d.compress dt
  let (d, zero_prov) ← d.zeroProviders
  let d ← d.fixInstallVirtuals
  pure (d, dt, compressed, zero_prov)

/-- The end of the constructor, after `processRequest`. -/
def complete (d : KCudfData) (compressed zero_prov : Nat) :
    Except Failure (KCudfData × TranslatorStats) := do
  let d ← d.fixInstallVirtuals
  let (_, d) ← d.consistent
  let disj ← d.packages.foldlM (fun (n : Nat) e => do
    pure (if !(← d.isConcrete e.2) then uinc n else n)) 0
  let d ← d.fillBigPackages
  pure (d, { cp := d.concrete.length % UINT, rd := disj, ed := compressed, zp := zero_prov })

/-- The constructor `KCudfData::KCudfData(const CudfDoc&, TranslatorStats&)`, the
counter `Package::next_id` being `n` when it starts: the data and the
statistics. -/
def create (pr : Printer) (n : Nat) (doc : CudfDoc) :
    Except Failure (KCudfData × TranslatorStats) := do
  let (d, dt, compressed, zero_prov) ← beforeRequest pr n doc
  let (d, _) ← processRequest pr d doc dt
  d.complete compressed zero_prov

end KCudfData

/-! ## swriter.cpp and kcudf.cpp: the KCUDF codec -/

/-- A call of one of the four methods of a `KCudfWriter`: the event and the
description `desc`. -/
structure Call where
  ev : Event
  desc : String
  deriving DecidableEq, Repr

/-- A call of `KCudfInfoWriter::package(id, version, name)`. -/
structure InfoCall where
  id : Nat
  version : Nat
  name : String
  deriving DecidableEq, Repr

/-- The digits `operator<<` writes for a value, in front of `acc`; `fuel` bounds
the number of digits. -/
def decimalFrom : Nat → Nat → List Char → List Char
  | 0, _, acc => acc
  | fuel + 1, n, acc =>
    if n < 10 then Char.ofNat (48 + n) :: acc
    else decimalFrom fuel (n / 10) (Char.ofNat (48 + n % 10) :: acc)

/-- What `operator<<` writes for an `unsigned int`. -/
def decimal (n : Nat) : List Char := decimalFrom (n + 1) n []

/-- What `operator<<` writes for an `int`. -/
def decimalInt (v : Int) : List Char :=
  if v < 0 then '-' :: decimal v.natAbs else decimal v.toNat

/-- The data of a `KCudfFileWriter`: the characters written to the stream `os` so
far and, in a debug build, the set `cons` of the packages declared. -/
structure KCudfFileWriter where
  os : List Char
  cons : IdSet

namespace KCudfFileWriter

/-- The writer right after construction. -/
def create : KCudfFileWriter := { os := [], cons := [] }

/-- The line `t id id2 # desc` of a relation. -/
def relation (t : Char) (id id2 : Nat) (desc : String) : List Char :=
  t :: ' ' :: (decimal id ++ ' ' :: (decimal id2 ++ " # ".toList ++ (desc.toList ++ ['\n'])))

/-- The line `P id K|k I|i # desc`. -/
def declaration (id : Nat) (keep install : Bool) (desc : String) : List Char :=
  'P' :: ' ' :: (decimal id ++ ' ' :: (if keep then 'K' else 'k') :: ' ' ::
    (if install then 'I' else 'i') :: (" # ".toList ++ (desc.toList ++ ['\n'])))

/-- The method `KCudfFileWriter::package`. -/
def package (w : KCudfFileWriter) (id : Nat) (keep install : Bool) (desc : String) :
    KCudfFileWriter :=
  { os := w.os ++ declaration id keep install desc, cons := w.cons.insert id }

/-- The method `KCudfFileWriter::dependency`, with the assertions of a debug
build. -/
def dependency (w : KCudfFileWriter) (id id2 : Nat) (desc : String) :
    Except Failure KCudfFileWriter :=
  if id ∉ w.cons then throw Failure.assertion
  else if id2 ∉ w.cons then throw Failure.assertion
  else if id ≠ id2 then pure { w with os := w.os ++ relation 'D' id id2 desc }
  else pure w

/-- The method `KCudfFileWriter::conflict`, with the assertions of a debug
build. -/
def conflict (w : KCudfFileWriter) (id id2 : Nat) (desc : String) :
    Except Failure KCudfFileWriter :=
  if id ∉ w.cons then throw Failure.assertion
  else if id2 ∉ w.cons then throw Failure.assertion
  else pure { w with os := w.os ++ relation 'C' id id2 desc }

/-- The method `KCudfFileWriter::provides`, with the assertions of a debug
build. -/
def provides (w : KCudfFileWriter) (id id2 : Nat) (desc : String) :
    Except Failure KCudfFileWriter :=
  if id ∉ w.cons then throw Failure.assertion
  else if id2 ∉ w.cons then throw Failure.assertion
  else pure { w with os := w.os ++ relation 'R' id id2 desc }

/-- The writer as a `KCudfWriter`: the method a call stands for. -/
def call (w : KCudfFileWriter) (c : Call) : Except Failure KCudfFileWriter :=
  match c.ev with
  | Event.package id keep install => pure (w.package id keep install c.desc)
  | Event.dependency id id2 => w.dependency id id2 c.desc
  | Event.conflict id id2 => w.conflict id id2 c.desc
  | Event.provides id id2 => w.provides id id2 c.desc

end KCudfFileWriter

/-- The method `KCudfInfoFileWriter::package`: the line it writes. -/
def InfoCall.line (c : InfoCall) : List Char :=
  decimal c.id ++ ' ' :: (decimal c.version ++ ' ' :: (c.name.toList ++ ['\n']))

/-- A writer that keeps the calls it receives, in order. -/
def Call.record (l : List Call) (c : Call) : Except Failure (List Call) := pure (l ++ [c])

/-- The reducer as a `KCudfWriter`: the method a call stands for; the assertions
of `GraphWriter` on its arguments fail for a package that was not declared. -/
def KCudfReducer.call (r : KCudfReducer) (c : Call) : Except Failure KCudfReducer :=
  match c.ev with
  | Event.package id keep install => pure (r.package id keep install)
  | Event.dependency id id2 =>
    match r.toGraphWriter.dependency id id2 with
    | some g => pure { r with toGraphWriter := g }
    | none => throw Failure.assertion
  | Event.conflict id id2 =>
    match r.toGraphWriter.conflict id id2 with
    | some g => pure { r with toGraphWriter := g }
    | none => throw Failure.assertion
  | Event.provides id id2 =>
    match r.toGraphWriter.provides_add id id2 with
    | some g => pure { r with toGraphWriter := g }
    | none => throw Failure.assertion

/-- How `read` fails: the stream is not readable, a line starts with an unknown
character (the exception `KCudfReaderInvalidStatement`, whose message holds the
line without its first character and the line number), or the writer fails. -/
inductive ReadFailure where
  | FailedStream
  | InvalidStatement (ln : Nat) (line : List Char)
  | writer (e : Failure)
  deriving DecidableEq, Repr

/-- The lines `std::getline` returns until the stream is no longer good: the
pieces between the line feeds, the last one included, be it empty. -/
def splitLines : List Char → List (List Char)
  | [] => [[]]
  | c :: cs =>
    if c = '\n' then [] :: splitLines cs
    else
      match splitLines cs with
      | l :: ls => (c :: l) :: ls
      | [] => [[c]]

/-- A `std::stringstream` that is read with `operator>>`: the characters left
and the fail bit. -/
structure Extract where
  rest : List Char
  failed : Bool
  deriving DecidableEq, Repr

/-- The white space `operator>>` skips. -/
def isSpace (c : Char) : Bool :=
  c = ' ' || c = '\t' || c = '\n' || c = '\r' || c = Char.ofNat 11 || c = Char.ofNat 12

/-- The characters after the leading white space. -/
def skipSpaces : List Char → List Char
  | [] => []
  | c :: cs => if isSpace c then skipSpaces cs else c :: cs

/-- The value of a decimal digit. -/
def digitOf (c : Char) : Option Nat :=
  if 48 ≤ c.toNat ∧ c.toNat ≤ 57 then some (c.toNat - 48) else none

/-- The digits at the front of the characters: the value accumulated, whether a
digit was seen, and the characters left. -/
def readDigits : List Char → Nat → Bool → Nat × Bool × List Char
  | [], acc, seen => (acc, seen, [])
  | c :: cs, acc, seen =>
    match digitOf c with
    | some v => readDigits cs (acc * 10 + v) true
    | none => (acc, seen, c :: cs)

/-- The extraction `ss >> x` of an `unsigned int`: the value of `x` after it, `old`
being its value before, and the stream.  A stream that has failed, or that holds
white space only, leaves `x` as it was; a field without digit stores 0 and a value
that does not fit stores the largest value, both with the fail bit; a minus sign
negates the value. -/
def Extract.unsigned (s : Extract) (old : Nat) : Nat × Extract :=
  if s.failed then (old, s)
  else
    match skipSpaces s.rest with
    | [] => (old, { rest := [], failed := true })
    | c :: cs =>
      let r := readDigits (if c = '-' ∨ c = '+' then cs else c :: cs) 0 false
      if !r.2.1 then (0, { rest := r.2.2, failed := true })
      else if UINT ≤ r.1 then (UINT - 1, { rest := r.2.2, failed := true })
      else (if c = '-' then (UINT - r.1) % UINT else r.1, { rest := r.2.2, failed := false })

/-- The extraction `ss >> c` of a `char`: the value of `c` after it, `old` being
its value before, and the stream. -/
def Extract.char (s : Extract) (old : Char) : Char × Extract :=
  if s.failed then (old, s)
  else
    match skipSpaces s.rest with
    | [] => (old, { rest := [], failed := true })
    | c :: cs => (c, { rest := cs, failed := false })

/-- The local variables `id`, `id2`, `keep` and `inst` of `read`, which keep their
values from one line to the next. -/
structure Registers where
  id : Nat
  id2 : Nat
  keep : Char
  inst : Char
  deriving DecidableEq, Repr

/-- A call of the writer inside `read`. -/
def ReadFailure.lift {σ : Type} (x : Except Failure σ) : Except ReadFailure σ :=
  match x with
  | Except.ok s => Except.ok s
  | Except.error e => Except.error (ReadFailure.writer e)

/-- The two extractions `ss >> id; ss >> id2;` of a relation. -/
def Registers.relation (regs : Registers) (text : List Char) : Registers :=
  let a := Extract.unsigned { rest := text, failed := false } regs.id
  let b := a.2.unsigned regs.id2
  { regs with id := a.1, id2 := b.1 }

/-- The three extractions `ss >> id; ss >> keep; ss >> inst;` of a package. -/
def Registers.declaration (regs : Registers) (text : List Char) : Registers :=
  let a := Extract.unsigned { rest := text, failed := false } regs.id
  let b := a.2.char regs.keep
  let c := b.2.char regs.inst
  { regs with id := a.1, keep := b.1, inst := c.1 }

/-- The body of the loop of `read` after `std::getline`, for the line `line`, whose
number is `ln`, and the writer `w`. -/
def readLine {σ : Type} (w : σ → Call → Except Failure σ) (ln : Nat) (line : List Char)
    (s : σ × Registers) : Except ReadFailure (σ × Registers) :=
  match line with
  | [] => pure s
  | t :: text =>
    if t = 'P' then
      let regs := s.2.declaration text
      (ReadFailure.lift (w s.1
        { ev := Event.package regs.id (regs.keep = 'K') (regs.inst = 'I'), desc := "" })).bind
        (fun s1 => (ReadFailure.lift (w s1
          { ev := Event.dependency regs.id regs.id, desc := "self-dep" })).bind
          (fun s2 => pure (s2, regs)))
    else if t = 'D' then
      let regs := s.2.relation text
      (ReadFailure.lift (w s.1 { ev := Event.dependency regs.id regs.id2, desc := "" })).bind
        (fun s1 => pure (s1, regs))
    else if t = 'C' then
      let regs := s.2.relation text
      (ReadFailure.lift (w s.1 { ev := Event.conflict regs.id regs.id2, desc := "" })).bind
        (fun s1 => pure (s1, regs))
    else if t = 'R' then
      let regs := s.2.relation text
      (ReadFailure.lift (w s.1 { ev := Event.provides regs.id regs.id2, desc := "" })).bind
        (fun s1 => pure (s1, regs))
    else if t = '#' then pure s
    else throw (ReadFailure.InvalidStatement ln text)

/-- The loop of `read` over the lines, `ln` being the number of lines read
before. -/
def readLines {σ : Type} (w : σ → Call → Except Failure σ) :
    Nat → List (List Char) → σ × Registers → Except ReadFailure (σ × Registers)
  | _, [], s => pure s
  | ln, line :: more, s =>
    (readLine w (uinc ln) line s).bind (readLines w (uinc ln) more)

/-- The function `read(input, wrt)`: `input` is `none` for a stream that has
failed and the characters of the stream otherwise, `regs` holds the values the
local variables start with, and `s` is the writer. -/
def read {σ : Type} (w : σ → Call → Except Failure σ) (input : Option (List Char))
    (regs : Registers) (s : σ) : Except ReadFailure σ :=
  match input with
  | none => throw ReadFailure.FailedStream
  | some text => (readLines w 0 (splitLines text) (s, regs)).map Prod.fst

/-- A line that `read` refuses: it is not empty and starts with none of `P`, `D`,
`C`, `R` and `#`. -/
def unknownStatement (line : List Char) : Bool :=
  match line with
  | [] => false
  | t :: _ => !(t = 'P' || t = 'D' || t = 'C' || t = 'R' || t = '#')

namespace KCudfTranslator

/-- One turn of the first loop of `KCudfTranslator::writePackages`, `debug` being
false: the set `done` and the calls of the two writers. -/
def writeConcrete (d : KCudfData) (s : IdSet × List Call × List InfoCall) (e : Nat × Nat) :
    Except Failure (IdSet × List Call × List InfoCall) := do
  let pi_id ← d.getId e.2
  if (← d.isConcrete e.2) && !decide (pi_id ∈ s.1) then do
    let rp ← d.ptr (← d.getId e.2)
    if !(← d.isConcrete rp) then throw Failure.assertion
    else do
      let o ← d.obj rp
      match o.nm with
      | none => throw Failure.undefined
      | some name => do
        let v ← d.getVersion rp
        let id ← d.getId rp
        let c : Call :=
          { ev := Event.package id (← d.markedKeep rp) (← d.markedInstall rp),
            desc := String.mk (decimalInt v) ++ name }
        pure (s.1.insert (← d.getId rp), s.2.1 ++ [c],
          s.2.2 ++ [{ id := id, version := toUnsigned v, name := name }])
  else pure s

/-- One turn of the second loop of `KCudfTranslator::writePackages`, `debug` being
false. -/
def writeArtificial (d : KCudfData) (s : IdSet × List Call × List InfoCall) (e : Nat × Nat) :
    Except Failure (IdSet × List Call × List InfoCall) := do
  let pi_id ← d.getId e.2
  if !(← d.isConcrete e.2) && !decide (pi_id ∈ s.1) then do
    let rp ← d.ptr (← d.getId e.2)
    let id ← d.getId rp
    let c : Call :=
      { ev := Event.package id (← d.markedKeep rp) (← d.markedInstall rp), desc := "" }
    pure (s.1.insert (← d.getId rp), s.2.1 ++ [c],
      s.2.2 ++ [{ id := id, version := 999, name := "" }])
  else pure s

/-- The method `KCudfTranslator::writePackages`, `debug` being false: the calls of
the writer and of the info writer. -/
def writePackages (d : KCudfData) : Except Failure (List Call × List InfoCall) := do
  let s ← d.packages.foldlM (writeConcrete d) ([], [], [])
  let s ← d.packages.foldlM (writeArtificial d) s
  pure s.2

/-- The method `KCudfTranslator::writeDependencies`, `debug` being false. -/
def writeDependencies (d : KCudfData) : Except Failure (List Call) := do
  let s ← d.packages.foldlM (fun (s : IdSet × List Call) e => do
    let pi_id ← d.getId e.2
    if !decide (pi_id ∈ s.1) then do
      let rp ← d.ptr (← d.getId e.2)
      let id ← d.getId rp
      let out ← (← d.getDependencies rp).foldlM (fun (out : List Call) dep => do
        let p2 ← d.ptr dep
        pure (out ++ [{ ev := Event.dependency id (← d.getId p2), desc := "" }])) s.2
      pure (s.1.insert (← d.getId rp), out)
    else pure s) ([], [])
  pure s.2

/-- The method `KCudfTranslator::writeConflicts`, `debug` being false. -/
def writeConflicts (d : KCudfData) : Except Failure (List Call) := do
  let s ← d.packages.foldlM (fun (s : IdSet × List Call) e => do
    let pi_id ← d.getId e.2
    if !decide (pi_id ∈ s.1) then do
      let rp ← d.ptr (← d.getId e.2)
      let id ← d.getId rp
      let out ← (← d.getConflicts rp).foldlM (fun (out : List Call) c => do
        let p2 ← d.ptr c
        if id < (← d.getId p2) then
          pure (out ++ [{ ev := Event.conflict id (← d.getId p2), desc := "" }])
        else
          pure (out ++ [{ ev := Event.conflict (← d.getId p2) id, desc := "" }])) s.2
      pure (s.1.insert (← d.getId rp), out)
    else pure s) ([], [])
  pure s.2

/-- The method `KCudfTranslator::writeConcreteSelfProvided`, `debug` being
false. -/
def writeConcreteSelfProvided (d : KCudfData) : Except Failure (List Call) := do
  let s ← d.packages.foldlM (fun (s : IdSet × List Call) e => do
    let pi_id ← d.getId e.2
    if (← d.isConcrete e.2) && !decide (pi_id ∈ s.1) then do
      let rp ← d.ptr (← d.getId e.2)
      if !(← d.isConcrete rp) then throw Failure.assertion
      else do
        let id ← d.getId rp
        pure (s.1.insert (← d.getId rp),
          s.2 ++ [{ ev := Event.provides id (← d.getId rp), desc := "" }])
    else pure s) ([], [])
  pure s.2

/-- The method `KCudfTranslator::writeProvides`, `debug` being false. -/
def writeProvides (d : KCudfData) : Except Failure (List Call) := do
  let s ← d.packages.foldlM (fun (s : IdSet × List Call) e => do
    let pi_id ← d.getId e.2
    if !(← d.isConcrete e.2) && !decide (pi_id ∈ s.1) then do
      let rp ← d.ptr (← d.getId e.2)
      let id ← d.getId rp
      let out ← (← d.getProviders rp).foldlM (fun (out : List Call) pv => do
        let p2 ← d.ptr pv
        pure (out ++ [{ ev := Event.provides (← d.getId p2) id, desc := "" },
          { ev := Event.dependency (← d.getId p2) id, desc := "" }])) s.2
      pure (s.1.insert (← d.getId rp), out)
    else pure s) ([], [])
  pure s.2

/-- The method `KCudfTranslator::translate`, `dbg` being false: the calls of the
writer and of the info writer, in order. -/
def translate (d : KCudfData) : Except Failure (List Call × List InfoCall) := do
  let p ← writePackages d
  let deps ← writeDependencies d
  let confs ← writeConflicts d
  let self ← writeConcreteSelfProvided d
  let pvds ← writeProvides d
  pure (p.1 ++ deps ++ confs ++ self ++ pvds, p.2)

end KCudfTranslator

/-- The function `translate(doc, kcudf, info)` of `swriter.cpp`, the counter
`Package::next_id` being `n` when it starts: the characters of the two files and
the counter when it returns. -/
def translateFiles (pr : Printer) (n : Nat) (doc : CudfDoc) :
    Except Failure (List Char × List Char × Nat) := do
  let r ← KCudfData.create pr n doc
  let out ← KCudfTranslator.translate r.1
  let w ← out.1.foldlM KCudfFileWriter.call KCudfFileWriter.create
  pure (w.os, (out.2.map InfoCall.line).flatten, r.1.next_id)

/-- The values the local variables of `read` start with in the examples. -/
def Registers.zero : Registers := { id := 0, id2 := 0, keep := 'k', inst := 'i' }

/-- The reducer tool on the characters of a KCUDF file, without paranoid seeds and
with the identity as vertex order: `read` into a new reducer, then `reduce` with
at most `fuel` turns. -/
def reduceFile (fuel : Nat) (text : List Char) : Except ReadFailure (Option Reduced) :=
  (read KCudfReducer.call (some text) Registers.zero (KCudfReducer.create (fun x => x) [])).map
    (fun r => r.reduce fuel)

/-- The reducer after `read` on the characters of a KCUDF file, without paranoid
seeds and with the identity as vertex order; the empty reducer when `read`
fails. -/
def reducerOfFile (text : List Char) : KCudfReducer :=
  match read KCudfReducer.call (some text) Registers.zero (KCudfReducer.create (fun x => x) []) with
  | Except.ok r => r
  | Except.error _ => KCudfReducer.create (fun x => x) []

/-! ## reduce.cpp and kcudf.cpp: the paranoid seeds -/

/-- The loop of `KCudfTranslator::writeParanoid` over the list `search` that
`extraParanoid` has filled: every identifier, then `std::endl`. -/
def KCudfTranslator.writeParanoid (search : List Int) : List Char :=
  (search.map (fun i => decimalInt i ++ ['\n'])).flatten

/-- The extraction `ss >> x` of an `int`: the value of `x` after it, `old` being
its value before, and the stream.  A stream that has failed, or that holds white
space only, leaves `x` as it was; a field without digit stores 0 and a value that
does not fit stores the nearest bound, both with the fail bit. -/
def Extract.int (s : Extract) (old : Int) : Int × Extract :=
  if s.failed then (old, s)
  else
    match skipSpaces s.rest with
    | [] => (old, { rest := [], failed := true })
    | c :: cs =>
      let r := readDigits (if c = '-' ∨ c = '+' then cs else c :: cs) 0 false
      if !r.2.1 then (0, { rest := r.2.2, failed := true })
      else if c = '-' then
        if 2147483648 < r.1 then (-2147483648, { rest := r.2.2, failed := true })
        else (-(r.1 : Int), { rest := r.2.2, failed := false })
      else if 2147483647 < r.1 then (2147483647, { rest := r.2.2, failed := true })
      else ((r.1 : Int), { rest := r.2.2, failed := false })

/-- The method `std::set<int>::insert`; the order of the set is never observed. -/
def insertSeed (s : List Int) (x : Int) : List Int := if x ∈ s then s else s ++ [x]

/-- The loop of the constructor `KCudfReducer::KCudfReducer(std::istream&)` over
the lines `std::getline` returns: `package` is the value of the local variable,
which no line resets, and `seeds` the set `init_search`. -/
def paranoidLines : List (List Char) → Int → List Int → List Int
  | [], _, seeds => seeds
  | line :: more, package, seeds =>
    let r := Extract.int { rest := line, failed := false } package
    paranoidLines more r.1 (insertSeed seeds r.1)

/-- The set `init_search` the constructor `KCudfReducer::KCudfReducer(std::istream&)`
builds: `input` is `none` for a stream that is not good and the characters of the
stream otherwise, and `package` is the value the local variable `package`, which
is not initialised, happens to start with. -/
def paranoidSeeds (input : Option (List Char)) (package : Int) : List Int :=
  match input with
  | none => []
  | some text => paranoidLines (splitLines text) package []

/-- The constructor `KCudfReducer::KCudfReducer(std::istream&)`: the test
`init_search.count(p) > 0` of `KCudfReducer::package` converts the `unsigned int`
`p` to an `int`. -/
def KCudfReducer.createParanoid (addr : Nat → Nat) (input : Option (List Char))
    (package : Int) : KCudfReducer :=
  KCudfReducer.create addr ((paranoidSeeds input package).map toUnsigned)

/-! ## The constructor up to the check of the singletons -/

namespace KCudfData

/-- The constructor `KCudfData::KCudfData(const CudfDoc&, TranslatorStats&)` up to
the loop `Flat all the disjunction packages`: the data the passes over the
document leave. -/
def beforeFlatAll (pr : Printer) (n : Nat) (doc : CudfDoc) : Except Failure KCudfData := do
  let d ← (KCudfData.empty n).processConcretePackages doc
  let d ← d.processInstalledPackages doc
  let d ← d.processEqualityConstraints doc
  let d ← d.processProvides doc
  processRangeConstraints pr d doc

/-- The constructor `KCudfData::KCudfData(const CudfDoc&, TranslatorStats&)` up to
the loop over the disjunctions without provider, which checks the singletons:
the data, the trie and the counter `compressed`. -/
def beforeZeroProviders (pr : Printer) (n : Nat) (doc : CudfDoc) :
    Except Failure (KCudfData × DTNode × Nat) := do
  let d ← beforeFlatAll pr n doc
  let d ← d.flatAll
  let dt ← d.internConcretes DTNode.create
  d.compress dt

end KCudfData

/-! ## Properties of a translation -/

/-- The computation does not raise `KCudfInvalidProvide`. -/
structure Quiet {α : Type} (x : Except Failure α) : Prop where
  ne : x ≠ Except.error Failure.InvalidProvide

/-- The provides that `processProvides` refuses: versioned, with a relation other
than `=`. -/
def Vpkg.badProvide (v : Vpkg) : Prop := v.versioned = true ∧ v.rel ≠ ROP_EQ

/-- What holds of the result of a computation that returns. -/
structure Post {α : Type} (Q : α → Prop) (x : Except Failure α) : Prop where
  out : ∀ a, x = Except.ok a → Q a

/-- The values of a map of maps are below `n`, or 0, the value a read enters
under a missing key. -/
def StdMap.Vals (m : StdMap String (StdMap Int Nat)) (n : Nat) : Prop :=
  ∀ e ∈ m, ∀ f ∈ e.2, f.2 = 0 ∨ f.2 < n

/-- The values of the maps `specv` and `concrete` are below `n`, or 0. -/
def KCudfData.ValsBelow (d : KCudfData) (n : Nat) : Prop :=
  StdMap.Vals d.specv n ∧ StdMap.Vals d.concrete n

/-- The data while the document is read: an object is stored under its
identifier, below `next_id`, and is neither forwarded nor flat; a key of
`packages` is the pointer it takes to, and an object stands behind it. -/
def InvU (d : KCudfData) : Prop :=
  (∀ p o, d.heap p = some o →
    o.id = p ∧ p < d.next_id ∧ o.forwarded = false ∧ o.flt = false) ∧
  (∀ k p, (k, p) ∈ d.packages → k = p ∧ ∃ o, d.heap p = some o) ∧
  d.ValsBelow d.next_id

/-- The members of an object that forwarding, flattening and interning read. -/
def Package.skel (o : Package) : Nat × Option String × Bool × Option Nat × Bool × IdSet :=
  (o.id, o.nm, o.forwarded, o.fwd, o.flt, o.providers)

/-- Two states of the data with the same counter, the same map `packages` and
objects that differ at most in their flags, dependencies and conflicts. -/
def KCudfData.Same (d d1 : KCudfData) : Prop :=
  d1.next_id = d.next_id ∧ d1.packages = d.packages ∧
  ∀ p, (d1.heap p).map Package.skel = (d.heap p).map Package.skel

/-- The identifier `q` stands for a concrete package: the object is a
`SelfPackage`, or a `Disjunction` forwarded to one. -/
def KCudfData.Conc (d : KCudfData) (q : Nat) : Prop :=
  ∃ oq, d.heap q = some oq ∧
    (oq.nm.isSome = true ∨
      (oq.forwarded = true ∧ ∃ t c, oq.fwd = some t ∧ d.heap t = some c ∧ c.nm.isSome = true))

/-- The data and the trie from the flattening on: objects are stored under
their identifiers, below `next_id`, and a `SelfPackage` is not forwarded; the
keys of `packages` are pointers to objects; a forwarded object points to an
answer of the trie; an answer of the trie is an object that is not forwarded
and, when it is a `Disjunction`, is flat with the key as its providers; the
providers of a flat `Disjunction` stand for concrete packages. -/
def Inv (d : KCudfData) (dt : DTNode) : Prop :=
  (∀ p o, d.heap p = some o →
    o.id = p ∧ p < d.next_id ∧ (o.nm.isSome = true → o.forwarded = false)) ∧
  (∀ k p, (k, p) ∈ d.packages → k = p ∧ ∃ o, d.heap p = some o) ∧
  (∀ p o, d.heap p = some o → o.forwarded = true →
    ∃ q s, o.fwd = some q ∧ DTNode.find s dt = some q) ∧
  (∀ s w, DTNode.find s dt = some w →
    ∃ o, d.heap w = some o ∧ o.forwarded = false ∧
      (o.nm = none → o.flt = true ∧ o.providers = s)) ∧
  (∀ p o, d.heap p = some o → o.nm = none → o.flt = true → ∀ q ∈ o.providers, d.Conc q)

/-- The disjunctions among `S` that are flat and not forwarded are the answers
of the trie for their providers. -/
def Interned (d : KCudfData) (dt : DTNode) (S : Nat → Prop) : Prop :=
  ∀ p o, S p → d.heap p = some o → o.nm = none → o.forwarded = false → o.flt = true →
    DTNode.find o.providers dt = some p

/-- The registered disjunctions below `n` are flat. -/
def KCudfData.FltBelow (d : KCudfData) (n : Nat) : Prop :=
  ∀ k p o, (k, p) ∈ d.packages → p < n → d.heap p = some o → o.nm = none → o.flt = true

/-- Every registered disjunction is flat. -/
def KCudfData.AllFlt (d : KCudfData) : Prop :=
  ∀ k p o, (k, p) ∈ d.packages → d.heap p = some o → o.nm = none → o.flt = true

/-- The objects registered under the key `q` are not disjunctions that are still
to flatten. -/
def KCudfData.Settled (d : KCudfData) (q : Nat) : Prop :=
  ∀ x o, (q, x) ∈ d.packages → d.heap x = some o → o.nm = none → o.forwarded = false →
    o.flt = true

/-- The objects of `d` are in `d1`, with their identifiers, their names and
their forwards. -/
def KCudfData.Grows (d d1 : KCudfData) : Prop :=
  ∀ p o, d.heap p = some o → ∃ o1, d1.heap p = some o1 ∧ o1.id = o.id ∧ o1.nm = o.nm ∧
    (o.forwarded = true → o1.forwarded = true ∧ o1.fwd = o.fwd)

/-- The chain of forwards of `p` ends on the object `o` behind `t`. -/
def KCudfData.Res (d : KCudfData) (p t : Nat) (o : Package) : Prop :=
  d.target p = Except.ok t ∧ d.heap t = some o ∧ o.forwarded = false

/-- The values of the maps `specv` and `concrete` are below `n`, or 0. -/
def KCudfData.ValsOld (n : Nat) (d : KCudfData) : Prop := d.ValsBelow n

/-- What the method `flat` keeps: the counter, the map `packages`, the objects
with their names, and the flag `flt` where it is set. -/
def KCudfData.Flattens (d d1 : KCudfData) : Prop :=
  d1.next_id = d.next_id ∧ d1.packages = d.packages ∧
  ∀ q o, d.heap q = some o →
    ∃ o1, d1.heap q = some o1 ∧ o1.nm = o.nm ∧ (o.flt = true → o1.flt = true)

/-- The object a `new Disjunction` creates. -/
def Package.disjunction (id : Nat) (v : Int) : Package :=
  { install := false, keep := false, id := id, version := v, conflicts := [],
    dependencies := [], nm := none, forwarded := false, fwd := none,
    providers := [], conf_but := 0, has_but := false, flt := false }

/-- The data after a new disjunction was created and registered. -/
def KCudfData.IsNew (d d1 : KCudfData) (v : Int) : Prop :=
  d1.heap = setAt d.heap d.next_id (some (Package.disjunction d.next_id v)) ∧
  d1.next_id = d.next_id + 1 ∧
  d1.packages = StdMap.set d.packages d.next_id d.next_id ∧
  d1.specv = d.specv

/-- The invariant while the keep constraints of the packages are processed. -/
def KeepInv (n0 : Nat) (d : KCudfData) (dt : DTNode) : Prop :=
  Inv d dt ∧ Interned d dt (fun p => ∃ k, (k, p) ∈ d.packages) ∧ d.AllFlt ∧ n0 ≤ d.next_id

/-- Two states of an object with the same identifier, name and forward. -/
def Package.Like (o o1 : Package) : Prop :=
  o1.id = o.id ∧ o1.nm = o.nm ∧ o1.forwarded = o.forwarded ∧ o1.fwd = o.fwd

/-- What an offer of the disjunction `u` to the trie, and the forward that
follows it when another object is the answer, leave. -/
def Offered (d : KCudfData) (dt : DTNode) (S : Nat → Prop) (u : Nat) (o : Package)
    (d4 : KCudfData) : Prop :=
  Inv d4 (dt.addDisjunction u o.providers).2 ∧
  Interned d4 (dt.addDisjunction u o.providers).2 (fun q => S q ∨ q = u) ∧
  d4.next_id = d.next_id ∧ d4.packages = d.packages ∧
  (∀ q oq, d.heap q = some oq →
    ∃ oq1, d4.heap q = some oq1 ∧ oq1.nm = oq.nm ∧ oq1.flt = oq.flt) ∧
  (∀ q, d.heap q = none → d4.heap q = none)

/-- The invariant while the upgrades of the request are processed: the
registered disjunctions below `n1` are flat. -/
def UpgInv (n1 : Nat) (d : KCudfData) (dt : DTNode) : Prop :=
  Inv d dt ∧ Interned d dt (fun p => ∃ k, (k, p) ∈ d.packages) ∧ d.FltBelow n1 ∧
    n1 ≤ d.next_id

/-- The object `q`, when it is a disjunction that is not forwarded, is flat. -/
def KCudfData.Done (d : KCudfData) (q : Nat) : Prop :=
  ∀ o, d.heap q = some o → o.nm = none → o.forwarded = false → o.flt = true

/-- The objects are those numbered from `n` on, one after the other, up to the
counter `next_id`, which is the number of the next one. -/
def KCudfData.Dom (n : Nat) (d : KCudfData) : Prop :=
  n ≤ d.next_id ∧ ∀ p, (d.heap p).isSome = true ↔ (n ≤ p ∧ p < d.next_id)

/-! ## Observations on a run and predicates on calls -/

/-- What one reads off the end of `reduce`: the outcome, the search slice
and the states and `sp` counters of the packages `ps`. -/
def Reduced.summary (ps : List Nat) :
    Reduced → Option (RD_OUT × List Event × List (PKR_STATE × Nat))
  | Reduced.returned out _ search r => some (out, search, ps.map (fun p => (r.state p, r.sp p)))
  | Reduced.assertion _ => none

/-- The flags `install` and `keep`, the providers and the conflicts of the object
behind a pointer. -/
def KCudfData.look (d : KCudfData) (p : Nat) : Option (Bool × Bool × IdSet × IdSet) :=
  (d.heap p).map (fun o => (o.install, o.keep, o.providers, o.conflicts))

/-- The calls of `writeConflicts` are conflicts with the smaller identifier
first. -/
def Call.ordered (c : Call) : Prop := ∃ id id2, c.ev = Event.conflict id id2 ∧ id ≤ id2

/-- The digits `decimalFrom` writes, as numbers. -/
def digitsFrom : Nat → Nat → List Nat → List Nat
  | 0, _, acc => acc
  | fuel + 1, n, acc =>
    if n < 10 then n :: acc else digitsFrom fuel (n / 10) (n % 10 :: acc)

/-- A call whose identifiers are values of an `unsigned int` and whose
description holds no line feed. -/
def Call.sized (c : Call) : Prop :=
  '\n' ∉ c.desc.toList ∧
    match c.ev with
    | Event.package id _ _ => id < UINT
    | Event.dependency id id2 => id < UINT ∧ id2 < UINT
    | Event.conflict id id2 => id < UINT ∧ id2 < UINT
    | Event.provides id id2 => id < UINT ∧ id2 < UINT

/-- The call with an empty description, which is what `read` hands on for the
line of the call. -/
def Call.bare (c : Call) : Call := { c with desc := "" }

/-- The text without its descriptions, in the words of the round trip: each
line is kept up to its first `#` and the character after it, and what follows
on the line is dropped.  The state is 0 before the `#` of a line, 1 right after
it and 2 from then on. -/
def dropDescriptions : Nat → List Char → List Char
  | _, [] => []
  | st, c :: cs =>
    if c = '\n' then c :: dropDescriptions 0 cs
    else if st = 0 then c :: dropDescriptions (if c = '#' then 1 else 0) cs
    else if st = 1 then c :: dropDescriptions 2 cs
    else dropDescriptions 2 cs

/-- The identifiers of a call are numbers of objects created since the counter
`Package::next_id` was `n`: at least `n` and below `n1`, the counter now. -/
def Call.within (n n1 : Nat) (c : Call) : Prop :=
  match c.ev with
  | Event.package id _ _ => n ≤ id ∧ id < n1
  | Event.dependency id id2 => (n ≤ id ∧ id < n1) ∧ n ≤ id2 ∧ id2 < n1
  | Event.conflict id id2 => (n ≤ id ∧ id < n1) ∧ n ≤ id2 ∧ id2 < n1
  | Event.provides id id2 => (n ≤ id ∧ id < n1) ∧ n ≤ id2 ∧ id2 < n1

/-! ## The obligations of the output stage -/

/-- The obligations the output stage of `reduce` relies on are met or pending on
the list `l`: a `CI` package has a safe provider; no provider of a package in
`MI`, `CI` or `SR` without safe provider is `CU`; no dependency of an `SR` package
is `CU` and no conflict of an `SR` package is `CI`; unless a task of `l` is still
to bring this about. -/
def OutPending (g : GraphWriter) (st : Nat → PKR_STATE) (sp : Nat → Nat) (l : List task_t) :
    Prop :=
  (∀ p ∈ g.pkgs, st p = PKR_CI → sp p = 0 →
    (PK_USP, p) ∈ l ∨ (PK_CU, p) ∈ l ∨ (PK_UPD, p) ∈ l) ∧
  (∀ p ∈ g.pkgs, isSPI (st p) = true → sp p = 0 → ∀ q ∈ g.pvds_in p,
    st q ≠ PKR_CU ∨ (PK_CI, q) ∈ l ∨ (PK_USP, p) ∈ l ∨ (PK_UPD, p) ∈ l) ∧
  (∀ p ∈ g.pkgs, st p = PKR_SR → ∀ q ∈ g.deps_out p,
    st q ≠ PKR_CU ∨ (PK_CI, q) ∈ l ∨ (PK_UPD, p) ∈ l) ∧
  (∀ p ∈ g.pkgs, st p = PKR_SR → ∀ c ∈ g.confs_adj p,
    st c ≠ PKR_CI ∨ (PK_CU, c) ∈ l ∨ (PK_UPD, p) ∈ l)

namespace KCudfReducer

/-- The assertion of `incDeps` holds for every dependency of `pkg`. -/
def incDepsOk (r : KCudfReducer) (pkg : Nat) : Bool :=
  (r.dependencies pkg).all (fun p =>
    r.state p == PKR_SR || r.state p == PKR_CI || r.state p == PKR_MI)

/-- The assertion of `incConfs` holds for every conflict of `pkg`. -/
def incConfsOk (r : KCudfReducer) (pkg : Nat) : Bool :=
  (r.conflicts pkg).all (fun p =>
    r.state p == PKR_SR || r.state p == PKR_CU || r.state p == PKR_MU)

/-- The assertion of `incPvdrs` holds for every provider of `pkg`. -/
def incPvdrsOk (r : KCudfReducer) (pkg : Nat) : Bool :=
  (r.providers pkg).all (fun p => r.state p == PKR_SR || r.state p == PKR_MU)

/-- The assertions of the two loops of `reduce` hold: no package is in the state
`AB` or `FL`, and the calls of `incPvdrs`, `incDeps` and `incConfs` the second
loop makes pass their assertions. -/
def reduceChecks (r : KCudfReducer) : Bool :=
  r.packages.all (fun pkg =>
    match r.state pkg with
    | PKR_MI | PKR_CI =>
      (if r.sp pkg = 0 then r.incPvdrsOk pkg else true) && (r.incDepsOk pkg && r.incConfsOk pkg)
    | PKR_SR => r.incDepsOk pkg && r.incConfsOk pkg
    | PKR_MU | PKR_CU => true
    | _ => false)

end KCudfReducer

/-! ## The data when the singletons are checked -/

/-- The identifier `q` is the key and the pointer of a registered
`SelfPackage`. -/
def KCudfData.Sure (d : KCudfData) (q : Nat) : Prop :=
  (q, q) ∈ d.packages ∧ ∃ oq, d.heap q = some oq ∧ oq.nm.isSome = true

/-- The providers of a flat `Disjunction` are registered `SelfPackage`s. -/
def KCudfData.Strict (d : KCudfData) : Prop :=
  ∀ p o, d.heap p = some o → o.nm = none → o.flt = true → ∀ q ∈ o.providers, d.Sure q

/-- What interning keeps: the map `packages` and the objects with their names
and their flags `flt`, the providers of an object being among those it had. -/
def KCudfData.Shrinks (d d1 : KCudfData) : Prop :=
  d1.packages = d.packages ∧
  (∀ p o, d.heap p = some o → ∃ o1, d1.heap p = some o1 ∧ o1.nm = o.nm ∧ o1.flt = o.flt ∧
    ∀ q ∈ o1.providers, q ∈ o.providers) ∧
  (∀ p, d.heap p = none → d1.heap p = none)

/-- The answers of the trie `dt` are answers of `dt1`. -/
def DTNode.Below (dt dt1 : DTNode) : Prop :=
  ∀ s w, DTNode.find s dt = some w → DTNode.find s dt1 = some w

/-- The registered `SelfPackage`s are the answers of the trie for their
singletons. -/
def ConcIn (d : KCudfData) (dt : DTNode) : Prop :=
  ∀ q, d.Sure q → DTNode.find [q] dt = some q

/-- The data and the trie when the singletons are checked. -/
def Tight (d : KCudfData) (dt : DTNode) : Prop :=
  Inv d dt ∧ d.AllFlt ∧ Interned d dt (fun p => ∃ k, (k, p) ∈ d.packages) ∧ d.Strict ∧
    ConcIn d dt

/-! ## The leaves of a disjunction -/

/-- What holds of the result of a computation, which returns. -/
structure Returns {α : Type} (Q : α → Prop) (x : Except Failure α) : Prop where
  out : ∃ a, x = Except.ok a ∧ Q a

/-- Every provider of a disjunction is a key of the map `packages`. -/
def KCudfData.Linked (d : KCudfData) : Prop :=
  ∀ p o, d.heap p = some o → o.nm = none → ∀ q ∈ o.providers, ∃ x, (q, x) ∈ d.packages

/-- The provider relation among the disjunctions that are still to flatten is
acyclic: the rank `rk` falls from such a disjunction to each provider that is
one. -/
def KCudfData.Ranked (d : KCudfData) (rk : Nat → Nat) : Prop :=
  ∀ p o q oq, d.heap p = some o → o.nm = none → o.flt = false → q ∈ o.providers →
    d.heap q = some oq → oq.nm = none → oq.flt = false → rk q < rk p

/-- What the provider `q` stands for once it is flat: itself when it is a
`SelfPackage`, and its providers when it is a `Disjunction`. -/
def KCudfData.flatSet (d : KCudfData) (q : Nat) : IdSet :=
  match d.heap q with
  | some oq => if oq.nm.isSome then [q] else oq.providers
  | none => []

/-- The flattened provider set of the disjunction `p`, in the words of the
specification: the set it holds when the flag `flt` is set; otherwise its
providers, each `Disjunction` among them replaced by its own flattened provider
set, without the `but` of `p`.  The provider relation is followed `n` times. -/
def KCudfData.specLeaves : Nat → KCudfData → Nat → IdSet
  | 0, d, p =>
    match d.heap p with
    | some o => if o.flt then o.providers else []
    | none => []
  | n + 1, d, p =>
    match d.heap p with
    | some o =>
      if o.flt then o.providers
      else
        let s : IdSet := o.providers.flatMap (fun q =>
          match d.heap q with
          | some oq => if oq.nm.isSome then [q] else specLeaves n d q
          | none => [])
        if o.has_but then IdSet.erase s o.conf_but else s
    | none => []

/-- The data `d` is the data `d0` with some of its disjunctions flattened: their
providers are the flattened provider sets of the specification. -/
def KCudfData.FlatOf (rk : Nat → Nat) (d0 d : KCudfData) : Prop :=
  d.next_id = d0.next_id ∧ d.packages = d0.packages ∧
  (∀ q, d0.heap q = none → d.heap q = none) ∧
  ∀ q o, d0.heap q = some o →
    d.heap q = some o ∨
    (o.nm = none ∧ o.flt = false ∧
      ∃ ps, d.heap q = some { o with providers := ps, flt := true } ∧
        ∀ n, rk q < n → ∀ x, x ∈ ps ↔ x ∈ d0.specLeaves n q)

/-- The test of `Linked` on the objects below `next_id`. -/
def KCudfData.linked (d : KCudfData) : Bool :=
  (List.range d.next_id).all (fun p =>
    match d.heap p with
    | some o => o.nm.isSome || o.providers.all (fun q => StdMap.has d.packages q)
    | none => true)

/-- The test of `Ranked` on the objects below `next_id`. -/
def KCudfData.ranked (d : KCudfData) (rk : Nat → Nat) : Bool :=
  (List.range d.next_id).all (fun p =>
    match d.heap p with
    | some o =>
      o.nm.isSome || o.flt || o.providers.all (fun q =>
        match d.heap q with
        | some oq => oq.nm.isSome || oq.flt || decide (rk q < rk p)
        | none => true)
    | none => true)

/-! ## Examples -/

/-- A reducer after reading a disjunctive dependency: package 0 must be
installed and depends on package 1, which packages 2 and 3 provide. -/
def exampleSearch : KCudfReducer :=
  ((KCudfReducer.create (fun x => x) []).read
    [Stmt.P 0 true true, Stmt.P 1 false false, Stmt.P 2 false false, Stmt.P 3 false false,
      Stmt.R 0 0, Stmt.R 2 2, Stmt.R 3 3, Stmt.R 2 1, Stmt.R 3 1,
      Stmt.D 0 1, Stmt.D 2 1, Stmt.D 3 1]).getD (KCudfReducer.create (fun x => x) [])

/-- A reducer after reading two packages that must both be installed and are
in conflict. -/
def exampleFail : KCudfReducer :=
  ((KCudfReducer.create (fun x => x) []).read
    [Stmt.P 0 true true, Stmt.P 1 true true, Stmt.R 0 0, Stmt.R 1 1, Stmt.C 1 0]).getD
    (KCudfReducer.create (fun x => x) [])

/-- A reducer after reading an installed package that depends on a second
package and is in conflict with a third. -/
def exampleSolved : KCudfReducer :=
  ((KCudfReducer.create (fun x => x) []).read
    [Stmt.P 0 true true, Stmt.P 1 false false, Stmt.P 2 false true,
      Stmt.R 0 0, Stmt.R 1 1, Stmt.R 2 2, Stmt.D 0 1, Stmt.C 0 2]).getD
    (KCudfReducer.create (fun x => x) [])

/-- The text of a relational operator in a CUDF document. -/
def RelOp.text : RelOp → String
  | ROP_NOP => ""
  | ROP_EQ => "="
  | ROP_NEQ => "!="
  | ROP_GE => ">="
  | ROP_GT => ">"
  | ROP_LE => "<="
  | ROP_LT => "<"

/-- Printing functions for the examples: a versioned package is printed as its
name, its relation and its version, and a list with ` | ` between its terms. -/
def Printer.plain : Printer :=
  { serialize := fun v =>
      if v.versioned then v.name ++ v.rel.text ++ toString v.version else v.name
    print := fun v =>
      if v.versioned then v.name ++ v.rel.text ++ toString v.version else v.name
    printList := fun l =>
      " | ".intercalate (l.map (fun v =>
        if v.versioned then v.name ++ v.rel.text ++ toString v.version else v.name)) }

/-- The package `name` in version `version`, with nothing else said of it. -/
def CudfPackage.plain (name : String) (version : Int) (installed : Bool) : CudfPackage :=
  { name := name, version := version, installed := installed, keep := KP_NONE,
    depends := [], conflicts := [], provides := [] }

/-- The constraint `name rel version`. -/
def Vpkg.on (name : String) (rel : RelOp) (version : Int) : Vpkg :=
  { name := name, rel := rel, version := version, versioned := true }

/-- The constraint `name`, without a version. -/
def Vpkg.any (name : String) : Vpkg :=
  { name := name, rel := ROP_NOP, version := 0, versioned := false }

/-- The flags `install` and `keep` of the object behind a pointer. -/
def KCudfData.flags (d : KCudfData) (p : Nat) : Option (Bool × Bool) :=
  (d.heap p).map (fun o => (o.install, o.keep))

/-- A document with one package, `a` in version 1, installed with `keep:
version`, and an empty request. -/
def docKeepVersion : CudfDoc :=
  { getPackages := [{ CudfPackage.plain "a" 1 true with keep := KP_VERSION }],
    reqToInstall := [], reqToRemove := [], reqToUpgrade := [] }

/-- A document with one package, `a` in version 1, not installed, and the
request to install `a = 1` and to remove `a = 1`. -/
def docInstallRemove : CudfDoc :=
  { getPackages := [CudfPackage.plain "a" 1 false],
    reqToInstall := [Vpkg.on "a" ROP_EQ 1], reqToRemove := [Vpkg.on "a" ROP_EQ 1],
    reqToUpgrade := [] }

/-- A document with `x` in version 2, installed, and in version 3, and the
request to remove `x >= 2`. -/
def docRemove : CudfDoc :=
  { getPackages := [CudfPackage.plain "x" 2 true, CudfPackage.plain "x" 3 false],
    reqToInstall := [], reqToRemove := [Vpkg.on "x" ROP_GE 2], reqToUpgrade := [] }

/-- A document with one package, `a` in version 1, installed, and an empty
request. -/
def docSingle : CudfDoc :=
  { getPackages := [CudfPackage.plain "a" 1 true],
    reqToInstall := [], reqToRemove := [], reqToUpgrade := [] }

/-- A document with `a` in versions 1, installed, and 2, and the request to
upgrade `a` and to upgrade `a >= 1`. -/
def docUpgrade : CudfDoc :=
  { getPackages := [CudfPackage.plain "a" 1 true, CudfPackage.plain "a" 2 false],
    reqToInstall := [], reqToRemove := [],
    reqToUpgrade := [Vpkg.any "a", Vpkg.on "a" ROP_GE 1] }

/-- A document whose package `a` provides `b >= 1`. -/
def docBadProvide : CudfDoc :=
  { getPackages := [{ CudfPackage.plain "a" 1 true with provides := [Vpkg.on "b" ROP_GE 1] }],
    reqToInstall := [], reqToRemove := [], reqToUpgrade := [] }

/-- A document whose package `a`, not installed, carries `keep: version` and
provides `b >= 1`. -/
def docKeepBadProvide : CudfDoc :=
  { getPackages :=
      [{ CudfPackage.plain "a" 1 false with
          keep := KP_VERSION, provides := [Vpkg.on "b" ROP_GE 1] }],
    reqToInstall := [], reqToRemove := [], reqToUpgrade := [] }

/-- Three disjunctions: object 0 with the providers 1 and 5, a dependency and a
conflict; object 1 with the providers 5 and 6, installed; object 2, forwarded to
object 1. -/
def heapForward : KCudfData :=
  { KCudfData.empty 3 with
    heap := fun p =>
      if p = 0 then some
        { install := false, keep := false, id := 0, version := -1, conflicts := [9],
          dependencies := [7], nm := none, forwarded := false, fwd := none,
          providers := [1, 5], conf_but := 0, has_but := false, flt := true }
      else if p = 1 then some
        { install := true, keep := false, id := 1, version := -1, conflicts := [],
          dependencies := [8], nm := none, forwarded := false, fwd := none,
          providers := [5, 6], conf_but := 0, has_but := false, flt := true }
      else if p = 2 then some
        { install := false, keep := false, id := 2, version := -1, conflicts := [],
          dependencies := [3], nm := none, forwarded := true, fwd := some 1,
          providers := [5, 6], conf_but := 0, has_but := false, flt := true }
      else none
    packages := [(0, 0), (1, 1), (2, 2)] }

/-- A document with `a` in versions 1, installed, and 2, and a package `b` that
depends on `a >= 1`. -/
def docDepends : CudfDoc :=
  { getPackages := [CudfPackage.plain "a" 1 true, CudfPackage.plain "a" 2 false,
      { CudfPackage.plain "b" 1 false with depends := [[Vpkg.on "a" RelOp.ROP_GE 1]] }],
    reqToInstall := [], reqToRemove := [], reqToUpgrade := [] }

/-- The data and the statistics the constructor returns for a document, with the
plain printer and the counter `Package::next_id` at 0; the empty data when the
constructor does not return. -/
def KCudfData.translation (doc : CudfDoc) : KCudfData × TranslatorStats :=
  match KCudfData.create Printer.plain 0 doc with
  | Except.ok r => r
  | Except.error _ => (KCudfData.empty 0, { cp := 0, rd := 0, ed := 0, zp := 0 })

/-- A reducer after reading a package that must be installed and depends on a
disjunction with two providers that are in conflict with each other. -/
def exampleConflict : KCudfReducer :=
  ((KCudfReducer.create (fun x => x) []).read
    [Stmt.P 0 true true, Stmt.P 1 false false, Stmt.P 2 false false, Stmt.P 3 false false,
      Stmt.R 0 0, Stmt.R 2 2, Stmt.R 3 3, Stmt.R 2 1, Stmt.R 3 1,
      Stmt.D 0 1, Stmt.D 2 1, Stmt.D 3 1, Stmt.C 2 3]).getD (KCudfReducer.create (fun x => x) [])

/-- A document with `p` in versions 1, installed, 2 and 3, and the request to
upgrade `p >= 2`. -/
def docVersions : CudfDoc :=
  { getPackages := [CudfPackage.plain "p" 1 true, CudfPackage.plain "p" 2 false,
      CudfPackage.plain "p" 3 false],
    reqToInstall := [], reqToRemove := [], reqToUpgrade := [Vpkg.on "p" RelOp.ROP_GE 2] }

/-- A reducer after reading a package that must be installed (0) and provides a
package (1) on which a third package (2), installed, depends. -/
def exampleProvider : KCudfReducer :=
  ((KCudfReducer.create (fun x => x) []).read
    [Stmt.P 0 true true, Stmt.P 1 false false, Stmt.P 2 false true,
      Stmt.R 0 0, Stmt.R 2 2, Stmt.R 0 1, Stmt.D 2 1]).getD (KCudfReducer.create (fun x => x) [])

/-- A document with `a = 1`, installed, and `b = 1`, and the request to install
`b = 1`. -/
def docInstall : CudfDoc :=
  { getPackages := [CudfPackage.plain "a" 1 true, CudfPackage.plain "b" 1 false],
    reqToInstall := [Vpkg.on "b" RelOp.ROP_EQ 1], reqToRemove := [], reqToUpgrade := [] }

/-- The data the passes over a document leave, with the plain printer and the
counter `Package::next_id` at 0, before the disjunctions are flattened; the
empty data when a pass does not return. -/
def KCudfData.unflattened (doc : CudfDoc) : KCudfData :=
  match KCudfData.beforeFlatAll Printer.plain 0 doc with
  | Except.ok d => d
  | Except.error _ => KCudfData.empty 0

/-! ## Basic facts -/

section Basic

@[simp] theorem setAt_same {α : Type} (m : Nat → α) (k : Nat) (v : α) : setAt m k v k = v := by
  simp [setAt]

@[simp] theorem setAt_ne {α : Type} (m : Nat → α) {k x : Nat} (v : α) (h : x ≠ k) :
    setAt m k v x = m x := by
  simp [setAt, h]

theorem setAt_apply {α : Type} (m : Nat → α) (k x : Nat) (v : α) :
    setAt m k v x = if x = k then v else m x := rfl

theorem mem_setInsert {addr : Nat → Nat} {x a : Nat} {l : List Nat} :
    a ∈ setInsert addr x l ↔ a = x ∨ a ∈ l := by
  unfold setInsert
  split
  · constructor
    · intro h; exact Or.inr h
    · rintro (h | h)
      · subst h; assumption
      · exact h
  · simp [List.mem_orderedInsert]

theorem nodup_setInsert {addr : Nat → Nat} {x : Nat} {l : List Nat} (h : l.Nodup) :
    (setInsert addr x l).Nodup := by
  unfold setInsert
  split
  · exact h
  · rename_i hx
    rw [(List.perm_orderedInsert _ x l).nodup_iff]
    exact List.nodup_cons.mpr ⟨hx, h⟩

end Basic

/-! ## The worklist -/

namespace KCudfReducer

theorem addTask_TD_1 (r : KCudfReducer) (op : PK_OP) (pk : Nat) :
    r.addTask op pk TD_1 = { r with todo1 := r.todo1 ++ [(op, pk)] } := rfl

theorem addTask_TD_2 (r : KCudfReducer) (op : PK_OP) (pk : Nat) :
    r.addTask op pk TD_2 = { r with todo2 := r.todo2 ++ [(op, pk)] } := rfl

theorem addTasks_TD_1 (r : KCudfReducer) (op : PK_OP) (ps : List Nat) :
    r.addTasks op ps TD_1 = { r with todo1 := r.todo1 ++ ps.map (fun p => (op, p)) } := by
  unfold addTasks
  induction ps generalizing r with
  | nil => simp
  | cons p ps ih =>
    rw [List.foldl_cons, ih]
    simp [addTask]

theorem addTasks_TD_2 (r : KCudfReducer) (op : PK_OP) (ps : List Nat) :
    r.addTasks op ps TD_2 = { r with todo2 := r.todo2 ++ ps.map (fun p => (op, p)) } := by
  unfold addTasks
  induction ps generalizing r with
  | nil => simp
  | cons p ps ih =>
    rw [List.foldl_cons, ih]
    simp [addTask]

theorem drain_eq (r : KCudfReducer) :
    drain (r.todo1.length + r.todo2.length) r = r.todo1 ++ r.todo2 := by
  obtain ⟨g, st, sp, cp, l1, l2, is⟩ := r
  induction l1 generalizing l2 with
  | nil =>
    induction l2 with
    | nil => simp [drain]
    | cons t l2 ih =>
      simp only [List.length_nil, List.length_cons, Nat.zero_add, List.nil_append] at ih ⊢
      simp [drain, nextTask, ih]
  | cons t l1 ih =>
    have h := ih l2
    simp only [List.length_cons] at h ⊢
    rw [show l1.length + 1 + l2.length = (l1.length + l2.length) + 1 by omega]
    simp [drain, nextTask, h]

theorem addAll_todo1 (r : KCudfReducer) (calls : List (PK_OP × Nat × TD_LST)) :
    (r.addAll calls).todo1 = r.todo1 ++ sentTo TD_1 calls := by
  unfold addAll sentTo
  induction calls generalizing r with
  | nil => simp
  | cons c calls ih =>
    obtain ⟨op, pk, t⟩ := c
    rw [List.foldl_cons, ih]
    cases t <;> simp [addTask, List.filter_cons]

theorem addAll_todo2 (r : KCudfReducer) (calls : List (PK_OP × Nat × TD_LST)) :
    (r.addAll calls).todo2 = r.todo2 ++ sentTo TD_2 calls := by
  unfold addAll sentTo
  induction calls generalizing r with
  | nil => simp
  | cons c calls ih =>
    obtain ⟨op, pk, t⟩ := c
    rw [List.foldl_cons, ih]
    cases t <;> simp [addTask, List.filter_cons]

end KCudfReducer

/-- C10: the two-priority FIFO worklist.  Whatever is pending, `nextTask` returns
the oldest task of `TD_1` when `TD_1` is not empty and otherwise the oldest task
of `TD_2`, and removes exactly that task; it returns a task exactly when work is
pending; and after any sequence of `addTask` calls the tasks leave in call
order within each list, all of `TD_1` before `TD_2`. -/
theorem nextTask_two_priority_fifo :
    (∀ (r : KCudfReducer) (t : task_t) (rest : List task_t),
      ({ r with todo1 := t :: rest } : KCudfReducer).nextTask =
        some (t, { r with todo1 := rest })) ∧
    (∀ (r : KCudfReducer) (t : task_t) (rest : List task_t),
      ({ r with todo1 := [], todo2 := t :: rest } : KCudfReducer).nextTask =
        some (t, { r with todo1 := [], todo2 := rest })) ∧
    (∀ r : KCudfReducer, r.workTodo = true ↔ r.nextTask ≠ none) ∧
    (∀ (r : KCudfReducer) (calls : List (PK_OP × Nat × TD_LST)),
      KCudfReducer.drain ((r.addAll calls).todo1.length + (r.addAll calls).todo2.length)
          (r.addAll calls) =
        (r.todo1 ++ KCudfReducer.sentTo TD_1 calls) ++
          (r.todo2 ++ KCudfReducer.sentTo TD_2 calls)) := by
  refine ⟨fun r t rest => rfl, fun r t rest => rfl, ?_, ?_⟩
  · intro r
    obtain ⟨g, st, sp, cp, l1, l2, is⟩ := r
    cases l1 <;> cases l2 <;> simp [KCudfReducer.workTodo, KCudfReducer.nextTask]
  · intro r calls
    rw [KCudfReducer.drain_eq, KCudfReducer.addAll_todo1, KCudfReducer.addAll_todo2]

/-! ## Closed forms of the loops of `process` -/

section ClosedForms

theorem mapAt_cons (f : Nat → Nat) (m : Nat → Nat) (p : Nat) (ps : List Nat) :
    mapAt f m (p :: ps) = mapAt f (setAt m p (f (m p))) ps := rfl

theorem mapAt_not_mem (f : Nat → Nat) (m : Nat → Nat) (ps : List Nat) (q : Nat) (h : q ∉ ps) :
    mapAt f m ps q = m q := by
  induction ps generalizing m with
  | nil => rfl
  | cons p ps ih =>
    rw [mapAt_cons, ih _ (fun h1 => h (List.mem_cons_of_mem _ h1))]
    exact setAt_ne _ _ (fun h1 => h (h1 ▸ List.mem_cons_self _ _))

theorem mapAt_mem (f : Nat → Nat) (m : Nat → Nat) (ps : List Nat) (q : Nat) (hn : ps.Nodup)
    (h : q ∈ ps) : mapAt f m ps q = f (m q) := by
  induction ps generalizing m with
  | nil => cases h
  | cons p ps ih =>
    rw [mapAt_cons]
    rcases List.mem_cons.mp h with h1 | h1
    · subst h1
      rw [mapAt_not_mem _ _ _ _ (List.nodup_cons.mp hn).1, setAt_same]
    · have hne : q ≠ p := fun e => (List.nodup_cons.mp hn).1 (e ▸ h1)
      rw [ih _ (List.nodup_cons.mp hn).2 h1, setAt_ne _ _ hne]

theorem mapAt_apply (f : Nat → Nat) (m : Nat → Nat) (ps : List Nat) (q : Nat) (hn : ps.Nodup) :
    mapAt f m ps q = if q ∈ ps then f (m q) else m q := by
  split
  · exact mapAt_mem f m ps q hn (by assumption)
  · exact mapAt_not_mem f m ps q (by assumption)

theorem assignAll_apply (f : Nat → Nat) (m : Nat → Nat) (ps : List Nat) (q : Nat) :
    assignAll f m ps q = if q ∈ ps then f q else m q := by
  unfold assignAll
  induction ps generalizing m with
  | nil => simp
  | cons p ps ih =>
    rw [List.foldl_cons, ih]
    by_cases h1 : q ∈ ps
    · simp [h1]
    · by_cases h2 : q = p
      · subst h2; simp [h1]
      · simp [h1, h2]

theorem mem_uspTasks (st : Nat → PKR_STATE) (sp : Nat → Nat) (ps : List Nat) (t : task_t)
    (h : t ∈ uspTasks st sp ps) : t.1 = PK_USP ∧ t.2 ∈ ps := by
  induction ps generalizing sp with
  | nil => cases h
  | cons p ps ih =>
    simp only [uspTasks, List.mem_append] at h
    rcases h with h | h
    · split at h
      · simp only [List.mem_singleton] at h
        subst h
        simp
      · cases h
    · exact ⟨(ih _ h).1, List.mem_cons_of_mem _ (ih _ h).2⟩

theorem length_uspTasks (st : Nat → PKR_STATE) (sp : Nat → Nat) (ps : List Nat) :
    (uspTasks st sp ps).length ≤ ps.length := by
  induction ps generalizing sp with
  | nil => simp [uspTasks]
  | cons p ps ih =>
    simp only [uspTasks, List.length_append, List.length_cons]
    have := ih (setAt sp p (udec (sp p)))
    split <;> simp <;> omega

theorem mem_ucpTasks (cp : Nat → Nat) (ps : List Nat) (t : task_t)
    (h : t ∈ ucpTasks cp ps) : t.1 = PK_UCP ∧ t.2 ∈ ps := by
  induction ps generalizing cp with
  | nil => cases h
  | cons p ps ih =>
    simp only [ucpTasks, List.mem_append] at h
    rcases h with h | h
    · split at h
      · simp only [List.mem_singleton] at h
        subst h
        simp
      · cases h
    · exact ⟨(ih _ h).1, List.mem_cons_of_mem _ (ih _ h).2⟩

theorem length_ucpTasks (cp : Nat → Nat) (ps : List Nat) :
    (ucpTasks cp ps).length ≤ ps.length := by
  induction ps generalizing cp with
  | nil => simp [ucpTasks]
  | cons p ps ih =>
    simp only [ucpTasks, List.length_append, List.length_cons]
    have := ih (setAt cp p (udec (cp p)))
    split <;> simp <;> omega

/-- With no repetition in `ps`, the `PK_UCP` tasks are those of the packages
whose counter drops to at most one. -/
theorem ucpTasks_mem_iff (cp : Nat → Nat) (ps : List Nat) (hn : ps.Nodup) (q : Nat) :
    (PK_UCP, q) ∈ ucpTasks cp ps ↔ q ∈ ps ∧ udec (cp q) ≤ 1 := by
  induction ps generalizing cp with
  | nil => simp [ucpTasks]
  | cons p ps ih =>
    have hp := (List.nodup_cons.mp hn).1
    simp only [ucpTasks, List.mem_append, ih _ (List.nodup_cons.mp hn).2, List.mem_cons]
    constructor
    · rintro (h | ⟨h1, h2⟩)
      · split at h
        · simp only [List.mem_singleton, Prod.mk.injEq, true_and] at h
          subst h
          exact ⟨Or.inl rfl, by assumption⟩
        · cases h
      · have hne : q ≠ p := fun e => hp (e ▸ h1)
        rw [setAt_ne _ _ hne] at h2
        exact ⟨Or.inr h1, h2⟩
    · rintro ⟨h1 | h1, h2⟩
      · subst h1
        left
        simp [h2]
      · right
        have hne : q ≠ p := fun e => hp (e ▸ h1)
        rw [setAt_ne _ _ hne]
        exact ⟨h1, h2⟩

/-- With no repetition in `ps`, the `PK_USP` tasks are those of the packages
whose counter drops to zero while they are in a state that needs a provider. -/
theorem uspTasks_mem_iff (st : Nat → PKR_STATE) (sp : Nat → Nat) (ps : List Nat)
    (hn : ps.Nodup) (q : Nat) :
    (PK_USP, q) ∈ uspTasks st sp ps ↔ q ∈ ps ∧ udec (sp q) = 0 ∧ isSPI (st q) = true := by
  induction ps generalizing sp with
  | nil => simp [uspTasks]
  | cons p ps ih =>
    have hp := (List.nodup_cons.mp hn).1
    simp only [uspTasks, List.mem_append, ih _ (List.nodup_cons.mp hn).2, List.mem_cons]
    constructor
    · rintro (h | ⟨h1, h2⟩)
      · split at h
        · simp only [List.mem_singleton, Prod.mk.injEq, true_and] at h
          subst h
          exact ⟨Or.inl rfl, by assumption⟩
        · cases h
      · have hne : q ≠ p := fun e => hp (e ▸ h1)
        rw [setAt_ne _ _ hne] at h2
        exact ⟨Or.inr h1, h2⟩
    · rintro ⟨h1 | h1, h2⟩
      · subst h1
        left
        simp [h2]
      · right
        have hne : q ≠ p := fun e => hp (e ▸ h1)
        rw [setAt_ne _ _ hne]
        exact ⟨h1, h2⟩

end ClosedForms

namespace KCudfReducer

theorem update_eq (r : KCudfReducer) (pid : Nat) :
    r.update pid =
      { r with
        todo1 := r.todo1 ++ updTasks1 r.toGraphWriter (r.pkg_st pid) pid
        todo2 := r.todo2 ++ updTasks2 r.toGraphWriter (r.pkg_st pid) pid } := by
  unfold update state updTasks1 updTasks2
  cases h : r.pkg_st pid <;>
    simp [addTasks_TD_1, addTasks_TD_2, GraphWriter.dependencies, GraphWriter.conflicts,
      GraphWriter.dependers]

theorem spInc_eq (r : KCudfReducer) (pkgId : Nat) :
    r.spInc pkgId = { r with sp := mapAt uinc r.sp (r.pvds_out pkgId) } := by
  unfold spInc GraphWriter.provides
  generalize r.pvds_out pkgId = ps
  induction ps generalizing r with
  | nil => rfl
  | cons p ps ih =>
    rw [List.foldl_cons, ih]
    rfl

theorem spDec_eq (r : KCudfReducer) (pkgId : Nat) :
    r.spDec pkgId =
      { r with
        sp := mapAt udec r.sp (r.pvds_out pkgId)
        todo2 := r.todo2 ++ uspTasks r.pkg_st r.sp (r.pvds_out pkgId) } := by
  unfold spDec GraphWriter.provides
  generalize r.pvds_out pkgId = ps
  induction ps generalizing r with
  | nil => simp [mapAt, uspTasks]
  | cons p ps ih =>
    rw [List.foldl_cons, ih]
    by_cases h : udec (r.sp p) = 0 ∧ isSPI (r.pkg_st p) = true
    · simp [h, state, addTask, mapAt_cons, uspTasks]
    · simp [h, state, addTask, mapAt_cons, uspTasks]

theorem cpDec_eq (r : KCudfReducer) (pkgId : Nat) :
    r.cpDec pkgId =
      { r with
        cp := mapAt udec r.cp (r.pvds_out pkgId)
        todo1 := r.todo1 ++ ucpTasks r.cp (r.pvds_out pkgId) } := by
  unfold cpDec GraphWriter.provides
  generalize r.pvds_out pkgId = ps
  induction ps generalizing r with
  | nil => simp [mapAt, ucpTasks]
  | cons p ps ih =>
    rw [List.foldl_cons, ih]
    by_cases h : udec (r.cp p) ≤ 1
    · simp [h, addTask, mapAt_cons, ucpTasks]
    · simp [h, addTask, mapAt_cons, ucpTasks]

end KCudfReducer

/-! ## A change of state and the unit propagation on providers -/

namespace GraphWriter

theorem add_dep_eq (g : GraphWriter) (p q : Nat) (h : q ∉ g.deps_out p) :
    g.add_dep p q =
      { g with
        deps_out := setAt g.deps_out p (setInsert g.addr q (g.deps_out p))
        deps_in := setAt g.deps_in q (setInsert g.addr p (g.deps_in q)) } := by
  simp [add_dep, h]

theorem hasDependency_eq (g : GraphWriter) (p q : Nat) :
    g.hasDependency p q = decide (q ∈ g.deps_out p) := by
  unfold hasDependency dependencies
  induction g.deps_out p with
  | nil => simp
  | cons a l ih =>
    simp only [List.any_cons, ih, List.mem_cons]
    by_cases h1 : a = q
    · simp [h1]
    · have h2 : ¬ q = a := fun e => h1 e.symm
      simp [h1, h2]

theorem add_dep_WF (g : GraphWriter) (p q : Nat) (h : g.WF) (hp : p ∈ g.pkgs) (hq : q ∈ g.pkgs) :
    (g.add_dep p q).WF := by
  by_cases hmem : q ∈ g.deps_out p
  · simpa [add_dep, hmem] using h
  · rw [add_dep_eq g p q hmem]
    obtain ⟨h1, h2, h3, h4, h5, h6, h7⟩ := h
    refine ⟨h1, h2, ?_, ?_, h5, h6, h7⟩
    · intro x hx
      by_cases hxp : x = p
      · subst hxp
        simp only [setAt_same]
        refine ⟨nodup_setInsert (h3 x hx).1, ?_⟩
        intro y hy
        rcases mem_setInsert.mp hy with hy | hy
        · subst hy
          exact ⟨hq, by simp [mem_setInsert]⟩
        · refine ⟨((h3 x hx).2 y hy).1, ?_⟩
          by_cases hyq : y = q
          · subst hyq; simp [mem_setInsert]
          · simpa [setAt_ne _ _ hyq] using ((h3 x hx).2 y hy).2
      · simp only [setAt_ne _ _ hxp]
        refine ⟨(h3 x hx).1, ?_⟩
        intro y hy
        refine ⟨((h3 x hx).2 y hy).1, ?_⟩
        by_cases hyq : y = q
        · subst hyq
          simp only [setAt_same]
          exact mem_setInsert.mpr (Or.inr ((h3 x hx).2 y hy).2)
        · simpa [setAt_ne _ _ hyq] using ((h3 x hx).2 y hy).2
    · intro y hy
      by_cases hyq : y = q
      · subst hyq
        simp only [setAt_same]
        refine ⟨nodup_setInsert (h4 y hy).1, ?_⟩
        intro x hx
        rcases mem_setInsert.mp hx with hx | hx
        · subst hx
          exact ⟨hp, by simp [mem_setInsert]⟩
        · refine ⟨((h4 y hy).2 x hx).1, ?_⟩
          by_cases hxp : x = p
          · subst hxp; simp [mem_setInsert]
          · simpa [setAt_ne _ _ hxp] using ((h4 y hy).2 x hx).2
      · simp only [setAt_ne _ _ hyq]
        refine ⟨(h4 y hy).1, ?_⟩
        intro x hx
        refine ⟨((h4 y hy).2 x hx).1, ?_⟩
        by_cases hxp : x = p
        · subst hxp
          simp only [setAt_same]
          exact mem_setInsert.mpr (Or.inr ((h4 y hy).2 x hx).2)
        · simpa [setAt_ne _ _ hxp] using ((h4 y hy).2 x hx).2

end GraphWriter

namespace KCudfReducer

theorem changeState_eq (r : KCudfReducer) (pkgId : Nat) (currState nextState : PKR_STATE) :
    r.changeState pkgId currState nextState =
      { r with
        pkg_st := setAt r.pkg_st pkgId nextState
        sp := newSp r pkgId currState nextState
        cp := if isCP currState && !isCP nextState then mapAt udec r.cp (r.pvds_out pkgId)
          else r.cp
        todo1 := (r.todo1 ++
          (if isCP currState && !isCP nextState then ucpTasks r.cp (r.pvds_out pkgId) else [])) ++
          updTasks1 r.toGraphWriter nextState pkgId
        todo2 := ((r.todo2 ++
          (if isSP currState && !isSP nextState then uspTasks r.pkg_st r.sp (r.pvds_out pkgId)
            else [])) ++
          (if !isSPI currState && isSPI nextState && decide (newSp r pkgId currState nextState
            pkgId = 0) then [(PK_UPD, pkgId)] else [])) ++
          updTasks2 r.toGraphWriter nextState pkgId } := by
  unfold changeState newSp
  rw [update_eq]
  cases currState <;> cases nextState <;>
  simp only [isSP, isSPI, isCP, spInc_eq, spDec_eq, cpDec_eq, setState, addTask, setAt_same,
    List.append_nil, Bool.false_eq_true, reduceCtorEq, Bool.not_true, Bool.not_false,
    Bool.and_self, Bool.and_true, Bool.and_false, Bool.or_self, Bool.or_true, Bool.or_false,
    beq_self_eq_true, beq_iff_eq, bne_iff_ne, ne_eq, not_true_eq_false, not_false_eq_true,
    if_true, if_false, decide_eq_true_eq, Bool.true_and, Bool.false_and, Bool.decide_eq_true,
    bne_self_eq_false, BEq.beq, bne, decide_True, decide_False, Bool.true_or, Bool.false_or,
    ite_true, ite_false] <;>
  first
    | rfl
    | (split <;> simp_all)

theorem ucpLoop_eq (r : KCudfReducer) (pkgId : Nat) (ps : List Nat) (hpk : pkgId ∈ r.pkgs)
    (hps : ∀ p ∈ ps, p ∈ r.pkgs) :
    ps.foldlM
      (fun (r : KCudfReducer) p =>
        if isCP (r.state p) && !r.hasDependency pkgId p then
          match r.toGraphWriter.dependency pkgId p with
          | some g =>
            some ((({ r with toGraphWriter := g } : KCudfReducer).addTask PK_UPD p TD_1).addTask
              PK_UPD pkgId TD_1)
          | none => none
        else some r)
      r = some (ps.foldl (ucpStep pkgId) r) := by
  induction ps generalizing r with
  | nil => rfl
  | cons p ps ih =>
    have hp : p ∈ r.pkgs := hps p (List.mem_cons_self _ _)
    have hstep : (if isCP (r.state p) && !r.hasDependency pkgId p then
          match r.toGraphWriter.dependency pkgId p with
          | some g =>
            some ((({ r with toGraphWriter := g } : KCudfReducer).addTask PK_UPD p TD_1).addTask
              PK_UPD pkgId TD_1)
          | none => none
        else some r) = some (ucpStep pkgId r p) := by
      unfold ucpStep
      rw [GraphWriter.hasDependency_eq]
      by_cases hc : (isCP (r.pkg_st p) && !decide (p ∈ r.deps_out pkgId)) = true
      · simp [state, hc, GraphWriter.dependency, GraphWriter.isPackage, hpk, hp, addTask]
      · simp [state, hc]
    rw [List.foldlM_cons, hstep]
    simp only [Option.bind_eq_bind, Option.some_bind, List.foldl_cons]
    apply ih
    · unfold ucpStep
      split
      · simpa [GraphWriter.add_dep] using (by split <;> exact hpk)
      · exact hpk
    · intro q hq
      have := hps q (List.mem_cons_of_mem _ hq)
      unfold ucpStep
      split
      · simpa [GraphWriter.add_dep] using (by split <;> exact this)
      · exact this

end KCudfReducer

/-! ## The turns of the loop, case by case -/

namespace KCudfReducer

theorem turn_next (r : KCudfReducer) (op : PK_OP) (pkgId : Nat) (r1 : KCudfReducer)
    (hpk : pkgId ∈ r.pkgs) (hpv : ∀ p ∈ r.pvds_in pkgId, p ∈ r.pkgs)
    (h : r.turn op pkgId = Turn.next r1) : Moved r pkgId op r1 := by
  unfold turn at h
  simp only [state] at h
  cases op
  case PK_UCP =>
    simp only [reduceCtorEq, or_self, if_false, if_true] at h
    by_cases h0 : r.cp pkgId = 0
    · simp only [h0, if_true, addTask] at h
      simp only [zero_ne_one, if_false, Turn.next.injEq] at h
      subst h
      exact Moved.ucp0 h0
    · simp only [h0, if_false] at h
      by_cases h1 : r.cp pkgId = 1
      · simp only [h1, if_true] at h
        unfold ucpLoop at h
        rw [show r.providers pkgId = r.pvds_in pkgId from rfl, ucpLoop_eq r pkgId _ hpk hpv] at h
        simp only [Turn.next.injEq] at h
        subst h
        exact Moved.ucp1 h1
      · simp only [h1, if_false, Turn.next.injEq] at h
        subst h
        exact Moved.ucpN h0 h1
  case PK_USP =>
    simp only [reduceCtorEq, or_self, if_false, true_and] at h
    by_cases hc : r.sp pkgId = 0 ∧ isSPI (r.pkg_st pkgId) = true
    · simp only [hc, and_self, if_true, Turn.next.injEq, addTasks_TD_2, addTask] at h
      subst h
      exact Moved.usp hc.1 hc.2
    · simp only [hc, if_false, Turn.next.injEq] at h
      subst h
      exact Moved.uspN hc
  case PK_UPD =>
    simp only [reduceCtorEq, or_self, if_false, false_and, if_true, Turn.next.injEq,
      update_eq, addTask] at h
    subst h
    exact Moved.upd
  all_goals
    simp only [reduceCtorEq, or_false, false_or, or_true, true_or, if_true] at h
    split at h
    · cases h
    · rename_i nx htf
      split at h
      · cases h
      · split at h
        · cases h
        · rename_i hfl hab
          split at h
          · rename_i hne
            simp only [Turn.next.injEq] at h
            subst h
            exact Moved.change _ nx rfl htf hne hfl hab
          · rename_i hne
            simp only [Turn.next.injEq] at h
            subst h
            have : r.pkg_st pkgId = nx := by
              by_contra hc
              exact hne hc
            rw [← this] at htf
            exact Moved.keep _ rfl htf

theorem iteration_next (r r1 : KCudfReducer)
    (hv : ∀ t ∈ r.todo1 ++ r.todo2, t.2 ∈ r.pkgs ∧ ∀ p ∈ r.pvds_in t.2, p ∈ r.pkgs)
    (h : r.iteration = some (Turn.next r1)) : Stepped r r1 := by
  unfold iteration nextTask at h
  split at h
  · cases h
  · rename_i t r2 hnt
    simp only [Option.some.injEq] at h
    split at hnt
    · rename_i t1 rest h1
      simp only [Option.some.injEq, Prod.mk.injEq] at hnt
      obtain ⟨e1, e2⟩ := hnt
      subst e1 e2
      have ht := hv t1 (by simp [h1])
      exact Stepped.first t1.1 t1.2 rest r1 (by simp [h1]) (turn_next _ _ _ _ ht.1 ht.2 h)
    · rename_i h1
      split at hnt
      · rename_i t2 rest h2
        simp only [Option.some.injEq, Prod.mk.injEq] at hnt
        obtain ⟨e1, e2⟩ := hnt
        subst e1 e2
        have ht := hv t2 (by simp [h2])
        exact Stepped.second t2.1 t2.2 rest r1 h1 (by simp [h2]) (turn_next _ _ _ _ ht.1 ht.2 h)
      · cases hnt

end KCudfReducer

/-! ## The basic invariant: well-formed graphs, valid states, tasks on packages -/

section BaseInvariant

theorem mem_updTasks1 {g : GraphWriter} {st : PKR_STATE} {pid : Nat} {t : task_t} :
    t ∈ updTasks1 g st pid ↔
      (st = PKR_MI ∧ ((t.1 = PK_MI ∧ t.2 ∈ g.deps_out pid) ∨
        (t.1 = PK_MU ∧ t.2 ∈ g.confs_adj pid))) ∨
      (st = PKR_MU ∧ t.1 = PK_MU ∧ t.2 ∈ g.deps_in pid) := by
  obtain ⟨op, q⟩ := t
  cases st <;> simp [updTasks1] <;> tauto

theorem mem_updTasks2 {g : GraphWriter} {st : PKR_STATE} {pid : Nat} {t : task_t} :
    t ∈ updTasks2 g st pid ↔
      (st = PKR_CI ∧ ((t.1 = PK_CI ∧ t.2 ∈ g.deps_out pid) ∨
        (t.1 = PK_CU ∧ t.2 ∈ g.confs_adj pid))) ∨
      (st = PKR_CU ∧ t.1 = PK_CU ∧ t.2 ∈ g.deps_in pid) ∨
      (st = PKR_SR ∧ ((t.1 = PK_CI ∧ t.2 ∈ g.deps_out pid) ∨
        (t.1 = PK_CU ∧ t.2 ∈ g.confs_adj pid) ∨ (t.1 = PK_CU ∧ t.2 ∈ g.deps_in pid))) := by
  obtain ⟨op, q⟩ := t
  cases st <;> simp [updTasks2] <;> tauto

theorem GraphWriter.WF.dep_out {g : GraphWriter} (h : g.WF) {p q : Nat} (hp : p ∈ g.pkgs)
    (hq : q ∈ g.deps_out p) : q ∈ g.pkgs ∧ p ∈ g.deps_in q :=
  (h.2.2.1 p hp).2 q hq

theorem GraphWriter.WF.dep_in {g : GraphWriter} (h : g.WF) {p q : Nat} (hq : q ∈ g.pkgs)
    (hp : p ∈ g.deps_in q) : p ∈ g.pkgs ∧ q ∈ g.deps_out p :=
  (h.2.2.2.1 q hq).2 p hp

theorem GraphWriter.WF.conf {g : GraphWriter} (h : g.WF) {p q : Nat} (hp : p ∈ g.pkgs)
    (hq : q ∈ g.confs_adj p) : q ∈ g.pkgs ∧ p ∈ g.confs_adj q :=
  (h.2.2.2.2.1 p hp).2 q hq

theorem GraphWriter.WF.pvd_out {g : GraphWriter} (h : g.WF) {p q : Nat} (hp : p ∈ g.pkgs)
    (hq : q ∈ g.pvds_out p) : q ∈ g.pkgs ∧ p ∈ g.pvds_in q :=
  (h.2.2.2.2.2.1 p hp).2 q hq

theorem GraphWriter.WF.pvd_in {g : GraphWriter} (h : g.WF) {p q : Nat} (hq : q ∈ g.pkgs)
    (hp : p ∈ g.pvds_in q) : p ∈ g.pkgs ∧ q ∈ g.pvds_out p :=
  (h.2.2.2.2.2.2 q hq).2 p hp

theorem GraphWriter.WF.pvd_out_nodup {g : GraphWriter} (h : g.WF) {p : Nat} (hp : p ∈ g.pkgs) :
    (g.pvds_out p).Nodup :=
  (h.2.2.2.2.2.1 p hp).1

theorem GraphWriter.WF.pvd_in_nodup {g : GraphWriter} (h : g.WF) {p : Nat} (hp : p ∈ g.pkgs) :
    (g.pvds_in p).Nodup :=
  (h.2.2.2.2.2.2 p hp).1

theorem tf_cases {st nx : PKR_STATE} {op : PK_OP} (hop : op.isTransition = true)
    (hv : st.valid = true) (htf : tf st op = some nx) (hne : st ≠ nx) (hfl : nx ≠ PKR_FL)
    (hab : nx ≠ PKR_AB) :
    (st = PKR_CU ∧ op = PK_MU ∧ nx = PKR_MU) ∨ (st = PKR_CU ∧ op = PK_MI ∧ nx = PKR_MI) ∨
    (st = PKR_CU ∧ op = PK_CI ∧ nx = PKR_SR) ∨ (st = PKR_CI ∧ op = PK_MU ∧ nx = PKR_MU) ∨
    (st = PKR_CI ∧ op = PK_MI ∧ nx = PKR_MI) ∨ (st = PKR_CI ∧ op = PK_CU ∧ nx = PKR_SR) := by
  cases st <;> cases op <;> simp [tf, tfTable, PKR_STATE.toNat, PK_OP.toNat] at htf <;>
    subst htf <;> simp_all [PK_OP.isTransition, PKR_STATE.valid]

theorem tf_keep_cases {st : PKR_STATE} {op : PK_OP} (hop : op.isTransition = true)
    (htf : tf st op = some st) :
    (op = PK_MU ∧ st = PKR_MU) ∨ (op = PK_MI ∧ st = PKR_MI) ∨
    (op = PK_CI ∧ (st = PKR_CI ∨ st = PKR_MU ∨ st = PKR_MI ∨ st = PKR_SR)) ∨
    (op = PK_CU ∧ (st = PKR_CU ∨ st = PKR_MU ∨ st = PKR_MI ∨ st = PKR_SR)) := by
  cases st <;> cases op <;> simp [tf, tfTable, PKR_STATE.toNat, PK_OP.toNat] at htf <;>
    simp_all [PK_OP.isTransition]

theorem ucpStep_frame (pkgId : Nat) (r : KCudfReducer) (p : Nat) :
    SameFrame r (ucpStep pkgId r p) ∧ (ucpStep pkgId r p).pkg_st = r.pkg_st ∧
      (ucpStep pkgId r p).sp = r.sp ∧ (ucpStep pkgId r p).cp = r.cp ∧
      (ucpStep pkgId r p).todo2 = r.todo2 := by
  unfold ucpStep SameFrame
  split
  · rename_i hc
    simp only [Bool.and_eq_true, Bool.not_eq_true', decide_eq_false_iff_not] at hc
    simp [GraphWriter.add_dep_eq _ _ _ hc.2]
  · simp

theorem foldl_ucpStep_frame (pkgId : Nat) (ps : List Nat) (r : KCudfReducer) :
    SameFrame r (ps.foldl (ucpStep pkgId) r) ∧ (ps.foldl (ucpStep pkgId) r).pkg_st = r.pkg_st ∧
      (ps.foldl (ucpStep pkgId) r).sp = r.sp ∧ (ps.foldl (ucpStep pkgId) r).cp = r.cp ∧
      (ps.foldl (ucpStep pkgId) r).todo2 = r.todo2 := by
  induction ps generalizing r with
  | nil => simp [SameFrame]
  | cons p ps ih =>
    rw [List.foldl_cons]
    obtain ⟨⟨a1, a2, a3, a4, a5, a6, a7⟩, b1, b2, b3, b4⟩ := ih (ucpStep pkgId r p)
    obtain ⟨⟨c1, c2, c3, c4, c5, c6, c7⟩, d1, d2, d3, d4⟩ := ucpStep_frame pkgId r p
    exact ⟨⟨a1.trans c1, a2.trans c2, a3.trans c3, a4.trans c4, a5.trans c5, a6.trans c6,
      a7.trans c7⟩, b1.trans d1, b2.trans d2, b3.trans d3, b4.trans d4⟩

theorem Moved.frame_moved {r r1 : KCudfReducer} {pkgId : Nat} {op : PK_OP} (h : Moved r pkgId op r1) :
    SameFrame r r1 := by
  cases h with
  | change op nx hop htf hne hfl hab => rw [KCudfReducer.changeState_eq]; simp [SameFrame]
  | ucp1 h => exact (foldl_ucpStep_frame pkgId _ r).1
  | _ => simp [SameFrame]

theorem Stepped.frame_stepped {r r1 : KCudfReducer} (h : Stepped r r1) : SameFrame r r1 := by
  cases h with
  | first op pkgId rest r1 h1 hm => exact hm.frame_moved
  | second op pkgId rest r1 h1 h2 hm => exact hm.frame_moved

theorem ucpStep_Base (pkgId : Nat) (r : KCudfReducer) (p : Nat) (hb : Base r)
    (hpk : pkgId ∈ r.pkgs) (hp : p ∈ r.pkgs) : Base (ucpStep pkgId r p) := by
  unfold ucpStep
  split
  · obtain ⟨h1, h2, h3, h4⟩ := hb
    refine ⟨GraphWriter.add_dep_WF _ _ _ h1 hpk hp, ?_, ?_, ?_⟩
    · have : (r.toGraphWriter.add_dep pkgId p).pkgs = r.pkgs := by
        unfold GraphWriter.add_dep; split <;> rfl
      simpa [this] using h2
    · have : (r.toGraphWriter.add_dep pkgId p).pkgs = r.pkgs := by
        unfold GraphWriter.add_dep; split <;> rfl
      intro t ht
      simp only [List.mem_append, List.mem_cons, List.mem_singleton, List.not_mem_nil,
        or_false] at ht
      rcases ht with ht | ht | ht
      · simpa [this] using h3 t ht
      · subst ht; simpa [this, PK_OP.isMust] using hp
      · subst ht; simpa [this, PK_OP.isMust] using hpk
    · have : (r.toGraphWriter.add_dep pkgId p).pkgs = r.pkgs := by
        unfold GraphWriter.add_dep; split <;> rfl
      simpa [this] using h4
  · exact hb

theorem foldl_ucpStep_Base (pkgId : Nat) (ps : List Nat) (r : KCudfReducer) (hb : Base r)
    (hpk : pkgId ∈ r.pkgs) (hps : ∀ p ∈ ps, p ∈ r.pkgs) : Base (ps.foldl (ucpStep pkgId) r) := by
  induction ps generalizing r with
  | nil => exact hb
  | cons p ps ih =>
    rw [List.foldl_cons]
    have hf := (ucpStep_frame pkgId r p).1.1
    apply ih
    · exact ucpStep_Base pkgId r p hb hpk (hps p (List.mem_cons_self _ _))
    · rw [hf]; exact hpk
    · intro q hq; rw [hf]; exact hps q (List.mem_cons_of_mem _ hq)

theorem Moved.base_moved {r r1 : KCudfReducer} {pkgId : Nat} {op : PK_OP} (h : Moved r pkgId op r1)
    (hb : Base r) (hpk : pkgId ∈ r.pkgs) : Base r1 := by
  obtain ⟨h1, h2, h3, h4⟩ := hb
  cases h with
  | keep op hop htf => exact ⟨h1, h2, h3, h4⟩
  | change op nx hop htf hne hfl hab =>
    rw [KCudfReducer.changeState_eq]
    refine ⟨h1, ?_, ?_, ?_⟩
    · intro p hp
      by_cases hpp : p = pkgId
      · subst hpp
        simp only [setAt_same]
        cases nx <;> simp_all [PKR_STATE.valid]
      · simpa [setAt_ne _ _ hpp] using h2 p hp
    · intro t ht
      simp only [List.mem_append] at ht
      rcases ht with (ht | ht) | ht
      · exact h3 t ht
      · split at ht
        · have := mem_ucpTasks _ _ _ ht
          exact ⟨(h1.pvd_out hpk this.2).1, by simp [this.1, PK_OP.isMust]⟩
        · cases ht
      · rcases mem_updTasks1.mp ht with ⟨_, (⟨ha, hb⟩ | ⟨ha, hb⟩)⟩ | ⟨_, ha, hb⟩
        · exact ⟨(h1.dep_out hpk hb).1, by simp [ha, PK_OP.isMust]⟩
        · exact ⟨(h1.conf hpk hb).1, by simp [ha, PK_OP.isMust]⟩
        · exact ⟨(h1.dep_in hpk hb).1, by simp [ha, PK_OP.isMust]⟩
    · intro t ht
      simp only [List.mem_append] at ht
      rcases ht with ((ht | ht) | ht) | ht
      · exact h4 t ht
      · split at ht
        · have := mem_uspTasks _ _ _ _ ht
          exact ⟨(h1.pvd_out hpk this.2).1, by simp [this.1, PK_OP.isCan]⟩
        · cases ht
      · split at ht
        · simp only [List.mem_singleton] at ht
          subst ht
          exact ⟨hpk, by simp [PK_OP.isCan]⟩
        · cases ht
      · rcases mem_updTasks2.mp ht with ⟨_, (⟨ha, hb⟩ | ⟨ha, hb⟩)⟩ | ⟨_, ha, hb⟩ |
          ⟨_, (⟨ha, hb⟩ | ⟨ha, hb⟩ | ⟨ha, hb⟩)⟩
        · exact ⟨(h1.dep_out hpk hb).1, by simp [ha, PK_OP.isCan]⟩
        · exact ⟨(h1.conf hpk hb).1, by simp [ha, PK_OP.isCan]⟩
        · exact ⟨(h1.dep_in hpk hb).1, by simp [ha, PK_OP.isCan]⟩
        · exact ⟨(h1.dep_out hpk hb).1, by simp [ha, PK_OP.isCan]⟩
        · exact ⟨(h1.conf hpk hb).1, by simp [ha, PK_OP.isCan]⟩
        · exact ⟨(h1.dep_in hpk hb).1, by simp [ha, PK_OP.isCan]⟩
  | ucp0 h =>
    refine ⟨h1, h2, ?_, h4⟩
    intro t ht
    simp only [List.mem_append, List.mem_singleton] at ht
    rcases ht with ht | ht
    · exact h3 t ht
    · subst ht; exact ⟨hpk, by simp [PK_OP.isMust]⟩
  | ucp1 h =>
    exact foldl_ucpStep_Base pkgId _ r ⟨h1, h2, h3, h4⟩ hpk (fun p hp => (h1.pvd_in hpk hp).1)
  | ucpN hc0 hc1 => exact ⟨h1, h2, h3, h4⟩
  | usp h hs =>
    refine ⟨h1, h2, h3, ?_⟩
    intro t ht
    simp only [List.mem_append, List.mem_map, List.mem_singleton] at ht
    rcases ht with (ht | ⟨q, hq, ht⟩) | ht
    · exact h4 t ht
    · subst ht; exact ⟨(h1.pvd_in hpk hq).1, by simp [PK_OP.isCan]⟩
    · subst ht; exact ⟨hpk, by simp [PK_OP.isCan]⟩
  | uspN h => exact ⟨h1, h2, h3, h4⟩
  | upd =>
    refine ⟨h1, h2, ?_, ?_⟩
    · intro t ht
      simp only [List.mem_append, List.mem_singleton] at ht
      rcases ht with (ht | ht) | ht
      · exact h3 t ht
      · rcases mem_updTasks1.mp ht with ⟨_, (⟨ha, hb⟩ | ⟨ha, hb⟩)⟩ | ⟨_, ha, hb⟩
        · exact ⟨(h1.dep_out hpk hb).1, by simp [ha, PK_OP.isMust]⟩
        · exact ⟨(h1.conf hpk hb).1, by simp [ha, PK_OP.isMust]⟩
        · exact ⟨(h1.dep_in hpk hb).1, by simp [ha, PK_OP.isMust]⟩
      · subst ht; exact ⟨hpk, by simp [PK_OP.isMust]⟩
    · intro t ht
      simp only [List.mem_append, List.mem_singleton] at ht
      rcases ht with (ht | ht) | ht
      · exact h4 t ht
      · rcases mem_updTasks2.mp ht with ⟨_, (⟨ha, hb⟩ | ⟨ha, hb⟩)⟩ | ⟨_, ha, hb⟩ |
          ⟨_, (⟨ha, hb⟩ | ⟨ha, hb⟩ | ⟨ha, hb⟩)⟩
        · exact ⟨(h1.dep_out hpk hb).1, by simp [ha, PK_OP.isCan]⟩
        · exact ⟨(h1.conf hpk hb).1, by simp [ha, PK_OP.isCan]⟩
        · exact ⟨(h1.dep_in hpk hb).1, by simp [ha, PK_OP.isCan]⟩
        · exact ⟨(h1.dep_out hpk hb).1, by simp [ha, PK_OP.isCan]⟩
        · exact ⟨(h1.conf hpk hb).1, by simp [ha, PK_OP.isCan]⟩
        · exact ⟨(h1.dep_in hpk hb).1, by simp [ha, PK_OP.isCan]⟩
      · subst ht; exact ⟨hpk, by simp [PK_OP.isCan]⟩

theorem Stepped.base_stepped {r r1 : KCudfReducer} (h : Stepped r r1) (hb : Base r) : Base r1 := by
  obtain ⟨h1, h2, h3, h4⟩ := hb
  cases h with
  | first op pkgId rest r1 e1 hm =>
    have hpk : pkgId ∈ r.pkgs := (h3 (op, pkgId) (by simp [e1])).1
    refine hm.base_moved ⟨h1, h2, ?_, h4⟩ hpk
    intro t ht
    exact h3 t (by simp only [e1]; exact List.mem_cons_of_mem _ ht)
  | second op pkgId rest r1 e1 e2 hm =>
    have hpk : pkgId ∈ r.pkgs := (h4 (op, pkgId) (by simp [e2])).1
    refine hm.base_moved ⟨h1, h2, h3, ?_⟩ hpk
    intro t ht
    exact h4 t (by simp only [e2]; exact List.mem_cons_of_mem _ ht)

theorem Base.iteration {r r1 : KCudfReducer} (hb : Base r)
    (h : r.iteration = some (Turn.next r1)) : Stepped r r1 := by
  apply KCudfReducer.iteration_next r r1 _ h
  intro t ht
  obtain ⟨h1, h2, h3, h4⟩ := hb
  have hpk : t.2 ∈ r.pkgs := by
    rcases List.mem_append.mp ht with ht | ht
    · exact (h3 t ht).1
    · exact (h4 t ht).1
  exact ⟨hpk, fun p hp => (h1.pvd_in hpk hp).1⟩

end BaseInvariant

/-! ## The provider counters -/

section CounterLemmas

theorem uinc_of_lt {x : Nat} (h : x + 1 < UINT) : uinc x = x + 1 := by
  unfold uinc
  exact Nat.mod_eq_of_lt h

theorem udec_of_pos {x : Nat} (h0 : 0 < x) (h : x < UINT) : udec x = x - 1 := by
  unfold udec UINT at *
  omega

theorem length_le_of_nodup_of_subset {l m : List Nat} (hn : l.Nodup) (hs : ∀ x ∈ l, x ∈ m) :
    l.length ≤ m.length :=
  (hn.subperm hs).length_le

theorem GraphWriter.WF.pvd_in_length {g : GraphWriter} (h : g.WF) {p : Nat} (hp : p ∈ g.pkgs) :
    (g.pvds_in p).length < UINT :=
  lt_of_le_of_lt
    (length_le_of_nodup_of_subset (h.pvd_in_nodup hp) (fun _ hx => (h.pvd_in hp hx).1)) h.2.1

theorem countP_setAt_not_mem (f : PKR_STATE → Bool) (st : Nat → PKR_STATE) (k : Nat)
    (v : PKR_STATE) (l : List Nat) (h : k ∉ l) :
    l.countP (fun q => f (setAt st k v q)) = l.countP (fun q => f (st q)) := by
  apply List.countP_congr
  intro q hq
  have : q ≠ k := fun e => h (e ▸ hq)
  simp [setAt_ne _ _ this]

theorem countP_setAt_mem (f : PKR_STATE → Bool) (st : Nat → PKR_STATE) (k : Nat)
    (v : PKR_STATE) (l : List Nat) (hn : l.Nodup) (h : k ∈ l) :
    l.countP (fun q => f (setAt st k v q)) + (if f (st k) = true then 1 else 0) =
      l.countP (fun q => f (st q)) + (if f v = true then 1 else 0) := by
  induction l with
  | nil => cases h
  | cons a l ih =>
    have hal := (List.nodup_cons.mp hn).1
    rcases List.mem_cons.mp h with h1 | h1
    · subst h1
      rw [List.countP_cons, List.countP_cons, countP_setAt_not_mem f st k v l hal]
      simp only [setAt_same]
      omega
    · have hne : a ≠ k := fun e => hal (e ▸ h1)
      rw [List.countP_cons, List.countP_cons, setAt_ne _ _ hne]
      have := ih (List.nodup_cons.mp hn).2 h1
      omega

theorem counter_cp_step (b : Bool) (m : Nat → Nat) (cp : Nat → Nat) (p c c1 len : Nat)
    (hcp : cp p = c) (k : c1 + (if true = true then 1 else 0) = c + (if b = true then 1 else 0))
    (hl : c ≤ len) (hlen : len < UINT) (hm : m p = udec (cp p)) :
    (if (true && !b) = true then m else cp) p = c1 := by
  cases b
  · simp only [Bool.not_false, Bool.and_self, if_true, hm, hcp]
    simp only [if_true, Bool.false_eq_true, if_false] at k
    rw [udec_of_pos (by omega) (by omega)]
    omega
  · simp only [Bool.not_true, Bool.and_false, Bool.false_eq_true, if_false, hcp]
    simp only [if_true] at k
    omega

theorem counter_sp_step (a b : Bool) (mi md : Nat → Nat) (sp : Nat → Nat) (p c c1 len : Nat)
    (hsp : sp p = c)
    (k : c1 + (if a = true then 1 else 0) = c + (if b = true then 1 else 0))
    (hl1 : c1 ≤ len) (hl : c ≤ len) (hlen : len < UINT) (hmi : mi p = uinc (sp p))
    (hmd : md p = udec (sp p)) :
    (if (!a && b) = true then mi else if (a && !b) = true then md else sp) p = c1 := by
  cases a <;> cases b <;>
    simp only [Bool.not_false, Bool.not_true, Bool.and_self, Bool.and_true, Bool.and_false,
      Bool.false_eq_true, if_true, if_false, hmi, hmd, hsp] <;>
    simp only [if_true, Bool.false_eq_true, if_false] at k
  · omega
  · rw [uinc_of_lt (by omega)]; omega
  · rw [udec_of_pos (by omega) (by omega)]; omega
  · omega

theorem countProviders_eq (r : KCudfReducer) (pid : Nat) :
    r.countProviders pid =
      ((r.pvds_in pid).countP (fun q => isCP (r.pkg_st q)) % UINT,
        (r.pvds_in pid).countP (fun q => isSP (r.pkg_st q)) % UINT) := by
  unfold KCudfReducer.countProviders GraphWriter.providers KCudfReducer.state
  have key : ∀ (l : List Nat) (c s : Nat),
      l.foldl (fun (cs : Nat × Nat) pvdr =>
        ((if isCP (r.pkg_st pvdr) = true then uinc cs.1 else cs.1),
          (if isSP (r.pkg_st pvdr) = true then uinc cs.2 else cs.2))) (c % UINT, s % UINT) =
      ((c + l.countP (fun q => isCP (r.pkg_st q))) % UINT,
        (s + l.countP (fun q => isSP (r.pkg_st q))) % UINT) := by
    intro l
    induction l with
    | nil => intro c s; simp
    | cons a l ih =>
      intro c s
      rw [List.foldl_cons, List.countP_cons, List.countP_cons]
      have e1 : (if isCP (r.pkg_st a) = true then uinc (c % UINT) else c % UINT) =
          (c + if isCP (r.pkg_st a) = true then 1 else 0) % UINT := by
        split
        · simp [uinc, Nat.add_mod]
        · simp
      have e2 : (if isSP (r.pkg_st a) = true then uinc (s % UINT) else s % UINT) =
          (s + if isSP (r.pkg_st a) = true then 1 else 0) % UINT := by
        split
        · simp [uinc, Nat.add_mod]
        · simp
      simp only [e1, e2]
      rw [ih]
      congr 2 <;> omega
  have := key (r.pvds_in pid) 0 0
  simpa using this

theorem initLoop_eq (r : KCudfReducer) :
    r.initLoop =
      { r with
        sp := assignAll (fun pid => (r.countProviders pid).2) r.sp r.pkgs
        cp := assignAll (fun pid => (r.countProviders pid).1) r.cp r.pkgs
        todo1 := r.todo1 ++ r.pkgs.map (fun p => (PK_UPD, p)) } := by
  unfold KCudfReducer.initLoop GraphWriter.packages
  have key : ∀ (l : List Nat) (r1 : KCudfReducer), r1.pvds_in = r.pvds_in → r1.pkg_st = r.pkg_st →
      l.foldl (fun (r : KCudfReducer) pid =>
        ({ r with sp := setAt r.sp pid (r.countProviders pid).2,
                  cp := setAt r.cp pid (r.countProviders pid).1 } : KCudfReducer).addTask
          PK_UPD pid TD_1) r1 =
      { r1 with
        sp := assignAll (fun pid => (r.countProviders pid).2) r1.sp l
        cp := assignAll (fun pid => (r.countProviders pid).1) r1.cp l
        todo1 := r1.todo1 ++ l.map (fun p => (PK_UPD, p)) } := by
    intro l
    induction l with
    | nil => intro r1 _ _; simp [assignAll]
    | cons a l ih =>
      intro r1 e1 e2
      rw [List.foldl_cons, ih _ (by simpa [KCudfReducer.addTask] using e1)
        (by simpa [KCudfReducer.addTask] using e2)]
      have : r1.countProviders a = r.countProviders a := by
        rw [countProviders_eq, countProviders_eq, e1, e2]
      simp [KCudfReducer.addTask, assignAll, this]
  exact key r.pkgs r rfl rfl

theorem initLoop_Counters (r : KCudfReducer) (h : r.toGraphWriter.WF) : Counters r.initLoop := by
  rw [initLoop_eq]
  intro p hp
  have hp1 : p ∈ r.pkgs := hp
  simp only [assignAll_apply, hp1, if_true, countProviders_eq]
  have hlen := h.pvd_in_length hp1
  have l1 := List.countP_le_length (fun q => isCP (r.pkg_st q)) (l := r.pvds_in p)
  have l2 := List.countP_le_length (fun q => isSP (r.pkg_st q)) (l := r.pvds_in p)
  exact ⟨Nat.mod_eq_of_lt (by omega), Nat.mod_eq_of_lt (by omega)⟩

theorem Moved.counters_moved {r r1 : KCudfReducer} {pkgId : Nat} {op : PK_OP}
    (h : Moved r pkgId op r1) (hb : Base r) (hpk : pkgId ∈ r.pkgs) (hc : Counters r) :
    Counters r1 := by
  cases h with
  | change op nx hop htf hne hfl hab =>
    rw [KCudfReducer.changeState_eq]
    intro p hp
    have hp1 : p ∈ r.pkgs := hp
    have hwf := hb.1
    have hnd := hwf.pvd_in_nodup hp1
    have hlen := hwf.pvd_in_length hp1
    have hond := hwf.pvd_out_nodup hpk
    have hmem : p ∈ r.pvds_out pkgId ↔ pkgId ∈ r.pvds_in p :=
      ⟨fun hx => (hwf.pvd_out hpk hx).2, fun hx => (hwf.pvd_in hp1 hx).2⟩
    obtain ⟨hcp, hsp⟩ := hc p hp1
    have lc := List.countP_le_length (fun q => isCP (setAt r.pkg_st pkgId nx q))
      (l := r.pvds_in p)
    have ls := List.countP_le_length (fun q => isSP (setAt r.pkg_st pkgId nx q))
      (l := r.pvds_in p)
    by_cases hin : pkgId ∈ r.pvds_in p
    · have kc := countP_setAt_mem isCP r.pkg_st pkgId nx _ hnd hin
      have ks := countP_setAt_mem isSP r.pkg_st pkgId nx _ hnd hin
      have hin1 : p ∈ r.pvds_out pkgId := hmem.mpr hin
      have hcur : isCP (r.pkg_st pkgId) = true := by
        rcases tf_cases hop (hb.2.1 pkgId hpk) htf hne hfl hab with
          ⟨e1, _, _⟩ | ⟨e1, _, _⟩ | ⟨e1, _, _⟩ | ⟨e1, _, _⟩ | ⟨e1, _, _⟩ | ⟨e1, _, _⟩ <;>
        rw [e1] <;> rfl
      have lc0 := List.countP_le_length (fun q => isCP (r.pkg_st q)) (l := r.pvds_in p)
      have ls0 := List.countP_le_length (fun q => isSP (r.pkg_st q)) (l := r.pvds_in p)
      constructor
      · show (if (isCP (r.pkg_st pkgId) && !isCP nx) = true then
            mapAt udec r.cp (r.pvds_out pkgId) else r.cp) p = _
        rw [hcur] at kc ⊢
        exact counter_cp_step (isCP nx) _ _ _ _ _ _ hcp kc lc0 hlen
          (mapAt_mem _ _ _ _ hond hin1)
      · show newSp r pkgId (r.pkg_st pkgId) nx p = _
        unfold newSp
        exact counter_sp_step (isSP (r.pkg_st pkgId)) (isSP nx) _ _ _ _ _ _ _ hsp ks ls ls0 hlen
          (mapAt_mem _ _ _ _ hond hin1) (mapAt_mem _ _ _ _ hond hin1)
    · have kc := countP_setAt_not_mem isCP r.pkg_st pkgId nx _ hin
      have ks := countP_setAt_not_mem isSP r.pkg_st pkgId nx _ hin
      have hin1 : p ∉ r.pvds_out pkgId := fun hx => hin (hmem.mp hx)
      simp only [kc, ks, newSp]
      constructor
      · split
        · rw [mapAt_not_mem _ _ _ _ hin1]; exact hcp
        · exact hcp
      · split
        · rw [mapAt_not_mem _ _ _ _ hin1]; exact hsp
        · split
          · rw [mapAt_not_mem _ _ _ _ hin1]; exact hsp
          · exact hsp
  | ucp1 h =>
    obtain ⟨⟨a1, a2, a3, a4, a5, a6, a7⟩, b1, b2, b3, b4⟩ := foldl_ucpStep_frame pkgId
      (r.pvds_in pkgId) r
    intro p hp
    rw [a1] at hp
    rw [b1, b2, b3, a5]
    exact hc p hp
  | _ => exact hc

theorem Stepped.counters_stepped {r r1 : KCudfReducer} (h : Stepped r r1) (hb : Base r)
    (hc : Counters r) : Counters r1 := by
  obtain ⟨h1, h2, h3, h4⟩ := hb
  cases h with
  | first op pkgId rest r1 e1 hm =>
    have hpk : pkgId ∈ r.pkgs := (h3 (op, pkgId) (by simp [e1])).1
    refine hm.counters_moved ⟨h1, h2, ?_, h4⟩ hpk hc
    intro t ht
    exact h3 t (by simp only [e1]; exact List.mem_cons_of_mem _ ht)
  | second op pkgId rest r1 e1 e2 hm =>
    have hpk : pkgId ∈ r.pkgs := (h4 (op, pkgId) (by simp [e2])).1
    refine hm.counters_moved ⟨h1, h2, h3, ?_⟩ hpk hc
    intro t ht
    exact h4 t (by simp only [e2]; exact List.mem_cons_of_mem _ ht)

theorem initLoop_Base (r : KCudfReducer) (h : r.Ready) : Base r.initLoop := by
  obtain ⟨h1, h2, h3, h4⟩ := h
  rw [initLoop_eq]
  refine ⟨h1, ?_, ?_, ?_⟩
  · intro p hp
    have hp1 : p ∈ r.pkgs := hp
    simp only [h2 p hp1, KCudfReducer.startState]
    cases r.keep p <;> cases r.install p <;> simp [PKR_STATE.valid]
  · intro t ht
    simp only [h3, List.nil_append, List.mem_map] at ht
    obtain ⟨q, hq, e⟩ := ht
    subst e
    exact ⟨hq, by simp [PK_OP.isMust]⟩
  · intro t ht
    exact ⟨(h4 t ht).2, by simp [(h4 t ht).1, PK_OP.isCan]⟩

theorem Reach.base_counters {r0 r : KCudfReducer} (h : Reach r0 r) (hb : Base r0)
    (hc : Counters r0) : Base r ∧ Counters r := by
  induction h with
  | start => exact ⟨hb, hc⟩
  | turn r r1 _ ht ih =>
    have hs := ih.1.iteration ht
    exact ⟨hs.base_stepped ih.1, hs.counters_stepped ih.1 ih.2⟩

end CounterLemmas

/-! ## Termination of the loop -/

section Termination

theorem tasksWeight_append (n : Nat) (l m : List task_t) :
    tasksWeight n (l ++ m) = tasksWeight n l + tasksWeight n m := by
  simp [tasksWeight]

theorem tasksWeight_nil (n : Nat) : tasksWeight n [] = 0 := rfl

theorem tasksWeight_cons (n : Nat) (t : task_t) (l : List task_t) :
    tasksWeight n (t :: l) = weight n t.1 + tasksWeight n l := by
  simp [tasksWeight]

theorem tasksWeight_le (n w : Nat) (l : List task_t) (h : ∀ t ∈ l, weight n t.1 ≤ w) :
    tasksWeight n l ≤ l.length * w := by
  induction l with
  | nil => simp [tasksWeight]
  | cons a l ih =>
    rw [tasksWeight_cons, List.length_cons]
    have h1 := h a (List.mem_cons_self _ _)
    have h2 := ih (fun t ht => h t (List.mem_cons_of_mem _ ht))
    calc weight n a.1 + tasksWeight n l ≤ w + l.length * w := Nat.add_le_add h1 h2
      _ = (l.length + 1) * w := by ring

theorem tasksWeight_map (n : Nat) (op : PK_OP) (l : List Nat) :
    tasksWeight n (l.map (fun p => (op, p))) = l.length * weight n op := by
  induction l with
  | nil => simp [tasksWeight]
  | cons a l ih =>
    rw [List.map_cons, tasksWeight_cons, ih, List.length_cons]
    ring

theorem weight_pos (n : Nat) (op : PK_OP) : 1 ≤ weight n op := by
  cases op <;> simp [weight]

theorem GraphWriter.WF.lengths {g : GraphWriter} (h : g.WF) {p : Nat} (hp : p ∈ g.pkgs) :
    (g.deps_out p).length ≤ g.pkgs.length ∧ (g.deps_in p).length ≤ g.pkgs.length ∧
    (g.confs_adj p).length ≤ g.pkgs.length ∧ (g.pvds_out p).length ≤ g.pkgs.length ∧
    (g.pvds_in p).length ≤ g.pkgs.length := by
  obtain ⟨h1, h2, h3, h4, h5, h6, h7⟩ := h
  refine ⟨?_, ?_, ?_, ?_, ?_⟩
  · exact length_le_of_nodup_of_subset (h3 p hp).1 (fun x hx => ((h3 p hp).2 x hx).1)
  · exact length_le_of_nodup_of_subset (h4 p hp).1 (fun x hx => ((h4 p hp).2 x hx).1)
  · exact length_le_of_nodup_of_subset (h5 p hp).1 (fun x hx => ((h5 p hp).2 x hx).1)
  · exact length_le_of_nodup_of_subset (h6 p hp).1 (fun x hx => ((h6 p hp).2 x hx).1)
  · exact length_le_of_nodup_of_subset (h7 p hp).1 (fun x hx => ((h7 p hp).2 x hx).1)

theorem updTasks_weight (g : GraphWriter) (h : g.WF) (st : PKR_STATE) (p : Nat)
    (hp : p ∈ g.pkgs) :
    tasksWeight g.pkgs.length (updTasks1 g st p) + tasksWeight g.pkgs.length (updTasks2 g st p) ≤
      3 * g.pkgs.length := by
  obtain ⟨l1, l2, l3, _, _⟩ := h.lengths hp
  cases st <;>
    simp only [updTasks1, updTasks2, tasksWeight_append, tasksWeight_map, tasksWeight_nil, weight] <;>
    omega

theorem sum_map_le_of_le (l : List Nat) (f g : Nat → Nat) (h : ∀ x ∈ l, f x ≤ g x) :
    (l.map f).sum ≤ (l.map g).sum := by
  induction l with
  | nil => simp
  | cons a l ih =>
    simp only [List.map_cons, List.sum_cons]
    exact Nat.add_le_add (h a (List.mem_cons_self _ _))
      (ih (fun x hx => h x (List.mem_cons_of_mem _ hx)))

theorem sum_map_lt_of_lt (l : List Nat) (f g : Nat → Nat) (h : ∀ x ∈ l, f x ≤ g x) (k : Nat)
    (hk : k ∈ l) (hlt : f k < g k) : (l.map f).sum < (l.map g).sum := by
  induction l with
  | nil => cases hk
  | cons a l ih =>
    simp only [List.map_cons, List.sum_cons]
    have hrest := sum_map_le_of_le l f g (fun x hx => h x (List.mem_cons_of_mem _ hx))
    have ha := h a (List.mem_cons_self _ _)
    rcases List.mem_cons.mp hk with e | hk1
    · subst e; omega
    · have := ih (fun x hx => h x (List.mem_cons_of_mem _ hx)) hk1
      omega

theorem countP_lt_of_lt (l : List Nat) (f g : Nat → Bool) (h : ∀ x ∈ l, f x = true → g x = true)
    (k : Nat) (hk : k ∈ l) (hf : f k = false) (hg : g k = true) :
    l.countP f < l.countP g := by
  induction l with
  | nil => cases hk
  | cons a l ih =>
    rw [List.countP_cons, List.countP_cons]
    have hrest := List.countP_mono_left (l := l) (p := f) (q := g)
      (fun x hx => h x (List.mem_cons_of_mem _ hx))
    have ha := h a (List.mem_cons_self _ _)
    rcases List.mem_cons.mp hk with e | hk1
    · subst e
      simp only [hf, hg, if_true, Bool.false_eq_true, if_false]
      omega
    · have := ih (fun x hx => h x (List.mem_cons_of_mem _ hx)) hk1
      by_cases hfa : f a = true
      · simp only [hfa, ha hfa, if_true]; omega
      · have : (if f a = true then 1 else 0) = 0 := by simp [hfa]
        rw [this]
        omega

theorem ucpStep_potential (pkgId : Nat) (r : KCudfReducer) (p : Nat) (hpk : pkgId ∈ r.pkgs)
    (hp : p ∈ r.pvds_in pkgId) : potential (ucpStep pkgId r p) ≤ potential r := by
  unfold ucpStep
  split
  · rename_i hc
    simp only [Bool.and_eq_true, Bool.not_eq_true', decide_eq_false_iff_not] at hc
    have hmiss : missing ({ r with
        toGraphWriter := r.toGraphWriter.add_dep pkgId p
        todo1 := r.todo1 ++ [(PK_UPD, p), (PK_UPD, pkgId)] } : KCudfReducer) < missing r := by
      unfold missing
      simp only [GraphWriter.add_dep_eq _ _ _ hc.2]
      apply sum_map_lt_of_lt _ _ _ _ pkgId hpk
      · simp only [setAt_same]
        apply countP_lt_of_lt _ _ _ _ p hp
        · simp [mem_setInsert]
        · simp [hc.2]
        · intro x _ hx
          simp only [Bool.not_eq_true', decide_eq_false_iff_not, mem_setInsert, not_or] at hx ⊢
          exact hx.2
      · intro x _
        apply List.countP_mono_left
        intro q _ hq
        simp only [Bool.not_eq_true', decide_eq_false_iff_not] at hq ⊢
        by_cases hx : x = pkgId
        · subst hx
          simp only [setAt_same, mem_setInsert, not_or] at hq
          exact hq.2
        · simpa [setAt_ne _ _ hx] using hq
    have hund : undecided ({ r with
        toGraphWriter := r.toGraphWriter.add_dep pkgId p
        todo1 := r.todo1 ++ [(PK_UPD, p), (PK_UPD, pkgId)] } : KCudfReducer) = undecided r := by
      simp [undecided, GraphWriter.add_dep_eq _ _ _ hc.2]
    have hlen : (r.toGraphWriter.add_dep pkgId p).pkgs = r.pkgs := by
      simp [GraphWriter.add_dep_eq _ _ _ hc.2]
    unfold potential
    rw [hund]
    simp only [hlen, tasksWeight_append, tasksWeight_cons, tasksWeight_nil, weight]
    have : (8 * r.pkgs.length + 10) * (missing ({ r with
        toGraphWriter := r.toGraphWriter.add_dep pkgId p
        todo1 := r.todo1 ++ [(PK_UPD, p), (PK_UPD, pkgId)] } : KCudfReducer) + 1) ≤
        (8 * r.pkgs.length + 10) * missing r := Nat.mul_le_mul_left _ hmiss
    rw [Nat.mul_add] at this
    omega
  · exact le_refl _

theorem foldl_ucpStep_potential (pkgId : Nat) (ps : List Nat) (r : KCudfReducer)
    (hpk : pkgId ∈ r.pkgs) (hps : ∀ p ∈ ps, p ∈ r.pvds_in pkgId) :
    potential (ps.foldl (ucpStep pkgId) r) ≤ potential r := by
  induction ps generalizing r with
  | nil => exact le_refl _
  | cons p ps ih =>
    rw [List.foldl_cons]
    obtain ⟨⟨a1, a2, a3, a4, a5, a6, a7⟩, _⟩ := ucpStep_frame pkgId r p
    refine le_trans (ih _ (by rw [a1]; exact hpk) ?_)
      (ucpStep_potential pkgId r p hpk (hps p (List.mem_cons_self _ _)))
    intro q hq
    rw [a5]
    exact hps q (List.mem_cons_of_mem _ hq)

theorem Moved.potential_lt_moved {r r1 : KCudfReducer} {pkgId : Nat} {op : PK_OP}
    (h : Moved r pkgId op r1) (hb : Base r) (hpk : pkgId ∈ r.pkgs) :
    potential r1 < potential r + weight r.pkgs.length op := by
  have hwf := hb.1
  obtain ⟨l1, l2, l3, l4, l5⟩ := hwf.lengths hpk
  cases h with
  | keep op hop htf => have := weight_pos r.pkgs.length op; omega
  | change op nx hop htf hne hfl hab =>
    have hw := weight_pos r.pkgs.length op
    rw [KCudfReducer.changeState_eq]
    have hund : undecided ({ r with pkg_st := setAt r.pkg_st pkgId nx } : KCudfReducer) <
        undecided r := by
      unfold undecided
      apply countP_lt_of_lt _ _ _ _ pkgId hpk
      · rcases tf_cases hop (hb.2.1 pkgId hpk) htf hne hfl hab with
          ⟨_, _, e3⟩ | ⟨_, _, e3⟩ | ⟨_, _, e3⟩ | ⟨_, _, e3⟩ | ⟨_, _, e3⟩ | ⟨_, _, e3⟩ <;>
        simp [e3]
      · rcases tf_cases hop (hb.2.1 pkgId hpk) htf hne hfl hab with
          ⟨e1, _, _⟩ | ⟨e1, _, _⟩ | ⟨e1, _, _⟩ | ⟨e1, _, _⟩ | ⟨e1, _, _⟩ | ⟨e1, _, _⟩ <;>
        simp [e1]
      · intro x _ hx
        by_cases hxp : x = pkgId
        · subst hxp
          rcases tf_cases hop (hb.2.1 x hpk) htf hne hfl hab with
            ⟨_, _, e3⟩ | ⟨_, _, e3⟩ | ⟨_, _, e3⟩ | ⟨_, _, e3⟩ | ⟨_, _, e3⟩ | ⟨_, _, e3⟩ <;>
          simp [e3] at hx
        · simpa [setAt_ne _ _ hxp] using hx
    have hupd := updTasks_weight r.toGraphWriter hwf nx pkgId hpk
    have hucp : tasksWeight r.pkgs.length
        (if (isCP (r.pkg_st pkgId) && !isCP nx) = true then ucpTasks r.cp (r.pvds_out pkgId)
          else []) ≤ 2 * r.pkgs.length := by
      split
      · have := tasksWeight_le r.pkgs.length 2 (ucpTasks r.cp (r.pvds_out pkgId))
          (fun t ht => by simp [(mem_ucpTasks _ _ _ ht).1, weight])
        have := length_ucpTasks r.cp (r.pvds_out pkgId)
        nlinarith
      · simp [tasksWeight_nil]
    have husp : tasksWeight r.pkgs.length
        (if (isSP (r.pkg_st pkgId) && !isSP nx) = true then
          uspTasks r.pkg_st r.sp (r.pvds_out pkgId) else []) ≤
        r.pkgs.length * (r.pkgs.length + 2) := by
      split
      · have h1 := tasksWeight_le r.pkgs.length (r.pkgs.length + 2)
          (uspTasks r.pkg_st r.sp (r.pvds_out pkgId))
          (fun t ht => by simp [(mem_uspTasks _ _ _ _ ht).1, weight])
        have h2 := length_uspTasks r.pkg_st r.sp (r.pvds_out pkgId)
        have h3 : (uspTasks r.pkg_st r.sp (r.pvds_out pkgId)).length * (r.pkgs.length + 2) ≤
            r.pkgs.length * (r.pkgs.length + 2) := Nat.mul_le_mul_right _ (le_trans h2 l4)
        omega
      · simp [tasksWeight_nil]
    have hu : tasksWeight r.pkgs.length
        (if (!isSPI (r.pkg_st pkgId) && isSPI nx &&
            decide (newSp r pkgId (r.pkg_st pkgId) nx pkgId = 0)) = true
          then [(PK_UPD, pkgId)] else []) ≤ 4 * r.pkgs.length + 5 := by
      split
      · simp [tasksWeight_cons, tasksWeight_nil, weight]
      · simp [tasksWeight_nil]
    have hund2 : undecided ({ r with pkg_st := setAt r.pkg_st pkgId nx } : KCudfReducer) + 1 ≤
        undecided r := hund
    have hmul := Nat.mul_le_mul_left
      (r.pkgs.length * r.pkgs.length + 11 * r.pkgs.length + 5) hund2
    rw [Nat.mul_add] at hmul
    unfold potential
    simp only [tasksWeight_append]
    have e1 : undecided ({ r with
        pkg_st := setAt r.pkg_st pkgId nx
        sp := newSp r pkgId (r.pkg_st pkgId) nx
        cp := if (isCP (r.pkg_st pkgId) && !isCP nx) = true then
          mapAt udec r.cp (r.pvds_out pkgId) else r.cp
        todo1 := (r.todo1 ++
          (if (isCP (r.pkg_st pkgId) && !isCP nx) = true then ucpTasks r.cp (r.pvds_out pkgId)
            else [])) ++ updTasks1 r.toGraphWriter nx pkgId
        todo2 := ((r.todo2 ++
          (if (isSP (r.pkg_st pkgId) && !isSP nx) = true then
            uspTasks r.pkg_st r.sp (r.pvds_out pkgId) else [])) ++
          (if (!isSPI (r.pkg_st pkgId) && isSPI nx &&
              decide (newSp r pkgId (r.pkg_st pkgId) nx pkgId = 0)) = true
            then [(PK_UPD, pkgId)] else [])) ++ updTasks2 r.toGraphWriter nx pkgId } :
          KCudfReducer) =
        undecided ({ r with pkg_st := setAt r.pkg_st pkgId nx } : KCudfReducer) := rfl
    have e2 : missing ({ r with
        pkg_st := setAt r.pkg_st pkgId nx
        sp := newSp r pkgId (r.pkg_st pkgId) nx
        cp := if (isCP (r.pkg_st pkgId) && !isCP nx) = true then
          mapAt udec r.cp (r.pvds_out pkgId) else r.cp
        todo1 := (r.todo1 ++
          (if (isCP (r.pkg_st pkgId) && !isCP nx) = true then ucpTasks r.cp (r.pvds_out pkgId)
            else [])) ++ updTasks1 r.toGraphWriter nx pkgId
        todo2 := ((r.todo2 ++
          (if (isSP (r.pkg_st pkgId) && !isSP nx) = true then
            uspTasks r.pkg_st r.sp (r.pvds_out pkgId) else [])) ++
          (if (!isSPI (r.pkg_st pkgId) && isSPI nx &&
              decide (newSp r pkgId (r.pkg_st pkgId) nx pkgId = 0)) = true
            then [(PK_UPD, pkgId)] else [])) ++ updTasks2 r.toGraphWriter nx pkgId } :
          KCudfReducer) = missing r := rfl
    rw [e1, e2]
    have hmulE : r.pkgs.length * (r.pkgs.length + 2) =
        r.pkgs.length * r.pkgs.length + 2 * r.pkgs.length := by ring
    show tasksWeight r.pkgs.length r.todo1 + _ + _ + (_ + _ + _ + _) + _ + _ < _
    omega
  | ucp0 h =>
    unfold potential
    simp only [tasksWeight_append, tasksWeight_cons, tasksWeight_nil, weight]
    show _ + _ + _ * undecided r + _ * missing r < _
    omega
  | ucp1 h =>
    have := foldl_ucpStep_potential pkgId (r.pvds_in pkgId) r hpk (fun _ hp => hp)
    simp only [weight]
    omega
  | ucpN hc0 hc1 => simp only [weight]; omega
  | usp h hs =>
    unfold potential
    simp only [tasksWeight_append, tasksWeight_cons, tasksWeight_nil, tasksWeight_map, weight]
    show _ + _ + _ * undecided r + _ * missing r < _
    have : (r.pvds_in pkgId).length * 1 ≤ r.pkgs.length := by omega
    omega
  | uspN h => simp only [weight]; omega
  | upd =>
    have hupd := updTasks_weight r.toGraphWriter hwf (r.pkg_st pkgId) pkgId hpk
    unfold potential
    simp only [tasksWeight_append, tasksWeight_cons, tasksWeight_nil, weight]
    show _ + _ + _ * undecided r + _ * missing r < _
    omega

theorem Stepped.potential_lt_stepped {r r1 : KCudfReducer} (h : Stepped r r1) (hb : Base r) :
    potential r1 < potential r := by
  obtain ⟨h1, h2, h3, h4⟩ := hb
  cases h with
  | first op pkgId rest r1 e1 hm =>
    have hpk : pkgId ∈ r.pkgs := (h3 (op, pkgId) (by simp [e1])).1
    have hb1 : Base ({ r with todo1 := rest } : KCudfReducer) := by
      refine ⟨h1, h2, ?_, h4⟩
      intro t ht
      exact h3 t (by simp only [e1]; exact List.mem_cons_of_mem _ ht)
    have := hm.potential_lt_moved hb1 hpk
    have e : potential r = potential ({ r with todo1 := rest } : KCudfReducer) +
        weight r.pkgs.length op := by
      unfold potential
      simp only [e1, tasksWeight_cons]
      show _ = _ + _ + _ * undecided r + _ * missing r + _
      omega
    rw [e]
    exact this
  | second op pkgId rest r1 e1 e2 hm =>
    have hpk : pkgId ∈ r.pkgs := (h4 (op, pkgId) (by simp [e2])).1
    have hb1 : Base ({ r with todo2 := rest } : KCudfReducer) := by
      refine ⟨h1, h2, h3, ?_⟩
      intro t ht
      exact h4 t (by simp only [e2]; exact List.mem_cons_of_mem _ ht)
    have := hm.potential_lt_moved hb1 hpk
    have e : potential r = potential ({ r with todo2 := rest } : KCudfReducer) +
        weight r.pkgs.length op := by
      unfold potential
      simp only [e2, tasksWeight_cons]
      show _ = _ + _ + _ * undecided r + _ * missing r + _
      omega
    rw [e]
    exact this

end Termination

/-! ## The loop as a whole -/

section Loop

theorem iteration_eq_none_iff (r : KCudfReducer) :
    r.iteration = none ↔ r.todo1 = [] ∧ r.todo2 = [] := by
  unfold KCudfReducer.iteration KCudfReducer.nextTask
  cases h1 : r.todo1 <;> cases h2 : r.todo2 <;> simp

theorem workTodo_eq_false_iff (r : KCudfReducer) :
    r.workTodo = false ↔ r.todo1 = [] ∧ r.todo2 = [] := by
  unfold KCudfReducer.workTodo
  cases h1 : r.todo1 <;> cases h2 : r.todo2 <;> simp

theorem processLoop_succ (fuel : Nat) (r : KCudfReducer) (res : Processed)
    (h : KCudfReducer.processLoop fuel r = some res) :
    KCudfReducer.processLoop (fuel + 1) r = some res := by
  induction fuel generalizing r with
  | zero =>
    unfold KCudfReducer.processLoop at h
    split at h
    · cases h
    · rename_i hw
      have hw1 : r.workTodo = false := by simpa using hw
      have := (iteration_eq_none_iff r).mpr ((workTodo_eq_false_iff r).mp hw1)
      simp only [KCudfReducer.processLoop, this]
      exact h
  | succ n ih =>
    cases hi : r.iteration with
    | none =>
      simp only [KCudfReducer.processLoop, hi] at h ⊢
      exact h
    | some t =>
      cases t with
      | next r1 =>
        simp only [KCudfReducer.processLoop, hi] at h
        have := ih r1 h
        rw [KCudfReducer.processLoop, hi]
        exact this
      | fail r1 =>
        simp only [KCudfReducer.processLoop, hi] at h ⊢
        exact h
      | assertion r1 =>
        simp only [KCudfReducer.processLoop, hi] at h ⊢
        exact h

theorem processLoop_mono (fuel fuel1 : Nat) (r : KCudfReducer) (res : Processed)
    (h : KCudfReducer.processLoop fuel r = some res) (hle : fuel ≤ fuel1) :
    KCudfReducer.processLoop fuel1 r = some res := by
  induction hle with
  | refl => exact h
  | step _ ih => exact processLoop_succ _ r res ih

theorem processLoop_halts (fuel : Nat) (r : KCudfReducer) (hb : Base r)
    (hf : potential r < fuel) : ∃ res, KCudfReducer.processLoop fuel r = some res := by
  induction fuel generalizing r with
  | zero => omega
  | succ n ih =>
    rw [KCudfReducer.processLoop]
    cases hi : r.iteration with
    | none => exact ⟨_, rfl⟩
    | some t =>
      cases t with
      | next r1 =>
        have hs := hb.iteration hi
        have := hs.potential_lt_stepped hb
        exact ih r1 (hs.base_stepped hb) (by omega)
      | fail r1 => exact ⟨_, rfl⟩
      | assertion r1 => exact ⟨_, rfl⟩

theorem processLoop_ended (r0 : KCudfReducer) (fuel : Nat) (r : KCudfReducer) (res : Processed)
    (hr : Reach r0 r) (h : KCudfReducer.processLoop fuel r = some res) :
    ∃ r1, Reach r0 r1 ∧ Ended r1 res := by
  induction fuel generalizing r with
  | zero =>
    unfold KCudfReducer.processLoop at h
    split at h
    · cases h
    · rename_i hw
      have hw1 : r.workTodo = false := by simpa using hw
      obtain ⟨e1, e2⟩ := (workTodo_eq_false_iff r).mp hw1
      simp only [Option.some.injEq] at h
      exact ⟨r, hr, Or.inl ⟨e1, e2, h.symm⟩⟩
  | succ n ih =>
    rw [KCudfReducer.processLoop] at h
    split at h
    · rename_i hi
      obtain ⟨e1, e2⟩ := (iteration_eq_none_iff r).mp hi
      simp only [Option.some.injEq] at h
      exact ⟨r, hr, Or.inl ⟨e1, e2, h.symm⟩⟩
    · rename_i r1 hi
      exact ih r1 (Reach.turn r r1 hr hi) h
    · rename_i r1 hi
      simp only [Option.some.injEq] at h
      exact ⟨r, hr, Or.inr (Or.inl ⟨r1, hi, h.symm⟩)⟩
    · rename_i r1 hi
      simp only [Option.some.injEq] at h
      exact ⟨r, hr, Or.inr (Or.inr ⟨r1, hi, h.symm⟩)⟩

theorem turn_fail (r : KCudfReducer) (op : PK_OP) (pkgId : Nat) (r1 : KCudfReducer)
    (h : r.turn op pkgId = Turn.fail r1) :
    r1 = r ∧ op.isTransition = true ∧ tf (r.pkg_st pkgId) op = some PKR_FL := by
  unfold KCudfReducer.turn at h
  simp only [KCudfReducer.state] at h
  cases op
  case PK_UCP =>
    simp only [reduceCtorEq, or_self, if_false, if_true] at h
    by_cases h1 : (if r.cp pkgId = 0 then r.addTask PK_MU pkgId TD_1 else r).cp pkgId = 1
    · simp only [h1, if_true] at h
      cases hu : (if r.cp pkgId = 0 then r.addTask PK_MU pkgId TD_1 else r).ucpLoop pkgId <;>
        simp only [hu] at h <;> cases h
    · simp only [h1, if_false] at h
      cases h
  case PK_USP =>
    simp only [reduceCtorEq, or_self, if_false, true_and] at h
    by_cases h1 : r.sp pkgId = 0 ∧ isSPI (r.pkg_st pkgId) = true
    · simp only [h1, and_self, if_true] at h
      cases h
    · simp only [h1, if_false] at h
      cases h
  case PK_UPD =>
    simp only [reduceCtorEq, or_self, if_false, false_and, if_true] at h
  all_goals
    simp only [reduceCtorEq, or_false, false_or, or_true, true_or, if_true] at h
    cases htf : tf (r.pkg_st pkgId) _ with
    | none => simp only [htf] at h; cases h
    | some nx =>
      simp only [htf] at h
      by_cases hfl : nx = PKR_FL
      · simp only [hfl, if_true, Turn.fail.injEq] at h
        subst hfl
        exact ⟨h.symm, rfl, rfl⟩
      · simp only [hfl, if_false] at h
        by_cases hab : nx = PKR_AB
        · simp only [hab, if_true] at h
          cases h
        · simp only [hab, if_false] at h
          split at h <;> cases h

theorem turn_assertion (r : KCudfReducer) (op : PK_OP) (pkgId : Nat) (r1 : KCudfReducer)
    (hpk : pkgId ∈ r.pkgs) (hpv : ∀ p ∈ r.pvds_in pkgId, p ∈ r.pkgs)
    (h : r.turn op pkgId = Turn.assertion r1) :
    op.isTransition = true ∧
      (tf (r.pkg_st pkgId) op = none ∨ tf (r.pkg_st pkgId) op = some PKR_AB) := by
  unfold KCudfReducer.turn at h
  simp only [KCudfReducer.state] at h
  cases op
  case PK_UCP =>
    simp only [reduceCtorEq, or_self, if_false, if_true] at h
    have hu : ∀ x : KCudfReducer, x.pkgs = r.pkgs → x.pvds_in = r.pvds_in →
        x.ucpLoop pkgId = some ((x.pvds_in pkgId).foldl (ucpStep pkgId) x) := by
      intro x e1 e2
      unfold KCudfReducer.ucpLoop
      exact KCudfReducer.ucpLoop_eq x pkgId _ (by rw [e1]; exact hpk)
        (by rw [show x.providers pkgId = x.pvds_in pkgId from rfl, e1, e2]; exact hpv)
    have hu1 := hu (if r.cp pkgId = 0 then r.addTask PK_MU pkgId TD_1 else r)
      (by split <;> rfl) (by split <;> rfl)
    by_cases h1 : (if r.cp pkgId = 0 then r.addTask PK_MU pkgId TD_1 else r).cp pkgId = 1
    · simp only [h1, if_true, hu1] at h
      cases h
    · simp only [h1, if_false] at h
      cases h
  case PK_USP =>
    simp only [reduceCtorEq, or_self, if_false, true_and] at h
    by_cases h1 : r.sp pkgId = 0 ∧ isSPI (r.pkg_st pkgId) = true
    · simp only [h1, and_self, if_true] at h
      cases h
    · simp only [h1, if_false] at h
      cases h
  case PK_UPD =>
    simp only [reduceCtorEq, or_self, if_false, false_and, if_true] at h
  all_goals
    simp only [reduceCtorEq, or_false, false_or, or_true, true_or, if_true] at h
    cases htf : tf (r.pkg_st pkgId) _ with
    | none => exact ⟨rfl, Or.inl rfl⟩
    | some nx =>
      simp only [htf] at h
      by_cases hfl : nx = PKR_FL
      · simp only [hfl, if_true] at h
        cases h
      · simp only [hfl, if_false] at h
        by_cases hab : nx = PKR_AB
        · subst hab
          exact ⟨rfl, Or.inr rfl⟩
        · simp only [hab, if_false] at h
          split at h <;> cases h

end Loop

/-! ## Propagation of the must obligations -/

section MustLemmas

variable {g : GraphWriter} {st : Nat → PKR_STATE} {cp : Nat → Nat} {l : List task_t}

theorem MustPending.to_saturated (h : MustPending g st cp []) : Saturated g st cp [] := by
  obtain ⟨h1, h2, h3, h4, h5⟩ := h
  refine ⟨?_, ?_, ?_, ?_, ?_, ?_, ?_⟩
  · intro p hp hs q hq; simpa using h1 p hp hs q hq
  · intro p hp hs q hq; simpa using h2 p hp hs q hq
  · intro p hp hs q hq; simpa using h3 p hp hs q hq
  · intro p hp hs; simpa using h4 p hp hs
  · intro p hp hs q hq hc; simpa using h5 p hp hs q hq hc
  · intro q hq; cases hq
  · intro q hq; cases hq

theorem MustPending.keepMI {pk : Nat} (h : MustPending g st cp ((PK_MI, pk) :: l))
    (hs : st pk = PKR_MI) : MustPending g st cp l := by
  obtain ⟨h1, h2, h3, h4, h5⟩ := h
  refine ⟨?_, ?_, ?_, ?_, ?_⟩
  · intro p hp hsp q hq
    rcases h1 p hp hsp q hq with a | a | a
    · exact Or.inl a
    · simp only [List.mem_cons, Prod.mk.injEq, true_and] at a
      rcases a with a | a
      · subst a; exact Or.inl hs
      · exact Or.inr (Or.inl a)
    · simp only [List.mem_cons, Prod.mk.injEq, reduceCtorEq, false_and, false_or] at a
      exact Or.inr (Or.inr a)
  · intro p hp hsp q hq
    rcases h2 p hp hsp q hq with a | a | a
    · exact Or.inl a
    · simp only [List.mem_cons, Prod.mk.injEq, reduceCtorEq, false_and, false_or] at a
      exact Or.inr (Or.inl a)
    · simp only [List.mem_cons, Prod.mk.injEq, reduceCtorEq, false_and, false_or] at a
      exact Or.inr (Or.inr a)
  · intro p hp hsp q hq
    rcases h3 p hp hsp q hq with a | a | a
    · exact Or.inl a
    · simp only [List.mem_cons, Prod.mk.injEq, reduceCtorEq, false_and, false_or] at a
      exact Or.inr (Or.inl a)
    · simp only [List.mem_cons, Prod.mk.injEq, reduceCtorEq, false_and, false_or] at a
      exact Or.inr (Or.inr a)
  · intro p hp hcp
    rcases h4 p hp hcp with a | a | a | a
    · exact Or.inl a
    · simp only [List.mem_cons, Prod.mk.injEq, reduceCtorEq, false_and, false_or] at a
      exact Or.inr (Or.inl a)
    · simp only [List.mem_cons, Prod.mk.injEq, reduceCtorEq, false_and, false_or] at a
      exact Or.inr (Or.inr (Or.inl a))
    · simp only [List.mem_cons, Prod.mk.injEq, reduceCtorEq, false_and, false_or] at a
      exact Or.inr (Or.inr (Or.inr a))
  · intro p hp hcp q hq hc
    rcases h5 p hp hcp q hq hc with a | a | a
    · exact Or.inl a
    · simp only [List.mem_cons, Prod.mk.injEq, reduceCtorEq, false_and, false_or] at a
      exact Or.inr (Or.inl a)
    · simp only [List.mem_cons, Prod.mk.injEq, reduceCtorEq, false_and, false_or] at a
      exact Or.inr (Or.inr a)

theorem MustPending.keepMU {pk : Nat} (h : MustPending g st cp ((PK_MU, pk) :: l))
    (hs : st pk = PKR_MU) : MustPending g st cp l := by
  obtain ⟨h1, h2, h3, h4, h5⟩ := h
  refine ⟨?_, ?_, ?_, ?_, ?_⟩
  · intro p hp hsp q hq
    rcases h1 p hp hsp q hq with a | a | a
    · exact Or.inl a
    · simp only [List.mem_cons, Prod.mk.injEq, reduceCtorEq, false_and, false_or] at a
      exact Or.inr (Or.inl a)
    · simp only [List.mem_cons, Prod.mk.injEq, reduceCtorEq, false_and, false_or] at a
      exact Or.inr (Or.inr a)
  · intro p hp hsp q hq
    rcases h2 p hp hsp q hq with a | a | a
    · exact Or.inl a
    · simp only [List.mem_cons, Prod.mk.injEq, true_and] at a
      rcases a with a | a
      · subst a; exact Or.inl hs
      · exact Or.inr (Or.inl a)
    · simp only [List.mem_cons, Prod.mk.injEq, reduceCtorEq, false_and, false_or] at a
      exact Or.inr (Or.inr a)
  · intro p hp hsp q hq
    rcases h3 p hp hsp q hq with a | a | a
    · exact Or.inl a
    · simp only [List.mem_cons, Prod.mk.injEq, true_and] at a
      rcases a with a | a
      · subst a; exact Or.inl hs
      · exact Or.inr (Or.inl a)
    · simp only [List.mem_cons, Prod.mk.injEq, reduceCtorEq, false_and, false_or] at a
      exact Or.inr (Or.inr a)
  · intro p hp hcp
    rcases h4 p hp hcp with a | a | a | a
    · exact Or.inl a
    · simp only [List.mem_cons, Prod.mk.injEq, true_and] at a
      rcases a with a | a
      · subst a; exact Or.inl hs
      · exact Or.inr (Or.inl a)
    · simp only [List.mem_cons, Prod.mk.injEq, reduceCtorEq, false_and, false_or] at a
      exact Or.inr (Or.inr (Or.inl a))
    · simp only [List.mem_cons, Prod.mk.injEq, reduceCtorEq, false_and, false_or] at a
      exact Or.inr (Or.inr (Or.inr a))
  · intro p hp hcp q hq hc
    rcases h5 p hp hcp q hq hc with a | a | a
    · exact Or.inl a
    · simp only [List.mem_cons, Prod.mk.injEq, reduceCtorEq, false_and, false_or] at a
      exact Or.inr (Or.inl a)
    · simp only [List.mem_cons, Prod.mk.injEq, reduceCtorEq, false_and, false_or] at a
      exact Or.inr (Or.inr a)

theorem MustPending.toMI {pk : Nat} (h : MustPending g st cp ((PK_MI, pk) :: l))
    (hs : st pk ≠ PKR_MU) :
    MustPending g (setAt st pk PKR_MI) cp (l ++ updTasks1 g PKR_MI pk) := by
  obtain ⟨h1, h2, h3, h4, h5⟩ := h
  refine ⟨?_, ?_, ?_, ?_, ?_⟩
  · intro p hp hsp q hq
    by_cases e1 : p = pk
    · subst e1
      simp [mem_updTasks1, hq]
    · have key := h1 p hp (by simpa [setAt_ne _ _ e1] using hsp) q hq
      by_cases e2 : q = pk
      · subst e2; simp
      · simp only [setAt_ne _ _ e2, List.mem_append, List.mem_cons, Prod.mk.injEq, true_and,
          reduceCtorEq, false_and, false_or] at key ⊢
        tauto
  · intro p hp hsp q hq
    by_cases e1 : p = pk
    · subst e1
      simp [mem_updTasks1, hq]
    · have key := h2 p hp (by simpa [setAt_ne _ _ e1] using hsp) q hq
      by_cases e2 : q = pk
      · subst e2
        simp only [List.mem_append, List.mem_cons, Prod.mk.injEq, true_and,
          reduceCtorEq, false_and, false_or] at key ⊢
        tauto
      · simp only [setAt_ne _ _ e2, List.mem_append, List.mem_cons, Prod.mk.injEq, true_and,
          reduceCtorEq, false_and, false_or] at key ⊢
        tauto
  · intro q hq hsq p hp
    by_cases e1 : q = pk
    · subst e1
      simp at hsq
    · have key := h3 q hq (by simpa [setAt_ne _ _ e1] using hsq) p hp
      by_cases e2 : p = pk
      · subst e2
        simp only [List.mem_append, List.mem_cons, Prod.mk.injEq, true_and,
          reduceCtorEq, false_and, false_or] at key ⊢
        tauto
      · simp only [setAt_ne _ _ e2, List.mem_append, List.mem_cons, Prod.mk.injEq, true_and,
          reduceCtorEq, false_and, false_or] at key ⊢
        tauto
  · intro p hp hcp
    have key := h4 p hp hcp
    by_cases e1 : p = pk
    · subst e1
      simp only [List.mem_append, List.mem_cons, Prod.mk.injEq, true_and,
        reduceCtorEq, false_and, false_or] at key ⊢
      tauto
    · simp only [setAt_ne _ _ e1, List.mem_append, List.mem_cons, Prod.mk.injEq, true_and,
        reduceCtorEq, false_and, false_or] at key ⊢
      tauto
  · intro p hp hcp q hq hc
    have hc1 : isCP (st q) = true := by
      by_cases e2 : q = pk
      · subst e2; simpa [isCP] using hs
      · simpa [setAt_ne _ _ e2] using hc
    have key := h5 p hp hcp q hq hc1
    simp only [List.mem_append, List.mem_cons, Prod.mk.injEq, true_and,
      reduceCtorEq, false_and, false_or] at key ⊢
    tauto

theorem MustPending.toMU {pk : Nat} (h : MustPending g st cp ((PK_MU, pk) :: l))
    (hs : st pk ≠ PKR_MI) (hn : (g.pvds_out pk).Nodup) :
    MustPending g (setAt st pk PKR_MU) (mapAt udec cp (g.pvds_out pk))
      ((l ++ ucpTasks cp (g.pvds_out pk)) ++ updTasks1 g PKR_MU pk) := by
  obtain ⟨h1, h2, h3, h4, h5⟩ := h
  refine ⟨?_, ?_, ?_, ?_, ?_⟩
  · intro p hp hsp q hq
    by_cases e1 : p = pk
    · subst e1
      simp at hsp
    · have key := h1 p hp (by simpa [setAt_ne _ _ e1] using hsp) q hq
      by_cases e2 : q = pk
      · subst e2
        simp only [List.mem_append, List.mem_cons, Prod.mk.injEq, true_and,
          reduceCtorEq, false_and, false_or] at key ⊢
        tauto
      · simp only [setAt_ne _ _ e2, List.mem_append, List.mem_cons, Prod.mk.injEq, true_and,
          reduceCtorEq, false_and, false_or] at key ⊢
        tauto
  · intro p hp hsp q hq
    by_cases e1 : p = pk
    · subst e1
      simp at hsp
    · have key := h2 p hp (by simpa [setAt_ne _ _ e1] using hsp) q hq
      by_cases e2 : q = pk
      · subst e2; simp
      · simp only [setAt_ne _ _ e2, List.mem_append, List.mem_cons, Prod.mk.injEq, true_and,
          reduceCtorEq, false_and, false_or] at key ⊢
        tauto
  · intro q hq hsq p hp
    by_cases e2 : p = pk
    · subst e2; simp
    · by_cases e1 : q = pk
      · subst e1
        simp [mem_updTasks1, hp]
      · have key := h3 q hq (by simpa [setAt_ne _ _ e1] using hsq) p hp
        simp only [setAt_ne _ _ e2, List.mem_append, List.mem_cons, Prod.mk.injEq, true_and,
          reduceCtorEq, false_and, false_or] at key ⊢
        tauto
  · intro p hp hcp
    by_cases e1 : p = pk
    · subst e1; simp
    · by_cases hm : p ∈ g.pvds_out pk
      · rw [mapAt_mem _ _ _ _ hn hm] at hcp
        have : (PK_UCP, p) ∈ ucpTasks cp (g.pvds_out pk) :=
          (ucpTasks_mem_iff cp _ hn p).mpr ⟨hm, by omega⟩
        simp only [List.mem_append]
        exact Or.inr (Or.inr (Or.inl (Or.inl (Or.inr this))))
      · rw [mapAt_not_mem _ _ _ _ hm] at hcp
        have key := h4 p hp hcp
        simp only [setAt_ne _ _ e1, List.mem_append, List.mem_cons, Prod.mk.injEq, true_and,
          reduceCtorEq, false_and, false_or] at key ⊢
        tauto
  · intro p hp hcp q hq hc
    by_cases hm : p ∈ g.pvds_out pk
    · rw [mapAt_mem _ _ _ _ hn hm] at hcp
      have : (PK_UCP, p) ∈ ucpTasks cp (g.pvds_out pk) :=
        (ucpTasks_mem_iff cp _ hn p).mpr ⟨hm, by omega⟩
      simp only [List.mem_append]
      exact Or.inr (Or.inl (Or.inl (Or.inr this)))
    · rw [mapAt_not_mem _ _ _ _ hm] at hcp
      have e2 : q ≠ pk := by
        intro e; subst e; simp [isCP] at hc
      have key := h5 p hp hcp q hq (by simpa [setAt_ne _ _ e2] using hc)
      simp only [List.mem_append, List.mem_cons, Prod.mk.injEq, true_and,
        reduceCtorEq, false_and, false_or] at key ⊢
      tauto

theorem MustPending.ucp0 {pk : Nat} (h : MustPending g st cp ((PK_UCP, pk) :: l))
    (hc : cp pk = 0) : MustPending g st cp (l ++ [(PK_MU, pk)]) := by
  obtain ⟨h1, h2, h3, h4, h5⟩ := h
  refine ⟨?_, ?_, ?_, ?_, ?_⟩
  · intro p hp hsp q hq
    have key := h1 p hp hsp q hq
    simp only [List.mem_append, List.mem_cons, Prod.mk.injEq, true_and, List.mem_singleton,
      reduceCtorEq, false_and, false_or, or_false] at key ⊢
    tauto
  · intro p hp hsp q hq
    have key := h2 p hp hsp q hq
    simp only [List.mem_append, List.mem_cons, Prod.mk.injEq, true_and, List.mem_singleton,
      reduceCtorEq, false_and, false_or, or_false] at key ⊢
    tauto
  · intro p hp hsp q hq
    have key := h3 p hp hsp q hq
    simp only [List.mem_append, List.mem_cons, Prod.mk.injEq, true_and, List.mem_singleton,
      reduceCtorEq, false_and, false_or, or_false] at key ⊢
    tauto
  · intro p hp hcp
    have key := h4 p hp hcp
    simp only [List.mem_append, List.mem_cons, Prod.mk.injEq, true_and, List.mem_singleton,
      reduceCtorEq, false_and, false_or, or_false] at key ⊢
    tauto
  · intro p hp hcp q hq hcq
    have key := h5 p hp hcp q hq hcq
    simp only [List.mem_append, List.mem_cons, Prod.mk.injEq, true_and, List.mem_singleton,
      reduceCtorEq, false_and, false_or, or_false] at key ⊢
    by_cases e : p = pk
    · subst e; omega
    · tauto

theorem MustPending.ucpDone {pk : Nat} (h : MustPending g st cp ((PK_UCP, pk) :: l))
    (hc : cp pk ≠ 0)
    (hd : cp pk = 1 → ∀ q ∈ g.pvds_in pk, isCP (st q) = true → q ∈ g.deps_out pk) :
    MustPending g st cp l := by
  obtain ⟨h1, h2, h3, h4, h5⟩ := h
  refine ⟨?_, ?_, ?_, ?_, ?_⟩
  · intro p hp hsp q hq
    have key := h1 p hp hsp q hq
    simp only [List.mem_append, List.mem_cons, Prod.mk.injEq, true_and, List.mem_singleton,
      reduceCtorEq, false_and, false_or, or_false] at key ⊢
    tauto
  · intro p hp hsp q hq
    have key := h2 p hp hsp q hq
    simp only [List.mem_append, List.mem_cons, Prod.mk.injEq, true_and, List.mem_singleton,
      reduceCtorEq, false_and, false_or, or_false] at key ⊢
    tauto
  · intro p hp hsp q hq
    have key := h3 p hp hsp q hq
    simp only [List.mem_append, List.mem_cons, Prod.mk.injEq, true_and, List.mem_singleton,
      reduceCtorEq, false_and, false_or, or_false] at key ⊢
    tauto
  · intro p hp hcp
    have key := h4 p hp hcp
    simp only [List.mem_append, List.mem_cons, Prod.mk.injEq, true_and, List.mem_singleton,
      reduceCtorEq, false_and, false_or, or_false] at key ⊢
    by_cases e : p = pk
    · subst e; omega
    · tauto
  · intro p hp hcp q hq hcq
    have key := h5 p hp hcp q hq hcq
    simp only [List.mem_append, List.mem_cons, Prod.mk.injEq, true_and, List.mem_singleton,
      reduceCtorEq, false_and, false_or, or_false] at key ⊢
    by_cases e : p = pk
    · subst e; exact Or.inl (hd hcp q hq hcq)
    · tauto

theorem MustPending.upd {pk : Nat} (h : MustPending g st cp ((PK_UPD, pk) :: l)) :
    MustPending g st cp ((l ++ updTasks1 g (st pk) pk) ++ [(PK_UCP, pk)]) := by
  obtain ⟨h1, h2, h3, h4, h5⟩ := h
  refine ⟨?_, ?_, ?_, ?_, ?_⟩
  · intro p hp hsp q hq
    have key := h1 p hp hsp q hq
    simp only [List.mem_append, List.mem_cons, Prod.mk.injEq, true_and, List.mem_singleton,
      reduceCtorEq, false_and, false_or, or_false, mem_updTasks1] at key ⊢
    by_cases e : p = pk
    · subst e; tauto
    · tauto
  · intro p hp hsp q hq
    have key := h2 p hp hsp q hq
    simp only [List.mem_append, List.mem_cons, Prod.mk.injEq, true_and, List.mem_singleton,
      reduceCtorEq, false_and, false_or, or_false, mem_updTasks1] at key ⊢
    by_cases e : p = pk
    · subst e; tauto
    · tauto
  · intro p hp hsp q hq
    have key := h3 p hp hsp q hq
    simp only [List.mem_append, List.mem_cons, Prod.mk.injEq, true_and, List.mem_singleton,
      reduceCtorEq, false_and, false_or, or_false, mem_updTasks1] at key ⊢
    by_cases e : p = pk
    · subst e; tauto
    · tauto
  · intro p hp hcp
    have key := h4 p hp hcp
    simp only [List.mem_append, List.mem_cons, Prod.mk.injEq, true_and, List.mem_singleton,
      reduceCtorEq, false_and, false_or, or_false, mem_updTasks1] at key ⊢
    by_cases e : p = pk
    · subst e; tauto
    · tauto
  · intro p hp hcp q hq hcq
    have key := h5 p hp hcp q hq hcq
    simp only [List.mem_append, List.mem_cons, Prod.mk.injEq, true_and, List.mem_singleton,
      reduceCtorEq, false_and, false_or, or_false, mem_updTasks1] at key ⊢
    by_cases e : p = pk
    · subst e; tauto
    · tauto

theorem GraphWriter.mem_add_dep_out (g : GraphWriter) (p q : Nat) (h : q ∉ g.deps_out p)
    (x y : Nat) : y ∈ (g.add_dep p q).deps_out x ↔ y ∈ g.deps_out x ∨ (x = p ∧ y = q) := by
  rw [GraphWriter.add_dep_eq g p q h]
  by_cases e : x = p
  · subst e
    simp only [setAt_same, mem_setInsert, true_and]
    tauto
  · simp [setAt_ne _ _ e, e]

theorem GraphWriter.mem_add_dep_in (g : GraphWriter) (p q : Nat) (h : q ∉ g.deps_out p)
    (x y : Nat) : x ∈ (g.add_dep p q).deps_in y ↔ x ∈ g.deps_in y ∨ (y = q ∧ x = p) := by
  rw [GraphWriter.add_dep_eq g p q h]
  by_cases e : y = q
  · subst e
    simp only [setAt_same, mem_setInsert, true_and]
    tauto
  · simp [setAt_ne _ _ e, e]

theorem GraphWriter.add_dep_frame (g : GraphWriter) (p q : Nat) :
    (g.add_dep p q).pkgs = g.pkgs ∧ (g.add_dep p q).confs_adj = g.confs_adj ∧
      (g.add_dep p q).pvds_in = g.pvds_in ∧ (g.add_dep p q).pvds_out = g.pvds_out ∧
      (g.add_dep p q).statem = g.statem := by
  unfold GraphWriter.add_dep
  split <;> simp

theorem MustPending.addDep {pk q : Nat} (h : MustPending g st cp l) (hq : q ∉ g.deps_out pk)
    (hc : isCP (st q) = true) :
    MustPending (g.add_dep pk q) st cp (l ++ [(PK_UPD, q), (PK_UPD, pk)]) := by
  obtain ⟨h1, h2, h3, h4, h5⟩ := h
  obtain ⟨f1, f2, f3, f4, f5⟩ := GraphWriter.add_dep_frame g pk q
  refine ⟨?_, ?_, ?_, ?_, ?_⟩
  · intro p hp hsp x hx
    rw [f1] at hp
    rcases (GraphWriter.mem_add_dep_out g pk q hq p x).mp hx with hx | ⟨e1, e2⟩
    · have key := h1 p hp hsp x hx
      simp only [List.mem_append, List.mem_cons, Prod.mk.injEq, true_and, List.mem_singleton,
        reduceCtorEq, false_and, false_or, or_false, List.not_mem_nil] at key ⊢
      tauto
    · subst e1
      simp
  · intro p hp hsp x hx
    rw [f1] at hp
    rw [f2] at hx
    have key := h2 p hp hsp x hx
    simp only [List.mem_append, List.mem_cons, Prod.mk.injEq, true_and, List.mem_singleton,
      reduceCtorEq, false_and, false_or, or_false, List.not_mem_nil] at key ⊢
    tauto
  · intro y hy hsy x hx
    rw [f1] at hy
    rcases (GraphWriter.mem_add_dep_in g pk q hq x y).mp hx with hx | ⟨e1, e2⟩
    · have key := h3 y hy hsy x hx
      simp only [List.mem_append, List.mem_cons, Prod.mk.injEq, true_and, List.mem_singleton,
        reduceCtorEq, false_and, false_or, or_false, List.not_mem_nil] at key ⊢
      tauto
    · subst e1
      simp [isCP, hsy] at hc
  · intro p hp hcp
    rw [f1] at hp
    have key := h4 p hp hcp
    simp only [List.mem_append, List.mem_cons, Prod.mk.injEq, true_and, List.mem_singleton,
      reduceCtorEq, false_and, false_or, or_false, List.not_mem_nil] at key ⊢
    tauto
  · intro p hp hcp x hx hcx
    rw [f1] at hp
    rw [f3] at hx
    have key := h5 p hp hcp x hx hcx
    rw [GraphWriter.mem_add_dep_out g pk q hq]
    simp only [List.mem_append, List.mem_cons, Prod.mk.injEq, true_and, List.mem_singleton,
      reduceCtorEq, false_and, false_or, or_false, List.not_mem_nil] at key ⊢
    tauto

theorem Saturated.tail {t : task_t} (h : Saturated g st cp (t :: l)) : Saturated g st cp l := by
  obtain ⟨h1, h2, h3, h4, h5, h6, h7⟩ := h
  exact ⟨h1, h2, h3, h4, h5, fun q hq => h6 q (List.mem_cons_of_mem _ hq),
    fun q hq => h7 q (List.mem_cons_of_mem _ hq)⟩

theorem Saturated.toSR (pk : Nat) (h : Saturated g st cp l)
    (hs : st pk = PKR_CU ∨ st pk = PKR_CI) : Saturated g (setAt st pk PKR_SR) cp l := by
  obtain ⟨h1, h2, h3, h4, h5, h6, h7⟩ := h
  have hne : ∀ x, st x = PKR_MI ∨ st x = PKR_MU → x ≠ pk := by
    intro x hx e
    subst e
    rcases hs with hs | hs <;> rcases hx with hx | hx <;> rw [hs] at hx <;> cases hx
  have hback : ∀ x v, (v = PKR_MI ∨ v = PKR_MU) → setAt st pk PKR_SR x = v → st x = v := by
    intro x v hv hx
    by_cases e : x = pk
    · subst e
      rw [setAt_same] at hx
      rcases hv with hv | hv <;> rw [hv] at hx <;> cases hx
    · rwa [setAt_ne _ _ e] at hx
  have hfwd : ∀ x v, (v = PKR_MI ∨ v = PKR_MU) → st x = v → setAt st pk PKR_SR x = v := by
    intro x v hv hx
    have := hne x (by rcases hv with hv | hv <;> subst hv <;> simp [hx])
    rwa [setAt_ne _ _ this]
  refine ⟨?_, ?_, ?_, ?_, ?_, ?_, ?_⟩
  · intro p hp hsp q hq
    exact hfwd q _ (Or.inl rfl) (h1 p hp (hback p _ (Or.inl rfl) hsp) q hq)
  · intro p hp hsp q hq
    exact hfwd q _ (Or.inr rfl) (h2 p hp (hback p _ (Or.inl rfl) hsp) q hq)
  · intro p hp hsp q hq
    exact hfwd q _ (Or.inr rfl) (h3 p hp (hback p _ (Or.inr rfl) hsp) q hq)
  · intro p hp hcp
    exact hfwd p _ (Or.inr rfl) (h4 p hp hcp)
  · intro p hp hcp q hq hc
    refine h5 p hp hcp q hq ?_
    by_cases e : q = pk
    · subst e
      rcases hs with hs | hs <;> simp [isCP, hs]
    · rwa [setAt_ne _ _ e] at hc
  · intro q hq
    exact hfwd q _ (Or.inl rfl) (h6 q hq)
  · intro q hq
    exact hfwd q _ (Or.inr rfl) (h7 q hq)

theorem Saturated.sat_ucp0 {pk : Nat} (h : Saturated g st cp l) (hpk : pk ∈ g.pkgs)
    (hc : cp pk = 0) : Saturated g st cp (l ++ [(PK_MU, pk)]) := by
  obtain ⟨h1, h2, h3, h4, h5, h6, h7⟩ := h
  refine ⟨h1, h2, h3, h4, h5, ?_, ?_⟩
  · intro q hq
    simp only [List.mem_append, List.mem_singleton, Prod.mk.injEq, reduceCtorEq, false_and,
      or_false] at hq
    exact h6 q hq
  · intro q hq
    simp only [List.mem_append, List.mem_singleton, Prod.mk.injEq, true_and] at hq
    rcases hq with hq | hq
    · exact h7 q hq
    · subst hq; exact h4 q hpk hc

theorem Saturated.sat_upd {pk : Nat} (h : Saturated g st cp l) (hpk : pk ∈ g.pkgs) :
    Saturated g st cp ((l ++ updTasks1 g (st pk) pk) ++ [(PK_UCP, pk)]) := by
  obtain ⟨h1, h2, h3, h4, h5, h6, h7⟩ := h
  refine ⟨h1, h2, h3, h4, h5, ?_, ?_⟩
  · intro q hq
    simp only [List.mem_append, List.mem_singleton, Prod.mk.injEq, reduceCtorEq, false_and,
      or_false, mem_updTasks1, true_and, and_false] at hq
    rcases hq with hq | ⟨hs, hq⟩
    · exact h6 q hq
    · exact h1 pk hpk hs q hq
  · intro q hq
    simp only [List.mem_append, List.mem_singleton, Prod.mk.injEq, reduceCtorEq, false_and,
      or_false, mem_updTasks1, true_and, and_false, false_or] at hq
    rcases hq with hq | ⟨hs, hq⟩ | ⟨hs, hq⟩
    · exact h7 q hq
    · exact h2 pk hpk hs q hq
    · exact h3 pk hpk hs q hq

theorem ucpStep_deps_mono (pkgId : Nat) (r : KCudfReducer) (p x y : Nat)
    (h : y ∈ r.deps_out x) : y ∈ (ucpStep pkgId r p).deps_out x := by
  unfold ucpStep
  split
  · rename_i hc
    simp only [Bool.and_eq_true, Bool.not_eq_true', decide_eq_false_iff_not] at hc
    exact (GraphWriter.mem_add_dep_out _ pkgId p hc.2 x y).mpr (Or.inl h)
  · exact h

theorem ucpStep_adds (pkgId : Nat) (r : KCudfReducer) (p : Nat)
    (h : isCP (r.pkg_st p) = true) : p ∈ (ucpStep pkgId r p).deps_out pkgId := by
  unfold ucpStep
  by_cases hm : p ∈ r.deps_out pkgId
  · simp [h, hm]
  · simp only [h, hm, decide_False, Bool.not_false, Bool.and_self, if_true]
    exact (GraphWriter.mem_add_dep_out _ pkgId p hm pkgId p).mpr (Or.inr ⟨rfl, rfl⟩)

theorem foldl_ucpStep_deps_mono (pkgId : Nat) (ps : List Nat) (r : KCudfReducer) (x y : Nat)
    (h : y ∈ r.deps_out x) : y ∈ (ps.foldl (ucpStep pkgId) r).deps_out x := by
  induction ps generalizing r with
  | nil => exact h
  | cons p ps ih => exact ih _ (ucpStep_deps_mono pkgId r p x y h)

theorem foldl_ucpStep_complete (pkgId : Nat) (ps : List Nat) (r : KCudfReducer) (q : Nat)
    (hq : q ∈ ps) (h : isCP (r.pkg_st q) = true) :
    q ∈ (ps.foldl (ucpStep pkgId) r).deps_out pkgId := by
  induction ps generalizing r with
  | nil => cases hq
  | cons p ps ih =>
    rw [List.foldl_cons]
    rcases List.mem_cons.mp hq with e | hq1
    · subst e
      exact foldl_ucpStep_deps_mono pkgId ps _ _ _ (ucpStep_adds pkgId r q h)
    · exact ih _ hq1 (by rw [(ucpStep_frame pkgId r p).2.1]; exact h)

theorem foldl_ucpStep_id (pkgId : Nat) (ps : List Nat) (r : KCudfReducer)
    (h : ∀ q ∈ ps, isCP (r.pkg_st q) = true → q ∈ r.deps_out pkgId) :
    ps.foldl (ucpStep pkgId) r = r := by
  induction ps with
  | nil => rfl
  | cons p ps ih =>
    rw [List.foldl_cons]
    have : ucpStep pkgId r p = r := by
      unfold ucpStep
      split
      · rename_i hc
        simp only [Bool.and_eq_true, Bool.not_eq_true', decide_eq_false_iff_not] at hc
        exact absurd (h p (List.mem_cons_self _ _) hc.1) hc.2
      · rfl
    rw [this]
    exact ih (fun q hq => h q (List.mem_cons_of_mem _ hq))

theorem ucpStep_must (pkgId : Nat) (r : KCudfReducer) (p : Nat) (t : task_t)
    (h : MustPending r.toGraphWriter r.pkg_st r.cp (t :: r.todo1)) :
    MustPending (ucpStep pkgId r p).toGraphWriter (ucpStep pkgId r p).pkg_st
      (ucpStep pkgId r p).cp (t :: (ucpStep pkgId r p).todo1) := by
  unfold ucpStep
  split
  · rename_i hc
    simp only [Bool.and_eq_true, Bool.not_eq_true', decide_eq_false_iff_not] at hc
    exact MustPending.addDep h hc.2 hc.1
  · exact h

theorem foldl_ucpStep_must (pkgId : Nat) (ps : List Nat) (r : KCudfReducer) (t : task_t)
    (h : MustPending r.toGraphWriter r.pkg_st r.cp (t :: r.todo1)) :
    MustPending (ps.foldl (ucpStep pkgId) r).toGraphWriter (ps.foldl (ucpStep pkgId) r).pkg_st
      (ps.foldl (ucpStep pkgId) r).cp (t :: (ps.foldl (ucpStep pkgId) r).todo1) := by
  induction ps generalizing r with
  | nil => exact h
  | cons p ps ih => exact ih _ (ucpStep_must pkgId r p t h)

end MustLemmas

section PhaseLemmas

theorem Moved.mustPending {r r1 : KCudfReducer} {pkgId : Nat} {op : PK_OP}
    (hm : Moved r pkgId op r1) (hb : Base r) (hpk : pkgId ∈ r.pkgs) (hop : op.isMust = true)
    (hns : NoSearch r)
    (h : MustPending r.toGraphWriter r.pkg_st r.cp ((op, pkgId) :: r.todo1)) :
    NoSearch r1 ∧ MustPending r1.toGraphWriter r1.pkg_st r1.cp r1.todo1 := by
  cases hm with
  | keep op hop1 htf =>
    refine ⟨hns, ?_⟩
    rcases tf_keep_cases hop1 htf with ⟨e1, e2⟩ | ⟨e1, e2⟩ | ⟨e1, _⟩ | ⟨e1, _⟩
    · subst e1; exact h.keepMU e2
    · subst e1; exact h.keepMI e2
    · subst e1; simp [PK_OP.isMust] at hop
    · subst e1; simp [PK_OP.isMust] at hop
  | change op nx hop1 htf hne hfl hab =>
    rw [KCudfReducer.changeState_eq]
    have hnd := hb.1.pvd_out_nodup hpk
    rcases tf_cases hop1 (hb.2.1 pkgId hpk) htf hne hfl hab with
      ⟨e1, e2, e3⟩ | ⟨e1, e2, e3⟩ | ⟨e1, e2, e3⟩ | ⟨e1, e2, e3⟩ | ⟨e1, e2, e3⟩ | ⟨e1, e2, e3⟩
    · subst e2 e3
      refine ⟨?_, ?_⟩
      · intro p hp
        show setAt r.pkg_st pkgId PKR_MU p ≠ PKR_SR
        by_cases e : p = pkgId
        · subst e; simp
        · rw [setAt_ne _ _ e]; exact hns p hp
      · have := h.toMU (by rw [e1]; simp) hnd
        simpa [e1, isCP] using this
    · subst e2 e3
      refine ⟨?_, ?_⟩
      · intro p hp
        show setAt r.pkg_st pkgId PKR_MI p ≠ PKR_SR
        by_cases e : p = pkgId
        · subst e; simp
        · rw [setAt_ne _ _ e]; exact hns p hp
      · have := h.toMI (by rw [e1]; simp)
        simpa [e1, isCP] using this
    · subst e2; simp [PK_OP.isMust] at hop
    · subst e2 e3
      refine ⟨?_, ?_⟩
      · intro p hp
        show setAt r.pkg_st pkgId PKR_MU p ≠ PKR_SR
        by_cases e : p = pkgId
        · subst e; simp
        · rw [setAt_ne _ _ e]; exact hns p hp
      · have := h.toMU (by rw [e1]; simp) hnd
        simpa [e1, isCP] using this
    · subst e2 e3
      refine ⟨?_, ?_⟩
      · intro p hp
        show setAt r.pkg_st pkgId PKR_MI p ≠ PKR_SR
        by_cases e : p = pkgId
        · subst e; simp
        · rw [setAt_ne _ _ e]; exact hns p hp
      · have := h.toMI (by rw [e1]; simp)
        simpa [e1, isCP] using this
    · subst e2; simp [PK_OP.isMust] at hop
  | ucp0 hc => exact ⟨hns, h.ucp0 hc⟩
  | ucp1 hc =>
    obtain ⟨⟨a1, a2, a3, a4, a5, a6, a7⟩, b1, b2, b3, b4⟩ := foldl_ucpStep_frame pkgId
      (r.pvds_in pkgId) r
    refine ⟨?_, ?_⟩
    · intro p hp
      rw [a1] at hp
      rw [b1]
      exact hns p hp
    · have := foldl_ucpStep_must pkgId (r.pvds_in pkgId) r (PK_UCP, pkgId) h
      refine this.ucpDone (by rw [b3, hc]; simp) ?_
      intro _ q hq hcq
      rw [a5] at hq
      rw [b1] at hcq
      exact foldl_ucpStep_complete pkgId _ r q hq hcq
  | ucpN hc0 hc1 => exact ⟨hns, h.ucpDone hc0 (fun e => absurd e hc1)⟩
  | usp hc hs => simp [PK_OP.isMust] at hop
  | uspN hc => simp [PK_OP.isMust] at hop
  | upd => exact ⟨hns, h.upd⟩

theorem Moved.saturated_moved {r r1 : KCudfReducer} {pkgId : Nat} {op : PK_OP}
    (hm : Moved r pkgId op r1) (hb : Base r) (hpk : pkgId ∈ r.pkgs)
    (hmi : op = PK_MI → r.pkg_st pkgId = PKR_MI) (hmu : op = PK_MU → r.pkg_st pkgId = PKR_MU)
    (h : Saturated r.toGraphWriter r.pkg_st r.cp r.todo1) :
    Saturated r1.toGraphWriter r1.pkg_st r1.cp r1.todo1 := by
  cases hm with
  | keep op hop1 htf => exact h
  | change op nx hop1 htf hne hfl hab =>
    rw [KCudfReducer.changeState_eq]
    rcases tf_cases hop1 (hb.2.1 pkgId hpk) htf hne hfl hab with
      ⟨e1, e2, e3⟩ | ⟨e1, e2, e3⟩ | ⟨e1, e2, e3⟩ | ⟨e1, e2, e3⟩ | ⟨e1, e2, e3⟩ | ⟨e1, e2, e3⟩
    · rw [hmu e2] at e1; cases e1
    · rw [hmi e2] at e1; cases e1
    · subst e3
      have := Saturated.toSR pkgId h (Or.inl e1)
      simpa [e1, isCP, updTasks1] using this
    · rw [hmu e2] at e1; cases e1
    · rw [hmi e2] at e1; cases e1
    · subst e3
      have := Saturated.toSR pkgId h (Or.inr e1)
      simpa [e1, isCP, updTasks1] using this
  | ucp0 hc => exact h.sat_ucp0 hpk hc
  | ucp1 hc =>
    rw [foldl_ucpStep_id pkgId _ r (fun q hq hcq => h.2.2.2.2.1 pkgId hpk hc q hq hcq)]
    exact h
  | ucpN hc0 hc1 => exact h
  | usp hc hs => exact h
  | uspN hc => exact h
  | upd => exact h.sat_upd hpk

theorem Stepped.phase {r r1 : KCudfReducer} (hs : Stepped r r1) (hb : Base r) (hp : Phase r) :
    Phase r1 := by
  obtain ⟨h1, h2, h3, h4⟩ := hb
  cases hs with
  | first op pkgId rest r1 e1 hm =>
    have hpk : pkgId ∈ r.pkgs := (h3 (op, pkgId) (by simp [e1])).1
    have hop : op.isMust = true := (h3 (op, pkgId) (by simp [e1])).2
    have hb1 : Base ({ r with todo1 := rest } : KCudfReducer) := by
      refine ⟨h1, h2, ?_, h4⟩
      intro t ht
      exact h3 t (by simp only [e1]; exact List.mem_cons_of_mem _ ht)
    rcases hp with ⟨hns, hmp⟩ | hsat
    · rw [e1] at hmp
      exact Or.inl (hm.mustPending hb1 hpk hop hns hmp)
    · rw [e1] at hsat
      refine Or.inr (hm.saturated_moved hb1 hpk ?_ ?_ hsat.tail)
      · intro e; subst e; exact hsat.2.2.2.2.2.1 pkgId (List.mem_cons_self _ _)
      · intro e; subst e; exact hsat.2.2.2.2.2.2 pkgId (List.mem_cons_self _ _)
  | second op pkgId rest r1 e1 e2 hm =>
    have hpk : pkgId ∈ r.pkgs := (h4 (op, pkgId) (by simp [e2])).1
    have hop : op.isCan = true := (h4 (op, pkgId) (by simp [e2])).2
    have hb1 : Base ({ r with todo2 := rest } : KCudfReducer) := by
      refine ⟨h1, h2, h3, ?_⟩
      intro t ht
      exact h4 t (by simp only [e2]; exact List.mem_cons_of_mem _ ht)
    have hsat : Saturated r.toGraphWriter r.pkg_st r.cp r.todo1 := by
      rcases hp with ⟨_, hmp⟩ | hsat
      · rw [e1] at hmp ⊢
        exact hmp.to_saturated
      · exact hsat
    refine Or.inr (hm.saturated_moved hb1 hpk ?_ ?_ hsat)
    · intro e; subst e; simp [PK_OP.isCan] at hop
    · intro e; subst e; simp [PK_OP.isCan] at hop

theorem iteration_cases (r : KCudfReducer) (t : Turn) (h : r.iteration = some t) :
    ∃ op pkgId rest,
      (r.todo1 = (op, pkgId) :: rest ∧
        t = ({ r with todo1 := rest } : KCudfReducer).turn op pkgId) ∨
      (r.todo1 = [] ∧ r.todo2 = (op, pkgId) :: rest ∧
        t = ({ r with todo2 := rest } : KCudfReducer).turn op pkgId) := by
  unfold KCudfReducer.iteration KCudfReducer.nextTask at h
  cases h1 : r.todo1 with
  | cons a rest =>
    simp only [h1, Option.some.injEq] at h
    exact ⟨a.1, a.2, rest, Or.inl ⟨rfl, h.symm⟩⟩
  | nil =>
    cases h2 : r.todo2 with
    | cons a rest =>
      simp only [h1, h2, Option.some.injEq] at h
      exact ⟨a.1, a.2, rest, Or.inr ⟨rfl, rfl, h.symm⟩⟩
    | nil => simp [h1, h2] at h

theorem tf_valid {st : PKR_STATE} {op : PK_OP} (hv : st.valid = true)
    (hop : op.isTransition = true) : tf st op ≠ none := by
  cases st <;> cases op <;> simp_all [tf, tfTable, PKR_STATE.toNat, PK_OP.toNat,
    PKR_STATE.valid, PK_OP.isTransition]

theorem tf_abort {st : PKR_STATE} {op : PK_OP} (h : tf st op = some PKR_AB) :
    st = PKR_SR ∧ (op = PK_MU ∨ op = PK_MI) := by
  cases st <;> cases op <;> simp_all [tf, tfTable, PKR_STATE.toNat, PK_OP.toNat]

theorem tf_fail {st : PKR_STATE} {op : PK_OP} (h : tf st op = some PKR_FL) :
    (st = PKR_MU ∧ op = PK_MI) ∨ (st = PKR_MI ∧ op = PK_MU) := by
  cases st <;> cases op <;> simp_all [tf, tfTable, PKR_STATE.toNat, PK_OP.toNat]

theorem Phase.no_assertion {r : KCudfReducer} (hb : Base r) (hp : Phase r) (r1 : KCudfReducer) :
    r.iteration ≠ some (Turn.assertion r1) := by
  intro h
  obtain ⟨h1, h2, h3, h4⟩ := hb
  obtain ⟨op, pkgId, rest, ⟨e1, e2⟩ | ⟨e1, e2, e3⟩⟩ := iteration_cases r _ h
  · have hpk : pkgId ∈ r.pkgs := (h3 (op, pkgId) (by simp [e1])).1
    obtain ⟨ht, hn | ha⟩ := turn_assertion ({ r with todo1 := rest } : KCudfReducer) op pkgId r1
      hpk (fun p hp => (h1.pvd_in hpk hp).1) e2.symm
    · exact tf_valid (h2 pkgId hpk) ht hn
    · obtain ⟨hs, ho⟩ := tf_abort ha
      rcases hp with ⟨hns, _⟩ | hsat
      · exact hns pkgId hpk hs
      · rw [e1] at hsat
        rcases ho with ho | ho
        · subst ho
          have := hsat.2.2.2.2.2.2 pkgId (List.mem_cons_self _ _)
          rw [show ({ r with todo1 := rest } : KCudfReducer).pkg_st = r.pkg_st from rfl] at hs
          rw [this] at hs; cases hs
        · subst ho
          have := hsat.2.2.2.2.2.1 pkgId (List.mem_cons_self _ _)
          rw [show ({ r with todo1 := rest } : KCudfReducer).pkg_st = r.pkg_st from rfl] at hs
          rw [this] at hs; cases hs
  · have hpk : pkgId ∈ r.pkgs := (h4 (op, pkgId) (by simp [e2])).1
    have hop : op.isCan = true := (h4 (op, pkgId) (by simp [e2])).2
    obtain ⟨ht, hn | ha⟩ := turn_assertion ({ r with todo2 := rest } : KCudfReducer) op pkgId r1
      hpk (fun p hp => (h1.pvd_in hpk hp).1) e3.symm
    · exact tf_valid (h2 pkgId hpk) ht hn
    · obtain ⟨_, ho⟩ := tf_abort ha
      rcases ho with ho | ho <;> subst ho <;> simp [PK_OP.isCan] at hop

theorem initLoop_Phase (r : KCudfReducer) (h : r.Ready) : Phase r.initLoop := by
  obtain ⟨h1, h2, h3, h4⟩ := h
  rw [initLoop_eq]
  left
  refine ⟨?_, ?_, ?_, ?_, ?_, ?_⟩
  · intro p hp
    have hp1 : p ∈ r.pkgs := hp
    show r.pkg_st p ≠ PKR_SR
    rw [h2 p hp1]
    unfold KCudfReducer.startState
    cases r.keep p <;> cases r.install p <;> simp
  all_goals
    intro p hp
    have hp1 : p ∈ r.pkgs := hp
    have : (PK_UPD, p) ∈ r.todo1 ++ List.map (fun p => (PK_UPD, p)) r.pkgs := by
      simp only [List.mem_append, List.mem_map]
      exact Or.inr ⟨p, hp1, rfl⟩
    simp [this]

theorem Reach.invariants {r0 r : KCudfReducer} (h : Reach r0 r) (hb : Base r0)
    (hc : Counters r0) (hp : Phase r0) : Base r ∧ Counters r ∧ Phase r := by
  induction h with
  | start => exact ⟨hb, hc, hp⟩
  | turn r r1 _ ht ih =>
    have hs := ih.1.iteration ht
    exact ⟨hs.base_stepped ih.1, hs.counters_stepped ih.1 ih.2.1, hs.phase ih.1 ih.2.2⟩

end PhaseLemmas

/-! ## Termination, counters, no abort -/

section ReducerClaims

theorem nextTask_cases (r : KCudfReducer) (t : task_t) (r1 : KCudfReducer)
    (h : r.nextTask = some (t, r1)) :
    ∃ rest, (r.todo1 = t :: rest ∧ r1 = { r with todo1 := rest }) ∨
      (r.todo1 = [] ∧ r.todo2 = t :: rest ∧ r1 = { r with todo2 := rest }) := by
  unfold KCudfReducer.nextTask at h
  cases h1 : r.todo1 with
  | cons a rest =>
    simp only [h1, Option.some.injEq, Prod.mk.injEq] at h
    exact ⟨rest, Or.inl ⟨by rw [h.1], h.2.symm⟩⟩
  | nil =>
    cases h2 : r.todo2 with
    | cons a rest =>
      simp only [h1, h2, Option.some.injEq, Prod.mk.injEq] at h
      exact ⟨rest, Or.inr ⟨rfl, by rw [h.1], h.2.symm⟩⟩
    | nil => simp [h1, h2] at h

theorem Phase.head_not_search {r : KCudfReducer} (hb : Base r) (hp : Phase r) (op : PK_OP)
    (pkgId : Nat) (r1 : KCudfReducer) (h : r.nextTask = some ((op, pkgId), r1))
    (ho : op = PK_MU ∨ op = PK_MI) : r.pkg_st pkgId ≠ PKR_SR := by
  obtain ⟨h1, h2, h3, h4⟩ := hb
  obtain ⟨rest, ⟨e1, _⟩ | ⟨e1, e2, _⟩⟩ := nextTask_cases r _ r1 h
  · have hpk : pkgId ∈ r.pkgs := (h3 (op, pkgId) (by simp [e1])).1
    rcases hp with ⟨hns, _⟩ | hsat
    · exact hns pkgId hpk
    · rw [e1] at hsat
      rcases ho with ho | ho
      · subst ho
        rw [hsat.2.2.2.2.2.2 pkgId (List.mem_cons_self _ _)]; simp
      · subst ho
        rw [hsat.2.2.2.2.2.1 pkgId (List.mem_cons_self _ _)]; simp
  · have hop : op.isCan = true := (h4 (op, pkgId) (by simp [e2])).2
    rcases ho with ho | ho <;> subst ho <;> simp [PK_OP.isCan] at hop

theorem KCudfReducer.Ready.reach {r0 r : KCudfReducer} (h0 : r0.Ready) (hr : Reach r0.initLoop r) :
    Base r ∧ Counters r ∧ Phase r :=
  hr.invariants (initLoop_Base r0 h0) (initLoop_Counters r0 h0.1) (initLoop_Phase r0 h0)

theorem KCudfReducer.Ready.process_ended {r0 : KCudfReducer} (h0 : r0.Ready) (fuel : Nat)
    (hf : potential r0.initLoop < fuel) :
    ∃ r, Reach r0.initLoop r ∧
      ((r.todo1 = [] ∧ r.todo2 = [] ∧
          r0.process fuel = some (Processed.returned RDO_SEARCH r)) ∨
        (∃ r1, r.iteration = some (Turn.fail r1) ∧
          r0.process fuel = some (Processed.returned RDO_FAIL r1))) := by
  obtain ⟨res, hres⟩ := processLoop_halts fuel r0.initLoop (initLoop_Base r0 h0) hf
  obtain ⟨r, hr, hend⟩ := processLoop_ended r0.initLoop fuel r0.initLoop res Reach.start hres
  refine ⟨r, hr, ?_⟩
  obtain ⟨hb, _, hp⟩ := h0.reach hr
  rcases hend with ⟨e1, e2, e3⟩ | ⟨r1, e1, e2⟩ | ⟨r1, e1, _⟩
  · left
    exact ⟨e1, e2, by rw [← e3]; exact hres⟩
  · right
    exact ⟨r1, e1, by rw [← e2]; exact hres⟩
  · exact absurd e1 (hp.no_assertion hb r1)

/-- C3: termination.  From every well-formed start (any flags, any paranoid
seeds) the worklist loop of `process` halts: with enough fuel `process` returns,
either `RDO_SEARCH` with both todo lists empty or `RDO_FAIL`; the number of
turns is bounded by the potential of the state after the initialisation loop. -/
theorem process_halts (r0 : KCudfReducer) (h0 : r0.Ready) :
    ∀ fuel, potential r0.initLoop < fuel →
      (∃ r, r0.process fuel = some (Processed.returned RDO_SEARCH r) ∧
        r.todo1 = [] ∧ r.todo2 = []) ∨
      (∃ r, r0.process fuel = some (Processed.returned RDO_FAIL r)) := by
  intro fuel hf
  obtain ⟨r, _, ⟨e1, e2, e3⟩ | ⟨r1, _, e2⟩⟩ := h0.process_ended fuel hf
  · exact Or.inl ⟨r, e3, e1, e2⟩
  · exact Or.inr ⟨r1, e2⟩

/-- C4: the provider counters are exact right after the initialisation loop of
`process` and after every processed task: for every package, `cp` is the number
of its providers whose state is not `MU` and `sp` the number of its providers
whose state is `CI` or `MI`; so the counter of a package provided by a package in
a state that counts is positive, and no decrement wraps around. -/
theorem provider_counters_exact (r0 r : KCudfReducer) (h0 : r0.Ready)
    (hr : Reach r0.initLoop r) :
    (∀ p ∈ r.packages,
      r.cp p = ((r.providers p).filter (fun q => r.state q != PKR_MU)).length ∧
      r.sp p = ((r.providers p).filter
        (fun q => r.state q == PKR_CI || r.state q == PKR_MI)).length) ∧
    (∀ q ∈ r.packages, ∀ p ∈ r.provides q,
      (r.state q ≠ PKR_MU → 0 < r.cp p ∧ udec (r.cp p) = r.cp p - 1) ∧
      (r.state q = PKR_CI ∨ r.state q = PKR_MI → 0 < r.sp p ∧ udec (r.sp p) = r.sp p - 1)) := by
  obtain ⟨hb, hc, _⟩ := h0.reach hr
  have hcount : ∀ p ∈ r.packages,
      r.cp p = ((r.providers p).filter (fun q => r.state q != PKR_MU)).length ∧
      r.sp p = ((r.providers p).filter
        (fun q => r.state q == PKR_CI || r.state q == PKR_MI)).length := by
    intro p hp
    obtain ⟨c1, c2⟩ := hc p hp
    rw [c1, c2, List.countP_eq_length_filter, List.countP_eq_length_filter]
    exact ⟨rfl, rfl⟩
  refine ⟨hcount, ?_⟩
  intro q hq p hp
  obtain ⟨hp1, hq1⟩ := hb.1.pvd_out hq hp
  obtain ⟨c1, c2⟩ := hc p hp1
  have hlen := hb.1.pvd_in_length hp1
  have l1 := List.countP_le_length (fun q => isCP (r.pkg_st q)) (l := r.pvds_in p)
  have l2 := List.countP_le_length (fun q => isSP (r.pkg_st q)) (l := r.pvds_in p)
  constructor
  · intro hs
    have : 0 < r.cp p := by
      rw [c1]
      exact List.countP_pos_iff.mpr ⟨q, hq1, by simpa [isCP] using hs⟩
    exact ⟨this, udec_of_pos this (by omega)⟩
  · intro hs
    have : 0 < r.sp p := by
      rw [c2]
      refine List.countP_pos_iff.mpr ⟨q, hq1, ?_⟩
      rcases hs with hs | hs <;> simp [isSP, show r.pkg_st q = _ from hs]
    exact ⟨this, udec_of_pos this (by omega)⟩

/-- C8: the abort transition is unreachable.  In every state the loop of
`process` goes through from a well-formed start, the task `nextTask` returns
never applies `PK_MU` or `PK_MI` to a package in state `SR`, so `tf` does not
yield `AB` for it, no turn stops on the assertion, and `process` never ends on
it. -/
theorem abort_unreachable (r0 : KCudfReducer) (h0 : r0.Ready) :
    (∀ r, Reach r0.initLoop r →
      (∀ op pkgId r1, r.nextTask = some ((op, pkgId), r1) →
        (op = PK_MU ∨ op = PK_MI → r.state pkgId ≠ PKR_SR) ∧
        (op.isTransition = true → tf (r.state pkgId) op ≠ some PKR_AB)) ∧
      (∀ r1, r.iteration ≠ some (Turn.assertion r1))) ∧
    (∀ fuel r1, r0.process fuel ≠ some (Processed.assertion r1)) := by
  constructor
  · intro r hr
    obtain ⟨hb, _, hp⟩ := h0.reach hr
    refine ⟨?_, fun r1 => hp.no_assertion hb r1⟩
    intro op pkgId r1 hn
    have key := hp.head_not_search hb op pkgId r1 hn
    refine ⟨key, ?_⟩
    intro _ htf
    obtain ⟨hs, ho⟩ := tf_abort htf
    exact key ho hs
  · intro fuel r1 h
    obtain ⟨r, hr, hend⟩ := processLoop_ended r0.initLoop fuel r0.initLoop _ Reach.start h
    obtain ⟨hb, _, hp⟩ := h0.reach hr
    rcases hend with ⟨_, _, e3⟩ | ⟨r2, _, e2⟩ | ⟨r2, e1, _⟩
    · cases e3
    · cases e2
    · exact hp.no_assertion hb r2 e1

theorem process_halts_witness :
    exampleSearch.Ready ∧
    ∀ fuel, potential exampleSearch.initLoop < fuel →
      (∃ r, exampleSearch.process fuel = some (Processed.returned RDO_SEARCH r) ∧
        r.todo1 = [] ∧ r.todo2 = []) ∨
      (∃ r, exampleSearch.process fuel = some (Processed.returned RDO_FAIL r)) :=
  ⟨by decide, process_halts exampleSearch (by decide)⟩

theorem provider_counters_exact_witness :
    exampleSearch.Ready ∧ (∃ r, Reach exampleSearch.initLoop r ∧ r.todo1.length = 6 ∧
      ((∀ p ∈ r.packages,
        r.cp p = ((r.providers p).filter (fun q => r.state q != PKR_MU)).length ∧
        r.sp p = ((r.providers p).filter
          (fun q => r.state q == PKR_CI || r.state q == PKR_MI)).length) ∧
      (∀ q ∈ r.packages, ∀ p ∈ r.provides q,
        (r.state q ≠ PKR_MU → 0 < r.cp p ∧ udec (r.cp p) = r.cp p - 1) ∧
        (r.state q = PKR_CI ∨ r.state q = PKR_MI →
          0 < r.sp p ∧ udec (r.sp p) = r.sp p - 1)))) :=
  ⟨by decide, _, Reach.turn _ _ (Reach.turn _ _ Reach.start rfl) rfl, by decide,
    provider_counters_exact exampleSearch _ (by decide)
      (Reach.turn _ _ (Reach.turn _ _ Reach.start rfl) rfl)⟩

theorem abort_unreachable_witness :
    exampleSearch.Ready ∧
    ((∀ r, Reach exampleSearch.initLoop r →
      (∀ op pkgId r1, r.nextTask = some ((op, pkgId), r1) →
        (op = PK_MU ∨ op = PK_MI → r.state pkgId ≠ PKR_SR) ∧
        (op.isTransition = true → tf (r.state pkgId) op ≠ some PKR_AB)) ∧
      (∀ r1, r.iteration ≠ some (Turn.assertion r1))) ∧
    (∀ fuel r1, exampleSearch.process fuel ≠ some (Processed.assertion r1))) :=
  ⟨by decide, abort_unreachable exampleSearch (by decide)⟩

end ReducerClaims

/-! ## Propagation of the can obligations -/

section CanLemmas

variable {g : GraphWriter} {st : Nat → PKR_STATE} {l1 l2 : List task_t}

theorem CanPending.mono {m1 m2 : List task_t} (h : CanPending g st l1 l2)
    (h1 : ∀ t ∈ l1, t ∈ m1) (h2 : ∀ t ∈ l2, t ∈ m2) : CanPending g st m1 m2 := by
  obtain ⟨a, b⟩ := h
  refine ⟨?_, ?_⟩
  · intro p hp hs q hq
    rcases a p hp hs q hq with x | x | x
    · exact Or.inl x
    · exact Or.inr (Or.inl (h2 _ x))
    · exact Or.inr (Or.inr (h1 _ x))
  · intro p hp hs q hq
    rcases b p hp hs q hq with x | x | x
    · exact Or.inl x
    · exact Or.inr (Or.inl (h2 _ x))
    · exact Or.inr (Or.inr (h1 _ x))

theorem CanPending.keep1 {op : PK_OP} {pk : Nat} (h : CanPending g st ((op, pk) :: l1) l2)
    (ho : op ≠ PK_UPD) : CanPending g st l1 l2 := by
  obtain ⟨a, b⟩ := h
  refine ⟨?_, ?_⟩
  · intro p hp hs q hq
    have key := a p hp hs q hq
    simp only [List.mem_cons, Prod.mk.injEq] at key
    rcases key with x | x | ⟨x, _⟩ | x
    · exact Or.inl x
    · exact Or.inr (Or.inl x)
    · exact absurd x.symm ho
    · exact Or.inr (Or.inr x)
  · intro p hp hs q hq
    have key := b p hp hs q hq
    simp only [List.mem_cons, Prod.mk.injEq] at key
    rcases key with x | x | ⟨x, _⟩ | x
    · exact Or.inl x
    · exact Or.inr (Or.inl x)
    · exact absurd x.symm ho
    · exact Or.inr (Or.inr x)

theorem CanPending.keep2 {op : PK_OP} {pk : Nat} (h : CanPending g st l1 ((op, pk) :: l2))
    (h1 : op = PK_CI → st pk ≠ PKR_CU) (h2 : op = PK_CU → st pk ≠ PKR_CI) :
    CanPending g st l1 l2 := by
  obtain ⟨a, b⟩ := h
  refine ⟨?_, ?_⟩
  · intro p hp hs q hq
    have key := a p hp hs q hq
    simp only [List.mem_cons, Prod.mk.injEq] at key
    rcases key with x | (⟨x, y⟩ | x) | x
    · exact Or.inl x
    · subst y; exact Or.inl (h1 x.symm)
    · exact Or.inr (Or.inl x)
    · exact Or.inr (Or.inr x)
  · intro p hp hs q hq
    have key := b p hp hs q hq
    simp only [List.mem_cons, Prod.mk.injEq] at key
    rcases key with x | (⟨x, y⟩ | x) | x
    · exact Or.inl x
    · subst y; exact Or.inl (h2 x.symm)
    · exact Or.inr (Or.inl x)
    · exact Or.inr (Or.inr x)

theorem CanPending.change (pk : Nat) {nx : PKR_STATE} (h : CanPending g st l1 l2)
    (h1 : nx ≠ PKR_CU) (h2 : nx ≠ PKR_CI) : CanPending g (setAt st pk nx) l1 l2 := by
  obtain ⟨a, b⟩ := h
  refine ⟨?_, ?_⟩
  · intro p hp hs q hq
    have hpp : p ≠ pk := by
      intro e; subst e; rw [setAt_same] at hs; exact h2 hs
    rw [setAt_ne _ _ hpp] at hs
    by_cases e : q = pk
    · subst e; rw [setAt_same]; exact Or.inl h1
    · rw [setAt_ne _ _ e]; exact a p hp hs q hq
  · intro p hp hs q hq
    have hpp : p ≠ pk := by
      intro e; subst e; rw [setAt_same] at hs; exact h2 hs
    rw [setAt_ne _ _ hpp] at hs
    by_cases e : q = pk
    · subst e; rw [setAt_same]; exact Or.inl h2
    · rw [setAt_ne _ _ e]; exact b p hp hs q hq

theorem CanPending.change2 {op : PK_OP} {pk : Nat} {nx : PKR_STATE}
    (h : CanPending g st l1 ((op, pk) :: l2)) (h1 : nx ≠ PKR_CU) (h2 : nx ≠ PKR_CI) :
    CanPending g (setAt st pk nx) l1 l2 := by
  have := h.change pk h1 h2
  exact this.keep2 (fun _ => by rw [setAt_same]; exact h1) (fun _ => by rw [setAt_same]; exact h2)

theorem CanPending.upd1 {pk : Nat} {m1 m2 : List task_t}
    (h : CanPending g st ((PK_UPD, pk) :: l1) l2)
    (h1 : ∀ t ∈ l1, t ∈ m1) (h2 : ∀ t ∈ l2, t ∈ m2)
    (h3 : ∀ t ∈ updTasks2 g (st pk) pk, t ∈ m2) : CanPending g st m1 m2 := by
  obtain ⟨a, b⟩ := h
  refine ⟨?_, ?_⟩
  · intro p hp hs q hq
    have key := a p hp hs q hq
    simp only [List.mem_cons, Prod.mk.injEq, true_and] at key
    rcases key with x | x | x | x
    · exact Or.inl x
    · exact Or.inr (Or.inl (h2 _ x))
    · subst x
      exact Or.inr (Or.inl (h3 _ (mem_updTasks2.mpr (Or.inl ⟨hs, Or.inl ⟨rfl, hq⟩⟩))))
    · exact Or.inr (Or.inr (h1 _ x))
  · intro p hp hs q hq
    have key := b p hp hs q hq
    simp only [List.mem_cons, Prod.mk.injEq, true_and] at key
    rcases key with x | x | x | x
    · exact Or.inl x
    · exact Or.inr (Or.inl (h2 _ x))
    · subst x
      exact Or.inr (Or.inl (h3 _ (mem_updTasks2.mpr (Or.inl ⟨hs, Or.inr ⟨rfl, hq⟩⟩))))
    · exact Or.inr (Or.inr (h1 _ x))

theorem CanPending.can_addDep {pk q : Nat} (h : CanPending g st l1 l2) (hq : q ∉ g.deps_out pk) :
    CanPending (g.add_dep pk q) st (l1 ++ [(PK_UPD, q), (PK_UPD, pk)]) l2 := by
  obtain ⟨a, b⟩ := h
  obtain ⟨f1, f2, f3, f4, f5⟩ := GraphWriter.add_dep_frame g pk q
  refine ⟨?_, ?_⟩
  · intro p hp hs x hx
    rw [f1] at hp
    rcases (GraphWriter.mem_add_dep_out g pk q hq p x).mp hx with hx | ⟨e1, e2⟩
    · rcases a p hp hs x hx with y | y | y
      · exact Or.inl y
      · exact Or.inr (Or.inl y)
      · exact Or.inr (Or.inr (List.mem_append_left _ y))
    · subst e1
      exact Or.inr (Or.inr (by simp))
  · intro p hp hs x hx
    rw [f1] at hp
    rw [f2] at hx
    rcases b p hp hs x hx with y | y | y
    · exact Or.inl y
    · exact Or.inr (Or.inl y)
    · exact Or.inr (Or.inr (List.mem_append_left _ y))

end CanLemmas

/-! ## The outcome and the two slices -/

section ReduceClaims

theorem SameFrame.trans_frame {a b c : KCudfReducer} (h1 : SameFrame a b) (h2 : SameFrame b c) :
    SameFrame a c := by
  obtain ⟨a1, a2, a3, a4, a5, a6, a7⟩ := h1
  obtain ⟨b1, b2, b3, b4, b5, b6, b7⟩ := h2
  exact ⟨b1.trans a1, b2.trans a2, b3.trans a3, b4.trans a4, b5.trans a5, b6.trans a6,
    b7.trans a7⟩

theorem initLoop_frame (r : KCudfReducer) :
    SameFrame r r.initLoop ∧ r.initLoop.pkg_st = r.pkg_st ∧
      r.initLoop.deps_out = r.deps_out ∧ r.initLoop.deps_in = r.deps_in := by
  rw [initLoop_eq]
  simp [SameFrame]

theorem Reach.frame_reach {r0 r : KCudfReducer} (h : Reach r0 r) (hb : Base r0) :
    Base r ∧ SameFrame r0 r := by
  induction h with
  | start => exact ⟨hb, rfl, rfl, rfl, rfl, rfl, rfl, rfl⟩
  | turn r r1 _ ht ih =>
    have hs := ih.1.iteration ht
    exact ⟨hs.base_stepped ih.1, ih.2.trans_frame hs.frame_stepped⟩

theorem reach_processLoop {r0 r : KCudfReducer} (hr : Reach r0 r) (fuel : Nat)
    (res : Processed) (h : KCudfReducer.processLoop fuel r0 = some res) :
    ∃ k, KCudfReducer.processLoop k r = some res := by
  induction hr with
  | start => exact ⟨fuel, h⟩
  | turn r r1 _ ht ih =>
    obtain ⟨k, hk⟩ := ih
    cases k with
    | zero =>
      unfold KCudfReducer.processLoop at hk
      split at hk
      · cases hk
      · rename_i hw
        have hw1 : r.workTodo = false := by simpa using hw
        have := (iteration_eq_none_iff r).mpr ((workTodo_eq_false_iff r).mp hw1)
        rw [this] at ht
        cases ht
    | succ k =>
      rw [KCudfReducer.processLoop, ht] at hk
      exact ⟨k, hk⟩

theorem turn_of_fail (r : KCudfReducer) (op : PK_OP) (pkgId : Nat)
    (h : tf (r.pkg_st pkgId) op = some PKR_FL) : r.turn op pkgId = Turn.fail r := by
  unfold KCudfReducer.turn
  rcases tf_fail h with ⟨_, e⟩ | ⟨_, e⟩ <;> subst e <;> simp [KCudfReducer.state, h]

theorem KCudfReducer.Ready.reduce_ended {r0 : KCudfReducer} (h0 : r0.Ready) (fuel : Nat)
    (hf : potential r0.initLoop < fuel) :
    ∃ r, Reach r0.initLoop r ∧
      ((r.todo1 = [] ∧ r.todo2 = [] ∧
          r0.reduce fuel = some (Reduced.returned
            (if 0 < r.srch.length then RDO_SEARCH else RDO_SOL) r.reduceSolved r.reduceSearch
            r)) ∨
        (∃ r1, r.iteration = some (Turn.fail r1) ∧
          r0.reduce fuel = some (Reduced.returned RDO_FAIL [] [] r1))) := by
  obtain ⟨r, hr, ⟨e1, e2, e3⟩ | ⟨r1, e1, e2⟩⟩ := h0.process_ended fuel hf
  · exact ⟨r, hr, Or.inl ⟨e1, e2, by simp [KCudfReducer.reduce, e3]⟩⟩
  · exact ⟨r, hr, Or.inr ⟨r1, e1, by simp [KCudfReducer.reduce, e2]⟩⟩

theorem failingTurn_iff {r0 : KCudfReducer} (h0 : r0.Ready) (fuel : Nat)
    (hf : potential r0.initLoop < fuel) :
    FailingTurn r0 ↔ ∃ r1, r0.process fuel = some (Processed.returned RDO_FAIL r1) := by
  constructor
  · rintro ⟨r, op, pkgId, r1, hr, hn, hcase⟩
    obtain ⟨res, hres⟩ := processLoop_halts fuel r0.initLoop (initLoop_Base r0 h0) hf
    obtain ⟨k, hk⟩ := reach_processLoop hr fuel res hres
    have htf : tf (r1.pkg_st pkgId) op = some PKR_FL := by
      obtain ⟨rest, ⟨_, e⟩ | ⟨_, _, e⟩⟩ := nextTask_cases r _ r1 hn <;> subst e <;>
      · rcases hcase with ⟨e1, e2⟩ | ⟨e1, e2⟩ <;> subst e1 <;>
          simp only [KCudfReducer.state] at e2 <;> simp only [e2] <;> decide
    have hit : r.iteration = some (Turn.fail r1) := by
      unfold KCudfReducer.iteration
      rw [hn]
      simp only [turn_of_fail r1 op pkgId htf]
    cases k with
    | zero =>
      unfold KCudfReducer.processLoop at hk
      split at hk
      · cases hk
      · rename_i hw
        have hw1 : r.workTodo = false := by simpa using hw
        have := (iteration_eq_none_iff r).mpr ((workTodo_eq_false_iff r).mp hw1)
        rw [this] at hit
        cases hit
    | succ k =>
      rw [KCudfReducer.processLoop, hit] at hk
      simp only [Option.some.injEq] at hk
      exact ⟨r1, by unfold KCudfReducer.process; rw [hres, hk]⟩
  · rintro ⟨r1, h⟩
    obtain ⟨r, hr, hend⟩ := processLoop_ended r0.initLoop fuel r0.initLoop _ Reach.start h
    rcases hend with ⟨_, _, e3⟩ | ⟨r2, e1, e2⟩ | ⟨r2, _, e2⟩
    · cases e3
    · simp only [Processed.returned.injEq, true_and] at e2
      subst e2
      obtain ⟨op, pkgId, rest, ⟨a1, a2⟩ | ⟨a1, a2, a3⟩⟩ := iteration_cases r _ e1
      · obtain ⟨b1, _, b3⟩ := turn_fail _ op pkgId r1 a2.symm
        refine ⟨r, op, pkgId, r1, hr, ?_, ?_⟩
        · simp [KCudfReducer.nextTask, a1, b1]
        · rcases tf_fail b3 with ⟨c1, c2⟩ | ⟨c1, c2⟩
          · exact Or.inl ⟨c2, c1⟩
          · exact Or.inr ⟨c2, c1⟩
      · obtain ⟨b1, _, b3⟩ := turn_fail _ op pkgId r1 a3.symm
        refine ⟨r, op, pkgId, r1, hr, ?_, ?_⟩
        · simp [KCudfReducer.nextTask, a1, a2, b1]
        · rcases tf_fail b3 with ⟨c1, c2⟩ | ⟨c1, c2⟩
          · exact Or.inl ⟨c2, c1⟩
          · exact Or.inr ⟨c2, c1⟩
    · cases e2

theorem declarations_append (a b : List Event) (p : Nat) :
    declarations (a ++ b) p = declarations a p ++ declarations b p := by
  simp [declarations]

theorem declarations_flatten_map (f : Nat → List Event) (l : List Nat) (p : Nat)
    (hn : l.Nodup) (hf : ∀ x ∈ l, x ≠ p → declarations (f x) p = []) :
    declarations ((l.map f).flatten) p = if p ∈ l then declarations (f p) p else [] := by
  induction l with
  | nil => simp [declarations]
  | cons a l ih =>
    have hal := (List.nodup_cons.mp hn).1
    have ih1 := ih (List.nodup_cons.mp hn).2 (fun x hx => hf x (List.mem_cons_of_mem _ hx))
    simp only [List.map_cons, List.flatten_cons, declarations_append, ih1]
    by_cases e : a = p
    · subst e
      simp [hal]
    · have e1 : ¬ p = a := fun h => e h.symm
      rw [hf a (List.mem_cons_self _ _) e]
      simp [e1]

theorem declarations_flatten_nil (f : Nat → List Event) (l : List Nat) (p : Nat)
    (hf : ∀ x ∈ l, declarations (f x) p = []) : declarations ((l.map f).flatten) p = [] := by
  induction l with
  | nil => simp [declarations]
  | cons a l ih =>
    simp only [List.map_cons, List.flatten_cons, declarations_append,
      hf a (List.mem_cons_self _ _), ih (fun x hx => hf x (List.mem_cons_of_mem _ hx)),
      List.append_nil]

theorem declarations_eq_nil (evs : List Event) (p : Nat)
    (h : ∀ k i, Event.package p k i ∉ evs) : declarations evs p = [] := by
  unfold declarations
  rw [List.filterMap_eq_nil_iff]
  intro e he
  cases e with
  | package id k i =>
    by_cases hid : id = p
    · subst hid; exact absurd he (h k i)
    · simp [Event.declares, hid]
  | _ => rfl

theorem reducePackage_eq (r : KCudfReducer) (pkg : Nat) :
    r.reducePackage pkg =
      if r.state pkg = PKR_MI ∨ r.state pkg = PKR_CI then
        ([Event.package pkg true true],
          if r.sp pkg = 0 then [Event.package pkg true true] else [])
      else if r.state pkg = PKR_SR then
        ([], [Event.package pkg (r.keep pkg) (r.install pkg)])
      else if r.state pkg = PKR_MU ∨ r.state pkg = PKR_CU then
        ([Event.package pkg true false], [])
      else ([], []) := by
  unfold KCudfReducer.reducePackage
  cases hs : r.state pkg <;> simp

theorem reduceRelations_eq (r : KCudfReducer) (pkg : Nat) :
    r.reduceRelations pkg =
      if r.state pkg = PKR_MI ∨ r.state pkg = PKR_CI then
        (if r.sp pkg = 0 then r.incPvdrs pkg else []) ++
          (r.incDeps pkg ++ (r.incConfs pkg ++ r.incPvds pkg))
      else if r.state pkg = PKR_SR then r.incDeps pkg ++ (r.incConfs pkg ++ r.incPvds pkg)
      else [] := by
  unfold KCudfReducer.reduceRelations
  cases hs : r.state pkg <;> simp

theorem declarations_reduceRelations (r : KCudfReducer) (x p : Nat) :
    declarations (r.reduceRelations x) p = [] := by
  apply declarations_eq_nil
  intro k i h
  rw [reduceRelations_eq] at h
  unfold KCudfReducer.incDeps KCudfReducer.incConfs KCudfReducer.incPvds
    KCudfReducer.incPvdrs at h
  split at h
  · split at h <;> simp at h
  · split at h <;> simp at h

theorem declarations_reduceSolved (r : KCudfReducer) (hn : r.pkgs.Nodup) (p : Nat) :
    declarations r.reduceSolved p =
      if p ∈ r.pkgs then
        (if r.state p = PKR_MI ∨ r.state p = PKR_CI then [(true, true)]
         else if r.state p = PKR_MU ∨ r.state p = PKR_CU then [(true, false)]
         else [])
      else [] := by
  unfold KCudfReducer.reduceSolved GraphWriter.packages
  rw [declarations_flatten_map _ _ _ hn]
  · by_cases hp : p ∈ r.pkgs
    · simp only [hp, if_true, reducePackage_eq]
      by_cases h1 : r.state p = PKR_MI ∨ r.state p = PKR_CI
      · simp [h1, declarations, Event.declares]
      · by_cases h2 : r.state p = PKR_SR
        · simp [h2, declarations, Event.declares]
        · by_cases h3 : r.state p = PKR_MU ∨ r.state p = PKR_CU
          · simp [h1, h2, h3, declarations, Event.declares]
          · simp [h1, h2, h3, declarations, Event.declares]
    · simp [hp]
  · intro x _ hx
    rw [reducePackage_eq]
    split
    · simp [declarations, Event.declares, hx]
    · split
      · simp [declarations, Event.declares, hx]
      · split <;> simp [declarations, Event.declares, hx]

theorem declarations_reduceSearch (r : KCudfReducer) (hn : r.pkgs.Nodup) (p : Nat) :
    declarations r.reduceSearch p =
      if p ∈ r.pkgs then
        (if r.state p = PKR_SR then [(r.keep p, r.install p)]
         else if (r.state p = PKR_MI ∨ r.state p = PKR_CI) ∧ r.sp p = 0 then [(true, true)]
         else [])
      else [] := by
  unfold KCudfReducer.reduceSearch GraphWriter.packages
  rw [declarations_append, declarations_flatten_nil _ _ _
    (fun x _ => declarations_reduceRelations r x p), List.append_nil,
    declarations_flatten_map _ _ _ hn]
  · by_cases hp : p ∈ r.pkgs
    · simp only [hp, if_true, reducePackage_eq]
      by_cases h1 : r.state p = PKR_MI ∨ r.state p = PKR_CI
      · have h2 : r.state p ≠ PKR_SR := by
          rcases h1 with h1 | h1 <;> rw [h1] <;> simp
        by_cases h3 : r.sp p = 0
        · simp [h1, h2, h3, declarations, Event.declares]
        · simp [h1, h2, h3, declarations, Event.declares]
      · by_cases h2 : r.state p = PKR_SR
        · simp [h2, declarations, Event.declares]
        · by_cases h3 : r.state p = PKR_MU ∨ r.state p = PKR_CU
          · simp [h1, h2, h3, declarations, Event.declares]
          · simp [h1, h2, h3, declarations, Event.declares]
    · simp [hp]
  · intro x _ hx
    rw [reducePackage_eq]
    split
    · split <;> simp [declarations, Event.declares, hx]
    · split
      · simp [declarations, Event.declares, hx]
      · split <;> simp [declarations, Event.declares, hx]

theorem mem_package_iff_declarations (evs : List Event) (id : Nat) (k i : Bool) :
    Event.package id k i ∈ evs ↔ (k, i) ∈ declarations evs id := by
  unfold declarations
  simp only [List.mem_filterMap]
  constructor
  · intro h
    exact ⟨_, h, by simp [Event.declares]⟩
  · rintro ⟨e, he, hd⟩
    cases e with
    | package id1 k1 i1 =>
      simp only [Event.declares] at hd
      split at hd
      · rename_i hid
        simp only [Option.some.injEq, Prod.mk.injEq] at hd
        obtain ⟨h2, h3⟩ := hd
        subst hid h2 h3
        exact he
      · cases hd
    | _ => simp [Event.declares] at hd

theorem mem_reduceSolved_package (r : KCudfReducer) (e : Event) (h : e ∈ r.reduceSolved) :
    ∃ id k i, e = Event.package id k i := by
  unfold KCudfReducer.reduceSolved at h
  simp only [List.mem_flatten, List.mem_map] at h
  obtain ⟨l, ⟨x, _, hx⟩, he⟩ := h
  subst hx
  rw [reducePackage_eq] at he
  split at he
  · simp only [List.mem_singleton] at he
    exact ⟨_, _, _, he⟩
  · split at he
    · cases he
    · split at he
      · simp only [List.mem_singleton] at he
        exact ⟨_, _, _, he⟩
      · cases he

theorem srch_pos_iff (r : KCudfReducer) :
    0 < r.srch.length ↔ ∃ p ∈ r.pkgs, InSearch r p := by
  unfold KCudfReducer.srch GraphWriter.packages InSearch
  rw [List.length_pos_iff_exists_mem]
  simp only [List.mem_filter, Bool.or_eq_true, Bool.and_eq_true, decide_eq_true_eq, beq_iff_eq]
  constructor
  · rintro ⟨p, hp, hc⟩
    refine ⟨p, hp, ?_⟩
    rcases hc with ⟨h1, h2⟩ | h
    · right
      refine ⟨?_, h2⟩
      simp only [isSP, Bool.or_eq_true, beq_iff_eq] at h1
      tauto
    · exact Or.inl h
  · rintro ⟨p, hp, hc⟩
    refine ⟨p, hp, ?_⟩
    rcases hc with h | ⟨h1, h2⟩
    · exact Or.inr h
    · left
      refine ⟨?_, h2⟩
      simp only [isSP, Bool.or_eq_true, beq_iff_eq]
      tauto

/-- C5: output classification.  With enough fuel `reduce` returns, and it returns
`RDO_FAIL` exactly when some task of the run applies `PK_MI` to a package in `MU`
or `PK_MU` to a package in `MI`; otherwise it returns `RDO_SOL` exactly when no
package is declared in the search slice, which is when no package ends in `SR`
and no `MI` or `CI` package ends with `sp = 0`, and `RDO_SEARCH` in every
remaining case. -/
theorem reduce_classification (r0 : KCudfReducer) (h0 : r0.Ready) :
    ∀ fuel, potential r0.initLoop < fuel →
      ∃ out solved search r, r0.reduce fuel = some (Reduced.returned out solved search r) ∧
        (out = RDO_FAIL ↔ FailingTurn r0) ∧
        (out = RDO_SOL ↔ ¬ FailingTurn r0 ∧ ∀ id k i, Event.package id k i ∉ search) ∧
        (out = RDO_SEARCH ↔ ¬ FailingTurn r0 ∧ ∃ id k i, Event.package id k i ∈ search) ∧
        (¬ FailingTurn r0 →
          ((∀ id k i, Event.package id k i ∉ search) ↔
            ∀ p ∈ r.packages, r.state p ≠ PKR_SR ∧
              ¬ ((r.state p = PKR_MI ∨ r.state p = PKR_CI) ∧ r.sp p = 0))) := by
  intro fuel hf
  have hfail := failingTurn_iff h0 fuel hf
  obtain ⟨r, hr, ⟨e1, e2, e3⟩ | ⟨r1, e1, e2⟩⟩ := h0.reduce_ended fuel hf
  · have hnf : ¬ FailingTurn r0 := by
      intro hft
      obtain ⟨r1, h1⟩ := hfail.mp hft
      unfold KCudfReducer.reduce at e3
      rw [h1] at e3
      simp only [Option.some.injEq, Reduced.returned.injEq] at e3
      have := e3.1
      split at this <;> cases this
    obtain ⟨hb, _⟩ := hr.frame_reach (initLoop_Base r0 h0)
    have hn : r.pkgs.Nodup := hb.1.1
    have hdecl : (∃ id k i, Event.package id k i ∈ r.reduceSearch) ↔
        ∃ p ∈ r.pkgs, InSearch r p := by
      constructor
      · rintro ⟨id, k, i, h⟩
        rw [mem_package_iff_declarations, declarations_reduceSearch r hn] at h
        by_cases hp : id ∈ r.pkgs
        · refine ⟨id, hp, ?_⟩
          simp only [hp, if_true] at h
          unfold InSearch
          by_cases h1 : r.state id = PKR_SR
          · exact Or.inl h1
          · simp only [h1, if_false] at h
            by_cases h2 : (r.state id = PKR_MI ∨ r.state id = PKR_CI) ∧ r.sp id = 0
            · exact Or.inr h2
            · simp [h2] at h
        · simp [hp] at h
      · rintro ⟨p, hp, hin⟩
        unfold InSearch at hin
        by_cases h1 : r.state p = PKR_SR
        · refine ⟨p, r.keep p, r.install p, ?_⟩
          rw [mem_package_iff_declarations, declarations_reduceSearch r hn]
          simp [hp, h1]
        · have h2 : (r.state p = PKR_MI ∨ r.state p = PKR_CI) ∧ r.sp p = 0 := by tauto
          refine ⟨p, true, true, ?_⟩
          rw [mem_package_iff_declarations, declarations_reduceSearch r hn]
          simp [hp, h1, h2]
    have hsr := srch_pos_iff r
    refine ⟨_, _, _, r, e3, ?_, ?_, ?_, ?_⟩
    · constructor
      · intro h; split at h <;> cases h
      · intro h; exact absurd h hnf
    · constructor
      · intro h
        refine ⟨hnf, ?_⟩
        intro id k i hmem
        have := hsr.mpr (hdecl.mp ⟨id, k, i, hmem⟩)
        simp [this] at h
      · rintro ⟨_, h⟩
        have : ¬ 0 < r.srch.length := by
          intro hpos
          obtain ⟨id, k, i, hmem⟩ := hdecl.mpr (hsr.mp hpos)
          exact h id k i hmem
        simp [this]
    · constructor
      · intro h
        refine ⟨hnf, ?_⟩
        have : 0 < r.srch.length := by
          by_contra hc
          simp [hc] at h
        exact hdecl.mpr (hsr.mp this)
      · rintro ⟨_, h⟩
        have := hsr.mpr (hdecl.mp h)
        simp [this]
    · intro _
      constructor
      · intro h p hp
        have : ¬ InSearch r p := by
          intro hin
          obtain ⟨id, k, i, hmem⟩ := hdecl.mpr ⟨p, hp, hin⟩
          exact h id k i hmem
        unfold InSearch at this
        tauto
      · intro h id k i hmem
        obtain ⟨p, hp, hin⟩ := hdecl.mp ⟨id, k, i, hmem⟩
        have := h p hp
        unfold InSearch at hin
        tauto
  · have hft : FailingTurn r0 := by
      apply hfail.mpr
      unfold KCudfReducer.reduce at e2
      cases hproc : r0.process fuel with
      | none => rw [hproc] at e2; cases e2
      | some res =>
        rw [hproc] at e2
        cases res with
        | assertion r2 => cases e2
        | returned out r2 =>
          cases out with
          | RDO_FAIL => exact ⟨r2, rfl⟩
          | RDO_SOL =>
            simp only [Option.some.injEq, Reduced.returned.injEq] at e2
            have := e2.1
            split at this <;> cases this
          | RDO_SEARCH =>
            simp only [Option.some.injEq, Reduced.returned.injEq] at e2
            have := e2.1
            split at this <;> cases this
    refine ⟨_, _, _, r1, e2, ?_, ?_, ?_, ?_⟩
    · exact ⟨fun _ => hft, fun _ => rfl⟩
    · constructor
      · intro h; cases h
      · rintro ⟨h, _⟩; exact absurd hft h
    · constructor
      · intro h; cases h
      · rintro ⟨h, _⟩; exact absurd hft h
    · intro h; exact absurd hft h

theorem reduce_classification_witness :
    exampleSearch.Ready ∧
    ∀ fuel, potential exampleSearch.initLoop < fuel →
      ∃ out solved search r,
        exampleSearch.reduce fuel = some (Reduced.returned out solved search r) ∧
        (out = RDO_FAIL ↔ FailingTurn exampleSearch) ∧
        (out = RDO_SOL ↔
          ¬ FailingTurn exampleSearch ∧ ∀ id k i, Event.package id k i ∉ search) ∧
        (out = RDO_SEARCH ↔
          ¬ FailingTurn exampleSearch ∧ ∃ id k i, Event.package id k i ∈ search) ∧
        (¬ FailingTurn exampleSearch →
          ((∀ id k i, Event.package id k i ∉ search) ↔
            ∀ p ∈ r.packages, r.state p ≠ PKR_SR ∧
              ¬ ((r.state p = PKR_MI ∨ r.state p = PKR_CI) ∧ r.sp p = 0))) :=
  ⟨by decide, reduce_classification exampleSearch (by decide)⟩

theorem KCudfReducer.Ready.reduce_returned {r0 : KCudfReducer} (h0 : r0.Ready) (fuel : Nat)
    (hf : potential r0.initLoop < fuel) :
    ∃ out solved search r, r0.reduce fuel = some (Reduced.returned out solved search r) ∧
      (out ≠ RDO_FAIL →
        solved = r.reduceSolved ∧ search = r.reduceSearch ∧ Base r ∧ Counters r ∧ Phase r ∧
          SameFrame r0 r ∧ r.todo1 = [] ∧ r.todo2 = [] ∧ Reach r0.initLoop r ∧
          out = (if 0 < r.srch.length then RDO_SEARCH else RDO_SOL)) := by
  obtain ⟨r, hr, ⟨e1, e2, e3⟩ | ⟨r1, e1, e2⟩⟩ := h0.reduce_ended fuel hf
  · refine ⟨_, _, _, r, e3, fun _ => ?_⟩
    obtain ⟨hb, hc, hp⟩ := h0.reach hr
    have hfr := (hr.frame_reach (initLoop_Base r0 h0)).2
    exact ⟨rfl, rfl, hb, hc, hp, (initLoop_frame r0).1.trans_frame hfr, e1, e2, hr, rfl⟩
  · exact ⟨_, _, _, r1, e2, fun h => absurd rfl h⟩

/-- C6: the solved slice.  With enough fuel `reduce` returns, and when it does not
fail the solved writer has received exactly one declaration, `keep = true,
install = true`, for every package whose final state is `MI` or `CI`, exactly
one, `keep = true, install = false`, for every package whose final state is `MU`
or `CU`, none for a package whose final state is `SR`, none for anything else,
and no dependency, conflict or provides relation. -/
theorem solved_slice (r0 : KCudfReducer) (h0 : r0.Ready) :
    ∀ fuel, potential r0.initLoop < fuel →
      ∃ out solved search r, r0.reduce fuel = some (Reduced.returned out solved search r) ∧
        (out ≠ RDO_FAIL →
          (∀ p ∈ r0.packages, r.state p = PKR_MI ∨ r.state p = PKR_CI →
            declarations solved p = [(true, true)]) ∧
          (∀ p ∈ r0.packages, r.state p = PKR_MU ∨ r.state p = PKR_CU →
            declarations solved p = [(true, false)]) ∧
          (∀ p, r.state p = PKR_SR → declarations solved p = []) ∧
          (∀ p, p ∉ r0.packages → declarations solved p = []) ∧
          (∀ p ∈ r0.packages, r.state p = PKR_MI ∨ r.state p = PKR_CI ∨ r.state p = PKR_MU ∨
            r.state p = PKR_CU ∨ r.state p = PKR_SR) ∧
          (∀ e ∈ solved, ∃ id k i, e = Event.package id k i)) := by
  intro fuel hf
  obtain ⟨out, solved, search, r, hred, hrest⟩ := h0.reduce_returned fuel hf
  refine ⟨out, solved, search, r, hred, fun hne => ?_⟩
  obtain ⟨e1, _, hb, _, _, hfr, _⟩ := hrest hne
  subst e1
  have hn : r.pkgs.Nodup := hb.1.1
  have hpk : r.pkgs = r0.pkgs := hfr.1
  refine ⟨?_, ?_, ?_, ?_, ?_, ?_⟩
  · intro p hp hs
    have hp1 : p ∈ r.pkgs := by rw [hpk]; exact hp
    rw [declarations_reduceSolved r hn]
    simp [hp1, hs]
  · intro p hp hs
    have hp1 : p ∈ r.pkgs := by rw [hpk]; exact hp
    have hs1 : ¬ (r.state p = PKR_MI ∨ r.state p = PKR_CI) := by
      rcases hs with hs | hs <;> rw [hs] <;> simp
    rw [declarations_reduceSolved r hn]
    simp [hp1, hs, hs1]
  · intro p hs
    rw [declarations_reduceSolved r hn]
    simp [hs]
  · intro p hp
    have hp1 : p ∉ r.pkgs := by rw [hpk]; exact hp
    rw [declarations_reduceSolved r hn]
    simp [hp1]
  · intro p hp
    have hp1 : p ∈ r.pkgs := by rw [hpk]; exact hp
    have := hb.2.1 p hp1
    unfold KCudfReducer.state
    cases hst : r.pkg_st p <;> simp [hst, PKR_STATE.valid] at this ⊢
  · intro e he
    exact mem_reduceSolved_package r e he

theorem solved_slice_witness :
    exampleSearch.Ready ∧
    ∀ fuel, potential exampleSearch.initLoop < fuel →
      ∃ out solved search r,
        exampleSearch.reduce fuel = some (Reduced.returned out solved search r) ∧
        (out ≠ RDO_FAIL →
          (∀ p ∈ exampleSearch.packages, r.state p = PKR_MI ∨ r.state p = PKR_CI →
            declarations solved p = [(true, true)]) ∧
          (∀ p ∈ exampleSearch.packages, r.state p = PKR_MU ∨ r.state p = PKR_CU →
            declarations solved p = [(true, false)]) ∧
          (∀ p, r.state p = PKR_SR → declarations solved p = []) ∧
          (∀ p, p ∉ exampleSearch.packages → declarations solved p = []) ∧
          (∀ p ∈ exampleSearch.packages, r.state p = PKR_MI ∨ r.state p = PKR_CI ∨
            r.state p = PKR_MU ∨ r.state p = PKR_CU ∨ r.state p = PKR_SR) ∧
          (∀ e ∈ solved, ∃ id k i, e = Event.package id k i)) :=
  ⟨by decide, solved_slice exampleSearch (by decide)⟩

/-- C7: the packages of the search slice.  With enough fuel `reduce` returns, and
when it does not fail the search writer has received exactly one declaration
for every package whose final state is `SR`, with the `keep` and `install` flags
the package had in the input, exactly one, `keep = true, install = true`, for
every package whose final state is `MI` or `CI` and whose `sp` is 0, and no
declaration of anything else. -/
theorem search_slice_packages (r0 : KCudfReducer) (h0 : r0.Ready) :
    ∀ fuel, potential r0.initLoop < fuel →
      ∃ out solved search r, r0.reduce fuel = some (Reduced.returned out solved search r) ∧
        (out ≠ RDO_FAIL →
          (∀ p ∈ r0.packages, r.state p = PKR_SR →
            declarations search p = [(r0.keep p, r0.install p)]) ∧
          (∀ p ∈ r0.packages, r.state p = PKR_MI ∨ r.state p = PKR_CI → r.sp p = 0 →
            declarations search p = [(true, true)]) ∧
          (∀ p, ¬ (p ∈ r0.packages ∧ (r.state p = PKR_SR ∨
              ((r.state p = PKR_MI ∨ r.state p = PKR_CI) ∧ r.sp p = 0))) →
            declarations search p = [])) := by
  intro fuel hf
  obtain ⟨out, solved, search, r, hred, hrest⟩ := h0.reduce_returned fuel hf
  refine ⟨out, solved, search, r, hred, fun hne => ?_⟩
  obtain ⟨_, e2, hb, _, _, hfr, _⟩ := hrest hne
  subst e2
  have hn : r.pkgs.Nodup := hb.1.1
  have hpk : r.pkgs = r0.pkgs := hfr.1
  have hst : r.statem = r0.statem := hfr.2.1
  refine ⟨?_, ?_, ?_⟩
  · intro p hp hs
    have hp1 : p ∈ r.pkgs := by rw [hpk]; exact hp
    rw [declarations_reduceSearch r hn]
    simp [hp1, hs, GraphWriter.keep, GraphWriter.install, hst]
  · intro p hp hs h0
    have hp1 : p ∈ r.pkgs := by rw [hpk]; exact hp
    have hs1 : r.state p ≠ PKR_SR := by
      rcases hs with hs | hs <;> rw [hs] <;> simp
    rw [declarations_reduceSearch r hn]
    simp [hp1, hs, hs1, h0]
  · intro p hp
    rw [declarations_reduceSearch r hn]
    by_cases hp1 : p ∈ r.pkgs
    · have hp2 : p ∈ r0.packages := by
        show p ∈ r0.pkgs
        rw [← hpk]; exact hp1
      have h1 : r.state p ≠ PKR_SR := fun h => hp ⟨hp2, Or.inl h⟩
      have h2 : ¬ ((r.state p = PKR_MI ∨ r.state p = PKR_CI) ∧ r.sp p = 0) :=
        fun h => hp ⟨hp2, Or.inr h⟩
      simp [hp1, h1, h2]
    · simp [hp1]

theorem search_slice_packages_witness :
    exampleSearch.Ready ∧
    ∀ fuel, potential exampleSearch.initLoop < fuel →
      ∃ out solved search r,
        exampleSearch.reduce fuel = some (Reduced.returned out solved search r) ∧
        (out ≠ RDO_FAIL →
          (∀ p ∈ exampleSearch.packages, r.state p = PKR_SR →
            declarations search p = [(exampleSearch.keep p, exampleSearch.install p)]) ∧
          (∀ p ∈ exampleSearch.packages, r.state p = PKR_MI ∨ r.state p = PKR_CI →
            r.sp p = 0 → declarations search p = [(true, true)]) ∧
          (∀ p, ¬ (p ∈ exampleSearch.packages ∧ (r.state p = PKR_SR ∨
              ((r.state p = PKR_MI ∨ r.state p = PKR_CI) ∧ r.sp p = 0))) →
            declarations search p = [])) :=
  ⟨by decide, search_slice_packages exampleSearch (by decide)⟩

end ReduceClaims

/-! ## Soundness of the reducer -/

section Soundness

theorem ucpStep_can (pkgId : Nat) (r : KCudfReducer) (p : Nat) (t : task_t)
    (h : CanPending r.toGraphWriter r.pkg_st (t :: r.todo1) r.todo2) :
    CanPending (ucpStep pkgId r p).toGraphWriter (ucpStep pkgId r p).pkg_st
      (t :: (ucpStep pkgId r p).todo1) (ucpStep pkgId r p).todo2 := by
  unfold ucpStep
  split
  · rename_i hc
    simp only [Bool.and_eq_true, Bool.not_eq_true', decide_eq_false_iff_not] at hc
    exact CanPending.can_addDep h hc.2
  · exact h

theorem foldl_ucpStep_can (pkgId : Nat) (ps : List Nat) (r : KCudfReducer) (t : task_t)
    (h : CanPending r.toGraphWriter r.pkg_st (t :: r.todo1) r.todo2) :
    CanPending (ps.foldl (ucpStep pkgId) r).toGraphWriter (ps.foldl (ucpStep pkgId) r).pkg_st
      (t :: (ps.foldl (ucpStep pkgId) r).todo1) (ps.foldl (ucpStep pkgId) r).todo2 := by
  induction ps generalizing r with
  | nil => exact h
  | cons p ps ih => exact ih _ (ucpStep_can pkgId r p t h)

theorem Moved.canPending_first {r r1 : KCudfReducer} {pkgId : Nat} {op : PK_OP}
    (hm : Moved r pkgId op r1) (hb : Base r) (hpk : pkgId ∈ r.pkgs) (hop : op.isMust = true)
    (h : CanPending r.toGraphWriter r.pkg_st ((op, pkgId) :: r.todo1) r.todo2) :
    CanPending r1.toGraphWriter r1.pkg_st r1.todo1 r1.todo2 := by
  cases hm with
  | keep op hop1 htf =>
    refine h.keep1 ?_
    intro e; subst e; simp [PK_OP.isTransition] at hop1
  | change op nx hop1 htf hne hfl hab =>
    rw [KCudfReducer.changeState_eq]
    have hk : CanPending r.toGraphWriter r.pkg_st r.todo1 r.todo2 := by
      refine h.keep1 ?_
      intro e; subst e; simp [PK_OP.isTransition] at hop1
    have hnx : nx ≠ PKR_CU ∧ nx ≠ PKR_CI := by
      rcases tf_cases hop1 (hb.2.1 pkgId hpk) htf hne hfl hab with
        ⟨_, _, e3⟩ | ⟨_, _, e3⟩ | ⟨_, _, e3⟩ | ⟨_, _, e3⟩ | ⟨_, _, e3⟩ | ⟨_, _, e3⟩ <;>
      subst e3 <;> simp
    refine (hk.change pkgId hnx.1 hnx.2).mono ?_ ?_
    · intro t ht
      simp only [List.mem_append]
      exact Or.inl (Or.inl ht)
    · intro t ht
      simp only [List.mem_append]
      exact Or.inl (Or.inl (Or.inl ht))
  | ucp0 hc =>
    refine (h.keep1 (by simp)).mono ?_ (fun t ht => ht)
    intro t ht
    exact List.mem_append_left _ ht
  | ucp1 hc => exact (foldl_ucpStep_can pkgId _ r (PK_UCP, pkgId) h).keep1 (by simp)
  | ucpN hc0 hc1 => exact h.keep1 (by simp)
  | usp hc hs => simp [PK_OP.isMust] at hop
  | uspN hc => simp [PK_OP.isMust] at hop
  | upd =>
    refine h.upd1 ?_ ?_ ?_
    · intro t ht
      simp only [List.mem_append]
      exact Or.inl (Or.inl ht)
    · intro t ht
      simp only [List.mem_append]
      exact Or.inl (Or.inl ht)
    · intro t ht
      simp only [List.mem_append]
      exact Or.inl (Or.inr ht)

theorem Moved.canPending_second {r r1 : KCudfReducer} {pkgId : Nat} {op : PK_OP}
    (hm : Moved r pkgId op r1) (hb : Base r) (hpk : pkgId ∈ r.pkgs) (hop : op.isCan = true)
    (h : CanPending r.toGraphWriter r.pkg_st r.todo1 ((op, pkgId) :: r.todo2)) :
    CanPending r1.toGraphWriter r1.pkg_st r1.todo1 r1.todo2 := by
  cases hm with
  | keep op hop1 htf =>
    refine h.keep2 ?_ ?_
    · intro e
      subst e
      rcases tf_keep_cases hop1 htf with ⟨e1, _⟩ | ⟨e1, _⟩ | ⟨_, e2⟩ | ⟨e1, _⟩
      · cases e1
      · cases e1
      · rcases e2 with e2 | e2 | e2 | e2 <;> rw [e2] <;> simp
      · cases e1
    · intro e
      subst e
      rcases tf_keep_cases hop1 htf with ⟨e1, _⟩ | ⟨e1, _⟩ | ⟨e1, _⟩ | ⟨_, e2⟩
      · cases e1
      · cases e1
      · cases e1
      · rcases e2 with e2 | e2 | e2 | e2 <;> rw [e2] <;> simp
  | change op nx hop1 htf hne hfl hab =>
    rw [KCudfReducer.changeState_eq]
    have hnx : nx ≠ PKR_CU ∧ nx ≠ PKR_CI := by
      rcases tf_cases hop1 (hb.2.1 pkgId hpk) htf hne hfl hab with
        ⟨_, _, e3⟩ | ⟨_, _, e3⟩ | ⟨_, _, e3⟩ | ⟨_, _, e3⟩ | ⟨_, _, e3⟩ | ⟨_, _, e3⟩ <;>
      subst e3 <;> simp
    refine (h.change2 hnx.1 hnx.2).mono ?_ ?_
    · intro t ht
      simp only [List.mem_append]
      exact Or.inl (Or.inl ht)
    · intro t ht
      simp only [List.mem_append]
      exact Or.inl (Or.inl (Or.inl ht))
  | ucp0 hc => simp [PK_OP.isCan] at hop
  | ucp1 hc => simp [PK_OP.isCan] at hop
  | ucpN hc0 hc1 => simp [PK_OP.isCan] at hop
  | usp hc hs =>
    refine (h.keep2 (by simp) (by simp)).mono (fun t ht => ht) ?_
    intro t ht
    simp only [List.mem_append]
    exact Or.inl (Or.inl ht)
  | uspN hc => exact h.keep2 (by simp) (by simp)
  | upd =>
    refine (h.keep2 (by simp) (by simp)).mono ?_ ?_
    · intro t ht
      simp only [List.mem_append]
      exact Or.inl (Or.inl ht)
    · intro t ht
      simp only [List.mem_append]
      exact Or.inl (Or.inl ht)

theorem Stepped.canPending {r r1 : KCudfReducer} (hs : Stepped r r1) (hb : Base r)
    (h : CanPending r.toGraphWriter r.pkg_st r.todo1 r.todo2) :
    CanPending r1.toGraphWriter r1.pkg_st r1.todo1 r1.todo2 := by
  obtain ⟨h1, h2, h3, h4⟩ := hb
  cases hs with
  | first op pkgId rest r1 e1 hm =>
    have hpk : pkgId ∈ r.pkgs := (h3 (op, pkgId) (by simp [e1])).1
    have hop : op.isMust = true := (h3 (op, pkgId) (by simp [e1])).2
    have hb1 : Base ({ r with todo1 := rest } : KCudfReducer) := by
      refine ⟨h1, h2, ?_, h4⟩
      intro t ht
      exact h3 t (by simp only [e1]; exact List.mem_cons_of_mem _ ht)
    rw [e1] at h
    exact hm.canPending_first hb1 hpk hop h
  | second op pkgId rest r1 e1 e2 hm =>
    have hpk : pkgId ∈ r.pkgs := (h4 (op, pkgId) (by simp [e2])).1
    have hop : op.isCan = true := (h4 (op, pkgId) (by simp [e2])).2
    have hb1 : Base ({ r with todo2 := rest } : KCudfReducer) := by
      refine ⟨h1, h2, h3, ?_⟩
      intro t ht
      exact h4 t (by simp only [e2]; exact List.mem_cons_of_mem _ ht)
    rw [e2] at h
    exact hm.canPending_second hb1 hpk hop h

theorem initLoop_canPending (r : KCudfReducer) :
    CanPending r.initLoop.toGraphWriter r.initLoop.pkg_st r.initLoop.todo1 r.initLoop.todo2 := by
  rw [initLoop_eq]
  refine ⟨?_, ?_⟩ <;>
  · intro p hp _ q _
    have hp1 : p ∈ r.pkgs := hp
    right; right
    simp only [List.mem_append, List.mem_map]
    exact Or.inr ⟨p, hp1, rfl⟩

theorem Moved.deps_mono_moved {ra rb : KCudfReducer} {pkgId : Nat} {op : PK_OP}
    (hm : Moved ra pkgId op rb) (x y : Nat) (h : y ∈ ra.deps_out x) : y ∈ rb.deps_out x := by
  cases hm with
  | change op nx hop1 htf hne hfl hab =>
    rw [KCudfReducer.changeState_eq]
    exact h
  | ucp1 hc => exact foldl_ucpStep_deps_mono pkgId _ ra x y h
  | _ => exact h

theorem Stepped.deps_mono_stepped {r r1 : KCudfReducer} (hs : Stepped r r1) (x y : Nat)
    (h : y ∈ r.deps_out x) : y ∈ r1.deps_out x := by
  cases hs with
  | first op pkgId rest r1 e1 hm => exact hm.deps_mono_moved x y h
  | second op pkgId rest r1 e1 e2 hm => exact hm.deps_mono_moved x y h

theorem Reach.can_deps {r0 r : KCudfReducer} (h : Reach r0.initLoop r) (hb : Base r0.initLoop)
    (hc : CanPending r0.initLoop.toGraphWriter r0.initLoop.pkg_st r0.initLoop.todo1
      r0.initLoop.todo2) :
    CanPending r.toGraphWriter r.pkg_st r.todo1 r.todo2 ∧
      ∀ x y, y ∈ r0.deps_out x → y ∈ r.deps_out x := by
  have key : ∀ ra rb : KCudfReducer, Reach ra rb → Base ra →
      CanPending ra.toGraphWriter ra.pkg_st ra.todo1 ra.todo2 →
      CanPending rb.toGraphWriter rb.pkg_st rb.todo1 rb.todo2 ∧
        ∀ x y, y ∈ ra.deps_out x → y ∈ rb.deps_out x := by
    intro ra rb hab hba hca
    induction hab with
    | start => exact ⟨hca, fun _ _ h => h⟩
    | turn r r1 hr ht ih =>
      have hbr := (hr.frame_reach hba).1
      have hs := hbr.iteration ht
      exact ⟨hs.canPending hbr ih.1, fun x y hxy => hs.deps_mono_stepped x y (ih.2 x y hxy)⟩
  obtain ⟨k1, k2⟩ := key _ _ h hb hc
  refine ⟨k1, fun x y hxy => k2 x y ?_⟩
  rw [initLoop_eq]
  exact hxy

theorem reduce_mono {r0 : KCudfReducer} {fuel fuel1 : Nat} {res : Reduced}
    (h : r0.reduce fuel = some res) (hle : fuel ≤ fuel1) : r0.reduce fuel1 = some res := by
  unfold KCudfReducer.reduce at h ⊢
  cases hp : r0.process fuel with
  | none => simp [hp] at h
  | some pr =>
    have hp1 : r0.process fuel1 = some pr := processLoop_mono fuel fuel1 _ pr hp hle
    rw [hp] at h
    rw [hp1]
    exact h

theorem KCudfReducer.Ready.reduce_final {r0 : KCudfReducer} (h0 : r0.Ready) {fuel : Nat}
    {out : RD_OUT} {solved search : List Event} {r : KCudfReducer}
    (h : r0.reduce fuel = some (Reduced.returned out solved search r)) (hout : out ≠ RDO_FAIL) :
    solved = r.reduceSolved ∧ search = r.reduceSearch ∧ Base r ∧ Counters r ∧ Phase r ∧
      SameFrame r0 r ∧ r.todo1 = [] ∧ r.todo2 = [] ∧ Reach r0.initLoop r ∧
      out = (if 0 < r.srch.length then RDO_SEARCH else RDO_SOL) := by
  obtain ⟨out1, solved1, search1, r1, e, hh⟩ :=
    h0.reduce_returned (max fuel (potential r0.initLoop + 1)) (by omega)
  have e1 := reduce_mono h (Nat.le_max_left fuel (potential r0.initLoop + 1))
  rw [e1] at e
  injection e with e
  injection e with ea eb ec ed
  subst ea eb ec ed
  exact hh hout

theorem installedBy_reduceSolved (r : KCudfReducer) (hn : r.pkgs.Nodup) (p : Nat) :
    installedBy r.reduceSolved p ↔
      p ∈ r.pkgs ∧ (r.state p = PKR_MI ∨ r.state p = PKR_CI) := by
  unfold installedBy
  simp only [mem_package_iff_declarations, declarations_reduceSolved r hn p]
  by_cases hp : p ∈ r.pkgs
  · by_cases h1 : r.state p = PKR_MI ∨ r.state p = PKR_CI
    · simp [hp, h1]
    · by_cases h2 : r.state p = PKR_MU ∨ r.state p = PKR_CU <;> simp [hp, h1, h2]
  · simp [hp]

/-- C1: soundness of the reducer.  When `reduce` returns `RDO_SOL`, the packages
the solved slice declares with `install = true` are the packages whose final
state is `MI` or `CI`, and this assignment satisfies the graph as read: on every
dependency edge the dependency of an installed package is installed, and no
conflict edge has both ends installed. -/
theorem reducer_sound (r0 : KCudfReducer) (h0 : r0.Ready) (fuel : Nat)
    (solved search : List Event) (r : KCudfReducer)
    (h : r0.reduce fuel = some (Reduced.returned RDO_SOL solved search r)) :
    (∀ p, installedBy solved p ↔
      p ∈ r0.packages ∧ (r.state p = PKR_MI ∨ r.state p = PKR_CI)) ∧
    (∀ p ∈ r0.packages, ∀ q ∈ r0.dependencies p, installedBy solved p → installedBy solved q) ∧
    (∀ p ∈ r0.packages, ∀ c ∈ r0.conflicts p,
      ¬ (installedBy solved p ∧ installedBy solved c)) := by
  obtain ⟨e1, _, hb, _, hph, hfr, ht1, ht2, hr, hout⟩ := h0.reduce_final h (by simp)
  obtain ⟨hcan, hmono⟩ := hr.can_deps (initLoop_Base r0 h0) (initLoop_canPending r0)
  have hsat : Saturated r.toGraphWriter r.pkg_st r.cp [] := by
    rcases hph with ⟨_, hm⟩ | hs
    · rw [ht1] at hm
      exact hm.to_saturated
    · rw [ht1] at hs
      exact hs
  rw [ht1, ht2] at hcan
  obtain ⟨s1, s2, s3, _⟩ := hsat
  obtain ⟨c1, c2⟩ := hcan
  have hpk : r.pkgs = r0.pkgs := hfr.1
  have hns : ∀ p ∈ r.pkgs, ¬ InSearch r p := by
    intro p hp hin
    have : 0 < r.srch.length := (srch_pos_iff r).mpr ⟨p, hp, hin⟩
    rw [if_pos this] at hout
    cases hout
  have hinst : ∀ p, installedBy solved p ↔
      p ∈ r.pkgs ∧ (r.pkg_st p = PKR_MI ∨ r.pkg_st p = PKR_CI) := by
    intro p
    rw [e1]
    exact installedBy_reduceSolved r hb.1.1 p
  have hdeps : ∀ p ∈ r.pkgs, ∀ q ∈ r.deps_out p,
      (r.pkg_st p = PKR_MI ∨ r.pkg_st p = PKR_CI) →
      (r.pkg_st q = PKR_MI ∨ r.pkg_st q = PKR_CI) := by
    intro p hp q hq hs
    have hq1 := hb.1.dep_out hp hq
    rcases hs with hs | hs
    · exact Or.inl (s1 p hp hs q hq)
    · have hcu : r.pkg_st q ≠ PKR_CU := by simpa using c1 p hp hs q hq
      have hsr : r.pkg_st q ≠ PKR_SR := fun e => hns q hq1.1 (Or.inl e)
      have hmu : r.pkg_st q ≠ PKR_MU := by
        intro e
        have := s3 q hq1.1 e p hq1.2
        rw [hs] at this
        cases this
      have hv := hb.2.1 q hq1.1
      revert hcu hsr hmu hv
      cases r.pkg_st q <;> simp [PKR_STATE.valid]
  have hconf : ∀ p ∈ r.pkgs, ∀ c ∈ r.confs_adj p,
      (r.pkg_st p = PKR_MI ∨ r.pkg_st p = PKR_CI) →
      ¬ (r.pkg_st c = PKR_MI ∨ r.pkg_st c = PKR_CI) := by
    intro p hp c hc hs hsc
    have hc1 := hb.1.conf hp hc
    rcases hs with hs | hs
    · have := s2 p hp hs c hc
      rcases hsc with e | e <;> rw [e] at this <;> cases this
    · rcases hsc with e | e
      · have := s2 c hc1.1 e p hc1.2
        rw [hs] at this
        cases this
      · have : r.pkg_st c ≠ PKR_CI := by simpa using c2 p hp hs c hc
        exact this e
  refine ⟨?_, ?_, ?_⟩
  · intro p
    rw [hinst p, hpk]
    rfl
  · intro p hp q hq hi
    have hp1 : p ∈ r.pkgs := by rw [hpk]; exact hp
    have hq1 : q ∈ r.deps_out p := hmono p q hq
    rw [hinst] at hi ⊢
    exact ⟨(hb.1.dep_out hp1 hq1).1, hdeps p hp1 q hq1 hi.2⟩
  · intro p hp c hc hi
    have hp1 : p ∈ r.pkgs := by rw [hpk]; exact hp
    have hc1 : c ∈ r.confs_adj p := by rw [hfr.2.2.1]; exact hc
    rw [hinst, hinst] at hi
    exact hconf p hp1 c hc1 hi.1.2 hi.2.2

theorem reducer_sound_witness :
    exampleSolved.Ready ∧
    ∃ solved search r,
      exampleSolved.reduce 40 = some (Reduced.returned RDO_SOL solved search r) ∧
      (∀ p, installedBy solved p ↔
        p ∈ exampleSolved.packages ∧ (r.state p = PKR_MI ∨ r.state p = PKR_CI)) ∧
      (∀ p ∈ exampleSolved.packages, ∀ q ∈ exampleSolved.dependencies p,
        installedBy solved p → installedBy solved q) ∧
      (∀ p ∈ exampleSolved.packages, ∀ c ∈ exampleSolved.conflicts p,
        ¬ (installedBy solved p ∧ installedBy solved c)) :=
  ⟨by decide, _, _, _, rfl, reducer_sound exampleSolved (by decide) 40 _ _ _ rfl⟩

end Soundness

/-! ## Failure is justified -/

section Completeness

variable {g : GraphWriter} {st : Nat → PKR_STATE} {l : List task_t} {σ : Nat → Bool}

theorem countP_le_one_unique {α : Type} (f : α → Bool) (l : List α) (h : l.countP f ≤ 1)
    {a b : α} (ha : a ∈ l) (hb : b ∈ l) (fa : f a = true) (fb : f b = true) : a = b := by
  induction l with
  | nil => cases ha
  | cons x xs ih =>
    rw [List.countP_cons] at h
    rcases List.mem_cons.mp ha with ea | ha1
    · rcases List.mem_cons.mp hb with eb | hb1
      · rw [ea, eb]
      · subst ea
        have : 0 < xs.countP f := List.countP_pos_iff.mpr ⟨b, hb1, fb⟩
        simp only [fa, if_true] at h
        omega
    · rcases List.mem_cons.mp hb with eb | hb1
      · subst eb
        have : 0 < xs.countP f := List.countP_pos_iff.mpr ⟨a, ha1, fa⟩
        simp only [fb, if_true] at h
        omega
      · exact ih (by omega) ha1 hb1

theorem Entailed.tasks {l1 : List task_t} (h : Entailed g st l σ)
    (h1 : ∀ q, (PK_MI, q) ∈ l1 → σ q = true) (h2 : ∀ q, (PK_MU, q) ∈ l1 → σ q = false) :
    Entailed g st l1 σ :=
  ⟨h.1, h.2.1, h1, h2⟩

theorem updTasks1_entailed (hf : Feasible g σ) (hw : g.WF) {pk : Nat} (hpk : pk ∈ g.pkgs)
    {s : PKR_STATE} (hmi : s = PKR_MI → σ pk = true) (hmu : s = PKR_MU → σ pk = false) :
    (∀ q, (PK_MI, q) ∈ updTasks1 g s pk → σ q = true) ∧
    (∀ q, (PK_MU, q) ∈ updTasks1 g s pk → σ q = false) := by
  obtain ⟨_, fb, fc, _⟩ := hf
  constructor
  · intro q hq
    rcases mem_updTasks1.mp hq with ⟨e, ⟨_, h⟩ | ⟨h, _⟩⟩ | ⟨_, h, _⟩
    · exact fb pk hpk q h (hmi e)
    · simp at h
    · simp at h
  · intro q hq
    rcases mem_updTasks1.mp hq with ⟨e, ⟨h, _⟩ | ⟨_, h⟩⟩ | ⟨e, _, h⟩
    · simp at h
    · have := fc pk hpk q h
      cases hσ : σ q
      · rfl
      · exact absurd ⟨hmi e, hσ⟩ this
    · have hd := hw.dep_in hpk h
      cases hσ : σ q
      · rfl
      · have := fb q hd.1 pk hd.2 hσ
        rw [hmu e] at this
        cases this

theorem Feasible.feasible_addDep {pk q : Nat} (h : Feasible g σ) (hq : q ∉ g.deps_out pk)
    (hi : σ pk = true → σ q = true) : Feasible (g.add_dep pk q) σ := by
  obtain ⟨a, b, c, d⟩ := h
  obtain ⟨f1, f2, f3, f4, f5⟩ := GraphWriter.add_dep_frame g pk q
  refine ⟨?_, ?_, ?_, ?_⟩
  · intro p hp hk
    rw [f1] at hp
    have hk1 : g.keep p = true := by
      simpa only [GraphWriter.keep, f5] using hk
    have := a p hp hk1
    simpa only [GraphWriter.install, f5] using this
  · intro p hp x hx hs
    rw [f1] at hp
    rcases (GraphWriter.mem_add_dep_out g pk q hq p x).mp hx with hx | ⟨e1, e2⟩
    · exact b p hp x hx hs
    · subst e1 e2
      exact hi hs
  · intro p hp x hx
    rw [f1] at hp
    have hx1 : x ∈ g.confs_adj p := by
      simpa only [GraphWriter.conflicts, f2] using hx
    exact c p hp x hx1
  · intro p hp hs
    rw [f1] at hp
    obtain ⟨x, hx, hσ⟩ := d p hp hs
    refine ⟨x, ?_, hσ⟩
    simpa only [GraphWriter.providers, f3] using hx

theorem Entailed.entailed_addDep {pk q : Nat} (h : Entailed g st l σ) :
    Entailed (g.add_dep pk q) st (l ++ [(PK_UPD, q), (PK_UPD, pk)]) σ := by
  obtain ⟨a, b, c, d⟩ := h
  obtain ⟨f1, _⟩ := GraphWriter.add_dep_frame g pk q
  refine ⟨?_, ?_, ?_, ?_⟩
  · intro p hp
    rw [f1] at hp
    exact a p hp
  · intro p hp
    rw [f1] at hp
    exact b p hp
  · intro x hx
    simp only [List.mem_append, List.mem_cons, Prod.mk.injEq, reduceCtorEq, false_and,
      List.mem_nil_iff, or_false] at hx
    exact c x hx
  · intro x hx
    simp only [List.mem_append, List.mem_cons, Prod.mk.injEq, reduceCtorEq, false_and,
      List.mem_nil_iff, or_false] at hx
    exact d x hx

theorem ucpStep_entailed (pkgId : Nat) (r : KCudfReducer) (p : Nat)
    (hH : isCP (r.pkg_st p) = true → σ pkgId = true → σ p = true)
    (hf : Feasible r.toGraphWriter σ) (he : Entailed r.toGraphWriter r.pkg_st r.todo1 σ) :
    Feasible (ucpStep pkgId r p).toGraphWriter σ ∧
      Entailed (ucpStep pkgId r p).toGraphWriter (ucpStep pkgId r p).pkg_st
        (ucpStep pkgId r p).todo1 σ := by
  unfold ucpStep
  split
  · rename_i hc
    simp only [Bool.and_eq_true, Bool.not_eq_true', decide_eq_false_iff_not] at hc
    exact ⟨hf.feasible_addDep hc.2 (hH hc.1), he.entailed_addDep⟩
  · exact ⟨hf, he⟩

theorem foldl_ucpStep_entailed (pkgId : Nat) (ps : List Nat) (r : KCudfReducer)
    (hH : ∀ p ∈ ps, isCP (r.pkg_st p) = true → σ pkgId = true → σ p = true)
    (hf : Feasible r.toGraphWriter σ) (he : Entailed r.toGraphWriter r.pkg_st r.todo1 σ) :
    Feasible (ps.foldl (ucpStep pkgId) r).toGraphWriter σ ∧
      Entailed (ps.foldl (ucpStep pkgId) r).toGraphWriter (ps.foldl (ucpStep pkgId) r).pkg_st
        (ps.foldl (ucpStep pkgId) r).todo1 σ := by
  induction ps generalizing r with
  | nil => exact ⟨hf, he⟩
  | cons p ps ih =>
    obtain ⟨k1, k2⟩ := ucpStep_entailed pkgId r p (hH p (List.mem_cons_self _ _)) hf he
    refine ih _ ?_ k1 k2
    intro x hx
    rw [(ucpStep_frame pkgId r p).2.1]
    exact hH x (List.mem_cons_of_mem _ hx)

/-- An installed package has an installed provider that is not in state `MU`. -/
theorem installed_provider {r : KCudfReducer} (hb : Base r) {pkgId : Nat}
    (hpk : pkgId ∈ r.pkgs) (hf : Feasible r.toGraphWriter σ)
    (he : Entailed r.toGraphWriter r.pkg_st r.todo1 σ) (hs : σ pkgId = true) :
    ∃ q ∈ r.pvds_in pkgId, isCP (r.pkg_st q) = true ∧ σ q = true := by
  obtain ⟨q, hq, hσ⟩ := hf.2.2.2 pkgId hpk hs
  have hq0 : q ∈ r.pvds_in pkgId := hq
  have hq1 := hb.1.pvd_in hpk hq0
  refine ⟨q, hq0, ?_, hσ⟩
  simp only [isCP, bne_iff_ne, ne_eq]
  intro e
  have := he.2.1 q hq1.1 e
  rw [hσ] at this
  cases this

theorem Moved.entailed_moved {r r1 : KCudfReducer} {pkgId : Nat} {op : PK_OP}
    (hm : Moved r pkgId op r1) (hb : Base r) (hc : Counters r) (hpk : pkgId ∈ r.pkgs)
    (hf : Feasible r.toGraphWriter σ) (he : Entailed r.toGraphWriter r.pkg_st r.todo1 σ)
    (hmi : op = PK_MI → σ pkgId = true) (hmu : op = PK_MU → σ pkgId = false) :
    Feasible r1.toGraphWriter σ ∧ Entailed r1.toGraphWriter r1.pkg_st r1.todo1 σ := by
  cases hm with
  | keep op hop htf => exact ⟨hf, he⟩
  | change op nx hop htf hne hfl hab =>
    rw [KCudfReducer.changeState_eq]
    refine ⟨hf, ?_⟩
    have hnx : (nx = PKR_MI → σ pkgId = true) ∧ (nx = PKR_MU → σ pkgId = false) := by
      rcases tf_cases hop (hb.2.1 pkgId hpk) htf hne hfl hab with
        ⟨_, e2, e3⟩ | ⟨_, e2, e3⟩ | ⟨_, e2, e3⟩ | ⟨_, e2, e3⟩ | ⟨_, e2, e3⟩ | ⟨_, e2, e3⟩ <;>
      subst e2 <;> subst e3 <;> refine ⟨fun h => ?_, fun h => ?_⟩ <;>
      first | exact hmi rfl | exact hmu rfl | cases h
    obtain ⟨u1, u2⟩ := updTasks1_entailed hf hb.1 hpk hnx.1 hnx.2
    refine ⟨?_, ?_, ?_, ?_⟩
    · intro p hp hs
      have hs1 : setAt r.pkg_st pkgId nx p = PKR_MI := hs
      by_cases e : p = pkgId
      · subst e
        rw [setAt_same] at hs1
        exact hnx.1 hs1
      · rw [setAt_ne _ _ e] at hs1
        exact he.1 p hp hs1
    · intro p hp hs
      have hs1 : setAt r.pkg_st pkgId nx p = PKR_MU := hs
      by_cases e : p = pkgId
      · subst e
        rw [setAt_same] at hs1
        exact hnx.2 hs1
      · rw [setAt_ne _ _ e] at hs1
        exact he.2.1 p hp hs1
    · intro q hq
      simp only [List.mem_append] at hq
      rcases hq with (hq | hq) | hq
      · exact he.2.2.1 q hq
      · split at hq
        · have := (mem_ucpTasks _ _ _ hq).1
          simp at this
        · cases hq
      · exact u1 q hq
    · intro q hq
      simp only [List.mem_append] at hq
      rcases hq with (hq | hq) | hq
      · exact he.2.2.2 q hq
      · split at hq
        · have := (mem_ucpTasks _ _ _ hq).1
          simp at this
        · cases hq
      · exact u2 q hq
  | ucp0 hc0 =>
    refine ⟨hf, he.tasks ?_ ?_⟩
    · intro q hq
      simp only [List.mem_append, List.mem_singleton, Prod.mk.injEq, reduceCtorEq, false_and,
        or_false] at hq
      exact he.2.2.1 q hq
    · intro q hq
      rcases List.mem_append.mp hq with hq | hq
      · exact he.2.2.2 q hq
      · simp only [List.mem_singleton, Prod.mk.injEq, true_and] at hq
        subst hq
        cases hs : σ q
        · rfl
        · obtain ⟨x, hx, hcx, _⟩ := installed_provider hb hpk hf he hs
          have hcnt := (hc q hpk).1
          rw [hc0] at hcnt
          have : 0 < (r.pvds_in q).countP (fun y => isCP (r.pkg_st y)) :=
            List.countP_pos_iff.mpr ⟨x, hx, hcx⟩
          omega
  | ucp1 hc1 =>
    refine foldl_ucpStep_entailed pkgId _ r ?_ hf he
    intro p hp hcp hs
    obtain ⟨x, hx, hcx, hσ⟩ := installed_provider hb hpk hf he hs
    have hcnt := (hc pkgId hpk).1
    rw [hc1] at hcnt
    have := countP_le_one_unique (fun y => isCP (r.pkg_st y)) (r.pvds_in pkgId) (by omega)
      hp hx hcp hcx
    rw [this]
    exact hσ
  | ucpN hc0 hc1 => exact ⟨hf, he⟩
  | usp hc hs => exact ⟨hf, he⟩
  | uspN hc => exact ⟨hf, he⟩
  | upd =>
    obtain ⟨u1, u2⟩ := updTasks1_entailed hf hb.1 hpk (he.1 pkgId hpk) (he.2.1 pkgId hpk)
    refine ⟨hf, he.tasks ?_ ?_⟩
    · intro q hq
      simp only [List.mem_append, List.mem_singleton, Prod.mk.injEq, reduceCtorEq, false_and,
        or_false] at hq
      rcases hq with hq | hq
      · exact he.2.2.1 q hq
      · exact u1 q hq
    · intro q hq
      simp only [List.mem_append, List.mem_singleton, Prod.mk.injEq, reduceCtorEq, false_and,
        or_false] at hq
      rcases hq with hq | hq
      · exact he.2.2.2 q hq
      · exact u2 q hq

theorem Stepped.entailed_stepped {r r1 : KCudfReducer} (hs : Stepped r r1) (hb : Base r)
    (hc : Counters r) (hf : Feasible r.toGraphWriter σ)
    (he : Entailed r.toGraphWriter r.pkg_st r.todo1 σ) :
    Feasible r1.toGraphWriter σ ∧ Entailed r1.toGraphWriter r1.pkg_st r1.todo1 σ := by
  obtain ⟨h1, h2, h3, h4⟩ := hb
  cases hs with
  | first op pkgId rest r1 e1 hm =>
    have hpk : pkgId ∈ r.pkgs := (h3 (op, pkgId) (by simp [e1])).1
    have hb1 : Base ({ r with todo1 := rest } : KCudfReducer) := by
      refine ⟨h1, h2, ?_, h4⟩
      intro t ht
      exact h3 t (by simp only [e1]; exact List.mem_cons_of_mem _ ht)
    rw [e1] at he
    refine hm.entailed_moved hb1 hc hpk hf ?_ ?_ ?_
    · exact he.tasks (fun q hq => he.2.2.1 q (List.mem_cons_of_mem _ hq))
        (fun q hq => he.2.2.2 q (List.mem_cons_of_mem _ hq))
    · intro e
      subst e
      exact he.2.2.1 pkgId (List.mem_cons_self _ _)
    · intro e
      subst e
      exact he.2.2.2 pkgId (List.mem_cons_self _ _)
  | second op pkgId rest r1 e1 e2 hm =>
    have hpk : pkgId ∈ r.pkgs := (h4 (op, pkgId) (by simp [e2])).1
    have hop : op.isCan = true := (h4 (op, pkgId) (by simp [e2])).2
    have hb1 : Base ({ r with todo2 := rest } : KCudfReducer) := by
      refine ⟨h1, h2, h3, ?_⟩
      intro t ht
      exact h4 t (by simp only [e2]; exact List.mem_cons_of_mem _ ht)
    refine hm.entailed_moved hb1 hc hpk hf he ?_ ?_
    · intro e
      subst e
      simp [PK_OP.isCan] at hop
    · intro e
      subst e
      simp [PK_OP.isCan] at hop

theorem initLoop_entailed (r : KCudfReducer) (h : r.Ready) (hf : Feasible r.toGraphWriter σ) :
    Feasible r.initLoop.toGraphWriter σ ∧
      Entailed r.initLoop.toGraphWriter r.initLoop.pkg_st r.initLoop.todo1 σ := by
  obtain ⟨_, h2, h3, _⟩ := h
  rw [initLoop_eq]
  refine ⟨hf, ?_, ?_, ?_, ?_⟩
  · intro p hp hs
    have hp1 : p ∈ r.pkgs := hp
    have hs1 : r.pkg_st p = PKR_MI := hs
    rw [h2 p hp1] at hs1
    have ha := hf.1 p hp1
    have hk : r.keep p = true ∧ r.install p = true := by
      revert hs1
      unfold KCudfReducer.startState
      cases r.keep p <;> cases r.install p <;> simp
    rw [ha hk.1]
    exact hk.2
  · intro p hp hs
    have hp1 : p ∈ r.pkgs := hp
    have hs1 : r.pkg_st p = PKR_MU := hs
    rw [h2 p hp1] at hs1
    have ha := hf.1 p hp1
    have hk : r.keep p = true ∧ r.install p = false := by
      revert hs1
      unfold KCudfReducer.startState
      cases r.keep p <;> cases r.install p <;> simp
    rw [ha hk.1]
    exact hk.2
  · intro q hq
    simp [h3] at hq
  · intro q hq
    simp [h3] at hq

theorem Reach.entailed_reach {r0 r : KCudfReducer} (h : Reach r0 r) (hb : Base r0) (hc : Counters r0)
    (hf : Feasible r0.toGraphWriter σ) (he : Entailed r0.toGraphWriter r0.pkg_st r0.todo1 σ) :
    Feasible r.toGraphWriter σ ∧ Entailed r.toGraphWriter r.pkg_st r.todo1 σ := by
  induction h with
  | start => exact ⟨hf, he⟩
  | turn r r1 hr ht ih =>
    obtain ⟨hbr, hcr⟩ := hr.base_counters hb hc
    exact (hbr.iteration ht).entailed_stepped hbr hcr ih.1 ih.2

/-- C2: failure is justified.  When `reduce` returns `RDO_FAIL`, no install
assignment agrees with `install` on every package with `keep`, makes every
dependency of the graph as read hold, installs no two packages in conflict and
gives every installed package an installed provider. -/
theorem fail_justified (r0 : KCudfReducer) (h0 : r0.Ready) (fuel : Nat)
    (solved search : List Event) (r : KCudfReducer)
    (h : r0.reduce fuel = some (Reduced.returned RDO_FAIL solved search r)) :
    ¬ ∃ σ : Nat → Bool, Feasible r0.toGraphWriter σ := by
  rintro ⟨σ, hσ⟩
  obtain ⟨ra, hr, ⟨_, _, e⟩ | ⟨r1, hit, _⟩⟩ :=
    h0.reduce_ended (max fuel (potential r0.initLoop + 1)) (by omega)
  · have e1 := reduce_mono h (Nat.le_max_left fuel (potential r0.initLoop + 1))
    rw [e1] at e
    injection e with e
    injection e with ea
    split at ea <;> cases ea
  · obtain ⟨hb, hc, _⟩ := h0.reach hr
    obtain ⟨i1, i2⟩ := initLoop_entailed r0 h0 hσ
    obtain ⟨hf, he⟩ := hr.entailed_reach (initLoop_Base r0 h0) (initLoop_Counters r0 h0.1) i1 i2
    obtain ⟨op, pkgId, rest, ⟨e1, e2⟩ | ⟨e1, e2, e3⟩⟩ := iteration_cases ra _ hit
    · obtain ⟨_, _, htf⟩ := turn_fail _ op pkgId r1 e2.symm
      have hpk : pkgId ∈ ra.pkgs := (hb.2.2.1 (op, pkgId) (by simp [e1])).1
      have hst : tf (ra.pkg_st pkgId) op = some PKR_FL := htf
      rcases tf_fail hst with ⟨s, o⟩ | ⟨s, o⟩
      · subst o
        have a := he.2.2.1 pkgId (by rw [e1]; exact List.mem_cons_self _ _)
        have b := he.2.1 pkgId hpk s
        rw [a] at b
        cases b
      · subst o
        have a := he.2.2.2 pkgId (by rw [e1]; exact List.mem_cons_self _ _)
        have b := he.1 pkgId hpk s
        rw [a] at b
        cases b
    · obtain ⟨_, _, htf⟩ := turn_fail _ op pkgId r1 e3.symm
      have hop : op.isCan = true := (hb.2.2.2 (op, pkgId) (by simp [e2])).2
      have hst : tf (ra.pkg_st pkgId) op = some PKR_FL := htf
      rcases tf_fail hst with ⟨_, o⟩ | ⟨_, o⟩ <;> subst o <;> simp [PK_OP.isCan] at hop

theorem fail_justified_witness :
    exampleFail.Ready ∧
    (∃ solved search r,
      exampleFail.reduce 40 = some (Reduced.returned RDO_FAIL solved search r)) ∧
    ¬ ∃ σ : Nat → Bool, Feasible exampleFail.toGraphWriter σ :=
  ⟨by decide, ⟨_, _, _, rfl⟩, fail_justified exampleFail (by decide) 40 _ _ _ rfl⟩

end Completeness

/-! ## Must before can -/

section MustBeforeCan

theorem reach_turns (r0 : KCudfReducer) (k : Nat) (r : KCudfReducer) (h : Reach r0 r) :
    Reach r0 (r.turns k) := by
  induction k generalizing r with
  | zero => exact h
  | succ k ih =>
    unfold KCudfReducer.turns
    cases hi : r.iteration with
    | none => exact h
    | some t =>
      cases t with
      | next r1 => exact ih r1 (Reach.turn r r1 h hi)
      | fail r1 => exact h
      | assertion r1 => exact h

/-- C11: the must obligations are fully propagated before any can task runs.
In every state the loop of `process` goes through, at the moment `nextTask`
takes its task from `TD_2` (the first list is empty), every dependency of every
`MI` package is `MI`, every conflict of every `MI` package is `MU`, and every
depender of every `MU` package is `MU`. -/
theorem must_before_can (r0 r : KCudfReducer) (h0 : r0.Ready) (hr : Reach r0.initLoop r)
    (t : task_t) (rest : List task_t) (h1 : r.todo1 = []) (h2 : r.todo2 = t :: rest) :
    r.nextTask = some (t, { r with todo2 := rest }) ∧
    (∀ p ∈ r.packages, r.state p = PKR_MI → ∀ q ∈ r.dependencies p, r.state q = PKR_MI) ∧
    (∀ p ∈ r.packages, r.state p = PKR_MI → ∀ c ∈ r.conflicts p, r.state c = PKR_MU) ∧
    (∀ q ∈ r.packages, r.state q = PKR_MU → ∀ p ∈ r.dependers q, r.state p = PKR_MU) := by
  obtain ⟨_, _, hp⟩ := h0.reach hr
  have hsat : Saturated r.toGraphWriter r.pkg_st r.cp [] := by
    rcases hp with ⟨_, hm⟩ | hs
    · rw [h1] at hm
      exact hm.to_saturated
    · rw [h1] at hs
      exact hs
  refine ⟨?_, hsat.1, hsat.2.1, hsat.2.2.1⟩
  simp [KCudfReducer.nextTask, h1, h2]

theorem must_before_can_witness :
    exampleSearch.Ready ∧ Reach exampleSearch.initLoop (exampleSearch.initLoop.turns 24) ∧
    (exampleSearch.initLoop.turns 24).todo1 = [] ∧
    (exampleSearch.initLoop.turns 24).todo2 =
      [(PK_CI, 2), (PK_CI, 3), (PK_CU, 1), (PK_USP, 1)] ∧
    (∀ p ∈ (exampleSearch.initLoop.turns 24).packages,
      (exampleSearch.initLoop.turns 24).state p = PKR_MI →
      ∀ q ∈ (exampleSearch.initLoop.turns 24).dependencies p,
        (exampleSearch.initLoop.turns 24).state q = PKR_MI) :=
  ⟨by decide, reach_turns _ 24 _ Reach.start, by decide, by decide,
    (must_before_can exampleSearch _ (by decide) (reach_turns _ 24 _ Reach.start)
      (PK_CI, 2) [(PK_CI, 3), (PK_CU, 1), (PK_USP, 1)] (by decide) (by decide)).2.1⟩

end MustBeforeCan

/-! ## The disjunction trie -/

section Trie

theorem DTNode.lookup_setChild (ch : List (Nat × DTNode)) (u : Nat) (c : DTNode) (k : Nat) :
    (DTNode.setChild ch u c).lookup k = if k = u then some c else ch.lookup k := by
  induction ch with
  | nil =>
    by_cases e : k = u
    · simp [DTNode.setChild, List.lookup, e]
    · have e3 : (k == u) = false := by simpa using e
      simp [DTNode.setChild, List.lookup, e, e3]
  | cons a rest ih =>
    obtain ⟨k1, c1⟩ := a
    unfold DTNode.setChild
    by_cases e1 : k1 = u
    · subst e1
      by_cases e : k = k1
      · simp [List.lookup, e]
      · have e3 : (k == k1) = false := by simpa using e
        simp [List.lookup, e, e3]
    · have e2 : (k1 == u) = false := by simpa using e1
      simp only [e2, Bool.false_eq_true, if_false]
      by_cases e : k = k1
      · subst e
        simp [List.lookup, e1]
      · have e3 : (k == k1) = false := by simpa using e
        simp only [List.lookup, e3, ih]

theorem DTNode.find_create (e : List Nat) : DTNode.find e DTNode.create = none := by
  cases e <;> simp [DTNode.find, DTNode.create, DTNode.computed, DTNode.getChild, DTNode.children]

theorem DTNode.addDisjunctionFrom_fst (id : Nat) (e : List Nat) (n : DTNode) :
    (DTNode.addDisjunctionFrom id e n).1 = (DTNode.find e n).getD id := by
  induction e generalizing n with
  | nil =>
    unfold DTNode.addDisjunctionFrom DTNode.find
    split <;> simp
  | cons k e ih =>
    unfold DTNode.addDisjunctionFrom DTNode.find
    cases h : n.getChild k with
    | none => simp [ih, DTNode.find_create]
    | some c => simp [ih]

theorem DTNode.find_addDisjunctionFrom (id : Nat) (e : List Nat) (n : DTNode) (e1 : List Nat) :
    DTNode.find e1 (DTNode.addDisjunctionFrom id e n).2 =
      if e1 = e then some ((DTNode.find e n).getD id) else DTNode.find e1 n := by
  induction e generalizing n e1 with
  | nil =>
    obtain ⟨tn, cmp, ch⟩ := n
    cases e1 with
    | nil =>
      cases cmp <;>
        simp [DTNode.addDisjunctionFrom, DTNode.find, DTNode.computed, DTNode.tree_node,
          DTNode.setNode]
    | cons k1 e1 =>
      cases cmp <;>
        simp [DTNode.addDisjunctionFrom, DTNode.find, DTNode.computed, DTNode.tree_node,
          DTNode.setNode, DTNode.getChild, DTNode.children]
  | cons k e ih =>
    obtain ⟨tn, cmp, ch⟩ := n
    cases e1 with
    | nil =>
      simp [DTNode.addDisjunctionFrom, DTNode.find, DTNode.computed, DTNode.tree_node]
    | cons k1 e1 =>
      unfold DTNode.addDisjunctionFrom
      simp only [DTNode.find, DTNode.getChild, DTNode.children, DTNode.lookup_setChild,
        DTNode.computed, DTNode.tree_node]
      by_cases hk : k1 = k
      · subst hk
        simp only [if_true, ih, List.cons.injEq, true_and]
        cases h : List.lookup k1 ch with
        | none => simp [DTNode.find_create]
        | some c => simp
      · simp [hk]

theorem DTNode.find_offers (n : DTNode) (pre : List (Nat × IdSet)) (s : IdSet) :
    DTNode.find s (n.offers pre).2 =
      (DTNode.find s n).orElse (fun _ => DTNode.firstOffer pre s) := by
  unfold DTNode.firstOffer
  induction pre generalizing n with
  | nil => cases h : DTNode.find s n <;> simp [DTNode.offers, h]
  | cons a rest ih =>
    obtain ⟨id, t⟩ := a
    simp only [DTNode.offers, ih, DTNode.addDisjunction, DTNode.find_addDisjunctionFrom]
    by_cases e : s = t
    · subst e
      cases h : DTNode.find s n <;> simp [h]
    · have e1 : ¬ t = s := fun h => e h.symm
      simp [e, e1]

theorem DTNode.offers_answer (n : DTNode) (calls : List (Nat × IdSet)) (i : Nat)
    (c : Nat × IdSet) (h : calls[i]? = some c) :
    (n.offers calls).1[i]? =
      some ((n.offers (calls.take i)).2.addDisjunction c.1 c.2).1 := by
  induction calls generalizing n i with
  | nil => simp at h
  | cons a rest ih =>
    obtain ⟨id, t⟩ := a
    cases i with
    | zero =>
      simp only [List.getElem?_cons_zero, Option.some.injEq] at h
      subst h
      simp [DTNode.offers]
    | succ i =>
      simp only [List.getElem?_cons_succ] at h
      simp only [DTNode.offers, List.getElem?_cons_succ, List.take_succ_cons]
      exact ih _ i h

theorem DTNode.firstOffer_take (calls : List (Nat × IdSet)) (i : Nat) (c : Nat × IdSet)
    (h : calls[i]? = some c) :
    DTNode.firstOffer calls c.2 =
      some ((DTNode.firstOffer (calls.take i) c.2).getD c.1) := by
  unfold DTNode.firstOffer
  induction calls generalizing i with
  | nil => simp at h
  | cons a rest ih =>
    cases i with
    | zero =>
      simp only [List.getElem?_cons_zero, Option.some.injEq] at h
      subst h
      simp
    | succ i =>
      simp only [List.getElem?_cons_succ] at h
      simp only [List.take_succ_cons, List.find?_cons]
      by_cases e : a.2 = c.2
      · simp [e]
      · simp only [e, decide_False]
        exact ih i h

theorem DTNode.firstOffer_mem (calls : List (Nat × IdSet)) (s : IdSet) (w : Nat)
    (h : DTNode.firstOffer calls s = some w) : (w, s) ∈ calls := by
  unfold DTNode.firstOffer at h
  cases hf : calls.find? (fun c => decide (c.2 = s)) with
  | none => simp [hf] at h
  | some a =>
    simp only [hf, Option.map_some', Option.some.injEq] at h
    have h1 := List.find?_some hf
    have h2 := List.mem_of_find?_eq_some hf
    simp only [decide_eq_true_eq] at h1
    obtain ⟨a1, a2⟩ := a
    simp only at h h1
    subst h h1
    exact h2

theorem DTNode.answer_eq (calls : List (Nat × IdSet)) (i : Nat) (c : Nat × IdSet)
    (h : calls[i]? = some c) :
    (DTNode.create.offers calls).1[i]? =
      some ((DTNode.firstOffer (calls.take i) c.2).getD c.1) := by
  rw [DTNode.offers_answer _ _ _ _ h, DTNode.addDisjunction, DTNode.addDisjunctionFrom_fst,
    DTNode.find_offers, DTNode.find_create]
  rfl

theorem IdSet.ok_ext (s t : IdSet) (hs : s.ok) (ht : t.ok) :
    s = t ↔ ∀ x, x ∈ s ↔ x ∈ t := by
  constructor
  · intro e x
    rw [e]
  · intro h
    exact List.eq_of_perm_of_sorted ((List.perm_ext_iff_of_nodup hs.nodup ht.nodup).mpr h) hs ht

/-- C12: trie interning, the first offer wins.  For every sequence of
`addDisjunction` calls on a new trie, a call `addDisjunction(id, S)` returns the
candidate identifier of the earliest call whose provider set is `S`, `id` itself
when there was none before; so two offers with equal provider sets get the same
answer, and two offers with the same answer have equal provider sets provided
offers with different sets carry different candidate identifiers; provider
sets are equal exactly when they have the same elements, and the empty set is a
key. -/
theorem trie_first_offer_wins (calls : List (Nat × IdSet)) :
    (∀ (i : Nat) (c : Nat × IdSet), calls[i]? = some c →
      (DTNode.create.offers calls).1[i]? =
        some ((DTNode.firstOffer (calls.take i) c.2).getD c.1)) ∧
    (∀ (i j : Nat) (c1 c2 : Nat × IdSet), calls[i]? = some c1 → calls[j]? = some c2 →
      c1.2 = c2.2 →
      (DTNode.create.offers calls).1[i]? = (DTNode.create.offers calls).1[j]?) ∧
    ((∀ a ∈ calls, ∀ b ∈ calls, a.1 = b.1 → a.2 = b.2) →
      ∀ (i j : Nat) (c1 c2 : Nat × IdSet), calls[i]? = some c1 → calls[j]? = some c2 →
        (DTNode.create.offers calls).1[i]? = (DTNode.create.offers calls).1[j]? →
        c1.2 = c2.2) ∧
    (∀ s t : IdSet, s.ok → t.ok → (s = t ↔ ∀ x, x ∈ s ↔ x ∈ t)) ∧
    (∀ id, (DTNode.create.addDisjunction id []).1 = id) := by
  refine ⟨DTNode.answer_eq calls, ?_, ?_, IdSet.ok_ext, fun id => rfl⟩
  · intro i j c1 c2 h1 h2 e
    rw [DTNode.answer_eq calls i c1 h1, DTNode.answer_eq calls j c2 h2,
      ← DTNode.firstOffer_take calls i c1 h1, ← DTNode.firstOffer_take calls j c2 h2, e]
  · intro hid i j c1 c2 h1 h2 e
    rw [DTNode.answer_eq calls i c1 h1, DTNode.answer_eq calls j c2 h2,
      ← DTNode.firstOffer_take calls i c1 h1, ← DTNode.firstOffer_take calls j c2 h2] at e
    cases hw : DTNode.firstOffer calls c1.2 with
    | none =>
      rw [DTNode.firstOffer_take calls i c1 h1] at hw
      cases hw
    | some w =>
      have m1 := DTNode.firstOffer_mem calls c1.2 w hw
      have m2 := DTNode.firstOffer_mem calls c2.2 w (by rw [← e, hw])
      exact hid (w, c1.2) m1 (w, c2.2) m2 rfl

theorem trie_first_offer_wins_witness :
    (DTNode.create.offers [(4, [1, 2]), (5, [1]), (6, [1, 2]), (7, [])]).1[0]? =
      (DTNode.create.offers [(4, [1, 2]), (5, [1]), (6, [1, 2]), (7, [])]).1[2]? ∧
    (DTNode.create.offers [(4, [1, 2]), (5, [1]), (6, [1, 2]), (7, [])]).1 = [4, 5, 4, 7] :=
  ⟨(trie_first_offer_wins [(4, [1, 2]), (5, [1]), (6, [1, 2]), (7, [])]).2.1 0 2
      (4, [1, 2]) (6, [1, 2]) rfl rfl rfl, by decide⟩

/-- Two offers with different provider sets and the same candidate identifier
get the same answer. -/
theorem trie_same_answer_counterexample :
    (DTNode.create.offers [(5, [1]), (5, [2])]).1 = [5, 5] ∧
    IdSet.ok [1] ∧ IdSet.ok [2] ∧ ¬ (∀ x, x ∈ ([1] : IdSet) ↔ x ∈ ([2] : IdSet)) :=
  ⟨by decide, by decide, by decide, fun h => absurd ((h 1).mp (by decide)) (by decide)⟩

end Trie

/-! ## Forwarding a disjunction -/

section Forwarding

theorem IdSet.mem_insert (s : IdSet) (x y : Nat) : y ∈ s.insert x ↔ y = x ∨ y ∈ s := by
  unfold IdSet.insert
  split
  · rename_i h
    constructor
    · exact Or.inr
    · rintro (e | e)
      · rw [e]; exact h
      · exact e
  · simp [List.mem_orderedInsert]

theorem IdSet.mem_erase (s : IdSet) (x y : Nat) : y ∈ s.erase x ↔ y ∈ s ∧ y ≠ x := by
  simp [IdSet.erase]

theorem IdSet.mem_foldl_insert (l : List Nat) (s : IdSet) (y : Nat) :
    y ∈ l.foldl IdSet.insert s ↔ y ∈ s ∨ y ∈ l := by
  induction l generalizing s with
  | nil => simp
  | cons a l ih =>
    rw [List.foldl_cons, ih, IdSet.mem_insert, List.mem_cons]
    constructor
    · rintro ((e | e) | e)
      · exact Or.inr (Or.inl e)
      · exact Or.inl e
      · exact Or.inr (Or.inr e)
    · rintro (e | e | e)
      · exact Or.inl (Or.inr e)
      · exact Or.inl (Or.inl e)
      · exact Or.inr e

theorem KCudfData.obj_of_heap {d : KCudfData} {p : Nat} {o : Package} (h : d.heap p = some o) :
    d.obj p = Except.ok o := by
  unfold KCudfData.obj
  rw [h]
  rfl

theorem KCudfData.targetFrom_self {d : KCudfData} {p : Nat} {o : Package} (fuel : Nat)
    (h : d.heap p = some o) (hf : o.forwarded = false) :
    KCudfData.targetFrom (fuel + 1) d p = Except.ok p := by
  unfold KCudfData.targetFrom
  rw [KCudfData.obj_of_heap h]
  simp [hf, bind, Except.bind, pure, Except.pure]

theorem KCudfData.target_self {d : KCudfData} {p : Nat} {o : Package}
    (h : d.heap p = some o) (hf : o.forwarded = false) : d.target p = Except.ok p :=
  KCudfData.targetFrom_self _ h hf

theorem KCudfData.targetFrom_step {d : KCudfData} {p q : Nat} {o : Package} (fuel : Nat)
    (h : d.heap p = some o) (hf : o.forwarded = true) (hq : o.fwd = some q) :
    KCudfData.targetFrom (fuel + 1) d p = KCudfData.targetFrom fuel d q := by
  conv => lhs; unfold KCudfData.targetFrom
  rw [KCudfData.obj_of_heap h]
  simp [hf, hq, bind, Except.bind]

/-- The additions of `setForward` to the dependencies of `b`. -/
theorem KCudfData.foldlM_addDependency (l : List Nat) (d : KCudfData) (b : Nat) (ob : Package)
    (hb : d.heap b = some ob) (hf : ob.forwarded = false) :
    ∃ d1, l.foldlM (fun d x => d.addDependency b x) d = Except.ok d1 ∧
      d1.heap b = some { ob with dependencies := l.foldl IdSet.insert ob.dependencies } ∧
      (∀ p, p ≠ b → d1.heap p = d.heap p) ∧ d1.next_id = d.next_id ∧
      d1.packages = d.packages := by
  induction l generalizing d ob with
  | nil => exact ⟨d, rfl, hb, fun _ _ => rfl, rfl, rfl⟩
  | cons x l ih =>
    have h1 : d.addDependency b x =
        Except.ok (d.put b { ob with dependencies := ob.dependencies.insert x }) := by
      unfold KCudfData.addDependency
      rw [KCudfData.target_self hb hf]
      simp [bind, Except.bind, KCudfData.obj_of_heap hb, pure, Except.pure]
    obtain ⟨d1, e1, e2, e3, e4, e5⟩ := ih (d.put b { ob with dependencies := ob.dependencies.insert x })
      { ob with dependencies := ob.dependencies.insert x } (by simp [KCudfData.put]) hf
    refine ⟨d1, ?_, e2, ?_, e4, e5⟩
    · rw [List.foldlM_cons, h1]
      exact e1
    · intro p hp
      rw [e3 p hp]
      simp [KCudfData.put, hp]

/-- The additions of `setForward` to the conflicts of `b`. -/
theorem KCudfData.foldlM_addConflict (l : List Nat) (d : KCudfData) (b : Nat) (ob : Package)
    (hb : d.heap b = some ob) (hf : ob.forwarded = false) :
    ∃ d1, l.foldlM (fun d x => d.addConflict b x) d = Except.ok d1 ∧
      d1.heap b = some { ob with conflicts := l.foldl IdSet.insert ob.conflicts } ∧
      (∀ p, p ≠ b → d1.heap p = d.heap p) ∧ d1.next_id = d.next_id ∧
      d1.packages = d.packages := by
  induction l generalizing d ob with
  | nil => exact ⟨d, rfl, hb, fun _ _ => rfl, rfl, rfl⟩
  | cons x l ih =>
    have h1 : d.addConflict b x =
        Except.ok (d.put b { ob with conflicts := ob.conflicts.insert x }) := by
      unfold KCudfData.addConflict
      rw [KCudfData.target_self hb hf]
      simp [bind, Except.bind, KCudfData.obj_of_heap hb, pure, Except.pure]
    obtain ⟨d1, e1, e2, e3, e4, e5⟩ := ih (d.put b { ob with conflicts := ob.conflicts.insert x })
      { ob with conflicts := ob.conflicts.insert x } (by simp [KCudfData.put]) hf
    refine ⟨d1, ?_, e2, ?_, e4, e5⟩
    · rw [List.foldlM_cons, h1]
      exact e1
    · intro p hp
      rw [e3 p hp]
      simp [KCudfData.put, hp]

/-- The method `setForward` on two objects that are not forwarded: the data it
leaves. -/
theorem KCudfData.setForward_eq (d : KCudfData) (a b : Nat) (oa ob : Package)
    (ha : d.heap a = some oa) (hb : d.heap b = some ob)
    (hna : oa.nm = none) (hfa : oa.forwarded = false) (hfb : ob.forwarded = false)
    (hid : ob.id ≠ oa.id) :
    ∃ d1, d.setForward a b = Except.ok d1 ∧
      d1.heap a = some { oa with
        providers := if ob.id ∈ oa.providers then oa.providers.erase ob.id else oa.providers
        fwd := some b
        forwarded := true } ∧
      d1.heap b = some { ob with
        dependencies := oa.dependencies.foldl IdSet.insert ob.dependencies
        conflicts := oa.conflicts.foldl IdSet.insert ob.conflicts } ∧
      (∀ p, p ≠ a → p ≠ b → d1.heap p = d.heap p) ∧ d1.next_id = d.next_id ∧
      d1.packages = d.packages := by
  have hab : a ≠ b := by
    intro e
    subst e
    rw [ha] at hb
    cases hb
    exact hid rfl
  obtain ⟨d1, e1, e2, e3, e4, e5⟩ :=
    KCudfData.foldlM_addDependency oa.dependencies d b ob hb hfb
  obtain ⟨d2, f1, f2, f3, f4, f5⟩ := KCudfData.foldlM_addConflict oa.conflicts d1 b _ e2 hfb
  have ha2 : d2.heap a = some oa := by rw [f3 a hab, e3 a hab, ha]
  have hg : d.getId b = Except.ok ob.id := by
    unfold KCudfData.getId
    rw [KCudfData.target_self hb hfb]
    simp [bind, Except.bind, KCudfData.obj_of_heap hb, pure, Except.pure]
  have hg2 : d2.getId b = Except.ok ob.id := by
    unfold KCudfData.getId
    rw [KCudfData.target_self f2 hfb]
    simp [bind, Except.bind, KCudfData.obj_of_heap f2, pure, Except.pure]
  refine ⟨d2.put a { oa with
        providers := if ob.id ∈ oa.providers then oa.providers.erase ob.id else oa.providers
        fwd := some b
        forwarded := true }, ?_, ?_, ?_, ?_, ?_, ?_⟩
  · unfold KCudfData.setForward KCudfData.setForwardFrom
    simp only [KCudfData.obj_of_heap ha, bind, Except.bind, hfa, hna, hg, hid, e1, f1, hg2,
      KCudfData.obj_of_heap ha2, pure, Except.pure, Option.isSome_none, Bool.false_eq_true,
      if_false]
  · simp [KCudfData.put]
  · simp only [KCudfData.put, setAt, hab.symm, if_false]
    exact f2
  · intro p h1 h2
    simp only [KCudfData.put, setAt, h1, if_false]
    rw [f3 p h2, e3 p h2]
  · simp only [KCudfData.put]
    rw [f4, e4]
  · simp only [KCudfData.put]
    rw [f5, e5]

/-- C16: the postcondition of a forward.  For a `Disjunction` `a` that is not
forwarded and a `Disjunction` `b` that is not forwarded and has a different
identifier, `a.setForward(b)` returns, and after it the dependencies of `b` are
its old dependencies and those of `a`, the conflicts of `b` its old conflicts
and those of `a`, the identifier of `b` is not among the providers of `a`, which
are otherwise the old ones, and `getId`, `markedInstall`, `markedKeep` and
`getProviders` return on `a` what they return on `b`: the values of `b` before
the call. -/
theorem setForward_postcondition (d : KCudfData) (a b : Nat) (oa ob : Package)
    (ha : d.heap a = some oa) (hb : d.heap b = some ob)
    (hna : oa.nm = none) (hnb : ob.nm = none)
    (hfa : oa.forwarded = false) (hfb : ob.forwarded = false)
    (hid : ob.id ≠ oa.id) (hn : 0 < d.next_id) :
    ∃ d1 da db pa, d.setForward a b = Except.ok d1 ∧
      d1.getDependencies b = Except.ok da ∧
      (∀ x, x ∈ da ↔ x ∈ ob.dependencies ∨ x ∈ oa.dependencies) ∧
      d1.getConflicts b = Except.ok db ∧
      (∀ x, x ∈ db ↔ x ∈ ob.conflicts ∨ x ∈ oa.conflicts) ∧
      (d1.heap a).map (fun o => o.providers) = some pa ∧
      (∀ x, x ∈ pa ↔ x ∈ oa.providers ∧ x ≠ ob.id) ∧
      d1.getId a = d1.getId b ∧ d1.getId b = Except.ok ob.id ∧
      d1.markedInstall a = d1.markedInstall b ∧ d1.markedInstall b = Except.ok ob.install ∧
      d1.markedKeep a = d1.markedKeep b ∧ d1.markedKeep b = Except.ok ob.keep ∧
      d1.getProviders a = d1.getProviders b ∧ d1.getProviders b = Except.ok ob.providers := by
  obtain ⟨d1, e, e1, e2, _, e4, _⟩ :=
    KCudfData.setForward_eq d a b oa ob ha hb hna hfa hfb hid
  have tb : d1.target b = Except.ok b := KCudfData.target_self e2 hfb
  have ta : d1.target a = Except.ok b := by
    unfold KCudfData.target
    rw [KCudfData.targetFrom_step _ e1 rfl rfl, e4]
    obtain ⟨m, hm⟩ := Nat.exists_eq_succ_of_ne_zero (Nat.pos_iff_ne_zero.mp hn)
    rw [hm]
    exact KCudfData.targetFrom_self _ e2 hfb
  refine ⟨d1, oa.dependencies.foldl IdSet.insert ob.dependencies,
    oa.conflicts.foldl IdSet.insert ob.conflicts,
    if ob.id ∈ oa.providers then oa.providers.erase ob.id else oa.providers,
    e, ?_, ?_, ?_, ?_, ?_, ?_, ?_, ?_, ?_, ?_, ?_, ?_, ?_, ?_⟩
  · unfold KCudfData.getDependencies
    rw [KCudfData.obj_of_heap e2]
    rfl
  · intro x
    exact IdSet.mem_foldl_insert _ _ _
  · unfold KCudfData.getConflicts
    rw [KCudfData.obj_of_heap e2]
    rfl
  · intro x
    exact IdSet.mem_foldl_insert _ _ _
  · rw [e1]
    rfl
  · intro x
    by_cases h : ob.id ∈ oa.providers
    · simp only [h, if_true, IdSet.mem_erase]
    · simp only [h, if_false]
      constructor
      · intro hx
        exact ⟨hx, fun e5 => h (e5 ▸ hx)⟩
      · exact fun hx => hx.1
  · unfold KCudfData.getId
    rw [ta, tb]
  · unfold KCudfData.getId
    rw [tb]
    simp [bind, Except.bind, KCudfData.obj_of_heap e2, pure, Except.pure]
  · unfold KCudfData.markedInstall
    rw [ta, tb]
  · unfold KCudfData.markedInstall
    rw [tb]
    simp [bind, Except.bind, KCudfData.obj_of_heap e2, pure, Except.pure]
  · unfold KCudfData.markedKeep
    rw [ta, tb]
  · unfold KCudfData.markedKeep
    rw [tb]
    simp [bind, Except.bind, KCudfData.obj_of_heap e2, pure, Except.pure]
  · unfold KCudfData.getProviders KCudfData.providersOwner
    rw [ta]
    simp [bind, Except.bind, KCudfData.obj_of_heap e2, KCudfData.obj_of_heap e1, pure,
      Except.pure, hnb, hfb]
  · unfold KCudfData.getProviders KCudfData.providersOwner
    simp [bind, Except.bind, KCudfData.obj_of_heap e2, pure, Except.pure, hnb, hfb]

theorem setForward_postcondition_witness :
    ∃ d1 da db pa, heapForward.setForward 0 1 = Except.ok d1 ∧
      d1.getDependencies 1 = Except.ok da ∧
      (∀ x, x ∈ da ↔ x ∈ ([8] : IdSet) ∨ x ∈ ([7] : IdSet)) ∧
      d1.getConflicts 1 = Except.ok db ∧
      (∀ x, x ∈ db ↔ x ∈ ([] : IdSet) ∨ x ∈ ([9] : IdSet)) ∧
      (d1.heap 0).map (fun o => o.providers) = some pa ∧
      (∀ x, x ∈ pa ↔ x ∈ ([1, 5] : IdSet) ∧ x ≠ 1) ∧
      d1.getId 0 = d1.getId 1 ∧ d1.getId 1 = Except.ok 1 ∧
      d1.markedInstall 0 = d1.markedInstall 1 ∧ d1.markedInstall 1 = Except.ok true ∧
      d1.markedKeep 0 = d1.markedKeep 1 ∧ d1.markedKeep 1 = Except.ok false ∧
      d1.getProviders 0 = d1.getProviders 1 ∧ d1.getProviders 1 = Except.ok [5, 6] :=
  setForward_postcondition heapForward 0 1 _ _ rfl rfl rfl rfl rfl rfl (by decide) (by decide)

/-- A forward to a `Disjunction` that is itself forwarded: the dependencies and
the conflicts of `a` go to the object the chain of `b` ends on, and the sets of
`b` stay as they were. -/
theorem setForward_forwarded_counterexample :
    (heapForward.heap 0).map (fun o => (o.nm, o.forwarded, o.dependencies, o.conflicts)) =
      some (none, false, [7], [9]) ∧
    (heapForward.heap 2).map (fun o => (o.nm, o.forwarded, o.fwd, o.dependencies)) =
      some (none, true, some 1, [3]) ∧
    heapForward.getId 0 = Except.ok 0 ∧ heapForward.getId 2 = Except.ok 1 ∧
    (heapForward.setForward 0 2).bind (fun d1 => d1.getDependencies 2) = Except.ok [3] ∧
    (heapForward.setForward 0 2).bind (fun d1 => d1.getConflicts 2) = Except.ok [] ∧
    (heapForward.setForward 0 2).bind (fun d1 => d1.getDependencies 1) = Except.ok [7, 8] ∧
    (heapForward.setForward 0 2).bind (fun d1 => d1.getConflicts 1) = Except.ok [9] :=
  ⟨rfl, rfl, rfl, rfl, rfl, rfl, rfl, rfl⟩

end Forwarding

/-! ## The translator on three documents -/

section TranslatorRuns

/-- C17: `keep: version` does not reach the concrete package.  For the document
with the single package `a = 1`, installed with `keep: version`, the constructor
has, when it calls `processRequest`, the concrete package of `(a, 1)` (object 0)
with `install = true` and `keep = false`: the flags were set on the disjunction
of the version (object 1, `specv[a][1]`), which is forwarded to the concrete
package, and a forward does not copy them.  The assertion
`packages[concrete[name][version]]->markedKeep()` of `processRequest` then fails:
the translation ends on it. -/
theorem keep_version_not_on_concrete :
    (KCudfData.beforeRequest Printer.plain 0 docKeepVersion).map
        (fun r => (StdMap.find r.1.concrete "a", StdMap.find r.1.specv "a",
          r.1.flags 0, r.1.flags 1, (r.1.heap 1).bind (fun o => o.fwd))) =
      Except.ok (some [(1, 0)], some [(1, 1)], some (true, false), some (true, true), some 0) ∧
    KCudfData.create Printer.plain 0 docKeepVersion = Except.error Failure.assertion :=
  ⟨rfl, rfl⟩

/-- C18: a scheduled uninstall overrides an install that is kept.  For the
document with the package `a = 1`, not installed, and the request to install
`a = 1` and to remove `a = 1`, both requests schedule the disjunction of the
version (object 1), which stands for the concrete package (object 0).  After the
loop over `toInstall` the package has `install = true` and `keep = true`; the
loop over `toUninstall` has no test, and the translation completes with
`install = false` and `keep = true`. -/
theorem uninstall_overrides_kept_install :
    ((KCudfData.beforeRequest Printer.plain 0 docInstallRemove).bind (fun r =>
        (docInstallRemove.reqToInstall.foldlM (KCudfData.processInstall Printer.plain)
          (r.1, { toInstall := [], toUninstall := [] })).bind (fun t =>
            docInstallRemove.reqToRemove.foldlM (KCudfData.processRemove Printer.plain) t))).map
        (fun t => (t.2, (t.1.heap 1).bind (fun o => o.fwd))) =
      Except.ok ({ toInstall := [1], toUninstall := [1] }, some 0) ∧
    ((KCudfData.beforeRequest Printer.plain 0 docInstallRemove).bind (fun r =>
        r.1.markPackages { toInstall := [1], toUninstall := [] })).map
        (fun d => d.flags 0) = Except.ok (some (true, true)) ∧
    ((KCudfData.beforeRequest Printer.plain 0 docInstallRemove).bind (fun r =>
        r.1.markPackages { toInstall := [1], toUninstall := [1] })).map
        (fun d => d.flags 0) = Except.ok (some (false, true)) ∧
    (KCudfData.create Printer.plain 0 docInstallRemove).map (fun r => r.1.flags 0) =
      Except.ok (some (false, true)) :=
  ⟨rfl, rfl, rfl, rfl⟩

/-- C19: the second `fixInstallVirtuals` fails on a removed constraint.  For
the document with `x = 2` installed, `x = 3` available and the request to remove
`x >= 2`, the node of the constraint (object 6, forwarded to object 3) has
`install = false` and `keep = true` when `processRequest` returns; the call of
`fixInstallVirtuals` that follows marks it `install = true`, since its provider
`x = 2` is installed, and `Package::markInstall` ends on `assert(false)`: the
translation does not complete. -/
theorem remove_request_aborts :
    ((KCudfData.beforeRequest Printer.plain 0 docRemove).bind (fun r =>
        KCudfData.processRequest Printer.plain r.1 docRemove r.2.1)).map
        (fun s => (StdMap.find s.1.constv "x>=2", (s.1.heap 6).bind (fun o => o.fwd),
          s.1.flags 3, s.1.flags 0)) =
      Except.ok (some 6, some 3, some (false, true), some (true, false)) ∧
    ((KCudfData.beforeRequest Printer.plain 0 docRemove).bind (fun r =>
        KCudfData.processRequest Printer.plain r.1 docRemove r.2.1)).bind
        (fun s => s.1.fixInstallVirtuals) = Except.error Failure.assertion ∧
    KCudfData.create Printer.plain 0 docRemove = Except.error Failure.assertion :=
  ⟨rfl, rfl, rfl⟩

end TranslatorRuns

/-! ## The exception `KCudfInvalidProvide` -/

section InvalidProvide

theorem Quiet.pure {α : Type} (a : α) : Quiet (pure a : Except Failure α) :=
  ⟨fun h => by cases h⟩

theorem Quiet.throw {α : Type} (e : Failure) (h : e ≠ Failure.InvalidProvide) :
    Quiet (throw e : Except Failure α) :=
  ⟨fun h1 => by cases h1; exact h rfl⟩

theorem Quiet.bind {α β : Type} {x : Except Failure α} {f : α → Except Failure β}
    (hx : Quiet x) (hf : ∀ a, Quiet (f a)) : Quiet (x >>= f) := by
  cases x with
  | error e => exact ⟨fun h => hx.ne (by cases h; rfl)⟩
  | ok a => exact hf a

theorem Quiet.foldlM {α β : Type} {f : β → α → Except Failure β}
    (hf : ∀ b a, Quiet (f b a)) (l : List α) (b : β) : Quiet (l.foldlM f b) := by
  induction l generalizing b with
  | nil => exact Quiet.pure b
  | cons a l ih =>
    rw [List.foldlM_cons]
    exact Quiet.bind (hf b a) (fun b1 => ih b1)

theorem quiet_obj (d : KCudfData) (p : Nat) :
    Quiet (d.obj p) := by
  unfold KCudfData.obj
  repeat (first
    | exact Quiet.pure _ | exact Quiet.throw _ (by decide) | with_reducible apply Quiet.bind
    | with_reducible apply Quiet.foldlM | intro _ | dsimp only | split)

theorem quiet_targetFrom (fuel : Nat) (d : KCudfData) (p : Nat) :
    Quiet (KCudfData.targetFrom fuel d p) := by
  induction fuel generalizing p with
  | zero => exact Quiet.throw _ (by decide)
  | succ n ih =>
    unfold KCudfData.targetFrom
    repeat (first
      | exact Quiet.pure _ | exact Quiet.throw _ (by decide) | with_reducible apply ih
      | with_reducible apply quiet_obj | with_reducible apply Quiet.bind
      | with_reducible apply Quiet.foldlM | intro _ | dsimp only | split)

theorem quiet_target (d : KCudfData) (p : Nat) :
    Quiet (d.target p) := by
  unfold KCudfData.target
  repeat (first
    | exact Quiet.pure _ | exact Quiet.throw _ (by decide)
    | with_reducible apply quiet_targetFrom | with_reducible apply Quiet.bind
    | with_reducible apply Quiet.foldlM | intro _ | dsimp only | split)

theorem quiet_ptr (d : KCudfData) (k : Nat) :
    Quiet (d.ptr k) := by
  unfold KCudfData.ptr
  repeat (first
    | exact Quiet.pure _ | exact Quiet.throw _ (by decide) | with_reducible apply Quiet.bind
    | with_reducible apply Quiet.foldlM | intro _ | dsimp only | split)

theorem quiet_getId (d : KCudfData) (p : Nat) :
    Quiet (d.getId p) := by
  unfold KCudfData.getId
  repeat (first
    | exact Quiet.pure _ | exact Quiet.throw _ (by decide) | with_reducible apply quiet_obj
    | with_reducible apply quiet_target | with_reducible apply Quiet.bind
    | with_reducible apply Quiet.foldlM | intro _ | dsimp only | split)

theorem quiet_isConcrete (d : KCudfData) (p : Nat) :
    Quiet (d.isConcrete p) := by
  unfold KCudfData.isConcrete
  repeat (first
    | exact Quiet.pure _ | exact Quiet.throw _ (by decide) | with_reducible apply quiet_obj
    | with_reducible apply quiet_target | with_reducible apply Quiet.bind
    | with_reducible apply Quiet.foldlM | intro _ | dsimp only | split)

theorem quiet_getVersion (d : KCudfData) (p : Nat) :
    Quiet (d.getVersion p) := by
  unfold KCudfData.getVersion
  repeat (first
    | exact Quiet.pure _ | exact Quiet.throw _ (by decide) | with_reducible apply quiet_obj
    | with_reducible apply quiet_target | with_reducible apply Quiet.bind
    | with_reducible apply Quiet.foldlM | intro _ | dsimp only | split)

theorem quiet_markInstall (d : KCudfData) (p : Nat) (st : Bool) :
    Quiet (d.markInstall p st) := by
  unfold KCudfData.markInstall
  repeat (first
    | exact Quiet.pure _ | exact Quiet.throw _ (by decide) | with_reducible apply quiet_obj
    | with_reducible apply quiet_target | with_reducible apply Quiet.bind
    | with_reducible apply Quiet.foldlM | intro _ | dsimp only | split)

theorem quiet_markKeep (d : KCudfData) (p : Nat) (st : Bool) :
    Quiet (d.markKeep p st) := by
  unfold KCudfData.markKeep
  repeat (first
    | exact Quiet.pure _ | exact Quiet.throw _ (by decide) | with_reducible apply quiet_obj
    | with_reducible apply quiet_target | with_reducible apply Quiet.bind
    | with_reducible apply Quiet.foldlM | intro _ | dsimp only | split)

theorem quiet_markedInstall (d : KCudfData) (p : Nat) :
    Quiet (d.markedInstall p) := by
  unfold KCudfData.markedInstall
  repeat (first
    | exact Quiet.pure _ | exact Quiet.throw _ (by decide) | with_reducible apply quiet_obj
    | with_reducible apply quiet_target | with_reducible apply Quiet.bind
    | with_reducible apply Quiet.foldlM | intro _ | dsimp only | split)

theorem quiet_markedKeep (d : KCudfData) (p : Nat) :
    Quiet (d.markedKeep p) := by
  unfold KCudfData.markedKeep
  repeat (first
    | exact Quiet.pure _ | exact Quiet.throw _ (by decide) | with_reducible apply quiet_obj
    | with_reducible apply quiet_target | with_reducible apply Quiet.bind
    | with_reducible apply Quiet.foldlM | intro _ | dsimp only | split)

theorem quiet_addConflict (d : KCudfData) (p c : Nat) :
    Quiet (d.addConflict p c) := by
  unfold KCudfData.addConflict
  repeat (first
    | exact Quiet.pure _ | exact Quiet.throw _ (by decide) | with_reducible apply quiet_obj
    | with_reducible apply quiet_target | with_reducible apply Quiet.bind
    | with_reducible apply Quiet.foldlM | intro _ | dsimp only | split)

theorem quiet_addDependency (d : KCudfData) (p q : Nat) :
    Quiet (d.addDependency p q) := by
  unfold KCudfData.addDependency
  repeat (first
    | exact Quiet.pure _ | exact Quiet.throw _ (by decide) | with_reducible apply quiet_obj
    | with_reducible apply quiet_target | with_reducible apply Quiet.bind
    | with_reducible apply Quiet.foldlM | intro _ | dsimp only | split)

theorem quiet_getDependencies (d : KCudfData) (p : Nat) :
    Quiet (d.getDependencies p) := by
  unfold KCudfData.getDependencies
  repeat (first
    | exact Quiet.pure _ | exact Quiet.throw _ (by decide) | with_reducible apply quiet_obj
    | with_reducible apply Quiet.bind | with_reducible apply Quiet.foldlM | intro _ | dsimp only
    | split)

theorem quiet_getConflicts (d : KCudfData) (p : Nat) :
    Quiet (d.getConflicts p) := by
  unfold KCudfData.getConflicts
  repeat (first
    | exact Quiet.pure _ | exact Quiet.throw _ (by decide) | with_reducible apply quiet_obj
    | with_reducible apply Quiet.bind | with_reducible apply Quiet.foldlM | intro _ | dsimp only
    | split)

theorem quiet_addProvider (d : KCudfData) (p q : Nat) :
    Quiet (d.addProvider p q) := by
  unfold KCudfData.addProvider
  repeat (first
    | exact Quiet.pure _ | exact Quiet.throw _ (by decide) | with_reducible apply quiet_obj
    | with_reducible apply Quiet.bind | with_reducible apply Quiet.foldlM | intro _ | dsimp only
    | split)

theorem quiet_providersOwner (d : KCudfData) (p : Nat) :
    Quiet (d.providersOwner p) := by
  unfold KCudfData.providersOwner
  repeat (first
    | exact Quiet.pure _ | exact Quiet.throw _ (by decide) | with_reducible apply quiet_obj
    | with_reducible apply quiet_target | with_reducible apply Quiet.bind
    | with_reducible apply Quiet.foldlM | intro _ | dsimp only | split)

theorem quiet_getProviders (d : KCudfData) (p : Nat) :
    Quiet (d.getProviders p) := by
  unfold KCudfData.getProviders
  repeat (first
    | exact Quiet.pure _ | exact Quiet.throw _ (by decide) | with_reducible apply quiet_obj
    | with_reducible apply quiet_providersOwner | with_reducible apply Quiet.bind
    | with_reducible apply Quiet.foldlM | intro _ | dsimp only | split)

theorem quiet_addBut (d : KCudfData) (p q : Nat) :
    Quiet (d.addBut p q) := by
  unfold KCudfData.addBut
  repeat (first
    | exact Quiet.pure _ | exact Quiet.throw _ (by decide) | with_reducible apply quiet_obj
    | with_reducible apply Quiet.bind | with_reducible apply Quiet.foldlM | intro _ | dsimp only
    | split)

theorem quiet_newSelfPackage (d : KCudfData) (name : String) (inst : Bool) (v : Int) :
    Quiet (d.newSelfPackage name inst v) := by
  unfold KCudfData.newSelfPackage
  repeat (first
    | exact Quiet.pure _ | exact Quiet.throw _ (by decide) | with_reducible apply Quiet.bind
    | with_reducible apply Quiet.foldlM | intro _ | dsimp only | split)

theorem quiet_register (d : KCudfData) (p : Nat) :
    Quiet (d.register p) := by
  unfold KCudfData.register
  repeat (first
    | exact Quiet.pure _ | exact Quiet.throw _ (by decide) | with_reducible apply quiet_getId
    | with_reducible apply Quiet.bind | with_reducible apply Quiet.foldlM | intro _ | dsimp only
    | split)

theorem quiet_flatFrom (fuel : Nat) (d : KCudfData) (p : Nat) :
    Quiet (KCudfData.flatFrom fuel d p) := by
  induction fuel generalizing d p with
  | zero => exact Quiet.throw _ (by decide)
  | succ n ih =>
    unfold KCudfData.flatFrom
    repeat (first
      | exact Quiet.pure _ | exact Quiet.throw _ (by decide) | with_reducible apply ih
      | with_reducible apply quiet_obj | with_reducible apply quiet_ptr
      | with_reducible apply quiet_isConcrete | with_reducible apply quiet_getProviders
      | with_reducible apply Quiet.bind | with_reducible apply Quiet.foldlM | intro _
      | dsimp only | split)

theorem quiet_flat (d : KCudfData) (p : Nat) :
    Quiet (d.flat p) := by
  unfold KCudfData.flat
  repeat (first
    | exact Quiet.pure _ | exact Quiet.throw _ (by decide) | with_reducible apply quiet_flatFrom
    | with_reducible apply Quiet.bind | with_reducible apply Quiet.foldlM | intro _ | dsimp only
    | split)

theorem quiet_setForwardFrom (fuel : Nat) (d : KCudfData) (a p : Nat) :
    Quiet (KCudfData.setForwardFrom fuel d a p) := by
  induction fuel generalizing d a with
  | zero => exact Quiet.throw _ (by decide)
  | succ n ih =>
    unfold KCudfData.setForwardFrom
    repeat (first
      | exact Quiet.pure _ | exact Quiet.throw _ (by decide) | with_reducible apply ih
      | with_reducible apply quiet_obj | with_reducible apply quiet_getId
      | with_reducible apply quiet_isConcrete | with_reducible apply quiet_addConflict
      | with_reducible apply quiet_addDependency | with_reducible apply Quiet.bind
      | with_reducible apply Quiet.foldlM | intro _ | dsimp only | split)

theorem quiet_setForward (d : KCudfData) (a p : Nat) :
    Quiet (d.setForward a p) := by
  unfold KCudfData.setForward
  repeat (first
    | exact Quiet.pure _ | exact Quiet.throw _ (by decide)
    | with_reducible apply quiet_setForwardFrom | with_reducible apply Quiet.bind
    | with_reducible apply Quiet.foldlM | intro _ | dsimp only | split)

theorem quiet_newDisjunction (d : KCudfData) (s : String) :
    Quiet (d.newDisjunction s) := by
  unfold KCudfData.newDisjunction
  repeat (first
    | exact Quiet.pure _ | exact Quiet.throw _ (by decide) | with_reducible apply quiet_getId
    | with_reducible apply quiet_register | with_reducible apply Quiet.bind
    | with_reducible apply Quiet.foldlM | intro _ | dsimp only | split)

theorem quiet_getDisjunction (d : KCudfData) (name : String) :
    Quiet (d.getDisjunction name) := by
  unfold KCudfData.getDisjunction
  repeat (first
    | exact Quiet.pure _ | exact Quiet.throw _ (by decide) | with_reducible apply quiet_ptr
    | with_reducible apply quiet_newDisjunction | with_reducible apply Quiet.bind
    | with_reducible apply Quiet.foldlM | intro _ | dsimp only | split)

theorem quiet_addDisjunction (d : KCudfData) (name : String) (version : Int) :
    Quiet (d.addDisjunction name version) := by
  unfold KCudfData.addDisjunction
  repeat (first
    | exact Quiet.pure _ | exact Quiet.throw _ (by decide) | with_reducible apply quiet_ptr
    | with_reducible apply quiet_getId | with_reducible apply quiet_register
    | with_reducible apply Quiet.bind | with_reducible apply Quiet.foldlM | intro _ | dsimp only
    | split)

theorem quiet_addDepDisjunction (d : KCudfData) (name : String) (version : Int) :
    Quiet (d.addDepDisjunction name version) := by
  unfold KCudfData.addDepDisjunction
  repeat (first
    | exact Quiet.pure _ | exact Quiet.throw _ (by decide) | with_reducible apply quiet_ptr
    | with_reducible apply quiet_getId | with_reducible apply quiet_addProvider
    | with_reducible apply quiet_register | with_reducible apply quiet_getDisjunction
    | with_reducible apply Quiet.bind | with_reducible apply Quiet.foldlM | intro _ | dsimp only
    | split)

theorem quiet_getDepDisjunction (pr : Printer) (d : KCudfData) (cs : Vpkg) :
    Quiet (KCudfData.getDepDisjunction pr d cs) := by
  unfold KCudfData.getDepDisjunction
  repeat (first
    | exact Quiet.pure _ | exact Quiet.throw _ (by decide) | with_reducible apply quiet_ptr
    | with_reducible apply quiet_getId | with_reducible apply quiet_addProvider
    | with_reducible apply quiet_newDisjunction | with_reducible apply Quiet.bind
    | with_reducible apply Quiet.foldlM | intro _ | dsimp only | split)

theorem quiet_getDisjunctionOf (pr : Printer) (d : KCudfData) (cs : Vpkg) :
    Quiet (KCudfData.getDisjunctionOf pr d cs) := by
  unfold KCudfData.getDisjunctionOf
  repeat (first
    | exact Quiet.pure _ | exact Quiet.throw _ (by decide) | with_reducible apply quiet_ptr
    | with_reducible apply quiet_addProvider | with_reducible apply quiet_newDisjunction
    | with_reducible apply Quiet.bind | with_reducible apply Quiet.foldlM | intro _ | dsimp only
    | split)

theorem quiet_pairwiseConflicting (d : KCudfData) (s : IdSet) :
    Quiet (d.pairwiseConflicting s) := by
  unfold KCudfData.pairwiseConflicting
  repeat (first
    | exact Quiet.pure _ | exact Quiet.throw _ (by decide) | with_reducible apply quiet_ptr
    | with_reducible apply quiet_addConflict | with_reducible apply Quiet.bind
    | with_reducible apply Quiet.foldlM | intro _ | dsimp only | split)

set_option maxRecDepth 10000 in
theorem quiet_processConcretePackage (d : KCudfData) (pi : CudfPackage) :
    Quiet (d.processConcretePackage pi) := by
  unfold KCudfData.processConcretePackage
  repeat (first
    | exact Quiet.pure _ | exact Quiet.throw _ (by decide) | with_reducible apply quiet_getId
    | with_reducible apply quiet_addDependency | with_reducible apply quiet_addProvider
    | with_reducible apply quiet_newSelfPackage | with_reducible apply quiet_register
    | with_reducible apply quiet_getDisjunction | with_reducible apply Quiet.bind
    | with_reducible apply Quiet.foldlM | intro _ | dsimp only | split)

theorem quiet_processConcretePackages (d : KCudfData) (doc : CudfDoc) :
    Quiet (d.processConcretePackages doc) := by
  unfold KCudfData.processConcretePackages
  repeat (first
    | exact Quiet.pure _ | exact Quiet.throw _ (by decide)
    | with_reducible apply quiet_processConcretePackage | with_reducible apply Quiet.bind
    | with_reducible apply Quiet.foldlM | intro _ | dsimp only | split)

theorem quiet_processInstalledPackage (d : KCudfData) (pi : CudfPackage) :
    Quiet (d.processInstalledPackage pi) := by
  unfold KCudfData.processInstalledPackage
  repeat (first
    | exact Quiet.pure _ | exact Quiet.throw _ (by decide) | with_reducible apply quiet_ptr
    | with_reducible apply quiet_getId | with_reducible apply quiet_addDependency
    | with_reducible apply quiet_addProvider | with_reducible apply Quiet.bind
    | with_reducible apply Quiet.foldlM | intro _ | dsimp only | split)

theorem quiet_processInstalledPackages (d : KCudfData) (doc : CudfDoc) :
    Quiet (d.processInstalledPackages doc) := by
  unfold KCudfData.processInstalledPackages
  repeat (first
    | exact Quiet.pure _ | exact Quiet.throw _ (by decide)
    | with_reducible apply quiet_processInstalledPackage | with_reducible apply Quiet.bind
    | with_reducible apply Quiet.foldlM | intro _ | dsimp only | split)

set_option maxRecDepth 10000 in
theorem quiet_processEqualityPackage (d : KCudfData) (pi : CudfPackage) :
    Quiet (d.processEqualityPackage pi) := by
  unfold KCudfData.processEqualityPackage
  repeat (first
    | exact Quiet.pure _ | exact Quiet.throw _ (by decide) | with_reducible apply quiet_ptr
    | with_reducible apply quiet_getId | with_reducible apply quiet_isConcrete
    | with_reducible apply quiet_markInstall | with_reducible apply quiet_markKeep
    | with_reducible apply quiet_addConflict | with_reducible apply quiet_addDependency
    | with_reducible apply quiet_addProvider | with_reducible apply quiet_getDisjunction
    | with_reducible apply quiet_addDisjunction | with_reducible apply quiet_addDepDisjunction
    | with_reducible apply Quiet.bind | with_reducible apply Quiet.foldlM | intro _ | dsimp only
    | split)

theorem quiet_processEqualityRequest (d : KCudfData) (vpks : List Vpkg) :
    Quiet (d.processEqualityRequest vpks) := by
  unfold KCudfData.processEqualityRequest
  repeat (first
    | exact Quiet.pure _ | exact Quiet.throw _ (by decide)
    | with_reducible apply quiet_addDisjunction | with_reducible apply Quiet.bind
    | with_reducible apply Quiet.foldlM | intro _ | dsimp only | split)

theorem quiet_processEqualityConstraints (d : KCudfData) (doc : CudfDoc) :
    Quiet (d.processEqualityConstraints doc) := by
  unfold KCudfData.processEqualityConstraints
  repeat (first
    | exact Quiet.pure _ | exact Quiet.throw _ (by decide)
    | with_reducible apply quiet_processEqualityPackage
    | with_reducible apply quiet_processEqualityRequest | with_reducible apply Quiet.bind
    | with_reducible apply Quiet.foldlM | intro _ | dsimp only | split)

theorem quiet_newDependencyDisjunction (pr : Printer) (d : KCudfData) (cpi_pkg : Nat) (cni : List Vpkg) :
    Quiet (KCudfData.newDependencyDisjunction pr d cpi_pkg cni) := by
  unfold KCudfData.newDependencyDisjunction
  repeat (first
    | exact Quiet.pure _ | exact Quiet.throw _ (by decide) | with_reducible apply quiet_getId
    | with_reducible apply quiet_addDependency | with_reducible apply quiet_addProvider
    | with_reducible apply quiet_newDisjunction | with_reducible apply Quiet.bind
    | with_reducible apply Quiet.foldlM | intro _ | dsimp only | split)

theorem quiet_processRangeDependency (pr : Printer) (cpi_pkg : Nat) (d : KCudfData) (cni : List Vpkg) :
    Quiet (KCudfData.processRangeDependency pr cpi_pkg d cni) := by
  unfold KCudfData.processRangeDependency
  repeat (first
    | exact Quiet.pure _ | exact Quiet.throw _ (by decide)
    | with_reducible apply quiet_addDependency | with_reducible apply quiet_getDepDisjunction
    | with_reducible apply quiet_newDependencyDisjunction | with_reducible apply Quiet.bind
    | with_reducible apply Quiet.foldlM | intro _ | dsimp only | split)

set_option maxRecDepth 10000 in
theorem quiet_processRangePackage (pr : Printer) (doc : CudfDoc) (d : KCudfData) (pi : CudfPackage) :
    Quiet (KCudfData.processRangePackage pr doc d pi) := by
  unfold KCudfData.processRangePackage
  repeat (first
    | exact Quiet.pure _ | exact Quiet.throw _ (by decide) | with_reducible apply quiet_ptr
    | with_reducible apply quiet_getId | with_reducible apply quiet_addConflict
    | with_reducible apply quiet_addProvider | with_reducible apply quiet_addBut
    | with_reducible apply quiet_getDisjunction | with_reducible apply quiet_getDepDisjunction
    | with_reducible apply quiet_getDisjunctionOf
    | with_reducible apply quiet_processRangeDependency | with_reducible apply Quiet.bind
    | with_reducible apply Quiet.foldlM | intro _ | dsimp only | split)

theorem quiet_processRangeConstraints (pr : Printer) (d : KCudfData) (doc : CudfDoc) :
    Quiet (KCudfData.processRangeConstraints pr d doc) := by
  unfold KCudfData.processRangeConstraints
  repeat (first
    | exact Quiet.pure _ | exact Quiet.throw _ (by decide)
    | with_reducible apply quiet_processRangePackage | with_reducible apply Quiet.bind
    | with_reducible apply Quiet.foldlM | intro _ | dsimp only | split)

theorem quiet_fixInstallVirtuals (d : KCudfData) :
    Quiet (d.fixInstallVirtuals) := by
  unfold KCudfData.fixInstallVirtuals
  repeat (first
    | exact Quiet.pure _ | exact Quiet.throw _ (by decide) | with_reducible apply quiet_ptr
    | with_reducible apply quiet_isConcrete | with_reducible apply quiet_markInstall
    | with_reducible apply quiet_markedInstall | with_reducible apply quiet_getProviders
    | with_reducible apply Quiet.bind | with_reducible apply Quiet.foldlM | intro _ | dsimp only
    | split)

set_option maxRecDepth 10000 in
theorem quiet_keepPackage (d : KCudfData) (dsj : DTNode) (ms : Marks) (pi : CudfPackage) :
    Quiet (d.keepPackage dsj ms pi) := by
  unfold KCudfData.keepPackage
  repeat (first
    | exact Quiet.pure _ | exact Quiet.throw _ (by decide) | with_reducible apply quiet_ptr
    | with_reducible apply quiet_getId | with_reducible apply quiet_addProvider
    | with_reducible apply quiet_getProviders | with_reducible apply quiet_flat
    | with_reducible apply quiet_setForward | with_reducible apply quiet_getDisjunction
    | with_reducible apply quiet_addDisjunction | with_reducible apply Quiet.bind
    | with_reducible apply Quiet.foldlM | intro _ | dsimp only | split)

theorem quiet_keepFeature (d : KCudfData) (ms : Marks) (pi : CudfPackage) :
    Quiet (d.keepFeature ms pi) := by
  unfold KCudfData.keepFeature
  repeat (first
    | exact Quiet.pure _ | exact Quiet.throw _ (by decide) | with_reducible apply quiet_ptr
    | with_reducible apply Quiet.bind | with_reducible apply Quiet.foldlM | intro _ | dsimp only
    | split)

theorem quiet_processKeep (s : KCudfData × DTNode × Marks) (pi : CudfPackage) :
    Quiet (KCudfData.processKeep s pi) := by
  unfold KCudfData.processKeep
  repeat (first
    | exact Quiet.pure _ | exact Quiet.throw _ (by decide) | with_reducible apply quiet_ptr
    | with_reducible apply quiet_markedInstall | with_reducible apply quiet_markedKeep
    | with_reducible apply quiet_keepPackage | with_reducible apply quiet_keepFeature
    | with_reducible apply Quiet.bind | with_reducible apply Quiet.foldlM | intro _ | dsimp only
    | split)

theorem quiet_upgradeRange (d : KCudfData) (vpk : Vpkg) (int_map : StdMap Int Nat) (ms : Marks) :
    Quiet (d.upgradeRange vpk int_map ms) := by
  unfold KCudfData.upgradeRange
  repeat (first
    | exact Quiet.pure _ | exact Quiet.throw _ (by decide) | with_reducible apply quiet_ptr
    | with_reducible apply quiet_getId | with_reducible apply quiet_getVersion
    | with_reducible apply quiet_markedInstall | with_reducible apply Quiet.bind
    | with_reducible apply Quiet.foldlM | intro _ | dsimp only | split)

set_option maxRecDepth 10000 in
theorem quiet_processUpgrade (pr : Printer) (s : KCudfData × DTNode × Marks) (vpk : Vpkg) :
    Quiet (KCudfData.processUpgrade pr s vpk) := by
  unfold KCudfData.processUpgrade
  repeat (first
    | exact Quiet.pure _ | exact Quiet.throw _ (by decide) | with_reducible apply quiet_ptr
    | with_reducible apply quiet_getId | with_reducible apply quiet_markedInstall
    | with_reducible apply quiet_addProvider | with_reducible apply quiet_getProviders
    | with_reducible apply quiet_register | with_reducible apply quiet_flat
    | with_reducible apply quiet_addDisjunction | with_reducible apply quiet_pairwiseConflicting
    | with_reducible apply quiet_upgradeRange | with_reducible apply Quiet.bind
    | with_reducible apply Quiet.foldlM | intro _ | dsimp only | split)

theorem quiet_processInstall (pr : Printer) (s : KCudfData × Marks) (vpk : Vpkg) :
    Quiet (KCudfData.processInstall pr s vpk) := by
  unfold KCudfData.processInstall
  repeat (first
    | exact Quiet.pure _ | exact Quiet.throw _ (by decide) | with_reducible apply quiet_ptr
    | with_reducible apply Quiet.bind | with_reducible apply Quiet.foldlM | intro _ | dsimp only
    | split)

theorem quiet_processRemove (pr : Printer) (s : KCudfData × Marks) (vpk : Vpkg) :
    Quiet (KCudfData.processRemove pr s vpk) := by
  unfold KCudfData.processRemove
  repeat (first
    | exact Quiet.pure _ | exact Quiet.throw _ (by decide) | with_reducible apply quiet_ptr
    | with_reducible apply Quiet.bind | with_reducible apply Quiet.foldlM | intro _ | dsimp only
    | split)

theorem quiet_markPackages (d : KCudfData) (ms : Marks) :
    Quiet (d.markPackages ms) := by
  unfold KCudfData.markPackages
  repeat (first
    | exact Quiet.pure _ | exact Quiet.throw _ (by decide)
    | with_reducible apply quiet_markInstall | with_reducible apply quiet_markKeep
    | with_reducible apply quiet_markedInstall | with_reducible apply quiet_markedKeep
    | with_reducible apply Quiet.bind | with_reducible apply Quiet.foldlM | intro _ | dsimp only
    | split)

theorem quiet_processRequest (pr : Printer) (d : KCudfData) (doc : CudfDoc) (dsj : DTNode) :
    Quiet (KCudfData.processRequest pr d doc dsj) := by
  unfold KCudfData.processRequest
  repeat (first
    | exact Quiet.pure _ | exact Quiet.throw _ (by decide)
    | with_reducible apply quiet_processKeep | with_reducible apply quiet_processUpgrade
    | with_reducible apply quiet_processInstall | with_reducible apply quiet_processRemove
    | with_reducible apply quiet_markPackages | with_reducible apply Quiet.bind
    | with_reducible apply Quiet.foldlM | intro _ | dsimp only | split)

theorem quiet_installedProviders (d : KCudfData) (k : Nat) :
    Quiet (d.installedProviders k) := by
  unfold KCudfData.installedProviders
  repeat (first
    | exact Quiet.pure _ | exact Quiet.throw _ (by decide) | with_reducible apply quiet_ptr
    | with_reducible apply quiet_isConcrete | with_reducible apply quiet_markedInstall
    | with_reducible apply quiet_getProviders | with_reducible apply Quiet.bind
    | with_reducible apply Quiet.foldlM | intro _ | dsimp only | split)

set_option maxRecDepth 10000 in
theorem quiet_consistentStep (d : KCudfData) (s : Nat × IdSet × List Nat) (e : Nat × Nat) :
    Quiet (d.consistentStep s e) := by
  unfold KCudfData.consistentStep
  repeat (first
    | exact Quiet.pure _ | exact Quiet.throw _ (by decide) | with_reducible apply quiet_ptr
    | with_reducible apply quiet_getId | with_reducible apply quiet_isConcrete
    | with_reducible apply quiet_markedInstall | with_reducible apply quiet_getDependencies
    | with_reducible apply quiet_getConflicts | with_reducible apply quiet_installedProviders
    | with_reducible apply Quiet.bind | with_reducible apply Quiet.foldlM | intro _ | dsimp only
    | split)

theorem quiet_consistent (d : KCudfData) :
    Quiet (d.consistent) := by
  unfold KCudfData.consistent
  repeat (first
    | exact Quiet.pure _ | exact Quiet.throw _ (by decide)
    | with_reducible apply quiet_consistentStep | with_reducible apply Quiet.bind
    | with_reducible apply Quiet.foldlM | intro _ | dsimp only | split)

theorem quiet_fillBigPackages (d : KCudfData) :
    Quiet (d.fillBigPackages) := by
  unfold KCudfData.fillBigPackages
  repeat (first
    | exact Quiet.pure _ | exact Quiet.throw _ (by decide) | with_reducible apply quiet_obj
    | with_reducible apply quiet_ptr | with_reducible apply quiet_getId
    | with_reducible apply quiet_isConcrete | with_reducible apply quiet_markedInstall
    | with_reducible apply Quiet.bind | with_reducible apply Quiet.foldlM | intro _ | dsimp only
    | split)

theorem quiet_flatAll (d : KCudfData) :
    Quiet (d.flatAll) := by
  unfold KCudfData.flatAll
  repeat (first
    | exact Quiet.pure _ | exact Quiet.throw _ (by decide)
    | with_reducible apply quiet_isConcrete | with_reducible apply quiet_flat
    | with_reducible apply Quiet.bind | with_reducible apply Quiet.foldlM | intro _ | dsimp only
    | split)

theorem quiet_internConcretes (d : KCudfData) (dt : DTNode) :
    Quiet (d.internConcretes dt) := by
  unfold KCudfData.internConcretes
  repeat (first
    | exact Quiet.pure _ | exact Quiet.throw _ (by decide) | with_reducible apply quiet_getId
    | with_reducible apply quiet_isConcrete | with_reducible apply quiet_addDisjunction
    | with_reducible apply Quiet.bind | with_reducible apply Quiet.foldlM | intro _ | dsimp only
    | split)

set_option maxRecDepth 10000 in
theorem quiet_compress (d : KCudfData) (dt : DTNode) :
    Quiet (d.compress dt) := by
  unfold KCudfData.compress
  repeat (first
    | exact Quiet.pure _ | exact Quiet.throw _ (by decide) | with_reducible apply quiet_ptr
    | with_reducible apply quiet_getId | with_reducible apply quiet_isConcrete
    | with_reducible apply quiet_getProviders | with_reducible apply quiet_setForward
    | with_reducible apply quiet_addDisjunction | with_reducible apply Quiet.bind
    | with_reducible apply Quiet.foldlM | intro _ | dsimp only | split)

theorem quiet_zeroProviders (d : KCudfData) :
    Quiet (d.zeroProviders) := by
  unfold KCudfData.zeroProviders
  repeat (first
    | exact Quiet.pure _ | exact Quiet.throw _ (by decide)
    | with_reducible apply quiet_isConcrete | with_reducible apply quiet_markInstall
    | with_reducible apply quiet_markKeep | with_reducible apply quiet_getProviders
    | with_reducible apply Quiet.bind | with_reducible apply Quiet.foldlM | intro _ | dsimp only
    | split)

theorem quiet_complete (d : KCudfData) (compressed zero_prov : Nat) :
    Quiet (d.complete compressed zero_prov) := by
  unfold KCudfData.complete
  repeat (first
    | exact Quiet.pure _ | exact Quiet.throw _ (by decide)
    | with_reducible apply quiet_isConcrete | with_reducible apply quiet_fixInstallVirtuals
    | with_reducible apply quiet_consistent | with_reducible apply quiet_fillBigPackages
    | with_reducible apply Quiet.bind | with_reducible apply Quiet.foldlM | intro _ | dsimp only
    | split)

theorem Quiet.foldlM_mem {α β : Type} {f : β → α → Except Failure β} (l : List α)
    (hf : ∀ b, ∀ a ∈ l, Quiet (f b a)) (b : β) : Quiet (l.foldlM f b) := by
  induction l generalizing b with
  | nil => exact Quiet.pure b
  | cons a l ih =>
    rw [List.foldlM_cons]
    exact Quiet.bind (hf b a (List.mem_cons_self a l))
      (fun b1 => ih (fun b2 a2 h2 => hf b2 a2 (List.mem_cons_of_mem a h2)) b1)

/-- A returning loop has every one of its steps return. -/
theorem foldlM_ok_mem {α β : Type} {f : β → α → Except Failure β} (l : List α) (b b1 : β)
    (h : l.foldlM f b = Except.ok b1) : ∀ a ∈ l, ∃ b2 b3, f b2 a = Except.ok b3 := by
  induction l generalizing b with
  | nil => intro a ha; cases ha
  | cons x l ih =>
    rw [List.foldlM_cons] at h
    cases hx : f b x with
    | error e =>
      rw [hx] at h
      cases h
    | ok b4 =>
      rw [hx] at h
      intro a ha
      rcases List.mem_cons.mp ha with e | e
      · subst e
        exact ⟨b, b4, hx⟩
      · exact ih b4 h a e

theorem quiet_processProvidesPackage (d : KCudfData) (pi : CudfPackage)
    (h : ∀ v ∈ pi.provides, ¬ v.badProvide) : Quiet (d.processProvidesPackage pi) := by
  unfold KCudfData.processProvidesPackage
  dsimp only
  apply Quiet.foldlM_mem
  intro b v hv
  have hb := h v hv
  unfold Vpkg.badProvide at hb
  split
  · rename_i h1
    split
    · rename_i h2
      exact absurd ⟨h1, h2⟩ hb
    · exact Quiet.pure _
  · repeat (first
      | exact Quiet.pure _ | with_reducible apply quiet_getDisjunction
      | with_reducible apply quiet_addProvider | with_reducible apply quiet_addDependency
      | with_reducible apply quiet_ptr | with_reducible apply quiet_getId
      | with_reducible apply Quiet.bind | intro _ | dsimp only | split)

theorem quiet_processProvides (d : KCudfData) (doc : CudfDoc)
    (h : ∀ pi ∈ doc.getPackages, ∀ v ∈ pi.provides, ¬ v.badProvide) :
    Quiet (d.processProvides doc) :=
  Quiet.foldlM_mem _ (fun b pi hpi => quiet_processProvidesPackage b pi (h pi hpi)) d

theorem quiet_create (pr : Printer) (n : Nat) (doc : CudfDoc)
    (h : ∀ pi ∈ doc.getPackages, ∀ v ∈ pi.provides, ¬ v.badProvide) :
    Quiet (KCudfData.create pr n doc) := by
  have hp := fun d => quiet_processProvides d doc h
  unfold KCudfData.create KCudfData.beforeRequest
  repeat (first
    | exact Quiet.pure _ | with_reducible apply hp
    | with_reducible apply quiet_processConcretePackages
    | with_reducible apply quiet_processInstalledPackages
    | with_reducible apply quiet_processEqualityConstraints
    | with_reducible apply quiet_processRangeConstraints | with_reducible apply quiet_flatAll
    | with_reducible apply quiet_internConcretes | with_reducible apply quiet_compress
    | with_reducible apply quiet_zeroProviders | with_reducible apply quiet_fixInstallVirtuals
    | with_reducible apply quiet_processRequest | with_reducible apply quiet_complete
    | with_reducible apply Quiet.bind | intro _ | dsimp only | split)

theorem processProvidesPackage_ok (d d1 : KCudfData) (pi : CudfPackage)
    (h : d.processProvidesPackage pi = Except.ok d1) : ∀ v ∈ pi.provides, ¬ v.badProvide := by
  unfold KCudfData.processProvidesPackage at h
  dsimp only at h
  intro v hv hb
  obtain ⟨b2, b3, h3⟩ := foldlM_ok_mem _ _ _ h v hv
  unfold Vpkg.badProvide at hb
  simp only [hb.1, hb.2, if_true, ne_eq, not_false_eq_true] at h3
  cases h3

theorem processProvides_ok (d d1 : KCudfData) (doc : CudfDoc)
    (h : d.processProvides doc = Except.ok d1) :
    ∀ pi ∈ doc.getPackages, ∀ v ∈ pi.provides, ¬ v.badProvide := by
  intro pi hpi
  obtain ⟨b2, b3, h3⟩ := foldlM_ok_mem _ _ _ h pi hpi
  exact processProvidesPackage_ok b2 b3 pi h3

/-- C20: `KCudfInvalidProvide` and the bad provides.  The constructor raises
`KCudfInvalidProvide` only if some package of the document has a provides entry
that is versioned with a relation other than `=`: unversioned and `=` provides
never raise it.  If there is such an entry the constructor does not return: it
ends on the failure of its first four passes, which `processProvides` ends. -/
theorem invalid_provide_only_for_bad_provides (pr : Printer) (n : Nat) (doc : CudfDoc) :
    (KCudfData.create pr n doc = Except.error Failure.InvalidProvide →
      ∃ pi ∈ doc.getPackages, ∃ v ∈ pi.provides, v.versioned = true ∧ v.rel ≠ ROP_EQ) ∧
    ((∃ pi ∈ doc.getPackages, ∃ v ∈ pi.provides, v.versioned = true ∧ v.rel ≠ ROP_EQ) →
      ∃ e, KCudfData.create pr n doc = Except.error e ∧
        ((((KCudfData.empty n).processConcretePackages doc).bind
          (fun d => d.processInstalledPackages doc)).bind
          (fun d => d.processEqualityConstraints doc)).bind
          (fun d => d.processProvides doc) = Except.error e) := by
  constructor
  · intro h
    by_contra hn
    refine (quiet_create pr n doc ?_).ne h
    intro pi hpi v hv hb
    exact hn ⟨pi, hpi, v, hv, hb⟩
  · rintro ⟨pi, hpi, v, hv, hb⟩
    unfold KCudfData.create KCudfData.beforeRequest
    cases h1 : (KCudfData.empty n).processConcretePackages doc with
    | error e => exact ⟨e, rfl, rfl⟩
    | ok d1 =>
      cases h2 : d1.processInstalledPackages doc with
      | error e => exact ⟨e, by simp [bind, Except.bind, h2], by simp [Except.bind, h2]⟩
      | ok d2 =>
        cases h3 : d2.processEqualityConstraints doc with
        | error e => exact ⟨e, by simp [bind, Except.bind, h2, h3], by simp [Except.bind, h2, h3]⟩
        | ok d3 =>
          cases h4 : d3.processProvides doc with
          | error e =>
            exact ⟨e, by simp [bind, Except.bind, h2, h3, h4], by simp [Except.bind, h2, h3, h4]⟩
          | ok d4 => exact absurd hb (processProvides_ok d3 d4 doc h4 pi hpi v hv)

theorem invalid_provide_only_for_bad_provides_witness :
    KCudfData.create Printer.plain 0 docBadProvide = Except.error Failure.InvalidProvide ∧
    ∃ pi ∈ docBadProvide.getPackages, ∃ v ∈ pi.provides, v.versioned = true ∧ v.rel ≠ ROP_EQ :=
  ⟨rfl, (invalid_provide_only_for_bad_provides Printer.plain 0 docBadProvide).1 rfl⟩

/-- A package that is not installed, carries `keep: version` and has a bad
provides entry: the constructor ends on the assertion `pi.installed()` of
`processEqualityConstraints`, before `processProvides` runs. -/
theorem invalid_provide_counterexample :
    (∃ pi ∈ docKeepBadProvide.getPackages, ∃ v ∈ pi.provides,
      v.versioned = true ∧ v.rel ≠ ROP_EQ) ∧
    KCudfData.create Printer.plain 0 docKeepBadProvide = Except.error Failure.assertion ∧
    KCudfData.create Printer.plain 0 docKeepBadProvide ≠
      Except.error Failure.InvalidProvide :=
  ⟨⟨_, List.mem_singleton.mpr rfl, _, List.mem_singleton.mpr rfl, rfl, by decide⟩, rfl,
    fun h => by cases h⟩

end InvalidProvide

/-! ## The data while the document is read -/

section UniversePasses

theorem Post.pure_post {α : Type} {Q : α → Prop} (a : α) (h : Q a) :
    Post Q (pure a : Except Failure α) :=
  ⟨fun b hb => by cases hb; exact h⟩

theorem Post.throw_post {α : Type} {Q : α → Prop} (e : Failure) :
    Post Q (throw e : Except Failure α) :=
  ⟨fun b hb => by cases hb⟩

theorem Post.trivial {α : Type} (x : Except Failure α) : Post (fun _ => True) x :=
  ⟨fun _ _ => True.intro⟩

theorem Post.mono_post {α : Type} {Q R : α → Prop} {x : Except Failure α} (hx : Post Q x)
    (h : ∀ a, Q a → R a) : Post R x :=
  ⟨fun a ha => h a (hx.out a ha)⟩

theorem Post.bind_post {α β : Type} {Q : α → Prop} {R : β → Prop} {x : Except Failure α}
    {f : α → Except Failure β} (hx : Post Q x) (hf : ∀ a, Q a → Post R (f a)) :
    Post R (x >>= f) := by
  cases x with
  | error e => exact ⟨fun b hb => by cases hb⟩
  | ok a => exact hf a (hx.out a rfl)

theorem Post.foldlM_post {α β : Type} {Q : β → Prop} {f : β → α → Except Failure β}
    (hf : ∀ b a, Q b → Post Q (f b a)) (l : List α) (b : β) (hb : Q b) :
    Post Q (l.foldlM f b) := by
  induction l generalizing b with
  | nil => exact Post.pure_post b hb
  | cons a l ih =>
    rw [List.foldlM_cons]
    exact Post.bind_post (hf b a hb) (fun b1 h1 => ih b1 h1)

theorem obj_eq_ok {d : KCudfData} {p : Nat} {o : Package} (h : d.obj p = Except.ok o) :
    d.heap p = some o := by
  unfold KCudfData.obj at h
  split at h
  · rename_i o1 h1
    cases h
    exact h1
  · cases h

theorem post_obj (d : KCudfData) (p : Nat) :
    Post (fun o => d.heap p = some o) (d.obj p) :=
  ⟨fun _ h => obj_eq_ok h⟩

theorem StdMap.Vals.mono_vals {m : StdMap String (StdMap Int Nat)} {n n1 : Nat}
    (h : StdMap.Vals m n) (hn : n ≤ n1) : StdMap.Vals m n1 := by
  intro e he f hf
  rcases h e he f hf with h4 | h4
  · exact Or.inl h4
  · exact Or.inr (Nat.lt_of_lt_of_le h4 hn)

theorem InvU.put_invU {d : KCudfData} (h : InvU d) {t : Nat} {o o1 : Package}
    (ho : d.heap t = some o) (h1 : o1.id = o.id) (h2 : o1.forwarded = o.forwarded)
    (h3 : o1.flt = o.flt) : InvU (d.put t o1) := by
  obtain ⟨a, b, c⟩ := h
  refine ⟨?_, ?_, c⟩
  · intro p x hx
    by_cases e : p = t
    · subst e
      simp only [KCudfData.put, setAt, if_true, Option.some.injEq] at hx
      subst hx
      rw [h1, h2, h3]
      exact a p o ho
    · simp only [KCudfData.put, setAt, e, if_false] at hx
      exact a p x hx
  · intro k p hk
    obtain ⟨e, x, hx⟩ := b k p hk
    refine ⟨e, ?_⟩
    by_cases e1 : p = t
    · exact ⟨o1, by simp [KCudfData.put, setAt, e1]⟩
    · exact ⟨x, by simp [KCudfData.put, setAt, e1, hx]⟩

theorem invU_addDependency (d : KCudfData) (p q : Nat) (h : InvU d) :
    Post InvU (d.addDependency p q) := by
  unfold KCudfData.addDependency
  refine Post.bind_post (Post.trivial _) (fun t _ => ?_)
  refine Post.bind_post (post_obj d t) (fun o ho => ?_)
  exact Post.pure_post _ (h.put_invU ho rfl rfl rfl)

theorem invU_addConflict (d : KCudfData) (p q : Nat) (h : InvU d) :
    Post InvU (d.addConflict p q) := by
  unfold KCudfData.addConflict
  refine Post.bind_post (Post.trivial _) (fun t _ => ?_)
  refine Post.bind_post (post_obj d t) (fun o ho => ?_)
  exact Post.pure_post _ (h.put_invU ho rfl rfl rfl)

theorem invU_markKeep (d : KCudfData) (p : Nat) (st : Bool) (h : InvU d) :
    Post InvU (d.markKeep p st) := by
  unfold KCudfData.markKeep
  refine Post.bind_post (Post.trivial _) (fun t _ => ?_)
  refine Post.bind_post (post_obj d t) (fun o ho => ?_)
  exact Post.pure_post _ (h.put_invU ho rfl rfl rfl)

theorem invU_markInstall (d : KCudfData) (p : Nat) (st : Bool) (h : InvU d) :
    Post InvU (d.markInstall p st) := by
  unfold KCudfData.markInstall
  refine Post.bind_post (Post.trivial _) (fun t _ => ?_)
  refine Post.bind_post (post_obj d t) (fun o ho => ?_)
  split
  · split
    · exact Post.throw_post _
    · exact Post.pure_post _ (h.put_invU ho rfl rfl rfl)
  · exact Post.pure_post _ h

theorem invU_addProvider (d : KCudfData) (p q : Nat) (h : InvU d) :
    Post InvU (d.addProvider p q) := by
  unfold KCudfData.addProvider
  refine Post.bind_post (post_obj d p) (fun o ho => ?_)
  split
  · exact Post.throw_post _
  · split
    · exact Post.throw_post _
    · exact Post.pure_post _ (h.put_invU ho rfl rfl rfl)

theorem invU_addBut (d : KCudfData) (p q : Nat) (h : InvU d) :
    Post InvU (d.addBut p q) := by
  unfold KCudfData.addBut
  refine Post.bind_post (post_obj d p) (fun o ho => ?_)
  exact Post.pure_post _ (h.put_invU ho rfl rfl rfl)

theorem InvU.fresh_invU {d : KCudfData} (h : InvU d) (o : Package) (h1 : o.id = d.next_id)
    (h2 : o.forwarded = false) (h3 : o.flt = false) :
    InvU { d with next_id := d.next_id + 1, heap := setAt d.heap d.next_id (some o) } := by
  obtain ⟨a, b, c⟩ := h
  refine ⟨?_, ?_, ?_⟩
  · intro p x hx
    by_cases e : p = d.next_id
    · subst e
      simp only [setAt, if_true, Option.some.injEq] at hx
      subst hx
      exact ⟨h1, Nat.lt_succ_self _, h2, h3⟩
    · simp only [setAt, e, if_false] at hx
      obtain ⟨x1, x2, x3⟩ := a p x hx
      exact ⟨x1, Nat.lt_succ_of_lt x2, x3⟩
  · intro k p hk
    obtain ⟨e, x, hx⟩ := b k p hk
    refine ⟨e, x, ?_⟩
    have := (a p x hx).2.1
    simp only [setAt, Nat.ne_of_lt this, if_false]
    exact hx
  · exact ⟨c.1.mono_vals (Nat.le_succ _), c.2.mono_vals (Nat.le_succ _)⟩

theorem invU_newSelfPackage (d : KCudfData) (name : String) (inst : Bool) (v : Int)
    (h : InvU d) : Post (fun r => InvU r.2) (d.newSelfPackage name inst v) := by
  unfold KCudfData.newSelfPackage
  split
  · exact Post.throw_post _
  · exact Post.pure_post _ (h.fresh_invU _ rfl rfl rfl)

theorem invU_newDisjunctionObject (d : KCudfData) (v : Int) (h : InvU d) :
    InvU (d.newDisjunctionObject v).2 :=
  h.fresh_invU _ rfl rfl rfl

theorem StdMap.mem_set {κ ν : Type} [DecidableEq κ] [Key κ] (m : StdMap κ ν) (k : κ) (v : ν)
    (e : κ × ν) (h : e ∈ StdMap.set m k v) : e = (k, v) ∨ e ∈ m := by
  induction m with
  | nil =>
    simp only [StdMap.set, List.mem_singleton] at h
    exact Or.inl h
  | cons a rest ih =>
    obtain ⟨k1, v1⟩ := a
    unfold StdMap.set at h
    split at h
    · rcases List.mem_cons.mp h with e1 | e1
      · exact Or.inl e1
      · exact Or.inr (List.mem_cons_of_mem _ e1)
    · split at h
      · rcases List.mem_cons.mp h with e1 | e1
        · exact Or.inl e1
        · exact Or.inr e1
      · rcases List.mem_cons.mp h with e1 | e1
        · exact Or.inr (e1 ▸ List.mem_cons_self _ _)
        · rcases ih e1 with e2 | e2
          · exact Or.inl e2
          · exact Or.inr (List.mem_cons_of_mem _ e2)

/-- The identifier of an object while nothing is forwarded. -/
theorem InvU.getId_invU {d : KCudfData} (h : InvU d) (p : Nat) :
    Post (fun k => k = p ∧ ∃ o, d.heap p = some o) (d.getId p) := by
  unfold KCudfData.getId KCudfData.target KCudfData.targetFrom
  refine Post.bind_post (Q := fun t => t = p ∧ ∃ o, d.heap p = some o) ?_ ?_
  · refine Post.bind_post (post_obj d p) (fun o ho => ?_)
    rw [(h.1 p o ho).2.2.1]
    exact Post.pure_post _ ⟨rfl, o, ho⟩
  · rintro t ⟨rfl, o, ho⟩
    refine Post.bind_post (post_obj d t) (fun o1 ho1 => ?_)
    rw [ho] at ho1
    cases ho1
    exact Post.pure_post _ ⟨(h.1 t o ho).1, o, ho⟩

theorem invU_register (d : KCudfData) (p : Nat) (h : InvU d) :
    Post InvU (d.register p) := by
  unfold KCudfData.register
  refine Post.bind_post (h.getId_invU p) ?_
  rintro k ⟨rfl, o, ho⟩
  refine Post.pure_post _ ⟨h.1, ?_, h.2.2⟩
  intro k1 p1 h1
  rcases StdMap.mem_set _ _ _ _ h1 with e | e
  · cases e
    exact ⟨rfl, o, ho⟩
  · exact h.2.1 k1 p1 e

theorem StdMap.mem_of_find {κ ν : Type} [DecidableEq κ] (m : StdMap κ ν) (k : κ) (v : ν)
    (h : StdMap.find m k = some v) : (k, v) ∈ m := by
  unfold StdMap.find at h
  cases hf : List.find? (fun e => decide (e.1 = k)) m with
  | none => simp [hf] at h
  | some e =>
    simp only [hf, Option.map_some', Option.some.injEq] at h
    have h1 := List.find?_some hf
    have h2 := List.mem_of_find?_eq_some hf
    simp only [decide_eq_true_eq] at h1
    obtain ⟨a, b⟩ := e
    simp only at h h1
    subst h h1
    exact h2

/-- The members of the map a read `m[k]` leaves. -/
theorem StdMap.mem_index {κ ν : Type} [DecidableEq κ] [Key κ] (m : StdMap κ ν) (k : κ)
    (dflt : ν) (e : κ × ν) (h : e ∈ (StdMap.index m k dflt).2) : e = (k, dflt) ∨ e ∈ m := by
  unfold StdMap.index at h
  split at h
  · exact Or.inr h
  · exact StdMap.mem_set _ _ _ _ h

/-- The value a read `m[k]` returns. -/
theorem StdMap.index_fst {κ ν : Type} [DecidableEq κ] [Key κ] (m : StdMap κ ν) (k : κ)
    (dflt : ν) : (StdMap.index m k dflt).1 = dflt ∨ (k, (StdMap.index m k dflt).1) ∈ m := by
  unfold StdMap.index
  split
  · rename_i v hv
    exact Or.inr (StdMap.mem_of_find _ _ _ hv)
  · exact Or.inl rfl

theorem StdMap.Vals.index2 {m : StdMap String (StdMap Int Nat)} {n : Nat} (h : StdMap.Vals m n)
    (name : String) (version : Int) :
    StdMap.Vals (StdMap.set (StdMap.index m name []).2 name
      (StdMap.index (StdMap.index m name []).1 version 0).2) n := by
  intro e he f hf
  rcases StdMap.mem_set _ _ _ _ he with e1 | e1
  · subst e1
    rcases StdMap.mem_index _ _ _ _ hf with e2 | e2
    · subst e2
      exact Or.inl rfl
    · rcases StdMap.index_fst m name [] with e3 | e3
      · rw [e3] at e2
        cases e2
      · exact h _ e3 f e2
  · rcases StdMap.mem_index _ _ _ _ e1 with e2 | e2
    · subst e2
      cases hf
    · exact h e e2 f hf

theorem StdMap.Vals.set2 {m : StdMap String (StdMap Int Nat)} {n : Nat} (h : StdMap.Vals m n)
    (name : String) (version : Int) (k : Nat) (hk : k < n) :
    StdMap.Vals (StdMap.set m name
      (StdMap.set ((StdMap.find m name).getD []) version k)) n := by
  intro e he f hf
  rcases StdMap.mem_set _ _ _ _ he with e1 | e1
  · subst e1
    rcases StdMap.mem_set _ _ _ _ hf with e2 | e2
    · subst e2
      exact Or.inr hk
    · cases hm : StdMap.find m name with
      | none =>
        rw [hm] at e2
        cases e2
      | some m1 =>
        rw [hm] at e2
        exact h _ (StdMap.mem_of_find _ _ _ hm) f e2
  · exact h e e1 f hf

theorem StdMap.Vals.index {m : StdMap String (StdMap Int Nat)} {n : Nat} (h : StdMap.Vals m n)
    (name : String) : StdMap.Vals (StdMap.index m name []).2 n := by
  intro e he f hf
  rcases StdMap.mem_index _ _ _ _ he with e2 | e2
  · subst e2
    cases hf
  · exact h e e2 f hf

theorem KCudfData.ValsBelow.specvAt {d : KCudfData} {n : Nat} (h : d.ValsBelow n)
    (name : String) (version : Int) : (d.specvAt name version).2.ValsBelow n :=
  ⟨h.1.index2 name version, h.2⟩

theorem KCudfData.ValsBelow.concreteAt {d : KCudfData} {n : Nat} (h : d.ValsBelow n)
    (name : String) (version : Int) : (d.concreteAt name version).2.ValsBelow n :=
  ⟨h.1, h.2.index2 name version⟩

theorem KCudfData.ValsBelow.indexConcrete {d : KCudfData} {n : Nat} (h : d.ValsBelow n)
    (name : String) :
    KCudfData.ValsBelow { d with concrete := (StdMap.index d.concrete name []).2 } n :=
  ⟨h.1, h.2.index name⟩

theorem InvU.specvAt_invU {d : KCudfData} (h : InvU d) (name : String) (version : Int) :
    InvU (d.specvAt name version).2 :=
  ⟨h.1, h.2.1, h.2.2.specvAt name version⟩

theorem InvU.concreteAt_invU {d : KCudfData} (h : InvU d) (name : String) (version : Int) :
    InvU (d.concreteAt name version).2 :=
  ⟨h.1, h.2.1, h.2.2.concreteAt name version⟩

theorem InvU.specvSet {d : KCudfData} (h : InvU d) (name : String) (version : Int) (k : Nat)
    (hk : k < d.next_id) : InvU (d.specvSet name version k) :=
  ⟨h.1, h.2.1, h.2.2.1.set2 name version k hk, h.2.2.2⟩

theorem InvU.concreteSet {d : KCudfData} (h : InvU d) (name : String) (version : Int) (k : Nat)
    (hk : k < d.next_id) : InvU (d.concreteSet name version k) :=
  ⟨h.1, h.2.1, h.2.2.1, h.2.2.2.set2 name version k hk⟩

/-- The identifier `getId` returns is that of an object. -/
theorem InvU.getId_lt {d : KCudfData} (h : InvU d) (p : Nat) :
    Post (fun k => k < d.next_id) (d.getId p) := by
  refine Post.mono_post (h.getId_invU p) ?_
  rintro k ⟨rfl, o, ho⟩
  exact (h.1 k o ho).2.1

theorem invU_newDisjunction (d : KCudfData) (s : String) (h : InvU d) :
    Post (fun r => InvU r.2) (d.newDisjunction s) := by
  unfold KCudfData.newDisjunction
  try simp only [KCudfData.newDisjunctionObject, KCudfData.specvAt, KCudfData.concreteAt]
  repeat (first
    | assumption
    | exact InvU.fresh_invU (by assumption) _ rfl rfl rfl
    | exact InvU.specvAt_invU (by assumption) _ _
    | exact InvU.concreteAt_invU (by assumption) _ _
    | exact InvU.specvAt_invU (InvU.concreteAt_invU (by assumption) _ _) _ _
    | exact InvU.specvSet (by assumption) _ _ _ (by assumption)
    | exact InvU.concreteSet (by assumption) _ _ _ (by assumption)
    | exact Post.throw_post _
    | (apply Post.pure_post; first | assumption | exact InvU.fresh_invU (by assumption) _ rfl rfl rfl | exact InvU.specvAt_invU (by assumption) _ _ | exact InvU.concreteAt_invU (by assumption) _ _ | exact InvU.specvAt_invU (InvU.concreteAt_invU (by assumption) _ _) _ _ | exact InvU.specvSet (by assumption) _ _ _ (by assumption) | exact InvU.concreteSet (by assumption) _ _ _ (by assumption))
    | (apply invU_register; first | assumption | exact InvU.fresh_invU (by assumption) _ rfl rfl rfl | exact InvU.specvAt_invU (by assumption) _ _ | exact InvU.concreteAt_invU (by assumption) _ _ | exact InvU.specvAt_invU (InvU.concreteAt_invU (by assumption) _ _) _ _ | exact InvU.specvSet (by assumption) _ _ _ (by assumption) | exact InvU.concreteSet (by assumption) _ _ _ (by assumption))
    | with_reducible apply Post.foldlM_post (Q := InvU)
    | exact Post.trivial _
    | (refine Post.bind_post (InvU.getId_lt (by assumption) _) ?_)
    | with_reducible apply Post.bind_post (Q := InvU)
    | with_reducible apply Post.bind_post (Q := fun (r : Nat × KCudfData) => InvU r.2)
    | with_reducible apply Post.bind_post (Q := fun _ => True)
    | intro _
    | split)

theorem invU_getDisjunction (d : KCudfData) (name : String) (h : InvU d) :
    Post (fun r => InvU r.2) (d.getDisjunction name) := by
  unfold KCudfData.getDisjunction
  try simp only [KCudfData.newDisjunctionObject, KCudfData.specvAt, KCudfData.concreteAt]
  repeat (first
    | assumption
    | exact InvU.fresh_invU (by assumption) _ rfl rfl rfl
    | exact InvU.specvAt_invU (by assumption) _ _
    | exact InvU.concreteAt_invU (by assumption) _ _
    | exact InvU.specvAt_invU (InvU.concreteAt_invU (by assumption) _ _) _ _
    | exact InvU.specvSet (by assumption) _ _ _ (by assumption)
    | exact InvU.concreteSet (by assumption) _ _ _ (by assumption)
    | exact Post.throw_post _
    | (apply Post.pure_post; first | assumption | exact InvU.fresh_invU (by assumption) _ rfl rfl rfl | exact InvU.specvAt_invU (by assumption) _ _ | exact InvU.concreteAt_invU (by assumption) _ _ | exact InvU.specvAt_invU (InvU.concreteAt_invU (by assumption) _ _) _ _ | exact InvU.specvSet (by assumption) _ _ _ (by assumption) | exact InvU.concreteSet (by assumption) _ _ _ (by assumption))
    | (apply invU_newDisjunction; first | assumption | exact InvU.fresh_invU (by assumption) _ rfl rfl rfl | exact InvU.specvAt_invU (by assumption) _ _ | exact InvU.concreteAt_invU (by assumption) _ _ | exact InvU.specvAt_invU (InvU.concreteAt_invU (by assumption) _ _) _ _ | exact InvU.specvSet (by assumption) _ _ _ (by assumption) | exact InvU.concreteSet (by assumption) _ _ _ (by assumption))
    | with_reducible apply Post.foldlM_post (Q := InvU)
    | exact Post.trivial _
    | (refine Post.bind_post (InvU.getId_lt (by assumption) _) ?_)
    | with_reducible apply Post.bind_post (Q := InvU)
    | with_reducible apply Post.bind_post (Q := fun (r : Nat × KCudfData) => InvU r.2)
    | with_reducible apply Post.bind_post (Q := fun _ => True)
    | intro _
    | split)

theorem invU_addDisjunction (d : KCudfData) (name : String) (version : Int) (h : InvU d) :
    Post (fun r => InvU r.2) (d.addDisjunction name version) := by
  unfold KCudfData.addDisjunction
  try simp only [KCudfData.newDisjunctionObject, KCudfData.specvAt, KCudfData.concreteAt]
  repeat (first
    | assumption
    | exact InvU.fresh_invU (by assumption) _ rfl rfl rfl
    | exact InvU.specvAt_invU (by assumption) _ _
    | exact InvU.concreteAt_invU (by assumption) _ _
    | exact InvU.specvAt_invU (InvU.concreteAt_invU (by assumption) _ _) _ _
    | exact InvU.specvSet (by assumption) _ _ _ (by assumption)
    | exact InvU.concreteSet (by assumption) _ _ _ (by assumption)
    | exact Post.throw_post _
    | (apply Post.pure_post; first | assumption | exact InvU.fresh_invU (by assumption) _ rfl rfl rfl | exact InvU.specvAt_invU (by assumption) _ _ | exact InvU.concreteAt_invU (by assumption) _ _ | exact InvU.specvAt_invU (InvU.concreteAt_invU (by assumption) _ _) _ _ | exact InvU.specvSet (by assumption) _ _ _ (by assumption) | exact InvU.concreteSet (by assumption) _ _ _ (by assumption))
    | (apply invU_register; first | assumption | exact InvU.fresh_invU (by assumption) _ rfl rfl rfl | exact InvU.specvAt_invU (by assumption) _ _ | exact InvU.concreteAt_invU (by assumption) _ _ | exact InvU.specvAt_invU (InvU.concreteAt_invU (by assumption) _ _) _ _ | exact InvU.specvSet (by assumption) _ _ _ (by assumption) | exact InvU.concreteSet (by assumption) _ _ _ (by assumption))
    | with_reducible apply Post.foldlM_post (Q := InvU)
    | exact Post.trivial _
    | (refine Post.bind_post (InvU.getId_lt (by assumption) _) ?_)
    | with_reducible apply Post.bind_post (Q := InvU)
    | with_reducible apply Post.bind_post (Q := fun (r : Nat × KCudfData) => InvU r.2)
    | with_reducible apply Post.bind_post (Q := fun _ => True)
    | intro _
    | split)

theorem invU_addDepDisjunction (d : KCudfData) (name : String) (version : Int) (h : InvU d) :
    Post (fun r => InvU r.2) (d.addDepDisjunction name version) := by
  unfold KCudfData.addDepDisjunction
  try simp only [KCudfData.newDisjunctionObject, KCudfData.specvAt, KCudfData.concreteAt]
  repeat (first
    | assumption
    | exact InvU.fresh_invU (by assumption) _ rfl rfl rfl
    | exact InvU.specvAt_invU (by assumption) _ _
    | exact InvU.concreteAt_invU (by assumption) _ _
    | exact InvU.specvAt_invU (InvU.concreteAt_invU (by assumption) _ _) _ _
    | exact InvU.specvSet (by assumption) _ _ _ (by assumption)
    | exact InvU.concreteSet (by assumption) _ _ _ (by assumption)
    | exact Post.throw_post _
    | (apply Post.pure_post; first | assumption | exact InvU.fresh_invU (by assumption) _ rfl rfl rfl | exact InvU.specvAt_invU (by assumption) _ _ | exact InvU.concreteAt_invU (by assumption) _ _ | exact InvU.specvAt_invU (InvU.concreteAt_invU (by assumption) _ _) _ _ | exact InvU.specvSet (by assumption) _ _ _ (by assumption) | exact InvU.concreteSet (by assumption) _ _ _ (by assumption))
    | (apply invU_addProvider; first | assumption | exact InvU.fresh_invU (by assumption) _ rfl rfl rfl | exact InvU.specvAt_invU (by assumption) _ _ | exact InvU.concreteAt_invU (by assumption) _ _ | exact InvU.specvAt_invU (InvU.concreteAt_invU (by assumption) _ _) _ _ | exact InvU.specvSet (by assumption) _ _ _ (by assumption) | exact InvU.concreteSet (by assumption) _ _ _ (by assumption))
    | (apply invU_register; first | assumption | exact InvU.fresh_invU (by assumption) _ rfl rfl rfl | exact InvU.specvAt_invU (by assumption) _ _ | exact InvU.concreteAt_invU (by assumption) _ _ | exact InvU.specvAt_invU (InvU.concreteAt_invU (by assumption) _ _) _ _ | exact InvU.specvSet (by assumption) _ _ _ (by assumption) | exact InvU.concreteSet (by assumption) _ _ _ (by assumption))
    | (apply invU_getDisjunction; first | assumption | exact InvU.fresh_invU (by assumption) _ rfl rfl rfl | exact InvU.specvAt_invU (by assumption) _ _ | exact InvU.concreteAt_invU (by assumption) _ _ | exact InvU.specvAt_invU (InvU.concreteAt_invU (by assumption) _ _) _ _ | exact InvU.specvSet (by assumption) _ _ _ (by assumption) | exact InvU.concreteSet (by assumption) _ _ _ (by assumption))
    | with_reducible apply Post.foldlM_post (Q := InvU)
    | exact Post.trivial _
    | (refine Post.bind_post (InvU.getId_lt (by assumption) _) ?_)
    | with_reducible apply Post.bind_post (Q := InvU)
    | with_reducible apply Post.bind_post (Q := fun (r : Nat × KCudfData) => InvU r.2)
    | with_reducible apply Post.bind_post (Q := fun _ => True)
    | intro _
    | split)

theorem invU_getDepDisjunction (pr : Printer) (d : KCudfData) (cs : Vpkg) (h : InvU d) :
    Post (fun r => InvU r.2) (KCudfData.getDepDisjunction pr d cs) := by
  unfold KCudfData.getDepDisjunction
  try simp only [KCudfData.newDisjunctionObject, KCudfData.specvAt, KCudfData.concreteAt]
  repeat (first
    | assumption
    | exact InvU.fresh_invU (by assumption) _ rfl rfl rfl
    | exact InvU.specvAt_invU (by assumption) _ _
    | exact InvU.concreteAt_invU (by assumption) _ _
    | exact InvU.specvAt_invU (InvU.concreteAt_invU (by assumption) _ _) _ _
    | exact InvU.specvSet (by assumption) _ _ _ (by assumption)
    | exact InvU.concreteSet (by assumption) _ _ _ (by assumption)
    | exact Post.throw_post _
    | (apply Post.pure_post; first | assumption | exact InvU.fresh_invU (by assumption) _ rfl rfl rfl | exact InvU.specvAt_invU (by assumption) _ _ | exact InvU.concreteAt_invU (by assumption) _ _ | exact InvU.specvAt_invU (InvU.concreteAt_invU (by assumption) _ _) _ _ | exact InvU.specvSet (by assumption) _ _ _ (by assumption) | exact InvU.concreteSet (by assumption) _ _ _ (by assumption))
    | (apply invU_addProvider; first | assumption | exact InvU.fresh_invU (by assumption) _ rfl rfl rfl | exact InvU.specvAt_invU (by assumption) _ _ | exact InvU.concreteAt_invU (by assumption) _ _ | exact InvU.specvAt_invU (InvU.concreteAt_invU (by assumption) _ _) _ _ | exact InvU.specvSet (by assumption) _ _ _ (by assumption) | exact InvU.concreteSet (by assumption) _ _ _ (by assumption))
    | (apply invU_newDisjunction; first | assumption | exact InvU.fresh_invU (by assumption) _ rfl rfl rfl | exact InvU.specvAt_invU (by assumption) _ _ | exact InvU.concreteAt_invU (by assumption) _ _ | exact InvU.specvAt_invU (InvU.concreteAt_invU (by assumption) _ _) _ _ | exact InvU.specvSet (by assumption) _ _ _ (by assumption) | exact InvU.concreteSet (by assumption) _ _ _ (by assumption))
    | with_reducible apply Post.foldlM_post (Q := InvU)
    | exact Post.trivial _
    | (refine Post.bind_post (InvU.getId_lt (by assumption) _) ?_)
    | with_reducible apply Post.bind_post (Q := InvU)
    | with_reducible apply Post.bind_post (Q := fun (r : Nat × KCudfData) => InvU r.2)
    | with_reducible apply Post.bind_post (Q := fun _ => True)
    | intro _
    | split)

theorem invU_getDisjunctionOf (pr : Printer) (d : KCudfData) (cs : Vpkg) (h : InvU d) :
    Post (fun r => InvU r.2) (KCudfData.getDisjunctionOf pr d cs) := by
  unfold KCudfData.getDisjunctionOf
  try simp only [KCudfData.newDisjunctionObject, KCudfData.specvAt, KCudfData.concreteAt]
  repeat (first
    | assumption
    | exact InvU.fresh_invU (by assumption) _ rfl rfl rfl
    | exact InvU.specvAt_invU (by assumption) _ _
    | exact InvU.concreteAt_invU (by assumption) _ _
    | exact InvU.specvAt_invU (InvU.concreteAt_invU (by assumption) _ _) _ _
    | exact InvU.specvSet (by assumption) _ _ _ (by assumption)
    | exact InvU.concreteSet (by assumption) _ _ _ (by assumption)
    | exact Post.throw_post _
    | (apply Post.pure_post; first | assumption | exact InvU.fresh_invU (by assumption) _ rfl rfl rfl | exact InvU.specvAt_invU (by assumption) _ _ | exact InvU.concreteAt_invU (by assumption) _ _ | exact InvU.specvAt_invU (InvU.concreteAt_invU (by assumption) _ _) _ _ | exact InvU.specvSet (by assumption) _ _ _ (by assumption) | exact InvU.concreteSet (by assumption) _ _ _ (by assumption))
    | (apply invU_addProvider; first | assumption | exact InvU.fresh_invU (by assumption) _ rfl rfl rfl | exact InvU.specvAt_invU (by assumption) _ _ | exact InvU.concreteAt_invU (by assumption) _ _ | exact InvU.specvAt_invU (InvU.concreteAt_invU (by assumption) _ _) _ _ | exact InvU.specvSet (by assumption) _ _ _ (by assumption) | exact InvU.concreteSet (by assumption) _ _ _ (by assumption))
    | (apply invU_newDisjunction; first | assumption | exact InvU.fresh_invU (by assumption) _ rfl rfl rfl | exact InvU.specvAt_invU (by assumption) _ _ | exact InvU.concreteAt_invU (by assumption) _ _ | exact InvU.specvAt_invU (InvU.concreteAt_invU (by assumption) _ _) _ _ | exact InvU.specvSet (by assumption) _ _ _ (by assumption) | exact InvU.concreteSet (by assumption) _ _ _ (by assumption))
    | with_reducible apply Post.foldlM_post (Q := InvU)
    | exact Post.trivial _
    | (refine Post.bind_post (InvU.getId_lt (by assumption) _) ?_)
    | with_reducible apply Post.bind_post (Q := InvU)
    | with_reducible apply Post.bind_post (Q := fun (r : Nat × KCudfData) => InvU r.2)
    | with_reducible apply Post.bind_post (Q := fun _ => True)
    | intro _
    | split)

set_option maxRecDepth 10000 in
theorem invU_processConcretePackage (d : KCudfData) (pi : CudfPackage) (h : InvU d) :
    Post InvU (d.processConcretePackage pi) := by
  unfold KCudfData.processConcretePackage
  try simp only [KCudfData.newDisjunctionObject, KCudfData.specvAt, KCudfData.concreteAt]
  repeat (first
    | assumption
    | exact InvU.fresh_invU (by assumption) _ rfl rfl rfl
    | exact InvU.specvAt_invU (by assumption) _ _
    | exact InvU.concreteAt_invU (by assumption) _ _
    | exact InvU.specvAt_invU (InvU.concreteAt_invU (by assumption) _ _) _ _
    | exact InvU.specvSet (by assumption) _ _ _ (by assumption)
    | exact InvU.concreteSet (by assumption) _ _ _ (by assumption)
    | exact Post.throw_post _
    | (apply Post.pure_post; first | assumption | exact InvU.fresh_invU (by assumption) _ rfl rfl rfl | exact InvU.specvAt_invU (by assumption) _ _ | exact InvU.concreteAt_invU (by assumption) _ _ | exact InvU.specvAt_invU (InvU.concreteAt_invU (by assumption) _ _) _ _ | exact InvU.specvSet (by assumption) _ _ _ (by assumption) | exact InvU.concreteSet (by assumption) _ _ _ (by assumption))
    | (apply invU_addDependency; first | assumption | exact InvU.fresh_invU (by assumption) _ rfl rfl rfl | exact InvU.specvAt_invU (by assumption) _ _ | exact InvU.concreteAt_invU (by assumption) _ _ | exact InvU.specvAt_invU (InvU.concreteAt_invU (by assumption) _ _) _ _ | exact InvU.specvSet (by assumption) _ _ _ (by assumption) | exact InvU.concreteSet (by assumption) _ _ _ (by assumption))
    | (apply invU_addProvider; first | assumption | exact InvU.fresh_invU (by assumption) _ rfl rfl rfl | exact InvU.specvAt_invU (by assumption) _ _ | exact InvU.concreteAt_invU (by assumption) _ _ | exact InvU.specvAt_invU (InvU.concreteAt_invU (by assumption) _ _) _ _ | exact InvU.specvSet (by assumption) _ _ _ (by assumption) | exact InvU.concreteSet (by assumption) _ _ _ (by assumption))
    | (apply invU_newSelfPackage; first | assumption | exact InvU.fresh_invU (by assumption) _ rfl rfl rfl | exact InvU.specvAt_invU (by assumption) _ _ | exact InvU.concreteAt_invU (by assumption) _ _ | exact InvU.specvAt_invU (InvU.concreteAt_invU (by assumption) _ _) _ _ | exact InvU.specvSet (by assumption) _ _ _ (by assumption) | exact InvU.concreteSet (by assumption) _ _ _ (by assumption))
    | (apply invU_register; first | assumption | exact InvU.fresh_invU (by assumption) _ rfl rfl rfl | exact InvU.specvAt_invU (by assumption) _ _ | exact InvU.concreteAt_invU (by assumption) _ _ | exact InvU.specvAt_invU (InvU.concreteAt_invU (by assumption) _ _) _ _ | exact InvU.specvSet (by assumption) _ _ _ (by assumption) | exact InvU.concreteSet (by assumption) _ _ _ (by assumption))
    | (apply invU_getDisjunction; first | assumption | exact InvU.fresh_invU (by assumption) _ rfl rfl rfl | exact InvU.specvAt_invU (by assumption) _ _ | exact InvU.concreteAt_invU (by assumption) _ _ | exact InvU.specvAt_invU (InvU.concreteAt_invU (by assumption) _ _) _ _ | exact InvU.specvSet (by assumption) _ _ _ (by assumption) | exact InvU.concreteSet (by assumption) _ _ _ (by assumption))
    | with_reducible apply Post.foldlM_post (Q := InvU)
    | exact Post.trivial _
    | (refine Post.bind_post (InvU.getId_lt (by assumption) _) ?_)
    | with_reducible apply Post.bind_post (Q := InvU)
    | with_reducible apply Post.bind_post (Q := fun (r : Nat × KCudfData) => InvU r.2)
    | with_reducible apply Post.bind_post (Q := fun _ => True)
    | intro _
    | split)

theorem invU_processConcretePackages (d : KCudfData) (doc : CudfDoc) (h : InvU d) :
    Post InvU (d.processConcretePackages doc) := by
  unfold KCudfData.processConcretePackages
  try simp only [KCudfData.newDisjunctionObject, KCudfData.specvAt, KCudfData.concreteAt]
  repeat (first
    | assumption
    | exact InvU.fresh_invU (by assumption) _ rfl rfl rfl
    | exact InvU.specvAt_invU (by assumption) _ _
    | exact InvU.concreteAt_invU (by assumption) _ _
    | exact InvU.specvAt_invU (InvU.concreteAt_invU (by assumption) _ _) _ _
    | exact InvU.specvSet (by assumption) _ _ _ (by assumption)
    | exact InvU.concreteSet (by assumption) _ _ _ (by assumption)
    | exact Post.throw_post _
    | (apply Post.pure_post; first | assumption | exact InvU.fresh_invU (by assumption) _ rfl rfl rfl | exact InvU.specvAt_invU (by assumption) _ _ | exact InvU.concreteAt_invU (by assumption) _ _ | exact InvU.specvAt_invU (InvU.concreteAt_invU (by assumption) _ _) _ _ | exact InvU.specvSet (by assumption) _ _ _ (by assumption) | exact InvU.concreteSet (by assumption) _ _ _ (by assumption))
    | (apply invU_processConcretePackage; first | assumption | exact InvU.fresh_invU (by assumption) _ rfl rfl rfl | exact InvU.specvAt_invU (by assumption) _ _ | exact InvU.concreteAt_invU (by assumption) _ _ | exact InvU.specvAt_invU (InvU.concreteAt_invU (by assumption) _ _) _ _ | exact InvU.specvSet (by assumption) _ _ _ (by assumption) | exact InvU.concreteSet (by assumption) _ _ _ (by assumption))
    | with_reducible apply Post.foldlM_post (Q := InvU)
    | exact Post.trivial _
    | (refine Post.bind_post (InvU.getId_lt (by assumption) _) ?_)
    | with_reducible apply Post.bind_post (Q := InvU)
    | with_reducible apply Post.bind_post (Q := fun (r : Nat × KCudfData) => InvU r.2)
    | with_reducible apply Post.bind_post (Q := fun _ => True)
    | intro _
    | split)

theorem invU_processInstalledPackage (d : KCudfData) (pi : CudfPackage) (h : InvU d) :
    Post InvU (d.processInstalledPackage pi) := by
  unfold KCudfData.processInstalledPackage
  try simp only [KCudfData.newDisjunctionObject, KCudfData.specvAt, KCudfData.concreteAt]
  repeat (first
    | assumption
    | exact InvU.fresh_invU (by assumption) _ rfl rfl rfl
    | exact InvU.specvAt_invU (by assumption) _ _
    | exact InvU.concreteAt_invU (by assumption) _ _
    | exact InvU.specvAt_invU (InvU.concreteAt_invU (by assumption) _ _) _ _
    | exact InvU.specvSet (by assumption) _ _ _ (by assumption)
    | exact InvU.concreteSet (by assumption) _ _ _ (by assumption)
    | exact Post.throw_post _
    | (apply Post.pure_post; first | assumption | exact InvU.fresh_invU (by assumption) _ rfl rfl rfl | exact InvU.specvAt_invU (by assumption) _ _ | exact InvU.concreteAt_invU (by assumption) _ _ | exact InvU.specvAt_invU (InvU.concreteAt_invU (by assumption) _ _) _ _ | exact InvU.specvSet (by assumption) _ _ _ (by assumption) | exact InvU.concreteSet (by assumption) _ _ _ (by assumption))
    | (apply invU_addDependency; first | assumption | exact InvU.fresh_invU (by assumption) _ rfl rfl rfl | exact InvU.specvAt_invU (by assumption) _ _ | exact InvU.concreteAt_invU (by assumption) _ _ | exact InvU.specvAt_invU (InvU.concreteAt_invU (by assumption) _ _) _ _ | exact InvU.specvSet (by assumption) _ _ _ (by assumption) | exact InvU.concreteSet (by assumption) _ _ _ (by assumption))
    | (apply invU_addProvider; first | assumption | exact InvU.fresh_invU (by assumption) _ rfl rfl rfl | exact InvU.specvAt_invU (by assumption) _ _ | exact InvU.concreteAt_invU (by assumption) _ _ | exact InvU.specvAt_invU (InvU.concreteAt_invU (by assumption) _ _) _ _ | exact InvU.specvSet (by assumption) _ _ _ (by assumption) | exact InvU.concreteSet (by assumption) _ _ _ (by assumption))
    | with_reducible apply Post.foldlM_post (Q := InvU)
    | exact Post.trivial _
    | (refine Post.bind_post (InvU.getId_lt (by assumption) _) ?_)
    | with_reducible apply Post.bind_post (Q := InvU)
    | with_reducible apply Post.bind_post (Q := fun (r : Nat × KCudfData) => InvU r.2)
    | with_reducible apply Post.bind_post (Q := fun _ => True)
    | intro _
    | split)

theorem invU_processInstalledPackages (d : KCudfData) (doc : CudfDoc) (h : InvU d) :
    Post InvU (d.processInstalledPackages doc) := by
  unfold KCudfData.processInstalledPackages
  try simp only [KCudfData.newDisjunctionObject, KCudfData.specvAt, KCudfData.concreteAt]
  repeat (first
    | assumption
    | exact InvU.fresh_invU (by assumption) _ rfl rfl rfl
    | exact InvU.specvAt_invU (by assumption) _ _
    | exact InvU.concreteAt_invU (by assumption) _ _
    | exact InvU.specvAt_invU (InvU.concreteAt_invU (by assumption) _ _) _ _
    | exact InvU.specvSet (by assumption) _ _ _ (by assumption)
    | exact InvU.concreteSet (by assumption) _ _ _ (by assumption)
    | exact Post.throw_post _
    | (apply Post.pure_post; first | assumption | exact InvU.fresh_invU (by assumption) _ rfl rfl rfl | exact InvU.specvAt_invU (by assumption) _ _ | exact InvU.concreteAt_invU (by assumption) _ _ | exact InvU.specvAt_invU (InvU.concreteAt_invU (by assumption) _ _) _ _ | exact InvU.specvSet (by assumption) _ _ _ (by assumption) | exact InvU.concreteSet (by assumption) _ _ _ (by assumption))
    | (apply invU_processInstalledPackage; first | assumption | exact InvU.fresh_invU (by assumption) _ rfl rfl rfl | exact InvU.specvAt_invU (by assumption) _ _ | exact InvU.concreteAt_invU (by assumption) _ _ | exact InvU.specvAt_invU (InvU.concreteAt_invU (by assumption) _ _) _ _ | exact InvU.specvSet (by assumption) _ _ _ (by assumption) | exact InvU.concreteSet (by assumption) _ _ _ (by assumption))
    | with_reducible apply Post.foldlM_post (Q := InvU)
    | exact Post.trivial _
    | (refine Post.bind_post (InvU.getId_lt (by assumption) _) ?_)
    | with_reducible apply Post.bind_post (Q := InvU)
    | with_reducible apply Post.bind_post (Q := fun (r : Nat × KCudfData) => InvU r.2)
    | with_reducible apply Post.bind_post (Q := fun _ => True)
    | intro _
    | split)

set_option maxRecDepth 10000 in
theorem invU_processEqualityPackage (d : KCudfData) (pi : CudfPackage) (h : InvU d) :
    Post InvU (d.processEqualityPackage pi) := by
  unfold KCudfData.processEqualityPackage
  try simp only [KCudfData.newDisjunctionObject, KCudfData.specvAt, KCudfData.concreteAt]
  repeat (first
    | assumption
    | exact InvU.fresh_invU (by assumption) _ rfl rfl rfl
    | exact InvU.specvAt_invU (by assumption) _ _
    | exact InvU.concreteAt_invU (by assumption) _ _
    | exact InvU.specvAt_invU (InvU.concreteAt_invU (by assumption) _ _) _ _
    | exact InvU.specvSet (by assumption) _ _ _ (by assumption)
    | exact InvU.concreteSet (by assumption) _ _ _ (by assumption)
    | exact Post.throw_post _
    | (apply Post.pure_post; first | assumption | exact InvU.fresh_invU (by assumption) _ rfl rfl rfl | exact InvU.specvAt_invU (by assumption) _ _ | exact InvU.concreteAt_invU (by assumption) _ _ | exact InvU.specvAt_invU (InvU.concreteAt_invU (by assumption) _ _) _ _ | exact InvU.specvSet (by assumption) _ _ _ (by assumption) | exact InvU.concreteSet (by assumption) _ _ _ (by assumption))
    | (apply invU_markInstall; first | assumption | exact InvU.fresh_invU (by assumption) _ rfl rfl rfl | exact InvU.specvAt_invU (by assumption) _ _ | exact InvU.concreteAt_invU (by assumption) _ _ | exact InvU.specvAt_invU (InvU.concreteAt_invU (by assumption) _ _) _ _ | exact InvU.specvSet (by assumption) _ _ _ (by assumption) | exact InvU.concreteSet (by assumption) _ _ _ (by assumption))
    | (apply invU_markKeep; first | assumption | exact InvU.fresh_invU (by assumption) _ rfl rfl rfl | exact InvU.specvAt_invU (by assumption) _ _ | exact InvU.concreteAt_invU (by assumption) _ _ | exact InvU.specvAt_invU (InvU.concreteAt_invU (by assumption) _ _) _ _ | exact InvU.specvSet (by assumption) _ _ _ (by assumption) | exact InvU.concreteSet (by assumption) _ _ _ (by assumption))
    | (apply invU_addConflict; first | assumption | exact InvU.fresh_invU (by assumption) _ rfl rfl rfl | exact InvU.specvAt_invU (by assumption) _ _ | exact InvU.concreteAt_invU (by assumption) _ _ | exact InvU.specvAt_invU (InvU.concreteAt_invU (by assumption) _ _) _ _ | exact InvU.specvSet (by assumption) _ _ _ (by assumption) | exact InvU.concreteSet (by assumption) _ _ _ (by assumption))
    | (apply invU_addDependency; first | assumption | exact InvU.fresh_invU (by assumption) _ rfl rfl rfl | exact InvU.specvAt_invU (by assumption) _ _ | exact InvU.concreteAt_invU (by assumption) _ _ | exact InvU.specvAt_invU (InvU.concreteAt_invU (by assumption) _ _) _ _ | exact InvU.specvSet (by assumption) _ _ _ (by assumption) | exact InvU.concreteSet (by assumption) _ _ _ (by assumption))
    | (apply invU_addProvider; first | assumption | exact InvU.fresh_invU (by assumption) _ rfl rfl rfl | exact InvU.specvAt_invU (by assumption) _ _ | exact InvU.concreteAt_invU (by assumption) _ _ | exact InvU.specvAt_invU (InvU.concreteAt_invU (by assumption) _ _) _ _ | exact InvU.specvSet (by assumption) _ _ _ (by assumption) | exact InvU.concreteSet (by assumption) _ _ _ (by assumption))
    | (apply invU_getDisjunction; first | assumption | exact InvU.fresh_invU (by assumption) _ rfl rfl rfl | exact InvU.specvAt_invU (by assumption) _ _ | exact InvU.concreteAt_invU (by assumption) _ _ | exact InvU.specvAt_invU (InvU.concreteAt_invU (by assumption) _ _) _ _ | exact InvU.specvSet (by assumption) _ _ _ (by assumption) | exact InvU.concreteSet (by assumption) _ _ _ (by assumption))
    | (apply invU_addDisjunction; first | assumption | exact InvU.fresh_invU (by assumption) _ rfl rfl rfl | exact InvU.specvAt_invU (by assumption) _ _ | exact InvU.concreteAt_invU (by assumption) _ _ | exact InvU.specvAt_invU (InvU.concreteAt_invU (by assumption) _ _) _ _ | exact InvU.specvSet (by assumption) _ _ _ (by assumption) | exact InvU.concreteSet (by assumption) _ _ _ (by assumption))
    | (apply invU_addDepDisjunction; first | assumption | exact InvU.fresh_invU (by assumption) _ rfl rfl rfl | exact InvU.specvAt_invU (by assumption) _ _ | exact InvU.concreteAt_invU (by assumption) _ _ | exact InvU.specvAt_invU (InvU.concreteAt_invU (by assumption) _ _) _ _ | exact InvU.specvSet (by assumption) _ _ _ (by assumption) | exact InvU.concreteSet (by assumption) _ _ _ (by assumption))
    | with_reducible apply Post.foldlM_post (Q := InvU)
    | exact Post.trivial _
    | (refine Post.bind_post (InvU.getId_lt (by assumption) _) ?_)
    | with_reducible apply Post.bind_post (Q := InvU)
    | with_reducible apply Post.bind_post (Q := fun (r : Nat × KCudfData) => InvU r.2)
    | with_reducible apply Post.bind_post (Q := fun _ => True)
    | intro _
    | split)

theorem invU_processEqualityRequest (d : KCudfData) (vpks : List Vpkg) (h : InvU d) :
    Post InvU (d.processEqualityRequest vpks) := by
  unfold KCudfData.processEqualityRequest
  try simp only [KCudfData.newDisjunctionObject, KCudfData.specvAt, KCudfData.concreteAt]
  repeat (first
    | assumption
    | exact InvU.fresh_invU (by assumption) _ rfl rfl rfl
    | exact InvU.specvAt_invU (by assumption) _ _
    | exact InvU.concreteAt_invU (by assumption) _ _
    | exact InvU.specvAt_invU (InvU.concreteAt_invU (by assumption) _ _) _ _
    | exact InvU.specvSet (by assumption) _ _ _ (by assumption)
    | exact InvU.concreteSet (by assumption) _ _ _ (by assumption)
    | exact Post.throw_post _
    | (apply Post.pure_post; first | assumption | exact InvU.fresh_invU (by assumption) _ rfl rfl rfl | exact InvU.specvAt_invU (by assumption) _ _ | exact InvU.concreteAt_invU (by assumption) _ _ | exact InvU.specvAt_invU (InvU.concreteAt_invU (by assumption) _ _) _ _ | exact InvU.specvSet (by assumption) _ _ _ (by assumption) | exact InvU.concreteSet (by assumption) _ _ _ (by assumption))
    | (apply invU_addDisjunction; first | assumption | exact InvU.fresh_invU (by assumption) _ rfl rfl rfl | exact InvU.specvAt_invU (by assumption) _ _ | exact InvU.concreteAt_invU (by assumption) _ _ | exact InvU.specvAt_invU (InvU.concreteAt_invU (by assumption) _ _) _ _ | exact InvU.specvSet (by assumption) _ _ _ (by assumption) | exact InvU.concreteSet (by assumption) _ _ _ (by assumption))
    | with_reducible apply Post.foldlM_post (Q := InvU)
    | exact Post.trivial _
    | (refine Post.bind_post (InvU.getId_lt (by assumption) _) ?_)
    | with_reducible apply Post.bind_post (Q := InvU)
    | with_reducible apply Post.bind_post (Q := fun (r : Nat × KCudfData) => InvU r.2)
    | with_reducible apply Post.bind_post (Q := fun _ => True)
    | intro _
    | split)

theorem invU_processEqualityConstraints (d : KCudfData) (doc : CudfDoc) (h : InvU d) :
    Post InvU (d.processEqualityConstraints doc) := by
  unfold KCudfData.processEqualityConstraints
  try simp only [KCudfData.newDisjunctionObject, KCudfData.specvAt, KCudfData.concreteAt]
  repeat (first
    | assumption
    | exact InvU.fresh_invU (by assumption) _ rfl rfl rfl
    | exact InvU.specvAt_invU (by assumption) _ _
    | exact InvU.concreteAt_invU (by assumption) _ _
    | exact InvU.specvAt_invU (InvU.concreteAt_invU (by assumption) _ _) _ _
    | exact InvU.specvSet (by assumption) _ _ _ (by assumption)
    | exact InvU.concreteSet (by assumption) _ _ _ (by assumption)
    | exact Post.throw_post _
    | (apply Post.pure_post; first | assumption | exact InvU.fresh_invU (by assumption) _ rfl rfl rfl | exact InvU.specvAt_invU (by assumption) _ _ | exact InvU.concreteAt_invU (by assumption) _ _ | exact InvU.specvAt_invU (InvU.concreteAt_invU (by assumption) _ _) _ _ | exact InvU.specvSet (by assumption) _ _ _ (by assumption) | exact InvU.concreteSet (by assumption) _ _ _ (by assumption))
    | (apply invU_processEqualityPackage; first | assumption | exact InvU.fresh_invU (by assumption) _ rfl rfl rfl | exact InvU.specvAt_invU (by assumption) _ _ | exact InvU.concreteAt_invU (by assumption) _ _ | exact InvU.specvAt_invU (InvU.concreteAt_invU (by assumption) _ _) _ _ | exact InvU.specvSet (by assumption) _ _ _ (by assumption) | exact InvU.concreteSet (by assumption) _ _ _ (by assumption))
    | (apply invU_processEqualityRequest; first | assumption | exact InvU.fresh_invU (by assumption) _ rfl rfl rfl | exact InvU.specvAt_invU (by assumption) _ _ | exact InvU.concreteAt_invU (by assumption) _ _ | exact InvU.specvAt_invU (InvU.concreteAt_invU (by assumption) _ _) _ _ | exact InvU.specvSet (by assumption) _ _ _ (by assumption) | exact InvU.concreteSet (by assumption) _ _ _ (by assumption))
    | with_reducible apply Post.foldlM_post (Q := InvU)
    | exact Post.trivial _
    | (refine Post.bind_post (InvU.getId_lt (by assumption) _) ?_)
    | with_reducible apply Post.bind_post (Q := InvU)
    | with_reducible apply Post.bind_post (Q := fun (r : Nat × KCudfData) => InvU r.2)
    | with_reducible apply Post.bind_post (Q := fun _ => True)
    | intro _
    | split)

theorem invU_processProvidesPackage (d : KCudfData) (pi : CudfPackage) (h : InvU d) :
    Post InvU (d.processProvidesPackage pi) := by
  unfold KCudfData.processProvidesPackage
  try simp only [KCudfData.newDisjunctionObject, KCudfData.specvAt, KCudfData.concreteAt]
  repeat (first
    | assumption
    | exact InvU.fresh_invU (by assumption) _ rfl rfl rfl
    | exact InvU.specvAt_invU (by assumption) _ _
    | exact InvU.concreteAt_invU (by assumption) _ _
    | exact InvU.specvAt_invU (InvU.concreteAt_invU (by assumption) _ _) _ _
    | exact InvU.specvSet (by assumption) _ _ _ (by assumption)
    | exact InvU.concreteSet (by assumption) _ _ _ (by assumption)
    | exact Post.throw_post _
    | (apply Post.pure_post; first | assumption | exact InvU.fresh_invU (by assumption) _ rfl rfl rfl | exact InvU.specvAt_invU (by assumption) _ _ | exact InvU.concreteAt_invU (by assumption) _ _ | exact InvU.specvAt_invU (InvU.concreteAt_invU (by assumption) _ _) _ _ | exact InvU.specvSet (by assumption) _ _ _ (by assumption) | exact InvU.concreteSet (by assumption) _ _ _ (by assumption))
    | (apply invU_addDependency; first | assumption | exact InvU.fresh_invU (by assumption) _ rfl rfl rfl | exact InvU.specvAt_invU (by assumption) _ _ | exact InvU.concreteAt_invU (by assumption) _ _ | exact InvU.specvAt_invU (InvU.concreteAt_invU (by assumption) _ _) _ _ | exact InvU.specvSet (by assumption) _ _ _ (by assumption) | exact InvU.concreteSet (by assumption) _ _ _ (by assumption))
    | (apply invU_addProvider; first | assumption | exact InvU.fresh_invU (by assumption) _ rfl rfl rfl | exact InvU.specvAt_invU (by assumption) _ _ | exact InvU.concreteAt_invU (by assumption) _ _ | exact InvU.specvAt_invU (InvU.concreteAt_invU (by assumption) _ _) _ _ | exact InvU.specvSet (by assumption) _ _ _ (by assumption) | exact InvU.concreteSet (by assumption) _ _ _ (by assumption))
    | (apply invU_getDisjunction; first | assumption | exact InvU.fresh_invU (by assumption) _ rfl rfl rfl | exact InvU.specvAt_invU (by assumption) _ _ | exact InvU.concreteAt_invU (by assumption) _ _ | exact InvU.specvAt_invU (InvU.concreteAt_invU (by assumption) _ _) _ _ | exact InvU.specvSet (by assumption) _ _ _ (by assumption) | exact InvU.concreteSet (by assumption) _ _ _ (by assumption))
    | with_reducible apply Post.foldlM_post (Q := InvU)
    | exact Post.trivial _
    | (refine Post.bind_post (InvU.getId_lt (by assumption) _) ?_)
    | with_reducible apply Post.bind_post (Q := InvU)
    | with_reducible apply Post.bind_post (Q := fun (r : Nat × KCudfData) => InvU r.2)
    | with_reducible apply Post.bind_post (Q := fun _ => True)
    | intro _
    | split)

theorem invU_processProvides (d : KCudfData) (doc : CudfDoc) (h : InvU d) :
    Post InvU (d.processProvides doc) := by
  unfold KCudfData.processProvides
  try simp only [KCudfData.newDisjunctionObject, KCudfData.specvAt, KCudfData.concreteAt]
  repeat (first
    | assumption
    | exact InvU.fresh_invU (by assumption) _ rfl rfl rfl
    | exact InvU.specvAt_invU (by assumption) _ _
    | exact InvU.concreteAt_invU (by assumption) _ _
    | exact InvU.specvAt_invU (InvU.concreteAt_invU (by assumption) _ _) _ _
    | exact InvU.specvSet (by assumption) _ _ _ (by assumption)
    | exact InvU.concreteSet (by assumption) _ _ _ (by assumption)
    | exact Post.throw_post _
    | (apply Post.pure_post; first | assumption | exact InvU.fresh_invU (by assumption) _ rfl rfl rfl | exact InvU.specvAt_invU (by assumption) _ _ | exact InvU.concreteAt_invU (by assumption) _ _ | exact InvU.specvAt_invU (InvU.concreteAt_invU (by assumption) _ _) _ _ | exact InvU.specvSet (by assumption) _ _ _ (by assumption) | exact InvU.concreteSet (by assumption) _ _ _ (by assumption))
    | (apply invU_processProvidesPackage; first | assumption | exact InvU.fresh_invU (by assumption) _ rfl rfl rfl | exact InvU.specvAt_invU (by assumption) _ _ | exact InvU.concreteAt_invU (by assumption) _ _ | exact InvU.specvAt_invU (InvU.concreteAt_invU (by assumption) _ _) _ _ | exact InvU.specvSet (by assumption) _ _ _ (by assumption) | exact InvU.concreteSet (by assumption) _ _ _ (by assumption))
    | with_reducible apply Post.foldlM_post (Q := InvU)
    | exact Post.trivial _
    | (refine Post.bind_post (InvU.getId_lt (by assumption) _) ?_)
    | with_reducible apply Post.bind_post (Q := InvU)
    | with_reducible apply Post.bind_post (Q := fun (r : Nat × KCudfData) => InvU r.2)
    | with_reducible apply Post.bind_post (Q := fun _ => True)
    | intro _
    | split)

theorem invU_newDependencyDisjunction (pr : Printer) (d : KCudfData) (cpi_pkg : Nat) (cni : List Vpkg) (h : InvU d) :
    Post InvU (KCudfData.newDependencyDisjunction pr d cpi_pkg cni) := by
  unfold KCudfData.newDependencyDisjunction
  try simp only [KCudfData.newDisjunctionObject, KCudfData.specvAt, KCudfData.concreteAt]
  repeat (first
    | assumption
    | exact InvU.fresh_invU (by assumption) _ rfl rfl rfl
    | exact InvU.specvAt_invU (by assumption) _ _
    | exact InvU.concreteAt_invU (by assumption) _ _
    | exact InvU.specvAt_invU (InvU.concreteAt_invU (by assumption) _ _) _ _
    | exact InvU.specvSet (by assumption) _ _ _ (by assumption)
    | exact InvU.concreteSet (by assumption) _ _ _ (by assumption)
    | exact Post.throw_post _
    | (apply Post.pure_post; first | assumption | exact InvU.fresh_invU (by assumption) _ rfl rfl rfl | exact InvU.specvAt_invU (by assumption) _ _ | exact InvU.concreteAt_invU (by assumption) _ _ | exact InvU.specvAt_invU (InvU.concreteAt_invU (by assumption) _ _) _ _ | exact InvU.specvSet (by assumption) _ _ _ (by assumption) | exact InvU.concreteSet (by assumption) _ _ _ (by assumption))
    | (apply invU_addDependency; first | assumption | exact InvU.fresh_invU (by assumption) _ rfl rfl rfl | exact InvU.specvAt_invU (by assumption) _ _ | exact InvU.concreteAt_invU (by assumption) _ _ | exact InvU.specvAt_invU (InvU.concreteAt_invU (by assumption) _ _) _ _ | exact InvU.specvSet (by assumption) _ _ _ (by assumption) | exact InvU.concreteSet (by assumption) _ _ _ (by assumption))
    | (apply invU_addProvider; first | assumption | exact InvU.fresh_invU (by assumption) _ rfl rfl rfl | exact InvU.specvAt_invU (by assumption) _ _ | exact InvU.concreteAt_invU (by assumption) _ _ | exact InvU.specvAt_invU (InvU.concreteAt_invU (by assumption) _ _) _ _ | exact InvU.specvSet (by assumption) _ _ _ (by assumption) | exact InvU.concreteSet (by assumption) _ _ _ (by assumption))
    | (apply invU_newDisjunction; first | assumption | exact InvU.fresh_invU (by assumption) _ rfl rfl rfl | exact InvU.specvAt_invU (by assumption) _ _ | exact InvU.concreteAt_invU (by assumption) _ _ | exact InvU.specvAt_invU (InvU.concreteAt_invU (by assumption) _ _) _ _ | exact InvU.specvSet (by assumption) _ _ _ (by assumption) | exact InvU.concreteSet (by assumption) _ _ _ (by assumption))
    | with_reducible apply Post.foldlM_post (Q := InvU)
    | exact Post.trivial _
    | (refine Post.bind_post (InvU.getId_lt (by assumption) _) ?_)
    | with_reducible apply Post.bind_post (Q := InvU)
    | with_reducible apply Post.bind_post (Q := fun (r : Nat × KCudfData) => InvU r.2)
    | with_reducible apply Post.bind_post (Q := fun _ => True)
    | intro _
    | split)

theorem invU_processRangeDependency (pr : Printer) (cpi_pkg : Nat) (d : KCudfData) (cni : List Vpkg) (h : InvU d) :
    Post InvU (KCudfData.processRangeDependency pr cpi_pkg d cni) := by
  unfold KCudfData.processRangeDependency
  try simp only [KCudfData.newDisjunctionObject, KCudfData.specvAt, KCudfData.concreteAt]
  repeat (first
    | assumption
    | exact InvU.fresh_invU (by assumption) _ rfl rfl rfl
    | exact InvU.specvAt_invU (by assumption) _ _
    | exact InvU.concreteAt_invU (by assumption) _ _
    | exact InvU.specvAt_invU (InvU.concreteAt_invU (by assumption) _ _) _ _
    | exact InvU.specvSet (by assumption) _ _ _ (by assumption)
    | exact InvU.concreteSet (by assumption) _ _ _ (by assumption)
    | exact Post.throw_post _
    | (apply Post.pure_post; first | assumption | exact InvU.fresh_invU (by assumption) _ rfl rfl rfl | exact InvU.specvAt_invU (by assumption) _ _ | exact InvU.concreteAt_invU (by assumption) _ _ | exact InvU.specvAt_invU (InvU.concreteAt_invU (by assumption) _ _) _ _ | exact InvU.specvSet (by assumption) _ _ _ (by assumption) | exact InvU.concreteSet (by assumption) _ _ _ (by assumption))
    | (apply invU_addDependency; first | assumption | exact InvU.fresh_invU (by assumption) _ rfl rfl rfl | exact InvU.specvAt_invU (by assumption) _ _ | exact InvU.concreteAt_invU (by assumption) _ _ | exact InvU.specvAt_invU (InvU.concreteAt_invU (by assumption) _ _) _ _ | exact InvU.specvSet (by assumption) _ _ _ (by assumption) | exact InvU.concreteSet (by assumption) _ _ _ (by assumption))
    | (apply invU_getDepDisjunction; first | assumption | exact InvU.fresh_invU (by assumption) _ rfl rfl rfl | exact InvU.specvAt_invU (by assumption) _ _ | exact InvU.concreteAt_invU (by assumption) _ _ | exact InvU.specvAt_invU (InvU.concreteAt_invU (by assumption) _ _) _ _ | exact InvU.specvSet (by assumption) _ _ _ (by assumption) | exact InvU.concreteSet (by assumption) _ _ _ (by assumption))
    | (apply invU_newDependencyDisjunction; first | assumption | exact InvU.fresh_invU (by assumption) _ rfl rfl rfl | exact InvU.specvAt_invU (by assumption) _ _ | exact InvU.concreteAt_invU (by assumption) _ _ | exact InvU.specvAt_invU (InvU.concreteAt_invU (by assumption) _ _) _ _ | exact InvU.specvSet (by assumption) _ _ _ (by assumption) | exact InvU.concreteSet (by assumption) _ _ _ (by assumption))
    | with_reducible apply Post.foldlM_post (Q := InvU)
    | exact Post.trivial _
    | (refine Post.bind_post (InvU.getId_lt (by assumption) _) ?_)
    | with_reducible apply Post.bind_post (Q := InvU)
    | with_reducible apply Post.bind_post (Q := fun (r : Nat × KCudfData) => InvU r.2)
    | with_reducible apply Post.bind_post (Q := fun _ => True)
    | intro _
    | split)

set_option maxRecDepth 10000 in
theorem invU_processRangePackage (pr : Printer) (doc : CudfDoc) (d : KCudfData) (pi : CudfPackage) (h : InvU d) :
    Post InvU (KCudfData.processRangePackage pr doc d pi) := by
  unfold KCudfData.processRangePackage
  try simp only [KCudfData.newDisjunctionObject, KCudfData.specvAt, KCudfData.concreteAt]
  repeat (first
    | assumption
    | exact InvU.fresh_invU (by assumption) _ rfl rfl rfl
    | exact InvU.specvAt_invU (by assumption) _ _
    | exact InvU.concreteAt_invU (by assumption) _ _
    | exact InvU.specvAt_invU (InvU.concreteAt_invU (by assumption) _ _) _ _
    | exact InvU.specvSet (by assumption) _ _ _ (by assumption)
    | exact InvU.concreteSet (by assumption) _ _ _ (by assumption)
    | exact Post.throw_post _
    | (apply Post.pure_post; first | assumption | exact InvU.fresh_invU (by assumption) _ rfl rfl rfl | exact InvU.specvAt_invU (by assumption) _ _ | exact InvU.concreteAt_invU (by assumption) _ _ | exact InvU.specvAt_invU (InvU.concreteAt_invU (by assumption) _ _) _ _ | exact InvU.specvSet (by assumption) _ _ _ (by assumption) | exact InvU.concreteSet (by assumption) _ _ _ (by assumption))
    | (apply invU_addConflict; first | assumption | exact InvU.fresh_invU (by assumption) _ rfl rfl rfl | exact InvU.specvAt_invU (by assumption) _ _ | exact InvU.concreteAt_invU (by assumption) _ _ | exact InvU.specvAt_invU (InvU.concreteAt_invU (by assumption) _ _) _ _ | exact InvU.specvSet (by assumption) _ _ _ (by assumption) | exact InvU.concreteSet (by assumption) _ _ _ (by assumption))
    | (apply invU_addProvider; first | assumption | exact InvU.fresh_invU (by assumption) _ rfl rfl rfl | exact InvU.specvAt_invU (by assumption) _ _ | exact InvU.concreteAt_invU (by assumption) _ _ | exact InvU.specvAt_invU (InvU.concreteAt_invU (by assumption) _ _) _ _ | exact InvU.specvSet (by assumption) _ _ _ (by assumption) | exact InvU.concreteSet (by assumption) _ _ _ (by assumption))
    | (apply invU_addBut; first | assumption | exact InvU.fresh_invU (by assumption) _ rfl rfl rfl | exact InvU.specvAt_invU (by assumption) _ _ | exact InvU.concreteAt_invU (by assumption) _ _ | exact InvU.specvAt_invU (InvU.concreteAt_invU (by assumption) _ _) _ _ | exact InvU.specvSet (by assumption) _ _ _ (by assumption) | exact InvU.concreteSet (by assumption) _ _ _ (by assumption))
    | (apply invU_getDisjunction; first | assumption | exact InvU.fresh_invU (by assumption) _ rfl rfl rfl | exact InvU.specvAt_invU (by assumption) _ _ | exact InvU.concreteAt_invU (by assumption) _ _ | exact InvU.specvAt_invU (InvU.concreteAt_invU (by assumption) _ _) _ _ | exact InvU.specvSet (by assumption) _ _ _ (by assumption) | exact InvU.concreteSet (by assumption) _ _ _ (by assumption))
    | (apply invU_getDepDisjunction; first | assumption | exact InvU.fresh_invU (by assumption) _ rfl rfl rfl | exact InvU.specvAt_invU (by assumption) _ _ | exact InvU.concreteAt_invU (by assumption) _ _ | exact InvU.specvAt_invU (InvU.concreteAt_invU (by assumption) _ _) _ _ | exact InvU.specvSet (by assumption) _ _ _ (by assumption) | exact InvU.concreteSet (by assumption) _ _ _ (by assumption))
    | (apply invU_getDisjunctionOf; first | assumption | exact InvU.fresh_invU (by assumption) _ rfl rfl rfl | exact InvU.specvAt_invU (by assumption) _ _ | exact InvU.concreteAt_invU (by assumption) _ _ | exact InvU.specvAt_invU (InvU.concreteAt_invU (by assumption) _ _) _ _ | exact InvU.specvSet (by assumption) _ _ _ (by assumption) | exact InvU.concreteSet (by assumption) _ _ _ (by assumption))
    | (apply invU_processRangeDependency; first | assumption | exact InvU.fresh_invU (by assumption) _ rfl rfl rfl | exact InvU.specvAt_invU (by assumption) _ _ | exact InvU.concreteAt_invU (by assumption) _ _ | exact InvU.specvAt_invU (InvU.concreteAt_invU (by assumption) _ _) _ _ | exact InvU.specvSet (by assumption) _ _ _ (by assumption) | exact InvU.concreteSet (by assumption) _ _ _ (by assumption))
    | with_reducible apply Post.foldlM_post (Q := InvU)
    | exact Post.trivial _
    | (refine Post.bind_post (InvU.getId_lt (by assumption) _) ?_)
    | with_reducible apply Post.bind_post (Q := InvU)
    | with_reducible apply Post.bind_post (Q := fun (r : Nat × KCudfData) => InvU r.2)
    | with_reducible apply Post.bind_post (Q := fun _ => True)
    | intro _
    | split)

theorem invU_processRangeConstraints (pr : Printer) (d : KCudfData) (doc : CudfDoc) (h : InvU d) :
    Post InvU (KCudfData.processRangeConstraints pr d doc) := by
  unfold KCudfData.processRangeConstraints
  try simp only [KCudfData.newDisjunctionObject, KCudfData.specvAt, KCudfData.concreteAt]
  repeat (first
    | assumption
    | exact InvU.fresh_invU (by assumption) _ rfl rfl rfl
    | exact InvU.specvAt_invU (by assumption) _ _
    | exact InvU.concreteAt_invU (by assumption) _ _
    | exact InvU.specvAt_invU (InvU.concreteAt_invU (by assumption) _ _) _ _
    | exact InvU.specvSet (by assumption) _ _ _ (by assumption)
    | exact InvU.concreteSet (by assumption) _ _ _ (by assumption)
    | exact Post.throw_post _
    | (apply Post.pure_post; first | assumption | exact InvU.fresh_invU (by assumption) _ rfl rfl rfl | exact InvU.specvAt_invU (by assumption) _ _ | exact InvU.concreteAt_invU (by assumption) _ _ | exact InvU.specvAt_invU (InvU.concreteAt_invU (by assumption) _ _) _ _ | exact InvU.specvSet (by assumption) _ _ _ (by assumption) | exact InvU.concreteSet (by assumption) _ _ _ (by assumption))
    | (apply invU_processRangePackage; first | assumption | exact InvU.fresh_invU (by assumption) _ rfl rfl rfl | exact InvU.specvAt_invU (by assumption) _ _ | exact InvU.concreteAt_invU (by assumption) _ _ | exact InvU.specvAt_invU (InvU.concreteAt_invU (by assumption) _ _) _ _ | exact InvU.specvSet (by assumption) _ _ _ (by assumption) | exact InvU.concreteSet (by assumption) _ _ _ (by assumption))
    | with_reducible apply Post.foldlM_post (Q := InvU)
    | exact Post.trivial _
    | (refine Post.bind_post (InvU.getId_lt (by assumption) _) ?_)
    | with_reducible apply Post.bind_post (Q := InvU)
    | with_reducible apply Post.bind_post (Q := fun (r : Nat × KCudfData) => InvU r.2)
    | with_reducible apply Post.bind_post (Q := fun _ => True)
    | intro _
    | split)

end UniversePasses

/-! ## The data and the trie: the invariant and the reads -/

section Skeleton

theorem Post.and {α : Type} {Q R : α → Prop} {x : Except Failure α} (h1 : Post Q x)
    (h2 : Post R x) : Post (fun a => Q a ∧ R a) x :=
  ⟨fun a ha => ⟨h1.out a ha, h2.out a ha⟩⟩

theorem Post.of_eq {α : Type} {Q : α → Prop} {x : Except Failure α} {a : α}
    (h : x = Except.ok a) (hq : Q a) : Post Q x :=
  ⟨fun b hb => by rw [h] at hb; cases hb; exact hq⟩

theorem Package.skel_eq {o o1 : Package} (h : o1.skel = o.skel) :
    o1.id = o.id ∧ o1.nm = o.nm ∧ o1.forwarded = o.forwarded ∧ o1.fwd = o.fwd ∧
      o1.flt = o.flt ∧ o1.providers = o.providers := by
  simp only [Package.skel, Prod.mk.injEq] at h
  exact h

theorem KCudfData.Same.refl (d : KCudfData) : d.Same d := ⟨rfl, rfl, fun _ => rfl⟩

theorem KCudfData.Same.trans {d d1 d2 : KCudfData} (h1 : d.Same d1) (h2 : d1.Same d2) :
    d.Same d2 :=
  ⟨h2.1.trans h1.1, h2.2.1.trans h1.2.1, fun p => (h2.2.2 p).trans (h1.2.2 p)⟩

theorem KCudfData.Same.symm {d d1 : KCudfData} (h1 : d.Same d1) : d1.Same d :=
  ⟨h1.1.symm, h1.2.1.symm, fun p => (h1.2.2 p).symm⟩

theorem KCudfData.Same.back {d d1 : KCudfData} (h : d.Same d1) {p : Nat} {o1 : Package}
    (h1 : d1.heap p = some o1) : ∃ o, d.heap p = some o ∧ o1.skel = o.skel := by
  have h2 := h.2.2 p
  rw [h1] at h2
  cases hd : d.heap p with
  | none => rw [hd] at h2; cases h2
  | some o =>
    rw [hd] at h2
    simp only [Option.map_some', Option.some.injEq] at h2
    exact ⟨o, rfl, h2⟩

theorem KCudfData.Same.forth {d d1 : KCudfData} (h : d.Same d1) {p : Nat} {o : Package}
    (h1 : d.heap p = some o) : ∃ o1, d1.heap p = some o1 ∧ o1.skel = o.skel := by
  obtain ⟨o1, e1, e2⟩ := h.symm.back h1
  exact ⟨o1, e1, e2.symm⟩

theorem KCudfData.Same.put_same {d0 d : KCudfData} (h : d0.Same d) {t : Nat} {o o1 : Package}
    (ho : d.heap t = some o) (h1 : o1.skel = o.skel) : d0.Same (d.put t o1) := by
  refine ⟨h.1, h.2.1, ?_⟩
  intro p
  by_cases e : p = t
  · subst e
    rw [← h.2.2 p, ho]
    simp [KCudfData.put, h1]
  · rw [← h.2.2 p]
    simp [KCudfData.put, e]

theorem KCudfData.Conc.same_conc {d d1 : KCudfData} (h : d.Same d1) {q : Nat} (hq : d.Conc q) :
    d1.Conc q := by
  obtain ⟨oq, e1, e2⟩ := hq
  obtain ⟨o1, f1, f2⟩ := h.forth e1
  obtain ⟨-, g2, g3, g4, -, -⟩ := Package.skel_eq f2
  refine ⟨o1, f1, ?_⟩
  rcases e2 with e2 | ⟨e2, t, c, e3, e4, e5⟩
  · exact Or.inl (g2 ▸ e2)
  · obtain ⟨c1, k1, k2⟩ := h.forth e4
    obtain ⟨-, m2, -, -, -, -⟩ := Package.skel_eq k2
    exact Or.inr ⟨g3 ▸ e2, t, c1, g4 ▸ e3, k1, m2 ▸ e5⟩

theorem Inv.same {d d1 : KCudfData} {dt : DTNode} (hi : Inv d dt) (h : d.Same d1) :
    Inv d1 dt := by
  obtain ⟨a, b, c, w, f⟩ := hi
  refine ⟨?_, ?_, ?_, ?_, ?_⟩
  · intro p o1 h1
    obtain ⟨o, e1, e2⟩ := h.back h1
    obtain ⟨g1, g2, g3, -, -, -⟩ := Package.skel_eq e2
    rw [g1, g2, g3, h.1]
    exact a p o e1
  · intro k p hk
    rw [h.2.1] at hk
    obtain ⟨e, o, ho⟩ := b k p hk
    obtain ⟨o1, f1, -⟩ := h.forth ho
    exact ⟨e, o1, f1⟩
  · intro p o1 h1 hf
    obtain ⟨o, e1, e2⟩ := h.back h1
    obtain ⟨-, -, g3, g4, -, -⟩ := Package.skel_eq e2
    rw [g4]
    exact c p o e1 (g3 ▸ hf)
  · intro s x hx
    obtain ⟨o, e1, e2, e3⟩ := w s x hx
    obtain ⟨o1, f1, f2⟩ := h.forth e1
    obtain ⟨-, g2, g3, -, g5, g6⟩ := Package.skel_eq f2
    refine ⟨o1, f1, g3 ▸ e2, ?_⟩
    rw [g2, g5, g6]
    exact e3
  · intro p o1 h1 hn hf q hq
    obtain ⟨o, e1, e2⟩ := h.back h1
    obtain ⟨-, g2, -, -, g5, g6⟩ := Package.skel_eq e2
    exact (f p o e1 (g2 ▸ hn) (g5 ▸ hf) q (g6 ▸ hq)).same_conc h

theorem Interned.same_interned {d d1 : KCudfData} {dt : DTNode} {S : Nat → Prop}
    (hi : Interned d dt S) (h : d.Same d1) : Interned d1 dt S := by
  intro p o1 hs h1 hn hf hl
  obtain ⟨o, e1, e2⟩ := h.back h1
  obtain ⟨-, g2, g3, -, g5, g6⟩ := Package.skel_eq e2
  rw [g6]
  exact hi p o hs e1 (g2 ▸ hn) (g3 ▸ hf) (g5 ▸ hl)

theorem KCudfData.AllFlt.same_allFlt {d d1 : KCudfData} (hi : d.AllFlt) (h : d.Same d1) :
    d1.AllFlt := by
  intro k p o1 hk h1 hn
  rw [h.2.1] at hk
  obtain ⟨o, e1, e2⟩ := h.back h1
  obtain ⟨-, g2, -, -, g5, -⟩ := Package.skel_eq e2
  rw [g5]
  exact hi k p o hk e1 (g2 ▸ hn)

theorem KCudfData.FltBelow.same_fltBelow {d d1 : KCudfData} {n : Nat} (hi : d.FltBelow n)
    (h : d.Same d1) : d1.FltBelow n := by
  intro k p o1 hk hp h1 hn
  rw [h.2.1] at hk
  obtain ⟨o, e1, e2⟩ := h.back h1
  obtain ⟨-, g2, -, -, g5, -⟩ := Package.skel_eq e2
  rw [g5]
  exact hi k p o hk hp e1 (g2 ▸ hn)

theorem KCudfData.Conc.grows {d d1 : KCudfData} (h : d.Grows d1) {q : Nat} (hq : d.Conc q) :
    d1.Conc q := by
  obtain ⟨oq, e1, e2⟩ := hq
  obtain ⟨o1, f1, -, f3, f4⟩ := h q oq e1
  refine ⟨o1, f1, ?_⟩
  rcases e2 with e2 | ⟨e2, t, c, e3, e4, e5⟩
  · exact Or.inl (f3 ▸ e2)
  · obtain ⟨c1, k1, -, k3, -⟩ := h t c e4
    exact Or.inr ⟨(f4 e2).1, t, c1, (f4 e2).2 ▸ e3, k1, k3 ▸ e5⟩

theorem KCudfData.target_res {d : KCudfData} {p t : Nat} (h : d.target p = Except.ok t) :
    ∃ o, d.Res p t o := by
  have key : ∀ fuel p, KCudfData.targetFrom fuel d p = Except.ok t →
      ∃ o, d.heap t = some o ∧ o.forwarded = false := by
    intro fuel
    induction fuel with
    | zero =>
      intro p hp
      cases hp
    | succ n ih =>
      intro p hp
      unfold KCudfData.targetFrom at hp
      cases ho : d.heap p with
      | none =>
        simp [KCudfData.obj, ho, bind, Except.bind, throw, throwThe, MonadExceptOf.throw] at hp
      | some o =>
        simp only [KCudfData.obj_of_heap ho, bind, Except.bind] at hp
        by_cases hf : o.forwarded = true
        · simp only [hf, if_true] at hp
          cases hq : o.fwd with
          | none =>
            simp [hq, throw, throwThe, MonadExceptOf.throw] at hp
          | some q =>
            simp only [hq] at hp
            exact ih q hp
        · simp only [hf, Bool.false_eq_true, if_false, pure, Except.pure, Except.ok.injEq] at hp
          subst hp
          exact ⟨o, ho, by simpa using hf⟩
  obtain ⟨o, e1, e2⟩ := key _ p h
  exact ⟨o, h, e1, e2⟩

theorem KCudfData.Res.unique {d : KCudfData} {p t t1 : Nat} {o o1 : Package}
    (h : d.Res p t o) (h1 : d.Res p t1 o1) : t1 = t ∧ o1 = o := by
  have e : t1 = t := by
    have := h.1.symm.trans h1.1
    cases this
    rfl
  subst e
  have := h.2.1.symm.trans h1.2.1
  cases this
  exact ⟨rfl, rfl⟩

theorem KCudfData.post_target (d : KCudfData) (p : Nat) :
    Post (fun t => ∃ o, d.Res p t o) (d.target p) :=
  ⟨fun _ h => KCudfData.target_res h⟩

theorem KCudfData.post_ptr (d : KCudfData) (k : Nat) :
    Post (fun p => (k, p) ∈ d.packages) (d.ptr k) := by
  unfold KCudfData.ptr
  split
  · rename_i p hp
    exact Post.pure_post _ (StdMap.mem_of_find _ _ _ hp)
  · exact Post.throw_post _

theorem KCudfData.post_getId (d : KCudfData) (p : Nat) :
    Post (fun k => ∃ t o, d.Res p t o ∧ k = o.id) (d.getId p) := by
  unfold KCudfData.getId
  refine Post.bind_post (d.post_target p) ?_
  rintro t ⟨o, ho⟩
  refine Post.bind_post (post_obj d t) (fun o1 h1 => ?_)
  have : o1 = o := by
    have := ho.2.1.symm.trans h1
    cases this
    rfl
  subst this
  exact Post.pure_post _ ⟨t, o1, ho, rfl⟩

theorem KCudfData.post_isConcrete (d : KCudfData) (p : Nat) :
    Post (fun b => ∃ t o, d.Res p t o ∧ b = o.nm.isSome) (d.isConcrete p) := by
  unfold KCudfData.isConcrete
  refine Post.bind_post (d.post_target p) ?_
  rintro t ⟨o, ho⟩
  refine Post.bind_post (post_obj d t) (fun o1 h1 => ?_)
  have : o1 = o := by
    have := ho.2.1.symm.trans h1
    cases this
    rfl
  subst this
  exact Post.pure_post _ ⟨t, o1, ho, rfl⟩

theorem KCudfData.post_getVersion (d : KCudfData) (p : Nat) :
    Post (fun v => ∃ t o, d.Res p t o ∧ v = if o.nm.isSome then o.version else (o.id : Int))
      (d.getVersion p) := by
  unfold KCudfData.getVersion
  refine Post.bind_post (d.post_target p) ?_
  rintro t ⟨o, ho⟩
  refine Post.bind_post (post_obj d t) (fun o1 h1 => ?_)
  have : o1 = o := by
    have := ho.2.1.symm.trans h1
    cases this
    rfl
  subst this
  exact Post.pure_post _ ⟨t, o1, ho, rfl⟩

theorem KCudfData.post_providersOwner (d : KCudfData) (p : Nat) :
    Post (fun t => ∃ o, d.Res p t o ∧ o.nm = none) (d.providersOwner p) := by
  unfold KCudfData.providersOwner
  refine Post.bind_post (post_obj d p) (fun o ho => ?_)
  split
  · refine Post.bind_post (d.post_target p) ?_
    rintro t ⟨ot, hot⟩
    refine Post.bind_post (post_obj d t) (fun o1 h1 => ?_)
    have : o1 = ot := by
      have := hot.2.1.symm.trans h1
      cases this
      rfl
    subst this
    split
    · exact Post.throw_post _
    · rename_i hn
      exact Post.pure_post _ ⟨o1, hot, by simpa using hn⟩
  · rename_i hf
    split
    · exact Post.throw_post _
    · rename_i hn
      have hf1 : o.forwarded = false := by simpa using hf
      exact Post.pure_post _ ⟨o, ⟨KCudfData.target_self ho hf1, ho, hf1⟩, by simpa using hn⟩

theorem KCudfData.post_getProviders (d : KCudfData) (p : Nat) :
    Post (fun s => ∃ t o, d.Res p t o ∧ o.nm = none ∧ s = o.providers) (d.getProviders p) := by
  unfold KCudfData.getProviders
  refine Post.bind_post (d.post_providersOwner p) ?_
  rintro t ⟨o, ho, hn⟩
  refine Post.bind_post (post_obj d t) (fun o1 h1 => ?_)
  have : o1 = o := by
    have := ho.2.1.symm.trans h1
    cases this
    rfl
  subst this
  exact Post.pure_post _ ⟨t, o1, ho, hn, rfl⟩

/-- Under the invariant a chain of forwards has at most one step. -/
theorem Inv.res {d : KCudfData} {dt : DTNode} (hi : Inv d dt) {p t : Nat} {o ot : Package}
    (hp : d.heap p = some o) (hr : d.Res p t ot) :
    (o.forwarded = false ∧ t = p ∧ ot = o) ∨ (o.forwarded = true ∧ o.fwd = some t) := by
  cases hf : o.forwarded with
  | false =>
    have h1 : d.Res p p o := ⟨KCudfData.target_self hp hf, hp, hf⟩
    obtain ⟨e1, e2⟩ := h1.unique hr
    exact Or.inl ⟨rfl, e1, e2⟩
  | true =>
    obtain ⟨q, s, e1, e2⟩ := hi.2.2.1 p o hp hf
    obtain ⟨oq, f1, f2, -⟩ := hi.2.2.2.1 s q e2
    have hlt := (hi.1 p o hp).2.1
    have h1 : d.Res p q oq := by
      refine ⟨?_, f1, f2⟩
      unfold KCudfData.target
      rw [KCudfData.targetFrom_step _ hp hf e1]
      obtain ⟨m, hm⟩ := Nat.exists_eq_succ_of_ne_zero (Nat.pos_iff_ne_zero.mp
        (Nat.lt_of_le_of_lt (Nat.zero_le _) hlt))
      rw [hm]
      exact KCudfData.targetFrom_self _ f1 f2
    obtain ⟨e3, -⟩ := h1.unique hr
    exact Or.inr ⟨rfl, e3 ▸ e1⟩

end Skeleton

/-! ## Methods that change flags, dependencies and conflicts only -/

section SameLemmas

theorem same_addDependency (d0 d : KCudfData) (p q : Nat) (h : d0.Same d) :
    Post (KCudfData.Same d0) (d.addDependency p q) := by
  unfold KCudfData.addDependency
  refine Post.bind_post (Post.trivial _) (fun t _ => ?_)
  refine Post.bind_post (post_obj d t) (fun o ho => ?_)
  exact Post.pure_post _ (h.put_same ho rfl)

theorem same_addConflict (d0 d : KCudfData) (p q : Nat) (h : d0.Same d) :
    Post (KCudfData.Same d0) (d.addConflict p q) := by
  unfold KCudfData.addConflict
  refine Post.bind_post (Post.trivial _) (fun t _ => ?_)
  refine Post.bind_post (post_obj d t) (fun o ho => ?_)
  exact Post.pure_post _ (h.put_same ho rfl)

theorem same_markKeep (d0 d : KCudfData) (p : Nat) (st : Bool) (h : d0.Same d) :
    Post (KCudfData.Same d0) (d.markKeep p st) := by
  unfold KCudfData.markKeep
  refine Post.bind_post (Post.trivial _) (fun t _ => ?_)
  refine Post.bind_post (post_obj d t) (fun o ho => ?_)
  exact Post.pure_post _ (h.put_same ho rfl)

theorem same_markInstall (d0 d : KCudfData) (p : Nat) (st : Bool) (h : d0.Same d) :
    Post (KCudfData.Same d0) (d.markInstall p st) := by
  unfold KCudfData.markInstall
  refine Post.bind_post (Post.trivial _) (fun t _ => ?_)
  refine Post.bind_post (post_obj d t) (fun o ho => ?_)
  split
  · split
    · exact Post.throw_post _
    · exact Post.pure_post _ (h.put_same ho rfl)
  · exact Post.pure_post _ h

theorem same_addBut (d0 d : KCudfData) (p q : Nat) (h : d0.Same d) :
    Post (KCudfData.Same d0) (d.addBut p q) := by
  unfold KCudfData.addBut
  refine Post.bind_post (post_obj d p) (fun o ho => ?_)
  exact Post.pure_post _ (h.put_same ho rfl)

theorem same_pairwiseConflicting (d0 : KCudfData) (d : KCudfData) (s : IdSet)
    (h : KCudfData.Same d0 d) :
    Post (KCudfData.Same d0) (d.pairwiseConflicting s) := by
  unfold KCudfData.pairwiseConflicting
  try simp only [KCudfData.newDisjunctionObject, KCudfData.specvAt, KCudfData.concreteAt]
  repeat (first
    | assumption
    | exact Post.throw_post _
    | (apply Post.pure_post; first | assumption)
    | (apply same_addConflict; first | assumption)
    | with_reducible apply Post.foldlM_post (Q := KCudfData.Same d0)
    | with_reducible apply Post.foldlM_post (Q := fun (r : KCudfData × Marks) => KCudfData.Same d0 r.1)
    | with_reducible apply Post.foldlM_post (Q := fun (r : KCudfData × Nat) => KCudfData.Same d0 r.1)
    | with_reducible apply Post.foldlM_post (Q := fun (r : KCudfData × DTNode × Marks) => KCudfData.Same d0 r.1)
    | with_reducible apply Post.foldlM_post (Q := fun (r : KCudfData × DTNode × Nat) => KCudfData.Same d0 r.1)
    | exact Post.trivial _
    | with_reducible apply Post.bind_post (Q := KCudfData.Same d0)
    | with_reducible apply Post.bind_post (Q := fun (r : Nat × KCudfData) => KCudfData.Same d0 r.2)
    | with_reducible apply Post.bind_post (Q := fun (r : KCudfData × DTNode × Marks) => KCudfData.Same d0 r.1)
    | with_reducible apply Post.bind_post (Q := fun (r : KCudfData × Marks) => KCudfData.Same d0 r.1)
    | with_reducible apply Post.bind_post (Q := fun (r : KCudfData × Nat) => KCudfData.Same d0 r.1)
    | with_reducible apply Post.bind_post (Q := fun (r : KCudfData × DTNode × Nat) => KCudfData.Same d0 r.1)
    | with_reducible apply Post.bind_post (Q := fun (r : Bool × KCudfData) => KCudfData.Same d0 r.2)
    | with_reducible apply Post.bind_post (Q := fun (r : KCudfData × DTNode) => KCudfData.Same d0 r.1)
    | with_reducible apply Post.bind_post (Q := fun (r : KCudfData × TranslatorStats) => KCudfData.Same d0 r.1)
    | with_reducible apply Post.bind_post (Q := fun _ => True)
    | intro _
    | split)

theorem same_fixInstallVirtuals (d0 : KCudfData) (d : KCudfData) (h : KCudfData.Same d0 d) :
    Post (KCudfData.Same d0) (d.fixInstallVirtuals) := by
  unfold KCudfData.fixInstallVirtuals
  try simp only [KCudfData.newDisjunctionObject, KCudfData.specvAt, KCudfData.concreteAt]
  repeat (first
    | assumption
    | exact Post.throw_post _
    | (apply Post.pure_post; first | assumption)
    | (apply same_markInstall; first | assumption)
    | with_reducible apply Post.foldlM_post (Q := KCudfData.Same d0)
    | with_reducible apply Post.foldlM_post (Q := fun (r : KCudfData × Marks) => KCudfData.Same d0 r.1)
    | with_reducible apply Post.foldlM_post (Q := fun (r : KCudfData × Nat) => KCudfData.Same d0 r.1)
    | with_reducible apply Post.foldlM_post (Q := fun (r : KCudfData × DTNode × Marks) => KCudfData.Same d0 r.1)
    | with_reducible apply Post.foldlM_post (Q := fun (r : KCudfData × DTNode × Nat) => KCudfData.Same d0 r.1)
    | exact Post.trivial _
    | with_reducible apply Post.bind_post (Q := KCudfData.Same d0)
    | with_reducible apply Post.bind_post (Q := fun (r : Nat × KCudfData) => KCudfData.Same d0 r.2)
    | with_reducible apply Post.bind_post (Q := fun (r : KCudfData × DTNode × Marks) => KCudfData.Same d0 r.1)
    | with_reducible apply Post.bind_post (Q := fun (r : KCudfData × Marks) => KCudfData.Same d0 r.1)
    | with_reducible apply Post.bind_post (Q := fun (r : KCudfData × Nat) => KCudfData.Same d0 r.1)
    | with_reducible apply Post.bind_post (Q := fun (r : KCudfData × DTNode × Nat) => KCudfData.Same d0 r.1)
    | with_reducible apply Post.bind_post (Q := fun (r : Bool × KCudfData) => KCudfData.Same d0 r.2)
    | with_reducible apply Post.bind_post (Q := fun (r : KCudfData × DTNode) => KCudfData.Same d0 r.1)
    | with_reducible apply Post.bind_post (Q := fun (r : KCudfData × TranslatorStats) => KCudfData.Same d0 r.1)
    | with_reducible apply Post.bind_post (Q := fun _ => True)
    | intro _
    | split)

theorem same_zeroProviders (d0 : KCudfData) (d : KCudfData) (h : KCudfData.Same d0 d) :
    Post (fun r => KCudfData.Same d0 r.1) (d.zeroProviders) := by
  unfold KCudfData.zeroProviders
  try simp only [KCudfData.newDisjunctionObject, KCudfData.specvAt, KCudfData.concreteAt]
  repeat (first
    | assumption
    | exact Post.throw_post _
    | (apply Post.pure_post; first | assumption)
    | (apply same_markInstall; first | assumption)
    | (apply same_markKeep; first | assumption)
    | with_reducible apply Post.foldlM_post (Q := KCudfData.Same d0)
    | with_reducible apply Post.foldlM_post (Q := fun (r : KCudfData × Marks) => KCudfData.Same d0 r.1)
    | with_reducible apply Post.foldlM_post (Q := fun (r : KCudfData × Nat) => KCudfData.Same d0 r.1)
    | with_reducible apply Post.foldlM_post (Q := fun (r : KCudfData × DTNode × Marks) => KCudfData.Same d0 r.1)
    | with_reducible apply Post.foldlM_post (Q := fun (r : KCudfData × DTNode × Nat) => KCudfData.Same d0 r.1)
    | exact Post.trivial _
    | with_reducible apply Post.bind_post (Q := KCudfData.Same d0)
    | with_reducible apply Post.bind_post (Q := fun (r : Nat × KCudfData) => KCudfData.Same d0 r.2)
    | with_reducible apply Post.bind_post (Q := fun (r : KCudfData × DTNode × Marks) => KCudfData.Same d0 r.1)
    | with_reducible apply Post.bind_post (Q := fun (r : KCudfData × Marks) => KCudfData.Same d0 r.1)
    | with_reducible apply Post.bind_post (Q := fun (r : KCudfData × Nat) => KCudfData.Same d0 r.1)
    | with_reducible apply Post.bind_post (Q := fun (r : KCudfData × DTNode × Nat) => KCudfData.Same d0 r.1)
    | with_reducible apply Post.bind_post (Q := fun (r : Bool × KCudfData) => KCudfData.Same d0 r.2)
    | with_reducible apply Post.bind_post (Q := fun (r : KCudfData × DTNode) => KCudfData.Same d0 r.1)
    | with_reducible apply Post.bind_post (Q := fun (r : KCudfData × TranslatorStats) => KCudfData.Same d0 r.1)
    | with_reducible apply Post.bind_post (Q := fun _ => True)
    | intro _
    | split)

theorem same_markPackages (d0 : KCudfData) (d : KCudfData) (ms : Marks) (h : KCudfData.Same d0 d) :
    Post (KCudfData.Same d0) (d.markPackages ms) := by
  unfold KCudfData.markPackages
  try simp only [KCudfData.newDisjunctionObject, KCudfData.specvAt, KCudfData.concreteAt]
  repeat (first
    | assumption
    | exact Post.throw_post _
    | (apply Post.pure_post; first | assumption)
    | (apply same_markInstall; first | assumption)
    | (apply same_markKeep; first | assumption)
    | with_reducible apply Post.foldlM_post (Q := KCudfData.Same d0)
    | with_reducible apply Post.foldlM_post (Q := fun (r : KCudfData × Marks) => KCudfData.Same d0 r.1)
    | with_reducible apply Post.foldlM_post (Q := fun (r : KCudfData × Nat) => KCudfData.Same d0 r.1)
    | with_reducible apply Post.foldlM_post (Q := fun (r : KCudfData × DTNode × Marks) => KCudfData.Same d0 r.1)
    | with_reducible apply Post.foldlM_post (Q := fun (r : KCudfData × DTNode × Nat) => KCudfData.Same d0 r.1)
    | exact Post.trivial _
    | with_reducible apply Post.bind_post (Q := KCudfData.Same d0)
    | with_reducible apply Post.bind_post (Q := fun (r : Nat × KCudfData) => KCudfData.Same d0 r.2)
    | with_reducible apply Post.bind_post (Q := fun (r : KCudfData × DTNode × Marks) => KCudfData.Same d0 r.1)
    | with_reducible apply Post.bind_post (Q := fun (r : KCudfData × Marks) => KCudfData.Same d0 r.1)
    | with_reducible apply Post.bind_post (Q := fun (r : KCudfData × Nat) => KCudfData.Same d0 r.1)
    | with_reducible apply Post.bind_post (Q := fun (r : KCudfData × DTNode × Nat) => KCudfData.Same d0 r.1)
    | with_reducible apply Post.bind_post (Q := fun (r : Bool × KCudfData) => KCudfData.Same d0 r.2)
    | with_reducible apply Post.bind_post (Q := fun (r : KCudfData × DTNode) => KCudfData.Same d0 r.1)
    | with_reducible apply Post.bind_post (Q := fun (r : KCudfData × TranslatorStats) => KCudfData.Same d0 r.1)
    | with_reducible apply Post.bind_post (Q := fun _ => True)
    | intro _
    | split)

theorem same_consistent (d0 : KCudfData) (d : KCudfData) (h : KCudfData.Same d0 d) :
    Post (fun r => KCudfData.Same d0 r.2) (d.consistent) := by
  unfold KCudfData.consistent
  try simp only [KCudfData.newDisjunctionObject, KCudfData.specvAt, KCudfData.concreteAt]
  repeat (first
    | assumption
    | exact Post.throw_post _
    | (apply Post.pure_post; first | assumption)
    | with_reducible apply Post.foldlM_post (Q := KCudfData.Same d0)
    | with_reducible apply Post.foldlM_post (Q := fun (r : KCudfData × Marks) => KCudfData.Same d0 r.1)
    | with_reducible apply Post.foldlM_post (Q := fun (r : KCudfData × Nat) => KCudfData.Same d0 r.1)
    | with_reducible apply Post.foldlM_post (Q := fun (r : KCudfData × DTNode × Marks) => KCudfData.Same d0 r.1)
    | with_reducible apply Post.foldlM_post (Q := fun (r : KCudfData × DTNode × Nat) => KCudfData.Same d0 r.1)
    | exact Post.trivial _
    | with_reducible apply Post.bind_post (Q := KCudfData.Same d0)
    | with_reducible apply Post.bind_post (Q := fun (r : Nat × KCudfData) => KCudfData.Same d0 r.2)
    | with_reducible apply Post.bind_post (Q := fun (r : KCudfData × DTNode × Marks) => KCudfData.Same d0 r.1)
    | with_reducible apply Post.bind_post (Q := fun (r : KCudfData × Marks) => KCudfData.Same d0 r.1)
    | with_reducible apply Post.bind_post (Q := fun (r : KCudfData × Nat) => KCudfData.Same d0 r.1)
    | with_reducible apply Post.bind_post (Q := fun (r : KCudfData × DTNode × Nat) => KCudfData.Same d0 r.1)
    | with_reducible apply Post.bind_post (Q := fun (r : Bool × KCudfData) => KCudfData.Same d0 r.2)
    | with_reducible apply Post.bind_post (Q := fun (r : KCudfData × DTNode) => KCudfData.Same d0 r.1)
    | with_reducible apply Post.bind_post (Q := fun (r : KCudfData × TranslatorStats) => KCudfData.Same d0 r.1)
    | with_reducible apply Post.bind_post (Q := fun _ => True)
    | intro _
    | split)

theorem same_fillBigPackages (d0 : KCudfData) (d : KCudfData) (h : KCudfData.Same d0 d) :
    Post (KCudfData.Same d0) (d.fillBigPackages) := by
  unfold KCudfData.fillBigPackages
  try simp only [KCudfData.newDisjunctionObject, KCudfData.specvAt, KCudfData.concreteAt]
  repeat (first
    | assumption
    | exact Post.throw_post _
    | (apply Post.pure_post; first | assumption)
    | with_reducible apply Post.foldlM_post (Q := KCudfData.Same d0)
    | with_reducible apply Post.foldlM_post (Q := fun (r : KCudfData × Marks) => KCudfData.Same d0 r.1)
    | with_reducible apply Post.foldlM_post (Q := fun (r : KCudfData × Nat) => KCudfData.Same d0 r.1)
    | with_reducible apply Post.foldlM_post (Q := fun (r : KCudfData × DTNode × Marks) => KCudfData.Same d0 r.1)
    | with_reducible apply Post.foldlM_post (Q := fun (r : KCudfData × DTNode × Nat) => KCudfData.Same d0 r.1)
    | exact Post.trivial _
    | with_reducible apply Post.bind_post (Q := KCudfData.Same d0)
    | with_reducible apply Post.bind_post (Q := fun (r : Nat × KCudfData) => KCudfData.Same d0 r.2)
    | with_reducible apply Post.bind_post (Q := fun (r : KCudfData × DTNode × Marks) => KCudfData.Same d0 r.1)
    | with_reducible apply Post.bind_post (Q := fun (r : KCudfData × Marks) => KCudfData.Same d0 r.1)
    | with_reducible apply Post.bind_post (Q := fun (r : KCudfData × Nat) => KCudfData.Same d0 r.1)
    | with_reducible apply Post.bind_post (Q := fun (r : KCudfData × DTNode × Nat) => KCudfData.Same d0 r.1)
    | with_reducible apply Post.bind_post (Q := fun (r : Bool × KCudfData) => KCudfData.Same d0 r.2)
    | with_reducible apply Post.bind_post (Q := fun (r : KCudfData × DTNode) => KCudfData.Same d0 r.1)
    | with_reducible apply Post.bind_post (Q := fun (r : KCudfData × TranslatorStats) => KCudfData.Same d0 r.1)
    | with_reducible apply Post.bind_post (Q := fun _ => True)
    | intro _
    | split)

theorem same_keepFeature (d0 : KCudfData) (d : KCudfData) (ms : Marks) (pi : CudfPackage)
    (h : KCudfData.Same d0 d) :
    Post (fun r => KCudfData.Same d0 r.1) (d.keepFeature ms pi) := by
  unfold KCudfData.keepFeature
  try simp only [KCudfData.newDisjunctionObject, KCudfData.specvAt, KCudfData.concreteAt]
  repeat (first
    | assumption
    | exact Post.throw_post _
    | (apply Post.pure_post; first | assumption)
    | with_reducible apply Post.foldlM_post (Q := KCudfData.Same d0)
    | with_reducible apply Post.foldlM_post (Q := fun (r : KCudfData × Marks) => KCudfData.Same d0 r.1)
    | with_reducible apply Post.foldlM_post (Q := fun (r : KCudfData × Nat) => KCudfData.Same d0 r.1)
    | with_reducible apply Post.foldlM_post (Q := fun (r : KCudfData × DTNode × Marks) => KCudfData.Same d0 r.1)
    | with_reducible apply Post.foldlM_post (Q := fun (r : KCudfData × DTNode × Nat) => KCudfData.Same d0 r.1)
    | exact Post.trivial _
    | with_reducible apply Post.bind_post (Q := KCudfData.Same d0)
    | with_reducible apply Post.bind_post (Q := fun (r : Nat × KCudfData) => KCudfData.Same d0 r.2)
    | with_reducible apply Post.bind_post (Q := fun (r : KCudfData × DTNode × Marks) => KCudfData.Same d0 r.1)
    | with_reducible apply Post.bind_post (Q := fun (r : KCudfData × Marks) => KCudfData.Same d0 r.1)
    | with_reducible apply Post.bind_post (Q := fun (r : KCudfData × Nat) => KCudfData.Same d0 r.1)
    | with_reducible apply Post.bind_post (Q := fun (r : KCudfData × DTNode × Nat) => KCudfData.Same d0 r.1)
    | with_reducible apply Post.bind_post (Q := fun (r : Bool × KCudfData) => KCudfData.Same d0 r.2)
    | with_reducible apply Post.bind_post (Q := fun (r : KCudfData × DTNode) => KCudfData.Same d0 r.1)
    | with_reducible apply Post.bind_post (Q := fun (r : KCudfData × TranslatorStats) => KCudfData.Same d0 r.1)
    | with_reducible apply Post.bind_post (Q := fun _ => True)
    | intro _
    | split)

theorem same_processInstall (d0 : KCudfData) (pr : Printer) (s : KCudfData × Marks) (vpk : Vpkg)
    (h : KCudfData.Same d0 s.1) :
    Post (fun r => KCudfData.Same d0 r.1) (KCudfData.processInstall pr s vpk) := by
  unfold KCudfData.processInstall
  try simp only [KCudfData.newDisjunctionObject, KCudfData.specvAt, KCudfData.concreteAt]
  repeat (first
    | assumption
    | exact Post.throw_post _
    | (apply Post.pure_post; first | assumption)
    | with_reducible apply Post.foldlM_post (Q := KCudfData.Same d0)
    | with_reducible apply Post.foldlM_post (Q := fun (r : KCudfData × Marks) => KCudfData.Same d0 r.1)
    | with_reducible apply Post.foldlM_post (Q := fun (r : KCudfData × Nat) => KCudfData.Same d0 r.1)
    | with_reducible apply Post.foldlM_post (Q := fun (r : KCudfData × DTNode × Marks) => KCudfData.Same d0 r.1)
    | with_reducible apply Post.foldlM_post (Q := fun (r : KCudfData × DTNode × Nat) => KCudfData.Same d0 r.1)
    | exact Post.trivial _
    | with_reducible apply Post.bind_post (Q := KCudfData.Same d0)
    | with_reducible apply Post.bind_post (Q := fun (r : Nat × KCudfData) => KCudfData.Same d0 r.2)
    | with_reducible apply Post.bind_post (Q := fun (r : KCudfData × DTNode × Marks) => KCudfData.Same d0 r.1)
    | with_reducible apply Post.bind_post (Q := fun (r : KCudfData × Marks) => KCudfData.Same d0 r.1)
    | with_reducible apply Post.bind_post (Q := fun (r : KCudfData × Nat) => KCudfData.Same d0 r.1)
    | with_reducible apply Post.bind_post (Q := fun (r : KCudfData × DTNode × Nat) => KCudfData.Same d0 r.1)
    | with_reducible apply Post.bind_post (Q := fun (r : Bool × KCudfData) => KCudfData.Same d0 r.2)
    | with_reducible apply Post.bind_post (Q := fun (r : KCudfData × DTNode) => KCudfData.Same d0 r.1)
    | with_reducible apply Post.bind_post (Q := fun (r : KCudfData × TranslatorStats) => KCudfData.Same d0 r.1)
    | with_reducible apply Post.bind_post (Q := fun _ => True)
    | intro _
    | split)

theorem same_processRemove (d0 : KCudfData) (pr : Printer) (s : KCudfData × Marks) (vpk : Vpkg)
    (h : KCudfData.Same d0 s.1) :
    Post (fun r => KCudfData.Same d0 r.1) (KCudfData.processRemove pr s vpk) := by
  unfold KCudfData.processRemove
  try simp only [KCudfData.newDisjunctionObject, KCudfData.specvAt, KCudfData.concreteAt]
  repeat (first
    | assumption
    | exact Post.throw_post _
    | (apply Post.pure_post; first | assumption)
    | with_reducible apply Post.foldlM_post (Q := KCudfData.Same d0)
    | with_reducible apply Post.foldlM_post (Q := fun (r : KCudfData × Marks) => KCudfData.Same d0 r.1)
    | with_reducible apply Post.foldlM_post (Q := fun (r : KCudfData × Nat) => KCudfData.Same d0 r.1)
    | with_reducible apply Post.foldlM_post (Q := fun (r : KCudfData × DTNode × Marks) => KCudfData.Same d0 r.1)
    | with_reducible apply Post.foldlM_post (Q := fun (r : KCudfData × DTNode × Nat) => KCudfData.Same d0 r.1)
    | exact Post.trivial _
    | with_reducible apply Post.bind_post (Q := KCudfData.Same d0)
    | with_reducible apply Post.bind_post (Q := fun (r : Nat × KCudfData) => KCudfData.Same d0 r.2)
    | with_reducible apply Post.bind_post (Q := fun (r : KCudfData × DTNode × Marks) => KCudfData.Same d0 r.1)
    | with_reducible apply Post.bind_post (Q := fun (r : KCudfData × Marks) => KCudfData.Same d0 r.1)
    | with_reducible apply Post.bind_post (Q := fun (r : KCudfData × Nat) => KCudfData.Same d0 r.1)
    | with_reducible apply Post.bind_post (Q := fun (r : KCudfData × DTNode × Nat) => KCudfData.Same d0 r.1)
    | with_reducible apply Post.bind_post (Q := fun (r : Bool × KCudfData) => KCudfData.Same d0 r.2)
    | with_reducible apply Post.bind_post (Q := fun (r : KCudfData × DTNode) => KCudfData.Same d0 r.1)
    | with_reducible apply Post.bind_post (Q := fun (r : KCudfData × TranslatorStats) => KCudfData.Same d0 r.1)
    | with_reducible apply Post.bind_post (Q := fun _ => True)
    | intro _
    | split)

end SameLemmas

/-! ## The values of the maps of versions -/

section ValsLemmas

theorem valsOld_markInstall (n0 : Nat) (d : KCudfData) (p : Nat) (st : Bool)
    (h : KCudfData.ValsOld n0 d) :
    Post (KCudfData.ValsOld n0) (d.markInstall p st) := by
  unfold KCudfData.markInstall
  try simp only [KCudfData.newDisjunctionObject, KCudfData.specvAt, KCudfData.concreteAt]
  repeat (first
    | assumption
    | exact KCudfData.ValsBelow.specvAt (by assumption) _ _
    | exact KCudfData.ValsBelow.concreteAt (by assumption) _ _
    | exact KCudfData.ValsBelow.indexConcrete (by assumption) _
    | exact KCudfData.ValsBelow.concreteAt (KCudfData.ValsBelow.indexConcrete (by assumption) _) _ _
    | exact KCudfData.ValsBelow.concreteAt (KCudfData.ValsBelow.concreteAt (by assumption) _ _) _ _
    | exact Post.throw_post _
    | (apply Post.pure_post; first | assumption | exact KCudfData.ValsBelow.specvAt (by assumption) _ _ | exact KCudfData.ValsBelow.concreteAt (by assumption) _ _ | exact KCudfData.ValsBelow.indexConcrete (by assumption) _ | exact KCudfData.ValsBelow.concreteAt (KCudfData.ValsBelow.indexConcrete (by assumption) _) _ _ | exact KCudfData.ValsBelow.concreteAt (KCudfData.ValsBelow.concreteAt (by assumption) _ _) _ _)
    | with_reducible apply Post.foldlM_post (Q := KCudfData.ValsOld n0)
    | with_reducible apply Post.foldlM_post (Q := fun (r : KCudfData × Marks) => KCudfData.ValsOld n0 r.1)
    | with_reducible apply Post.foldlM_post (Q := fun (r : KCudfData × Nat) => KCudfData.ValsOld n0 r.1)
    | with_reducible apply Post.foldlM_post (Q := fun (r : KCudfData × DTNode × Marks) => KCudfData.ValsOld n0 r.1)
    | with_reducible apply Post.foldlM_post (Q := fun (r : KCudfData × DTNode × Nat) => KCudfData.ValsOld n0 r.1)
    | exact Post.trivial _
    | with_reducible apply Post.bind_post (Q := KCudfData.ValsOld n0)
    | with_reducible apply Post.bind_post (Q := fun (r : Nat × KCudfData) => KCudfData.ValsOld n0 r.2)
    | with_reducible apply Post.bind_post (Q := fun (r : KCudfData × DTNode × Marks) => KCudfData.ValsOld n0 r.1)
    | with_reducible apply Post.bind_post (Q := fun (r : KCudfData × Marks) => KCudfData.ValsOld n0 r.1)
    | with_reducible apply Post.bind_post (Q := fun (r : KCudfData × Nat) => KCudfData.ValsOld n0 r.1)
    | with_reducible apply Post.bind_post (Q := fun (r : KCudfData × DTNode × Nat) => KCudfData.ValsOld n0 r.1)
    | with_reducible apply Post.bind_post (Q := fun (r : Bool × KCudfData) => KCudfData.ValsOld n0 r.2)
    | with_reducible apply Post.bind_post (Q := fun (r : KCudfData × DTNode) => KCudfData.ValsOld n0 r.1)
    | with_reducible apply Post.bind_post (Q := fun (r : KCudfData × TranslatorStats) => KCudfData.ValsOld n0 r.1)
    | with_reducible apply Post.bind_post (Q := fun _ => True)
    | intro _
    | split)

theorem valsOld_markKeep (n0 : Nat) (d : KCudfData) (p : Nat) (st : Bool)
    (h : KCudfData.ValsOld n0 d) :
    Post (KCudfData.ValsOld n0) (d.markKeep p st) := by
  unfold KCudfData.markKeep
  try simp only [KCudfData.newDisjunctionObject, KCudfData.specvAt, KCudfData.concreteAt]
  repeat (first
    | assumption
    | exact KCudfData.ValsBelow.specvAt (by assumption) _ _
    | exact KCudfData.ValsBelow.concreteAt (by assumption) _ _
    | exact KCudfData.ValsBelow.indexConcrete (by assumption) _
    | exact KCudfData.ValsBelow.concreteAt (KCudfData.ValsBelow.indexConcrete (by assumption) _) _ _
    | exact KCudfData.ValsBelow.concreteAt (KCudfData.ValsBelow.concreteAt (by assumption) _ _) _ _
    | exact Post.throw_post _
    | (apply Post.pure_post; first | assumption | exact KCudfData.ValsBelow.specvAt (by assumption) _ _ | exact KCudfData.ValsBelow.concreteAt (by assumption) _ _ | exact KCudfData.ValsBelow.indexConcrete (by assumption) _ | exact KCudfData.ValsBelow.concreteAt (KCudfData.ValsBelow.indexConcrete (by assumption) _) _ _ | exact KCudfData.ValsBelow.concreteAt (KCudfData.ValsBelow.concreteAt (by assumption) _ _) _ _)
    | with_reducible apply Post.foldlM_post (Q := KCudfData.ValsOld n0)
    | with_reducible apply Post.foldlM_post (Q := fun (r : KCudfData × Marks) => KCudfData.ValsOld n0 r.1)
    | with_reducible apply Post.foldlM_post (Q := fun (r : KCudfData × Nat) => KCudfData.ValsOld n0 r.1)
    | with_reducible apply Post.foldlM_post (Q := fun (r : KCudfData × DTNode × Marks) => KCudfData.ValsOld n0 r.1)
    | with_reducible apply Post.foldlM_post (Q := fun (r : KCudfData × DTNode × Nat) => KCudfData.ValsOld n0 r.1)
    | exact Post.trivial _
    | with_reducible apply Post.bind_post (Q := KCudfData.ValsOld n0)
    | with_reducible apply Post.bind_post (Q := fun (r : Nat × KCudfData) => KCudfData.ValsOld n0 r.2)
    | with_reducible apply Post.bind_post (Q := fun (r : KCudfData × DTNode × Marks) => KCudfData.ValsOld n0 r.1)
    | with_reducible apply Post.bind_post (Q := fun (r : KCudfData × Marks) => KCudfData.ValsOld n0 r.1)
    | with_reducible apply Post.bind_post (Q := fun (r : KCudfData × Nat) => KCudfData.ValsOld n0 r.1)
    | with_reducible apply Post.bind_post (Q := fun (r : KCudfData × DTNode × Nat) => KCudfData.ValsOld n0 r.1)
    | with_reducible apply Post.bind_post (Q := fun (r : Bool × KCudfData) => KCudfData.ValsOld n0 r.2)
    | with_reducible apply Post.bind_post (Q := fun (r : KCudfData × DTNode) => KCudfData.ValsOld n0 r.1)
    | with_reducible apply Post.bind_post (Q := fun (r : KCudfData × TranslatorStats) => KCudfData.ValsOld n0 r.1)
    | with_reducible apply Post.bind_post (Q := fun _ => True)
    | intro _
    | split)

theorem valsOld_addConflict (n0 : Nat) (d : KCudfData) (p c : Nat) (h : KCudfData.ValsOld n0 d) :
    Post (KCudfData.ValsOld n0) (d.addConflict p c) := by
  unfold KCudfData.addConflict
  try simp only [KCudfData.newDisjunctionObject, KCudfData.specvAt, KCudfData.concreteAt]
  repeat (first
    | assumption
    | exact KCudfData.ValsBelow.specvAt (by assumption) _ _
    | exact KCudfData.ValsBelow.concreteAt (by assumption) _ _
    | exact KCudfData.ValsBelow.indexConcrete (by assumption) _
    | exact KCudfData.ValsBelow.concreteAt (KCudfData.ValsBelow.indexConcrete (by assumption) _) _ _
    | exact KCudfData.ValsBelow.concreteAt (KCudfData.ValsBelow.concreteAt (by assumption) _ _) _ _
    | exact Post.throw_post _
    | (apply Post.pure_post; first | assumption | exact KCudfData.ValsBelow.specvAt (by assumption) _ _ | exact KCudfData.ValsBelow.concreteAt (by assumption) _ _ | exact KCudfData.ValsBelow.indexConcrete (by assumption) _ | exact KCudfData.ValsBelow.concreteAt (KCudfData.ValsBelow.indexConcrete (by assumption) _) _ _ | exact KCudfData.ValsBelow.concreteAt (KCudfData.ValsBelow.concreteAt (by assumption) _ _) _ _)
    | with_reducible apply Post.foldlM_post (Q := KCudfData.ValsOld n0)
    | with_reducible apply Post.foldlM_post (Q := fun (r : KCudfData × Marks) => KCudfData.ValsOld n0 r.1)
    | with_reducible apply Post.foldlM_post (Q := fun (r : KCudfData × Nat) => KCudfData.ValsOld n0 r.1)
    | with_reducible apply Post.foldlM_post (Q := fun (r : KCudfData × DTNode × Marks) => KCudfData.ValsOld n0 r.1)
    | with_reducible apply Post.foldlM_post (Q := fun (r : KCudfData × DTNode × Nat) => KCudfData.ValsOld n0 r.1)
    | exact Post.trivial _
    | with_reducible apply Post.bind_post (Q := KCudfData.ValsOld n0)
    | with_reducible apply Post.bind_post (Q := fun (r : Nat × KCudfData) => KCudfData.ValsOld n0 r.2)
    | with_reducible apply Post.bind_post (Q := fun (r : KCudfData × DTNode × Marks) => KCudfData.ValsOld n0 r.1)
    | with_reducible apply Post.bind_post (Q := fun (r : KCudfData × Marks) => KCudfData.ValsOld n0 r.1)
    | with_reducible apply Post.bind_post (Q := fun (r : KCudfData × Nat) => KCudfData.ValsOld n0 r.1)
    | with_reducible apply Post.bind_post (Q := fun (r : KCudfData × DTNode × Nat) => KCudfData.ValsOld n0 r.1)
    | with_reducible apply Post.bind_post (Q := fun (r : Bool × KCudfData) => KCudfData.ValsOld n0 r.2)
    | with_reducible apply Post.bind_post (Q := fun (r : KCudfData × DTNode) => KCudfData.ValsOld n0 r.1)
    | with_reducible apply Post.bind_post (Q := fun (r : KCudfData × TranslatorStats) => KCudfData.ValsOld n0 r.1)
    | with_reducible apply Post.bind_post (Q := fun _ => True)
    | intro _
    | split)

theorem valsOld_addDependency (n0 : Nat) (d : KCudfData) (p q : Nat) (h : KCudfData.ValsOld n0 d) :
    Post (KCudfData.ValsOld n0) (d.addDependency p q) := by
  unfold KCudfData.addDependency
  try simp only [KCudfData.newDisjunctionObject, KCudfData.specvAt, KCudfData.concreteAt]
  repeat (first
    | assumption
    | exact KCudfData.ValsBelow.specvAt (by assumption) _ _
    | exact KCudfData.ValsBelow.concreteAt (by assumption) _ _
    | exact KCudfData.ValsBelow.indexConcrete (by assumption) _
    | exact KCudfData.ValsBelow.concreteAt (KCudfData.ValsBelow.indexConcrete (by assumption) _) _ _
    | exact KCudfData.ValsBelow.concreteAt (KCudfData.ValsBelow.concreteAt (by assumption) _ _) _ _
    | exact Post.throw_post _
    | (apply Post.pure_post; first | assumption | exact KCudfData.ValsBelow.specvAt (by assumption) _ _ | exact KCudfData.ValsBelow.concreteAt (by assumption) _ _ | exact KCudfData.ValsBelow.indexConcrete (by assumption) _ | exact KCudfData.ValsBelow.concreteAt (KCudfData.ValsBelow.indexConcrete (by assumption) _) _ _ | exact KCudfData.ValsBelow.concreteAt (KCudfData.ValsBelow.concreteAt (by assumption) _ _) _ _)
    | with_reducible apply Post.foldlM_post (Q := KCudfData.ValsOld n0)
    | with_reducible apply Post.foldlM_post (Q := fun (r : KCudfData × Marks) => KCudfData.ValsOld n0 r.1)
    | with_reducible apply Post.foldlM_post (Q := fun (r : KCudfData × Nat) => KCudfData.ValsOld n0 r.1)
    | with_reducible apply Post.foldlM_post (Q := fun (r : KCudfData × DTNode × Marks) => KCudfData.ValsOld n0 r.1)
    | with_reducible apply Post.foldlM_post (Q := fun (r : KCudfData × DTNode × Nat) => KCudfData.ValsOld n0 r.1)
    | exact Post.trivial _
    | with_reducible apply Post.bind_post (Q := KCudfData.ValsOld n0)
    | with_reducible apply Post.bind_post (Q := fun (r : Nat × KCudfData) => KCudfData.ValsOld n0 r.2)
    | with_reducible apply Post.bind_post (Q := fun (r : KCudfData × DTNode × Marks) => KCudfData.ValsOld n0 r.1)
    | with_reducible apply Post.bind_post (Q := fun (r : KCudfData × Marks) => KCudfData.ValsOld n0 r.1)
    | with_reducible apply Post.bind_post (Q := fun (r : KCudfData × Nat) => KCudfData.ValsOld n0 r.1)
    | with_reducible apply Post.bind_post (Q := fun (r : KCudfData × DTNode × Nat) => KCudfData.ValsOld n0 r.1)
    | with_reducible apply Post.bind_post (Q := fun (r : Bool × KCudfData) => KCudfData.ValsOld n0 r.2)
    | with_reducible apply Post.bind_post (Q := fun (r : KCudfData × DTNode) => KCudfData.ValsOld n0 r.1)
    | with_reducible apply Post.bind_post (Q := fun (r : KCudfData × TranslatorStats) => KCudfData.ValsOld n0 r.1)
    | with_reducible apply Post.bind_post (Q := fun _ => True)
    | intro _
    | split)

theorem valsOld_addProvider (n0 : Nat) (d : KCudfData) (p q : Nat) (h : KCudfData.ValsOld n0 d) :
    Post (KCudfData.ValsOld n0) (d.addProvider p q) := by
  unfold KCudfData.addProvider
  try simp only [KCudfData.newDisjunctionObject, KCudfData.specvAt, KCudfData.concreteAt]
  repeat (first
    | assumption
    | exact KCudfData.ValsBelow.specvAt (by assumption) _ _
    | exact KCudfData.ValsBelow.concreteAt (by assumption) _ _
    | exact KCudfData.ValsBelow.indexConcrete (by assumption) _
    | exact KCudfData.ValsBelow.concreteAt (KCudfData.ValsBelow.indexConcrete (by assumption) _) _ _
    | exact KCudfData.ValsBelow.concreteAt (KCudfData.ValsBelow.concreteAt (by assumption) _ _) _ _
    | exact Post.throw_post _
    | (apply Post.pure_post; first | assumption | exact KCudfData.ValsBelow.specvAt (by assumption) _ _ | exact KCudfData.ValsBelow.concreteAt (by assumption) _ _ | exact KCudfData.ValsBelow.indexConcrete (by assumption) _ | exact KCudfData.ValsBelow.concreteAt (KCudfData.ValsBelow.indexConcrete (by assumption) _) _ _ | exact KCudfData.ValsBelow.concreteAt (KCudfData.ValsBelow.concreteAt (by assumption) _ _) _ _)
    | with_reducible apply Post.foldlM_post (Q := KCudfData.ValsOld n0)
    | with_reducible apply Post.foldlM_post (Q := fun (r : KCudfData × Marks) => KCudfData.ValsOld n0 r.1)
    | with_reducible apply Post.foldlM_post (Q := fun (r : KCudfData × Nat) => KCudfData.ValsOld n0 r.1)
    | with_reducible apply Post.foldlM_post (Q := fun (r : KCudfData × DTNode × Marks) => KCudfData.ValsOld n0 r.1)
    | with_reducible apply Post.foldlM_post (Q := fun (r : KCudfData × DTNode × Nat) => KCudfData.ValsOld n0 r.1)
    | exact Post.trivial _
    | with_reducible apply Post.bind_post (Q := KCudfData.ValsOld n0)
    | with_reducible apply Post.bind_post (Q := fun (r : Nat × KCudfData) => KCudfData.ValsOld n0 r.2)
    | with_reducible apply Post.bind_post (Q := fun (r : KCudfData × DTNode × Marks) => KCudfData.ValsOld n0 r.1)
    | with_reducible apply Post.bind_post (Q := fun (r : KCudfData × Marks) => KCudfData.ValsOld n0 r.1)
    | with_reducible apply Post.bind_post (Q := fun (r : KCudfData × Nat) => KCudfData.ValsOld n0 r.1)
    | with_reducible apply Post.bind_post (Q := fun (r : KCudfData × DTNode × Nat) => KCudfData.ValsOld n0 r.1)
    | with_reducible apply Post.bind_post (Q := fun (r : Bool × KCudfData) => KCudfData.ValsOld n0 r.2)
    | with_reducible apply Post.bind_post (Q := fun (r : KCudfData × DTNode) => KCudfData.ValsOld n0 r.1)
    | with_reducible apply Post.bind_post (Q := fun (r : KCudfData × TranslatorStats) => KCudfData.ValsOld n0 r.1)
    | with_reducible apply Post.bind_post (Q := fun _ => True)
    | intro _
    | split)

theorem valsOld_register (n0 : Nat) (d : KCudfData) (p : Nat) (h : KCudfData.ValsOld n0 d) :
    Post (KCudfData.ValsOld n0) (d.register p) := by
  unfold KCudfData.register
  try simp only [KCudfData.newDisjunctionObject, KCudfData.specvAt, KCudfData.concreteAt]
  repeat (first
    | assumption
    | exact KCudfData.ValsBelow.specvAt (by assumption) _ _
    | exact KCudfData.ValsBelow.concreteAt (by assumption) _ _
    | exact KCudfData.ValsBelow.indexConcrete (by assumption) _
    | exact KCudfData.ValsBelow.concreteAt (KCudfData.ValsBelow.indexConcrete (by assumption) _) _ _
    | exact KCudfData.ValsBelow.concreteAt (KCudfData.ValsBelow.concreteAt (by assumption) _ _) _ _
    | exact Post.throw_post _
    | (apply Post.pure_post; first | assumption | exact KCudfData.ValsBelow.specvAt (by assumption) _ _ | exact KCudfData.ValsBelow.concreteAt (by assumption) _ _ | exact KCudfData.ValsBelow.indexConcrete (by assumption) _ | exact KCudfData.ValsBelow.concreteAt (KCudfData.ValsBelow.indexConcrete (by assumption) _) _ _ | exact KCudfData.ValsBelow.concreteAt (KCudfData.ValsBelow.concreteAt (by assumption) _ _) _ _)
    | with_reducible apply Post.foldlM_post (Q := KCudfData.ValsOld n0)
    | with_reducible apply Post.foldlM_post (Q := fun (r : KCudfData × Marks) => KCudfData.ValsOld n0 r.1)
    | with_reducible apply Post.foldlM_post (Q := fun (r : KCudfData × Nat) => KCudfData.ValsOld n0 r.1)
    | with_reducible apply Post.foldlM_post (Q := fun (r : KCudfData × DTNode × Marks) => KCudfData.ValsOld n0 r.1)
    | with_reducible apply Post.foldlM_post (Q := fun (r : KCudfData × DTNode × Nat) => KCudfData.ValsOld n0 r.1)
    | exact Post.trivial _
    | with_reducible apply Post.bind_post (Q := KCudfData.ValsOld n0)
    | with_reducible apply Post.bind_post (Q := fun (r : Nat × KCudfData) => KCudfData.ValsOld n0 r.2)
    | with_reducible apply Post.bind_post (Q := fun (r : KCudfData × DTNode × Marks) => KCudfData.ValsOld n0 r.1)
    | with_reducible apply Post.bind_post (Q := fun (r : KCudfData × Marks) => KCudfData.ValsOld n0 r.1)
    | with_reducible apply Post.bind_post (Q := fun (r : KCudfData × Nat) => KCudfData.ValsOld n0 r.1)
    | with_reducible apply Post.bind_post (Q := fun (r : KCudfData × DTNode × Nat) => KCudfData.ValsOld n0 r.1)
    | with_reducible apply Post.bind_post (Q := fun (r : Bool × KCudfData) => KCudfData.ValsOld n0 r.2)
    | with_reducible apply Post.bind_post (Q := fun (r : KCudfData × DTNode) => KCudfData.ValsOld n0 r.1)
    | with_reducible apply Post.bind_post (Q := fun (r : KCudfData × TranslatorStats) => KCudfData.ValsOld n0 r.1)
    | with_reducible apply Post.bind_post (Q := fun _ => True)
    | intro _
    | split)

theorem valsOld_flatFrom (n0 : Nat) (fuel : Nat) (d : KCudfData) (p : Nat)
    (h : KCudfData.ValsOld n0 d) :
    Post (KCudfData.ValsOld n0) (KCudfData.flatFrom fuel d p) := by
  induction fuel generalizing d p with
  | zero => exact Post.throw_post _
  | succ n ih =>
    unfold KCudfData.flatFrom
    try simp only [KCudfData.newDisjunctionObject, KCudfData.specvAt, KCudfData.concreteAt]
    repeat (first
      | assumption
      | exact KCudfData.ValsBelow.specvAt (by assumption) _ _
      | exact KCudfData.ValsBelow.concreteAt (by assumption) _ _
      | exact KCudfData.ValsBelow.indexConcrete (by assumption) _
      | exact KCudfData.ValsBelow.concreteAt (KCudfData.ValsBelow.indexConcrete (by assumption) _) _ _
      | exact KCudfData.ValsBelow.concreteAt (KCudfData.ValsBelow.concreteAt (by assumption) _ _) _ _
      | exact Post.throw_post _
      | (apply Post.pure_post; first | assumption | exact KCudfData.ValsBelow.specvAt (by assumption) _ _ | exact KCudfData.ValsBelow.concreteAt (by assumption) _ _ | exact KCudfData.ValsBelow.indexConcrete (by assumption) _ | exact KCudfData.ValsBelow.concreteAt (KCudfData.ValsBelow.indexConcrete (by assumption) _) _ _ | exact KCudfData.ValsBelow.concreteAt (KCudfData.ValsBelow.concreteAt (by assumption) _ _) _ _)
      | (apply ih; first | assumption | exact KCudfData.ValsBelow.specvAt (by assumption) _ _ | exact KCudfData.ValsBelow.concreteAt (by assumption) _ _ | exact KCudfData.ValsBelow.indexConcrete (by assumption) _ | exact KCudfData.ValsBelow.concreteAt (KCudfData.ValsBelow.indexConcrete (by assumption) _) _ _ | exact KCudfData.ValsBelow.concreteAt (KCudfData.ValsBelow.concreteAt (by assumption) _ _) _ _)
      | with_reducible apply Post.foldlM_post (Q := KCudfData.ValsOld n0)
      | with_reducible apply Post.foldlM_post (Q := fun (r : KCudfData × Marks) => KCudfData.ValsOld n0 r.1)
      | with_reducible apply Post.foldlM_post (Q := fun (r : KCudfData × Nat) => KCudfData.ValsOld n0 r.1)
      | with_reducible apply Post.foldlM_post (Q := fun (r : KCudfData × DTNode × Marks) => KCudfData.ValsOld n0 r.1)
      | with_reducible apply Post.foldlM_post (Q := fun (r : KCudfData × DTNode × Nat) => KCudfData.ValsOld n0 r.1)
      | exact Post.trivial _
      | with_reducible apply Post.bind_post (Q := KCudfData.ValsOld n0)
      | with_reducible apply Post.bind_post (Q := fun (r : Nat × KCudfData) => KCudfData.ValsOld n0 r.2)
      | with_reducible apply Post.bind_post (Q := fun (r : KCudfData × DTNode × Marks) => KCudfData.ValsOld n0 r.1)
      | with_reducible apply Post.bind_post (Q := fun (r : KCudfData × Marks) => KCudfData.ValsOld n0 r.1)
      | with_reducible apply Post.bind_post (Q := fun (r : KCudfData × Nat) => KCudfData.ValsOld n0 r.1)
      | with_reducible apply Post.bind_post (Q := fun (r : KCudfData × DTNode × Nat) => KCudfData.ValsOld n0 r.1)
      | with_reducible apply Post.bind_post (Q := fun (r : Bool × KCudfData) => KCudfData.ValsOld n0 r.2)
      | with_reducible apply Post.bind_post (Q := fun (r : KCudfData × DTNode) => KCudfData.ValsOld n0 r.1)
      | with_reducible apply Post.bind_post (Q := fun (r : KCudfData × TranslatorStats) => KCudfData.ValsOld n0 r.1)
      | with_reducible apply Post.bind_post (Q := fun _ => True)
      | intro _
      | split)

theorem valsOld_flat (n0 : Nat) (d : KCudfData) (p : Nat) (h : KCudfData.ValsOld n0 d) :
    Post (KCudfData.ValsOld n0) (d.flat p) := by
  unfold KCudfData.flat
  try simp only [KCudfData.newDisjunctionObject, KCudfData.specvAt, KCudfData.concreteAt]
  repeat (first
    | assumption
    | exact KCudfData.ValsBelow.specvAt (by assumption) _ _
    | exact KCudfData.ValsBelow.concreteAt (by assumption) _ _
    | exact KCudfData.ValsBelow.indexConcrete (by assumption) _
    | exact KCudfData.ValsBelow.concreteAt (KCudfData.ValsBelow.indexConcrete (by assumption) _) _ _
    | exact KCudfData.ValsBelow.concreteAt (KCudfData.ValsBelow.concreteAt (by assumption) _ _) _ _
    | exact Post.throw_post _
    | (apply Post.pure_post; first | assumption | exact KCudfData.ValsBelow.specvAt (by assumption) _ _ | exact KCudfData.ValsBelow.concreteAt (by assumption) _ _ | exact KCudfData.ValsBelow.indexConcrete (by assumption) _ | exact KCudfData.ValsBelow.concreteAt (KCudfData.ValsBelow.indexConcrete (by assumption) _) _ _ | exact KCudfData.ValsBelow.concreteAt (KCudfData.ValsBelow.concreteAt (by assumption) _ _) _ _)
    | (apply valsOld_flatFrom; first | assumption | exact KCudfData.ValsBelow.specvAt (by assumption) _ _ | exact KCudfData.ValsBelow.concreteAt (by assumption) _ _ | exact KCudfData.ValsBelow.indexConcrete (by assumption) _ | exact KCudfData.ValsBelow.concreteAt (KCudfData.ValsBelow.indexConcrete (by assumption) _) _ _ | exact KCudfData.ValsBelow.concreteAt (KCudfData.ValsBelow.concreteAt (by assumption) _ _) _ _)
    | with_reducible apply Post.foldlM_post (Q := KCudfData.ValsOld n0)
    | with_reducible apply Post.foldlM_post (Q := fun (r : KCudfData × Marks) => KCudfData.ValsOld n0 r.1)
    | with_reducible apply Post.foldlM_post (Q := fun (r : KCudfData × Nat) => KCudfData.ValsOld n0 r.1)
    | with_reducible apply Post.foldlM_post (Q := fun (r : KCudfData × DTNode × Marks) => KCudfData.ValsOld n0 r.1)
    | with_reducible apply Post.foldlM_post (Q := fun (r : KCudfData × DTNode × Nat) => KCudfData.ValsOld n0 r.1)
    | exact Post.trivial _
    | with_reducible apply Post.bind_post (Q := KCudfData.ValsOld n0)
    | with_reducible apply Post.bind_post (Q := fun (r : Nat × KCudfData) => KCudfData.ValsOld n0 r.2)
    | with_reducible apply Post.bind_post (Q := fun (r : KCudfData × DTNode × Marks) => KCudfData.ValsOld n0 r.1)
    | with_reducible apply Post.bind_post (Q := fun (r : KCudfData × Marks) => KCudfData.ValsOld n0 r.1)
    | with_reducible apply Post.bind_post (Q := fun (r : KCudfData × Nat) => KCudfData.ValsOld n0 r.1)
    | with_reducible apply Post.bind_post (Q := fun (r : KCudfData × DTNode × Nat) => KCudfData.ValsOld n0 r.1)
    | with_reducible apply Post.bind_post (Q := fun (r : Bool × KCudfData) => KCudfData.ValsOld n0 r.2)
    | with_reducible apply Post.bind_post (Q := fun (r : KCudfData × DTNode) => KCudfData.ValsOld n0 r.1)
    | with_reducible apply Post.bind_post (Q := fun (r : KCudfData × TranslatorStats) => KCudfData.ValsOld n0 r.1)
    | with_reducible apply Post.bind_post (Q := fun _ => True)
    | intro _
    | split)

theorem valsOld_setForwardFrom (n0 : Nat) (fuel : Nat) (d : KCudfData) (a p : Nat)
    (h : KCudfData.ValsOld n0 d) :
    Post (KCudfData.ValsOld n0) (KCudfData.setForwardFrom fuel d a p) := by
  induction fuel generalizing d a with
  | zero => exact Post.throw_post _
  | succ n ih =>
    unfold KCudfData.setForwardFrom
    try simp only [KCudfData.newDisjunctionObject, KCudfData.specvAt, KCudfData.concreteAt]
    repeat (first
      | assumption
      | exact KCudfData.ValsBelow.specvAt (by assumption) _ _
      | exact KCudfData.ValsBelow.concreteAt (by assumption) _ _
      | exact KCudfData.ValsBelow.indexConcrete (by assumption) _
      | exact KCudfData.ValsBelow.concreteAt (KCudfData.ValsBelow.indexConcrete (by assumption) _) _ _
      | exact KCudfData.ValsBelow.concreteAt (KCudfData.ValsBelow.concreteAt (by assumption) _ _) _ _
      | exact Post.throw_post _
      | (apply Post.pure_post; first | assumption | exact KCudfData.ValsBelow.specvAt (by assumption) _ _ | exact KCudfData.ValsBelow.concreteAt (by assumption) _ _ | exact KCudfData.ValsBelow.indexConcrete (by assumption) _ | exact KCudfData.ValsBelow.concreteAt (KCudfData.ValsBelow.indexConcrete (by assumption) _) _ _ | exact KCudfData.ValsBelow.concreteAt (KCudfData.ValsBelow.concreteAt (by assumption) _ _) _ _)
      | (apply ih; first | assumption | exact KCudfData.ValsBelow.specvAt (by assumption) _ _ | exact KCudfData.ValsBelow.concreteAt (by assumption) _ _ | exact KCudfData.ValsBelow.indexConcrete (by assumption) _ | exact KCudfData.ValsBelow.concreteAt (KCudfData.ValsBelow.indexConcrete (by assumption) _) _ _ | exact KCudfData.ValsBelow.concreteAt (KCudfData.ValsBelow.concreteAt (by assumption) _ _) _ _)
      | (apply valsOld_addConflict; first | assumption | exact KCudfData.ValsBelow.specvAt (by assumption) _ _ | exact KCudfData.ValsBelow.concreteAt (by assumption) _ _ | exact KCudfData.ValsBelow.indexConcrete (by assumption) _ | exact KCudfData.ValsBelow.concreteAt (KCudfData.ValsBelow.indexConcrete (by assumption) _) _ _ | exact KCudfData.ValsBelow.concreteAt (KCudfData.ValsBelow.concreteAt (by assumption) _ _) _ _)
      | (apply valsOld_addDependency; first | assumption | exact KCudfData.ValsBelow.specvAt (by assumption) _ _ | exact KCudfData.ValsBelow.concreteAt (by assumption) _ _ | exact KCudfData.ValsBelow.indexConcrete (by assumption) _ | exact KCudfData.ValsBelow.concreteAt (KCudfData.ValsBelow.indexConcrete (by assumption) _) _ _ | exact KCudfData.ValsBelow.concreteAt (KCudfData.ValsBelow.concreteAt (by assumption) _ _) _ _)
      | with_reducible apply Post.foldlM_post (Q := KCudfData.ValsOld n0)
      | with_reducible apply Post.foldlM_post (Q := fun (r : KCudfData × Marks) => KCudfData.ValsOld n0 r.1)
      | with_reducible apply Post.foldlM_post (Q := fun (r : KCudfData × Nat) => KCudfData.ValsOld n0 r.1)
      | with_reducible apply Post.foldlM_post (Q := fun (r : KCudfData × DTNode × Marks) => KCudfData.ValsOld n0 r.1)
      | with_reducible apply Post.foldlM_post (Q := fun (r : KCudfData × DTNode × Nat) => KCudfData.ValsOld n0 r.1)
      | exact Post.trivial _
      | with_reducible apply Post.bind_post (Q := KCudfData.ValsOld n0)
      | with_reducible apply Post.bind_post (Q := fun (r : Nat × KCudfData) => KCudfData.ValsOld n0 r.2)
      | with_reducible apply Post.bind_post (Q := fun (r : KCudfData × DTNode × Marks) => KCudfData.ValsOld n0 r.1)
      | with_reducible apply Post.bind_post (Q := fun (r : KCudfData × Marks) => KCudfData.ValsOld n0 r.1)
      | with_reducible apply Post.bind_post (Q := fun (r : KCudfData × Nat) => KCudfData.ValsOld n0 r.1)
      | with_reducible apply Post.bind_post (Q := fun (r : KCudfData × DTNode × Nat) => KCudfData.ValsOld n0 r.1)
      | with_reducible apply Post.bind_post (Q := fun (r : Bool × KCudfData) => KCudfData.ValsOld n0 r.2)
      | with_reducible apply Post.bind_post (Q := fun (r : KCudfData × DTNode) => KCudfData.ValsOld n0 r.1)
      | with_reducible apply Post.bind_post (Q := fun (r : KCudfData × TranslatorStats) => KCudfData.ValsOld n0 r.1)
      | with_reducible apply Post.bind_post (Q := fun _ => True)
      | intro _
      | split)

theorem valsOld_setForward (n0 : Nat) (d : KCudfData) (a p : Nat) (h : KCudfData.ValsOld n0 d) :
    Post (KCudfData.ValsOld n0) (d.setForward a p) := by
  unfold KCudfData.setForward
  try simp only [KCudfData.newDisjunctionObject, KCudfData.specvAt, KCudfData.concreteAt]
  repeat (first
    | assumption
    | exact KCudfData.ValsBelow.specvAt (by assumption) _ _
    | exact KCudfData.ValsBelow.concreteAt (by assumption) _ _
    | exact KCudfData.ValsBelow.indexConcrete (by assumption) _
    | exact KCudfData.ValsBelow.concreteAt (KCudfData.ValsBelow.indexConcrete (by assumption) _) _ _
    | exact KCudfData.ValsBelow.concreteAt (KCudfData.ValsBelow.concreteAt (by assumption) _ _) _ _
    | exact Post.throw_post _
    | (apply Post.pure_post; first | assumption | exact KCudfData.ValsBelow.specvAt (by assumption) _ _ | exact KCudfData.ValsBelow.concreteAt (by assumption) _ _ | exact KCudfData.ValsBelow.indexConcrete (by assumption) _ | exact KCudfData.ValsBelow.concreteAt (KCudfData.ValsBelow.indexConcrete (by assumption) _) _ _ | exact KCudfData.ValsBelow.concreteAt (KCudfData.ValsBelow.concreteAt (by assumption) _ _) _ _)
    | (apply valsOld_setForwardFrom; first | assumption | exact KCudfData.ValsBelow.specvAt (by assumption) _ _ | exact KCudfData.ValsBelow.concreteAt (by assumption) _ _ | exact KCudfData.ValsBelow.indexConcrete (by assumption) _ | exact KCudfData.ValsBelow.concreteAt (KCudfData.ValsBelow.indexConcrete (by assumption) _) _ _ | exact KCudfData.ValsBelow.concreteAt (KCudfData.ValsBelow.concreteAt (by assumption) _ _) _ _)
    | with_reducible apply Post.foldlM_post (Q := KCudfData.ValsOld n0)
    | with_reducible apply Post.foldlM_post (Q := fun (r : KCudfData × Marks) => KCudfData.ValsOld n0 r.1)
    | with_reducible apply Post.foldlM_post (Q := fun (r : KCudfData × Nat) => KCudfData.ValsOld n0 r.1)
    | with_reducible apply Post.foldlM_post (Q := fun (r : KCudfData × DTNode × Marks) => KCudfData.ValsOld n0 r.1)
    | with_reducible apply Post.foldlM_post (Q := fun (r : KCudfData × DTNode × Nat) => KCudfData.ValsOld n0 r.1)
    | exact Post.trivial _
    | with_reducible apply Post.bind_post (Q := KCudfData.ValsOld n0)
    | with_reducible apply Post.bind_post (Q := fun (r : Nat × KCudfData) => KCudfData.ValsOld n0 r.2)
    | with_reducible apply Post.bind_post (Q := fun (r : KCudfData × DTNode × Marks) => KCudfData.ValsOld n0 r.1)
    | with_reducible apply Post.bind_post (Q := fun (r : KCudfData × Marks) => KCudfData.ValsOld n0 r.1)
    | with_reducible apply Post.bind_post (Q := fun (r : KCudfData × Nat) => KCudfData.ValsOld n0 r.1)
    | with_reducible apply Post.bind_post (Q := fun (r : KCudfData × DTNode × Nat) => KCudfData.ValsOld n0 r.1)
    | with_reducible apply Post.bind_post (Q := fun (r : Bool × KCudfData) => KCudfData.ValsOld n0 r.2)
    | with_reducible apply Post.bind_post (Q := fun (r : KCudfData × DTNode) => KCudfData.ValsOld n0 r.1)
    | with_reducible apply Post.bind_post (Q := fun (r : KCudfData × TranslatorStats) => KCudfData.ValsOld n0 r.1)
    | with_reducible apply Post.bind_post (Q := fun _ => True)
    | intro _
    | split)

theorem valsOld_newDisjunction (n0 : Nat) (d : KCudfData) (s : String)
    (h : KCudfData.ValsOld n0 d) :
    Post (fun r => KCudfData.ValsOld n0 r.2) (d.newDisjunction s) := by
  unfold KCudfData.newDisjunction
  try simp only [KCudfData.newDisjunctionObject, KCudfData.specvAt, KCudfData.concreteAt]
  repeat (first
    | assumption
    | exact KCudfData.ValsBelow.specvAt (by assumption) _ _
    | exact KCudfData.ValsBelow.concreteAt (by assumption) _ _
    | exact KCudfData.ValsBelow.indexConcrete (by assumption) _
    | exact KCudfData.ValsBelow.concreteAt (KCudfData.ValsBelow.indexConcrete (by assumption) _) _ _
    | exact KCudfData.ValsBelow.concreteAt (KCudfData.ValsBelow.concreteAt (by assumption) _ _) _ _
    | exact Post.throw_post _
    | (apply Post.pure_post; first | assumption | exact KCudfData.ValsBelow.specvAt (by assumption) _ _ | exact KCudfData.ValsBelow.concreteAt (by assumption) _ _ | exact KCudfData.ValsBelow.indexConcrete (by assumption) _ | exact KCudfData.ValsBelow.concreteAt (KCudfData.ValsBelow.indexConcrete (by assumption) _) _ _ | exact KCudfData.ValsBelow.concreteAt (KCudfData.ValsBelow.concreteAt (by assumption) _ _) _ _)
    | (apply valsOld_register; first | assumption | exact KCudfData.ValsBelow.specvAt (by assumption) _ _ | exact KCudfData.ValsBelow.concreteAt (by assumption) _ _ | exact KCudfData.ValsBelow.indexConcrete (by assumption) _ | exact KCudfData.ValsBelow.concreteAt (KCudfData.ValsBelow.indexConcrete (by assumption) _) _ _ | exact KCudfData.ValsBelow.concreteAt (KCudfData.ValsBelow.concreteAt (by assumption) _ _) _ _)
    | with_reducible apply Post.foldlM_post (Q := KCudfData.ValsOld n0)
    | with_reducible apply Post.foldlM_post (Q := fun (r : KCudfData × Marks) => KCudfData.ValsOld n0 r.1)
    | with_reducible apply Post.foldlM_post (Q := fun (r : KCudfData × Nat) => KCudfData.ValsOld n0 r.1)
    | with_reducible apply Post.foldlM_post (Q := fun (r : KCudfData × DTNode × Marks) => KCudfData.ValsOld n0 r.1)
    | with_reducible apply Post.foldlM_post (Q := fun (r : KCudfData × DTNode × Nat) => KCudfData.ValsOld n0 r.1)
    | exact Post.trivial _
    | with_reducible apply Post.bind_post (Q := KCudfData.ValsOld n0)
    | with_reducible apply Post.bind_post (Q := fun (r : Nat × KCudfData) => KCudfData.ValsOld n0 r.2)
    | with_reducible apply Post.bind_post (Q := fun (r : KCudfData × DTNode × Marks) => KCudfData.ValsOld n0 r.1)
    | with_reducible apply Post.bind_post (Q := fun (r : KCudfData × Marks) => KCudfData.ValsOld n0 r.1)
    | with_reducible apply Post.bind_post (Q := fun (r : KCudfData × Nat) => KCudfData.ValsOld n0 r.1)
    | with_reducible apply Post.bind_post (Q := fun (r : KCudfData × DTNode × Nat) => KCudfData.ValsOld n0 r.1)
    | with_reducible apply Post.bind_post (Q := fun (r : Bool × KCudfData) => KCudfData.ValsOld n0 r.2)
    | with_reducible apply Post.bind_post (Q := fun (r : KCudfData × DTNode) => KCudfData.ValsOld n0 r.1)
    | with_reducible apply Post.bind_post (Q := fun (r : KCudfData × TranslatorStats) => KCudfData.ValsOld n0 r.1)
    | with_reducible apply Post.bind_post (Q := fun _ => True)
    | intro _
    | split)

theorem valsOld_getDisjunction (n0 : Nat) (d : KCudfData) (name : String)
    (h : KCudfData.ValsOld n0 d) :
    Post (fun r => KCudfData.ValsOld n0 r.2) (d.getDisjunction name) := by
  unfold KCudfData.getDisjunction
  try simp only [KCudfData.newDisjunctionObject, KCudfData.specvAt, KCudfData.concreteAt]
  repeat (first
    | assumption
    | exact KCudfData.ValsBelow.specvAt (by assumption) _ _
    | exact KCudfData.ValsBelow.concreteAt (by assumption) _ _
    | exact KCudfData.ValsBelow.indexConcrete (by assumption) _
    | exact KCudfData.ValsBelow.concreteAt (KCudfData.ValsBelow.indexConcrete (by assumption) _) _ _
    | exact KCudfData.ValsBelow.concreteAt (KCudfData.ValsBelow.concreteAt (by assumption) _ _) _ _
    | exact Post.throw_post _
    | (apply Post.pure_post; first | assumption | exact KCudfData.ValsBelow.specvAt (by assumption) _ _ | exact KCudfData.ValsBelow.concreteAt (by assumption) _ _ | exact KCudfData.ValsBelow.indexConcrete (by assumption) _ | exact KCudfData.ValsBelow.concreteAt (KCudfData.ValsBelow.indexConcrete (by assumption) _) _ _ | exact KCudfData.ValsBelow.concreteAt (KCudfData.ValsBelow.concreteAt (by assumption) _ _) _ _)
    | (apply valsOld_newDisjunction; first | assumption | exact KCudfData.ValsBelow.specvAt (by assumption) _ _ | exact KCudfData.ValsBelow.concreteAt (by assumption) _ _ | exact KCudfData.ValsBelow.indexConcrete (by assumption) _ | exact KCudfData.ValsBelow.concreteAt (KCudfData.ValsBelow.indexConcrete (by assumption) _) _ _ | exact KCudfData.ValsBelow.concreteAt (KCudfData.ValsBelow.concreteAt (by assumption) _ _) _ _)
    | with_reducible apply Post.foldlM_post (Q := KCudfData.ValsOld n0)
    | with_reducible apply Post.foldlM_post (Q := fun (r : KCudfData × Marks) => KCudfData.ValsOld n0 r.1)
    | with_reducible apply Post.foldlM_post (Q := fun (r : KCudfData × Nat) => KCudfData.ValsOld n0 r.1)
    | with_reducible apply Post.foldlM_post (Q := fun (r : KCudfData × DTNode × Marks) => KCudfData.ValsOld n0 r.1)
    | with_reducible apply Post.foldlM_post (Q := fun (r : KCudfData × DTNode × Nat) => KCudfData.ValsOld n0 r.1)
    | exact Post.trivial _
    | with_reducible apply Post.bind_post (Q := KCudfData.ValsOld n0)
    | with_reducible apply Post.bind_post (Q := fun (r : Nat × KCudfData) => KCudfData.ValsOld n0 r.2)
    | with_reducible apply Post.bind_post (Q := fun (r : KCudfData × DTNode × Marks) => KCudfData.ValsOld n0 r.1)
    | with_reducible apply Post.bind_post (Q := fun (r : KCudfData × Marks) => KCudfData.ValsOld n0 r.1)
    | with_reducible apply Post.bind_post (Q := fun (r : KCudfData × Nat) => KCudfData.ValsOld n0 r.1)
    | with_reducible apply Post.bind_post (Q := fun (r : KCudfData × DTNode × Nat) => KCudfData.ValsOld n0 r.1)
    | with_reducible apply Post.bind_post (Q := fun (r : Bool × KCudfData) => KCudfData.ValsOld n0 r.2)
    | with_reducible apply Post.bind_post (Q := fun (r : KCudfData × DTNode) => KCudfData.ValsOld n0 r.1)
    | with_reducible apply Post.bind_post (Q := fun (r : KCudfData × TranslatorStats) => KCudfData.ValsOld n0 r.1)
    | with_reducible apply Post.bind_post (Q := fun _ => True)
    | intro _
    | split)

theorem valsOld_pairwiseConflicting (n0 : Nat) (d : KCudfData) (s : IdSet)
    (h : KCudfData.ValsOld n0 d) :
    Post (KCudfData.ValsOld n0) (d.pairwiseConflicting s) := by
  unfold KCudfData.pairwiseConflicting
  try simp only [KCudfData.newDisjunctionObject, KCudfData.specvAt, KCudfData.concreteAt]
  repeat (first
    | assumption
    | exact KCudfData.ValsBelow.specvAt (by assumption) _ _
    | exact KCudfData.ValsBelow.concreteAt (by assumption) _ _
    | exact KCudfData.ValsBelow.indexConcrete (by assumption) _
    | exact KCudfData.ValsBelow.concreteAt (KCudfData.ValsBelow.indexConcrete (by assumption) _) _ _
    | exact KCudfData.ValsBelow.concreteAt (KCudfData.ValsBelow.concreteAt (by assumption) _ _) _ _
    | exact Post.throw_post _
    | (apply Post.pure_post; first | assumption | exact KCudfData.ValsBelow.specvAt (by assumption) _ _ | exact KCudfData.ValsBelow.concreteAt (by assumption) _ _ | exact KCudfData.ValsBelow.indexConcrete (by assumption) _ | exact KCudfData.ValsBelow.concreteAt (KCudfData.ValsBelow.indexConcrete (by assumption) _) _ _ | exact KCudfData.ValsBelow.concreteAt (KCudfData.ValsBelow.concreteAt (by assumption) _ _) _ _)
    | (apply valsOld_addConflict; first | assumption | exact KCudfData.ValsBelow.specvAt (by assumption) _ _ | exact KCudfData.ValsBelow.concreteAt (by assumption) _ _ | exact KCudfData.ValsBelow.indexConcrete (by assumption) _ | exact KCudfData.ValsBelow.concreteAt (KCudfData.ValsBelow.indexConcrete (by assumption) _) _ _ | exact KCudfData.ValsBelow.concreteAt (KCudfData.ValsBelow.concreteAt (by assumption) _ _) _ _)
    | with_reducible apply Post.foldlM_post (Q := KCudfData.ValsOld n0)
    | with_reducible apply Post.foldlM_post (Q := fun (r : KCudfData × Marks) => KCudfData.ValsOld n0 r.1)
    | with_reducible apply Post.foldlM_post (Q := fun (r : KCudfData × Nat) => KCudfData.ValsOld n0 r.1)
    | with_reducible apply Post.foldlM_post (Q := fun (r : KCudfData × DTNode × Marks) => KCudfData.ValsOld n0 r.1)
    | with_reducible apply Post.foldlM_post (Q := fun (r : KCudfData × DTNode × Nat) => KCudfData.ValsOld n0 r.1)
    | exact Post.trivial _
    | with_reducible apply Post.bind_post (Q := KCudfData.ValsOld n0)
    | with_reducible apply Post.bind_post (Q := fun (r : Nat × KCudfData) => KCudfData.ValsOld n0 r.2)
    | with_reducible apply Post.bind_post (Q := fun (r : KCudfData × DTNode × Marks) => KCudfData.ValsOld n0 r.1)
    | with_reducible apply Post.bind_post (Q := fun (r : KCudfData × Marks) => KCudfData.ValsOld n0 r.1)
    | with_reducible apply Post.bind_post (Q := fun (r : KCudfData × Nat) => KCudfData.ValsOld n0 r.1)
    | with_reducible apply Post.bind_post (Q := fun (r : KCudfData × DTNode × Nat) => KCudfData.ValsOld n0 r.1)
    | with_reducible apply Post.bind_post (Q := fun (r : Bool × KCudfData) => KCudfData.ValsOld n0 r.2)
    | with_reducible apply Post.bind_post (Q := fun (r : KCudfData × DTNode) => KCudfData.ValsOld n0 r.1)
    | with_reducible apply Post.bind_post (Q := fun (r : KCudfData × TranslatorStats) => KCudfData.ValsOld n0 r.1)
    | with_reducible apply Post.bind_post (Q := fun _ => True)
    | intro _
    | split)

theorem valsOld_flatAll (n0 : Nat) (d : KCudfData) (h : KCudfData.ValsOld n0 d) :
    Post (KCudfData.ValsOld n0) (d.flatAll) := by
  unfold KCudfData.flatAll
  try simp only [KCudfData.newDisjunctionObject, KCudfData.specvAt, KCudfData.concreteAt]
  repeat (first
    | assumption
    | exact KCudfData.ValsBelow.specvAt (by assumption) _ _
    | exact KCudfData.ValsBelow.concreteAt (by assumption) _ _
    | exact KCudfData.ValsBelow.indexConcrete (by assumption) _
    | exact KCudfData.ValsBelow.concreteAt (KCudfData.ValsBelow.indexConcrete (by assumption) _) _ _
    | exact KCudfData.ValsBelow.concreteAt (KCudfData.ValsBelow.concreteAt (by assumption) _ _) _ _
    | exact Post.throw_post _
    | (apply Post.pure_post; first | assumption | exact KCudfData.ValsBelow.specvAt (by assumption) _ _ | exact KCudfData.ValsBelow.concreteAt (by assumption) _ _ | exact KCudfData.ValsBelow.indexConcrete (by assumption) _ | exact KCudfData.ValsBelow.concreteAt (KCudfData.ValsBelow.indexConcrete (by assumption) _) _ _ | exact KCudfData.ValsBelow.concreteAt (KCudfData.ValsBelow.concreteAt (by assumption) _ _) _ _)
    | (apply valsOld_flat; first | assumption | exact KCudfData.ValsBelow.specvAt (by assumption) _ _ | exact KCudfData.ValsBelow.concreteAt (by assumption) _ _ | exact KCudfData.ValsBelow.indexConcrete (by assumption) _ | exact KCudfData.ValsBelow.concreteAt (KCudfData.ValsBelow.indexConcrete (by assumption) _) _ _ | exact KCudfData.ValsBelow.concreteAt (KCudfData.ValsBelow.concreteAt (by assumption) _ _) _ _)
    | with_reducible apply Post.foldlM_post (Q := KCudfData.ValsOld n0)
    | with_reducible apply Post.foldlM_post (Q := fun (r : KCudfData × Marks) => KCudfData.ValsOld n0 r.1)
    | with_reducible apply Post.foldlM_post (Q := fun (r : KCudfData × Nat) => KCudfData.ValsOld n0 r.1)
    | with_reducible apply Post.foldlM_post (Q := fun (r : KCudfData × DTNode × Marks) => KCudfData.ValsOld n0 r.1)
    | with_reducible apply Post.foldlM_post (Q := fun (r : KCudfData × DTNode × Nat) => KCudfData.ValsOld n0 r.1)
    | exact Post.trivial _
    | with_reducible apply Post.bind_post (Q := KCudfData.ValsOld n0)
    | with_reducible apply Post.bind_post (Q := fun (r : Nat × KCudfData) => KCudfData.ValsOld n0 r.2)
    | with_reducible apply Post.bind_post (Q := fun (r : KCudfData × DTNode × Marks) => KCudfData.ValsOld n0 r.1)
    | with_reducible apply Post.bind_post (Q := fun (r : KCudfData × Marks) => KCudfData.ValsOld n0 r.1)
    | with_reducible apply Post.bind_post (Q := fun (r : KCudfData × Nat) => KCudfData.ValsOld n0 r.1)
    | with_reducible apply Post.bind_post (Q := fun (r : KCudfData × DTNode × Nat) => KCudfData.ValsOld n0 r.1)
    | with_reducible apply Post.bind_post (Q := fun (r : Bool × KCudfData) => KCudfData.ValsOld n0 r.2)
    | with_reducible apply Post.bind_post (Q := fun (r : KCudfData × DTNode) => KCudfData.ValsOld n0 r.1)
    | with_reducible apply Post.bind_post (Q := fun (r : KCudfData × TranslatorStats) => KCudfData.ValsOld n0 r.1)
    | with_reducible apply Post.bind_post (Q := fun _ => True)
    | intro _
    | split)

set_option maxRecDepth 10000 in
theorem valsOld_compress (n0 : Nat) (d : KCudfData) (dt : DTNode) (h : KCudfData.ValsOld n0 d) :
    Post (fun r => KCudfData.ValsOld n0 r.1) (d.compress dt) := by
  unfold KCudfData.compress
  try simp only [KCudfData.newDisjunctionObject, KCudfData.specvAt, KCudfData.concreteAt]
  repeat (first
    | assumption
    | exact KCudfData.ValsBelow.specvAt (by assumption) _ _
    | exact KCudfData.ValsBelow.concreteAt (by assumption) _ _
    | exact KCudfData.ValsBelow.indexConcrete (by assumption) _
    | exact KCudfData.ValsBelow.concreteAt (KCudfData.ValsBelow.indexConcrete (by assumption) _) _ _
    | exact KCudfData.ValsBelow.concreteAt (KCudfData.ValsBelow.concreteAt (by assumption) _ _) _ _
    | exact Post.throw_post _
    | (apply Post.pure_post; first | assumption | exact KCudfData.ValsBelow.specvAt (by assumption) _ _ | exact KCudfData.ValsBelow.concreteAt (by assumption) _ _ | exact KCudfData.ValsBelow.indexConcrete (by assumption) _ | exact KCudfData.ValsBelow.concreteAt (KCudfData.ValsBelow.indexConcrete (by assumption) _) _ _ | exact KCudfData.ValsBelow.concreteAt (KCudfData.ValsBelow.concreteAt (by assumption) _ _) _ _)
    | (apply valsOld_setForward; first | assumption | exact KCudfData.ValsBelow.specvAt (by assumption) _ _ | exact KCudfData.ValsBelow.concreteAt (by assumption) _ _ | exact KCudfData.ValsBelow.indexConcrete (by assumption) _ | exact KCudfData.ValsBelow.concreteAt (KCudfData.ValsBelow.indexConcrete (by assumption) _) _ _ | exact KCudfData.ValsBelow.concreteAt (KCudfData.ValsBelow.concreteAt (by assumption) _ _) _ _)
    | with_reducible apply Post.foldlM_post (Q := KCudfData.ValsOld n0)
    | with_reducible apply Post.foldlM_post (Q := fun (r : KCudfData × Marks) => KCudfData.ValsOld n0 r.1)
    | with_reducible apply Post.foldlM_post (Q := fun (r : KCudfData × Nat) => KCudfData.ValsOld n0 r.1)
    | with_reducible apply Post.foldlM_post (Q := fun (r : KCudfData × DTNode × Marks) => KCudfData.ValsOld n0 r.1)
    | with_reducible apply Post.foldlM_post (Q := fun (r : KCudfData × DTNode × Nat) => KCudfData.ValsOld n0 r.1)
    | exact Post.trivial _
    | with_reducible apply Post.bind_post (Q := KCudfData.ValsOld n0)
    | with_reducible apply Post.bind_post (Q := fun (r : Nat × KCudfData) => KCudfData.ValsOld n0 r.2)
    | with_reducible apply Post.bind_post (Q := fun (r : KCudfData × DTNode × Marks) => KCudfData.ValsOld n0 r.1)
    | with_reducible apply Post.bind_post (Q := fun (r : KCudfData × Marks) => KCudfData.ValsOld n0 r.1)
    | with_reducible apply Post.bind_post (Q := fun (r : KCudfData × Nat) => KCudfData.ValsOld n0 r.1)
    | with_reducible apply Post.bind_post (Q := fun (r : KCudfData × DTNode × Nat) => KCudfData.ValsOld n0 r.1)
    | with_reducible apply Post.bind_post (Q := fun (r : Bool × KCudfData) => KCudfData.ValsOld n0 r.2)
    | with_reducible apply Post.bind_post (Q := fun (r : KCudfData × DTNode) => KCudfData.ValsOld n0 r.1)
    | with_reducible apply Post.bind_post (Q := fun (r : KCudfData × TranslatorStats) => KCudfData.ValsOld n0 r.1)
    | with_reducible apply Post.bind_post (Q := fun _ => True)
    | intro _
    | split)

theorem valsOld_zeroProviders (n0 : Nat) (d : KCudfData) (h : KCudfData.ValsOld n0 d) :
    Post (fun r => KCudfData.ValsOld n0 r.1) (d.zeroProviders) := by
  unfold KCudfData.zeroProviders
  try simp only [KCudfData.newDisjunctionObject, KCudfData.specvAt, KCudfData.concreteAt]
  repeat (first
    | assumption
    | exact KCudfData.ValsBelow.specvAt (by assumption) _ _
    | exact KCudfData.ValsBelow.concreteAt (by assumption) _ _
    | exact KCudfData.ValsBelow.indexConcrete (by assumption) _
    | exact KCudfData.ValsBelow.concreteAt (KCudfData.ValsBelow.indexConcrete (by assumption) _) _ _
    | exact KCudfData.ValsBelow.concreteAt (KCudfData.ValsBelow.concreteAt (by assumption) _ _) _ _
    | exact Post.throw_post _
    | (apply Post.pure_post; first | assumption | exact KCudfData.ValsBelow.specvAt (by assumption) _ _ | exact KCudfData.ValsBelow.concreteAt (by assumption) _ _ | exact KCudfData.ValsBelow.indexConcrete (by assumption) _ | exact KCudfData.ValsBelow.concreteAt (KCudfData.ValsBelow.indexConcrete (by assumption) _) _ _ | exact KCudfData.ValsBelow.concreteAt (KCudfData.ValsBelow.concreteAt (by assumption) _ _) _ _)
    | (apply valsOld_markInstall; first | assumption | exact KCudfData.ValsBelow.specvAt (by assumption) _ _ | exact KCudfData.ValsBelow.concreteAt (by assumption) _ _ | exact KCudfData.ValsBelow.indexConcrete (by assumption) _ | exact KCudfData.ValsBelow.concreteAt (KCudfData.ValsBelow.indexConcrete (by assumption) _) _ _ | exact KCudfData.ValsBelow.concreteAt (KCudfData.ValsBelow.concreteAt (by assumption) _ _) _ _)
    | (apply valsOld_markKeep; first | assumption | exact KCudfData.ValsBelow.specvAt (by assumption) _ _ | exact KCudfData.ValsBelow.concreteAt (by assumption) _ _ | exact KCudfData.ValsBelow.indexConcrete (by assumption) _ | exact KCudfData.ValsBelow.concreteAt (KCudfData.ValsBelow.indexConcrete (by assumption) _) _ _ | exact KCudfData.ValsBelow.concreteAt (KCudfData.ValsBelow.concreteAt (by assumption) _ _) _ _)
    | with_reducible apply Post.foldlM_post (Q := KCudfData.ValsOld n0)
    | with_reducible apply Post.foldlM_post (Q := fun (r : KCudfData × Marks) => KCudfData.ValsOld n0 r.1)
    | with_reducible apply Post.foldlM_post (Q := fun (r : KCudfData × Nat) => KCudfData.ValsOld n0 r.1)
    | with_reducible apply Post.foldlM_post (Q := fun (r : KCudfData × DTNode × Marks) => KCudfData.ValsOld n0 r.1)
    | with_reducible apply Post.foldlM_post (Q := fun (r : KCudfData × DTNode × Nat) => KCudfData.ValsOld n0 r.1)
    | exact Post.trivial _
    | with_reducible apply Post.bind_post (Q := KCudfData.ValsOld n0)
    | with_reducible apply Post.bind_post (Q := fun (r : Nat × KCudfData) => KCudfData.ValsOld n0 r.2)
    | with_reducible apply Post.bind_post (Q := fun (r : KCudfData × DTNode × Marks) => KCudfData.ValsOld n0 r.1)
    | with_reducible apply Post.bind_post (Q := fun (r : KCudfData × Marks) => KCudfData.ValsOld n0 r.1)
    | with_reducible apply Post.bind_post (Q := fun (r : KCudfData × Nat) => KCudfData.ValsOld n0 r.1)
    | with_reducible apply Post.bind_post (Q := fun (r : KCudfData × DTNode × Nat) => KCudfData.ValsOld n0 r.1)
    | with_reducible apply Post.bind_post (Q := fun (r : Bool × KCudfData) => KCudfData.ValsOld n0 r.2)
    | with_reducible apply Post.bind_post (Q := fun (r : KCudfData × DTNode) => KCudfData.ValsOld n0 r.1)
    | with_reducible apply Post.bind_post (Q := fun (r : KCudfData × TranslatorStats) => KCudfData.ValsOld n0 r.1)
    | with_reducible apply Post.bind_post (Q := fun _ => True)
    | intro _
    | split)

theorem valsOld_fixInstallVirtuals (n0 : Nat) (d : KCudfData) (h : KCudfData.ValsOld n0 d) :
    Post (KCudfData.ValsOld n0) (d.fixInstallVirtuals) := by
  unfold KCudfData.fixInstallVirtuals
  try simp only [KCudfData.newDisjunctionObject, KCudfData.specvAt, KCudfData.concreteAt]
  repeat (first
    | assumption
    | exact KCudfData.ValsBelow.specvAt (by assumption) _ _
    | exact KCudfData.ValsBelow.concreteAt (by assumption) _ _
    | exact KCudfData.ValsBelow.indexConcrete (by assumption) _
    | exact KCudfData.ValsBelow.concreteAt (KCudfData.ValsBelow.indexConcrete (by assumption) _) _ _
    | exact KCudfData.ValsBelow.concreteAt (KCudfData.ValsBelow.concreteAt (by assumption) _ _) _ _
    | exact Post.throw_post _
    | (apply Post.pure_post; first | assumption | exact KCudfData.ValsBelow.specvAt (by assumption) _ _ | exact KCudfData.ValsBelow.concreteAt (by assumption) _ _ | exact KCudfData.ValsBelow.indexConcrete (by assumption) _ | exact KCudfData.ValsBelow.concreteAt (KCudfData.ValsBelow.indexConcrete (by assumption) _) _ _ | exact KCudfData.ValsBelow.concreteAt (KCudfData.ValsBelow.concreteAt (by assumption) _ _) _ _)
    | (apply valsOld_markInstall; first | assumption | exact KCudfData.ValsBelow.specvAt (by assumption) _ _ | exact KCudfData.ValsBelow.concreteAt (by assumption) _ _ | exact KCudfData.ValsBelow.indexConcrete (by assumption) _ | exact KCudfData.ValsBelow.concreteAt (KCudfData.ValsBelow.indexConcrete (by assumption) _) _ _ | exact KCudfData.ValsBelow.concreteAt (KCudfData.ValsBelow.concreteAt (by assumption) _ _) _ _)
    | with_reducible apply Post.foldlM_post (Q := KCudfData.ValsOld n0)
    | with_reducible apply Post.foldlM_post (Q := fun (r : KCudfData × Marks) => KCudfData.ValsOld n0 r.1)
    | with_reducible apply Post.foldlM_post (Q := fun (r : KCudfData × Nat) => KCudfData.ValsOld n0 r.1)
    | with_reducible apply Post.foldlM_post (Q := fun (r : KCudfData × DTNode × Marks) => KCudfData.ValsOld n0 r.1)
    | with_reducible apply Post.foldlM_post (Q := fun (r : KCudfData × DTNode × Nat) => KCudfData.ValsOld n0 r.1)
    | exact Post.trivial _
    | with_reducible apply Post.bind_post (Q := KCudfData.ValsOld n0)
    | with_reducible apply Post.bind_post (Q := fun (r : Nat × KCudfData) => KCudfData.ValsOld n0 r.2)
    | with_reducible apply Post.bind_post (Q := fun (r : KCudfData × DTNode × Marks) => KCudfData.ValsOld n0 r.1)
    | with_reducible apply Post.bind_post (Q := fun (r : KCudfData × Marks) => KCudfData.ValsOld n0 r.1)
    | with_reducible apply Post.bind_post (Q := fun (r : KCudfData × Nat) => KCudfData.ValsOld n0 r.1)
    | with_reducible apply Post.bind_post (Q := fun (r : KCudfData × DTNode × Nat) => KCudfData.ValsOld n0 r.1)
    | with_reducible apply Post.bind_post (Q := fun (r : Bool × KCudfData) => KCudfData.ValsOld n0 r.2)
    | with_reducible apply Post.bind_post (Q := fun (r : KCudfData × DTNode) => KCudfData.ValsOld n0 r.1)
    | with_reducible apply Post.bind_post (Q := fun (r : KCudfData × TranslatorStats) => KCudfData.ValsOld n0 r.1)
    | with_reducible apply Post.bind_post (Q := fun _ => True)
    | intro _
    | split)

set_option maxRecDepth 10000 in
theorem valsOld_keepPackage (n0 : Nat) (d : KCudfData) (dsj : DTNode) (ms : Marks) (pi : CudfPackage)
    (h : KCudfData.ValsOld n0 d) :
    Post (fun r => KCudfData.ValsOld n0 r.1) (d.keepPackage dsj ms pi) := by
  unfold KCudfData.keepPackage
  try simp only [KCudfData.newDisjunctionObject, KCudfData.specvAt, KCudfData.concreteAt]
  repeat (first
    | assumption
    | exact KCudfData.ValsBelow.specvAt (by assumption) _ _
    | exact KCudfData.ValsBelow.concreteAt (by assumption) _ _
    | exact KCudfData.ValsBelow.indexConcrete (by assumption) _
    | exact KCudfData.ValsBelow.concreteAt (KCudfData.ValsBelow.indexConcrete (by assumption) _) _ _
    | exact KCudfData.ValsBelow.concreteAt (KCudfData.ValsBelow.concreteAt (by assumption) _ _) _ _
    | exact Post.throw_post _
    | (apply Post.pure_post; first | assumption | exact KCudfData.ValsBelow.specvAt (by assumption) _ _ | exact KCudfData.ValsBelow.concreteAt (by assumption) _ _ | exact KCudfData.ValsBelow.indexConcrete (by assumption) _ | exact KCudfData.ValsBelow.concreteAt (KCudfData.ValsBelow.indexConcrete (by assumption) _) _ _ | exact KCudfData.ValsBelow.concreteAt (KCudfData.ValsBelow.concreteAt (by assumption) _ _) _ _)
    | (apply valsOld_addProvider; first | assumption | exact KCudfData.ValsBelow.specvAt (by assumption) _ _ | exact KCudfData.ValsBelow.concreteAt (by assumption) _ _ | exact KCudfData.ValsBelow.indexConcrete (by assumption) _ | exact KCudfData.ValsBelow.concreteAt (KCudfData.ValsBelow.indexConcrete (by assumption) _) _ _ | exact KCudfData.ValsBelow.concreteAt (KCudfData.ValsBelow.concreteAt (by assumption) _ _) _ _)
    | (apply valsOld_flat; first | assumption | exact KCudfData.ValsBelow.specvAt (by assumption) _ _ | exact KCudfData.ValsBelow.concreteAt (by assumption) _ _ | exact KCudfData.ValsBelow.indexConcrete (by assumption) _ | exact KCudfData.ValsBelow.concreteAt (KCudfData.ValsBelow.indexConcrete (by assumption) _) _ _ | exact KCudfData.ValsBelow.concreteAt (KCudfData.ValsBelow.concreteAt (by assumption) _ _) _ _)
    | (apply valsOld_setForward; first | assumption | exact KCudfData.ValsBelow.specvAt (by assumption) _ _ | exact KCudfData.ValsBelow.concreteAt (by assumption) _ _ | exact KCudfData.ValsBelow.indexConcrete (by assumption) _ | exact KCudfData.ValsBelow.concreteAt (KCudfData.ValsBelow.indexConcrete (by assumption) _) _ _ | exact KCudfData.ValsBelow.concreteAt (KCudfData.ValsBelow.concreteAt (by assumption) _ _) _ _)
    | (apply valsOld_getDisjunction; first | assumption | exact KCudfData.ValsBelow.specvAt (by assumption) _ _ | exact KCudfData.ValsBelow.concreteAt (by assumption) _ _ | exact KCudfData.ValsBelow.indexConcrete (by assumption) _ | exact KCudfData.ValsBelow.concreteAt (KCudfData.ValsBelow.indexConcrete (by assumption) _) _ _ | exact KCudfData.ValsBelow.concreteAt (KCudfData.ValsBelow.concreteAt (by assumption) _ _) _ _)
    | with_reducible apply Post.foldlM_post (Q := KCudfData.ValsOld n0)
    | with_reducible apply Post.foldlM_post (Q := fun (r : KCudfData × Marks) => KCudfData.ValsOld n0 r.1)
    | with_reducible apply Post.foldlM_post (Q := fun (r : KCudfData × Nat) => KCudfData.ValsOld n0 r.1)
    | with_reducible apply Post.foldlM_post (Q := fun (r : KCudfData × DTNode × Marks) => KCudfData.ValsOld n0 r.1)
    | with_reducible apply Post.foldlM_post (Q := fun (r : KCudfData × DTNode × Nat) => KCudfData.ValsOld n0 r.1)
    | exact Post.trivial _
    | with_reducible apply Post.bind_post (Q := KCudfData.ValsOld n0)
    | with_reducible apply Post.bind_post (Q := fun (r : Nat × KCudfData) => KCudfData.ValsOld n0 r.2)
    | with_reducible apply Post.bind_post (Q := fun (r : KCudfData × DTNode × Marks) => KCudfData.ValsOld n0 r.1)
    | with_reducible apply Post.bind_post (Q := fun (r : KCudfData × Marks) => KCudfData.ValsOld n0 r.1)
    | with_reducible apply Post.bind_post (Q := fun (r : KCudfData × Nat) => KCudfData.ValsOld n0 r.1)
    | with_reducible apply Post.bind_post (Q := fun (r : KCudfData × DTNode × Nat) => KCudfData.ValsOld n0 r.1)
    | with_reducible apply Post.bind_post (Q := fun (r : Bool × KCudfData) => KCudfData.ValsOld n0 r.2)
    | with_reducible apply Post.bind_post (Q := fun (r : KCudfData × DTNode) => KCudfData.ValsOld n0 r.1)
    | with_reducible apply Post.bind_post (Q := fun (r : KCudfData × TranslatorStats) => KCudfData.ValsOld n0 r.1)
    | with_reducible apply Post.bind_post (Q := fun _ => True)
    | intro _
    | split)

theorem valsOld_keepFeature (n0 : Nat) (d : KCudfData) (ms : Marks) (pi : CudfPackage)
    (h : KCudfData.ValsOld n0 d) :
    Post (fun r => KCudfData.ValsOld n0 r.1) (d.keepFeature ms pi) := by
  unfold KCudfData.keepFeature
  try simp only [KCudfData.newDisjunctionObject, KCudfData.specvAt, KCudfData.concreteAt]
  repeat (first
    | assumption
    | exact KCudfData.ValsBelow.specvAt (by assumption) _ _
    | exact KCudfData.ValsBelow.concreteAt (by assumption) _ _
    | exact KCudfData.ValsBelow.indexConcrete (by assumption) _
    | exact KCudfData.ValsBelow.concreteAt (KCudfData.ValsBelow.indexConcrete (by assumption) _) _ _
    | exact KCudfData.ValsBelow.concreteAt (KCudfData.ValsBelow.concreteAt (by assumption) _ _) _ _
    | exact Post.throw_post _
    | (apply Post.pure_post; first | assumption | exact KCudfData.ValsBelow.specvAt (by assumption) _ _ | exact KCudfData.ValsBelow.concreteAt (by assumption) _ _ | exact KCudfData.ValsBelow.indexConcrete (by assumption) _ | exact KCudfData.ValsBelow.concreteAt (KCudfData.ValsBelow.indexConcrete (by assumption) _) _ _ | exact KCudfData.ValsBelow.concreteAt (KCudfData.ValsBelow.concreteAt (by assumption) _ _) _ _)
    | with_reducible apply Post.foldlM_post (Q := KCudfData.ValsOld n0)
    | with_reducible apply Post.foldlM_post (Q := fun (r : KCudfData × Marks) => KCudfData.ValsOld n0 r.1)
    | with_reducible apply Post.foldlM_post (Q := fun (r : KCudfData × Nat) => KCudfData.ValsOld n0 r.1)
    | with_reducible apply Post.foldlM_post (Q := fun (r : KCudfData × DTNode × Marks) => KCudfData.ValsOld n0 r.1)
    | with_reducible apply Post.foldlM_post (Q := fun (r : KCudfData × DTNode × Nat) => KCudfData.ValsOld n0 r.1)
    | exact Post.trivial _
    | with_reducible apply Post.bind_post (Q := KCudfData.ValsOld n0)
    | with_reducible apply Post.bind_post (Q := fun (r : Nat × KCudfData) => KCudfData.ValsOld n0 r.2)
    | with_reducible apply Post.bind_post (Q := fun (r : KCudfData × DTNode × Marks) => KCudfData.ValsOld n0 r.1)
    | with_reducible apply Post.bind_post (Q := fun (r : KCudfData × Marks) => KCudfData.ValsOld n0 r.1)
    | with_reducible apply Post.bind_post (Q := fun (r : KCudfData × Nat) => KCudfData.ValsOld n0 r.1)
    | with_reducible apply Post.bind_post (Q := fun (r : KCudfData × DTNode × Nat) => KCudfData.ValsOld n0 r.1)
    | with_reducible apply Post.bind_post (Q := fun (r : Bool × KCudfData) => KCudfData.ValsOld n0 r.2)
    | with_reducible apply Post.bind_post (Q := fun (r : KCudfData × DTNode) => KCudfData.ValsOld n0 r.1)
    | with_reducible apply Post.bind_post (Q := fun (r : KCudfData × TranslatorStats) => KCudfData.ValsOld n0 r.1)
    | with_reducible apply Post.bind_post (Q := fun _ => True)
    | intro _
    | split)

theorem valsOld_processKeep (n0 : Nat) (s : KCudfData × DTNode × Marks) (pi : CudfPackage)
    (h : KCudfData.ValsOld n0 s.1) :
    Post (fun r => KCudfData.ValsOld n0 r.1) (KCudfData.processKeep s pi) := by
  unfold KCudfData.processKeep
  try simp only [KCudfData.newDisjunctionObject, KCudfData.specvAt, KCudfData.concreteAt]
  repeat (first
    | assumption
    | exact KCudfData.ValsBelow.specvAt (by assumption) _ _
    | exact KCudfData.ValsBelow.concreteAt (by assumption) _ _
    | exact KCudfData.ValsBelow.indexConcrete (by assumption) _
    | exact KCudfData.ValsBelow.concreteAt (KCudfData.ValsBelow.indexConcrete (by assumption) _) _ _
    | exact KCudfData.ValsBelow.concreteAt (KCudfData.ValsBelow.concreteAt (by assumption) _ _) _ _
    | exact Post.throw_post _
    | (apply Post.pure_post; first | assumption | exact KCudfData.ValsBelow.specvAt (by assumption) _ _ | exact KCudfData.ValsBelow.concreteAt (by assumption) _ _ | exact KCudfData.ValsBelow.indexConcrete (by assumption) _ | exact KCudfData.ValsBelow.concreteAt (KCudfData.ValsBelow.indexConcrete (by assumption) _) _ _ | exact KCudfData.ValsBelow.concreteAt (KCudfData.ValsBelow.concreteAt (by assumption) _ _) _ _)
    | (apply valsOld_keepPackage; first | assumption | exact KCudfData.ValsBelow.specvAt (by assumption) _ _ | exact KCudfData.ValsBelow.concreteAt (by assumption) _ _ | exact KCudfData.ValsBelow.indexConcrete (by assumption) _ | exact KCudfData.ValsBelow.concreteAt (KCudfData.ValsBelow.indexConcrete (by assumption) _) _ _ | exact KCudfData.ValsBelow.concreteAt (KCudfData.ValsBelow.concreteAt (by assumption) _ _) _ _)
    | (apply valsOld_keepFeature; first | assumption | exact KCudfData.ValsBelow.specvAt (by assumption) _ _ | exact KCudfData.ValsBelow.concreteAt (by assumption) _ _ | exact KCudfData.ValsBelow.indexConcrete (by assumption) _ | exact KCudfData.ValsBelow.concreteAt (KCudfData.ValsBelow.indexConcrete (by assumption) _) _ _ | exact KCudfData.ValsBelow.concreteAt (KCudfData.ValsBelow.concreteAt (by assumption) _ _) _ _)
    | with_reducible apply Post.foldlM_post (Q := KCudfData.ValsOld n0)
    | with_reducible apply Post.foldlM_post (Q := fun (r : KCudfData × Marks) => KCudfData.ValsOld n0 r.1)
    | with_reducible apply Post.foldlM_post (Q := fun (r : KCudfData × Nat) => KCudfData.ValsOld n0 r.1)
    | with_reducible apply Post.foldlM_post (Q := fun (r : KCudfData × DTNode × Marks) => KCudfData.ValsOld n0 r.1)
    | with_reducible apply Post.foldlM_post (Q := fun (r : KCudfData × DTNode × Nat) => KCudfData.ValsOld n0 r.1)
    | exact Post.trivial _
    | with_reducible apply Post.bind_post (Q := KCudfData.ValsOld n0)
    | with_reducible apply Post.bind_post (Q := fun (r : Nat × KCudfData) => KCudfData.ValsOld n0 r.2)
    | with_reducible apply Post.bind_post (Q := fun (r : KCudfData × DTNode × Marks) => KCudfData.ValsOld n0 r.1)
    | with_reducible apply Post.bind_post (Q := fun (r : KCudfData × Marks) => KCudfData.ValsOld n0 r.1)
    | with_reducible apply Post.bind_post (Q := fun (r : KCudfData × Nat) => KCudfData.ValsOld n0 r.1)
    | with_reducible apply Post.bind_post (Q := fun (r : KCudfData × DTNode × Nat) => KCudfData.ValsOld n0 r.1)
    | with_reducible apply Post.bind_post (Q := fun (r : Bool × KCudfData) => KCudfData.ValsOld n0 r.2)
    | with_reducible apply Post.bind_post (Q := fun (r : KCudfData × DTNode) => KCudfData.ValsOld n0 r.1)
    | with_reducible apply Post.bind_post (Q := fun (r : KCudfData × TranslatorStats) => KCudfData.ValsOld n0 r.1)
    | with_reducible apply Post.bind_post (Q := fun _ => True)
    | intro _
    | split)

set_option maxRecDepth 10000 in
theorem valsOld_processUpgrade (n0 : Nat) (pr : Printer) (s : KCudfData × DTNode × Marks) (vpk : Vpkg)
    (h : KCudfData.ValsOld n0 s.1) :
    Post (fun r => KCudfData.ValsOld n0 r.1) (KCudfData.processUpgrade pr s vpk) := by
  unfold KCudfData.processUpgrade
  try simp only [KCudfData.newDisjunctionObject, KCudfData.specvAt, KCudfData.concreteAt]
  repeat (first
    | assumption
    | exact KCudfData.ValsBelow.specvAt (by assumption) _ _
    | exact KCudfData.ValsBelow.concreteAt (by assumption) _ _
    | exact KCudfData.ValsBelow.indexConcrete (by assumption) _
    | exact KCudfData.ValsBelow.concreteAt (KCudfData.ValsBelow.indexConcrete (by assumption) _) _ _
    | exact KCudfData.ValsBelow.concreteAt (KCudfData.ValsBelow.concreteAt (by assumption) _ _) _ _
    | exact Post.throw_post _
    | (apply Post.pure_post; first | assumption | exact KCudfData.ValsBelow.specvAt (by assumption) _ _ | exact KCudfData.ValsBelow.concreteAt (by assumption) _ _ | exact KCudfData.ValsBelow.indexConcrete (by assumption) _ | exact KCudfData.ValsBelow.concreteAt (KCudfData.ValsBelow.indexConcrete (by assumption) _) _ _ | exact KCudfData.ValsBelow.concreteAt (KCudfData.ValsBelow.concreteAt (by assumption) _ _) _ _)
    | (apply valsOld_addProvider; first | assumption | exact KCudfData.ValsBelow.specvAt (by assumption) _ _ | exact KCudfData.ValsBelow.concreteAt (by assumption) _ _ | exact KCudfData.ValsBelow.indexConcrete (by assumption) _ | exact KCudfData.ValsBelow.concreteAt (KCudfData.ValsBelow.indexConcrete (by assumption) _) _ _ | exact KCudfData.ValsBelow.concreteAt (KCudfData.ValsBelow.concreteAt (by assumption) _ _) _ _)
    | (apply valsOld_register; first | assumption | exact KCudfData.ValsBelow.specvAt (by assumption) _ _ | exact KCudfData.ValsBelow.concreteAt (by assumption) _ _ | exact KCudfData.ValsBelow.indexConcrete (by assumption) _ | exact KCudfData.ValsBelow.concreteAt (KCudfData.ValsBelow.indexConcrete (by assumption) _) _ _ | exact KCudfData.ValsBelow.concreteAt (KCudfData.ValsBelow.concreteAt (by assumption) _ _) _ _)
    | (apply valsOld_flat; first | assumption | exact KCudfData.ValsBelow.specvAt (by assumption) _ _ | exact KCudfData.ValsBelow.concreteAt (by assumption) _ _ | exact KCudfData.ValsBelow.indexConcrete (by assumption) _ | exact KCudfData.ValsBelow.concreteAt (KCudfData.ValsBelow.indexConcrete (by assumption) _) _ _ | exact KCudfData.ValsBelow.concreteAt (KCudfData.ValsBelow.concreteAt (by assumption) _ _) _ _)
    | (apply valsOld_pairwiseConflicting; first | assumption | exact KCudfData.ValsBelow.specvAt (by assumption) _ _ | exact KCudfData.ValsBelow.concreteAt (by assumption) _ _ | exact KCudfData.ValsBelow.indexConcrete (by assumption) _ | exact KCudfData.ValsBelow.concreteAt (KCudfData.ValsBelow.indexConcrete (by assumption) _) _ _ | exact KCudfData.ValsBelow.concreteAt (KCudfData.ValsBelow.concreteAt (by assumption) _ _) _ _)
    | with_reducible apply Post.foldlM_post (Q := KCudfData.ValsOld n0)
    | with_reducible apply Post.foldlM_post (Q := fun (r : KCudfData × Marks) => KCudfData.ValsOld n0 r.1)
    | with_reducible apply Post.foldlM_post (Q := fun (r : KCudfData × Nat) => KCudfData.ValsOld n0 r.1)
    | with_reducible apply Post.foldlM_post (Q := fun (r : KCudfData × DTNode × Marks) => KCudfData.ValsOld n0 r.1)
    | with_reducible apply Post.foldlM_post (Q := fun (r : KCudfData × DTNode × Nat) => KCudfData.ValsOld n0 r.1)
    | exact Post.trivial _
    | with_reducible apply Post.bind_post (Q := KCudfData.ValsOld n0)
    | with_reducible apply Post.bind_post (Q := fun (r : Nat × KCudfData) => KCudfData.ValsOld n0 r.2)
    | with_reducible apply Post.bind_post (Q := fun (r : KCudfData × DTNode × Marks) => KCudfData.ValsOld n0 r.1)
    | with_reducible apply Post.bind_post (Q := fun (r : KCudfData × Marks) => KCudfData.ValsOld n0 r.1)
    | with_reducible apply Post.bind_post (Q := fun (r : KCudfData × Nat) => KCudfData.ValsOld n0 r.1)
    | with_reducible apply Post.bind_post (Q := fun (r : KCudfData × DTNode × Nat) => KCudfData.ValsOld n0 r.1)
    | with_reducible apply Post.bind_post (Q := fun (r : Bool × KCudfData) => KCudfData.ValsOld n0 r.2)
    | with_reducible apply Post.bind_post (Q := fun (r : KCudfData × DTNode) => KCudfData.ValsOld n0 r.1)
    | with_reducible apply Post.bind_post (Q := fun (r : KCudfData × TranslatorStats) => KCudfData.ValsOld n0 r.1)
    | with_reducible apply Post.bind_post (Q := fun _ => True)
    | intro _
    | split)

end ValsLemmas

/-! ## Changes of the heap and of the trie -/

section InvBasic

theorem DTNode.find_addDisjunction (dt : DTNode) (id : Nat) (s s1 : IdSet) :
    DTNode.find s1 (dt.addDisjunction id s).2 =
      if s1 = s then some ((DTNode.find s dt).getD id) else DTNode.find s1 dt :=
  DTNode.find_addDisjunctionFrom id s dt s1

theorem DTNode.addDisjunction_fst (dt : DTNode) (id : Nat) (s : IdSet) :
    (dt.addDisjunction id s).1 = (DTNode.find s dt).getD id :=
  DTNode.addDisjunctionFrom_fst id s dt

/-- An offer that does not win leaves the answers of the trie as they were. -/
theorem DTNode.find_addDisjunction_of_some (dt : DTNode) (id w : Nat) (s s1 : IdSet)
    (h : DTNode.find s dt = some w) :
    DTNode.find s1 (dt.addDisjunction id s).2 = DTNode.find s1 dt := by
  rw [DTNode.find_addDisjunction]
  split
  · rename_i e
    rw [e, h]
    rfl
  · rfl

theorem KCudfData.Conc.frame_conc {d d1 : KCudfData} (e : d1.heap = d.heap) {q : Nat}
    (h : d.Conc q) : d1.Conc q := by
  unfold KCudfData.Conc
  rw [e]
  exact h

theorem Inv.frame {d d1 : KCudfData} {dt : DTNode} (h : Inv d dt) (e1 : d1.heap = d.heap)
    (e2 : d1.next_id = d.next_id) (e3 : d1.packages = d.packages) : Inv d1 dt := by
  obtain ⟨a, b, c, w, f⟩ := h
  refine ⟨?_, ?_, ?_, ?_, ?_⟩
  · rw [e1, e2]
    exact a
  · rw [e1, e3]
    exact b
  · rw [e1]
    exact c
  · rw [e1]
    exact w
  · intro p o hp hn hf q hq
    rw [e1] at hp
    exact (f p o hp hn hf q hq).frame_conc e1

theorem Inv.congr_dt {d : KCudfData} {dt dt1 : DTNode} (h : Inv d dt)
    (e : ∀ s, DTNode.find s dt1 = DTNode.find s dt) : Inv d dt1 := by
  obtain ⟨a, b, c, w, f⟩ := h
  refine ⟨a, b, ?_, ?_, f⟩
  · intro p o hp hf
    obtain ⟨q, s, e1, e2⟩ := c p o hp hf
    exact ⟨q, s, e1, (e s).trans e2⟩
  · intro s x hx
    exact w s x ((e s).symm.trans hx)

/-- A disjunction that is not flat is not an answer of the trie. -/
theorem Inv.not_winner {d : KCudfData} {dt : DTNode} (h : Inv d dt) {p : Nat} {o : Package}
    (hp : d.heap p = some o) (hn : o.nm = none) (hf : o.flt = false) (s : IdSet) :
    DTNode.find s dt ≠ some p := by
  intro hs
  obtain ⟨o1, e1, -, e3⟩ := h.2.2.2.1 s p hs
  rw [hp] at e1
  cases e1
  have := (e3 hn).1
  rw [hf] at this
  cases this

/-- An object that is not in the heap is not an answer of the trie. -/
theorem Inv.not_winner_none {d : KCudfData} {dt : DTNode} (h : Inv d dt) {p : Nat}
    (hp : d.heap p = none) (s : IdSet) : DTNode.find s dt ≠ some p := by
  intro hs
  obtain ⟨o1, e1, -, -⟩ := h.2.2.2.1 s p hs
  rw [hp] at e1
  cases e1

theorem Inv.heap_next {d : KCudfData} {dt : DTNode} (h : Inv d dt) :
    d.heap d.next_id = none := by
  cases hp : d.heap d.next_id with
  | none => rfl
  | some o => exact absurd (h.1 _ o hp).2.1 (Nat.lt_irrefl _)

theorem KCudfData.heap_put (d : KCudfData) (p q : Nat) (o : Package) :
    (d.put p o).heap q = if q = p then some o else d.heap q := rfl

theorem KCudfData.Grows.put_grows {d : KCudfData} {p : Nat} {o o1 : Package}
    (hp : d.heap p = some o) (h1 : o1.id = o.id) (h2 : o1.nm = o.nm)
    (h3 : o.forwarded = true → o1.forwarded = true ∧ o1.fwd = o.fwd) :
    d.Grows (d.put p o1) := by
  intro q oq hq
  by_cases e : q = p
  · subst e
    rw [hp] at hq
    cases hq
    exact ⟨o1, by simp [KCudfData.heap_put], h1, h2, h3⟩
  · exact ⟨oq, by simp [KCudfData.heap_put, e, hq], rfl, rfl, fun hf => ⟨hf, rfl⟩⟩

theorem KCudfData.Grows.fresh_grows {d : KCudfData} (hp : d.heap d.next_id = none) (o : Package) :
    d.Grows { d with next_id := d.next_id + 1, heap := setAt d.heap d.next_id (some o) } := by
  intro q oq hq
  have e : q ≠ d.next_id := by
    intro e
    rw [e, hp] at hq
    cases hq
  exact ⟨oq, by simp [setAt, e, hq], rfl, rfl, fun hf => ⟨hf, rfl⟩⟩

/-- A change of the providers and of the flag `flt` of a disjunction that is not
an answer of the trie. -/
theorem Inv.put_nonwinner {d : KCudfData} {dt : DTNode} (h : Inv d dt) {p : Nat}
    {o o1 : Package} (hp : d.heap p = some o) (hn : o.nm = none)
    (hw : ∀ s, DTNode.find s dt ≠ some p) (h1 : o1.id = o.id) (h2 : o1.nm = none)
    (h3 : o1.forwarded = o.forwarded) (h4 : o1.fwd = o.fwd)
    (h5 : o1.flt = true → ∀ q ∈ o1.providers, d.Conc q) : Inv (d.put p o1) dt := by
  have hg : d.Grows (d.put p o1) :=
    KCudfData.Grows.put_grows hp h1 (h2.trans hn.symm) (fun hf => ⟨h3.trans hf, h4⟩)
  obtain ⟨a, b, c, w, f⟩ := h
  refine ⟨?_, ?_, ?_, ?_, ?_⟩
  · intro q oq hq
    rw [KCudfData.heap_put] at hq
    split at hq
    · rename_i e
      cases hq
      subst e
      rw [h1, h2]
      exact ⟨(a q o hp).1, (a q o hp).2.1, fun x => by cases x⟩
    · exact a q oq hq
  · intro k q hk
    obtain ⟨e, x, hx⟩ := b k q hk
    obtain ⟨x1, y1, -⟩ := hg q x hx
    exact ⟨e, x1, y1⟩
  · intro q oq hq hf
    rw [KCudfData.heap_put] at hq
    split at hq
    · rename_i e
      cases hq
      subst e
      rw [h4]
      exact c q o hp (h3 ▸ hf)
    · exact c q oq hq hf
  · intro s x hx
    obtain ⟨ox, e1, e2⟩ := w s x hx
    have e : x ≠ p := fun e => hw s (e ▸ hx)
    exact ⟨ox, by simp [KCudfData.heap_put, e, e1], e2⟩
  · intro q oq hq hnq hfq r hr
    rw [KCudfData.heap_put] at hq
    split at hq
    · cases hq
      exact (h5 hfq r hr).grows hg
    · exact (f q oq hq hnq hfq r hr).grows hg

/-- The forward of a disjunction that is not an answer of the trie to an answer
of the trie. -/
theorem Inv.put_forward {d : KCudfData} {dt : DTNode} (h : Inv d dt) {a b : Nat}
    {oa o1 : Package} {s : IdSet} (hp : d.heap a = some oa) (hn : oa.nm = none)
    (hf : oa.forwarded = false) (hw : ∀ s, DTNode.find s dt ≠ some a)
    (hb : DTNode.find s dt = some b) (h1 : o1.id = oa.id) (h2 : o1.nm = none)
    (h4 : o1.fwd = some b) (h5 : o1.flt = oa.flt)
    (h6 : ∀ q ∈ o1.providers, q ∈ oa.providers) : Inv (d.put a o1) dt := by
  have hg : d.Grows (d.put a o1) :=
    KCudfData.Grows.put_grows hp h1 (h2.trans hn.symm)
      (fun x => by rw [hf] at x; cases x)
  obtain ⟨i, b1, c, w, f⟩ := h
  refine ⟨?_, ?_, ?_, ?_, ?_⟩
  · intro q oq hq
    rw [KCudfData.heap_put] at hq
    split at hq
    · rename_i e
      cases hq
      subst e
      rw [h1, h2]
      exact ⟨(i q oa hp).1, (i q oa hp).2.1, fun x => by cases x⟩
    · exact i q oq hq
  · intro k q hk
    obtain ⟨e, x, hx⟩ := b1 k q hk
    obtain ⟨x1, y1, -⟩ := hg q x hx
    exact ⟨e, x1, y1⟩
  · intro q oq hq hfq
    rw [KCudfData.heap_put] at hq
    split at hq
    · cases hq
      exact ⟨b, s, h4, hb⟩
    · exact c q oq hq hfq
  · intro s1 x hx
    obtain ⟨ox, e1, e2⟩ := w s1 x hx
    have e : x ≠ a := fun e => hw s1 (e ▸ hx)
    exact ⟨ox, by simp [KCudfData.heap_put, e, e1], e2⟩
  · intro q oq hq hnq hfq r hr
    rw [KCudfData.heap_put] at hq
    split at hq
    · cases hq
      exact (f a oa hp hn (h5 ▸ hfq) r (h6 r hr)).grows hg
    · exact (f q oq hq hnq hfq r hr).grows hg

/-- A new object. -/
theorem Inv.fresh {d : KCudfData} {dt : DTNode} (h : Inv d dt) (o : Package)
    (h1 : o.id = d.next_id) (h2 : o.forwarded = false) (h3 : o.flt = false) :
    Inv { d with next_id := d.next_id + 1, heap := setAt d.heap d.next_id (some o) } dt := by
  have hg := KCudfData.Grows.fresh_grows h.heap_next o
  obtain ⟨a, b, c, w, f⟩ := h
  refine ⟨?_, ?_, ?_, ?_, ?_⟩
  · intro q oq hq
    simp only [setAt] at hq
    split at hq
    · rename_i e
      cases hq
      subst e
      exact ⟨h1, Nat.lt_succ_self _, fun _ => h2⟩
    · obtain ⟨x1, x2, x3⟩ := a q oq hq
      exact ⟨x1, Nat.lt_succ_of_lt x2, x3⟩
  · intro k q hk
    obtain ⟨e, x, hx⟩ := b k q hk
    obtain ⟨x1, y1, -⟩ := hg q x hx
    exact ⟨e, x1, y1⟩
  · intro q oq hq hfq
    simp only [setAt] at hq
    split at hq
    · cases hq
      rw [h2] at hfq
      cases hfq
    · exact c q oq hq hfq
  · intro s x hx
    obtain ⟨ox, e1, e2⟩ := w s x hx
    obtain ⟨x1, y1, -⟩ := hg x ox e1
    have e : x ≠ d.next_id := Nat.ne_of_lt (a x ox e1).2.1
    exact ⟨ox, by simp [setAt, e, e1], e2⟩
  · intro q oq hq hnq hfq r hr
    simp only [setAt] at hq
    split at hq
    · cases hq
      rw [h3] at hfq
      cases hfq
    · exact (f q oq hq hnq hfq r hr).grows hg

/-- The registration of an object under its identifier. -/
theorem Inv.register {d : KCudfData} {dt : DTNode} (h : Inv d dt) {p : Nat} {o : Package}
    (hp : d.heap p = some o) :
    Inv { d with packages := StdMap.set d.packages p p } dt := by
  obtain ⟨a, b, c, w, f⟩ := h
  refine ⟨a, ?_, c, w, f⟩
  intro k q hk
  rcases StdMap.mem_set _ _ _ _ hk with e | e
  · cases e
    exact ⟨rfl, o, hp⟩
  · exact b k q e

/-- An offer that wins. -/
theorem Inv.add_win {d : KCudfData} {dt : DTNode} (h : Inv d dt) {p : Nat} {o : Package}
    {s : IdSet} (hp : d.heap p = some o) (hf : o.forwarded = false)
    (hs : o.nm = none → o.flt = true ∧ o.providers = s) (hd : DTNode.find s dt = none) :
    Inv d (dt.addDisjunction p s).2 := by
  obtain ⟨a, b, c, w, f⟩ := h
  refine ⟨a, b, ?_, ?_, f⟩
  · intro q oq hq hfq
    obtain ⟨r, s1, e1, e2⟩ := c q oq hq hfq
    refine ⟨r, s1, e1, ?_⟩
    rw [DTNode.find_addDisjunction]
    split
    · rename_i e
      rw [e, hd] at e2
      cases e2
    · exact e2
  · intro s1 x hx
    rw [DTNode.find_addDisjunction] at hx
    split at hx
    · rename_i e
      rw [hd] at hx
      simp only [Option.getD_none, Option.some.injEq] at hx
      subst hx e
      exact ⟨o, hp, hf, hs⟩
    · exact w s1 x hx

theorem Interned.mono_interned {d : KCudfData} {dt : DTNode} {S S1 : Nat → Prop}
    (h : Interned d dt S) (hs : ∀ p, S1 p → S p) : Interned d dt S1 :=
  fun p o hp => h p o (hs p hp)

theorem Interned.frame_interned {d d1 : KCudfData} {dt : DTNode} {S : Nat → Prop}
    (h : Interned d dt S) (e1 : d1.heap = d.heap) : Interned d1 dt S := by
  unfold Interned
  rw [e1]
  exact h

theorem Interned.congr_dt_interned {d : KCudfData} {dt dt1 : DTNode} {S : Nat → Prop}
    (h : Interned d dt S) (e : ∀ s, DTNode.find s dt1 = DTNode.find s dt) :
    Interned d dt1 S :=
  fun p o hp ho hn hf hl => (e _).trans (h p o hp ho hn hf hl)

/-- A change of one object that leaves it, when it is among `S`, out of the
disjunctions that are flat and not forwarded, or leaves it interned. -/
theorem Interned.put_interned {d : KCudfData} {dt : DTNode} {S : Nat → Prop} (h : Interned d dt S)
    (p : Nat) (o1 : Package)
    (h1 : S p → o1.nm = none → o1.forwarded = false → o1.flt = true →
      DTNode.find o1.providers dt = some p) : Interned (d.put p o1) dt S := by
  intro q oq hs hq hn hf hl
  rw [KCudfData.heap_put] at hq
  split at hq
  · rename_i e
    cases hq
    subst e
    exact h1 hs hn hf hl
  · exact h q oq hs hq hn hf hl

theorem Interned.fresh_interned {d : KCudfData} {dt : DTNode} {S : Nat → Prop} (h : Interned d dt S)
    (o : Package) (h3 : o.flt = false) :
    Interned { d with next_id := d.next_id + 1, heap := setAt d.heap d.next_id (some o) }
      dt S := by
  intro q oq hs hq hn hf hl
  simp only [setAt] at hq
  split at hq
  · cases hq
    rw [h3] at hl
    cases hl
  · exact h q oq hs hq hn hf hl

/-- An offer that wins enters the disjunction among the interned ones. -/
theorem Interned.add_win_interned {d : KCudfData} {dt : DTNode} {S : Nat → Prop}
    (h : Interned d dt S) {p : Nat} {o : Package} (hp : d.heap p = some o)
    (hd : DTNode.find o.providers dt = none) :
    Interned d (dt.addDisjunction p o.providers).2 (fun q => S q ∨ q = p) := by
  intro q oq hs hq hn hf hl
  rw [DTNode.find_addDisjunction]
  split
  · rename_i e
    rcases hs with hs | hs
    · have := h q oq hs hq hn hf hl
      rw [e, hd] at this
      cases this
    · subst hs
      rw [hd]
      rfl
  · rename_i e
    rcases hs with hs | hs
    · exact h q oq hs hq hn hf hl
    · subst hs
      rw [hp] at hq
      cases hq
      exact absurd rfl e

theorem KCudfData.FltBelow.frame_fltBelow {d d1 : KCudfData} {n : Nat} (h : d.FltBelow n)
    (e1 : d1.heap = d.heap) (e3 : d1.packages = d.packages) : d1.FltBelow n := by
  unfold KCudfData.FltBelow
  rw [e1, e3]
  exact h

theorem KCudfData.AllFlt.below {d : KCudfData} (h : d.AllFlt) (n : Nat) : d.FltBelow n :=
  fun k p o hk _ ho hn => h k p o hk ho hn

/-- A change of one object that does not take the flag `flt` away. -/
theorem KCudfData.FltBelow.put_fltBelow {d : KCudfData} {n : Nat} (h : d.FltBelow n) {p : Nat}
    {o o1 : Package} (hp : d.heap p = some o) (h2 : o1.nm = o.nm)
    (h3 : o.flt = true → o1.flt = true) : (d.put p o1).FltBelow n := by
  intro k q oq hk hq ho hn
  rw [KCudfData.heap_put] at ho
  split at ho
  · rename_i e
    cases ho
    subst e
    exact h3 (h k q o hk hq hp (h2 ▸ hn))
  · exact h k q oq hk hq ho hn

theorem KCudfData.FltBelow.fresh_fltBelow {d : KCudfData} {dt : DTNode} {n : Nat} (h : d.FltBelow n)
    (hi : Inv d dt) (o : Package) :
    KCudfData.FltBelow
      { d with next_id := d.next_id + 1, heap := setAt d.heap d.next_id (some o) } n := by
  intro k q oq hk hq ho hnm
  simp only [setAt] at ho
  split at ho
  · rename_i e
    subst e
    obtain ⟨-, x, hx⟩ := hi.2.1 k _ hk
    rw [hi.heap_next] at hx
    cases hx
  · exact h k q oq hk hq ho hnm

theorem KCudfData.FltBelow.register_fltBelow {d : KCudfData} {n : Nat} (h : d.FltBelow n) {p : Nat}
    (hp : n ≤ p) : KCudfData.FltBelow { d with packages := StdMap.set d.packages p p } n := by
  intro k q oq hk hq ho hnm
  rcases StdMap.mem_set _ _ _ _ hk with e | e
  · cases e
    exact absurd hq (Nat.not_lt.mpr hp)
  · exact h k q oq e hq ho hnm

end InvBasic

/-! ## Flattening a disjunction -/

section Flatten

theorem Post.foldlM_mem_post {α β : Type} {Q : β → Prop} {f : β → α → Except Failure β}
    (l : List α) (hf : ∀ b, ∀ a ∈ l, Q b → Post Q (f b a)) (b : β) (hb : Q b) :
    Post Q (l.foldlM f b) := by
  induction l generalizing b with
  | nil => exact Post.pure_post b hb
  | cons a l ih =>
    rw [List.foldlM_cons]
    exact Post.bind_post (hf b a (List.mem_cons_self a l) hb)
      (fun b1 h1 => ih (fun b2 a2 h2 => hf b2 a2 (List.mem_cons_of_mem a h2)) b1 h1)

/-- A loop with an invariant that knows the elements already visited. -/
theorem Post.foldlM_pre {α β : Type} {Q : List α → β → Prop} {f : β → α → Except Failure β}
    (l : List α) (hf : ∀ pre a b, a ∈ l → Q pre b → Post (Q (pre ++ [a])) (f b a)) (b : β)
    (hb : Q [] b) : Post (Q l) (l.foldlM f b) := by
  have key : ∀ (r pre : List α) (b : β), (∀ a ∈ r, a ∈ l) → Q pre b →
      Post (Q (pre ++ r)) (r.foldlM f b) := by
    intro r
    induction r with
    | nil =>
      intro pre b _ hq
      rw [List.append_nil]
      exact Post.pure_post b hq
    | cons a r ih =>
      intro pre b hm hq
      rw [List.foldlM_cons]
      refine Post.bind_post (hf pre a b (hm a (List.mem_cons_self a r)) hq) (fun b1 h1 => ?_)
      have := ih (pre ++ [a]) b1 (fun x hx => hm x (List.mem_cons_of_mem a hx)) h1
      rw [List.append_assoc] at this
      exact this
  exact key l [] b (fun _ h => h) hb

theorem post_obj_eq {d : KCudfData} {p : Nat} {o : Package} (h : d.heap p = some o) :
    Post (fun o1 => o1 = o) (d.obj p) :=
  Post.mono_post (post_obj d p) (fun o1 h1 => by
    have := h.symm.trans h1
    cases this
    rfl)

/-- The method `flat` on an object that is not forwarded and is a `SelfPackage`
or a flat disjunction changes nothing. -/
theorem KCudfData.flatFrom_done (fuel : Nat) (d : KCudfData) (x : Nat) (ox : Package)
    (hx : d.heap x = some ox) (hf : ox.forwarded = false)
    (hl : ox.nm = none → ox.flt = true) :
    Post (fun d1 => d1 = d) (KCudfData.flatFrom fuel d x) := by
  cases fuel with
  | zero => exact Post.throw_post _
  | succ n =>
    unfold KCudfData.flatFrom
    refine Post.bind_post (post_obj_eq hx) ?_
    rintro o rfl
    split
    · rename_i h
      rw [hf] at h
      cases h
    · split
      · exact Post.throw_post _
      · rename_i h
        have hn : o.nm = none := by simpa using h
        rw [hl hn]
        exact Post.pure_post _ rfl

/-- The method `flat` on a forwarded object changes nothing. -/
theorem KCudfData.flatFrom_forwarded {d : KCudfData} {dt : DTNode} (hi : Inv d dt)
    (fuel : Nat) (x : Nat) (ox : Package) (hx : d.heap x = some ox)
    (hf : ox.forwarded = true) : Post (fun d1 => d1 = d) (KCudfData.flatFrom fuel d x) := by
  cases fuel with
  | zero => exact Post.throw_post _
  | succ n =>
    unfold KCudfData.flatFrom
    refine Post.bind_post (post_obj_eq hx) ?_
    rintro o rfl
    obtain ⟨q, s, e1, e2⟩ := hi.2.2.1 x o hx hf
    obtain ⟨oq, f1, f2, f3⟩ := hi.2.2.2.1 s q e2
    simp only [hf, if_true, e1]
    refine Post.bind_post (Post.trivial _) (fun b _ => ?_)
    split
    · exact Post.throw_post _
    · exact KCudfData.flatFrom_done n d q oq f1 f2 (fun hn => (f3 hn).1)

/-- A provider that stands for a concrete package passes the test of `flat`. -/
theorem Inv.conc_of_isConcrete {d : KCudfData} {dt : DTNode} (hi : Inv d dt) {q y : Nat}
    (hy : (q, y) ∈ d.packages) : Post (fun b => b = true → d.Conc q) (d.isConcrete y) := by
  refine Post.mono_post (d.post_isConcrete y) ?_
  rintro b ⟨t, ot, hr, hb⟩ hb1
  obtain ⟨e, oy, hoy⟩ := hi.2.1 q y hy
  subst e
  rw [hb1] at hb
  rcases hi.res hoy hr with ⟨-, -, e3⟩ | ⟨e1, e2⟩
  · subst e3
    exact ⟨ot, hoy, Or.inl hb.symm⟩
  · exact ⟨oy, hoy, Or.inr ⟨e1, t, ot, e2, hr.2.1, hb.symm⟩⟩

/-- The last loop of `flat`: the providers it keeps stand for concrete
packages. -/
theorem Inv.flat_last {d : KCudfData} {dt : DTNode} (hi : Inv d dt) (toAdd : IdSet) :
    Post (fun ps => ∀ q ∈ ps, d.Conc q)
      (toAdd.foldlM (fun (ps : IdSet) q => do
        let y ← d.ptr q
        if (← d.isConcrete y) then pure (ps.insert q) else throw Failure.assertion) []) := by
  refine Post.foldlM_post (Q := fun ps => ∀ q ∈ ps, d.Conc q) ?_ _ _ (fun q hq => by cases hq)
  intro ps q hps
  refine Post.bind_post (d.post_ptr q) (fun y hy => ?_)
  refine Post.bind_post (hi.conc_of_isConcrete hy) (fun b hb => ?_)
  split
  · rename_i hb1
    refine Post.pure_post _ ?_
    intro r hr
    rcases (IdSet.mem_insert _ _ _).mp hr with e | e
    · subst e
      exact hb hb1
    · exact hps r e
  · exact Post.throw_post _

/-- The method `flat` on a disjunction whose providers have nothing left to
flatten: only the object changes, and its providers stand for concrete
packages. -/
theorem Inv.flatFrom_settled {d : KCudfData} {dt : DTNode} (hi : Inv d dt) (fuel : Nat)
    (p : Nat) (o : Package) (hp : d.heap p = some o) (hn : o.nm = none)
    (hf : o.forwarded = false) (hl : o.flt = false)
    (hs : ∀ q ∈ o.providers, d.Settled q) :
    Post (fun d1 => ∃ ps, d1 = d.put p { o with providers := ps, flt := true } ∧
        ∀ q ∈ ps, d.Conc q)
      (KCudfData.flatFrom (fuel + 1) d p) := by
  unfold KCudfData.flatFrom
  refine Post.bind_post (post_obj_eq hp) ?_
  rintro o1 rfl
  split
  · rename_i h
    rw [hf] at h
    cases h
  split
  · rename_i h
    rw [hn] at h
    cases h
  split
  · rename_i h
    rw [hl] at h
    cases h
  refine Post.bind_post (Q := fun d1 => d1 = d) ?_ ?_
  · refine Post.foldlM_mem_post _ ?_ _ rfl
    rintro b q hq rfl
    refine Post.bind_post (b.post_ptr q) (fun x hx => ?_)
    refine Post.bind_post (Post.trivial _) (fun c _ => ?_)
    obtain ⟨-, ox, hox⟩ := hi.2.1 q x hx
    split
    · exact Post.pure_post _ rfl
    · cases hfx : ox.forwarded with
      | true => exact KCudfData.flatFrom_forwarded hi fuel x ox hox hfx
      | false =>
        exact KCudfData.flatFrom_done fuel b x ox hox hfx (fun h => hs q hq x ox hx hox h hfx)
  · rintro d1 rfl
    refine Post.bind_post (Post.trivial _) (fun toAdd _ => ?_)
    refine Post.bind_post (hi.flat_last toAdd) (fun ps hps => ?_)
    refine Post.bind_post (post_obj_eq hp) ?_
    rintro o2 rfl
    refine Post.pure_post _ ⟨_, rfl, ?_⟩
    intro q hq
    split at hq
    · exact hps q ((IdSet.mem_erase _ _ _).mp hq).1
    · exact hps q hq

end Flatten

/-! ## Flattening and interning the disjunctions of the document -/

section Compress

theorem KCudfData.Flattens.refl_flattens (d : KCudfData) : d.Flattens d :=
  ⟨rfl, rfl, fun _ o h => ⟨o, h, rfl, fun x => x⟩⟩

theorem KCudfData.Flattens.trans_flattens {d d1 d2 : KCudfData} (h1 : d.Flattens d1)
    (h2 : d1.Flattens d2) : d.Flattens d2 := by
  refine ⟨h2.1.trans h1.1, h2.2.1.trans h1.2.1, ?_⟩
  intro q o ho
  obtain ⟨o1, e1, e2, e3⟩ := h1.2.2 q o ho
  obtain ⟨o2, f1, f2, f3⟩ := h2.2.2 q o1 e1
  exact ⟨o2, f1, f2.trans e2, fun x => f3 (e3 x)⟩

/-- Before anything is forwarded no object is forwarded. -/
theorem Inv.create_not_forwarded {d : KCudfData} (hi : Inv d DTNode.create) {p : Nat}
    {o : Package} (hp : d.heap p = some o) : o.forwarded = false := by
  cases hf : o.forwarded with
  | false => rfl
  | true =>
    obtain ⟨q, s, -, e2⟩ := hi.2.2.1 p o hp hf
    rw [DTNode.find_create] at e2
    cases e2

/-- The method `flat` before the trie is filled. -/
theorem Inv.flatFrom_create (fuel : Nat) : ∀ (d : KCudfData) (p : Nat), Inv d DTNode.create →
    Post (fun d1 => Inv d1 DTNode.create ∧ d.Flattens d1 ∧
        ∀ o, d.heap p = some o → ∃ o1, d1.heap p = some o1 ∧ o1.flt = true)
      (KCudfData.flatFrom fuel d p) := by
  induction fuel with
  | zero => exact fun _ _ _ => Post.throw_post _
  | succ n ih =>
    intro d p hi
    unfold KCudfData.flatFrom
    refine Post.bind_post (post_obj d p) (fun o ho => ?_)
    split
    · rename_i h
      rw [hi.create_not_forwarded ho] at h
      cases h
    split
    · exact Post.throw_post _
    rename_i hnm
    have hn : o.nm = none := by simpa using hnm
    split
    · rename_i hl
      refine Post.pure_post _ ⟨hi, KCudfData.Flattens.refl_flattens d, ?_⟩
      intro o1 h1
      rw [ho] at h1
      cases h1
      exact ⟨o, ho, hl⟩
    refine Post.bind_post (Q := fun d1 => Inv d1 DTNode.create ∧ d.Flattens d1) ?_ ?_
    · refine Post.foldlM_post ?_ _ _ ⟨hi, KCudfData.Flattens.refl_flattens d⟩
      rintro b q ⟨hb1, hb2⟩
      refine Post.bind_post (Post.trivial _) (fun x _ => ?_)
      refine Post.bind_post (Post.trivial _) (fun c _ => ?_)
      split
      · exact Post.pure_post _ ⟨hb1, hb2⟩
      · exact Post.mono_post (ih b x hb1) (fun d2 h2 => ⟨h2.1, hb2.trans_flattens h2.2.1⟩)
    · rintro d1 ⟨hi1, hk1⟩
      refine Post.bind_post (Post.trivial _) (fun toAdd _ => ?_)
      refine Post.bind_post (hi1.flat_last toAdd) (fun ps hps => ?_)
      refine Post.bind_post (post_obj d1 p) (fun o1 ho1 => ?_)
      obtain ⟨o2, e1, e2, -⟩ := hk1.2.2 p o ho
      rw [ho1] at e1
      cases e1
      have hn1 : o1.nm = none := e2.trans hn
      refine Post.pure_post _ ⟨?_, ?_, ?_⟩
      · refine hi1.put_nonwinner ho1 hn1 ?_ rfl hn1 rfl rfl ?_
        · intro s hs
          rw [DTNode.find_create] at hs
          cases hs
        · intro _ q hq
          dsimp only at hq
          split at hq
          · exact hps q ((IdSet.mem_erase _ _ _).mp hq).1
          · exact hps q hq
      · refine ⟨hk1.1, hk1.2.1, ?_⟩
        intro q oq hq
        obtain ⟨oq1, f1, f2, f3⟩ := hk1.2.2 q oq hq
        by_cases e : q = p
        · subst e
          rw [ho1] at f1
          cases f1
          refine ⟨_, by rw [KCudfData.heap_put, if_pos rfl], ?_, ?_⟩
          · exact f2
          · exact fun _ => rfl
        · exact ⟨oq1, by simp [KCudfData.heap_put, e, f1], f2, f3⟩
      · intro _ _
        refine ⟨_, by rw [KCudfData.heap_put, if_pos rfl], ?_⟩
        rfl

/-- The loop that flattens all the disjunctions: every registered disjunction is
flat after it. -/
theorem Inv.flatAll {d : KCudfData} (hi : Inv d DTNode.create) :
    Post (fun d1 => Inv d1 DTNode.create ∧ d1.AllFlt ∧ d1.next_id = d.next_id)
      d.flatAll := by
  unfold KCudfData.flatAll
  refine Post.mono_post (Post.foldlM_pre
    (Q := fun pre d1 => Inv d1 DTNode.create ∧ d.Flattens d1 ∧
      ∀ e ∈ pre, ∀ o0, d.heap e.2 = some o0 → o0.nm = none →
        ∃ o1, d1.heap e.2 = some o1 ∧ o1.flt = true) d.packages ?_ d
      ⟨hi, KCudfData.Flattens.refl_flattens d, fun e he => by cases he⟩) ?_
  · rintro pre e d1 he ⟨hi1, hk1, hp1⟩
    refine Post.bind_post (d1.post_isConcrete e.2) ?_
    rintro b ⟨t, ot, hr, hb⟩
    split
    · unfold KCudfData.flat
      refine Post.mono_post (Inv.flatFrom_create _ d1 e.2 hi1) ?_
      rintro d2 ⟨hi2, hk2, hp2⟩
      refine ⟨hi2, hk1.trans_flattens hk2, ?_⟩
      intro e1 he1 o0 ho0 hn0
      rcases List.mem_append.mp he1 with h | h
      · obtain ⟨o1, f1, f2⟩ := hp1 e1 h o0 ho0 hn0
        obtain ⟨o2, g1, -, g3⟩ := hk2.2.2 _ o1 f1
        exact ⟨o2, g1, g3 f2⟩
      · have he2 := List.mem_singleton.mp h
        subst he2
        obtain ⟨o1, f1, -, -⟩ := hk1.2.2 _ o0 ho0
        exact hp2 o1 f1
    · rename_i hc
      have hb1 : b = true := by simpa using hc
      refine Post.pure_post _ ⟨hi1, hk1, ?_⟩
      intro e1 he1 o0 ho0 hn0
      rcases List.mem_append.mp he1 with h | h
      · exact hp1 e1 h o0 ho0 hn0
      · have he2 := List.mem_singleton.mp h
        subst he2
        obtain ⟨o1, f1, f2, -⟩ := hk1.2.2 _ o0 ho0
        rcases hi1.res f1 hr with ⟨-, -, e3⟩ | ⟨e3, -⟩
        · subst e3
          rw [hb1, f2, hn0] at hb
          cases hb
        · rw [hi1.create_not_forwarded f1] at e3
          cases e3
  · rintro d1 ⟨hi1, hk1, hp1⟩
    refine ⟨hi1, ?_, hk1.1⟩
    intro k p o1 hk ho1 hn1
    rw [hk1.2.1] at hk
    obtain ⟨-, o0, ho0⟩ := hi.2.1 k p hk
    obtain ⟨o2, f1, f2, -⟩ := hk1.2.2 p o0 ho0
    rw [ho1] at f1
    cases f1
    obtain ⟨o3, g1, g2⟩ := hp1 (k, p) hk o0 ho0 (f2.symm.trans hn1)
    rw [ho1] at g1
    cases g1
    exact g2

/-- The concrete packages enter the trie. -/
theorem Inv.internConcretes {d : KCudfData} {dt : DTNode} (hi : Inv d dt) :
    Post (fun dt1 => Inv d dt1) (d.internConcretes dt) := by
  unfold KCudfData.internConcretes
  refine Post.foldlM_post (Q := fun dt1 => Inv d dt1) ?_ _ _ hi
  intro dt1 e h1
  refine Post.bind_post (d.post_isConcrete e.2) ?_
  rintro b ⟨t, ot, hr, hb⟩
  split
  · rename_i hb1
    refine Post.bind_post (d.post_getId e.2) ?_
    rintro id ⟨t1, ot1, hr1, hid⟩
    obtain ⟨e1, e2⟩ := hr.unique hr1
    subst e1 e2
    refine Post.bind_post (Post.trivial _) (fun id2 _ => ?_)
    dsimp only
    split
    · exact Post.throw_post _
    · refine Post.pure_post _ ?_
      cases hd : DTNode.find (IdSet.insert [] id) dt1 with
      | some w =>
        exact h1.congr_dt (fun s => DTNode.find_addDisjunction_of_some dt1 _ w _ s hd)
      | none =>
        rename_i hres
        have hres1 : (dt1.addDisjunction id2 (IdSet.insert [] id)).1 = id := by
          simpa using hres
        rw [DTNode.addDisjunction_fst, hd] at hres1
        simp only [Option.getD_none] at hres1
        subst hres1
        have ht : id2 = t1 := by rw [hid]; exact (h1.1 t1 ot1 hr.2.1).1
        subst ht
        refine h1.add_win hr.2.1 hr.2.2 ?_ hd
        intro hn
        rw [hb1, hn] at hb
        cases hb
  · exact Post.pure_post _ h1

theorem KCudfData.AllFlt.frame_allFlt {d d1 : KCudfData} (h : d.AllFlt) (e1 : d1.heap = d.heap)
    (e3 : d1.packages = d.packages) : d1.AllFlt := by
  unfold KCudfData.AllFlt
  rw [e1, e3]
  exact h

theorem KCudfData.AllFlt.put_allFlt {d : KCudfData} (h : d.AllFlt) {p : Nat} {o o1 : Package}
    (hp : d.heap p = some o) (h2 : o1.nm = o.nm) (h3 : o.flt = true → o1.flt = true) :
    (d.put p o1).AllFlt := by
  intro k q oq hk ho hn
  rw [KCudfData.heap_put] at ho
  split at ho
  · rename_i e
    cases ho
    subst e
    exact h3 (h k q o hk hp (h2 ▸ hn))
  · exact h k q oq hk ho hn

/-- A change of one object: the disjunctions among `S1` other than it are among
`S`, and it is left out of the disjunctions that are flat and not forwarded, or
interned. -/
theorem Interned.put_into {d : KCudfData} {dt : DTNode} {S S1 : Nat → Prop}
    (h : Interned d dt S) (p : Nat) (o1 : Package) (hs : ∀ q, S1 q → q ≠ p → S q)
    (h1 : S1 p → o1.nm = none → o1.forwarded = false → o1.flt = true →
      DTNode.find o1.providers dt = some p) : Interned (d.put p o1) dt S1 := by
  intro q oq hq1 hq hn hf hl
  rw [KCudfData.heap_put] at hq
  split at hq
  · rename_i e
    cases hq
    subst e
    exact h1 hq1 hn hf hl
  · rename_i e
    exact h q oq (hs q hq1 e) hq hn hf hl

/-- The heap a forward leaves, as two changes of one object. -/
theorem KCudfData.heap_forward {d d1 : KCudfData} {a b : Nat} {oa1 ob1 : Package}
    (hab : a ≠ b) (e1 : d1.heap a = some oa1) (e2 : d1.heap b = some ob1)
    (e3 : ∀ p, p ≠ a → p ≠ b → d1.heap p = d.heap p) :
    d1.heap = ((d.put b ob1).put a oa1).heap := by
  funext p
  rw [KCudfData.heap_put, KCudfData.heap_put]
  by_cases ea : p = a
  · rw [if_pos ea, ea, e1]
  · rw [if_neg ea]
    by_cases eb : p = b
    · rw [if_pos eb, eb, e2]
    · rw [if_neg eb, e3 p ea eb]

/-- The invariant after a forward. -/
theorem Inv.forward {d d1 : KCudfData} {dt : DTNode} (hi : Inv d dt) {a b : Nat}
    {oa ob oa1 ob1 : Package} {s : IdSet} (ha : d.heap a = some oa) (hb : d.heap b = some ob)
    (hab : a ≠ b) (hn : oa.nm = none) (hf : oa.forwarded = false)
    (hw : ∀ s, DTNode.find s dt ≠ some a) (hs : DTNode.find s dt = some b)
    (e1 : d1.heap a = some oa1) (e2 : d1.heap b = some ob1)
    (e3 : ∀ p, p ≠ a → p ≠ b → d1.heap p = d.heap p) (e4 : d1.next_id = d.next_id)
    (e5 : d1.packages = d.packages) (k1 : ob1.skel = ob.skel) (k2 : oa1.id = oa.id)
    (k3 : oa1.nm = none) (k5 : oa1.fwd = some b) (k6 : oa1.flt = oa.flt)
    (k7 : ∀ q ∈ oa1.providers, q ∈ oa.providers) : Inv d1 dt := by
  have hsame : d.Same (d.put b ob1) := (KCudfData.Same.refl d).put_same hb k1
  have ha1 : (d.put b ob1).heap a = some oa := by
    rw [KCudfData.heap_put, if_neg hab, ha]
  exact ((hi.same hsame).put_forward ha1 hn hf hw hs k2 k3 k5 k6 k7).frame
    (KCudfData.heap_forward hab e1 e2 e3) e4 e5

theorem KCudfData.AllFlt.forward_allFlt {d d1 : KCudfData} (hi : d.AllFlt) {a b : Nat}
    {oa ob oa1 ob1 : Package} (ha : d.heap a = some oa) (hb : d.heap b = some ob)
    (hab : a ≠ b) (e1 : d1.heap a = some oa1) (e2 : d1.heap b = some ob1)
    (e3 : ∀ p, p ≠ a → p ≠ b → d1.heap p = d.heap p) (e5 : d1.packages = d.packages)
    (k1 : ob1.skel = ob.skel) (k3 : oa1.nm = oa.nm) (k6 : oa1.flt = oa.flt) : d1.AllFlt := by
  have hsame : d.Same (d.put b ob1) := (KCudfData.Same.refl d).put_same hb k1
  have ha1 : (d.put b ob1).heap a = some oa := by
    rw [KCudfData.heap_put, if_neg hab, ha]
  exact ((hi.same_allFlt hsame).put_allFlt ha1 k3 (fun x => k6.trans x)).frame_allFlt
    (KCudfData.heap_forward hab e1 e2 e3) e5

theorem KCudfData.FltBelow.forward_fltBelow {d d1 : KCudfData} {n : Nat} (hi : d.FltBelow n)
    {a b : Nat} {oa ob oa1 ob1 : Package} (ha : d.heap a = some oa) (hb : d.heap b = some ob)
    (hab : a ≠ b) (e1 : d1.heap a = some oa1) (e2 : d1.heap b = some ob1)
    (e3 : ∀ p, p ≠ a → p ≠ b → d1.heap p = d.heap p) (e5 : d1.packages = d.packages)
    (k1 : ob1.skel = ob.skel) (k3 : oa1.nm = oa.nm) (k6 : oa1.flt = oa.flt) :
    d1.FltBelow n := by
  have hsame : d.Same (d.put b ob1) := (KCudfData.Same.refl d).put_same hb k1
  have ha1 : (d.put b ob1).heap a = some oa := by
    rw [KCudfData.heap_put, if_neg hab, ha]
  exact ((hi.same_fltBelow hsame).put_fltBelow ha1 k3 (fun x => k6.trans x)).frame_fltBelow
    (KCudfData.heap_forward hab e1 e2 e3) e5

theorem Interned.forward_interned {d d1 : KCudfData} {dt : DTNode} {S S1 : Nat → Prop}
    (hi : Interned d dt S) {a b : Nat} {ob oa1 ob1 : Package} (hb : d.heap b = some ob)
    (hab : a ≠ b) (e1 : d1.heap a = some oa1) (e2 : d1.heap b = some ob1)
    (e3 : ∀ p, p ≠ a → p ≠ b → d1.heap p = d.heap p) (k1 : ob1.skel = ob.skel)
    (k4 : oa1.forwarded = true) (hs : ∀ q, S1 q → q ≠ a → S q) : Interned d1 dt S1 := by
  have hsame : d.Same (d.put b ob1) := (KCudfData.Same.refl d).put_same hb k1
  refine ((hi.same_interned hsame).put_into a oa1 hs ?_).frame_interned (KCudfData.heap_forward hab e1 e2 e3)
  intro _ _ h
  rw [k4] at h
  cases h

/-- The object a forwarded disjunction points to is the answer of the trie for
its own providers. -/
theorem Inv.winner_interned {d : KCudfData} {dt : DTNode} (hi : Inv d dt) {s : IdSet}
    {w : Nat} {ow : Package} (hs : DTNode.find s dt = some w) (hw : d.heap w = some ow)
    (hn : ow.nm = none) : DTNode.find ow.providers dt = some w := by
  obtain ⟨o1, e1, -, e3⟩ := hi.2.2.2.1 s w hs
  rw [hw] at e1
  cases e1
  rw [(e3 hn).2]
  exact hs

theorem Inv.forwarded_interned {d : KCudfData} {dt : DTNode} (hi : Inv d dt) {p t : Nat}
    {o ot : Package} (hp : d.heap p = some o) (hf : o.forwarded = true) (hr : d.Res p t ot)
    (hn : ot.nm = none) : DTNode.find ot.providers dt = some t := by
  obtain ⟨q, s, e1, e2⟩ := hi.2.2.1 p o hp hf
  rcases hi.res hp hr with ⟨e3, -, -⟩ | ⟨-, e4⟩
  · rw [hf] at e3
    cases e3
  · rw [e1] at e4
    cases e4
    exact hi.winner_interned e2 hr.2.1 hn

/-- The loop that interns the disjunctions and forwards those that lose. -/
theorem Inv.compress {d : KCudfData} {dt : DTNode} (hi : Inv d dt) (hfl : d.AllFlt) :
    Post (fun r => Inv r.1 r.2.1 ∧ r.1.AllFlt ∧
        Interned r.1 r.2.1 (fun p => ∃ k, (k, p) ∈ r.1.packages) ∧
        r.1.next_id = d.next_id)
      (d.compress dt) := by
  unfold KCudfData.compress
  refine Post.mono_post (Post.foldlM_pre
    (Q := fun pre (r : KCudfData × DTNode × Nat) => Inv r.1 r.2.1 ∧ r.1.AllFlt ∧
      r.1.packages = d.packages ∧ r.1.next_id = d.next_id ∧
      Interned r.1 r.2.1 (fun p => ∃ e ∈ pre, e.2 = p)) d.packages ?_ (d, dt, 0)
      ⟨hi, hfl, rfl, rfl, fun p o hp => by obtain ⟨e, he, -⟩ := hp; cases he⟩) ?_
  · rintro pre e ⟨ds, dts, c⟩ he ⟨h1, h2, h3, h4, h5⟩
    dsimp only at h1 h2 h3 h4 h5 ⊢
    have hreg : (e.1, e.2) ∈ ds.packages := by rw [h3]; exact he
    obtain ⟨-, oe, hoe⟩ := h1.2.1 e.1 e.2 hreg
    have hS : ∀ q, (∃ e1 ∈ pre ++ [e], e1.2 = q) → q ≠ e.2 → ∃ e1 ∈ pre, e1.2 = q := by
      rintro q ⟨e1, he1, rfl⟩ hq
      rcases List.mem_append.mp he1 with h | h
      · exact ⟨e1, h, rfl⟩
      · rw [List.mem_singleton.mp h] at hq
        exact absurd rfl hq
    refine Post.bind_post (ds.post_isConcrete e.2) ?_
    rintro b ⟨t, ot, hr, hb⟩
    split
    · rename_i hb0
      have hb1 : ot.nm = none := by
        cases hx : ot.nm with
        | none => rfl
        | some x => rw [hx] at hb; rw [hb] at hb0; cases hb0
      refine Post.bind_post (ds.post_getId e.2) ?_
      rintro i1 ⟨t1, ot1, hr1, hid⟩
      obtain ⟨u1, u2⟩ := hr1.unique hr
      subst u1 u2
      have hidt : t = i1 := by rw [hid]; exact (h1.1 t ot hr.2.1).1.symm
      subst hidt
      refine Post.bind_post (ds.post_getProviders e.2) ?_
      rintro ps ⟨t2, ot2, hr2, -, hps⟩
      obtain ⟨u1, u2⟩ := hr2.unique hr
      subst u1 u2 hps
      refine Post.bind_post (ds.post_getId e.2) ?_
      rintro i2 ⟨t3, ot3, hr3, hid3⟩
      obtain ⟨u1, u2⟩ := hr3.unique hr
      subst u1 u2
      have hidt : t = i2 := by rw [hid3]; exact (h1.1 t ot hr.2.1).1.symm
      subst hidt
      have hfst := DTNode.addDisjunction_fst dts t ot.providers
      split
      · rename_i hne
        rw [hfst] at hne
        cases hd : DTNode.find ot.providers dts with
        | none =>
          rw [hd] at hne
          exact absurd rfl hne
        | some w =>
          rw [hd] at hfst hne
          simp only [Option.getD_some] at hfst hne
          rw [hfst]
          have hcg := fun s1 => DTNode.find_addDisjunction_of_some dts t w ot.providers s1 hd
          obtain ⟨ow, how, hwf, -⟩ := h1.2.2.2.1 _ w hd
          have hef : oe.forwarded = false := by
            cases hx : oe.forwarded with
            | false => rfl
            | true =>
              have := h1.forwarded_interned hoe hx hr hb1
              rw [hd] at this
              cases this
              exact absurd rfl hne
          obtain ⟨u1, u2⟩ := KCudfData.Res.unique
            (show ds.Res e.2 e.2 oe from ⟨KCudfData.target_self hoe hef, hoe, hef⟩) hr
          subst u1 u2
          have hnw : ∀ s1, DTNode.find s1 dts ≠ some e.2 := by
            intro s1 hs1
            have := h1.winner_interned hs1 hoe hb1
            rw [hd] at this
            cases this
            exact absurd rfl hne
          have hidw : ow.id ≠ ot.id := by
            rw [(h1.1 w ow how).1, (h1.1 _ ot hoe).1]
            exact hne
          refine Post.bind_post (ds.post_ptr w) ?_
          intro b0 hb0m
          obtain ⟨ew, -⟩ := h1.2.1 w b0 hb0m
          subst ew
          obtain ⟨d1, q1, q2, q3, q4, q5, q6⟩ :=
            KCudfData.setForward_eq ds e.2 w ot ow hoe how hb1 hef hwf hidw
          refine Post.bind_post (Post.of_eq q1 (Q := fun x => x = d1) rfl) ?_
          rintro d2 rfl
          have hab : e.2 ≠ w := fun x => hne x.symm
          refine Post.pure_post _ ⟨?_, ?_, q6.trans h3, q5.trans h4, ?_⟩
          · refine Inv.congr_dt ?_ hcg
            refine h1.forward hoe how hab hb1 hef hnw hd q2 q3 q4 q5 q6 rfl rfl hb1 rfl rfl ?_
            intro q hq
            dsimp only at hq
            split at hq
            · exact ((IdSet.mem_erase _ _ _).mp hq).1
            · exact hq
          · exact h2.forward_allFlt hoe how hab q2 q3 q4 q6 rfl rfl rfl
          · refine Interned.congr_dt_interned ?_ hcg
            exact h5.forward_interned how hab q2 q3 q4 rfl rfl hS
      · rename_i heq
        have heq1 : (DTNode.find ot.providers dts).getD t = t := by
          rw [← hfst]
          simpa using heq
        cases hd : DTNode.find ot.providers dts with
        | none =>
          have hef : oe.forwarded = false := by
            cases hx : oe.forwarded with
            | false => rfl
            | true =>
              have := h1.forwarded_interned hoe hx hr hb1
              rw [hd] at this
              cases this
          obtain ⟨u1, u2⟩ := KCudfData.Res.unique
            (show ds.Res e.2 e.2 oe from ⟨KCudfData.target_self hoe hef, hoe, hef⟩) hr
          subst u1 u2
          have hflt : ot.flt = true := h2 e.1 e.2 ot hreg hoe hb1
          refine Post.pure_post _ ⟨?_, h2, h3, h4, ?_⟩
          · exact h1.add_win hoe hef (fun _ => ⟨hflt, rfl⟩) hd
          · refine (h5.add_win_interned hoe hd).mono_interned ?_
            rintro q ⟨e1, he1, rfl⟩
            rcases List.mem_append.mp he1 with h | h
            · exact Or.inl ⟨e1, h, rfl⟩
            · rw [List.mem_singleton.mp h]
              exact Or.inr rfl
        | some w =>
          rw [hd] at heq1
          simp only [Option.getD_some] at heq1
          subst heq1
          have hcg := fun s1 => DTNode.find_addDisjunction_of_some dts w w ot.providers s1 hd
          refine Post.pure_post _ ⟨h1.congr_dt hcg, h2, h3, h4, Interned.congr_dt_interned ?_ hcg⟩
          intro q oq hq hoq hnq hfq hlq
          by_cases eq : q = e.2
          · subst eq
            rw [hoe] at hoq
            cases hoq
            obtain ⟨u1, u2⟩ := KCudfData.Res.unique
              (show ds.Res e.2 e.2 oe from ⟨KCudfData.target_self hoe hfq, hoe, hfq⟩) hr
            subst u1 u2
            exact hd
          · exact h5 q oq (hS q hq eq) hoq hnq hfq hlq
    · rename_i hc
      have hb1 : b = true := by simpa using hc
      refine Post.pure_post _ ⟨h1, h2, h3, h4, ?_⟩
      intro q oq hq hoq hnq hfq hlq
      by_cases eq : q = e.2
      · subst eq
        obtain ⟨u1, u2⟩ := KCudfData.Res.unique
          (show ds.Res e.2 e.2 oq from ⟨KCudfData.target_self hoq hfq, hoq, hfq⟩) hr
        subst u1 u2
        rw [hb1, hnq] at hb
        cases hb
      · exact h5 q oq (hS q hq eq) hoq hnq hfq hlq
  · rintro ⟨ds, dts, c⟩ ⟨h1, h2, h3, h4, h5⟩
    refine ⟨h1, h2, h5.mono_interned ?_, h4⟩
    rintro p ⟨k, hk⟩
    dsimp only at hk h3
    rw [h3] at hk
    exact ⟨(k, p), hk, rfl⟩

end Compress

/-! ## The request: the packages to keep -/

section KeepRequest

theorem IdSet.mem_ofList (l : List Nat) (x : Nat) : x ∈ IdSet.ofList l ↔ x ∈ l := by
  unfold IdSet.ofList
  rw [IdSet.mem_foldl_insert]
  simp

/-- A set whose elements are all 0 has at most one element. -/
theorem IdSet.ofList_zeros (l : List Nat) (h : ∀ x ∈ l, x = 0) :
    (IdSet.ofList l).length ≤ 1 := by
  have key : ∀ (l : List Nat) (s : IdSet), (s = [] ∨ s = [0]) → (∀ x ∈ l, x = 0) →
      (l.foldl IdSet.insert s = [] ∨ l.foldl IdSet.insert s = [0]) := by
    intro l
    induction l with
    | nil => exact fun s hs _ => hs
    | cons a l ih =>
      intro s hs hl
      rw [List.foldl_cons]
      refine ih _ ?_ (fun x hx => hl x (List.mem_cons_of_mem a hx))
      have ha : a = 0 := hl a (List.mem_cons_self a l)
      subst ha
      rcases hs with e | e
      · subst e
        exact Or.inr (by decide)
      · subst e
        exact Or.inr (by decide)
  rcases key l [] (Or.inl rfl) h with e | e
  · unfold IdSet.ofList
    rw [e]
    decide
  · unfold IdSet.ofList
    rw [e]
    decide

theorem KCudfData.put_put (d : KCudfData) (p : Nat) (o1 o2 : Package) :
    (d.put p o1).put p o2 = d.put p o2 := by
  unfold KCudfData.put
  congr 1
  funext q
  simp only [setAt]
  split <;> rfl

/-- The registration of an object that is not forwarded. -/
theorem KCudfData.register_spec {d : KCudfData} {p : Nat} {o : Package}
    (hp : d.heap p = some o) (hf : o.forwarded = false) :
    Post (fun d1 => d1 = { d with packages := StdMap.set d.packages o.id p }) (d.register p) := by
  unfold KCudfData.register
  refine Post.bind_post (d.post_getId p) ?_
  rintro k ⟨t, ot, hr, hk⟩
  obtain ⟨u1, u2⟩ := KCudfData.Res.unique
    (show d.Res p p o from ⟨KCudfData.target_self hp hf, hp, hf⟩) hr
  subst u1 u2 hk
  exact Post.pure_post _ rfl

theorem KCudfData.addProvider_spec {d : KCudfData} {p : Nat} {o : Package}
    (hp : d.heap p = some o) (q : Nat) :
    Post (fun d1 => d1 = d.put p { o with providers := o.providers.insert q })
      (d.addProvider p q) := by
  unfold KCudfData.addProvider
  refine Post.bind_post (post_obj_eq hp) ?_
  rintro o1 rfl
  split
  · exact Post.throw_post _
  · split
    · exact Post.throw_post _
    · exact Post.pure_post _ rfl

/-- The loop that adds the providers of a new disjunction. -/
theorem KCudfData.addProviders_spec (l : List Nat) (d : KCudfData) (p : Nat) (o : Package)
    (hp : d.heap p = some o) :
    Post (fun d1 => ∃ ps, d1 = d.put p { o with providers := ps } ∧
        ∀ q ∈ ps, q ∈ o.providers ∨ q ∈ l)
      (l.foldlM (fun d i => d.addProvider p i) d) := by
  induction l generalizing d o with
  | nil =>
    refine Post.pure_post _ ⟨o.providers, ?_, fun q hq => Or.inl hq⟩
    unfold KCudfData.put
    have : setAt d.heap p (some o) = d.heap := by
      funext q
      simp only [setAt]
      split
      · rename_i e
        rw [e, hp]
      · rfl
    rw [this]
  | cons a l ih =>
    rw [List.foldlM_cons]
    refine Post.bind_post (KCudfData.addProvider_spec hp a) ?_
    rintro d1 rfl
    refine Post.mono_post (ih (d.put p { o with providers := o.providers.insert a })
      { o with providers := o.providers.insert a } (by rw [KCudfData.heap_put, if_pos rfl])) ?_
    rintro d2 ⟨ps, e1, e2⟩
    refine ⟨ps, ?_, ?_⟩
    · rw [e1, KCudfData.put_put]
    · intro q hq
      rcases e2 q hq with h | h
      · rcases (IdSet.mem_insert _ _ _).mp h with h1 | h1
        · exact Or.inr (h1 ▸ List.mem_cons_self a l)
        · exact Or.inl h1
      · exact Or.inr (List.mem_cons_of_mem a h)

theorem KCudfData.IsNew.heap_new {d d1 : KCudfData} {v : Int} (h : d.IsNew d1 v) :
    d1.heap d.next_id = some (Package.disjunction d.next_id v) := by
  rw [h.1]
  simp [setAt]

theorem KCudfData.IsNew.inv {d d1 : KCudfData} {v : Int} {dt : DTNode} (h : d.IsNew d1 v)
    (hi : Inv d dt) : Inv d1 dt := by
  have h1 := hi.fresh (Package.disjunction d.next_id v) rfl rfl rfl
  have h2 := h1.register (p := d.next_id) (o := Package.disjunction d.next_id v)
    (by simp [setAt])
  exact h2.frame h.1 h.2.1 h.2.2.1

theorem KCudfData.IsNew.interned {d d1 : KCudfData} {v : Int} {dt : DTNode}
    {S : Nat → Prop} (h : d.IsNew d1 v) (hi : Interned d dt S) (S1 : Nat → Prop)
    (hs : ∀ q, S1 q → q ≠ d.next_id → S q) : Interned d1 dt S1 := by
  intro q oq hq hoq hn hf hl
  rw [h.1] at hoq
  simp only [setAt] at hoq
  split at hoq
  · cases hoq
    cases hl
  · rename_i e
    exact hi q oq (hs q hq e) hoq hn hf hl

theorem KCudfData.IsNew.registered {d d1 : KCudfData} {v : Int} (h : d.IsNew d1 v) (k q : Nat)
    (hk : (k, q) ∈ d1.packages) : (k = d.next_id ∧ q = d.next_id) ∨ (k, q) ∈ d.packages := by
  rw [h.2.2.1] at hk
  rcases StdMap.mem_set _ _ _ _ hk with e | e
  · cases e
    exact Or.inl ⟨rfl, rfl⟩
  · exact Or.inr e

theorem KCudfData.IsNew.old {d d1 : KCudfData} {v : Int} {dt : DTNode} (h : d.IsNew d1 v)
    (hi : Inv d dt) {k q : Nat} (hk : (k, q) ∈ d.packages) :
    q ≠ d.next_id ∧ d1.heap q = d.heap q := by
  obtain ⟨-, o, ho⟩ := hi.2.1 k q hk
  have e : q ≠ d.next_id := Nat.ne_of_lt (hi.1 q o ho).2.1
  refine ⟨e, ?_⟩
  rw [h.1]
  simp [setAt, e]

/-- The method `newDisjunction`. -/
theorem KCudfData.newDisjunction_spec (d : KCudfData) (s : String) :
    Post (fun r => r.1 = d.next_id ∧ d.IsNew r.2 (-1)) (d.newDisjunction s) := by
  unfold KCudfData.newDisjunction
  dsimp only
  refine Post.bind_post (KCudfData.register_spec (o := Package.disjunction d.next_id (-1))
    (by simp [KCudfData.newDisjunctionObject, setAt, Package.disjunction]) rfl) ?_
  rintro d1 rfl
  refine Post.bind_post (Post.trivial _) (fun k _ => ?_)
  exact Post.pure_post _ ⟨rfl, rfl, rfl, rfl, rfl⟩

/-- The method `getDisjunction` for a key that is not there. -/
theorem KCudfData.getDisjunction_new (d : KCudfData) (s : String)
    (h : StdMap.has d.constv s = false) :
    Post (fun r => r.1 = d.next_id ∧ d.IsNew r.2 (-1)) (d.getDisjunction s) := by
  unfold KCudfData.getDisjunction
  unfold StdMap.has at h
  split
  · exact d.newDisjunction_spec s
  · rename_i k hk
    rw [hk] at h
    cases h

theorem KeepInv.frame_keepInv {n0 : Nat} {d d1 : KCudfData} {dt : DTNode} (h : KeepInv n0 d dt)
    (e1 : d1.heap = d.heap) (e2 : d1.next_id = d.next_id) (e3 : d1.packages = d.packages) :
    KeepInv n0 d1 dt := by
  refine ⟨h.1.frame e1 e2 e3, ?_, h.2.2.1.frame_allFlt e1 e3, e2 ▸ h.2.2.2⟩
  rw [e3]
  exact h.2.1.frame_interned e1

theorem KeepInv.same_keepInv {n0 : Nat} {d d1 : KCudfData} {dt : DTNode} (h : KeepInv n0 d dt)
    (hs : d.Same d1) : KeepInv n0 d1 dt := by
  refine ⟨h.1.same hs, ?_, h.2.2.1.same_allFlt hs, hs.1 ▸ h.2.2.2⟩
  rw [hs.2.1]
  exact h.2.1.same_interned hs

theorem Package.Like.trans_like {o o1 o2 : Package} (h1 : o.Like o1) (h2 : o1.Like o2) :
    o.Like o2 :=
  ⟨h2.1.trans h1.1, h2.2.1.trans h1.2.1, h2.2.2.1.trans h1.2.2.1, h2.2.2.2.trans h1.2.2.2⟩

/-- The loop that adds the providers of a new disjunction: the object after
it. -/
theorem KCudfData.addProviders_abs (l : List Nat) (d : KCudfData) (p : Nat) (o : Package)
    (hp : d.heap p = some o) :
    Post (fun d2 => ∃ o2, d2 = d.put p o2 ∧ o.Like o2 ∧ o2.flt = o.flt ∧
        ∀ q ∈ o2.providers, q ∈ o.providers ∨ q ∈ l)
      (l.foldlM (fun d i => d.addProvider p i) d) := by
  refine Post.mono_post (KCudfData.addProviders_spec l d p o hp) ?_
  rintro d2 ⟨ps, e1, e2⟩
  exact ⟨_, e1, ⟨rfl, rfl, rfl, rfl⟩, rfl, e2⟩

/-- The method `flat` on a disjunction whose providers have nothing left to
flatten: the object after it. -/
theorem Inv.flat_abs {d : KCudfData} {dt : DTNode} (hi : Inv d dt) (p : Nat) (o : Package)
    (hp : d.heap p = some o) (hn : o.nm = none) (hf : o.forwarded = false)
    (hl : o.flt = false) (hs : ∀ q ∈ o.providers, d.Settled q) :
    Post (fun d3 => ∃ o3, d3 = d.put p o3 ∧ o.Like o3 ∧ o3.flt = true ∧
        ∀ q ∈ o3.providers, d.Conc q) (d.flat p) := by
  unfold KCudfData.flat
  refine Post.mono_post (hi.flatFrom_settled _ p o hp hn hf hl hs) ?_
  rintro d3 ⟨ps, e1, e2⟩
  exact ⟨_, e1, ⟨rfl, rfl, rfl, rfl⟩, rfl, e2⟩

theorem KCudfData.Conc.put_conc {d : KCudfData} {p q : Nat} {o o1 : Package}
    (hp : d.heap p = some o) (hl : o.Like o1) (h : d.Conc q) : (d.put p o1).Conc q :=
  h.grows (KCudfData.Grows.put_grows hp hl.1 hl.2.1 (fun x => ⟨hl.2.2.1.trans x, hl.2.2.2⟩))

/-- The data after a new disjunction was created, registered, filled and
flattened, and before it is offered to the trie. -/
theorem KCudfData.IsNew.flattened {d d1 : KCudfData} {v : Int} {dt : DTNode}
    (hnew : d.IsNew d1 v) (hi : Inv d dt) (o3 : Package)
    (hl : (Package.disjunction d.next_id v).Like o3) (hf : o3.flt = true)
    (hc : ∀ q ∈ o3.providers, d1.Conc q) : Inv (d1.put d.next_id o3) dt :=
  (hnew.inv hi).put_nonwinner hnew.heap_new rfl (hi.not_winner_none hi.heap_next)
    hl.1 hl.2.1 hl.2.2.1 hl.2.2.2 (fun _ => hc)

/-- An offer that loses: the forward to the answer. -/
theorem Inv.offer_lose {d : KCudfData} {dt : DTNode} {S : Nat → Prop} (hi : Inv d dt)
    {u : Nat} {o : Package} (hu : d.heap u = some o) (hn : o.nm = none)
    (hf : o.forwarded = false) (hw : ∀ s, DTNode.find s dt ≠ some u)
    (hin : Interned d dt S) (b0 : Nat)
    (hne : (dt.addDisjunction u o.providers).1 ≠ u)
    (hb0 : ((dt.addDisjunction u o.providers).1, b0) ∈ d.packages) :
    Post (Offered d dt S u o) (d.setForward u b0) := by
  have hid : o.id = u := (hi.1 u o hu).1
  have hfst := DTNode.addDisjunction_fst dt u o.providers
  rw [hfst] at hne hb0
  cases hd : DTNode.find o.providers dt with
  | none =>
    rw [hd] at hne
    exact absurd rfl hne
  | some w =>
    rw [hd] at hne hb0
    simp only [Option.getD_some] at hne hb0
    have hcg := fun s1 => DTNode.find_addDisjunction_of_some dt u w o.providers s1 hd
    obtain ⟨ow, how, hwf, -⟩ := hi.2.2.2.1 _ w hd
    have hidw : ow.id ≠ o.id := by
      rw [(hi.1 w ow how).1, hid]
      exact hne
    obtain ⟨ew, -⟩ := hi.2.1 w b0 hb0
    subst ew
    obtain ⟨d4, q1, q2, q3, q4, q5, q6⟩ :=
      KCudfData.setForward_eq d u w o ow hu how hn hf hwf hidw
    refine Post.of_eq q1 ⟨?_, ?_, q5, q6, ?_, ?_⟩
    · refine Inv.congr_dt ?_ hcg
      refine hi.forward hu how (fun x => hne x.symm) hn hf hw hd q2 q3 q4 q5 q6 rfl rfl hn
        rfl rfl ?_
      intro q hq
      dsimp only at hq
      split at hq
      · exact ((IdSet.mem_erase _ _ _).mp hq).1
      · exact hq
    · refine Interned.congr_dt_interned ?_ hcg
      refine hin.forward_interned how (fun x => hne x.symm) q2 q3 q4 rfl rfl ?_
      intro q hq hqa
      rcases hq with h | h
      · exact h
      · exact absurd h hqa
    · intro q oq hq
      by_cases ea : q = u
      · subst ea
        rw [hu] at hq
        cases hq
        exact ⟨_, q2, rfl, rfl⟩
      · by_cases eb : q = w
        · subst eb
          rw [how] at hq
          cases hq
          exact ⟨_, q3, rfl, rfl⟩
        · exact ⟨oq, by rw [q4 q ea eb, hq], rfl, rfl⟩
    · intro q hq
      have ea : q ≠ u := by
        intro e
        rw [e, hu] at hq
        cases hq
      have eb : q ≠ w := by
        intro e
        rw [e, how] at hq
        cases hq
      rw [q4 q ea eb, hq]

/-- An offer that wins. -/
theorem Inv.offer_win {d : KCudfData} {dt : DTNode} {S : Nat → Prop} (hi : Inv d dt)
    {u : Nat} {o : Package} (hu : d.heap u = some o) (hf : o.forwarded = false)
    (hl : o.flt = true) (hw : ∀ s, DTNode.find s dt ≠ some u) (hin : Interned d dt S)
    (heq : ¬ (dt.addDisjunction u o.providers).1 ≠ u) : Offered d dt S u o d := by
  have hfst := DTNode.addDisjunction_fst dt u o.providers
  have heq1 : (DTNode.find o.providers dt).getD u = u := by
    rw [← hfst]
    simpa using heq
  cases hd : DTNode.find o.providers dt with
  | some w =>
    rw [hd] at heq1
    simp only [Option.getD_some] at heq1
    subst heq1
    exact absurd hd (hw o.providers)
  | none =>
    exact ⟨hi.add_win hu hf (fun _ => ⟨hl, rfl⟩) hd, hin.add_win_interned hu hd, rfl, rfl,
      fun q oq hq => ⟨oq, hq, rfl, rfl⟩, fun q hq => hq⟩

/-- The reads of the identifier and of the providers of a disjunction that is
not forwarded. -/
theorem KCudfData.post_getId_self {d : KCudfData} {u : Nat} {o : Package}
    (hu : d.heap u = some o) (hf : o.forwarded = false) :
    Post (fun i => i = o.id) (d.getId u) := by
  refine Post.mono_post (d.post_getId u) ?_
  rintro i ⟨t, ot, hr, hi⟩
  obtain ⟨u1, u2⟩ := KCudfData.Res.unique hr
    (show d.Res u u o from ⟨KCudfData.target_self hu hf, hu, hf⟩)
  subst u1 u2
  exact hi

theorem KCudfData.post_getProviders_self {d : KCudfData} {u : Nat} {o : Package}
    (hu : d.heap u = some o) (hf : o.forwarded = false) :
    Post (fun ps => ps = o.providers) (d.getProviders u) := by
  refine Post.mono_post (d.post_getProviders u) ?_
  rintro i ⟨t, ot, hr, -, hi⟩
  obtain ⟨u1, u2⟩ := KCudfData.Res.unique hr
    (show d.Res u u o from ⟨KCudfData.target_self hu hf, hu, hf⟩)
  subst u1 u2
  exact hi

/-- The disjunction of a `keep: package`: created, filled, flattened and
interned. -/
theorem KeepInv.keepCore {n0 : Nat} {d : KCudfData} {dsj : DTNode} (l : List Nat)
    (key : String) (ms : Marks) (h : KeepInv n0 d dsj) (hr : ∀ q ∈ l, q = 0 ∨ q < n0)
    (hl : (IdSet.ofList l).length > 1) (hk : StdMap.has d.constv key = false) :
    Post (fun r => KeepInv n0 r.1 r.2.1) (do
      let (dj, d) ← d.getDisjunction key
      let d ← (IdSet.ofList l).foldlM (fun d i => d.addProvider dj i) d
      let d ← d.flat dj
      let res := dsj.addDisjunction (← d.getId dj) (← d.getProviders dj)
      let d ← if res.1 ≠ (← d.getId dj) then do d.setForward dj (← d.ptr res.1) else pure d
      pure (d, res.2, { ms with toInstall := ms.toInstall.insert dj })) := by
  obtain ⟨hi, hin, hfl, hn0⟩ := h
  refine Post.bind_post (d.getDisjunction_new key hk) ?_
  rintro ⟨dj, d1⟩ ⟨e, hnew⟩
  dsimp only at e hnew ⊢
  subst e
  have hu1 := hnew.heap_new
  have hi1 : Inv d1 dsj := hnew.inv hi
  have hnw : ∀ s, DTNode.find s dsj ≠ some d.next_id := hi.not_winner_none hi.heap_next
  refine Post.bind_post (KCudfData.addProviders_abs _ d1 d.next_id _ hu1) ?_
  rintro d2 ⟨o2, e2, hl2, hf2, hps⟩
  have hn2 : o2.nm = none := hl2.2.1
  have hw2 : o2.forwarded = false := hl2.2.2.1
  have hi2 : Inv d2 dsj := by
    rw [e2]
    exact hi1.put_nonwinner hu1 rfl hnw hl2.1 hl2.2.1 hl2.2.2.1 hl2.2.2.2
      (fun x => by rw [hf2] at x; cases x)
  have hu2 : d2.heap d.next_id = some o2 := by rw [e2, KCudfData.heap_put, if_pos rfl]
  have hold2 : ∀ k q, (k, q) ∈ d.packages → d2.heap q = d.heap q := by
    intro k q hkq
    obtain ⟨e1, e3⟩ := hnew.old hi hkq
    rw [e2, KCudfData.heap_put, if_neg e1, e3]
  have hpk2 : d2.packages = d1.packages := by rw [e2]; rfl
  have hsettled : ∀ q ∈ o2.providers, d2.Settled q := by
    intro q hq x ox hx hox hnx hfx
    have hqr : q ∈ l := by
      rcases hps q hq with h1 | h1
      · cases h1
      · exact (IdSet.mem_ofList _ _).mp h1
    rw [hpk2] at hx
    rcases hnew.registered q x hx with ⟨e1, -⟩ | h1
    · exfalso
      subst e1
      rcases hr _ hqr with h2 | h2
      · have hz : n0 = 0 := Nat.le_zero.mp (h2 ▸ hn0)
        have hall : ∀ y ∈ l, y = 0 := by
          intro y hy
          rcases hr y hy with h3 | h3
          · exact h3
          · rw [hz] at h3
            exact absurd h3 (Nat.not_lt_zero _)
        exact absurd (IdSet.ofList_zeros l hall) (Nat.not_le.mpr hl)
      · exact absurd (Nat.lt_of_lt_of_le h2 hn0) (Nat.lt_irrefl _)
    · rw [hold2 q x h1] at hox
      exact hfl q x ox h1 hox hnx
  refine Post.bind_post (hi2.flat_abs d.next_id o2 hu2 hn2 hw2 hf2 hsettled) ?_
  rintro d3 ⟨o3, e3, hl3, hf3, hconc⟩
  have hn3 : o3.nm = none := hl3.2.1.trans hn2
  have hw3 : o3.forwarded = false := hl3.2.2.1.trans hw2
  have hi3 : Inv d3 dsj := by
    rw [e3]
    exact hi2.put_nonwinner hu2 hn2 hnw hl3.1 hn3 hl3.2.2.1 hl3.2.2.2 (fun _ q hq => hconc q hq)
  have hu3 : d3.heap d.next_id = some o3 := by rw [e3, KCudfData.heap_put, if_pos rfl]
  have hid3 : o3.id = d.next_id := (hi3.1 _ _ hu3).1
  have hold3 : ∀ k q, (k, q) ∈ d.packages → d3.heap q = d.heap q := by
    intro k q hkq
    obtain ⟨e1, -⟩ := hnew.old hi hkq
    rw [e3, KCudfData.heap_put, if_neg e1, hold2 k q hkq]
  have hpk3 : d3.packages = d1.packages := by rw [e3]; exact hpk2
  have hnx3 : d3.next_id = d.next_id + 1 := by rw [e3, e2]; exact hnew.2.1
  have hin3 : Interned d3 dsj (fun q => ∃ k, (k, q) ∈ d.packages) := by
    intro q oq hq hoq
    obtain ⟨k, hkq⟩ := hq
    rw [hold3 k q hkq] at hoq
    exact hin q oq ⟨k, hkq⟩ hoq
  have hfl3 : d3.AllFlt := by
    intro k q oq hkq hoq hnq
    rw [hpk3] at hkq
    rcases hnew.registered k q hkq with ⟨-, e5⟩ | h1
    · subst e5
      rw [hu3] at hoq
      cases hoq
      exact hf3
    · rw [hold3 k q h1] at hoq
      exact hfl k q oq h1 hoq hnq
  have final : ∀ d4, Offered d3 dsj (fun q => ∃ k, (k, q) ∈ d.packages) d.next_id o3 d4 →
      KeepInv n0 d4 (dsj.addDisjunction d.next_id o3.providers).2 := by
    rintro d4 ⟨g1, g2, g3, g4, g5, g6⟩
    refine ⟨g1, g2.mono_interned ?_, ?_, ?_⟩
    · rintro q ⟨k, hkq⟩
      rw [g4, hpk3] at hkq
      rcases hnew.registered k q hkq with ⟨-, e5⟩ | h1
      · exact Or.inr e5
      · exact Or.inl ⟨k, h1⟩
    · intro k q oq hkq hoq hnq
      rw [g4] at hkq
      cases hq3 : d3.heap q with
      | none =>
        rw [g6 q hq3] at hoq
        cases hoq
      | some oq3 =>
        obtain ⟨oq1, f1, f2, f3⟩ := g5 q oq3 hq3
        rw [hoq] at f1
        cases f1
        rw [f3]
        exact hfl3 k q oq3 hkq hq3 (f2 ▸ hnq)
    · rw [g3, hnx3]
      exact Nat.le_succ_of_le hn0
  refine Post.bind_post (KCudfData.post_getId_self hu3 hw3) ?_
  rintro i1 rfl
  refine Post.bind_post (KCudfData.post_getProviders_self hu3 hw3) ?_
  rintro ps1 rfl
  refine Post.bind_post (KCudfData.post_getId_self hu3 hw3) ?_
  rintro i2 rfl
  rw [hid3]
  split
  · rename_i hne
    refine Post.bind_post (d3.post_ptr _) (fun b0 hb0 => ?_)
    refine Post.bind_post (hi3.offer_lose hu3 hn3 hw3 hnw hin3 b0 hne hb0) ?_
    intro d4 h4
    exact Post.pure_post _ (final d4 h4)
  · rename_i heq
    refine Post.bind_post (Post.pure_post _ (hi3.offer_win hu3 hw3 hf3 hnw hin3 heq)) ?_
    intro d4 h4
    exact Post.pure_post _ (final d4 h4)

/-- The case `KP_PACKAGE` of the first loop of `processRequest`. -/
theorem KeepInv.keepPackage {n0 : Nat} {d : KCudfData} {dsj : DTNode} (ms : Marks)
    (pi : CudfPackage) (h : KeepInv n0 d dsj) (hv : d.ValsBelow n0) :
    Post (fun r => KeepInv n0 r.1 r.2.1) (d.keepPackage dsj ms pi) := by
  unfold KCudfData.keepPackage
  dsimp only
  split
  · rename_i hl
    split
    · exact Post.pure_post _ (h.frame_keepInv rfl rfl rfl)
    · rename_i hk
      refine KeepInv.keepCore _ _ ms (h.frame_keepInv rfl rfl rfl) ?_ hl (by simpa using hk)
      intro q hq
      obtain ⟨f, hf, rfl⟩ := List.mem_map.mp hq
      rcases StdMap.index_fst d.concrete pi.name [] with e | e
      · rw [e] at hf
        cases hf
      · exact hv.2 _ e f hf
  · refine Post.bind_post (Post.trivial _) (fun k _ => ?_)
    exact Post.pure_post _ (h.frame_keepInv rfl rfl rfl)

end KeepRequest

/-! ## The request: the packages to upgrade -/

section UpgradeRequest

/-- One step of the first loop of `processRequest`. -/
theorem KeepInv.processKeep {n0 : Nat} (s : KCudfData × DTNode × Marks) (pi : CudfPackage)
    (h : KeepInv n0 s.1 s.2.1) (hv : s.1.ValsBelow n0) :
    Post (fun r => KeepInv n0 r.1 r.2.1 ∧ r.1.ValsBelow n0) (KCudfData.processKeep s pi) := by
  refine Post.and ?_ (valsOld_processKeep n0 s pi hv)
  unfold KCudfData.processKeep
  split
  · exact h.keepPackage _ pi hv
  · refine Post.bind_post (same_keepFeature s.1 s.1 s.2.2 pi (KCudfData.Same.refl _)) ?_
    intro r hr
    exact Post.pure_post _ (h.same_keepInv hr)
  · dsimp only
    refine Post.bind_post (Post.trivial _) (fun k _ => ?_)
    refine Post.bind_post (Post.trivial _) (fun b _ => ?_)
    split
    · exact Post.throw_post _
    · refine Post.bind_post (Post.trivial _) (fun k1 _ => ?_)
      refine Post.bind_post (Post.trivial _) (fun b1 _ => ?_)
      split
      · exact Post.throw_post _
      · exact Post.pure_post _ (h.frame_keepInv rfl rfl rfl)
  · exact Post.pure_post _ h

theorem UpgInv.same_upgInv {n1 : Nat} {d d1 : KCudfData} {dt : DTNode} (h : UpgInv n1 d dt)
    (hs : d.Same d1) : UpgInv n1 d1 dt := by
  refine ⟨h.1.same hs, ?_, h.2.2.1.same_fltBelow hs, hs.1 ▸ h.2.2.2⟩
  rw [hs.2.1]
  exact h.2.1.same_interned hs

theorem KeepInv.upgInv {n0 : Nat} {d : KCudfData} {dt : DTNode} (h : KeepInv n0 d dt) :
    UpgInv d.next_id d dt :=
  ⟨h.1, h.2.1, h.2.2.1.below _, Nat.le_refl _⟩

theorem toUnsigned_zero : toUnsigned ((0 : Nat) : Int) = 0 := by decide

/-- The range of an upgrade holds no disjunction that is still to flatten. -/
theorem UpgInv.upgradeRange {n1 : Nat} {d : KCudfData} {dt : DTNode} (h : UpgInv n1 d dt)
    (vpk : Vpkg) (int_map : StdMap Int Nat) (ms : Marks)
    (hm : ∀ f ∈ int_map, f.2 = 0 ∨ f.2 < n1) :
    Post (fun r => ∀ q ∈ r.1, d.Done q) (d.upgradeRange vpk int_map ms) := by
  unfold KCudfData.upgradeRange
  refine Post.foldlM_mem_post (Q := fun (r : IdSet × Bool × Marks) => ∀ q ∈ r.1, d.Done q) _ ?_ _
    (fun q hq => by cases hq)
  intro s e he hs
  have he1 : e ∈ int_map := List.mem_reverse.mp he
  refine Post.bind_post (d.post_ptr e.2) (fun p hp => ?_)
  obtain ⟨ep, op, hop⟩ := h.1.2.1 e.2 p hp
  refine Post.bind_post (d.post_getVersion p) ?_
  rintro v ⟨t, ot, hr, hv⟩
  dsimp only
  split
  · exact Post.throw_post _
  rename_i hcv
  split
  · refine Post.bind_post (d.post_getId p) ?_
    rintro i ⟨t1, ot1, hr1, hi1⟩
    obtain ⟨u1, u2⟩ := KCudfData.Res.unique hr1 hr
    subst u1 u2
    have hit : i = t := by rw [hi1]; exact (h.1.1 t ot hr.2.1).1
    subst hit
    refine Post.bind_post (Post.trivial _) (fun b _ => ?_)
    refine Post.pure_post _ ?_
    intro q hq
    rcases (IdSet.mem_insert _ _ _).mp hq with e1 | e1
    · subst e1
      intro o ho hn hf
      have hoo : ot = o := Option.some.inj (hr.2.1.symm.trans ho)
      subst hoo
      rcases h.1.res hop hr with ⟨-, e3, e4⟩ | ⟨e3, e4⟩
      · subst e3 e4
        rcases hm e he1 with h0 | h0
        · exfalso
          apply hcv
          rw [hv]
          simp only [hn, Option.isSome_none, Bool.false_eq_true, if_false]
          rw [(h.1.1 q ot hop).1, ← ep, h0]
          exact toUnsigned_zero
        · exact h.2.2.1 e.2 q ot hp (ep ▸ h0) hop hn
      · obtain ⟨q1, s1, f1, f2⟩ := h.1.2.2.1 p op hop e3
        rw [f1] at e4
        cases e4
        obtain ⟨ow, g1, -, g3⟩ := h.1.2.2.2.1 s1 q f2
        have hoo : ot = ow := Option.some.inj (hr.2.1.symm.trans g1)
        subst hoo
        exact (g3 hn).1
    · exact hs q e1
  · exact Post.pure_post _ hs

/-- The creation and the registration of a disjunction. -/
theorem KCudfData.newRegistered_spec (d : KCudfData) (v : Int) :
    Post (fun d2 => d.IsNew d2 v)
      ((d.newDisjunctionObject v).2.register (d.newDisjunctionObject v).1) := by
  refine Post.mono_post (KCudfData.register_spec (o := Package.disjunction d.next_id v)
    (by simp [KCudfData.newDisjunctionObject, setAt, Package.disjunction]) rfl) ?_
  rintro d1 rfl
  exact ⟨rfl, rfl, rfl, rfl⟩

theorem KCudfData.IsNew.upgInv_isNew {n1 : Nat} {d d2 : KCudfData} {dt : DTNode} {v : Int}
    (hnew : d.IsNew d2 v) (h : UpgInv n1 d dt) : UpgInv n1 d2 dt := by
  obtain ⟨hi, hin, hfl, hn⟩ := h
  refine ⟨hnew.inv hi, hnew.interned hin _ ?_, ?_, ?_⟩
  · rintro q ⟨k, hk⟩ hq
    rcases hnew.registered k q hk with ⟨-, e⟩ | h1
    · exact absurd e hq
    · exact ⟨k, h1⟩
  · intro k q oq hk hq ho hnm
    rcases hnew.registered k q hk with ⟨-, e⟩ | h1
    · subst e
      exact absurd (Nat.lt_of_lt_of_le hq hn) (Nat.lt_irrefl _)
    · rw [(hnew.old hi h1).2] at ho
      exact hfl k q oq h1 hq ho hnm
  · rw [hnew.2.1]
    exact Nat.le_succ_of_le hn

/-- One step of the loop of `processRequest` over the upgrades. -/
theorem UpgInv.processUpgrade {n1 : Nat} (pr : Printer) (s : KCudfData × DTNode × Marks)
    (vpk : Vpkg) (h : UpgInv n1 s.1 s.2.1) (hv : s.1.ValsBelow n1) :
    Post (fun r => UpgInv n1 r.1 r.2.1 ∧ r.1.ValsBelow n1)
      (KCudfData.processUpgrade pr s vpk) := by
  refine Post.and ?_ (valsOld_processUpgrade n1 pr s vpk hv)
  unfold KCudfData.processUpgrade
  split
  rename_i upg d1 heq
  have e1 := congrArg Prod.fst heq
  have e2 := congrArg Prod.snd heq
  dsimp only at e1 e2
  subst e1 e2
  refine Post.bind_post (KCudfData.newRegistered_spec s.1 (-1)) ?_
  intro d2 hnew
  have h2 : UpgInv n1 d2 s.2.1 := hnew.upgInv_isNew h
  have hu2 : d2.heap s.1.next_id = some (Package.disjunction s.1.next_id (-1)) := hnew.heap_new
  have hun : n1 ≤ s.1.next_id := h.2.2.2
  split
  · exact Post.pure_post _ h2
  lift_lets
  intro jp
  suffices hjp : ∀ ms, Post (fun r => UpgInv n1 r.1 r.2.1) (jp ms) by
    clear_value jp
    split
    · refine Post.bind_post (Post.trivial _) (fun p _ => ?_)
      refine Post.bind_post (Post.trivial _) (fun b _ => ?_)
      split
      · exact Post.bind_post (Q := fun _ => True) (Post.throw_post _) (fun y _ => hjp y)
      · exact Post.bind_post (Post.trivial _) (fun y _ => hjp y)
    · exact Post.bind_post (Post.trivial _) (fun y _ => hjp y)
  intro ms
  simp only [jp]
  clear jp
  split
  · exact Post.throw_post _
  rename_i int_map hfind
  have hm : ∀ f ∈ int_map, f.2 = 0 ∨ f.2 < n1 := by
    intro f hf
    have := StdMap.mem_of_find _ _ _ hfind
    rw [hnew.2.2.2] at this
    exact hv.1 _ this f hf
  refine Post.bind_post (h2.upgradeRange vpk int_map ms hm) ?_
  rintro ⟨range, b, ms1⟩ hdone
  dsimp only at hdone ⊢
  refine Post.bind_post (same_pairwiseConflicting d2 d2 range (KCudfData.Same.refl _)) ?_
  intro d3 hs3
  have h3 : UpgInv n1 d3 s.2.1 := h2.same_upgInv hs3
  obtain ⟨hi3, hin3, hfl3, hle3⟩ := h3
  obtain ⟨ou, hu3, hsk⟩ := hs3.forth hu2
  obtain ⟨-, hnu, hfu, -, hlu, -⟩ := Package.skel_eq hsk
  have hnu1 : ou.nm = none := hnu
  have hfu1 : ou.forwarded = false := hfu
  have hlu1 : ou.flt = false := hlu
  have hult : s.1.next_id < d3.next_id := (hi3.1 _ _ hu3).2.1
  have hdone3 : ∀ q ∈ range, d3.Done q := by
    intro q hq o ho hn hf
    obtain ⟨o2, g1, g2⟩ := hs3.back ho
    obtain ⟨-, k2, k3, -, k5, -⟩ := Package.skel_eq g2
    rw [k5]
    exact hdone q hq o2 g1 (k2 ▸ hn) (k3 ▸ hf)
  have hi4 : Inv (d3.newDisjunctionObject (-1)).2 s.2.1 :=
    hi3.fresh (Package.disjunction d3.next_id (-1)) rfl rfl rfl
  have hv4 : (d3.newDisjunctionObject (-1)).2.heap d3.next_id =
      some (Package.disjunction d3.next_id (-1)) := by
    simp [KCudfData.newDisjunctionObject, setAt, Package.disjunction]
  have hold4 : ∀ q, q ≠ d3.next_id → (d3.newDisjunctionObject (-1)).2.heap q = d3.heap q := by
    intro q hq
    simp [KCudfData.newDisjunctionObject, setAt, hq]
  have hnwv : ∀ s1, DTNode.find s1 s.2.1 ≠ some d3.next_id :=
    hi3.not_winner_none hi3.heap_next
  refine Post.bind_post (KCudfData.addProviders_abs range _ d3.next_id _ hv4) ?_
  rintro d5 ⟨o2, e5, hl2, hf2, hps⟩
  have hn2 : o2.nm = none := hl2.2.1
  have hw2 : o2.forwarded = false := hl2.2.2.1
  have hi5 : Inv d5 s.2.1 := by
    rw [e5]
    exact hi4.put_nonwinner hv4 rfl hnwv hl2.1 hl2.2.1 hl2.2.2.1 hl2.2.2.2
      (fun x => by rw [hf2] at x; cases x)
  have hv5 : d5.heap d3.next_id = some o2 := by rw [e5, KCudfData.heap_put, if_pos rfl]
  have hold5 : ∀ q, q ≠ d3.next_id → d5.heap q = d3.heap q := by
    intro q hq
    rw [e5, KCudfData.heap_put, if_neg hq, hold4 q hq]
  have hpk5 : d5.packages = d3.packages := by rw [e5]; rfl
  have hregv : ∀ k q, (k, q) ∈ d3.packages → q ≠ d3.next_id := by
    intro k q hk
    obtain ⟨-, o, ho⟩ := hi3.2.1 k q hk
    exact Nat.ne_of_lt (hi3.1 q o ho).2.1
  have hsettled : ∀ q ∈ o2.providers, d5.Settled q := by
    intro q hq x ox hx hox hnx hfx
    have hqr : q ∈ range := by
      rcases hps q hq with h1 | h1
      · cases h1
      · exact h1
    rw [hpk5] at hx
    obtain ⟨ex, -⟩ := hi3.2.1 q x hx
    subst ex
    rw [hold5 q (hregv q q hx)] at hox
    exact hdone3 q hqr ox hox hnx hfx
  refine Post.bind_post (hi5.flat_abs d3.next_id o2 hv5 hn2 hw2 hf2 hsettled) ?_
  rintro d6 ⟨o3, e6, hl3, hf3, hconc⟩
  have hn3 : o3.nm = none := hl3.2.1.trans hn2
  have hw3 : o3.forwarded = false := hl3.2.2.1.trans hw2
  have hi6 : Inv d6 s.2.1 := by
    rw [e6]
    exact hi5.put_nonwinner hv5 hn2 hnwv hl3.1 hn3 hl3.2.2.1 hl3.2.2.2
      (fun _ q hq => hconc q hq)
  have hv6 : d6.heap d3.next_id = some o3 := by rw [e6, KCudfData.heap_put, if_pos rfl]
  have hid3 : o3.id = d3.next_id := (hi6.1 _ _ hv6).1
  have hold6 : ∀ q, q ≠ d3.next_id → d6.heap q = d3.heap q := by
    intro q hq
    rw [e6, KCudfData.heap_put, if_neg hq, hold5 q hq]
  have hpk6 : d6.packages = d3.packages := by rw [e6]; exact hpk5
  have hnx6 : d6.next_id = d3.next_id + 1 := by rw [e6, e5]; rfl
  have huv : s.1.next_id ≠ d3.next_id := Nat.ne_of_lt hult
  have hu6 : d6.heap s.1.next_id = some ou := by rw [hold6 _ huv, hu3]
  refine Post.bind_post (KCudfData.post_getId_self hv6 hw3) ?_
  rintro i1 rfl
  refine Post.bind_post (KCudfData.post_getProviders_self hv6 hw3) ?_
  rintro ps1 rfl
  refine Post.bind_post (KCudfData.post_getId_self hv6 hw3) ?_
  rintro i2 rfl
  rw [hid3]
  have hfst := DTNode.addDisjunction_fst s.2.1 d3.next_id o3.providers
  split
  · rename_i hne
    rw [hfst] at hne
    cases hd : DTNode.find o3.providers s.2.1 with
    | none =>
      rw [hd] at hne
      exact absurd rfl hne
    | some w =>
      have hcg := fun s1 => DTNode.find_addDisjunction_of_some s.2.1 d3.next_id w
        o3.providers s1 hd
      refine Post.bind_post (KCudfData.addProvider_spec hu6 _) ?_
      rintro d7 rfl
      refine Post.pure_post _ ⟨?_, ?_, ?_, ?_⟩
      · refine Inv.congr_dt ?_ hcg
        exact hi6.put_nonwinner hu6 hnu1 (hi6.not_winner hu6 hnu1 hlu1) rfl hnu1 rfl rfl
          (fun x => by rw [hlu1] at x; cases x)
      · refine Interned.congr_dt_interned ?_ hcg
        rintro q oq ⟨k, hk⟩ hoq hnq hfq hlq
        rw [KCudfData.heap_put] at hoq
        split at hoq
        · cases hoq
          rw [hlu1] at hlq
          cases hlq
        · have hk3 : (k, q) ∈ d3.packages := by rw [← hpk6]; exact hk
          rw [hold6 q (hregv k q hk3)] at hoq
          exact hin3 q oq ⟨k, hk3⟩ hoq hnq hfq hlq
      · intro k q oq hk hq hoq hnq
        have hk3 : (k, q) ∈ d3.packages := by rw [← hpk6]; exact hk
        rw [KCudfData.heap_put] at hoq
        split at hoq
        · rename_i e
          rw [e] at hq
          exact absurd (Nat.lt_of_lt_of_le hq hun) (Nat.lt_irrefl _)
        · rw [hold6 q (hregv k q hk3)] at hoq
          exact hfl3 k q oq hk3 hq hoq hnq
      · show n1 ≤ d6.next_id
        rw [hnx6]
        exact Nat.le_succ_of_le hle3
  · rename_i heq1
    have heq2 : (DTNode.find o3.providers s.2.1).getD d3.next_id = d3.next_id := by
      rw [← hfst]
      simpa using heq1
    cases hd : DTNode.find o3.providers s.2.1 with
    | some w =>
      rw [hd] at heq2
      simp only [Option.getD_some] at heq2
      subst heq2
      exact absurd hd (hnwv o3.providers)
    | none =>
      have hi6w : Inv d6 (s.2.1.addDisjunction d3.next_id o3.providers).2 :=
        hi6.add_win hv6 hw3 (fun _ => ⟨hf3, rfl⟩) hd
      have hfindv : DTNode.find o3.providers (s.2.1.addDisjunction d3.next_id o3.providers).2 =
          some d3.next_id := by
        rw [DTNode.find_addDisjunction, if_pos rfl, hd]
        rfl
      have hfindo : ∀ s1 q, DTNode.find s1 s.2.1 = some q →
          DTNode.find s1 (s.2.1.addDisjunction d3.next_id o3.providers).2 = some q := by
        intro s1 q hq
        rw [DTNode.find_addDisjunction]
        split
        · rename_i e
          rw [e, hd] at hq
          cases hq
        · exact hq
      refine Post.bind_post (KCudfData.register_spec hv6 hw3) ?_
      rintro d7 rfl
      rw [hid3]
      refine Post.bind_post (Post.trivial _) (fun i3 _ => ?_)
      have hi7 : Inv { d6 with packages := StdMap.set d6.packages d3.next_id d3.next_id }
          (s.2.1.addDisjunction d3.next_id o3.providers).2 := hi6w.register hv6
      have hu7 : KCudfData.heap
          { d6 with packages := StdMap.set d6.packages d3.next_id d3.next_id } s.1.next_id =
            some ou := hu6
      refine Post.bind_post (KCudfData.addProvider_spec hu7 _) ?_
      rintro d8 rfl
      have hreg8 : ∀ k q, (k, q) ∈ StdMap.set d6.packages d3.next_id d3.next_id →
          q = d3.next_id ∨ (k, q) ∈ d3.packages := by
        intro k q hk
        rcases StdMap.mem_set _ _ _ _ hk with e | e
        · cases e
          exact Or.inl rfl
        · rw [hpk6] at e
          exact Or.inr e
      refine Post.pure_post _ ⟨?_, ?_, ?_, ?_⟩
      · exact hi7.put_nonwinner hu7 hnu1 (hi7.not_winner hu7 hnu1 hlu1) rfl hnu1 rfl rfl
          (fun x => by rw [hlu1] at x; cases x)
      · rintro q oq ⟨k, hk⟩ hoq hnq hfq hlq
        rw [KCudfData.heap_put] at hoq
        split at hoq
        · cases hoq
          rw [hlu1] at hlq
          cases hlq
        · rcases hreg8 k q hk with e | hk3
          · subst e
            have hoo : o3 = oq := Option.some.inj (hv6.symm.trans hoq)
            subst hoo
            exact hfindv
          · have hoq3 : d3.heap q = some oq := by
              rw [← hold6 q (hregv k q hk3)]
              exact hoq
            exact hfindo _ _ (hin3 q oq ⟨k, hk3⟩ hoq3 hnq hfq hlq)
      · intro k q oq hk hq hoq hnq
        rw [KCudfData.heap_put] at hoq
        split at hoq
        · rename_i e
          rw [e] at hq
          exact absurd (Nat.lt_of_lt_of_le hq hun) (Nat.lt_irrefl _)
        · rcases hreg8 k q hk with e | hk3
          · rw [e] at hq
            exact absurd (Nat.lt_of_lt_of_le hq hle3) (Nat.lt_irrefl _)
          · have hoq3 : d3.heap q = some oq := by
              rw [← hold6 q (hregv k q hk3)]
              exact hoq
            exact hfl3 k q oq hk3 hq hoq3 hnq
      · show n1 ≤ d6.next_id
        rw [hnx6]
        exact Nat.le_succ_of_le hle3

end UpgradeRequest

/-! ## The constructor as a whole -/

section Assemble

theorem InvU.empty (n : Nat) : InvU (KCudfData.empty n) := by
  refine ⟨?_, ?_, ?_, ?_⟩
  · intro p o h
    cases h
  · intro k p h
    cases h
  · intro e he
    cases he
  · intro e he
    cases he

/-- The data after the document is read, with the empty trie. -/
theorem InvU.inv_invU {d : KCudfData} (h : InvU d) : Inv d DTNode.create := by
  obtain ⟨a, b, -⟩ := h
  refine ⟨?_, b, ?_, ?_, ?_⟩
  · intro p o ho
    exact ⟨(a p o ho).1, (a p o ho).2.1, fun _ => (a p o ho).2.2.1⟩
  · intro p o ho hf
    rw [(a p o ho).2.2.1] at hf
    cases hf
  · intro s w hw
    rw [DTNode.find_create] at hw
    cases hw
  · intro p o ho _ hf
    rw [(a p o ho).2.2.2] at hf
    cases hf

/-- The constructor up to the call of `processRequest`. -/
theorem KeepInv.beforeRequest (pr : Printer) (n : Nat) (doc : CudfDoc) :
    Post (fun r => KeepInv r.1.next_id r.1 r.2.1 ∧ r.1.ValsBelow r.1.next_id)
      (KCudfData.beforeRequest pr n doc) := by
  unfold KCudfData.beforeRequest
  refine Post.bind_post (invU_processConcretePackages _ doc (InvU.empty n)) (fun d1 h1 => ?_)
  refine Post.bind_post (invU_processInstalledPackages _ doc h1) (fun d2 h2 => ?_)
  refine Post.bind_post (invU_processEqualityConstraints _ doc h2) (fun d3 h3 => ?_)
  refine Post.bind_post (invU_processProvides _ doc h3) (fun d4 h4 => ?_)
  refine Post.bind_post (invU_processRangeConstraints pr _ doc h4) (fun d5 h5 => ?_)
  have hv5 : KCudfData.ValsOld d5.next_id d5 := h5.2.2
  refine Post.bind_post (Post.and h5.inv_invU.flatAll (valsOld_flatAll _ d5 hv5)) ?_
  rintro d6 ⟨⟨hi6, hf6, hn6⟩, hv6⟩
  refine Post.bind_post (hi6.internConcretes) (fun dt7 hi7 => ?_)
  refine Post.bind_post (Post.and (hi7.compress hf6) (valsOld_compress _ d6 dt7 hv6)) ?_
  rintro ⟨d8, dt8, c8⟩ ⟨⟨hi8, hf8, hin8, hn8⟩, hv8⟩
  dsimp only at hi8 hf8 hin8 hn8 hv8 ⊢
  have hk8 : KeepInv d8.next_id d8 dt8 := ⟨hi8, hin8, hf8, Nat.le_refl _⟩
  refine Post.bind_post (Post.and (same_zeroProviders d8 d8 (KCudfData.Same.refl _))
    (valsOld_zeroProviders _ d8 hv8)) ?_
  rintro ⟨d9, z9⟩ ⟨hs9, hv9⟩
  dsimp only at hs9 hv9 ⊢
  refine Post.bind_post (Post.and (same_fixInstallVirtuals d8 d9 hs9)
    (valsOld_fixInstallVirtuals _ d9 hv9)) ?_
  rintro d10 ⟨hs10, hv10⟩
  refine Post.pure_post _ ⟨?_, ?_⟩
  · show KeepInv d10.next_id d10 dt8
    rw [hs10.1]
    exact hk8.same_keepInv hs10
  · show d10.ValsBelow d10.next_id
    rw [hs10.1, hn8, hn6]
    exact hv10

/-- The method `processRequest`. -/
theorem KeepInv.processRequest (pr : Printer) (d : KCudfData) (doc : CudfDoc) (dsj : DTNode)
    (h : KeepInv d.next_id d dsj) (hv : d.ValsBelow d.next_id) :
    Post (fun r => ∃ n1, UpgInv n1 r.1 r.2) (KCudfData.processRequest pr d doc dsj) := by
  unfold KCudfData.processRequest
  refine Post.bind_post (Post.foldlM_post
    (Q := fun (s : KCudfData × DTNode × Marks) =>
      KeepInv d.next_id s.1 s.2.1 ∧ s.1.ValsBelow d.next_id)
    (fun s pi hs => KeepInv.processKeep s pi hs.1 hs.2) _ _ ⟨h, hv⟩) ?_
  rintro s1 ⟨hk1, hv1⟩
  have hu1 : UpgInv s1.1.next_id s1.1 s1.2.1 := hk1.upgInv
  have hw1 : s1.1.ValsBelow s1.1.next_id :=
    ⟨hv1.1.mono_vals hk1.2.2.2, hv1.2.mono_vals hk1.2.2.2⟩
  refine Post.bind_post (Post.foldlM_post
    (Q := fun (s : KCudfData × DTNode × Marks) =>
      UpgInv s1.1.next_id s.1 s.2.1 ∧ s.1.ValsBelow s1.1.next_id)
    (fun s vpk hs => UpgInv.processUpgrade pr s vpk hs.1 hs.2) _ _ ⟨hu1, hw1⟩) ?_
  rintro s2 ⟨hu2, -⟩
  refine Post.bind_post (Post.foldlM_post
    (Q := fun (t : KCudfData × Marks) => KCudfData.Same s2.1 t.1)
    (fun t vpk ht => same_processInstall s2.1 pr t vpk ht) _ _ (KCudfData.Same.refl _)) ?_
  intro t3 hs3
  refine Post.bind_post (Post.foldlM_post
    (Q := fun (t : KCudfData × Marks) => KCudfData.Same s2.1 t.1)
    (fun t vpk ht => same_processRemove s2.1 pr t vpk ht) _ _ hs3) ?_
  intro t4 hs4
  refine Post.bind_post (same_markPackages s2.1 t4.1 t4.2 hs4) ?_
  intro d5 hs5
  exact Post.pure_post _ ⟨_, hu2.same_upgInv hs5⟩

/-- The end of the constructor. -/
theorem UpgInv.complete {n1 : Nat} {d : KCudfData} {dt : DTNode} (c z : Nat)
    (h : UpgInv n1 d dt) : Post (fun r => UpgInv n1 r.1 dt) (d.complete c z) := by
  unfold KCudfData.complete
  refine Post.bind_post (same_fixInstallVirtuals d d (KCudfData.Same.refl _)) (fun d1 hs1 => ?_)
  refine Post.bind_post (same_consistent d d1 hs1) ?_
  rintro ⟨b2, d2⟩ hs2
  dsimp only at hs2 ⊢
  refine Post.bind_post (Post.trivial _) (fun disj _ => ?_)
  refine Post.bind_post (same_fillBigPackages d d2 hs2) (fun d3 hs3 => ?_)
  exact Post.pure_post _ (h.same_upgInv hs3)

/-- The constructor. -/
theorem UpgInv.create (pr : Printer) (n : Nat) (doc : CudfDoc) :
    Post (fun r => ∃ dt n1, UpgInv n1 r.1 dt) (KCudfData.create pr n doc) := by
  unfold KCudfData.create
  refine Post.bind_post (KeepInv.beforeRequest pr n doc) ?_
  rintro ⟨d1, dt1, c1, z1⟩ ⟨hk1, hv1⟩
  dsimp only at hk1 hv1 ⊢
  refine Post.bind_post (KeepInv.processRequest pr d1 doc dt1 hk1 hv1) ?_
  rintro ⟨d2, dt2⟩ ⟨n1, hu2⟩
  dsimp only at hu2 ⊢
  exact Post.mono_post (hu2.complete c1 z1) (fun r hr => ⟨dt2, n1, hr⟩)

end Assemble

/-! ## Reading the data of a translation -/

section Translated

theorem KCudfData.create_translation (doc : CudfDoc)
    (hok : (KCudfData.create Printer.plain 0 doc).isOk = true) :
    KCudfData.create Printer.plain 0 doc = Except.ok (KCudfData.translation doc) := by
  unfold KCudfData.translation
  cases h : KCudfData.create Printer.plain 0 doc with
  | ok r => rfl
  | error e =>
    rw [h] at hok
    cases hok

/-- The forwards from a forwarded object end after one step. -/
theorem Inv.target_forward {d : KCudfData} {dt : DTNode} (hi : Inv d dt) {p q : Nat}
    {o oq : Package} (hp : d.heap p = some o) (hf : o.forwarded = true) (hq : o.fwd = some q)
    (hoq : d.heap q = some oq) (hfq : oq.forwarded = false) : d.target p = Except.ok q := by
  unfold KCudfData.target
  rw [KCudfData.targetFrom_step _ hp hf hq]
  obtain ⟨k, hk⟩ := Nat.exists_eq_succ_of_ne_zero
    (Nat.ne_of_gt (Nat.lt_of_le_of_lt (Nat.zero_le _) (hi.1 q oq hoq).2.1))
  rw [hk]
  exact KCudfData.targetFrom_self _ hoq hfq

theorem Inv.isConcrete_of_conc {d : KCudfData} {dt : DTNode} (hi : Inv d dt) {q : Nat}
    (hq : d.Conc q) : d.isConcrete q = Except.ok true := by
  obtain ⟨oq, hoq, h1 | ⟨hf, t, c, ht, hc, hcn⟩⟩ := hq
  · have hnf := (hi.1 q oq hoq).2.2 h1
    unfold KCudfData.isConcrete
    rw [KCudfData.target_self hoq hnf]
    simp [bind, Except.bind, KCudfData.obj_of_heap hoq, pure, Except.pure, h1]
  · have hnf := (hi.1 t c hc).2.2 hcn
    unfold KCudfData.isConcrete
    rw [hi.target_forward hoq hf ht hc hnf]
    simp [bind, Except.bind, KCudfData.obj_of_heap hc, pure, Except.pure, hcn]

theorem KCudfData.Res.getId_res {d : KCudfData} {p t : Nat} {o : Package} (h : d.Res p t o) :
    d.getId p = Except.ok o.id := by
  unfold KCudfData.getId
  rw [h.1]
  simp [bind, Except.bind, KCudfData.obj_of_heap h.2.1, pure, Except.pure]

/-- The owner of the set of providers read at a registered flat object is the
answer of the trie for this set. -/
theorem Inv.owner_interned {d : KCudfData} {dt : DTNode} (hi : Inv d dt)
    (hin : Interned d dt (fun p => ∃ k, (k, p) ∈ d.packages)) {k p : Nat} {o : Package}
    {s : IdSet} (hk : d.ptr k = Except.ok p) (hp : d.heap p = some o) (hf : o.flt = true)
    (hs : d.getProviders p = Except.ok s) :
    ∃ t ot, d.Res p t ot ∧ DTNode.find s dt = some t := by
  obtain ⟨t, ot, hr, hn, e⟩ := (d.post_getProviders p).out s hs
  refine ⟨t, ot, hr, ?_⟩
  rcases hi.res hp hr with ⟨h1, h2, h3⟩ | ⟨h1, h2⟩
  · subst h2 h3
    rw [e]
    exact hin t ot ⟨k, (d.post_ptr k).out t hk⟩ hp hn h1 hf
  · obtain ⟨q, s1, hq, hs1⟩ := hi.2.2.1 p o hp h1
    have e1 : q = t := Option.some.inj (hq.symm.trans h2)
    subst e1
    obtain ⟨o1, ho1, -, h3⟩ := hi.2.2.2.1 s1 q hs1
    have e2 : o1 = ot := Option.some.inj (ho1.symm.trans hr.2.1)
    subst e2
    rw [e, (h3 hn).2]
    exact hs1

end Translated

/-! ## Interning after translation -/

section Interning

/-- C13, as the code has it: in the data of a translation, two registered objects
that are flat, and whose sets of providers, read through the forwards, are equal,
have the same identifier, read through the forwards. -/
theorem flat_disjunctions_interned (pr : Printer) (n : Nat) (doc : CudfDoc) (d : KCudfData)
    (st : TranslatorStats) (h : KCudfData.create pr n doc = Except.ok (d, st))
    (k1 p1 k2 p2 : Nat) (o1 o2 : Package) (s : IdSet)
    (hk1 : d.ptr k1 = Except.ok p1) (hk2 : d.ptr k2 = Except.ok p2)
    (h1 : d.heap p1 = some o1) (h2 : d.heap p2 = some o2)
    (hf1 : o1.flt = true) (hf2 : o2.flt = true)
    (hs1 : d.getProviders p1 = Except.ok s) (hs2 : d.getProviders p2 = Except.ok s) :
    ∃ i, d.getId p1 = Except.ok i ∧ d.getId p2 = Except.ok i := by
  obtain ⟨dt, n1, hi, hin, -, -⟩ := (UpgInv.create pr n doc).out _ h
  obtain ⟨t1, ot1, hr1, hw1⟩ := hi.owner_interned hin hk1 h1 hf1 hs1
  obtain ⟨t2, ot2, hr2, hw2⟩ := hi.owner_interned hin hk2 h2 hf2 hs2
  have e : t1 = t2 := Option.some.inj (hw1.symm.trans hw2)
  subst e
  have e2 : ot1 = ot2 := Option.some.inj (hr1.2.1.symm.trans hr2.2.1)
  subst e2
  exact ⟨ot1.id, hr1.getId_res, hr2.getId_res⟩

theorem flat_disjunctions_interned_witness :
    ∃ d st o1 o2, KCudfData.create Printer.plain 0 docDepends = Except.ok (d, st) ∧
      d.ptr 3 = Except.ok 3 ∧ d.ptr 9 = Except.ok 9 ∧
      d.heap 3 = some o1 ∧ d.heap 9 = some o2 ∧ o1.flt = true ∧ o2.flt = true ∧
      d.getProviders 3 = Except.ok [0, 4] ∧ d.getProviders 9 = Except.ok [0, 4] ∧
      ∃ i, d.getId 3 = Except.ok i ∧ d.getId 9 = Except.ok i := by
  have h := KCudfData.create_translation docDepends rfl
  have e1 : ((KCudfData.translation docDepends).1.heap 3).map (fun o => o.flt) = some true := rfl
  have e2 : ((KCudfData.translation docDepends).1.heap 9).map (fun o => o.flt) = some true := rfl
  cases g1 : (KCudfData.translation docDepends).1.heap 3 with
  | none =>
    rw [g1] at e1
    cases e1
  | some o1 =>
    cases g2 : (KCudfData.translation docDepends).1.heap 9 with
    | none =>
      rw [g2] at e2
      cases e2
    | some o2 =>
      rw [g1] at e1
      rw [g2] at e2
      have f1 : o1.flt = true := Option.some.inj e1
      have f2 : o2.flt = true := Option.some.inj e2
      exact ⟨_, _, o1, o2, h, rfl, rfl, g1, g2, f1, f2, rfl, rfl,
        flat_disjunctions_interned _ _ _ _ _ h 3 3 9 9 o1 o2 [0, 4] rfl rfl g1 g2 f1 f2 rfl rfl⟩

/-- The two nodes of the requests to upgrade `a` and `a >= 1` (objects 6 and 8):
both are registered and not forwarded, both have the set of providers `[3]`, and
their identifiers differ. -/
theorem interning_counterexample :
    (KCudfData.create Printer.plain 0 docUpgrade).map
        (fun r => (r.1.ptr 6, r.1.ptr 8, r.1.getProviders 6, r.1.getProviders 8,
          r.1.getId 6, r.1.getId 8)) =
      Except.ok (Except.ok 6, Except.ok 8, Except.ok [3], Except.ok [3],
        Except.ok 6, Except.ok 8) :=
  rfl

end Interning

/-! ## Flat providers after translation -/

section FlatProviders

/-- C14, as the code has it: in the data of a translation, every provider of
every flat `Disjunction` is a concrete package, or is forwarded to one: the
method `isConcrete` answers true on it. -/
theorem flat_providers_concrete (pr : Printer) (n : Nat) (doc : CudfDoc) (d : KCudfData)
    (st : TranslatorStats) (h : KCudfData.create pr n doc = Except.ok (d, st))
    (p : Nat) (o : Package) (hp : d.heap p = some o) (hn : o.nm = none)
    (hf : o.flt = true) (q : Nat) (hq : q ∈ o.providers) :
    d.isConcrete q = Except.ok true := by
  obtain ⟨dt, n1, hi, -, -, -⟩ := (UpgInv.create pr n doc).out _ h
  exact hi.isConcrete_of_conc (hi.2.2.2.2 p o hp hn hf q hq)

theorem flat_providers_concrete_witness :
    ∃ d st o, KCudfData.create Printer.plain 0 docUpgrade = Except.ok (d, st) ∧
      d.heap 3 = some o ∧ o.nm = none ∧ o.flt = true ∧ 4 ∈ o.providers ∧
      d.isConcrete 4 = Except.ok true := by
  have h := KCudfData.create_translation docUpgrade rfl
  have e1 : ((KCudfData.translation docUpgrade).1.heap 3).map
      (fun o => (o.nm, o.flt, o.providers)) = some (none, true, [0, 4]) := rfl
  cases g1 : (KCudfData.translation docUpgrade).1.heap 3 with
  | none =>
    rw [g1] at e1
    cases e1
  | some o =>
    rw [g1] at e1
    have e2 := Option.some.inj e1
    have f1 : o.nm = none := congrArg Prod.fst e2
    have f2 : o.flt = true := congrArg (fun x => x.2.1) e2
    have f3 : o.providers = [0, 4] := congrArg (fun x => x.2.2) e2
    have f4 : 4 ∈ o.providers := by
      rw [f3]
      decide
    exact ⟨_, _, o, h, g1, f1, f2, f4,
      flat_providers_concrete _ _ _ _ _ h 3 o g1 f1 f2 4 f4⟩

/-- The node of the request to upgrade `a` (object 6): it is registered, a
`Disjunction` that is not forwarded and not flat, and its only provider, object
3, is a `Disjunction`. -/
theorem flat_providers_counterexample :
    (KCudfData.create Printer.plain 0 docUpgrade).map
        (fun r => (r.1.ptr 6, (r.1.heap 6).map (fun o => (o.nm, o.forwarded, o.flt, o.providers)),
          r.1.ptr 3, r.1.isConcrete 3)) =
      Except.ok (Except.ok 6, some (none, false, false, [3]), Except.ok 3, Except.ok false) :=
  rfl

end FlatProviders

/-! ## Forwards end after one step -/

section ForwardChains

/-- C15, as the code has it: in the data of a translation, a forwarded object is
a `Disjunction`, and the object it is forwarded to, a `Disjunction` or a
`SelfPackage`, is not forwarded: the forwards from an object end on an object
that is not forwarded, after one step at most. -/
theorem forward_ends_after_one_step (pr : Printer) (n : Nat) (doc : CudfDoc) (d : KCudfData)
    (st : TranslatorStats) (h : KCudfData.create pr n doc = Except.ok (d, st))
    (p : Nat) (o : Package) (hp : d.heap p = some o) :
    (o.forwarded = true → o.nm = none ∧ ∃ q oq, o.fwd = some q ∧ d.heap q = some oq ∧
      oq.forwarded = false ∧ d.target p = Except.ok q) ∧
    (o.forwarded = false → d.target p = Except.ok p) := by
  obtain ⟨dt, n1, hi, -, -, -⟩ := (UpgInv.create pr n doc).out _ h
  refine ⟨fun hf => ⟨?_, ?_⟩, fun hf => KCudfData.target_self hp hf⟩
  · cases hn : o.nm with
    | none => rfl
    | some x =>
      have := (hi.1 p o hp).2.2 (by rw [hn]; rfl)
      rw [hf] at this
      cases this
  · obtain ⟨q, s, hq, hs⟩ := hi.2.2.1 p o hp hf
    obtain ⟨oq, hoq, hfq, -⟩ := hi.2.2.2.1 s q hs
    exact ⟨q, oq, hq, hoq, hfq, hi.target_forward hp hf hq hoq hfq⟩

theorem forward_ends_after_one_step_witness :
    ∃ d st o, KCudfData.create Printer.plain 0 docDepends = Except.ok (d, st) ∧
      d.heap 9 = some o ∧ o.forwarded = true ∧
      (o.nm = none ∧ ∃ q oq, o.fwd = some q ∧ d.heap q = some oq ∧
        oq.forwarded = false ∧ d.target 9 = Except.ok q) := by
  have h := KCudfData.create_translation docDepends rfl
  have e1 : ((KCudfData.translation docDepends).1.heap 9).map (fun o => o.forwarded) =
      some true := rfl
  cases g1 : (KCudfData.translation docDepends).1.heap 9 with
  | none =>
    rw [g1] at e1
    cases e1
  | some o =>
    rw [g1] at e1
    have f1 : o.forwarded = true := Option.some.inj e1
    exact ⟨_, _, o, h, g1, f1, (forward_ends_after_one_step _ _ _ _ _ h 9 o g1).1 f1⟩

/-- The disjunction of the version `a = 1` (object 1) of the document with the
single package `a = 1`: it is forwarded to object 0, the concrete package. -/
theorem forward_to_concrete_counterexample :
    (KCudfData.create Printer.plain 0 docSingle).map
        (fun r => ((r.1.heap 1).map (fun o => (o.nm, o.forwarded, o.fwd)),
          (r.1.heap 0).map (fun o => (o.nm, o.forwarded)), r.1.isConcrete 0)) =
      Except.ok (some (none, true, some 0), some (some "a", false), Except.ok true) :=
  rfl

end ForwardChains

/-! ## The two lists of tasks -/

section QueueAssignment

theorem foldl_ucpStep_todo1 (pkgId : Nat) (ps : List Nat) (r : KCudfReducer) :
    ∃ l, (ps.foldl (ucpStep pkgId) r).todo1 = r.todo1 ++ l ∧ ∀ t ∈ l, t.1 = PK_UPD := by
  induction ps generalizing r with
  | nil => exact ⟨[], by simp, by simp⟩
  | cons p ps ih =>
    obtain ⟨l, hl, hl2⟩ := ih (ucpStep pkgId r p)
    rw [List.foldl_cons, hl]
    unfold ucpStep
    split
    · refine ⟨[(PK_UPD, p), (PK_UPD, pkgId)] ++ l, by simp, ?_⟩
      intro t ht
      rcases List.mem_append.mp ht with h | h
      · simp only [List.mem_cons, List.mem_singleton, List.not_mem_nil, or_false] at h
        rcases h with h | h <;> rw [h]
      · exact hl2 t h
    · exact ⟨l, rfl, hl2⟩

/-- The tasks a turn of the loop sends to the two lists. -/
theorem Moved.sent {r r1 : KCudfReducer} {pkgId : Nat} {op : PK_OP} (h : Moved r pkgId op r1) :
    ∃ l1 l2, r1.todo1 = r.todo1 ++ l1 ∧ r1.todo2 = r.todo2 ++ l2 ∧
      (∀ t ∈ l1, t.1 = PK_MU ∨ t.1 = PK_MI ∨ t.1 = PK_UCP ∨ (t.1 = PK_UPD ∧ op = PK_UCP)) ∧
      (∀ t ∈ l2, t.1 = PK_CI ∨ t.1 = PK_CU ∨ t.1 = PK_USP ∨
        (t.1 = PK_UPD ∧ op.isTransition = true)) := by
  cases h with
  | keep op hop htf => exact ⟨[], [], by simp, by simp, by simp, by simp⟩
  | change op nextState hop htf hne hfl hab =>
    rw [KCudfReducer.changeState_eq]
    refine ⟨_, _, by simp only [List.append_assoc]; rfl, by simp only [List.append_assoc]; rfl,
      ?_, ?_⟩
    · intro t ht
      rcases List.mem_append.mp ht with h | h
      · split at h
        · exact Or.inr (Or.inr (Or.inl (mem_ucpTasks _ _ _ h).1))
        · cases h
      · rcases mem_updTasks1.mp h with ⟨-, ⟨h1, -⟩ | ⟨h1, -⟩⟩ | ⟨-, h1, -⟩
        · exact Or.inr (Or.inl h1)
        · exact Or.inl h1
        · exact Or.inl h1
    · intro t ht
      rcases List.mem_append.mp ht with h | h
      · split at h
        · exact Or.inr (Or.inr (Or.inl (mem_uspTasks _ _ _ _ h).1))
        · cases h
      · rcases List.mem_append.mp h with h | h
        · split at h
          · rw [List.mem_singleton.mp h]
            exact Or.inr (Or.inr (Or.inr ⟨rfl, hop⟩))
          · cases h
        · rcases mem_updTasks2.mp h with ⟨-, ⟨h1, -⟩ | ⟨h1, -⟩⟩ | ⟨-, h1, -⟩ |
            ⟨-, ⟨h1, -⟩ | ⟨h1, -⟩ | ⟨h1, -⟩⟩
          · exact Or.inl h1
          · exact Or.inr (Or.inl h1)
          · exact Or.inr (Or.inl h1)
          · exact Or.inl h1
          · exact Or.inr (Or.inl h1)
          · exact Or.inr (Or.inl h1)
  | ucp0 h0 =>
    refine ⟨[(PK_MU, pkgId)], [], rfl, by simp, ?_, by simp⟩
    intro t ht
    rw [List.mem_singleton.mp ht]
    exact Or.inl rfl
  | ucp1 h1 =>
    obtain ⟨l, hl, hl2⟩ := foldl_ucpStep_todo1 pkgId (r.pvds_in pkgId) r
    refine ⟨l, [], hl, ?_, fun t ht => Or.inr (Or.inr (Or.inr ⟨hl2 t ht, rfl⟩)), by simp⟩
    rw [(foldl_ucpStep_frame pkgId (r.pvds_in pkgId) r).2.2.2.2]
    simp
  | ucpN h0 h1 => exact ⟨[], [], by simp, by simp, by simp, by simp⟩
  | usp h0 hs =>
    refine ⟨[], (r.pvds_in pkgId).map (fun p => (PK_CI, p)) ++ [(PK_CU, pkgId)], by simp,
      by simp, by simp, ?_⟩
    intro t ht
    rcases List.mem_append.mp ht with h | h
    · obtain ⟨p, -, e⟩ := List.mem_map.mp h
      rw [← e]
      exact Or.inl rfl
    · rw [List.mem_singleton.mp h]
      exact Or.inr (Or.inl rfl)
  | uspN h0 => exact ⟨[], [], by simp, by simp, by simp, by simp⟩
  | upd =>
    refine ⟨updTasks1 r.toGraphWriter (r.pkg_st pkgId) pkgId ++ [(PK_UCP, pkgId)],
      updTasks2 r.toGraphWriter (r.pkg_st pkgId) pkgId ++ [(PK_USP, pkgId)], by simp, by simp,
      ?_, ?_⟩
    · intro t ht
      rcases List.mem_append.mp ht with h | h
      · rcases mem_updTasks1.mp h with ⟨-, ⟨h1, -⟩ | ⟨h1, -⟩⟩ | ⟨-, h1, -⟩
        · exact Or.inr (Or.inl h1)
        · exact Or.inl h1
        · exact Or.inl h1
      · rw [List.mem_singleton.mp h]
        exact Or.inr (Or.inr (Or.inl rfl))
    · intro t ht
      rcases List.mem_append.mp ht with h | h
      · rcases mem_updTasks2.mp h with ⟨-, ⟨h1, -⟩ | ⟨h1, -⟩⟩ | ⟨-, h1, -⟩ |
          ⟨-, ⟨h1, -⟩ | ⟨h1, -⟩ | ⟨h1, -⟩⟩
        · exact Or.inl h1
        · exact Or.inr (Or.inl h1)
        · exact Or.inr (Or.inl h1)
        · exact Or.inl h1
        · exact Or.inr (Or.inl h1)
        · exact Or.inr (Or.inl h1)
      · rw [List.mem_singleton.mp h]
        exact Or.inr (Or.inr (Or.inl rfl))

/-- C30, as the code has it: the queue of every task.  `KCudfReducer::package`
sends `PK_CI` tasks to `TD_2` only; the initialisation loop of `process` sends one
`PK_UPD` task per package to `TD_1` and nothing to `TD_2`; a turn of the loop on
the task `(op, pkgId)` appends to `TD_1` only `PK_MU`, `PK_MI` and `PK_UCP`
tasks, and `PK_UPD` tasks when `op` is `PK_UCP`, and to `TD_2` only `PK_CI`,
`PK_CU` and `PK_USP` tasks, and a `PK_UPD` task when `op` goes through the
transition table. -/
theorem tasks_queue_assignment :
    (∀ (r : KCudfReducer) (p : Nat) (keep install : Bool),
      (r.package p keep install).todo1 = r.todo1 ∧
      ∃ l, (r.package p keep install).todo2 = r.todo2 ++ l ∧ ∀ t ∈ l, t.1 = PK_CI) ∧
    (∀ r : KCudfReducer,
      r.initLoop.todo1 = r.todo1 ++ r.packages.map (fun p => (PK_UPD, p)) ∧
      r.initLoop.todo2 = r.todo2) ∧
    (∀ (r : KCudfReducer) (op : PK_OP) (pkgId : Nat) (r1 : KCudfReducer),
      pkgId ∈ r.packages → (∀ p ∈ r.providers pkgId, p ∈ r.packages) →
      r.turn op pkgId = Turn.next r1 →
      ∃ l1 l2, r1.todo1 = r.todo1 ++ l1 ∧ r1.todo2 = r.todo2 ++ l2 ∧
        (∀ t ∈ l1, t.1 = PK_MU ∨ t.1 = PK_MI ∨ t.1 = PK_UCP ∨
          (t.1 = PK_UPD ∧ op = PK_UCP)) ∧
        (∀ t ∈ l2, t.1 = PK_CI ∨ t.1 = PK_CU ∨ t.1 = PK_USP ∨
          (t.1 = PK_UPD ∧ op.isTransition = true))) := by
  refine ⟨?_, ?_, ?_⟩
  · intro r p keep install
    unfold KCudfReducer.package
    dsimp only
    split
    · exact ⟨rfl, [(PK_CI, p)], rfl, fun t ht => by rw [List.mem_singleton.mp ht]⟩
    · exact ⟨rfl, [], by simp, by simp⟩
  · intro r
    rw [initLoop_eq]
    exact ⟨rfl, rfl⟩
  · intro r op pkgId r1 hpk hpv h
    exact (KCudfReducer.turn_next r op pkgId r1 hpk hpv h).sent

theorem tasks_queue_assignment_witness :
    ∃ r1, 1 ∈ exampleSearch.packages ∧ (∀ p ∈ exampleSearch.providers 1, p ∈ exampleSearch.packages) ∧
      exampleSearch.initLoop.turn PK_UCP 1 = Turn.next r1 ∧
      ∃ l1 l2, r1.todo1 = exampleSearch.initLoop.todo1 ++ l1 ∧
        r1.todo2 = exampleSearch.initLoop.todo2 ++ l2 ∧
        (∀ t ∈ l1, t.1 = PK_MU ∨ t.1 = PK_MI ∨ t.1 = PK_UCP ∨
          (t.1 = PK_UPD ∧ PK_UCP = PK_UCP)) ∧
        (∀ t ∈ l2, t.1 = PK_CI ∨ t.1 = PK_CU ∨ t.1 = PK_USP ∨
          (t.1 = PK_UPD ∧ PK_UCP.isTransition = true)) :=
  ⟨_, by decide, by decide, rfl,
    tasks_queue_assignment.2.2 exampleSearch.initLoop PK_UCP 1 _ (by decide) (by decide) rfl⟩

/-- The `PK_UPD` tasks of the initialisation are on `TD_1`, and `TD_2` is empty. -/
theorem upd_first_list_counterexample :
    exampleSearch.todo1 = [] ∧ exampleSearch.todo2 = [] ∧
    exampleSearch.initLoop.todo1 = [(PK_UPD, 0), (PK_UPD, 1), (PK_UPD, 2), (PK_UPD, 3)] ∧
    exampleSearch.initLoop.todo2 = [] := by
  decide

end QueueAssignment

/-! ## Two packages in conflict that must be installed -/

section ConflictingMusts

theorem Moved.mi_stays_moved {r r1 : KCudfReducer} {pkgId : Nat} {op : PK_OP} (h : Moved r pkgId op r1)
    (q : Nat) (hq : r.pkg_st q = PKR_MI) : r1.pkg_st q = PKR_MI := by
  cases h with
  | keep op hop htf => exact hq
  | change op nextState hop htf hne hfl hab =>
    rw [KCudfReducer.changeState_eq]
    show setAt r.pkg_st pkgId nextState q = PKR_MI
    by_cases e : q = pkgId
    · subst e
      rw [hq] at htf hne
      exfalso
      cases op with
      | PK_MU =>
        exact hfl (Option.some.inj
          ((show tf PKR_MI PK_MU = some PKR_FL from rfl).symm.trans htf)).symm
      | PK_MI =>
        exact hne (Option.some.inj ((show tf PKR_MI PK_MI = some PKR_MI from rfl).symm.trans htf))
      | PK_CI =>
        exact hne (Option.some.inj ((show tf PKR_MI PK_CI = some PKR_MI from rfl).symm.trans htf))
      | PK_CU =>
        exact hne (Option.some.inj ((show tf PKR_MI PK_CU = some PKR_MI from rfl).symm.trans htf))
      | PK_UCP => simp [PK_OP.isTransition] at hop
      | PK_USP => simp [PK_OP.isTransition] at hop
      | PK_UPD => simp [PK_OP.isTransition] at hop
    · rw [setAt_ne _ _ e]
      exact hq
  | ucp0 h0 => exact hq
  | ucp1 h1 =>
    rw [(foldl_ucpStep_frame pkgId (r.pvds_in pkgId) r).2.1]
    exact hq
  | ucpN h0 h1 => exact hq
  | usp h0 hs => exact hq
  | uspN h0 => exact hq
  | upd => exact hq

theorem Stepped.mi_stays_stepped {r r1 : KCudfReducer} (h : Stepped r r1) (q : Nat)
    (hq : r.pkg_st q = PKR_MI) : r1.pkg_st q = PKR_MI := by
  cases h with
  | first op pkgId rest r1 h1 hm => exact hm.mi_stays_moved q hq
  | second op pkgId rest r1 h1 h2 hm => exact hm.mi_stays_moved q hq

theorem Reach.mi_stays_reach {r0 r : KCudfReducer} (h : Reach r0 r) (hb : Base r0) (q : Nat)
    (hq : r0.pkg_st q = PKR_MI) : r.pkg_st q = PKR_MI := by
  induction h with
  | start => exact hq
  | turn r r1 hr ht ih => exact ((hr.frame_reach hb).1.iteration ht).mi_stays_stepped q ih

/-- C27: two packages that must both be installed and are in conflict.  For
every well-formed graph in which two packages that both start with `keep = true`
and `install = true` are joined by a conflict edge, `reduce` returns `RDO_FAIL`,
with enough fuel. -/
theorem conflicting_musts_fail (r0 : KCudfReducer) (h0 : r0.Ready) (p c : Nat)
    (hp : p ∈ r0.packages) (hc : c ∈ r0.conflicts p)
    (hkp : r0.keep p = true) (hip : r0.install p = true)
    (hkc : r0.keep c = true) (hic : r0.install c = true) :
    ∀ fuel, potential r0.initLoop < fuel →
      ∃ r, r0.reduce fuel = some (Reduced.returned RDO_FAIL [] [] r) := by
  intro fuel hf
  obtain ⟨r, hr, ⟨e1, -, -⟩ | ⟨r1, -, e2⟩⟩ := h0.reduce_ended fuel hf
  · exfalso
    have hcp : c ∈ r0.pkgs := (h0.1.conf hp hc).1
    have hb0 := initLoop_Base r0 h0
    obtain ⟨hb, -, hph⟩ := h0.reach hr
    have hfr := (initLoop_frame r0).1.trans_frame (hr.frame_reach hb0).2
    have hst : ∀ x ∈ r0.pkgs, r0.keep x = true → r0.install x = true →
        r.pkg_st x = PKR_MI := by
      intro x hx hk hi
      refine hr.mi_stays_reach hb0 x ?_
      rw [(initLoop_frame r0).2.1, h0.2.1 x hx, hk, hi]
      rfl
    have hsat : Saturated r.toGraphWriter r.pkg_st r.cp [] := by
      rcases hph with ⟨-, hm⟩ | hs
      · rw [e1] at hm
        exact hm.to_saturated
      · rw [e1] at hs
        exact hs
    have hmu := hsat.2.1 p (hfr.1 ▸ hp) (hst p hp hkp hip) c (by rw [hfr.2.2.1]; exact hc)
    rw [hst c hcp hkc hic] at hmu
    cases hmu
  · exact ⟨r1, e2⟩

theorem conflicting_musts_fail_witness :
    exampleFail.Ready ∧ 1 ∈ exampleFail.packages ∧ 0 ∈ exampleFail.conflicts 1 ∧
    exampleFail.keep 1 = true ∧ exampleFail.install 1 = true ∧
    exampleFail.keep 0 = true ∧ exampleFail.install 0 = true ∧
    ∀ fuel, potential exampleFail.initLoop < fuel →
      ∃ r, exampleFail.reduce fuel = some (Reduced.returned RDO_FAIL [] [] r) :=
  ⟨by decide, by decide, by decide, rfl, rfl, rfl, rfl,
    conflicting_musts_fail exampleFail (by decide) 1 0 (by decide) (by decide) rfl rfl rfl rfl⟩

end ConflictingMusts

/-! ## A dependency on a disjunction left to the search -/

section DisjunctiveDependency

theorem reduce_of_summary (r0 : KCudfReducer) (n : Nat) (ps : List Nat) (out : RD_OUT)
    (search : List Event) (sts : List (PKR_STATE × Nat))
    (h : (r0.reduce n).bind (Reduced.summary ps) = some (out, search, sts)) :
    ∃ solved r, (∀ fuel, n ≤ fuel →
        r0.reduce fuel = some (Reduced.returned out solved search r)) ∧
      ps.map (fun p => (r.state p, r.sp p)) = sts := by
  cases e : r0.reduce n with
  | none =>
    rw [e] at h
    cases h
  | some res =>
    rw [e] at h
    cases res with
    | assertion r => cases h
    | returned out1 solved search1 r =>
      simp only [Option.bind, Reduced.summary, Option.some.injEq, Prod.mk.injEq] at h
      obtain ⟨rfl, rfl, h3⟩ := h
      exact ⟨solved, r, fun fuel hf => reduce_mono e hf, h3⟩

/-- C28, as the code has it: the scenario of the disjunctive dependency.  On the
graph where package 0 (`x`) must be installed and depends on package 1 (`D`),
whose providers are the packages 2 and 3 (`a` and `b`), each providing itself and
depending on `D`, neither installed nor kept, `reduce` returns `RDO_SEARCH`, with
enough fuel; `D` ends in the state `MI` with `sp = 0`, `a` and `b` end in the
state `SR`, the transition table taking `CU` to `SR` on `PK_CI`, and the search
slice declares `D`, `a` and `b`. -/
theorem disjunctive_dependency_search :
    ∃ solved search r,
      (∀ fuel, 60 ≤ fuel →
        exampleSearch.reduce fuel = some (Reduced.returned RDO_SEARCH solved search r)) ∧
      r.state 1 = PKR_MI ∧ r.sp 1 = 0 ∧ r.state 2 = PKR_SR ∧ r.state 3 = PKR_SR ∧
      declarations search 1 = [(true, true)] ∧ declarations search 2 = [(false, false)] ∧
      declarations search 3 = [(false, false)] := by
  obtain ⟨solved, r, h1, h2⟩ := reduce_of_summary exampleSearch 60 [1, 2, 3] RDO_SEARCH
    [Event.package 1 true true, Event.package 2 false false,
      Event.package 3 false false, Event.provides 2 1, Event.provides 3 1,
      Event.dependency 2 2, Event.provides 2 2, Event.dependency 3 3, Event.provides 3 3]
    [(PKR_MI, 0), (PKR_SR, 0), (PKR_SR, 0)] rfl
  simp only [List.map_cons, List.map_nil, List.cons.injEq, Prod.mk.injEq, and_true] at h2
  obtain ⟨⟨a1, a2⟩, ⟨a3, -⟩, a4, -⟩ := h2
  exact ⟨solved, _, r, h1, a1, a2, a3, a4, by decide, by decide, by decide⟩

/-- The two providers of the disjunction do not end in the state `CI`. -/
theorem providers_not_installable_counterexample :
    (exampleSearch.reduce 60).bind (Reduced.summary [2, 3]) =
      some (RDO_SEARCH,
        [Event.package 1 true true, Event.package 2 false false,
          Event.package 3 false false, Event.provides 2 1, Event.provides 3 1,
          Event.dependency 2 2, Event.provides 2 2, Event.dependency 3 3, Event.provides 3 3],
        [(PKR_SR, 0), (PKR_SR, 0)]) ∧
    tf PKR_CU PK_CI = some PKR_SR :=
  ⟨rfl, rfl⟩

end DisjunctiveDependency

/-! ## The two files of a translation -/

section TranslatorOutput

/-- The counter `Package::next_id` is not set back between two translations.
The translation of the document with the single package `a = 1` that starts
with the counter at 0 numbers its nodes from 0 and leaves the counter at 4; a
second translation of the same document in the same process starts with the
counter at 4 and numbers its nodes from 4: the two KCUDF files and the two info
files differ, and the second translation does not start at 0. -/
theorem second_translation_renumbers :
    (translateFiles Printer.plain 0 docSingle).map
        (fun r => (String.mk r.1, String.mk r.2.1, r.2.2)) =
      Except.ok ("P 0 k I # 1a\nP 2 K i # \nD 2 0 # \nD 2 0 # \nR 0 0 # \n",
        "0 1 a\n2 999 \n", 4) ∧
    (translateFiles Printer.plain 4 docSingle).map
        (fun r => (String.mk r.1, String.mk r.2.1, r.2.2)) =
      Except.ok ("P 4 k I # 1a\nP 6 K i # \nD 6 4 # \nD 6 4 # \nR 4 4 # \n",
        "4 1 a\n6 999 \n", 8) :=
  ⟨rfl, rfl⟩

theorem read_reducerOfFile (text : List Char)
    (hok : (read KCudfReducer.call (some text) Registers.zero
      (KCudfReducer.create (fun x => x) [])).isOk = true) :
    read KCudfReducer.call (some text) Registers.zero (KCudfReducer.create (fun x => x) []) =
      Except.ok (reducerOfFile text) := by
  unfold reducerOfFile
  cases h : read KCudfReducer.call (some text) Registers.zero
      (KCudfReducer.create (fun x => x) []) with
  | ok r => rfl
  | error e =>
    rw [h] at hok
    cases hok

/-- C26, as the code has it: the scenario of the single package.  The translation
of the document that holds only the package `a`, version 1, installed, with an
empty request, writes the package statement `P 0 k I` of the package, without
`keep`, the package statement `P 2 K i` of the disjunction of all the versions of
`a`, which has no provider, twice the dependency statement `D 2 0`, and the
provides statement `R 0 0`, and no conflict statement; `read` accepts these
statements and `reduce` returns `RDO_SOL`, with enough fuel, with an empty search
slice. -/
theorem single_package_scenario :
    (translateFiles Printer.plain 0 docSingle).map (fun r => String.mk r.1) =
      Except.ok "P 0 k I # 1a\nP 2 K i # \nD 2 0 # \nD 2 0 # \nR 0 0 # \n" ∧
    ∃ r0 solved r,
      read KCudfReducer.call (some "P 0 k I # 1a\nP 2 K i # \nD 2 0 # \nD 2 0 # \nR 0 0 # \n".toList)
        Registers.zero (KCudfReducer.create (fun x => x) []) = Except.ok r0 ∧
      (∀ fuel, 40 ≤ fuel → r0.reduce fuel = some (Reduced.returned RDO_SOL solved [] r)) ∧
      r.state 0 = PKR_CI ∧ r.state 2 = PKR_MU := by
  refine ⟨rfl,
    reducerOfFile "P 0 k I # 1a\nP 2 K i # \nD 2 0 # \nD 2 0 # \nR 0 0 # \n".toList, ?_⟩
  obtain ⟨solved, r, h1, h2⟩ := reduce_of_summary
    (reducerOfFile "P 0 k I # 1a\nP 2 K i # \nD 2 0 # \nD 2 0 # \nR 0 0 # \n".toList)
    40 [0, 2] RDO_SOL [] [(PKR_CI, 1), (PKR_MU, 0)] rfl
  simp only [List.map_cons, List.map_nil, List.cons.injEq, Prod.mk.injEq, and_true] at h2
  exact ⟨solved, r, read_reducerOfFile _ rfl, h1, h2.1.1, h2.2.1⟩

/-- The calls of the translator for the document with the single package `a = 1`:
the package is declared without `keep`, a second package is declared, and two
dependencies of it on the first are handed over. -/
theorem single_package_counterexample :
    ((KCudfData.create Printer.plain 0 docSingle).bind
        (fun r => KCudfTranslator.translate r.1)).map (fun out => out.1.map Call.ev) =
      Except.ok [Event.package 0 false true, Event.package 2 true false,
        Event.dependency 0 0, Event.dependency 0 0, Event.dependency 2 0,
        Event.dependency 2 0, Event.provides 0 0] :=
  rfl

end TranslatorOutput

/-! ## The version of a disjunction -/

section DisjunctionVersion

/-- C25: `Disjunction::getVersion` returns the identifier.  On a `Disjunction`
that is not forwarded the method returns `Package::getId()`, whatever version the
object was constructed with. -/
theorem disjunction_version_is_id (d : KCudfData) (p : Nat) (o : Package)
    (hp : d.heap p = some o) (hn : o.nm = none) (hf : o.forwarded = false) :
    d.getVersion p = Except.ok (o.id : Int) := by
  unfold KCudfData.getVersion
  rw [KCudfData.target_self hp hf]
  simp [bind, Except.bind, KCudfData.obj_of_heap hp, pure, Except.pure, hn]

theorem disjunction_version_is_id_witness :
    ∃ o, (KCudfData.translation docDepends).1.heap 3 = some o ∧ o.nm = none ∧
      o.forwarded = false ∧ o.version = -1 ∧ o.id = 3 ∧
      (KCudfData.translation docDepends).1.getVersion 3 = Except.ok (o.id : Int) := by
  have e1 : ((KCudfData.translation docDepends).1.heap 3).map
      (fun o => (o.nm, o.forwarded, o.version, o.id)) = some (none, false, -1, 3) := rfl
  cases g1 : (KCudfData.translation docDepends).1.heap 3 with
  | none =>
    rw [g1] at e1
    cases e1
  | some o =>
    rw [g1] at e1
    have e2 := Option.some.inj e1
    have f1 : o.nm = none := congrArg Prod.fst e2
    have f2 : o.forwarded = false := congrArg (fun x => x.2.1) e2
    have f3 : o.version = -1 := congrArg (fun x => x.2.2.1) e2
    have f4 : o.id = 3 := congrArg (fun x => x.2.2.2) e2
    exact ⟨o, rfl, f1, f2, f3, f4,
      disjunction_version_is_id _ 3 o g1 f1 f2⟩

end DisjunctionVersion

/-! ## The request to upgrade a package -/

section UpgradeScenario

/-- C29, as the code has it: the scenario of the upgrade.  For the versions 1,
installed, 2 and 3 of `p` (objects 0, 4 and 6) and the request to upgrade
`p >= 2`, the translation leaves `p = 1` with `install = false` and `keep = true`,
`p = 2` and `p = 3` each with the other as its only conflict, and the node of the
request (object 8), a `Disjunction` whose only provider is the `Disjunction` of
`p = 2` and `p = 3` (object 9), with `install = true` and `keep = true`. -/
theorem upgrade_scenario :
    (KCudfData.create Printer.plain 0 docVersions).map
        (fun r => (StdMap.find r.1.concrete "p", r.1.look 0, r.1.look 4, r.1.look 6,
          r.1.look 8, (r.1.look 9).map (fun x => x.2.2.1))) =
      Except.ok (some [(1, 0), (2, 4), (3, 6)],
        some (false, true, [], []), some (false, false, [], [6]), some (false, false, [], [4]),
        some (true, true, [9], []), some [4, 6]) :=
  rfl

/-- The `Disjunction` whose providers are `p = 2` and `p = 3` (object 9), the only
object with this set of providers, has neither `install` nor `keep`. -/
theorem upgrade_counterexample :
    (KCudfData.create Printer.plain 0 docVersions).map
        (fun r => (r.1.next_id,
          (List.range 10).map (fun p => (r.1.look p).map (fun x => x.2.2.1)),
          (r.1.look 9).map (fun x => (x.1, x.2.1)))) =
      Except.ok (10,
        [some [], some [], some [], some [0, 4, 6], some [], some [], some [], some [],
          some [9], some [4, 6]],
        some (false, false)) :=
  rfl

end UpgradeScenario

/-! ## The order of the identifiers of a conflict -/

section ConflictOrder

theorem Post.result {α : Type} (x : Except Failure α) : Post (fun a => x = Except.ok a) x :=
  ⟨fun _ h => h⟩

/-- C23, as the code has it: the order of a conflict.  Every call of
`KCudfTranslator::writeConflicts` hands the conflict over with the smaller
identifier first, and `KCudfFileWriter::conflict` writes the two identifiers in
the order it is handed them. -/
theorem translator_conflicts_ordered :
    (∀ (d : KCudfData) (calls : List Call),
      KCudfTranslator.writeConflicts d = Except.ok calls → ∀ c ∈ calls, c.ordered) ∧
    (∀ (w w1 : KCudfFileWriter) (id id2 : Nat) (desc : String),
      w.conflict id id2 desc = Except.ok w1 →
        w1.os = w.os ++ 'C' :: ' ' :: (decimal id ++ ' ' ::
          (decimal id2 ++ " # ".toList ++ (desc.toList ++ ['\n'])))) := by
  refine ⟨?_, ?_⟩
  · intro d calls h
    have key : Post (fun calls => ∀ c ∈ calls, c.ordered) (KCudfTranslator.writeConflicts d) := by
      unfold KCudfTranslator.writeConflicts
      refine Post.bind_post (Q := fun (s : IdSet × List Call) => ∀ c ∈ s.2, c.ordered) ?_
        (fun s hs => Post.pure_post _ hs)
      refine Post.foldlM_post (Q := fun (s : IdSet × List Call) => ∀ c ∈ s.2, c.ordered) ?_ _ _
        (by simp)
      intro s e hs
      refine Post.bind_post (Post.trivial _) (fun pi_id _ => ?_)
      split
      · refine Post.bind_post (Post.trivial _) (fun i1 _ => ?_)
        refine Post.bind_post (Post.trivial _) (fun rp _ => ?_)
        refine Post.bind_post (Post.trivial _) (fun id _ => ?_)
        refine Post.bind_post (Post.trivial _) (fun cs _ => ?_)
        refine Post.bind_post (Q := fun (out : List Call) => ∀ c ∈ out, c.ordered) ?_ ?_
        · refine Post.foldlM_post (Q := fun (out : List Call) => ∀ c ∈ out, c.ordered) ?_ _ _ hs
          intro out c hout
          refine Post.bind_post (Post.trivial _) (fun p2 _ => ?_)
          refine Post.bind_post (Post.result _) (fun i2 h2 => ?_)
          split
          · rename_i hlt
            refine Post.bind_post (Post.result _) (fun i3 h3 => ?_)
            have e : i3 = i2 := Except.ok.inj (h3.symm.trans h2)
            subst e
            refine Post.pure_post _ (fun c1 hc1 => ?_)
            rcases List.mem_append.mp hc1 with g | g
            · exact hout c1 g
            · rw [List.mem_singleton.mp g]
              exact ⟨id, i3, rfl, Nat.le_of_lt hlt⟩
          · rename_i hlt
            refine Post.bind_post (Post.result _) (fun i3 h3 => ?_)
            have e : i3 = i2 := Except.ok.inj (h3.symm.trans h2)
            subst e
            refine Post.pure_post _ (fun c1 hc1 => ?_)
            rcases List.mem_append.mp hc1 with g | g
            · exact hout c1 g
            · rw [List.mem_singleton.mp g]
              exact ⟨i3, id, rfl, Nat.le_of_not_lt hlt⟩
        · intro out hout
          refine Post.bind_post (Post.trivial _) (fun i4 _ => ?_)
          exact Post.pure_post _ hout
      · exact Post.pure_post _ hs
    exact key.out calls h
  · intro w w1 id id2 desc h
    unfold KCudfFileWriter.conflict at h
    split at h
    · cases h
    · split at h
      · cases h
      · cases h
        rfl

theorem translator_conflicts_ordered_witness :
    KCudfTranslator.writeConflicts (KCudfData.translation docVersions).1 =
      Except.ok [{ ev := Event.conflict 4 6, desc := "" },
        { ev := Event.conflict 4 6, desc := "" }] ∧
    (∀ c ∈ ([{ ev := Event.conflict 4 6, desc := "" },
        { ev := Event.conflict 4 6, desc := "" }] : List Call), c.ordered) ∧
    KCudfFileWriter.conflict { os := [], cons := [4, 6] } 6 4 "" =
      Except.ok { os := "C 6 4 # \n".toList, cons := [4, 6] } ∧
    "C 6 4 # \n".toList = [] ++ 'C' :: ' ' :: (decimal 6 ++ ' ' ::
      (decimal 4 ++ " # ".toList ++ ("".toList ++ ['\n']))) :=
  ⟨rfl, translator_conflicts_ordered.1 (KCudfData.translation docVersions).1 _ rfl, rfl,
    translator_conflicts_ordered.2 { os := [], cons := [4, 6] }
      { os := "C 6 4 # \n".toList, cons := [4, 6] } 6 4 "" rfl⟩

/-- The search slice of the reducer holds the conflict between the two providers
2 and 3, both in the state `SR`, once as `2 3` and once as `3 2`, and the file
writer writes the second one as `C 3 2`. -/
theorem conflict_order_counterexample :
    (exampleConflict.reduce 100).bind (Reduced.summary [2, 3]) =
      some (RDO_SEARCH,
        [Event.package 1 true true, Event.package 2 false false,
          Event.package 3 false false, Event.provides 2 1, Event.provides 3 1,
          Event.dependency 2 2, Event.conflict 2 3, Event.provides 2 2,
          Event.dependency 3 3, Event.conflict 3 2, Event.provides 3 3],
        [(PKR_SR, 0), (PKR_SR, 0)]) ∧
    KCudfFileWriter.conflict { os := [], cons := [2, 3] } 3 2 "CONF-betweenSR" =
      Except.ok { os := "C 3 2 # CONF-betweenSR\n".toList, cons := [2, 3] } :=
  ⟨rfl, rfl⟩

end ConflictOrder

/-! ## The statements that the reader refuses -/

section Reader

theorem readLine_unknown {σ : Type} (w : σ → Call → Except Failure σ) (ln : Nat)
    (line : List Char) (st : σ × Registers) (h : unknownStatement line = true) :
    readLine w ln line st = Except.error (ReadFailure.InvalidStatement ln line.tail) := by
  cases line with
  | nil => cases h
  | cons t text =>
    simp only [unknownStatement, Bool.not_eq_true', Bool.or_eq_false_iff,
      decide_eq_false_iff_not] at h
    obtain ⟨⟨⟨⟨h1, h2⟩, h3⟩, h4⟩, h5⟩ := h
    simp only [readLine, h1, h2, h3, h4, h5, if_false, List.tail_cons]
    rfl

theorem ReadFailure.lift_cases {σ : Type} (x : Except Failure σ) :
    (∃ s, ReadFailure.lift x = Except.ok s) ∨
      ∃ e, ReadFailure.lift x = Except.error (ReadFailure.writer e) := by
  cases x with
  | ok s => exact Or.inl ⟨s, rfl⟩
  | error e => exact Or.inr ⟨e, rfl⟩

theorem readLine_known {σ : Type} (w : σ → Call → Except Failure σ) (ln : Nat)
    (line : List Char) (st : σ × Registers) (h : unknownStatement line = false) :
    (∃ st1, readLine w ln line st = Except.ok st1) ∨
      ∃ e, readLine w ln line st = Except.error (ReadFailure.writer e) := by
  cases line with
  | nil => exact Or.inl ⟨st, rfl⟩
  | cons t text =>
    unfold readLine
    dsimp only
    split
    · rcases ReadFailure.lift_cases (w st.1
        { ev := Event.package (st.2.declaration text).id ((st.2.declaration text).keep = 'K')
            ((st.2.declaration text).inst = 'I'), desc := "" }) with ⟨s1, e1⟩ | ⟨e, e1⟩
      · rw [e1]
        rcases ReadFailure.lift_cases (w s1
          { ev := Event.dependency (st.2.declaration text).id (st.2.declaration text).id,
            desc := "self-dep" }) with ⟨s2, e2⟩ | ⟨e, e2⟩
        · exact Or.inl ⟨_, by simp only [Except.bind, e2]; rfl⟩
        · exact Or.inr ⟨e, by simp only [Except.bind, e2]⟩
      · exact Or.inr ⟨e, by rw [e1]; rfl⟩
    · split
      · rcases ReadFailure.lift_cases (w st.1
          { ev := Event.dependency (st.2.relation text).id (st.2.relation text).id2,
            desc := "" }) with ⟨s1, e1⟩ | ⟨e, e1⟩
        · exact Or.inl ⟨_, by rw [e1]; rfl⟩
        · exact Or.inr ⟨e, by rw [e1]; rfl⟩
      · split
        · rcases ReadFailure.lift_cases (w st.1
            { ev := Event.conflict (st.2.relation text).id (st.2.relation text).id2,
              desc := "" }) with ⟨s1, e1⟩ | ⟨e, e1⟩
          · exact Or.inl ⟨_, by rw [e1]; rfl⟩
          · exact Or.inr ⟨e, by rw [e1]; rfl⟩
        · split
          · rcases ReadFailure.lift_cases (w st.1
              { ev := Event.provides (st.2.relation text).id (st.2.relation text).id2,
                desc := "" }) with ⟨s1, e1⟩ | ⟨e, e1⟩
            · exact Or.inl ⟨_, by rw [e1]; rfl⟩
            · exact Or.inr ⟨e, by rw [e1]; rfl⟩
          · split
            · exact Or.inl ⟨st, rfl⟩
            · rename_i h1 h2 h3 h4 h5
              simp [unknownStatement, h1, h2, h3, h4, h5] at h

theorem readLines_cons {σ : Type} (w : σ → Call → Except Failure σ) (ln : Nat)
    (line : List Char) (more : List (List Char)) (st : σ × Registers) :
    readLines w ln (line :: more) st =
      (readLine w (uinc ln) line st).bind (readLines w (uinc ln) more) := rfl

/-- When the loop of `read` raises `KCudfReaderInvalidStatement`. -/
theorem readLines_invalid {σ : Type} (w : σ → Call → Except Failure σ) (lines : List (List Char)) :
    ∀ (ln : Nat) (st : σ × Registers) (n : Nat) (txt : List Char),
      readLines w ln lines st = Except.error (ReadFailure.InvalidStatement n txt) ↔
        ∃ pre line post st1, lines = pre ++ line :: post ∧
          (∀ l ∈ pre, unknownStatement l = false) ∧ unknownStatement line = true ∧
          readLines w ln pre st = Except.ok st1 ∧
          n = (ln + pre.length + 1) % UINT ∧ txt = line.tail := by
  induction lines with
  | nil =>
    intro ln st n txt
    constructor
    · intro h
      cases h
    · rintro ⟨pre, line, post, st1, h, -⟩
      cases pre <;> cases h
  | cons l more ih =>
    intro ln st n txt
    rw [readLines_cons]
    cases hu : unknownStatement l with
    | true =>
      rw [readLine_unknown w _ l st hu]
      constructor
      · intro h
        simp only [Except.bind, Except.error.injEq, ReadFailure.InvalidStatement.injEq] at h
        exact ⟨[], l, more, st, rfl, by simp, hu, rfl, by rw [← h.1]; rfl, h.2.symm⟩
      · rintro ⟨pre, line, post, st1, h, hpre, hline, hrun, hn, htxt⟩
        cases pre with
        | nil =>
          simp only [List.nil_append, List.cons.injEq] at h
          obtain ⟨rfl, rfl⟩ := h
          rw [hn, htxt]
          rfl
        | cons a pre1 =>
          simp only [List.cons_append, List.cons.injEq] at h
          obtain ⟨rfl, -⟩ := h
          rw [hpre _ (List.mem_cons_self _ _)] at hu
          cases hu
    | false =>
      rcases readLine_known w (uinc ln) l st hu with ⟨st1, e1⟩ | ⟨e, e1⟩
      · rw [e1]
        show readLines w (uinc ln) more st1 = _ ↔ _
        rw [ih]
        constructor
        · rintro ⟨pre, line, post, st2, h, hpre, hline, hrun, hn, htxt⟩
          refine ⟨l :: pre, line, post, st2, by rw [h]; rfl, ?_, hline, ?_, ?_, htxt⟩
          · intro x hx
            rcases List.mem_cons.mp hx with rfl | hx
            · exact hu
            · exact hpre x hx
          · rw [readLines_cons, e1]
            exact hrun
          · rw [hn]
            simp only [uinc, UINT, List.length_cons]
            omega
        · rintro ⟨pre, line, post, st2, h, hpre, hline, hrun, hn, htxt⟩
          cases pre with
          | nil =>
            simp only [List.nil_append, List.cons.injEq] at h
            obtain ⟨rfl, -⟩ := h
            rw [hline] at hu
            cases hu
          | cons a pre1 =>
            simp only [List.cons_append, List.cons.injEq] at h
            obtain ⟨rfl, rfl⟩ := h
            rw [readLines_cons, e1] at hrun
            refine ⟨pre1, line, post, st2, rfl, fun x hx => hpre x (List.mem_cons_of_mem _ hx),
              hline, hrun, ?_, htxt⟩
            rw [hn]
            simp only [uinc, UINT, List.length_cons]
            omega
      · rw [e1]
        constructor
        · intro h
          cases h
        · rintro ⟨pre, line, post, st2, h, hpre, hline, hrun, -⟩
          cases pre with
          | nil =>
            simp only [List.nil_append, List.cons.injEq] at h
            obtain ⟨rfl, -⟩ := h
            rw [hline] at hu
            cases hu
          | cons a pre1 =>
            simp only [List.cons_append, List.cons.injEq] at h
            obtain ⟨rfl, -⟩ := h
            rw [readLines_cons, e1] at hrun
            cases hrun

theorem splitLines_replicate (k : Nat) (rest : List Char) :
    splitLines (List.replicate k '\n' ++ rest) = List.replicate k [] ++ splitLines rest := by
  induction k with
  | zero => rfl
  | succ k ih =>
    rw [List.replicate_succ, List.cons_append, List.replicate_succ, List.cons_append, ← ih]
    simp [splitLines]

theorem readLines_empty {σ : Type} (w : σ → Call → Except Failure σ) (k : Nat) :
    ∀ (ln : Nat) (more : List (List Char)) (st : σ × Registers),
      readLines w ln (List.replicate (k + 1) [] ++ more) st =
        readLines w ((ln + k + 1) % UINT) more st := by
  induction k with
  | zero =>
    intro ln more st
    rfl
  | succ k ih =>
    intro ln more st
    rw [List.replicate_succ, List.cons_append, readLines_cons]
    show readLines w (uinc ln) (List.replicate (k + 1) [] ++ more) st = _
    rw [ih]
    congr 1
    simp only [uinc, UINT]
    omega

theorem read_some {σ : Type} (w : σ → Call → Except Failure σ) (text : List Char)
    (regs : Registers) (s : σ) :
    read w (some text) regs s =
      (readLines w 0 (splitLines text) (s, regs)).map Prod.fst := rfl

/-- C21, as the code has it: the statements `read` refuses.  Whatever the writer,
`read` raises `KCudfReaderInvalidStatement` exactly when the input has a line that
is not empty and starts with none of `P`, `D`, `C`, `R` and `#`, and the writer
has accepted all the statements before the first such line; the exception holds
the number of this line, counted from 1 in an `unsigned int`, and the line without
its first character.  An empty line and a line that starts with `#` leave the
writer as it is. -/
theorem read_rejects_unknown_statement {σ : Type} (w : σ → Call → Except Failure σ)
    (text : List Char) (regs : Registers) (s : σ) :
    (∀ (n : Nat) (txt : List Char),
      read w (some text) regs s = Except.error (ReadFailure.InvalidStatement n txt) ↔
        ∃ pre line post st1, splitLines text = pre ++ line :: post ∧
          (∀ l ∈ pre, unknownStatement l = false) ∧ unknownStatement line = true ∧
          readLines w 0 pre (s, regs) = Except.ok st1 ∧
          n = (pre.length + 1) % UINT ∧ txt = line.tail) ∧
    (∀ (ln : Nat) (line : List Char) (st : σ × Registers),
      line = [] ∨ line.head? = some '#' → readLine w ln line st = Except.ok st) := by
  refine ⟨fun n txt => ?_, ?_⟩
  · have h := readLines_invalid w (splitLines text) 0 (s, regs) n txt
    simp only [Nat.zero_add] at h
    rw [read_some, ← h]
    generalize readLines w 0 (splitLines text) (s, regs) = x
    cases x <;> simp [Except.map]
  · intro ln line st h
    rcases h with rfl | h
    · rfl
    · cases line with
      | nil => cases h
      | cons t text1 =>
        simp only [List.head?_cons, Option.some.injEq] at h
        subst h
        rfl

theorem read_rejects_unknown_statement_witness :
    read Call.record (some "P 5 K I # abc\n\n# c\nX 1 2\n".toList) Registers.zero [] =
      Except.error (ReadFailure.InvalidStatement 4 " 1 2".toList) ∧
    ∃ pre line post st1,
      splitLines "P 5 K I # abc\n\n# c\nX 1 2\n".toList = pre ++ line :: post ∧
      (∀ l ∈ pre, unknownStatement l = false) ∧ unknownStatement line = true ∧
      readLines Call.record 0 pre ([], Registers.zero) = Except.ok st1 ∧
      4 = (pre.length + 1) % UINT ∧ " 1 2".toList = line.tail :=
  ⟨rfl, ((read_rejects_unknown_statement Call.record "P 5 K I # abc\n\n# c\nX 1 2\n".toList
    Registers.zero []).1 4 " 1 2".toList).mp rfl⟩

/-- A statement on a package that was not declared stops `read` on the assertion
of the reducer before the unknown statement of line 2 is seen; and the unknown
statement of line `2^32` is reported as of line 0. -/
theorem read_counterexample :
    splitLines "D 0 1\nX".toList = ["D 0 1".toList, "X".toList] ∧
    read KCudfReducer.call (some "D 0 1\nX".toList) Registers.zero
      (KCudfReducer.create (fun x => x) []) =
        Except.error (ReadFailure.writer Failure.assertion) ∧
    read Call.record (some (List.replicate 4294967295 '\n' ++ ['X'])) Registers.zero [] =
      Except.error (ReadFailure.InvalidStatement 0 []) := by
  refine ⟨rfl, rfl, ?_⟩
  rw [read_some, splitLines_replicate,
    show (4294967295 : Nat) = 4294967294 + 1 from rfl, readLines_empty]
  rfl

end Reader

/-! ## Writing a file and reading it back -/

section RoundTrip

theorem decimalFrom_eq (fuel : Nat) :
    ∀ (n : Nat) (acc : List Nat),
      decimalFrom fuel n (acc.map (fun d => Char.ofNat (48 + d))) =
        (digitsFrom fuel n acc).map (fun d => Char.ofNat (48 + d)) := by
  induction fuel with
  | zero => intro n acc; rfl
  | succ fuel ih =>
    intro n acc
    unfold decimalFrom digitsFrom
    split
    · rfl
    · rw [← ih]
      rfl

theorem digitsFrom_lt (fuel : Nat) :
    ∀ (n : Nat) (acc : List Nat), (∀ d ∈ acc, d < 10) → ∀ d ∈ digitsFrom fuel n acc, d < 10 := by
  induction fuel with
  | zero => intro n acc h; exact h
  | succ fuel ih =>
    intro n acc h
    unfold digitsFrom
    split
    · rename_i hn
      intro d hd
      rcases List.mem_cons.mp hd with rfl | hd
      · exact hn
      · exact h d hd
    · refine ih _ _ ?_
      intro d hd
      rcases List.mem_cons.mp hd with rfl | hd
      · exact Nat.mod_lt _ (by decide)
      · exact h d hd

theorem digitsFrom_value (fuel : Nat) :
    ∀ (n : Nat) (acc : List Nat), n < 10 ^ fuel →
      (digitsFrom fuel n acc).foldl (fun a d => a * 10 + d) 0 =
        acc.foldl (fun a d => a * 10 + d) n := by
  induction fuel with
  | zero =>
    intro n acc h
    simp only [pow_zero, Nat.lt_one_iff] at h
    subst h
    rfl
  | succ fuel ih =>
    intro n acc h
    unfold digitsFrom
    split
    · simp
    · rename_i hn
      rw [ih _ _ (by rw [pow_succ] at h; omega)]
      simp only [List.foldl_cons]
      congr 1
      omega

theorem digitsFrom_ne_nil (fuel n : Nat) : digitsFrom (fuel + 1) n [] ≠ [] := by
  have key : ∀ (fuel : Nat) (n : Nat) (acc : List Nat),
      acc ≠ [] ∨ 0 < fuel → digitsFrom fuel n acc ≠ [] := by
    intro fuel
    induction fuel with
    | zero =>
      intro n acc h
      rcases h with h | h
      · exact h
      · cases h
    | succ fuel ih =>
      intro n acc _
      unfold digitsFrom
      split
      · exact List.cons_ne_nil _ _
      · exact ih _ _ (Or.inl (List.cons_ne_nil _ _))
  exact key _ _ _ (Or.inr (Nat.succ_pos _))

/-- The characters of an `unsigned int` are its digits. -/
theorem decimal_digits (n : Nat) :
    ∃ d ds, decimal n = (d :: ds).map (fun d => Char.ofNat (48 + d)) ∧
      (∀ x ∈ d :: ds, x < 10) ∧ (d :: ds).foldl (fun a d => a * 10 + d) 0 = n := by
  have h1 := decimalFrom_eq (n + 1) n []
  have h2 := digitsFrom_lt (n + 1) n [] (by simp)
  have h3 := digitsFrom_value (n + 1) n []
    (Nat.lt_of_lt_of_le (Nat.lt_pow_self (by decide) n)
      (Nat.pow_le_pow_right (by decide) (Nat.le_succ n)))
  have h4 := digitsFrom_ne_nil n n
  cases hd : digitsFrom (n + 1) n [] with
  | nil => exact absurd hd h4
  | cons d ds =>
    rw [hd] at h1 h2 h3
    exact ⟨d, ds, h1, h2, h3⟩

theorem digit_char (d : Nat) (h : d < 10) :
    digitOf (Char.ofNat (48 + d)) = some d ∧ isSpace (Char.ofNat (48 + d)) = false ∧
      Char.ofNat (48 + d) ≠ '-' ∧ Char.ofNat (48 + d) ≠ '+' ∧ Char.ofNat (48 + d) ≠ '\n' := by
  interval_cases d <;> decide

theorem readDigits_digit (c : Char) (cs : List Char) (a : Nat) (seen : Bool) (v : Nat)
    (h : digitOf c = some v) : readDigits (c :: cs) a seen = readDigits cs (a * 10 + v) true := by
  simp [readDigits, h]

theorem readDigits_stop (c : Char) (cs : List Char) (a : Nat) (seen : Bool)
    (h : digitOf c = none) : readDigits (c :: cs) a seen = (a, seen, c :: cs) := by
  simp [readDigits, h]

theorem skipSpaces_space (c : Char) (cs : List Char) (h : isSpace c = true) :
    skipSpaces (c :: cs) = skipSpaces cs := by
  simp [skipSpaces, h]

theorem skipSpaces_stop (c : Char) (cs : List Char) (h : isSpace c = false) :
    skipSpaces (c :: cs) = c :: cs := by
  simp [skipSpaces, h]

theorem splitLines_char (c : Char) (cs l : List Char) (ls : List (List Char)) (h : c ≠ '\n')
    (e : splitLines cs = l :: ls) : splitLines (c :: cs) = (c :: l) :: ls := by
  simp [splitLines, h, e]

theorem splitLines_feed (cs : List Char) : splitLines ('\n' :: cs) = [] :: splitLines cs := by
  simp [splitLines]

theorem readDigits_digits (ds : List Nat) (h : ∀ x ∈ ds, x < 10) (r : List Char) :
    ∀ (a : Nat) (seen : Bool),
      readDigits (ds.map (fun d => Char.ofNat (48 + d)) ++ ' ' :: r) a seen =
        (ds.foldl (fun a d => a * 10 + d) a, seen || !ds.isEmpty, ' ' :: r) := by
  induction ds with
  | nil =>
    intro a seen
    rw [List.map_nil, List.nil_append, readDigits_stop _ _ _ _ (by decide)]
    simp
  | cons d ds ih =>
    intro a seen
    have hd := digit_char d (h d (List.mem_cons_self _ _))
    rw [List.map_cons, List.cons_append, readDigits_digit _ _ _ _ d hd.1,
      ih (fun x hx => h x (List.mem_cons_of_mem _ hx))]
    simp

/-- The extraction of an identifier that the writer wrote after a blank. -/
theorem Extract.unsigned_decimal (n : Nat) (hn : n < UINT) (r : List Char) (old : Nat) :
    Extract.unsigned { rest := ' ' :: (decimal n ++ ' ' :: r), failed := false } old =
      (n, { rest := ' ' :: r, failed := false }) := by
  obtain ⟨d, ds, h1, h2, h3⟩ := decimal_digits n
  have hd := digit_char d (h2 d (List.mem_cons_self _ _))
  have hr := readDigits_digits (d :: ds) h2 r 0 false
  rw [h3] at hr
  unfold Extract.unsigned
  rw [h1]
  simp only [List.map_cons, List.cons_append] at hr ⊢
  rw [skipSpaces_space _ _ (by decide), skipSpaces_stop _ _ hd.2.1]
  simp only [Bool.false_eq_true, if_false, hd.2.2.1, hd.2.2.2.1, or_self, hr,
    List.isEmpty_cons, Bool.not_false, Bool.or_true, Bool.not_true, Nat.not_le.mpr hn]

theorem Extract.char_next (c : Char) (hc : isSpace c = false) (r : List Char) (old : Char) :
    Extract.char { rest := ' ' :: c :: r, failed := false } old =
      (c, { rest := r, failed := false }) := by
  unfold Extract.char
  simp only [Bool.false_eq_true, if_false]
  rw [skipSpaces_space _ _ (by decide), skipSpaces_stop _ _ hc]

theorem splitLines_line (l rest : List Char) (h : '\n' ∉ l) :
    splitLines (l ++ '\n' :: rest) = l :: splitLines rest := by
  induction l with
  | nil => exact splitLines_feed rest
  | cons c l ih =>
    have hc : c ≠ '\n' := fun e => h (by rw [e]; exact List.mem_cons_self _ _)
    have hl : '\n' ∉ l := fun e => h (List.mem_cons_of_mem _ e)
    exact splitLines_char c _ l _ hc (ih hl)

theorem decimal_no_feed (n : Nat) : '\n' ∉ decimal n := by
  obtain ⟨d, ds, h1, h2, -⟩ := decimal_digits n
  rw [h1]
  intro h
  obtain ⟨x, hx, e⟩ := List.mem_map.mp h
  exact (digit_char x (h2 x hx)).2.2.2.2 e

theorem Registers.declaration_written (regs : Registers) (id : Nat) (hid : id < UINT)
    (kc ic : Char) (hk : isSpace kc = false) (hi : isSpace ic = false) (r : List Char) :
    regs.declaration (' ' :: (decimal id ++ ' ' :: kc :: ' ' :: ic :: r)) =
      { regs with id := id, keep := kc, inst := ic } := by
  unfold Registers.declaration
  rw [Extract.unsigned_decimal id hid (kc :: ' ' :: ic :: r)]
  dsimp only
  rw [Extract.char_next kc hk (' ' :: ic :: r)]
  dsimp only
  rw [Extract.char_next ic hi r]

theorem Registers.relation_written (regs : Registers) (id id2 : Nat) (h1 : id < UINT)
    (h2 : id2 < UINT) (r : List Char) :
    regs.relation (' ' :: (decimal id ++ ' ' :: (decimal id2 ++ ' ' :: r))) =
      { regs with id := id, id2 := id2 } := by
  unfold Registers.relation
  rw [Extract.unsigned_decimal id h1 (decimal id2 ++ ' ' :: r)]
  dsimp only
  rw [Extract.unsigned_decimal id2 h2 r]

theorem flag_char (b : Bool) (u l : Char) (hu : isSpace u = false) (hl : isSpace l = false)
    (hn : u ≠ '\n') (hm : l ≠ '\n') (hne : l ≠ u) :
    isSpace (if b then u else l) = false ∧ (if b then u else l) ≠ '\n' ∧
      decide ((if b then u else l) = u) = b := by
  cases b
  · exact ⟨hl, hm, by simp [hne]⟩
  · exact ⟨hu, hn, by simp⟩

theorem declaration_line (id : Nat) (keep install : Bool) (desc : String) (rest : List Char) :
    KCudfFileWriter.declaration id keep install desc ++ rest =
      ('P' :: ' ' :: (decimal id ++ ' ' :: (if keep then 'K' else 'k') :: ' ' ::
        (if install then 'I' else 'i') :: ' ' :: '#' :: ' ' :: desc.toList)) ++
        '\n' :: rest := by
  simp [KCudfFileWriter.declaration]

theorem relation_line (t : Char) (id id2 : Nat) (desc : String) (rest : List Char) :
    KCudfFileWriter.relation t id id2 desc ++ rest =
      (t :: ' ' :: (decimal id ++ ' ' :: (decimal id2 ++ ' ' :: '#' :: ' ' :: desc.toList))) ++
        '\n' :: rest := by
  simp [KCudfFileWriter.relation]

theorem declaration_no_feed (id : Nat) (keep install : Bool) (desc : String)
    (hd : '\n' ∉ desc.toList) :
    '\n' ∉ 'P' :: ' ' :: (decimal id ++ ' ' :: (if keep then 'K' else 'k') :: ' ' ::
        (if install then 'I' else 'i') :: ' ' :: '#' :: ' ' :: desc.toList) := by
  have h := decimal_no_feed id
  have hd1 : '\n' ∉ desc.data := hd
  cases keep <;> cases install <;> simp [h, hd1]

theorem relation_no_feed (t : Char) (ht : t ≠ '\n') (id id2 : Nat) (desc : String)
    (hd : '\n' ∉ desc.toList) :
    '\n' ∉ t :: ' ' :: (decimal id ++ ' ' :: (decimal id2 ++ ' ' :: '#' :: ' ' :: desc.toList)) := by
  have h := decimal_no_feed id
  have h2 := decimal_no_feed id2
  have hd1 : '\n' ∉ desc.data := hd
  simp [h, h2, ht.symm, hd1]

theorem decimal_no_hash (n : Nat) : '#' ∉ decimal n := by
  obtain ⟨d, ds, h1, h2, -⟩ := decimal_digits n
  rw [h1]
  intro h
  obtain ⟨x, hx, e⟩ := List.mem_map.mp h
  have hx1 : x < 10 := h2 x hx
  revert e
  interval_cases x <;> decide

/-- The characters of a line in front of its `#` are kept. -/
theorem dropDescriptions_plain (pre x : List Char) (h1 : '#' ∉ pre) (h2 : '\n' ∉ pre) :
    dropDescriptions 0 (pre ++ x) = pre ++ dropDescriptions 0 x := by
  induction pre with
  | nil => rfl
  | cons c cs ih =>
    have c1 : c ≠ '#' := fun e => h1 (by rw [e]; exact List.mem_cons_self _ _)
    have c2 : c ≠ '\n' := fun e => h2 (by rw [e]; exact List.mem_cons_self _ _)
    rw [List.cons_append, dropDescriptions, if_neg c2, if_pos rfl, if_neg c1,
      ih (fun e => h1 (List.mem_cons_of_mem _ e)) (fun e => h2 (List.mem_cons_of_mem _ e))]
    rfl

/-- The characters after the `# ` of a line are dropped up to the line feed. -/
theorem dropDescriptions_skip (desc rest : List Char) (h : '\n' ∉ desc) :
    dropDescriptions 2 (desc ++ '\n' :: rest) = '\n' :: dropDescriptions 0 rest := by
  induction desc with
  | nil =>
    rw [List.nil_append, dropDescriptions, if_pos rfl]
  | cons c cs ih =>
    have c2 : c ≠ '\n' := fun e => h (by rw [e]; exact List.mem_cons_self _ _)
    rw [List.cons_append, dropDescriptions, if_neg c2, if_neg (by decide), if_neg (by decide)]
    exact ih (fun e => h (List.mem_cons_of_mem _ e))

theorem dropDescriptions_hash (desc rest : List Char) (h : '\n' ∉ desc) :
    dropDescriptions 0 ('#' :: ' ' :: (desc ++ '\n' :: rest)) =
      '#' :: ' ' :: '\n' :: dropDescriptions 0 rest := by
  rw [dropDescriptions, if_neg (by decide), if_pos rfl, if_pos rfl, dropDescriptions,
    if_neg (by decide), if_neg (by decide), if_pos rfl, dropDescriptions_skip desc rest h]

/-- The line of a declaration without its description. -/
theorem declaration_dropped (id : Nat) (keep install : Bool) (desc : String)
    (hd : '\n' ∉ desc.toList) (rest : List Char) :
    dropDescriptions 0 (KCudfFileWriter.declaration id keep install desc ++ rest) =
      KCudfFileWriter.declaration id keep install "" ++ dropDescriptions 0 rest := by
  have e : ∀ (d : String) (r : List Char), KCudfFileWriter.declaration id keep install d ++ r =
      ('P' :: ' ' :: (decimal id ++ [' ', (if keep then 'K' else 'k'), ' ',
        (if install then 'I' else 'i'), ' '])) ++ '#' :: ' ' :: (d.toList ++ '\n' :: r) := by
    intro d r
    simp [KCudfFileWriter.declaration]
  have n1 := decimal_no_hash id
  have n2 := decimal_no_feed id
  have p1 : '#' ∉ 'P' :: ' ' :: (decimal id ++ [' ', (if keep then 'K' else 'k'), ' ',
      (if install then 'I' else 'i'), ' ']) := by
    cases keep <;> cases install <;> simp [n1]
  have p2 : '\n' ∉ 'P' :: ' ' :: (decimal id ++ [' ', (if keep then 'K' else 'k'), ' ',
      (if install then 'I' else 'i'), ' ']) := by
    cases keep <;> cases install <;> simp [n2]
  rw [e desc rest, dropDescriptions_plain _ _ p1 p2, dropDescriptions_hash _ _ hd, e "" _]
  rfl

/-- The line of a relation without its description. -/
theorem relation_dropped (t : Char) (h1 : t ≠ '#') (h2 : t ≠ '\n') (id id2 : Nat)
    (desc : String) (hd : '\n' ∉ desc.toList) (rest : List Char) :
    dropDescriptions 0 (KCudfFileWriter.relation t id id2 desc ++ rest) =
      KCudfFileWriter.relation t id id2 "" ++ dropDescriptions 0 rest := by
  have e : ∀ (d : String) (r : List Char), KCudfFileWriter.relation t id id2 d ++ r =
      (t :: ' ' :: (decimal id ++ ' ' :: (decimal id2 ++ [' ']))) ++
        '#' :: ' ' :: (d.toList ++ '\n' :: r) := by
    intro d r
    simp [KCudfFileWriter.relation]
  have n1 := decimal_no_hash id
  have n2 := decimal_no_feed id
  have n3 := decimal_no_hash id2
  have n4 := decimal_no_feed id2
  have p1 : '#' ∉ t :: ' ' :: (decimal id ++ ' ' :: (decimal id2 ++ [' '])) := by
    simp [n1, n3, h1.symm]
  have p2 : '\n' ∉ t :: ' ' :: (decimal id ++ ' ' :: (decimal id2 ++ [' '])) := by
    simp [n2, n4, h2.symm]
  rw [e desc rest, dropDescriptions_plain _ _ p1 p2, dropDescriptions_hash _ _ hd, e "" _]
  rfl

/-- The reader on the line of a package declaration that the writer wrote. -/
theorem readLine_declaration (w0 : KCudfFileWriter) (regs : Registers) (ln id : Nat)
    (hid : id < UINT) (keep install : Bool) (r : List Char) :
    readLine KCudfFileWriter.call ln
        ('P' :: ' ' :: (decimal id ++ ' ' :: (if keep then 'K' else 'k') :: ' ' ::
          (if install then 'I' else 'i') :: r)) (w0, regs) =
      Except.ok (w0.package id keep install "",
        { regs with id := id, keep := if keep then 'K' else 'k',
                    inst := if install then 'I' else 'i' }) := by
  have hk := flag_char keep 'K' 'k' (by decide) (by decide) (by decide) (by decide) (by decide)
  have hi := flag_char install 'I' 'i' (by decide) (by decide) (by decide) (by decide)
    (by decide)
  unfold readLine
  dsimp only
  rw [if_pos rfl, Registers.declaration_written regs id hid _ _ hk.1 hi.1]
  dsimp only
  rw [hk.2.2, hi.2.2]
  have h1 : KCudfFileWriter.call w0 { ev := Event.package id keep install, desc := "" } =
      Except.ok (w0.package id keep install "") := rfl
  have h2 : KCudfFileWriter.call (w0.package id keep install "")
      { ev := Event.dependency id id, desc := "self-dep" } =
      Except.ok (w0.package id keep install "") := by
    show KCudfFileWriter.dependency _ id id "self-dep" = _
    unfold KCudfFileWriter.dependency
    have hm : id ∈ (w0.package id keep install "").cons :=
      (IdSet.mem_insert _ _ _).mpr (Or.inl rfl)
    simp [hm]
    rfl
  rw [h1]
  simp only [ReadFailure.lift, Except.bind]
  rw [h2]
  rfl

/-- The reader on the line of a dependency that the writer wrote. -/
theorem readLine_dependency (w0 : KCudfFileWriter) (regs : Registers) (ln id id2 : Nat)
    (h1 : id < UINT) (h2 : id2 < UINT) (r : List Char) :
    readLine KCudfFileWriter.call ln
        ('D' :: ' ' :: (decimal id ++ ' ' :: (decimal id2 ++ ' ' :: r))) (w0, regs) =
      (ReadFailure.lift (w0.dependency id id2 "")).bind
        (fun s1 => pure (s1, { regs with id := id, id2 := id2 })) := by
  unfold readLine
  dsimp only
  rw [if_neg (by decide), if_pos rfl, Registers.relation_written regs id id2 h1 h2]
  rfl

/-- The reader on the line of a conflict that the writer wrote. -/
theorem readLine_conflict (w0 : KCudfFileWriter) (regs : Registers) (ln id id2 : Nat)
    (h1 : id < UINT) (h2 : id2 < UINT) (r : List Char) :
    readLine KCudfFileWriter.call ln
        ('C' :: ' ' :: (decimal id ++ ' ' :: (decimal id2 ++ ' ' :: r))) (w0, regs) =
      (ReadFailure.lift (w0.conflict id id2 "")).bind
        (fun s1 => pure (s1, { regs with id := id, id2 := id2 })) := by
  unfold readLine
  dsimp only
  rw [if_neg (by decide), if_neg (by decide), if_pos rfl,
    Registers.relation_written regs id id2 h1 h2]
  rfl

/-- The reader on the line of a provider that the writer wrote. -/
theorem readLine_provides (w0 : KCudfFileWriter) (regs : Registers) (ln id id2 : Nat)
    (h1 : id < UINT) (h2 : id2 < UINT) (r : List Char) :
    readLine KCudfFileWriter.call ln
        ('R' :: ' ' :: (decimal id ++ ' ' :: (decimal id2 ++ ' ' :: r))) (w0, regs) =
      (ReadFailure.lift (w0.provides id id2 "")).bind
        (fun s1 => pure (s1, { regs with id := id, id2 := id2 })) := by
  unfold readLine
  dsimp only
  rw [if_neg (by decide), if_neg (by decide), if_neg (by decide), if_pos rfl,
    Registers.relation_written regs id id2 h1 h2]
  rfl

/-- What a call appends to the file is read back as the same call with an empty
description: a reader whose writer has seen the declarations the writer of the
file had seen before the call makes this call, and its writer then has seen the
declarations the writer of the file has seen after the call. -/
theorem call_read_back (c : Call) (w0 w1 v0 : KCudfFileWriter) (hp : c.sized)
    (h : KCudfFileWriter.call w0 c = Except.ok w1) (hv : v0.cons = w0.cons) :
    ∃ txt txt0 v1, w1.os = w0.os ++ txt ∧ KCudfFileWriter.call v0 c.bare = Except.ok v1 ∧
      v1.os = v0.os ++ txt0 ∧
      (∀ rest, dropDescriptions 0 (txt ++ rest) = txt0 ++ dropDescriptions 0 rest) ∧
      v1.cons = w1.cons ∧ ∀ ln regs rest, ∃ ln1 regs1,
        readLines KCudfFileWriter.call ln (splitLines (txt ++ rest)) (v0, regs) =
          readLines KCudfFileWriter.call ln1 (splitLines rest) (v1, regs1) := by
  obtain ⟨ev, desc⟩ := c
  obtain ⟨hd, hids⟩ := hp
  dsimp only at hd hids
  cases ev with
  | package id keep install =>
    have e : w1 = w0.package id keep install desc := (Except.ok.inj h).symm
    subst e
    refine ⟨KCudfFileWriter.declaration id keep install desc,
      KCudfFileWriter.declaration id keep install "",
      v0.package id keep install "", rfl, rfl, rfl,
      declaration_dropped id keep install desc hd, ?_, ?_⟩
    · show v0.cons.insert id = w0.cons.insert id
      rw [hv]
    intro ln regs rest
    refine ⟨uinc ln, { regs with id := id, keep := if keep then 'K' else 'k',
                                 inst := if install then 'I' else 'i' }, ?_⟩
    rw [declaration_line, splitLines_line _ _ (declaration_no_feed id keep install desc hd),
      readLines_cons, readLine_declaration v0 regs (uinc ln) id hids keep install]
    rfl
  | dependency id id2 =>
    change KCudfFileWriter.dependency w0 id id2 desc = Except.ok w1 at h
    have hm : id ∈ w0.cons ∧ id2 ∈ w0.cons := by
      unfold KCudfFileWriter.dependency at h
      by_cases m : id ∈ w0.cons
      · by_cases m2 : id2 ∈ w0.cons
        · exact ⟨m, m2⟩
        · rw [if_neg (not_not.mpr m), if_pos m2] at h
          cases h
      · rw [if_pos m] at h
        cases h
    by_cases e : id = id2
    · have e1 : w1 = w0 := by
        unfold KCudfFileWriter.dependency at h
        rw [if_neg (not_not.mpr hm.1), if_neg (not_not.mpr hm.2), if_neg (not_not.mpr e)] at h
        exact (Except.ok.inj h).symm
      subst e1
      refine ⟨[], [], v0, by simp, ?_, by simp, fun rest => rfl, hv,
        fun ln regs rest => ⟨ln, regs, rfl⟩⟩
      show KCudfFileWriter.dependency v0 id id2 "" = Except.ok v0
      unfold KCudfFileWriter.dependency
      rw [hv, if_neg (not_not.mpr hm.1), if_neg (not_not.mpr hm.2), if_neg (not_not.mpr e)]
      rfl
    · have e1 : w1 = { w0 with os := w0.os ++ KCudfFileWriter.relation 'D' id id2 desc } := by
        unfold KCudfFileWriter.dependency at h
        rw [if_neg (not_not.mpr hm.1), if_neg (not_not.mpr hm.2), if_pos e] at h
        exact (Except.ok.inj h).symm
      have hv1 : KCudfFileWriter.dependency v0 id id2 "" =
          Except.ok { v0 with os := v0.os ++ KCudfFileWriter.relation 'D' id id2 "" } := by
        unfold KCudfFileWriter.dependency
        rw [hv, if_neg (not_not.mpr hm.1), if_neg (not_not.mpr hm.2), if_pos e]
        rfl
      refine ⟨KCudfFileWriter.relation 'D' id id2 desc, KCudfFileWriter.relation 'D' id id2 "", _,
      by rw [e1], hv1, rfl, relation_dropped 'D' (by decide) (by decide) id id2 desc hd,
      by rw [e1]; exact hv, ?_⟩
      intro ln regs rest
      refine ⟨uinc ln, { regs with id := id, id2 := id2 }, ?_⟩
      rw [relation_line, splitLines_line _ _ (relation_no_feed 'D' (by decide) id id2 desc hd),
        readLines_cons, readLine_dependency v0 regs (uinc ln) id id2 hids.1 hids.2, hv1]
      rfl
  | conflict id id2 =>
    change KCudfFileWriter.conflict w0 id id2 desc = Except.ok w1 at h
    have hm : id ∈ w0.cons ∧ id2 ∈ w0.cons := by
      unfold KCudfFileWriter.conflict at h
      by_cases m : id ∈ w0.cons
      · by_cases m2 : id2 ∈ w0.cons
        · exact ⟨m, m2⟩
        · rw [if_neg (not_not.mpr m), if_pos m2] at h
          cases h
      · rw [if_pos m] at h
        cases h
    have e1 : w1 = { w0 with os := w0.os ++ KCudfFileWriter.relation 'C' id id2 desc } := by
      unfold KCudfFileWriter.conflict at h
      rw [if_neg (not_not.mpr hm.1), if_neg (not_not.mpr hm.2)] at h
      exact (Except.ok.inj h).symm
    have hv1 : KCudfFileWriter.conflict v0 id id2 "" =
        Except.ok { v0 with os := v0.os ++ KCudfFileWriter.relation 'C' id id2 "" } := by
      unfold KCudfFileWriter.conflict
      rw [hv, if_neg (not_not.mpr hm.1), if_neg (not_not.mpr hm.2)]
      rfl
    refine ⟨KCudfFileWriter.relation 'C' id id2 desc, KCudfFileWriter.relation 'C' id id2 "", _,
      by rw [e1], hv1, rfl, relation_dropped 'C' (by decide) (by decide) id id2 desc hd,
      by rw [e1]; exact hv, ?_⟩
    intro ln regs rest
    refine ⟨uinc ln, { regs with id := id, id2 := id2 }, ?_⟩
    rw [relation_line, splitLines_line _ _ (relation_no_feed 'C' (by decide) id id2 desc hd),
      readLines_cons, readLine_conflict v0 regs (uinc ln) id id2 hids.1 hids.2, hv1]
    rfl
  | provides id id2 =>
    change KCudfFileWriter.provides w0 id id2 desc = Except.ok w1 at h
    have hm : id ∈ w0.cons ∧ id2 ∈ w0.cons := by
      unfold KCudfFileWriter.provides at h
      by_cases m : id ∈ w0.cons
      · by_cases m2 : id2 ∈ w0.cons
        · exact ⟨m, m2⟩
        · rw [if_neg (not_not.mpr m), if_pos m2] at h
          cases h
      · rw [if_pos m] at h
        cases h
    have e1 : w1 = { w0 with os := w0.os ++ KCudfFileWriter.relation 'R' id id2 desc } := by
      unfold KCudfFileWriter.provides at h
      rw [if_neg (not_not.mpr hm.1), if_neg (not_not.mpr hm.2)] at h
      exact (Except.ok.inj h).symm
    have hv1 : KCudfFileWriter.provides v0 id id2 "" =
        Except.ok { v0 with os := v0.os ++ KCudfFileWriter.relation 'R' id id2 "" } := by
      unfold KCudfFileWriter.provides
      rw [hv, if_neg (not_not.mpr hm.1), if_neg (not_not.mpr hm.2)]
      rfl
    refine ⟨KCudfFileWriter.relation 'R' id id2 desc, KCudfFileWriter.relation 'R' id id2 "", _,
      by rw [e1], hv1, rfl, relation_dropped 'R' (by decide) (by decide) id id2 desc hd,
      by rw [e1]; exact hv, ?_⟩
    intro ln regs rest
    refine ⟨uinc ln, { regs with id := id, id2 := id2 }, ?_⟩
    rw [relation_line, splitLines_line _ _ (relation_no_feed 'R' (by decide) id id2 desc hd),
      readLines_cons, readLine_provides v0 regs (uinc ln) id id2 hids.1 hids.2, hv1]
    rfl

/-- The same for a sequence of calls. -/
theorem calls_read_back (calls : List Call) :
    ∀ (w0 w1 v0 : KCudfFileWriter), (∀ c ∈ calls, c.sized) →
      calls.foldlM KCudfFileWriter.call w0 = Except.ok w1 → v0.cons = w0.cons →
      ∃ txt txt0 v1, w1.os = w0.os ++ txt ∧
        (calls.map Call.bare).foldlM KCudfFileWriter.call v0 = Except.ok v1 ∧
        v1.os = v0.os ++ txt0 ∧
        (∀ rest, dropDescriptions 0 (txt ++ rest) = txt0 ++ dropDescriptions 0 rest) ∧
        v1.cons = w1.cons ∧ ∀ ln regs rest, ∃ ln1 regs1,
          readLines KCudfFileWriter.call ln (splitLines (txt ++ rest)) (v0, regs) =
            readLines KCudfFileWriter.call ln1 (splitLines rest) (v1, regs1) := by
  induction calls with
  | nil =>
    intro w0 w1 v0 _ h hv
    have e : w1 = w0 := (Except.ok.inj h).symm
    subst e
    exact ⟨[], [], v0, by simp, rfl, by simp, fun rest => rfl, hv,
      fun ln regs rest => ⟨ln, regs, rfl⟩⟩
  | cons c cs ih =>
    intro w0 w1 v0 hp h hv
    rw [List.foldlM_cons] at h
    cases hc : KCudfFileWriter.call w0 c with
    | error e => rw [hc] at h; cases h
    | ok wm =>
      rw [hc] at h
      obtain ⟨t1, u1, vm, ho1, hb1, hx1, hd1, hc1, hr1⟩ :=
        call_read_back c w0 wm v0 (hp c (List.mem_cons_self _ _)) hc hv
      obtain ⟨t2, u2, v1, ho2, hb2, hx2, hd2, hc2, hr2⟩ :=
        ih wm w1 vm (fun x hx => hp x (List.mem_cons_of_mem _ hx)) h hc1
      refine ⟨t1 ++ t2, u1 ++ u2, v1, by rw [ho2, ho1, List.append_assoc], ?_,
        by rw [hx2, hx1, List.append_assoc], ?_, hc2, ?_⟩
      · rw [List.map_cons, List.foldlM_cons, hb1]
        exact hb2
      · intro rest
        rw [List.append_assoc, hd1, hd2, List.append_assoc]
      intro ln regs rest
      obtain ⟨la, ra, ha⟩ := hr1 ln regs (t2 ++ rest)
      obtain ⟨lb, rb, hb⟩ := hr2 la ra rest
      exact ⟨lb, rb, by rw [List.append_assoc, ha, hb]⟩

theorem Call.sized_bare {c : Call} (h : c.sized) : c.bare.sized := by
  obtain ⟨ev, desc⟩ := c
  exact ⟨by simp [Call.bare], h.2⟩

theorem Call.bare_of_empty {c : Call} (h : c.desc = "") : c.bare = c := by
  obtain ⟨ev, desc⟩ := c
  dsimp only at h
  subst h
  rfl

/-- C22, as the code has it: the round trip of the codec up to the text after
`#`.  When the calls `calls`, with identifiers that are values of an
`unsigned int` and descriptions without line feed, take a new file writer to the
state `w`, then `read` on the text `w.os` that was written, with a new file writer
as the writer and whatever the local variables of `read` start with, ends without
an exception, with its writer in the state `v` that the same calls with empty
descriptions reach: the text `v.os` it has written is the text `w.os` without its
descriptions, the same statements, each with nothing after `# `, and it has seen
the same declarations.  The text `v.os` is read back as itself, and `v` is `w`
when the descriptions of the calls are empty. -/
theorem file_round_trip (calls : List Call) (w : KCudfFileWriter) (regs : Registers)
    (hsized : ∀ c ∈ calls, c.sized)
    (hw : calls.foldlM KCudfFileWriter.call KCudfFileWriter.create = Except.ok w) :
    ∃ v, (calls.map Call.bare).foldlM KCudfFileWriter.call KCudfFileWriter.create =
        Except.ok v ∧
      read KCudfFileWriter.call (some w.os) regs KCudfFileWriter.create = Except.ok v ∧
      v.os = dropDescriptions 0 w.os ∧ v.cons = w.cons ∧
      read KCudfFileWriter.call (some v.os) regs KCudfFileWriter.create = Except.ok v ∧
      ((∀ c ∈ calls, c.desc = "") → v = w) := by
  obtain ⟨txt, txt0, v, ho, hb, hx, hdd, hc, hr⟩ :=
    calls_read_back calls KCudfFileWriter.create w KCudfFileWriter.create hsized hw rfl
  have hbs : ∀ c ∈ calls.map Call.bare, c.sized := by
    intro c hc1
    obtain ⟨c0, h0, rfl⟩ := List.mem_map.mp hc1
    exact Call.sized_bare (hsized c0 h0)
  have hbb : (calls.map Call.bare).map Call.bare = calls.map Call.bare := by
    rw [List.map_map]
    rfl
  obtain ⟨txt2, -, v2, ho2, hb2, -, -, -, hr2⟩ :=
    calls_read_back (calls.map Call.bare) KCudfFileWriter.create v KCudfFileWriter.create hbs
      hb rfl
  rw [hbb, hb] at hb2
  cases hb2
  refine ⟨v, hb, ?_, ?_, hc, ?_, ?_⟩
  · obtain ⟨ln1, regs1, h⟩ := hr 0 regs []
    have e : w.os = txt ++ [] := by rw [ho, List.append_nil]; rfl
    rw [read_some, e, h]
    rfl
  · have e := hdd []
    rw [List.append_nil] at e
    have e1 : w.os = txt := by rw [ho]; rfl
    have e2 : v.os = txt0 := by rw [hx]; rfl
    rw [e1, e2, e]
    exact (List.append_nil _).symm
  · obtain ⟨ln1, regs1, h⟩ := hr2 0 regs []
    have e : v.os = txt2 ++ [] := by rw [ho2, List.append_nil]; rfl
    rw [read_some, e, h]
    rfl
  · intro he
    have : calls.map Call.bare = calls := by
      conv => rhs; rw [← List.map_id calls]
      exact List.map_congr_left (fun c hc1 => Call.bare_of_empty (he c hc1))
    rw [this, hw] at hb
    exact (Except.ok.inj hb).symm

theorem file_round_trip_witness :
    ([{ ev := Event.package 0 false true, desc := "1a" },
      { ev := Event.package 2 true false, desc := "" },
      { ev := Event.dependency 2 0, desc := "a-pvall" },
      { ev := Event.dependency 2 2, desc := "" },
      { ev := Event.conflict 0 2, desc := "" },
      { ev := Event.provides 0 0, desc := "" }] : List Call).foldlM
        KCudfFileWriter.call KCudfFileWriter.create =
      Except.ok { os := "P 0 k I # 1a\nP 2 K i # \nD 2 0 # a-pvall\nC 0 2 # \nR 0 0 # \n".toList,
                  cons := [0, 2] } ∧
    ∃ v, (([{ ev := Event.package 0 false true, desc := "1a" },
      { ev := Event.package 2 true false, desc := "" },
      { ev := Event.dependency 2 0, desc := "a-pvall" },
      { ev := Event.dependency 2 2, desc := "" },
      { ev := Event.conflict 0 2, desc := "" },
      { ev := Event.provides 0 0, desc := "" }] : List Call).map Call.bare).foldlM
        KCudfFileWriter.call KCudfFileWriter.create = Except.ok v ∧
      read KCudfFileWriter.call
        (some "P 0 k I # 1a\nP 2 K i # \nD 2 0 # a-pvall\nC 0 2 # \nR 0 0 # \n".toList)
        Registers.zero KCudfFileWriter.create = Except.ok v ∧
      v.os = dropDescriptions 0
        "P 0 k I # 1a\nP 2 K i # \nD 2 0 # a-pvall\nC 0 2 # \nR 0 0 # \n".toList ∧
      v.cons = [0, 2] ∧
      read KCudfFileWriter.call (some v.os) Registers.zero KCudfFileWriter.create =
        Except.ok v ∧
      ((∀ c ∈ ([{ ev := Event.package 0 false true, desc := "1a" },
        { ev := Event.package 2 true false, desc := "" },
        { ev := Event.dependency 2 0, desc := "a-pvall" },
        { ev := Event.dependency 2 2, desc := "" },
        { ev := Event.conflict 0 2, desc := "" },
        { ev := Event.provides 0 0, desc := "" }] : List Call), c.desc = "") →
        v = { os := "P 0 k I # 1a\nP 2 K i # \nD 2 0 # a-pvall\nC 0 2 # \nR 0 0 # \n".toList,
              cons := [0, 2] }) :=
  ⟨rfl, file_round_trip
    [{ ev := Event.package 0 false true, desc := "1a" },
      { ev := Event.package 2 true false, desc := "" },
      { ev := Event.dependency 2 0, desc := "a-pvall" },
      { ev := Event.dependency 2 2, desc := "" },
      { ev := Event.conflict 0 2, desc := "" },
      { ev := Event.provides 0 0, desc := "" }]
    { os := "P 0 k I # 1a\nP 2 K i # \nD 2 0 # a-pvall\nC 0 2 # \nR 0 0 # \n".toList,
      cons := [0, 2] }
    Registers.zero
    (by
      intro c hc
      simp only [List.mem_cons, List.mem_singleton, List.not_mem_nil, or_false] at hc
      rcases hc with rfl | rfl | rfl | rfl | rfl | rfl <;>
        exact ⟨by decide, by decide⟩)
    rfl⟩

/-- The line `P 0 k I # 1a` is what the file writer writes for the package `a` of
version 1 that the translator hands over with the description `1a`; `read` hands
it on with an empty description, and a new file writer writes `P 0 k I # `.  A
description with a line feed leaves a second line, which `read` refuses. -/
theorem round_trip_counterexample :
    KCudfFileWriter.call KCudfFileWriter.create
        { ev := Event.package 0 false true, desc := "1a" } =
      Except.ok { os := "P 0 k I # 1a\n".toList, cons := [0] } ∧
    read KCudfFileWriter.call (some "P 0 k I # 1a\n".toList) Registers.zero
        KCudfFileWriter.create =
      Except.ok { os := "P 0 k I # \n".toList, cons := [0] } ∧
    "P 0 k I # \n".toList ≠ "P 0 k I # 1a\n".toList ∧
    KCudfFileWriter.call KCudfFileWriter.create
        { ev := Event.package 0 false true, desc := "1\na" } =
      Except.ok { os := "P 0 k I # 1\na\n".toList, cons := [0] } ∧
    read KCudfFileWriter.call (some "P 0 k I # 1\na\n".toList) Registers.zero
        KCudfFileWriter.create =
      Except.error (ReadFailure.InvalidStatement 2 []) :=
  ⟨rfl, rfl, by decide, rfl, rfl⟩

end RoundTrip

/-! ## A provides statement on a package the search slice does not declare -/

section SearchSliceProvider

/-- C31: a provides statement of the search slice on a package the slice does not
declare.  The KCUDF file declares package 0 with `keep` and `install`, package 1
with neither and package 2 with `install`; 0 and 2 provide themselves, 0 provides
1 and 2 depends on 1.  `read` accepts it and `reduce` returns `RDO_SEARCH`, with
enough fuel, with package 0 in `MI` with `sp = 1` and the packages 1 and 2 in
`SR`: the search writer is handed the declarations of 1 and 2 only, and then
`provides(0, 1)`, which `incPvds` writes for the `MI` package 0.  A
`KCudfFileWriter` of a debug build, whatever the descriptions, fails its
assertion on it. -/
theorem search_slice_undeclared_provider :
    read KCudfReducer.call
        (some "P 0 K I\nP 1 k i\nP 2 k I\nR 0 0\nR 2 2\nR 0 1\nD 2 1\n".toList)
        Registers.zero (KCudfReducer.create (fun x => x) []) = Except.ok exampleProvider ∧
    exampleProvider.Ready ∧
    (∃ solved r, ∀ fuel, 180 ≤ fuel →
      exampleProvider.reduce fuel = some (Reduced.returned RDO_SEARCH solved
        [Event.package 1 false false, Event.package 2 false true, Event.provides 0 1,
          Event.dependency 1 1, Event.dependency 2 1, Event.dependency 2 2,
          Event.provides 2 2] r) ∧
        r.state 0 = PKR_MI ∧ r.sp 0 = 1 ∧ r.state 1 = PKR_SR ∧ r.state 2 = PKR_SR) ∧
    ∀ desc : Event → String,
      ([Event.package 1 false false, Event.package 2 false true, Event.provides 0 1,
          Event.dependency 1 1, Event.dependency 2 1, Event.dependency 2 2,
          Event.provides 2 2].map (fun e => ({ ev := e, desc := desc e } : Call))).foldlM
        KCudfFileWriter.call KCudfFileWriter.create = Except.error Failure.assertion := by
  refine ⟨rfl, by decide, ?_, fun desc => rfl⟩
  obtain ⟨solved, r, h1, h2⟩ := reduce_of_summary exampleProvider 180 [0, 1, 2] RDO_SEARCH
    [Event.package 1 false false, Event.package 2 false true, Event.provides 0 1,
      Event.dependency 1 1, Event.dependency 2 1, Event.dependency 2 2, Event.provides 2 2]
    [(PKR_MI, 1), (PKR_SR, 1), (PKR_SR, 0)] rfl
  simp only [List.map_cons, List.map_nil, List.cons.injEq, Prod.mk.injEq, and_true] at h2
  obtain ⟨⟨a1, a2⟩, ⟨a3, -⟩, a4, -⟩ := h2
  exact ⟨solved, r, fun fuel hf => ⟨h1 fuel hf, a1, a2, a3, a4⟩⟩

end SearchSliceProvider

/-! ## An installed package without a disjunction of any version -/

section InstalledWithoutPvany

/-- C34: an installed concrete package without its `pvany`.  For the document with
`a = 1`, installed, and `b = 1`, not installed, and the request to install
`b = 1`, the constructor reaches the loop that fills `bigPackages` with the
concrete package of `b` (object 4) marked `install`, and `constv` holds
`a-pvall`, `a-pvany` and `b-pvall` only: the assertion
`constv.count(ss.str()) > 0` fails for `b-pvany`, and the translation ends on
it. -/
theorem installed_without_pvany :
    (((KCudfData.beforeRequest Printer.plain 0 docInstall).bind (fun r =>
        KCudfData.processRequest Printer.plain r.1 docInstall r.2.1)).bind (fun r =>
          r.1.fixInstallVirtuals.bind (fun d => d.consistent))).map
        (fun r => (r.2.constv, (r.2.heap 4).map (fun o => (o.nm, o.install, o.keep)),
          r.2.isConcrete 4, r.2.markedInstall 4, r.2.fillBigPackages.toOption.isSome)) =
      Except.ok ([("a-pvall", 2), ("a-pvany", 3), ("b-pvall", 6)],
        some (some "b", true, true), Except.ok true, Except.ok true, false) ∧
    (((KCudfData.beforeRequest Printer.plain 0 docInstall).bind (fun r =>
        KCudfData.processRequest Printer.plain r.1 docInstall r.2.1)).bind (fun r =>
          r.1.fixInstallVirtuals.bind (fun d => d.consistent))).bind
        (fun r => r.2.fillBigPackages) = Except.error Failure.assertion ∧
    KCudfData.create Printer.plain 0 docInstall = Except.error Failure.assertion :=
  ⟨rfl, rfl, rfl⟩

end InstalledWithoutPvany

/-! ## The seeds of the paranoid file -/

section ParanoidSeeds

theorem readDigits_all (ds : List Nat) (h : ∀ x ∈ ds, x < 10) :
    ∀ (a : Nat) (seen : Bool),
      readDigits (ds.map (fun d => Char.ofNat (48 + d))) a seen =
        (ds.foldl (fun a d => a * 10 + d) a, seen || !ds.isEmpty, []) := by
  induction ds with
  | nil => intro a seen; simp [readDigits]
  | cons d ds ih =>
    intro a seen
    have hd := digit_char d (h d (List.mem_cons_self _ _))
    rw [List.map_cons, readDigits_digit _ _ _ _ _ hd.1,
      ih (fun x hx => h x (List.mem_cons_of_mem _ hx))]
    simp

theorem Extract.int_decimal (i : Int) (h1 : -2147483648 ≤ i) (h2 : i ≤ 2147483647)
    (old : Int) :
    (Extract.int { rest := decimalInt i, failed := false } old).1 = i := by
  unfold decimalInt
  by_cases hneg : i < 0
  · rw [if_pos hneg]
    obtain ⟨d, ds, e, hlt, hv⟩ := decimal_digits i.natAbs
    unfold Extract.int
    have hs : skipSpaces ('-' :: decimal i.natAbs) = '-' :: decimal i.natAbs :=
      skipSpaces_stop _ _ (by decide)
    simp only [Bool.false_eq_true, if_false, hs, true_or, if_true]
    rw [e, readDigits_all (d :: ds) hlt 0 false, hv]
    have hb : ¬ (2147483648 < i.natAbs) := by omega
    simp only [List.isEmpty_cons, Bool.not_false, Bool.or_true, Bool.not_true,
      Bool.false_eq_true, if_false, hb]
    omega
  · rw [if_neg hneg]
    obtain ⟨d, ds, e, hlt, hv⟩ := decimal_digits i.toNat
    have hd := digit_char d (hlt d (List.mem_cons_self _ _))
    have hne : ¬ (Char.ofNat (48 + d) = '-' ∨ Char.ofNat (48 + d) = '+') := by
      rintro (g | g)
      · exact hd.2.2.1 g
      · exact hd.2.2.2.1 g
    have hrd := readDigits_all (d :: ds) hlt 0 false
    rw [List.map_cons, hv] at hrd
    unfold Extract.int
    rw [e, List.map_cons]
    have hs : skipSpaces (Char.ofNat (48 + d) :: ds.map (fun d => Char.ofNat (48 + d))) =
        Char.ofNat (48 + d) :: ds.map (fun d => Char.ofNat (48 + d)) :=
      skipSpaces_stop _ _ hd.2.1
    have hb : ¬ (2147483647 < i.toNat) := by omega
    simp only [Bool.false_eq_true, if_false, hs, if_neg hne, hrd, List.isEmpty_cons,
      Bool.not_false, Bool.or_true, Bool.not_true, if_neg hd.2.2.1, hb]
    omega

theorem decimalInt_no_feed (i : Int) : '\n' ∉ decimalInt i := by
  unfold decimalInt
  split
  · intro h
    rcases List.mem_cons.mp h with g | g
    · exact absurd g (by decide)
    · exact decimal_no_feed _ g
  · exact decimal_no_feed _

theorem splitLines_writeParanoid (search : List Int) :
    splitLines (KCudfTranslator.writeParanoid search) = search.map decimalInt ++ [[]] := by
  induction search with
  | nil => rfl
  | cons i rest ih =>
    unfold KCudfTranslator.writeParanoid at ih ⊢
    rw [List.map_cons, List.flatten_cons, List.append_assoc, List.singleton_append,
      splitLines_line _ _ (decimalInt_no_feed i), ih]
    rfl

theorem mem_insertSeed (s : List Int) (x y : Int) : y ∈ insertSeed s x ↔ y ∈ s ∨ y = x := by
  unfold insertSeed
  split
  · rename_i h
    constructor
    · exact Or.inl
    · rintro (g | g)
      · exact g
      · exact g ▸ h
  · simp

theorem mem_paranoidLines (search : List Int)
    (hr : ∀ i ∈ search, -2147483648 ≤ i ∧ i ≤ 2147483647) :
    ∀ (package : Int) (seeds : List Int) (x : Int),
      x ∈ paranoidLines (search.map decimalInt ++ [[]]) package seeds ↔
        x ∈ seeds ∨ x ∈ search ∨ (search = [] ∧ x = package) := by
  induction search with
  | nil =>
    intro package seeds x
    show x ∈ insertSeed seeds package ↔ _
    rw [mem_insertSeed]
    simp
  | cons i rest ih =>
    intro package seeds x
    have hi := hr i (List.mem_cons_self _ _)
    have e : paranoidLines ((i :: rest).map decimalInt ++ [[]]) package seeds =
        paranoidLines (rest.map decimalInt ++ [[]])
          (Extract.int { rest := decimalInt i, failed := false } package).1
          (insertSeed seeds (Extract.int { rest := decimalInt i, failed := false } package).1) :=
      rfl
    rw [e, Extract.int_decimal i hi.1 hi.2, ih (fun j hj => hr j (List.mem_cons_of_mem _ hj)),
      mem_insertSeed]
    constructor
    · rintro ((g | g) | g | ⟨-, g⟩)
      · exact Or.inl g
      · exact Or.inr (Or.inl (g ▸ List.mem_cons_self _ _))
      · exact Or.inr (Or.inl (List.mem_cons_of_mem _ g))
      · exact Or.inr (Or.inl (g ▸ List.mem_cons_self _ _))
    · rintro (g | g | ⟨g, -⟩)
      · exact Or.inl (Or.inl g)
      · rcases List.mem_cons.mp g with k | k
        · exact Or.inl (Or.inr k)
        · exact Or.inr (Or.inl k)
      · cases g

/-- C40: the seeds of an empty paranoid file.  For the file `writeParanoid` writes
for the identifiers `search`, all values of an `int`, the constructor builds
exactly the set of these identifiers when there is at least one: the empty line
after the last line feed inserts the last identifier once more.  For the empty
file, which `writeParanoid` writes for an empty list, the loop runs once on an
empty line, the extraction leaves the local variable `package` as it is, and the
constructor inserts the value this variable, which is not initialised, happens to
hold: the set has one seed and not none.  A stream that is not good gives no
seed. -/
theorem paranoid_seeds_read (search : List Int) (package : Int)
    (hr : ∀ i ∈ search, -2147483648 ≤ i ∧ i ≤ 2147483647) :
    (∀ x, x ∈ paranoidSeeds (some (KCudfTranslator.writeParanoid search)) package ↔
      x ∈ search ∨ (search = [] ∧ x = package)) ∧
    KCudfTranslator.writeParanoid [] = [] ∧
    paranoidSeeds (some []) package = [package] ∧
    (KCudfReducer.createParanoid (fun x => x) (some []) package).init_search =
      [toUnsigned package] ∧
    paranoidSeeds none package = [] := by
  refine ⟨fun x => ?_, rfl, rfl, rfl, rfl⟩
  unfold paranoidSeeds
  simp only []
  rw [splitLines_writeParanoid, mem_paranoidLines search hr]
  simp

theorem paranoid_seeds_read_witness :
    (∀ x, x ∈ paranoidSeeds (some (KCudfTranslator.writeParanoid [3, 12])) 7 ↔
      x ∈ ([3, 12] : List Int) ∨ (([3, 12] : List Int) = [] ∧ x = 7)) ∧
    KCudfTranslator.writeParanoid [3, 12] = "3\n12\n".toList ∧
    paranoidSeeds (some "3\n12\n".toList) 7 = [3, 12] ∧
    paranoidSeeds (some []) 7 = [7] :=
  ⟨(paranoid_seeds_read [3, 12] 7 (by
      intro i hi
      simp only [List.mem_cons, List.mem_singleton, List.not_mem_nil, or_false] at hi
      rcases hi with rfl | rfl <;> decide)).1, rfl, rfl, rfl⟩

end ParanoidSeeds

/-! ## The states only move forward -/

section StatesForward

theorem Moved.state_forward {r r1 : KCudfReducer} {pkgId : Nat} {op : PK_OP}
    (h : Moved r pkgId op r1) (hb : Base r) (hpk : pkgId ∈ r.pkgs) (q : Nat) :
    r1.pkg_st q = r.pkg_st q ∨
      ((r.pkg_st q = PKR_CU ∨ r.pkg_st q = PKR_CI) ∧
        (r1.pkg_st q = PKR_MU ∨ r1.pkg_st q = PKR_MI ∨ r1.pkg_st q = PKR_SR)) := by
  cases h with
  | keep op hop htf => exact Or.inl rfl
  | change op nextState hop htf hne hfl hab =>
    have e0 : (r.changeState pkgId (r.pkg_st pkgId) nextState).pkg_st =
        setAt r.pkg_st pkgId nextState := by rw [KCudfReducer.changeState_eq]
    rw [e0]
    by_cases e : q = pkgId
    · subst e
      right
      rw [setAt_same]
      rcases tf_cases hop (hb.2.1 q hpk) htf hne hfl hab with
        ⟨e1, _, e3⟩ | ⟨e1, _, e3⟩ | ⟨e1, _, e3⟩ | ⟨e1, _, e3⟩ | ⟨e1, _, e3⟩ | ⟨e1, _, e3⟩ <;>
      rw [e1, e3] <;> simp
    · rw [setAt_ne _ _ e]
      exact Or.inl rfl
  | ucp0 h0 => exact Or.inl rfl
  | ucp1 h1 =>
    rw [(foldl_ucpStep_frame pkgId (r.pvds_in pkgId) r).2.1]
    exact Or.inl rfl
  | ucpN h0 h1 => exact Or.inl rfl
  | usp h0 hs => exact Or.inl rfl
  | uspN h0 => exact Or.inl rfl
  | upd => exact Or.inl rfl

theorem Stepped.state_forward_stepped {r r1 : KCudfReducer} (h : Stepped r r1) (hb : Base r)
    (q : Nat) :
    r1.pkg_st q = r.pkg_st q ∨
      ((r.pkg_st q = PKR_CU ∨ r.pkg_st q = PKR_CI) ∧
        (r1.pkg_st q = PKR_MU ∨ r1.pkg_st q = PKR_MI ∨ r1.pkg_st q = PKR_SR)) := by
  obtain ⟨h1, h2, h3, h4⟩ := hb
  cases h with
  | first op pkgId rest r1 e1 hm =>
    have hpk : pkgId ∈ r.pkgs := (h3 (op, pkgId) (by simp [e1])).1
    have hb1 : Base ({ r with todo1 := rest } : KCudfReducer) := by
      refine ⟨h1, h2, ?_, h4⟩
      intro t ht
      exact h3 t (by simp only [e1]; exact List.mem_cons_of_mem _ ht)
    exact hm.state_forward hb1 hpk q
  | second op pkgId rest r1 e1 e2 hm =>
    have hpk : pkgId ∈ r.pkgs := (h4 (op, pkgId) (by simp [e2])).1
    have hb1 : Base ({ r with todo2 := rest } : KCudfReducer) := by
      refine ⟨h1, h2, h3, ?_⟩
      intro t ht
      exact h4 t (by simp only [e2]; exact List.mem_cons_of_mem _ ht)
    exact hm.state_forward hb1 hpk q

theorem Reach.state_forward_reach {r r2 : KCudfReducer} (h : Reach r r2) (hb : Base r)
    (q : Nat) :
    r2.pkg_st q = r.pkg_st q ∨
      ((r.pkg_st q = PKR_CU ∨ r.pkg_st q = PKR_CI) ∧
        (r2.pkg_st q = PKR_MU ∨ r2.pkg_st q = PKR_MI ∨ r2.pkg_st q = PKR_SR)) := by
  induction h with
  | start => exact Or.inl rfl
  | turn ra rb hr ht ih =>
    have hba := (hr.frame_reach hb).1
    rcases (hba.iteration ht).state_forward_stepped hba q with e | ⟨e1, e2⟩
    · rw [e]
      exact ih
    · rcases ih with e3 | ⟨e3, e4⟩
      · rw [e3] at e1
        exact Or.inr ⟨e1, e2⟩
      · exfalso
        rcases e1 with e1 | e1 <;> rcases e4 with e4 | e4 | e4 <;> rw [e1] at e4 <;> cases e4

/-- C35: states only move forward.  In every state `r` the loop of `process`
goes through from a well-formed start, a turn of the loop leaves the state of a
package as it is or takes it from `CU` or `CI` to `MU`, `MI` or `SR`; so from
`r` on a package in `MU`, `MI` or `SR` keeps its state, no package enters `CU`
or `CI`, and a package whose state differs from the one it had when `process`
started never changes state again.  The initialisation loop changes no state. -/
theorem states_move_forward (r0 r : KCudfReducer) (h0 : r0.Ready)
    (hr : Reach r0.initLoop r) :
    (∀ q, r0.initLoop.state q = r0.state q) ∧
    (∀ r1, r.iteration = some (Turn.next r1) → ∀ q,
      r1.state q = r.state q ∨
        ((r.state q = PKR_CU ∨ r.state q = PKR_CI) ∧
          (r1.state q = PKR_MU ∨ r1.state q = PKR_MI ∨ r1.state q = PKR_SR))) ∧
    (∀ r2, Reach r r2 → ∀ q,
      (r.state q = PKR_MU ∨ r.state q = PKR_MI ∨ r.state q = PKR_SR →
        r2.state q = r.state q) ∧
      (r2.state q = PKR_CU ∨ r2.state q = PKR_CI → r.state q = r2.state q) ∧
      (r.state q ≠ r0.state q → r2.state q = r.state q)) := by
  have hb0 := initLoop_Base r0 h0
  have hb := (hr.frame_reach hb0).1
  have hi : ∀ q, r0.initLoop.pkg_st q = r0.pkg_st q := fun q => by rw [(initLoop_frame r0).2.1]
  have key : ∀ r2, Reach r r2 → ∀ q,
      (r.pkg_st q = PKR_MU ∨ r.pkg_st q = PKR_MI ∨ r.pkg_st q = PKR_SR) →
        r2.pkg_st q = r.pkg_st q := by
    intro r2 h2 q hq
    rcases h2.state_forward_reach hb q with e | ⟨e1, _⟩
    · exact e
    · exfalso
      rcases e1 with e1 | e1 <;> rcases hq with e4 | e4 | e4 <;> rw [e1] at e4 <;> cases e4
  refine ⟨hi, ?_, ?_⟩
  · intro r1 h1 q
    exact (hb.iteration h1).state_forward_stepped hb q
  · intro r2 h2 q
    refine ⟨key r2 h2 q, ?_, ?_⟩
    · intro hq
      rcases h2.state_forward_reach hb q with e | ⟨_, e2⟩
      · exact e.symm
      · exfalso
        rcases hq with e1 | e1 <;> rcases e2 with e4 | e4 | e4 <;>
          (have e5 := e1.symm.trans e4; cases e5)
    · intro hne
      refine key r2 h2 q ?_
      rcases hr.state_forward_reach hb0 q with e | ⟨_, e2⟩
      · exact absurd (e.trans (hi q)) hne
      · exact e2

theorem states_move_forward_witness :
    exampleSearch.Ready ∧ Reach exampleSearch.initLoop (exampleSearch.initLoop.turns 24) ∧
    (exampleSearch.initLoop.turns 24).state 1 = PKR_MI ∧ exampleSearch.state 1 = PKR_CU ∧
    (∀ r2, Reach (exampleSearch.initLoop.turns 24) r2 → ∀ q,
      ((exampleSearch.initLoop.turns 24).state q = PKR_MU ∨
          (exampleSearch.initLoop.turns 24).state q = PKR_MI ∨
          (exampleSearch.initLoop.turns 24).state q = PKR_SR →
        r2.state q = (exampleSearch.initLoop.turns 24).state q) ∧
      (r2.state q = PKR_CU ∨ r2.state q = PKR_CI →
        (exampleSearch.initLoop.turns 24).state q = r2.state q) ∧
      ((exampleSearch.initLoop.turns 24).state q ≠ exampleSearch.state q →
        r2.state q = (exampleSearch.initLoop.turns 24).state q)) :=
  ⟨by decide, reach_turns _ 24 _ Reach.start, by decide, by decide,
    (states_move_forward exampleSearch _ (by decide) (reach_turns _ 24 _ Reach.start)).2.2⟩

end StatesForward

/-! ## The end of the propagation -/

section FixedPoint

theorem KCudfReducer.Ready.process_final {r0 : KCudfReducer} (h0 : r0.Ready) {fuel : Nat}
    {r : KCudfReducer} (h : r0.process fuel = some (Processed.returned RDO_SEARCH r)) :
    Reach r0.initLoop r ∧ r.todo1 = [] ∧ r.todo2 = [] := by
  obtain ⟨r1, hr1, hh⟩ := h0.process_ended (max fuel (potential r0.initLoop + 1)) (by omega)
  have e1 : r0.process (max fuel (potential r0.initLoop + 1)) =
      some (Processed.returned RDO_SEARCH r) :=
    processLoop_mono fuel _ r0.initLoop _ h (Nat.le_max_left _ _)
  rcases hh with ⟨a, b, c⟩ | ⟨r2, _, c⟩
  · rw [e1] at c
    injection c with c
    injection c with _ c
    subst c
    exact ⟨hr1, a, b⟩
  · rw [e1] at c
    injection c with c
    injection c with c _
    cases c

theorem process_search_of_test (r0 : KCudfReducer) (fuel : Nat)
    (h : (match r0.process fuel with
      | some (Processed.returned RDO_SEARCH _) => true
      | _ => false) = true) :
    ∃ r, r0.process fuel = some (Processed.returned RDO_SEARCH r) := by
  cases e : r0.process fuel with
  | none => rw [e] at h; cases h
  | some res =>
    cases res with
    | assertion r => rw [e] at h; cases h
    | returned out r =>
      cases out with
      | RDO_SEARCH => exact ⟨r, rfl⟩
      | RDO_FAIL => rw [e] at h; cases h
      | RDO_SOL => rw [e] at h; cases h

/-- C36: the unit propagation on providers is complete at the fixed point.  When
`process` returns without failure from a well-formed start, every package with
`cp = 0` is in state `MU`, and every package with `cp = 1` has exactly one
provider whose state is not `MU` and has a dependency edge to it. -/
theorem ucp_complete (r0 : KCudfReducer) (h0 : r0.Ready) (fuel : Nat) (r : KCudfReducer)
    (h : r0.process fuel = some (Processed.returned RDO_SEARCH r)) :
    (∀ p ∈ r.packages, r.cp p = 0 → r.state p = PKR_MU) ∧
    (∀ p ∈ r.packages, r.cp p = 1 →
      ∃ q, q ∈ r.providers p ∧ r.state q ≠ PKR_MU ∧ q ∈ r.dependencies p ∧
        ∀ q1 ∈ r.providers p, r.state q1 ≠ PKR_MU → q1 = q) := by
  obtain ⟨hr, t1, _⟩ := h0.process_final h
  obtain ⟨hb, hc, hp⟩ := h0.reach hr
  have hs : Saturated r.toGraphWriter r.pkg_st r.cp [] := by
    rcases hp with ⟨_, hm⟩ | hs
    · rw [t1] at hm
      exact hm.to_saturated
    · rw [t1] at hs
      exact hs
  obtain ⟨_, _, _, s4, s5, _, _⟩ := hs
  refine ⟨fun p hp0 hcp => s4 p hp0 hcp, ?_⟩
  intro p hp0 hcp
  have hcnt := (hc p hp0).1
  rw [hcp] at hcnt
  have hpos : 0 < (r.pvds_in p).countP (fun q => isCP (r.pkg_st q)) := by omega
  obtain ⟨q, hq, hqc⟩ := List.countP_pos_iff.mp hpos
  refine ⟨q, hq, ?_, s5 p hp0 hcp q hq hqc, ?_⟩
  · intro e
    have e1 : r.pkg_st q = PKR_MU := e
    rw [e1] at hqc
    simp [isCP] at hqc
  · intro q1 hq1 hne
    have hq1c : isCP (r.pkg_st q1) = true := by
      have e1 : r.pkg_st q1 ≠ PKR_MU := hne
      simpa [isCP] using e1
    exact countP_le_one_unique (fun q => isCP (r.pkg_st q)) (r.pvds_in p) (by omega) hq1 hq
      hq1c hqc

theorem ucp_complete_witness :
    exampleSearch.Ready ∧
    ∃ r, exampleSearch.process 60 = some (Processed.returned RDO_SEARCH r) ∧
      (∀ p ∈ r.packages, r.cp p = 0 → r.state p = PKR_MU) ∧
      (∀ p ∈ r.packages, r.cp p = 1 →
        ∃ q, q ∈ r.providers p ∧ r.state q ≠ PKR_MU ∧ q ∈ r.dependencies p ∧
          ∀ q1 ∈ r.providers p, r.state q1 ≠ PKR_MU → q1 = q) := by
  obtain ⟨r, hr⟩ := process_search_of_test exampleSearch 60 rfl
  exact ⟨by decide, r, hr, ucp_complete exampleSearch (by decide) 60 r hr⟩

end FixedPoint

/-! ## What the propagation changes -/

section FrameOfProcess

theorem ucpStep_new_edge (pkgId : Nat) (r : KCudfReducer) (p x y : Nat)
    (h : y ∈ (ucpStep pkgId r p).deps_out x) (hn : y ∉ r.deps_out x) :
    x = pkgId ∧ y = p ∧ isCP (r.pkg_st p) = true := by
  unfold ucpStep at h
  split at h
  · rename_i hc
    simp only [Bool.and_eq_true, Bool.not_eq_true', decide_eq_false_iff_not] at hc
    rcases (GraphWriter.mem_add_dep_out r.toGraphWriter pkgId p hc.2 x y).mp h with g | ⟨g1, g2⟩
    · exact absurd g hn
    · exact ⟨g1, g2, hc.1⟩
  · exact absurd h hn

theorem foldl_ucpStep_new_edge (pkgId : Nat) (ps : List Nat) (r : KCudfReducer) (x y : Nat)
    (h : y ∈ (ps.foldl (ucpStep pkgId) r).deps_out x) (hn : y ∉ r.deps_out x) :
    x = pkgId ∧ y ∈ ps ∧ isCP (r.pkg_st y) = true := by
  induction ps generalizing r with
  | nil => exact absurd h hn
  | cons p ps ih =>
    rw [List.foldl_cons] at h
    by_cases g : y ∈ (ucpStep pkgId r p).deps_out x
    · obtain ⟨a, b, c⟩ := ucpStep_new_edge pkgId r p x y g hn
      exact ⟨a, b ▸ List.mem_cons_self _ _, b ▸ c⟩
    · obtain ⟨a, b, c⟩ := ih (ucpStep pkgId r p) h g
      rw [(ucpStep_frame pkgId r p).2.1] at c
      exact ⟨a, List.mem_cons_of_mem _ b, c⟩

theorem Moved.new_edge {r r1 : KCudfReducer} {pkgId : Nat} {op : PK_OP}
    (hm : Moved r pkgId op r1) (x y : Nat) (h : y ∈ r1.deps_out x) (hn : y ∉ r.deps_out x) :
    op = PK_UCP ∧ x = pkgId ∧ r.cp pkgId = 1 ∧ y ∈ r.pvds_in pkgId ∧ r.pkg_st y ≠ PKR_MU := by
  cases hm with
  | change op nx hop1 htf hne hfl hab =>
    rw [KCudfReducer.changeState_eq] at h
    exact absurd h hn
  | ucp1 hc =>
    obtain ⟨a, b, c⟩ := foldl_ucpStep_new_edge pkgId _ r x y h hn
    refine ⟨rfl, a, hc, b, ?_⟩
    intro e
    rw [e] at c
    simp [isCP] at c
  | keep op hop htf => exact absurd h hn
  | ucp0 h0 => exact absurd h hn
  | ucpN h0 h1 => exact absurd h hn
  | usp h0 hs => exact absurd h hn
  | uspN h0 => exact absurd h hn
  | upd => exact absurd h hn

theorem Stepped.new_edge_stepped {r r1 : KCudfReducer} (hs : Stepped r r1) (x y : Nat)
    (h : y ∈ r1.deps_out x) (hn : y ∉ r.deps_out x) :
    (∃ rest, r.nextTask = some ((PK_UCP, x), rest)) ∧ r.cp x = 1 ∧ y ∈ r.pvds_in x ∧
      r.pkg_st y ≠ PKR_MU := by
  cases hs with
  | first op pkgId rest r1 e1 hm =>
    obtain ⟨a, b, c, d, e⟩ := hm.new_edge x y h hn
    subst a b
    exact ⟨⟨{ r with todo1 := rest }, by simp [KCudfReducer.nextTask, e1]⟩, c, d, e⟩
  | second op pkgId rest r1 e1 e2 hm =>
    obtain ⟨a, b, c, d, e⟩ := hm.new_edge x y h hn
    subst a b
    exact ⟨⟨{ r with todo2 := rest }, by simp [KCudfReducer.nextTask, e1, e2]⟩, c, d, e⟩

/-- C37: the reducer changes only dependency edges.  In every state `r` the loop
of `process` goes through from a well-formed start `r0`, the packages, their
`keep` and `install` flags, the conflict graph and the provides graph are as
read; every dependency edge read is still there; and an edge `p -> q` that a turn
of the loop adds is added by the task `PK_UCP` on `p`, at a moment when
`cp[p] = 1` and `q` is a provider of `p` whose state is not `MU`. -/
theorem process_changes_dependencies_only (r0 r : KCudfReducer) (h0 : r0.Ready)
    (hr : Reach r0.initLoop r) :
    (r.packages = r0.packages ∧
      (∀ p, r.keep p = r0.keep p ∧ r.install p = r0.install p) ∧
      (∀ p, r.conflicts p = r0.conflicts p) ∧
      (∀ p, r.provides p = r0.provides p ∧ r.providers p = r0.providers p)) ∧
    (∀ p q, q ∈ r0.dependencies p → q ∈ r.dependencies p) ∧
    (∀ r1, r.iteration = some (Turn.next r1) → ∀ p q,
      q ∈ r1.dependencies p → q ∉ r.dependencies p →
        (∃ rest, r.nextTask = some ((PK_UCP, p), rest)) ∧ r.cp p = 1 ∧ q ∈ r.providers p ∧
          r.state q ≠ PKR_MU) := by
  have hb0 := initLoop_Base r0 h0
  obtain ⟨hb, hf⟩ := hr.frame_reach hb0
  obtain ⟨f1, f2, f3, f4, f5, _, _⟩ := (initLoop_frame r0).1.trans_frame hf
  refine ⟨⟨f1, ?_, ?_, ?_⟩, ?_, ?_⟩
  · intro p
    exact ⟨by show (r.statem p).1 = (r0.statem p).1; rw [f2],
      by show (r.statem p).2 = (r0.statem p).2; rw [f2]⟩
  · intro p
    show r.confs_adj p = r0.confs_adj p
    rw [f3]
  · intro p
    exact ⟨by show r.pvds_out p = r0.pvds_out p; rw [f4],
      by show r.pvds_in p = r0.pvds_in p; rw [f5]⟩
  · intro p q hq
    exact (hr.can_deps hb0 (initLoop_canPending r0)).2 p q hq
  · intro r1 h1 p q hq hn
    exact (hb.iteration h1).new_edge_stepped p q hq hn

theorem process_changes_dependencies_only_witness :
    exampleSearch.Ready ∧ Reach exampleSearch.initLoop (exampleSearch.initLoop.turns 24) ∧
    ((exampleSearch.initLoop.turns 24).packages = exampleSearch.packages ∧
      (∀ p, (exampleSearch.initLoop.turns 24).keep p = exampleSearch.keep p ∧
        (exampleSearch.initLoop.turns 24).install p = exampleSearch.install p) ∧
      (∀ p, (exampleSearch.initLoop.turns 24).conflicts p = exampleSearch.conflicts p) ∧
      (∀ p, (exampleSearch.initLoop.turns 24).provides p = exampleSearch.provides p ∧
        (exampleSearch.initLoop.turns 24).providers p = exampleSearch.providers p)) :=
  ⟨by decide, reach_turns _ 24 _ Reach.start,
    (process_changes_dependencies_only exampleSearch _ (by decide)
      (reach_turns _ 24 _ Reach.start)).1⟩

end FrameOfProcess

/-! ## The obligations of the output stage under the moves -/

section OutLemmas

variable {g : GraphWriter} {st : Nat → PKR_STATE} {sp : Nat → Nat} {l : List task_t}

theorem OutPending.mono_out {m : List task_t} (h : OutPending g st sp l)
    (hl : ∀ t ∈ l, t ∈ m) : OutPending g st sp m := by
  obtain ⟨a, b, c, d⟩ := h
  refine ⟨?_, ?_, ?_, ?_⟩
  · intro p hp hs h0
    rcases a p hp hs h0 with x | x | x
    · exact Or.inl (hl _ x)
    · exact Or.inr (Or.inl (hl _ x))
    · exact Or.inr (Or.inr (hl _ x))
  · intro p hp hs h0 q hq
    rcases b p hp hs h0 q hq with x | x | x | x
    · exact Or.inl x
    · exact Or.inr (Or.inl (hl _ x))
    · exact Or.inr (Or.inr (Or.inl (hl _ x)))
    · exact Or.inr (Or.inr (Or.inr (hl _ x)))
  · intro p hp hs q hq
    rcases c p hp hs q hq with x | x | x
    · exact Or.inl x
    · exact Or.inr (Or.inl (hl _ x))
    · exact Or.inr (Or.inr (hl _ x))
  · intro p hp hs q hq
    rcases d p hp hs q hq with x | x | x
    · exact Or.inl x
    · exact Or.inr (Or.inl (hl _ x))
    · exact Or.inr (Or.inr (hl _ x))

theorem OutPending.drop {op : PK_OP} {pk : Nat} (h : OutPending g st sp ((op, pk) :: l))
    (h1 : op = PK_CI → st pk ≠ PKR_CU) (h2 : op = PK_CU → st pk ≠ PKR_CI)
    (h3 : op = PK_USP → ¬ (sp pk = 0 ∧ isSPI (st pk) = true)) (h4 : op ≠ PK_UPD) :
    OutPending g st sp l := by
  obtain ⟨a, b, c, d⟩ := h
  refine ⟨?_, ?_, ?_, ?_⟩
  · intro p hp hs h0
    have key := a p hp hs h0
    simp only [List.mem_cons, Prod.mk.injEq] at key
    rcases key with (⟨x, y⟩ | x) | (⟨x, y⟩ | x) | (⟨x, y⟩ | x)
    · subst y
      exact absurd ⟨h0, by rw [hs]; rfl⟩ (h3 x.symm)
    · exact Or.inl x
    · subst y
      exact absurd hs (h2 x.symm)
    · exact Or.inr (Or.inl x)
    · exact absurd x.symm h4
    · exact Or.inr (Or.inr x)
  · intro p hp hs h0 q hq
    have key := b p hp hs h0 q hq
    simp only [List.mem_cons, Prod.mk.injEq] at key
    rcases key with x | (⟨x, y⟩ | x) | (⟨x, y⟩ | x) | (⟨x, y⟩ | x)
    · exact Or.inl x
    · subst y
      exact Or.inl (h1 x.symm)
    · exact Or.inr (Or.inl x)
    · subst y
      exact absurd ⟨h0, hs⟩ (h3 x.symm)
    · exact Or.inr (Or.inr (Or.inl x))
    · exact absurd x.symm h4
    · exact Or.inr (Or.inr (Or.inr x))
  · intro p hp hs q hq
    have key := c p hp hs q hq
    simp only [List.mem_cons, Prod.mk.injEq] at key
    rcases key with x | (⟨x, y⟩ | x) | (⟨x, y⟩ | x)
    · exact Or.inl x
    · subst y
      exact Or.inl (h1 x.symm)
    · exact Or.inr (Or.inl x)
    · exact absurd x.symm h4
    · exact Or.inr (Or.inr x)
  · intro p hp hs q hq
    have key := d p hp hs q hq
    simp only [List.mem_cons, Prod.mk.injEq] at key
    rcases key with x | (⟨x, y⟩ | x) | (⟨x, y⟩ | x)
    · exact Or.inl x
    · subst y
      exact Or.inl (h2 x.symm)
    · exact Or.inr (Or.inl x)
    · exact absurd x.symm h4
    · exact Or.inr (Or.inr x)

theorem OutPending.change_out {op : PK_OP} {pk : Nat} {nx : PKR_STATE} {sp1 : Nat → Nat}
    {m : List task_t} (h : OutPending g st sp ((op, pk) :: l)) (hop : op.isTransition = true)
    (h1 : nx ≠ PKR_CU) (h2 : nx ≠ PKR_CI)
    (hsp : ∀ p ∈ g.pkgs, isSPI (setAt st pk nx p) = true → sp1 p = 0 →
      (isSPI (st p) = true ∧ sp p = 0) ∨ (PK_USP, p) ∈ m ∨ (PK_UPD, p) ∈ m)
    (hl : ∀ t ∈ l, t ∈ m) (hu : nx = PKR_SR → ∀ t ∈ updTasks2 g PKR_SR pk, t ∈ m) :
    OutPending g (setAt st pk nx) sp1 m := by
  obtain ⟨a, b, c, d⟩ := h
  have hnu : op ≠ PK_UPD := by intro e; subst e; simp [PK_OP.isTransition] at hop
  have hns : op ≠ PK_USP := by intro e; subst e; simp [PK_OP.isTransition] at hop
  refine ⟨?_, ?_, ?_, ?_⟩
  · intro p hp hs h0
    have hpp : p ≠ pk := by
      intro e; subst e; rw [setAt_same] at hs; exact h2 hs
    have hs1 : isSPI (setAt st pk nx p) = true := by rw [hs]; rfl
    rw [setAt_ne _ _ hpp] at hs
    rcases hsp p hp hs1 h0 with ⟨_, x⟩ | x | x
    · have key := a p hp hs x
      simp only [List.mem_cons, Prod.mk.injEq] at key
      rcases key with (⟨y, _⟩ | y) | (⟨_, y⟩ | y) | (⟨y, _⟩ | y)
      · exact absurd y.symm hns
      · exact Or.inl (hl _ y)
      · exact absurd y hpp
      · exact Or.inr (Or.inl (hl _ y))
      · exact absurd y.symm hnu
      · exact Or.inr (Or.inr (hl _ y))
    · exact Or.inl x
    · exact Or.inr (Or.inr x)
  · intro p hp hs h0 q hq
    rcases hsp p hp hs h0 with ⟨x1, x2⟩ | x | x
    · have key := b p hp x1 x2 q hq
      simp only [List.mem_cons, Prod.mk.injEq] at key
      rcases key with y | (⟨_, y⟩ | y) | (⟨y, _⟩ | y) | (⟨y, _⟩ | y)
      · by_cases e : q = pk
        · subst e; rw [setAt_same]; exact Or.inl h1
        · rw [setAt_ne _ _ e]; exact Or.inl y
      · subst y; rw [setAt_same]; exact Or.inl h1
      · exact Or.inr (Or.inl (hl _ y))
      · exact absurd y.symm hns
      · exact Or.inr (Or.inr (Or.inl (hl _ y)))
      · exact absurd y.symm hnu
      · exact Or.inr (Or.inr (Or.inr (hl _ y)))
    · exact Or.inr (Or.inr (Or.inl x))
    · exact Or.inr (Or.inr (Or.inr x))
  · intro p hp hs q hq
    by_cases e : p = pk
    · subst e
      rw [setAt_same] at hs
      exact Or.inr (Or.inl (hu hs _
        (mem_updTasks2.mpr (Or.inr (Or.inr ⟨rfl, Or.inl ⟨rfl, hq⟩⟩)))))
    · rw [setAt_ne _ _ e] at hs
      have key := c p hp hs q hq
      simp only [List.mem_cons, Prod.mk.injEq] at key
      rcases key with y | (⟨_, y⟩ | y) | (⟨y, _⟩ | y)
      · by_cases e1 : q = pk
        · subst e1; rw [setAt_same]; exact Or.inl h1
        · rw [setAt_ne _ _ e1]; exact Or.inl y
      · subst y; rw [setAt_same]; exact Or.inl h1
      · exact Or.inr (Or.inl (hl _ y))
      · exact absurd y.symm hnu
      · exact Or.inr (Or.inr (hl _ y))
  · intro p hp hs q hq
    by_cases e : p = pk
    · subst e
      rw [setAt_same] at hs
      exact Or.inr (Or.inl (hu hs _
        (mem_updTasks2.mpr (Or.inr (Or.inr ⟨rfl, Or.inr (Or.inl ⟨rfl, hq⟩)⟩)))))
    · rw [setAt_ne _ _ e] at hs
      have key := d p hp hs q hq
      simp only [List.mem_cons, Prod.mk.injEq] at key
      rcases key with y | (⟨_, y⟩ | y) | (⟨y, _⟩ | y)
      · by_cases e1 : q = pk
        · subst e1; rw [setAt_same]; exact Or.inl h2
        · rw [setAt_ne _ _ e1]; exact Or.inl y
      · subst y; rw [setAt_same]; exact Or.inl h2
      · exact Or.inr (Or.inl (hl _ y))
      · exact absurd y.symm hnu
      · exact Or.inr (Or.inr (hl _ y))

theorem OutPending.out_addDep {pk q : Nat} (h : OutPending g st sp l)
    (hq : q ∉ g.deps_out pk) :
    OutPending (g.add_dep pk q) st sp (l ++ [(PK_UPD, q), (PK_UPD, pk)]) := by
  obtain ⟨a, b, c, d⟩ := h
  obtain ⟨f1, f2, f3, f4, f5⟩ := GraphWriter.add_dep_frame g pk q
  have hl : ∀ t ∈ l, t ∈ l ++ [(PK_UPD, q), (PK_UPD, pk)] :=
    fun t ht => List.mem_append_left _ ht
  refine ⟨?_, ?_, ?_, ?_⟩
  · intro p hp hs h0
    rw [f1] at hp
    rcases a p hp hs h0 with x | x | x
    · exact Or.inl (hl _ x)
    · exact Or.inr (Or.inl (hl _ x))
    · exact Or.inr (Or.inr (hl _ x))
  · intro p hp hs h0 x hx
    rw [f1] at hp
    rw [f3] at hx
    rcases b p hp hs h0 x hx with y | y | y | y
    · exact Or.inl y
    · exact Or.inr (Or.inl (hl _ y))
    · exact Or.inr (Or.inr (Or.inl (hl _ y)))
    · exact Or.inr (Or.inr (Or.inr (hl _ y)))
  · intro p hp hs x hx
    rw [f1] at hp
    rcases (GraphWriter.mem_add_dep_out g pk q hq p x).mp hx with hx | ⟨e1, e2⟩
    · rcases c p hp hs x hx with y | y | y
      · exact Or.inl y
      · exact Or.inr (Or.inl (hl _ y))
      · exact Or.inr (Or.inr (hl _ y))
    · subst e1
      exact Or.inr (Or.inr (by simp))
  · intro p hp hs x hx
    rw [f1] at hp
    rw [f2] at hx
    rcases d p hp hs x hx with y | y | y
    · exact Or.inl y
    · exact Or.inr (Or.inl (hl _ y))
    · exact Or.inr (Or.inr (hl _ y))

theorem OutPending.out_usp {pk : Nat} {m : List task_t}
    (h : OutPending g st sp ((PK_USP, pk) :: l)) (hl : ∀ t ∈ l, t ∈ m)
    (hp : ∀ q ∈ g.pvds_in pk, (PK_CI, q) ∈ m) (hc : (PK_CU, pk) ∈ m) :
    OutPending g st sp m := by
  obtain ⟨a, b, c, d⟩ := h
  refine ⟨?_, ?_, ?_, ?_⟩
  · intro p hp1 hs h0
    have key := a p hp1 hs h0
    simp only [List.mem_cons, Prod.mk.injEq, true_and] at key
    rcases key with (y | y) | (⟨y, _⟩ | y) | (⟨y, _⟩ | y)
    · subst y
      exact Or.inr (Or.inl hc)
    · exact Or.inl (hl _ y)
    · cases y
    · exact Or.inr (Or.inl (hl _ y))
    · cases y
    · exact Or.inr (Or.inr (hl _ y))
  · intro p hp1 hs h0 q hq
    have key := b p hp1 hs h0 q hq
    simp only [List.mem_cons, Prod.mk.injEq, true_and] at key
    rcases key with y | (⟨y, _⟩ | y) | (y | y) | (⟨y, _⟩ | y)
    · exact Or.inl y
    · cases y
    · exact Or.inr (Or.inl (hl _ y))
    · subst y
      exact Or.inr (Or.inl (hp q hq))
    · exact Or.inr (Or.inr (Or.inl (hl _ y)))
    · cases y
    · exact Or.inr (Or.inr (Or.inr (hl _ y)))
  · intro p hp1 hs q hq
    have key := c p hp1 hs q hq
    simp only [List.mem_cons, Prod.mk.injEq] at key
    rcases key with y | (⟨y, _⟩ | y) | (⟨y, _⟩ | y)
    · exact Or.inl y
    · cases y
    · exact Or.inr (Or.inl (hl _ y))
    · cases y
    · exact Or.inr (Or.inr (hl _ y))
  · intro p hp1 hs q hq
    have key := d p hp1 hs q hq
    simp only [List.mem_cons, Prod.mk.injEq] at key
    rcases key with y | (⟨y, _⟩ | y) | (⟨y, _⟩ | y)
    · exact Or.inl y
    · cases y
    · exact Or.inr (Or.inl (hl _ y))
    · cases y
    · exact Or.inr (Or.inr (hl _ y))

theorem OutPending.out_upd {pk : Nat} {m : List task_t}
    (h : OutPending g st sp ((PK_UPD, pk) :: l)) (hl : ∀ t ∈ l, t ∈ m)
    (hu : ∀ t ∈ updTasks2 g (st pk) pk, t ∈ m) (hs : (PK_USP, pk) ∈ m) :
    OutPending g st sp m := by
  obtain ⟨a, b, c, d⟩ := h
  refine ⟨?_, ?_, ?_, ?_⟩
  · intro p hp1 hs1 h0
    have key := a p hp1 hs1 h0
    simp only [List.mem_cons, Prod.mk.injEq, true_and] at key
    rcases key with (⟨y, _⟩ | y) | (⟨y, _⟩ | y) | (y | y)
    · cases y
    · exact Or.inl (hl _ y)
    · cases y
    · exact Or.inr (Or.inl (hl _ y))
    · subst y
      exact Or.inl hs
    · exact Or.inr (Or.inr (hl _ y))
  · intro p hp1 hs1 h0 q hq
    have key := b p hp1 hs1 h0 q hq
    simp only [List.mem_cons, Prod.mk.injEq, true_and] at key
    rcases key with y | (⟨y, _⟩ | y) | (⟨y, _⟩ | y) | (y | y)
    · exact Or.inl y
    · cases y
    · exact Or.inr (Or.inl (hl _ y))
    · cases y
    · exact Or.inr (Or.inr (Or.inl (hl _ y)))
    · subst y
      exact Or.inr (Or.inr (Or.inl hs))
    · exact Or.inr (Or.inr (Or.inr (hl _ y)))
  · intro p hp1 hs1 q hq
    have key := c p hp1 hs1 q hq
    simp only [List.mem_cons, Prod.mk.injEq, true_and] at key
    rcases key with y | (⟨y, _⟩ | y) | (y | y)
    · exact Or.inl y
    · cases y
    · exact Or.inr (Or.inl (hl _ y))
    · subst y
      exact Or.inr (Or.inl (hu _
        (mem_updTasks2.mpr (Or.inr (Or.inr ⟨hs1, Or.inl ⟨rfl, hq⟩⟩)))))
    · exact Or.inr (Or.inr (hl _ y))
  · intro p hp1 hs1 q hq
    have key := d p hp1 hs1 q hq
    simp only [List.mem_cons, Prod.mk.injEq, true_and] at key
    rcases key with y | (⟨y, _⟩ | y) | (y | y)
    · exact Or.inl y
    · cases y
    · exact Or.inr (Or.inl (hl _ y))
    · subst y
      exact Or.inr (Or.inl (hu _
        (mem_updTasks2.mpr (Or.inr (Or.inr ⟨hs1, Or.inr (Or.inl ⟨rfl, hq⟩)⟩)))))
    · exact Or.inr (Or.inr (hl _ y))

end OutLemmas

/-! ## The obligations of the output stage along a run -/

section OutInvariant

theorem newSp_zero {r : KCudfReducer} {pkgId : Nat} {nx : PKR_STATE}
    (hw : r.toGraphWriter.WF) (hpk : pkgId ∈ r.pkgs)
    (hcur : r.pkg_st pkgId = PKR_CU ∨ r.pkg_st pkgId = PKR_CI)
    (hc1 : ∀ p ∈ r.pkgs, newSp r pkgId (r.pkg_st pkgId) nx p =
      (r.pvds_in p).countP (fun q => isSP (setAt r.pkg_st pkgId nx q)))
    (p : Nat) (hp : p ∈ r.pkgs) (hs : isSPI (setAt r.pkg_st pkgId nx p) = true)
    (h0 : newSp r pkgId (r.pkg_st pkgId) nx p = 0) :
    (isSPI (r.pkg_st p) = true ∧ r.sp p = 0) ∨
    ((isSP (r.pkg_st pkgId) && !isSP nx) = true ∧
      (PK_USP, p) ∈ uspTasks r.pkg_st r.sp (r.pvds_out pkgId)) ∨
    ((!isSPI (r.pkg_st pkgId) && isSPI nx) = true ∧ p = pkgId) := by
  by_cases hinc : (!isSP (r.pkg_st pkgId) && isSP nx) = true
  · have e : newSp r pkgId (r.pkg_st pkgId) nx = mapAt uinc r.sp (r.pvds_out pkgId) := by
      unfold newSp
      rw [if_pos hinc]
    by_cases hpp : p = pkgId
    · right
      right
      refine ⟨?_, hpp⟩
      rcases hcur with e1 | e1
      · rw [e1] at hinc ⊢
        simp only [isSP, isSPI, Bool.and_eq_true] at hinc ⊢
        simp [hinc.2]
      · rw [e1] at hinc
        simp [isSP] at hinc
    · rw [setAt_ne _ _ hpp] at hs
      by_cases hm : p ∈ r.pvds_out pkgId
      · exfalso
        have k := hc1 p hp
        rw [h0] at k
        have hpos : 0 < (r.pvds_in p).countP (fun q => isSP (setAt r.pkg_st pkgId nx q)) := by
          refine List.countP_pos_iff.mpr ⟨pkgId, (hw.pvd_out hpk hm).2, ?_⟩
          rw [setAt_same]
          simp only [Bool.and_eq_true] at hinc
          exact hinc.2
        omega
      · rw [e, mapAt_not_mem _ _ _ _ hm] at h0
        exact Or.inl ⟨hs, h0⟩
  · by_cases hdec : (isSP (r.pkg_st pkgId) && !isSP nx) = true
    · have e : newSp r pkgId (r.pkg_st pkgId) nx = mapAt udec r.sp (r.pvds_out pkgId) := by
        unfold newSp
        rw [if_neg hinc, if_pos hdec]
      have hsp : isSPI (r.pkg_st p) = true := by
        by_cases hpp : p = pkgId
        · rw [hpp]
          simp only [Bool.and_eq_true] at hdec
          simp [isSPI, hdec.1]
        · rw [setAt_ne _ _ hpp] at hs
          exact hs
      by_cases hm : p ∈ r.pvds_out pkgId
      · right
        left
        refine ⟨hdec, (uspTasks_mem_iff _ _ _ (hw.pvd_out_nodup hpk) p).mpr ⟨hm, ?_, hsp⟩⟩
        rw [e, mapAt_mem _ _ _ _ (hw.pvd_out_nodup hpk) hm] at h0
        exact h0
      · rw [e, mapAt_not_mem _ _ _ _ hm] at h0
        exact Or.inl ⟨hsp, h0⟩
    · have e : newSp r pkgId (r.pkg_st pkgId) nx = r.sp := by
        unfold newSp
        rw [if_neg hinc, if_neg hdec]
      rw [e] at h0
      by_cases hpp : p = pkgId
      · by_cases hS : isSPI (r.pkg_st pkgId) = true
        · rw [hpp]
          rw [hpp] at h0
          exact Or.inl ⟨hS, h0⟩
        · right
          right
          refine ⟨?_, hpp⟩
          rw [hpp, setAt_same] at hs
          simp [hS, hs]
      · rw [setAt_ne _ _ hpp] at hs
        exact Or.inl ⟨hs, h0⟩

theorem ucpStep_out (pkgId : Nat) (r : KCudfReducer) (p : Nat) (t : task_t)
    (h : OutPending r.toGraphWriter r.pkg_st r.sp (t :: (r.todo1 ++ r.todo2))) :
    OutPending (ucpStep pkgId r p).toGraphWriter (ucpStep pkgId r p).pkg_st (ucpStep pkgId r p).sp
      (t :: ((ucpStep pkgId r p).todo1 ++ (ucpStep pkgId r p).todo2)) := by
  unfold ucpStep
  split
  · rename_i hc
    simp only [Bool.and_eq_true, Bool.not_eq_true', decide_eq_false_iff_not] at hc
    refine (h.out_addDep hc.2).mono_out ?_
    intro x hx
    simp only [List.mem_append, List.mem_cons, List.mem_singleton, List.not_mem_nil,
      or_false] at hx ⊢
    tauto
  · exact h

theorem foldl_ucpStep_out (pkgId : Nat) (ps : List Nat) (r : KCudfReducer) (t : task_t)
    (h : OutPending r.toGraphWriter r.pkg_st r.sp (t :: (r.todo1 ++ r.todo2))) :
    OutPending (ps.foldl (ucpStep pkgId) r).toGraphWriter (ps.foldl (ucpStep pkgId) r).pkg_st
      (ps.foldl (ucpStep pkgId) r).sp
      (t :: ((ps.foldl (ucpStep pkgId) r).todo1 ++ (ps.foldl (ucpStep pkgId) r).todo2)) := by
  induction ps generalizing r with
  | nil => exact h
  | cons p ps ih => exact ih (ucpStep pkgId r p) (ucpStep_out pkgId r p t h)

theorem Moved.outPending {r r1 : KCudfReducer} {pkgId : Nat} {op : PK_OP}
    (hm : Moved r pkgId op r1) (hb : Base r) (hc : Counters r) (hpk : pkgId ∈ r.pkgs)
    (h : OutPending r.toGraphWriter r.pkg_st r.sp ((op, pkgId) :: (r.todo1 ++ r.todo2))) :
    OutPending r1.toGraphWriter r1.pkg_st r1.sp (r1.todo1 ++ r1.todo2) := by
  have hc1 := hm.counters_moved hb hpk hc
  cases hm with
  | keep op hop htf =>
    refine h.drop ?_ ?_ ?_ ?_
    · intro e
      subst e
      rcases tf_keep_cases hop htf with ⟨e1, _⟩ | ⟨e1, _⟩ | ⟨_, e2⟩ | ⟨e1, _⟩
      · cases e1
      · cases e1
      · rcases e2 with e2 | e2 | e2 | e2 <;> rw [e2] <;> simp
      · cases e1
    · intro e
      subst e
      rcases tf_keep_cases hop htf with ⟨e1, _⟩ | ⟨e1, _⟩ | ⟨e1, _⟩ | ⟨_, e2⟩
      · cases e1
      · cases e1
      · cases e1
      · rcases e2 with e2 | e2 | e2 | e2 <;> rw [e2] <;> simp
    · intro e
      subst e
      simp [PK_OP.isTransition] at hop
    · intro e
      subst e
      simp [PK_OP.isTransition] at hop
  | change op nx hop htf hne hfl hab =>
    rw [KCudfReducer.changeState_eq] at hc1 ⊢
    have hcases := tf_cases hop (hb.2.1 pkgId hpk) htf hne hfl hab
    have hnx : nx ≠ PKR_CU ∧ nx ≠ PKR_CI := by
      rcases hcases with
        ⟨_, _, e3⟩ | ⟨_, _, e3⟩ | ⟨_, _, e3⟩ | ⟨_, _, e3⟩ | ⟨_, _, e3⟩ | ⟨_, _, e3⟩ <;>
      subst e3 <;> simp
    have hcur : r.pkg_st pkgId = PKR_CU ∨ r.pkg_st pkgId = PKR_CI := by
      rcases hcases with
        ⟨e1, _, _⟩ | ⟨e1, _, _⟩ | ⟨e1, _, _⟩ | ⟨e1, _, _⟩ | ⟨e1, _, _⟩ | ⟨e1, _, _⟩
      · exact Or.inl e1
      · exact Or.inl e1
      · exact Or.inl e1
      · exact Or.inr e1
      · exact Or.inr e1
      · exact Or.inr e1
    refine h.change_out hop hnx.1 hnx.2 ?_ ?_ ?_
    · intro p hp hs h0
      rcases newSp_zero hb.1 hpk hcur (fun p hp => (hc1 p hp).2) p hp hs h0 with
        x | ⟨x1, x2⟩ | ⟨x1, x2⟩
      · exact Or.inl x
      · right
        left
        simp only [List.mem_append]
        right
        left
        left
        right
        rw [if_pos x1]
        exact x2
      · right
        right
        subst x2
        simp only [List.mem_append]
        right
        left
        right
        have hd : (!isSPI (r.pkg_st p) && isSPI nx &&
            decide (newSp r p (r.pkg_st p) nx p = 0)) = true := by
          have h0a : newSp r p (r.pkg_st p) nx p = 0 := h0
          rw [x1, h0a]
          rfl
        rw [if_pos hd]
        exact List.mem_singleton.mpr rfl
    · intro t ht
      simp only [List.mem_append] at ht ⊢
      rcases ht with ht | ht
      · exact Or.inl (Or.inl (Or.inl ht))
      · exact Or.inr (Or.inl (Or.inl (Or.inl ht)))
    · intro e t ht
      subst e
      simp only [List.mem_append]
      exact Or.inr (Or.inr ht)
  | ucp0 h0 =>
    refine (h.drop (by simp) (by simp) (by simp) (by simp)).mono_out ?_
    intro t ht
    simp only [List.mem_append] at ht ⊢
    rcases ht with ht | ht
    · exact Or.inl (Or.inl ht)
    · exact Or.inr ht
  | ucp1 h1 =>
    exact (foldl_ucpStep_out pkgId _ r (PK_UCP, pkgId) h).drop (by simp) (by simp) (by simp)
      (by simp)
  | ucpN h0 h1 => exact h.drop (by simp) (by simp) (by simp) (by simp)
  | usp h0 hs =>
    refine h.out_usp ?_ ?_ ?_
    · intro t ht
      simp only [List.mem_append] at ht ⊢
      rcases ht with ht | ht
      · exact Or.inl ht
      · exact Or.inr (Or.inl (Or.inl ht))
    · intro q hq
      simp only [List.mem_append, List.mem_map]
      exact Or.inr (Or.inl (Or.inr ⟨q, hq, rfl⟩))
    · simp
  | uspN h0 => exact h.drop (by simp) (by simp) (fun _ => h0) (by simp)
  | upd =>
    refine h.out_upd ?_ ?_ ?_
    · intro t ht
      simp only [List.mem_append] at ht ⊢
      rcases ht with ht | ht
      · exact Or.inl (Or.inl (Or.inl ht))
      · exact Or.inr (Or.inl (Or.inl ht))
    · intro t ht
      simp only [List.mem_append]
      exact Or.inr (Or.inl (Or.inr ht))
    · simp

theorem Stepped.outPending_stepped {r r1 : KCudfReducer} (hs : Stepped r r1) (hb : Base r)
    (hc : Counters r)
    (h : OutPending r.toGraphWriter r.pkg_st r.sp (r.todo1 ++ r.todo2)) :
    OutPending r1.toGraphWriter r1.pkg_st r1.sp (r1.todo1 ++ r1.todo2) := by
  obtain ⟨h1, h2, h3, h4⟩ := hb
  cases hs with
  | first op pkgId rest r1 e1 hm =>
    have hpk : pkgId ∈ r.pkgs := (h3 (op, pkgId) (by simp [e1])).1
    have hb1 : Base ({ r with todo1 := rest } : KCudfReducer) := by
      refine ⟨h1, h2, ?_, h4⟩
      intro t ht
      exact h3 t (by simp only [e1]; exact List.mem_cons_of_mem _ ht)
    rw [e1] at h
    exact hm.outPending hb1 hc hpk h
  | second op pkgId rest r1 e1 e2 hm =>
    have hpk : pkgId ∈ r.pkgs := (h4 (op, pkgId) (by simp [e2])).1
    have hb1 : Base ({ r with todo2 := rest } : KCudfReducer) := by
      refine ⟨h1, h2, h3, ?_⟩
      intro t ht
      exact h4 t (by simp only [e2]; exact List.mem_cons_of_mem _ ht)
    rw [e1, e2] at h
    refine hm.outPending hb1 hc hpk ?_
    show OutPending r.toGraphWriter r.pkg_st r.sp ((op, pkgId) :: (r.todo1 ++ rest))
    rw [e1]
    exact h

theorem initLoop_outPending (r : KCudfReducer) :
    OutPending r.initLoop.toGraphWriter r.initLoop.pkg_st r.initLoop.sp
      (r.initLoop.todo1 ++ r.initLoop.todo2) := by
  rw [initLoop_eq]
  have key : ∀ p ∈ r.pkgs, (PK_UPD, p) ∈
      (r.todo1 ++ r.packages.map (fun p => (PK_UPD, p))) ++ r.todo2 := by
    intro p hp
    simp only [List.mem_append, List.mem_map]
    exact Or.inl (Or.inr ⟨p, hp, rfl⟩)
  refine ⟨?_, ?_, ?_, ?_⟩
  · intro p hp _ _
    exact Or.inr (Or.inr (key p hp))
  · intro p hp _ _ q _
    exact Or.inr (Or.inr (Or.inr (key p hp)))
  · intro p hp _ q _
    exact Or.inr (Or.inr (key p hp))
  · intro p hp _ q _
    exact Or.inr (Or.inr (key p hp))

theorem Reach.outPending_reach {r0 r : KCudfReducer} (h0 : r0.Ready)
    (hr : Reach r0.initLoop r) :
    OutPending r.toGraphWriter r.pkg_st r.sp (r.todo1 ++ r.todo2) := by
  have key : ∀ ra rb : KCudfReducer, Reach ra rb → Base ra → Counters ra →
      OutPending ra.toGraphWriter ra.pkg_st ra.sp (ra.todo1 ++ ra.todo2) →
      OutPending rb.toGraphWriter rb.pkg_st rb.sp (rb.todo1 ++ rb.todo2) := by
    intro ra rb hab hba hca hoa
    induction hab with
    | start => exact hoa
    | turn r r1 hr ht ih =>
      obtain ⟨hbr, hcr⟩ := hr.base_counters hba hca
      exact (hbr.iteration ht).outPending_stepped hbr hcr ih
  exact key _ _ hr (initLoop_Base r0 h0) (initLoop_Counters r0 h0.1) (initLoop_outPending r0)

end OutInvariant

/-! ## The assertions of the output stage -/

section OutputStage

theorem valid_cases {s : PKR_STATE} (h : s.valid = true) :
    s = PKR_CU ∨ s = PKR_CI ∨ s = PKR_MU ∨ s = PKR_MI ∨ s = PKR_SR := by
  cases s <;> simp [PKR_STATE.valid] at h ⊢

theorem KCudfReducer.Ready.fixed_point {r0 : KCudfReducer} (h0 : r0.Ready) {fuel : Nat}
    {r : KCudfReducer} (h : r0.process fuel = some (Processed.returned RDO_SEARCH r)) :
    Base r ∧ Counters r ∧ Saturated r.toGraphWriter r.pkg_st r.cp [] ∧
      CanPending r.toGraphWriter r.pkg_st [] [] ∧ OutPending r.toGraphWriter r.pkg_st r.sp [] := by
  obtain ⟨hr, t1, t2⟩ := h0.process_final h
  obtain ⟨hb, hc, hp⟩ := h0.reach hr
  have hs : Saturated r.toGraphWriter r.pkg_st r.cp [] := by
    rcases hp with ⟨_, hm⟩ | hs
    · rw [t1] at hm
      exact hm.to_saturated
    · rw [t1] at hs
      exact hs
  have hcan := (hr.can_deps (initLoop_Base r0 h0) (initLoop_canPending r0)).1
  have hout := Reach.outPending_reach h0 hr
  rw [t1, t2] at hcan hout
  exact ⟨hb, hc, hs, hcan, hout⟩

/-- C38: no `CI` package is left without a safe provider.  When `process` returns
without failure from a well-formed start, every package whose state is `CI` has
`sp >= 1`; so a package in `MI` or `CI` with `sp = 0`, which `reduce` declares to
the search writer, is in state `MI`. -/
theorem ci_has_safe_provider (r0 : KCudfReducer) (h0 : r0.Ready) (fuel : Nat)
    (r : KCudfReducer) (h : r0.process fuel = some (Processed.returned RDO_SEARCH r)) :
    (∀ p ∈ r.packages, r.state p = PKR_CI → 1 ≤ r.sp p) ∧
    (∀ p ∈ r.packages, r.state p = PKR_MI ∨ r.state p = PKR_CI → r.sp p = 0 →
      r.state p = PKR_MI) := by
  obtain ⟨_, _, _, _, ha, _, _, _⟩ := h0.fixed_point h
  have key : ∀ p ∈ r.packages, r.state p = PKR_CI → r.sp p ≠ 0 := by
    intro p hp hs e
    rcases ha p hp hs e with x | x | x <;> cases x
  refine ⟨?_, ?_⟩
  · intro p hp hs
    have := key p hp hs
    omega
  · intro p hp hs e
    rcases hs with hs | hs
    · exact hs
    · exact absurd e (key p hp hs)

theorem ci_has_safe_provider_witness :
    exampleSearch.Ready ∧
    ∃ r, exampleSearch.process 60 = some (Processed.returned RDO_SEARCH r) ∧
      (∀ p ∈ r.packages, r.state p = PKR_CI → 1 ≤ r.sp p) ∧
      (∀ p ∈ r.packages, r.state p = PKR_MI ∨ r.state p = PKR_CI → r.sp p = 0 →
        r.state p = PKR_MI) := by
  obtain ⟨r, hr⟩ := process_search_of_test exampleSearch 60 rfl
  exact ⟨by decide, r, hr, ci_has_safe_provider exampleSearch (by decide) 60 r hr⟩

/-- C39: the assertions of the output stage hold at the fixed point.  When
`process` returns without failure from a well-formed start, every dependency of
a package in `SR`, `MI` or `CI` is in `SR`, `CI` or `MI`, every conflict of such a
package is in `SR`, `CU` or `MU`, and every provider of an `MI` or `CI` package
with `sp = 0` is in `SR` or `MU`; so the assertions of `incDeps`, `incConfs` and
`incPvdrs`, and those of the two loops of `reduce` on the states, all pass. -/
theorem output_assertions_hold (r0 : KCudfReducer) (h0 : r0.Ready) (fuel : Nat)
    (r : KCudfReducer) (h : r0.process fuel = some (Processed.returned RDO_SEARCH r)) :
    (∀ p ∈ r.packages, r.state p = PKR_SR ∨ r.state p = PKR_MI ∨ r.state p = PKR_CI →
      ∀ q ∈ r.dependencies p, r.state q = PKR_SR ∨ r.state q = PKR_CI ∨ r.state q = PKR_MI) ∧
    (∀ p ∈ r.packages, r.state p = PKR_SR ∨ r.state p = PKR_MI ∨ r.state p = PKR_CI →
      ∀ c ∈ r.conflicts p, r.state c = PKR_SR ∨ r.state c = PKR_CU ∨ r.state c = PKR_MU) ∧
    (∀ p ∈ r.packages, r.state p = PKR_MI ∨ r.state p = PKR_CI → r.sp p = 0 →
      ∀ q ∈ r.providers p, r.state q = PKR_SR ∨ r.state q = PKR_MU) ∧
    r.reduceChecks = true := by
  obtain ⟨hb, hc, ⟨s1, s2, s3, _, _, _, _⟩, ⟨c1, c2⟩, ⟨_, ob, oc, od⟩⟩ := h0.fixed_point h
  have hdeps : ∀ p ∈ r.packages,
      r.state p = PKR_SR ∨ r.state p = PKR_MI ∨ r.state p = PKR_CI →
      ∀ q ∈ r.dependencies p,
        r.state q = PKR_SR ∨ r.state q = PKR_CI ∨ r.state q = PKR_MI := by
    intro p hp hs q hq
    obtain ⟨hq1, hq2⟩ := hb.1.dep_out hp hq
    rcases valid_cases (hb.2.1 q hq1) with e | e | e | e | e
    · exfalso
      rcases hs with hs | hs | hs
      · rcases oc p hp hs q hq with x | x | x
        · exact x e
        · cases x
        · cases x
      · have := s1 p hp hs q hq
        rw [e] at this
        cases this
      · rcases c1 p hp hs q hq with x | x | x
        · exact x e
        · cases x
        · cases x
    · exact Or.inr (Or.inl e)
    · exfalso
      have k : r.pkg_st p = PKR_MU := s3 q hq1 e p hq2
      have k1 : r.state p = PKR_MU := k
      rcases hs with hs | hs | hs <;> rw [k1] at hs <;> cases hs
    · exact Or.inr (Or.inr e)
    · exact Or.inl e
  have hconfs : ∀ p ∈ r.packages,
      r.state p = PKR_SR ∨ r.state p = PKR_MI ∨ r.state p = PKR_CI →
      ∀ c ∈ r.conflicts p,
        r.state c = PKR_SR ∨ r.state c = PKR_CU ∨ r.state c = PKR_MU := by
    intro p hp hs c hcf
    obtain ⟨hq1, hq2⟩ := hb.1.conf hp hcf
    rcases valid_cases (hb.2.1 c hq1) with e | e | e | e | e
    · exact Or.inr (Or.inl e)
    · exfalso
      rcases hs with hs | hs | hs
      · rcases od p hp hs c hcf with x | x | x
        · exact x e
        · cases x
        · cases x
      · have := s2 p hp hs c hcf
        rw [e] at this
        cases this
      · rcases c2 p hp hs c hcf with x | x | x
        · exact x e
        · cases x
        · cases x
    · exact Or.inr (Or.inr e)
    · exfalso
      have k : r.pkg_st p = PKR_MU := s2 c hq1 e p hq2
      have k1 : r.state p = PKR_MU := k
      rcases hs with hs | hs | hs <;> rw [k1] at hs <;> cases hs
    · exact Or.inl e
  have hpvdrs : ∀ p ∈ r.packages, r.state p = PKR_MI ∨ r.state p = PKR_CI → r.sp p = 0 →
      ∀ q ∈ r.providers p, r.state q = PKR_SR ∨ r.state q = PKR_MU := by
    intro p hp hs h0s q hq
    obtain ⟨hq1, _⟩ := hb.1.pvd_in hp hq
    have hcnt := (hc p hp).2
    rw [h0s] at hcnt
    have hnsp : isSP (r.pkg_st q) = false := by
      by_contra k
      have k1 : isSP (r.pkg_st q) = true := by simpa using k
      have : 0 < (r.pvds_in p).countP (fun q => isSP (r.pkg_st q)) :=
        List.countP_pos_iff.mpr ⟨q, hq, k1⟩
      omega
    have hspi : isSPI (r.pkg_st p) = true := by
      have e1 : r.pkg_st p = PKR_MI ∨ r.pkg_st p = PKR_CI := hs
      rcases e1 with e1 | e1 <;> rw [e1] <;> rfl
    rcases valid_cases (hb.2.1 q hq1) with e | e | e | e | e
    · exfalso
      rcases ob p hp hspi h0s q hq with x | x | x | x
      · exact x e
      · cases x
      · cases x
      · cases x
    · rw [e] at hnsp
      cases hnsp
    · exact Or.inr e
    · rw [e] at hnsp
      cases hnsp
    · exact Or.inl e
  refine ⟨hdeps, hconfs, hpvdrs, ?_⟩
  have kd : ∀ p ∈ r.packages,
      r.state p = PKR_SR ∨ r.state p = PKR_MI ∨ r.state p = PKR_CI → r.incDepsOk p = true := by
    intro p hp hs
    unfold KCudfReducer.incDepsOk
    rw [List.all_eq_true]
    intro q hq
    rcases hdeps p hp hs q hq with e | e | e <;> rw [e] <;> rfl
  have kc : ∀ p ∈ r.packages,
      r.state p = PKR_SR ∨ r.state p = PKR_MI ∨ r.state p = PKR_CI → r.incConfsOk p = true := by
    intro p hp hs
    unfold KCudfReducer.incConfsOk
    rw [List.all_eq_true]
    intro q hq
    rcases hconfs p hp hs q hq with e | e | e <;> rw [e] <;> rfl
  have kp : ∀ p ∈ r.packages, r.state p = PKR_MI ∨ r.state p = PKR_CI →
      (if r.sp p = 0 then r.incPvdrsOk p else true) = true := by
    intro p hp hs
    split
    · rename_i h0s
      unfold KCudfReducer.incPvdrsOk
      rw [List.all_eq_true]
      intro q hq
      rcases hpvdrs p hp hs h0s q hq with e | e <;> rw [e] <;> rfl
    · rfl
  unfold KCudfReducer.reduceChecks
  rw [List.all_eq_true]
  intro p hp
  rcases valid_cases (hb.2.1 p hp) with e | e | e | e | e
  · have e1 : r.state p = PKR_CU := e
    rw [e1]
  · have e1 : r.state p = PKR_CI := e
    have a := kp p hp (Or.inr e1)
    have b := kd p hp (Or.inr (Or.inr e1))
    have c := kc p hp (Or.inr (Or.inr e1))
    rw [e1]
    simp only [a, b, c, Bool.and_self]
  · have e1 : r.state p = PKR_MU := e
    rw [e1]
  · have e1 : r.state p = PKR_MI := e
    have a := kp p hp (Or.inl e1)
    have b := kd p hp (Or.inr (Or.inl e1))
    have c := kc p hp (Or.inr (Or.inl e1))
    rw [e1]
    simp only [a, b, c, Bool.and_self]
  · have e1 : r.state p = PKR_SR := e
    have b := kd p hp (Or.inl e1)
    have c := kc p hp (Or.inl e1)
    rw [e1]
    simp only [b, c, Bool.and_self]

theorem output_assertions_hold_witness :
    exampleProvider.Ready ∧
    ∃ r, exampleProvider.process 180 = some (Processed.returned RDO_SEARCH r) ∧
      (∀ p ∈ r.packages, r.state p = PKR_SR ∨ r.state p = PKR_MI ∨ r.state p = PKR_CI →
        ∀ q ∈ r.dependencies p,
          r.state q = PKR_SR ∨ r.state q = PKR_CI ∨ r.state q = PKR_MI) ∧
      (∀ p ∈ r.packages, r.state p = PKR_SR ∨ r.state p = PKR_MI ∨ r.state p = PKR_CI →
        ∀ c ∈ r.conflicts p, r.state c = PKR_SR ∨ r.state c = PKR_CU ∨ r.state c = PKR_MU) ∧
      (∀ p ∈ r.packages, r.state p = PKR_MI ∨ r.state p = PKR_CI → r.sp p = 0 →
        ∀ q ∈ r.providers p, r.state q = PKR_SR ∨ r.state q = PKR_MU) ∧
      r.reduceChecks = true := by
  obtain ⟨r, hr⟩ := process_search_of_test exampleProvider 180 rfl
  exact ⟨by decide, r, hr, output_assertions_hold exampleProvider (by decide) 180 r hr⟩

end OutputStage

/-! ## No singleton is left when the singletons are checked -/

section Singletons

theorem KCudfData.Shrinks.refl_shrinks (d : KCudfData) : d.Shrinks d :=
  ⟨rfl, fun _ o h => ⟨o, h, rfl, rfl, fun _ x => x⟩, fun _ h => h⟩

theorem KCudfData.Shrinks.trans_shrinks {d d1 d2 : KCudfData} (h1 : d.Shrinks d1)
    (h2 : d1.Shrinks d2) : d.Shrinks d2 := by
  refine ⟨h2.1.trans h1.1, ?_, fun p h => h2.2.2 p (h1.2.2 p h)⟩
  intro p o ho
  obtain ⟨o1, e1, e2, e3, e4⟩ := h1.2.1 p o ho
  obtain ⟨o2, f1, f2, f3, f4⟩ := h2.2.1 p o1 e1
  exact ⟨o2, f1, f2.trans e2, f3.trans e3, fun q hq => e4 q (f4 q hq)⟩

theorem KCudfData.Shrinks.back_shrinks {d d1 : KCudfData} (h : d.Shrinks d1) {p : Nat}
    {o1 : Package} (h1 : d1.heap p = some o1) :
    ∃ o, d.heap p = some o ∧ o1.nm = o.nm ∧ o1.flt = o.flt ∧
      ∀ q ∈ o1.providers, q ∈ o.providers := by
  cases hd : d.heap p with
  | none =>
    rw [h.2.2 p hd] at h1
    cases h1
  | some o =>
    obtain ⟨o2, e1, e2⟩ := h.2.1 p o hd
    rw [h1] at e1
    cases e1
    exact ⟨o, rfl, e2⟩

theorem KCudfData.Same.shrinks {d d1 : KCudfData} (h : d.Same d1) : d.Shrinks d1 := by
  refine ⟨h.2.1, ?_, ?_⟩
  · intro p o ho
    obtain ⟨o1, e1, e2⟩ := h.forth ho
    simp only [Package.skel, Prod.mk.injEq] at e2
    exact ⟨o1, e1, e2.2.1, e2.2.2.2.2.1, fun q hq => by rw [← e2.2.2.2.2.2]; exact hq⟩
  · intro p hp
    have := h.2.2 p
    rw [hp] at this
    cases hx : d1.heap p with
    | none => rfl
    | some o =>
      rw [hx] at this
      cases this

theorem KCudfData.Shrinks.put_shrinks {d : KCudfData} {p : Nat} {o o1 : Package}
    (hp : d.heap p = some o) (h1 : o1.nm = o.nm) (h2 : o1.flt = o.flt)
    (h3 : ∀ q ∈ o1.providers, q ∈ o.providers) : d.Shrinks (d.put p o1) := by
  refine ⟨rfl, ?_, ?_⟩
  · intro q oq hq
    rw [KCudfData.heap_put]
    by_cases e : q = p
    · subst e
      rw [hp] at hq
      cases hq
      rw [if_pos rfl]
      exact ⟨o1, rfl, h1, h2, h3⟩
    · rw [if_neg e]
      exact ⟨oq, hq, rfl, rfl, fun _ x => x⟩
  · intro q hq
    rw [KCudfData.heap_put]
    by_cases e : q = p
    · subst e
      rw [hp] at hq
      cases hq
    · rw [if_neg e]
      exact hq

theorem KCudfData.Sure.shrinks_sure {d d1 : KCudfData} {q : Nat} (h : d.Sure q)
    (hs : d.Shrinks d1) : d1.Sure q := by
  obtain ⟨h1, oq, h2, h3⟩ := h
  obtain ⟨o1, e1, e2, -⟩ := hs.2.1 q oq h2
  exact ⟨by rw [hs.1]; exact h1, o1, e1, by rw [e2]; exact h3⟩

theorem KCudfData.Sure.back_sure {d d1 : KCudfData} {q : Nat} (h : d1.Sure q)
    (hs : d.Shrinks d1) : d.Sure q := by
  obtain ⟨h1, oq, h2, h3⟩ := h
  obtain ⟨o, e1, e2, -⟩ := hs.back_shrinks h2
  exact ⟨by rw [← hs.1]; exact h1, o, e1, by rw [← e2]; exact h3⟩

theorem KCudfData.Strict.shrinks_strict {d d1 : KCudfData} (h : d.Strict)
    (hs : d.Shrinks d1) : d1.Strict := by
  intro p o1 h1 hn hf q hq
  obtain ⟨o, e1, e2, e3, e4⟩ := hs.back_shrinks h1
  exact (h p o e1 (e2 ▸ hn) (e3 ▸ hf) q (e4 q hq)).shrinks_sure hs

theorem ConcIn.shrinks_concIn {d d1 : KCudfData} {dt dt1 : DTNode} (h : ConcIn d dt)
    (hs : d.Shrinks d1) (hb : dt.Below dt1) : ConcIn d1 dt1 :=
  fun q hq => hb _ _ (h q (hq.back_sure hs))

theorem DTNode.Below.refl_below (dt : DTNode) : dt.Below dt := fun _ _ h => h

theorem DTNode.Below.trans_below {dt dt1 dt2 : DTNode} (h1 : dt.Below dt1)
    (h2 : dt1.Below dt2) : dt.Below dt2 := fun s w h => h2 s w (h1 s w h)

theorem DTNode.below_addDisjunction (dt : DTNode) (id : Nat) (s : IdSet) :
    dt.Below (dt.addDisjunction id s).2 := by
  intro s1 w h
  rw [DTNode.find_addDisjunction]
  split
  · rename_i e
    subst e
    rw [h]
    rfl
  · exact h

/-- Before anything is flat the providers of the flat disjunctions are
registered. -/
theorem InvU.strict {d : KCudfData} (h : InvU d) : d.Strict := by
  intro p o ho _ hf
  rw [(h.1 p o ho).2.2.2] at hf
  cases hf

theorem KCudfData.Sure.put_sure {d : KCudfData} {q p : Nat} {o o1 : Package} (h : d.Sure q)
    (hp : d.heap p = some o) (hn : o1.nm = o.nm) : (d.put p o1).Sure q := by
  obtain ⟨h1, oq, h2, h3⟩ := h
  refine ⟨h1, ?_⟩
  rw [KCudfData.heap_put]
  by_cases e : q = p
  · subst e
    rw [hp] at h2
    cases h2
    rw [if_pos rfl]
    exact ⟨o1, rfl, by rw [hn]; exact h3⟩
  · rw [if_neg e]
    exact ⟨oq, h2, h3⟩

theorem KCudfData.Strict.put_strict {d : KCudfData} (h : d.Strict) {p : Nat} {o o1 : Package}
    (hp : d.heap p = some o) (hn : o1.nm = o.nm)
    (h1 : o1.flt = true → ∀ q ∈ o1.providers, d.Sure q) : (d.put p o1).Strict := by
  intro x ox hx hnx hfx q hq
  rw [KCudfData.heap_put] at hx
  by_cases e : x = p
  · subst e
    rw [if_pos rfl] at hx
    cases hx
    exact (h1 hfx q hq).put_sure hp hn
  · rw [if_neg e] at hx
    exact (h x ox hx hnx hfx q hq).put_sure hp hn

/-- The last loop of `flat` before the trie is filled: the providers it keeps
are registered `SelfPackage`s. -/
theorem Inv.flat_last_sure {d : KCudfData} (hi : Inv d DTNode.create) (toAdd : IdSet) :
    Post (fun ps => ∀ q ∈ ps, d.Sure q)
      (toAdd.foldlM (fun (ps : IdSet) q => do
        let y ← d.ptr q
        if (← d.isConcrete y) then pure (ps.insert q) else throw Failure.assertion) []) := by
  refine Post.foldlM_post (Q := fun ps => ∀ q ∈ ps, d.Sure q) ?_ _ _ (fun q hq => by cases hq)
  intro ps q hps
  refine Post.bind_post (d.post_ptr q) (fun y hy => ?_)
  refine Post.bind_post (d.post_isConcrete y) ?_
  rintro b ⟨t, ot, hr, hb⟩
  split
  · rename_i hb1
    refine Post.pure_post _ ?_
    intro r hr1
    rcases (IdSet.mem_insert _ _ _).mp hr1 with e | e
    · subst e
      obtain ⟨e, oy, hoy⟩ := hi.2.1 r y hy
      subst e
      rcases hi.res hoy hr with ⟨-, -, e3⟩ | ⟨e1, -⟩
      · subst e3
        exact ⟨hy, ot, hoy, by rw [← hb]; exact hb1⟩
      · rw [hi.create_not_forwarded hoy] at e1
        cases e1
    · exact hps r e
  · exact Post.throw_post _

/-- The method `flat` before the trie is filled keeps the providers of the flat
disjunctions among the registered `SelfPackage`s. -/
theorem Inv.flatFrom_strict (fuel : Nat) : ∀ (d : KCudfData) (p : Nat), Inv d DTNode.create →
    d.Strict → Post (fun d1 => d1.Strict) (KCudfData.flatFrom fuel d p) := by
  induction fuel with
  | zero => exact fun _ _ _ _ => Post.throw_post _
  | succ n ih =>
    intro d p hi hs
    unfold KCudfData.flatFrom
    refine Post.bind_post (post_obj d p) (fun o ho => ?_)
    split
    · rename_i h
      rw [hi.create_not_forwarded ho] at h
      cases h
    split
    · exact Post.throw_post _
    rename_i hnm
    have hn : o.nm = none := by simpa using hnm
    split
    · exact Post.pure_post _ hs
    refine Post.bind_post
      (Q := fun d1 => (Inv d1 DTNode.create ∧ d.Flattens d1) ∧ d1.Strict) ?_ ?_
    · refine Post.foldlM_post ?_ _ _ ⟨⟨hi, KCudfData.Flattens.refl_flattens d⟩, hs⟩
      rintro b q ⟨⟨hb1, hb2⟩, hb3⟩
      refine Post.bind_post (Post.trivial _) (fun x _ => ?_)
      refine Post.bind_post (Post.trivial _) (fun c _ => ?_)
      split
      · exact Post.pure_post _ ⟨⟨hb1, hb2⟩, hb3⟩
      · exact Post.and
          (Post.mono_post (Inv.flatFrom_create n b x hb1)
            (fun d2 h2 => ⟨h2.1, hb2.trans_flattens h2.2.1⟩))
          (ih b x hb1 hb3)
    · rintro d1 ⟨⟨hi1, hk1⟩, hs1⟩
      refine Post.bind_post (Post.trivial _) (fun toAdd _ => ?_)
      refine Post.bind_post (hi1.flat_last_sure toAdd) (fun ps hps => ?_)
      refine Post.bind_post (post_obj d1 p) (fun o1 ho1 => ?_)
      refine Post.pure_post _ (hs1.put_strict ho1 rfl ?_)
      intro _ q hq
      dsimp only at hq
      split at hq
      · exact hps q ((IdSet.mem_erase _ _ _).mp hq).1
      · exact hps q hq

/-- The loop that flattens all the disjunctions keeps the providers of the flat
disjunctions among the registered `SelfPackage`s. -/
theorem Inv.flatAll_strict {d : KCudfData} (hi : Inv d DTNode.create) (hs : d.Strict) :
    Post (fun d1 => d1.Strict) d.flatAll := by
  unfold KCudfData.flatAll
  refine Post.mono_post (Post.foldlM_post
    (Q := fun d1 => Inv d1 DTNode.create ∧ d1.Strict) ?_ _ _ ⟨hi, hs⟩) (fun _ h => h.2)
  rintro b e ⟨hb1, hb2⟩
  refine Post.bind_post (Post.trivial _) (fun c _ => ?_)
  split
  · unfold KCudfData.flat
    exact Post.and (Post.mono_post (Inv.flatFrom_create _ b e.2 hb1) (fun _ h => h.1))
      (Inv.flatFrom_strict _ b e.2 hb1 hb2)
  · exact Post.pure_post _ ⟨hb1, hb2⟩

/-- The concrete packages enter the trie: each registered `SelfPackage` is the
answer for its singleton. -/
theorem Inv.internConcretes_concIn {d : KCudfData} {dt : DTNode} (hi : Inv d dt) :
    Post (fun dt1 => ConcIn d dt1) (d.internConcretes dt) := by
  unfold KCudfData.internConcretes
  refine Post.mono_post (Post.foldlM_pre
    (Q := fun pre dt1 => ∀ e ∈ pre, d.Sure e.2 → DTNode.find [e.2] dt1 = some e.2)
    d.packages ?_ dt (fun e he => by cases he)) ?_
  · rintro pre e dt1 he h1
    refine Post.bind_post (d.post_isConcrete e.2) ?_
    rintro b ⟨t, ot, hr, hb⟩
    split
    · rename_i hb1
      refine Post.bind_post (d.post_getId e.2) ?_
      rintro id ⟨t1, ot1, hr1, hid⟩
      obtain ⟨e1, e2⟩ := hr.unique hr1
      subst e1 e2
      refine Post.bind_post (Post.trivial _) (fun id2 _ => ?_)
      dsimp only
      split
      · exact Post.throw_post _
      · rename_i hres
        have hres1 : (dt1.addDisjunction id2 (IdSet.insert [] id)).1 = id := by
          simpa using hres
        rw [DTNode.addDisjunction_fst] at hres1
        refine Post.pure_post _ ?_
        intro e0 he0 hs0
        rw [DTNode.find_addDisjunction]
        have hidt : id = t1 := by rw [hid]; exact (hi.1 t1 ot1 hr.2.1).1
        rcases List.mem_append.mp he0 with h | h
        · split
          · rename_i heq
            rw [hres1]
            have : e0.2 = id := by
              have := congrArg List.head? heq
              simpa [IdSet.insert] using this
            rw [this]
          · exact h1 e0 h hs0
        · have he2 := List.mem_singleton.mp h
          subst he2
          obtain ⟨-, oq, hoq, hnq⟩ := hs0
          have hfq := (hi.1 _ oq hoq).2.2 hnq
          obtain ⟨u1, -⟩ := KCudfData.Res.unique
            (show d.Res e0.2 e0.2 oq from ⟨KCudfData.target_self hoq hfq, hoq, hfq⟩) hr
          rw [hidt, u1] at hres1
          rw [hidt, u1, if_pos (by rfl), hres1]
    · rename_i hb0
      refine Post.pure_post _ ?_
      intro e0 he0 hs0
      rcases List.mem_append.mp he0 with h | h
      · exact h1 e0 h hs0
      · have he2 := List.mem_singleton.mp h
        subst he2
        obtain ⟨-, oq, hoq, hnq⟩ := hs0
        have hfq := (hi.1 _ oq hoq).2.2 hnq
        obtain ⟨u1, u2⟩ := KCudfData.Res.unique
          (show d.Res e0.2 e0.2 oq from ⟨KCudfData.target_self hoq hfq, hoq, hfq⟩) hr
        subst u1 u2
        rw [hb, hnq] at hb0
        exact absurd rfl hb0
  · intro dt1 h q hq
    exact h (q, q) hq.1 hq

/-- The method `setForward` keeps the objects, with providers among those they
had. -/
theorem KCudfData.shrinks_setForwardFrom (fuel : Nat) : ∀ (d : KCudfData) (a p : Nat),
    Post (fun d1 => d.Shrinks d1) (KCudfData.setForwardFrom fuel d a p) := by
  induction fuel with
  | zero => exact fun _ _ _ => Post.throw_post _
  | succ n ih =>
    intro d a p
    unfold KCudfData.setForwardFrom
    refine Post.bind_post (post_obj d a) (fun o ho => ?_)
    split
    · split
      · exact Post.throw_post _
      · refine Post.bind_post (Post.trivial _) (fun c _ => ?_)
        split
        · exact Post.throw_post _
        · exact ih d _ p
    split
    · exact Post.throw_post _
    refine Post.bind_post (Post.trivial _) (fun i _ => ?_)
    split
    · exact Post.throw_post _
    refine Post.bind_post (Q := fun d1 => d.Same d1)
      (Post.foldlM_post (fun b x hb => same_addDependency d b p x hb) _ _
        (KCudfData.Same.refl d)) (fun d1 h1 => ?_)
    refine Post.bind_post (Q := fun d2 => d.Same d2)
      (Post.foldlM_post (fun b x hb => same_addConflict d b p x hb) _ _ h1) (fun d2 h2 => ?_)
    refine Post.bind_post (Post.trivial _) (fun pid _ => ?_)
    refine Post.bind_post (post_obj d2 a) (fun o2 ho2 => ?_)
    refine Post.pure_post _ (h2.shrinks.trans_shrinks
      (KCudfData.Shrinks.put_shrinks ho2 rfl rfl ?_))
    intro q hq
    dsimp only at hq
    split at hq
    · exact ((IdSet.mem_erase _ _ _).mp hq).1
    · exact hq

/-- The loop that interns the disjunctions keeps the objects, with providers
among those they had, and the answers of the trie. -/
theorem KCudfData.shrinks_compress (d : KCudfData) (dt : DTNode) :
    Post (fun r => d.Shrinks r.1 ∧ dt.Below r.2.1) (d.compress dt) := by
  unfold KCudfData.compress
  refine Post.foldlM_post
    (Q := fun (r : KCudfData × DTNode × Nat) => d.Shrinks r.1 ∧ dt.Below r.2.1) ?_ _ _
    ⟨KCudfData.Shrinks.refl_shrinks d, DTNode.Below.refl_below dt⟩
  rintro ⟨ds, dts, c⟩ e ⟨h1, h2⟩
  dsimp only at h1 h2 ⊢
  refine Post.bind_post (Post.trivial _) (fun b _ => ?_)
  split
  · refine Post.bind_post (Post.trivial _) (fun i1 _ => ?_)
    refine Post.bind_post (Post.trivial _) (fun ps _ => ?_)
    refine Post.bind_post (Post.trivial _) (fun i2 _ => ?_)
    have hb := h2.trans_below (DTNode.below_addDisjunction dts i1 ps)
    split
    · refine Post.bind_post (Post.trivial _) (fun w _ => ?_)
      unfold KCudfData.setForward
      refine Post.bind_post (KCudfData.shrinks_setForwardFrom _ ds e.2 w) (fun d1 hd1 => ?_)
      exact Post.pure_post _ ⟨h1.trans_shrinks hd1, hb⟩
    · exact Post.pure_post _ ⟨h1, hb⟩
  · exact Post.pure_post _ ⟨h1, h2⟩

/-- The passes over the document. -/
theorem InvU.beforeFlatAll (pr : Printer) (n : Nat) (doc : CudfDoc) :
    Post InvU (KCudfData.beforeFlatAll pr n doc) := by
  unfold KCudfData.beforeFlatAll
  refine Post.bind_post (invU_processConcretePackages _ doc (InvU.empty n)) (fun d1 h1 => ?_)
  refine Post.bind_post (invU_processInstalledPackages _ doc h1) (fun d2 h2 => ?_)
  refine Post.bind_post (invU_processEqualityConstraints _ doc h2) (fun d3 h3 => ?_)
  refine Post.bind_post (invU_processProvides _ doc h3) (fun d4 h4 => ?_)
  exact invU_processRangeConstraints pr _ doc h4

/-- The constructor up to the check of the singletons. -/
theorem Tight.beforeZeroProviders (pr : Printer) (n : Nat) (doc : CudfDoc) :
    Post (fun r => Tight r.1 r.2.1) (KCudfData.beforeZeroProviders pr n doc) := by
  unfold KCudfData.beforeZeroProviders
  refine Post.bind_post (InvU.beforeFlatAll pr n doc) (fun d5 h5 => ?_)
  refine Post.bind_post
    (Post.and h5.inv_invU.flatAll (h5.inv_invU.flatAll_strict h5.strict)) ?_
  rintro d6 ⟨⟨hi6, hf6, -⟩, hs6⟩
  refine Post.bind_post (Post.and hi6.internConcretes hi6.internConcretes_concIn) ?_
  rintro dt7 ⟨hi7, hc7⟩
  refine Post.mono_post (Post.and (hi7.compress hf6) (d6.shrinks_compress dt7)) ?_
  rintro ⟨d8, dt8, c8⟩ ⟨⟨hi8, hf8, hin8, -⟩, hsh, hbl⟩
  exact ⟨hi8, hf8, hin8, hs6.shrinks_strict hsh, hc7.shrinks_concIn hsh hbl⟩

/-- The constructor up to the call of `processRequest` is the constructor up to
the check of the singletons, the loop that checks them and
`fixInstallVirtuals`. -/
theorem KCudfData.beforeRequest_eq (pr : Printer) (n : Nat) (doc : CudfDoc) :
    KCudfData.beforeRequest pr n doc =
      (KCudfData.beforeZeroProviders pr n doc >>= fun r => do
        let (d, zero_prov) ← r.1.zeroProviders
        let d ← d.fixInstallVirtuals
        pure (d, r.2.1, r.2.2, zero_prov)) := by
  unfold KCudfData.beforeRequest KCudfData.beforeZeroProviders KCudfData.beforeFlatAll
  simp only [bind_assoc]

theorem Tight.same_tight {d d1 : KCudfData} {dt : DTNode} (h : Tight d dt) (hs : d.Same d1) :
    Tight d1 dt := by
  refine ⟨h.1.same hs, h.2.1.same_allFlt hs, ?_, h.2.2.2.1.shrinks_strict hs.shrinks,
    h.2.2.2.2.shrinks_concIn hs.shrinks (DTNode.Below.refl_below dt)⟩
  rw [hs.2.1]
  exact h.2.2.1.same_interned hs

/-- When the singletons are checked, the disjunction a registered object ends
on does not have exactly one provider. -/
theorem Tight.no_singleton {d : KCudfData} {dt : DTNode} (h : Tight d dt) {k p t : Nat}
    {ot : Package} (hk : (k, p) ∈ d.packages) (hr : d.Res p t ot) (hn : ot.nm = none) :
    ot.providers.length ≠ 1 := by
  obtain ⟨hi, hfl, hin, hst, hc⟩ := h
  obtain ⟨-, o, ho⟩ := hi.2.1 k p hk
  have hflt : ot.flt = true ∧ DTNode.find ot.providers dt = some t := by
    rcases hi.res ho hr with ⟨e1, e2, e3⟩ | ⟨e1, e2⟩
    · subst e2 e3
      have hf := hfl k t ot hk ho hn
      exact ⟨hf, hin t ot ⟨k, hk⟩ ho hn e1 hf⟩
    · obtain ⟨q, s, hq, hs⟩ := hi.2.2.1 p o ho e1
      have e3 : q = t := Option.some.inj (hq.symm.trans e2)
      subst e3
      obtain ⟨o1, ho1, -, h3⟩ := hi.2.2.2.1 s q hs
      have e4 : o1 = ot := Option.some.inj (ho1.symm.trans hr.2.1)
      subst e4
      refine ⟨(h3 hn).1, ?_⟩
      rw [(h3 hn).2]
      exact hs
  intro hlen
  obtain ⟨c, hc1⟩ := List.length_eq_one.mp hlen
  have hsure := hst t ot hr.2.1 hn hflt.1 c (by rw [hc1]; exact List.mem_singleton.mpr rfl)
  have hfind := hc c hsure
  rw [← hc1, hflt.2] at hfind
  have e : t = c := Option.some.inj hfind
  subst e
  obtain ⟨-, oc, hoc, hnc⟩ := hsure
  rw [hr.2.1] at hoc
  cases hoc
  rw [hn] at hnc
  cases hnc

/-- The forwards of an object end. -/
theorem Inv.res_exists {d : KCudfData} {dt : DTNode} (hi : Inv d dt) {p : Nat} {o : Package}
    (hp : d.heap p = some o) : ∃ t ot, d.Res p t ot := by
  cases hf : o.forwarded with
  | false => exact ⟨p, o, KCudfData.target_self hp hf, hp, hf⟩
  | true =>
    obtain ⟨q, s, e1, e2⟩ := hi.2.2.1 p o hp hf
    obtain ⟨oq, f1, f2, -⟩ := hi.2.2.2.1 s q e2
    exact ⟨q, oq, hi.target_forward hp hf e1 f1 f2, f1, f2⟩

theorem KCudfData.Res.isConcrete_res {d : KCudfData} {p t : Nat} {o : Package}
    (h : d.Res p t o) : d.isConcrete p = Except.ok o.nm.isSome := by
  unfold KCudfData.isConcrete
  rw [h.1]
  simp [bind, Except.bind, KCudfData.obj_of_heap h.2.1, pure, Except.pure]

/-- The providers read at an object whose forwards end on a disjunction. -/
theorem Inv.getProviders_res {d : KCudfData} {dt : DTNode} (hi : Inv d dt) {p t : Nat}
    {o ot : Package} (hp : d.heap p = some o) (hr : d.Res p t ot) (hn : ot.nm = none) :
    d.getProviders p = Except.ok ot.providers := by
  unfold KCudfData.getProviders KCudfData.providersOwner
  rcases hi.res hp hr with ⟨e1, e2, e3⟩ | ⟨e1, -⟩
  · subst e2 e3
    simp [bind, Except.bind, KCudfData.obj_of_heap hp, pure, Except.pure, e1, hn]
  · simp [bind, Except.bind, KCudfData.obj_of_heap hp, KCudfData.obj_of_heap hr.2.1, pure,
      Except.pure, e1, hn, hr.1]

theorem KCudfData.Res.markInstall_false {d : KCudfData} {p t : Nat} {o : Package}
    (h : d.Res p t o) : ∃ d1, d.markInstall p false = Except.ok d1 := by
  unfold KCudfData.markInstall
  rw [h.1]
  cases hi : o.install <;>
    simp [bind, Except.bind, KCudfData.obj_of_heap h.2.1, pure, Except.pure, hi]

theorem KCudfData.Res.markKeep_ok {d : KCudfData} {p t : Nat} {o : Package}
    (h : d.Res p t o) (st : Bool) : ∃ d1, d.markKeep p st = Except.ok d1 := by
  unfold KCudfData.markKeep
  rw [h.1]
  simp [bind, Except.bind, KCudfData.obj_of_heap h.2.1, pure, Except.pure]

/-- A loop whose body returns wherever an invariant holds, and keeps it,
returns. -/
theorem foldlM_inv_ok {α β : Type} {Q : β → Prop} {f : β → α → Except Failure β}
    (l : List α) (hf : ∀ b, ∀ a ∈ l, Q b → ∃ b1, f b a = Except.ok b1 ∧ Q b1) (b : β)
    (hb : Q b) : ∃ b1, l.foldlM f b = Except.ok b1 ∧ Q b1 := by
  induction l generalizing b with
  | nil => exact ⟨b, rfl, hb⟩
  | cons a r ih =>
    obtain ⟨b1, e1, q1⟩ := hf b a (List.mem_cons_self _ _) hb
    obtain ⟨b2, e2, q2⟩ := ih (fun b a ha => hf b a (List.mem_cons_of_mem _ ha)) b1 q1
    refine ⟨b2, ?_, q2⟩
    rw [List.foldlM_cons, e1]
    exact e2

/-- The loop that checks the singletons returns. -/
theorem Tight.zeroProviders_ok {d : KCudfData} {dt : DTNode} (h : Tight d dt) :
    ∃ z, d.zeroProviders = Except.ok z := by
  unfold KCudfData.zeroProviders
  refine Exists.imp (fun _ hz => hz.1) (foldlM_inv_ok
    (Q := fun (s : KCudfData × Nat) => d.Same s.1) d.packages ?_ (d, 0)
    (KCudfData.Same.refl d))
  rintro ⟨s, c⟩ e he hs
  dsimp only at hs ⊢
  have ht := h.same_tight hs
  have hreg : (e.1, e.2) ∈ s.packages := by rw [hs.2.1]; exact he
  obtain ⟨-, oe, hoe⟩ := ht.1.2.1 e.1 e.2 hreg
  obtain ⟨t, ot, hr⟩ := ht.1.res_exists hoe
  rw [hr.isConcrete_res]
  cases hn : ot.nm with
  | some x =>
    refine ⟨(s, c), ?_, hs⟩
    simp [bind, Except.bind, pure, Except.pure]
  | none =>
    have hlen := ht.no_singleton hreg hr hn
    rw [ht.1.getProviders_res hoe hr hn]
    by_cases h0 : ot.providers.length = 0
    · obtain ⟨d1, hd1⟩ := hr.markInstall_false
      have hs1 : s.Same d1 :=
        (same_markInstall s s e.2 false (KCudfData.Same.refl s)).out d1 hd1
      have ht1 := ht.same_tight hs1
      have hreg1 : (e.1, e.2) ∈ d1.packages := by rw [hs1.2.1]; exact hreg
      obtain ⟨-, oe1, hoe1⟩ := ht1.1.2.1 e.1 e.2 hreg1
      obtain ⟨t1, ot1, hr1⟩ := ht1.1.res_exists hoe1
      obtain ⟨d2, hd2⟩ := hr1.markKeep_ok true
      have hs2 : d1.Same d2 :=
        (same_markKeep d1 d1 e.2 true (KCudfData.Same.refl d1)).out d2 hd2
      refine ⟨(d2, uinc c), ?_, (hs.trans hs1).trans hs2⟩
      simp [bind, Except.bind, pure, Except.pure, h0, hd1, hd2]
    · refine ⟨(s, c), ?_, hs⟩
      simp [bind, Except.bind, pure, Except.pure, h0, hlen]

/-- C32: no singleton survives interning.  When the constructor reaches the loop
that checks the singletons, every registered object answers `isConcrete`, and
the set of providers of one that answers false, read through the forwards, does
not have exactly one element; so the loop returns, without failing on its
assertion, and the constructor goes on with its result. -/
theorem no_singleton_after_interning (pr : Printer) (n : Nat) (doc : CudfDoc)
    (d : KCudfData) (dt : DTNode) (c : Nat)
    (h : KCudfData.beforeZeroProviders pr n doc = Except.ok (d, dt, c)) :
    (∀ k p, (k, p) ∈ d.packages → ∃ b, d.isConcrete p = Except.ok b) ∧
    (∀ k p, (k, p) ∈ d.packages → d.isConcrete p = Except.ok false →
      ∃ s, d.getProviders p = Except.ok s ∧ s.length ≠ 1) ∧
    (∃ z, d.zeroProviders = Except.ok z) ∧
    KCudfData.beforeRequest pr n doc = (do
      let (d1, zero_prov) ← d.zeroProviders
      let d2 ← d1.fixInstallVirtuals
      pure (d2, dt, c, zero_prov)) := by
  have ht : Tight d dt := (Tight.beforeZeroProviders pr n doc).out _ h
  refine ⟨?_, ?_, ht.zeroProviders_ok, ?_⟩
  · intro k p hk
    obtain ⟨-, o, ho⟩ := ht.1.2.1 k p hk
    obtain ⟨t, ot, hr⟩ := ht.1.res_exists ho
    exact ⟨_, hr.isConcrete_res⟩
  · intro k p hk hc
    obtain ⟨-, o, ho⟩ := ht.1.2.1 k p hk
    obtain ⟨t, ot, hr⟩ := ht.1.res_exists ho
    rw [hr.isConcrete_res] at hc
    have hn : ot.nm = none := by
      cases hx : ot.nm with
      | none => rfl
      | some x =>
        rw [hx] at hc
        cases hc
    exact ⟨ot.providers, ht.1.getProviders_res ho hr hn, ht.no_singleton hk hr hn⟩
  · rw [KCudfData.beforeRequest_eq, h]
    rfl

theorem no_singleton_after_interning_witness :
    ∃ d dt c, KCudfData.beforeZeroProviders Printer.plain 0 docSingle = Except.ok (d, dt, c) ∧
      ((∀ k p, (k, p) ∈ d.packages → ∃ b, d.isConcrete p = Except.ok b) ∧
      (∀ k p, (k, p) ∈ d.packages → d.isConcrete p = Except.ok false →
        ∃ s, d.getProviders p = Except.ok s ∧ s.length ≠ 1) ∧
      (∃ z, d.zeroProviders = Except.ok z) ∧
      KCudfData.beforeRequest Printer.plain 0 docSingle = (do
        let (d1, zero_prov) ← d.zeroProviders
        let d2 ← d1.fixInstallVirtuals
        pure (d2, dt, c, zero_prov))) := by
  have hok : (KCudfData.beforeZeroProviders Printer.plain 0 docSingle).isOk = true := rfl
  cases hx : KCudfData.beforeZeroProviders Printer.plain 0 docSingle with
  | error e =>
    rw [hx] at hok
    cases hok
  | ok r =>
    exact ⟨r.1, r.2.1, r.2.2, rfl, no_singleton_after_interning _ _ _ _ _ _ hx⟩

end Singletons

/-! ## Flattening computes the leaves -/

section Leaves

theorem Returns.pure_ret {α : Type} {Q : α → Prop} (a : α) (h : Q a) :
    Returns Q (pure a : Except Failure α) :=
  ⟨⟨a, rfl, h⟩⟩

theorem Returns.of_eq_ret {α : Type} {Q : α → Prop} {x : Except Failure α} {a : α}
    (h : x = Except.ok a) (hq : Q a) : Returns Q x :=
  ⟨⟨a, h, hq⟩⟩

theorem Returns.mono_ret {α : Type} {Q R : α → Prop} {x : Except Failure α}
    (hx : Returns Q x) (h : ∀ a, Q a → R a) : Returns R x := by
  obtain ⟨a, e, q⟩ := hx.out
  exact ⟨⟨a, e, h a q⟩⟩

theorem Returns.bind_ret {α β : Type} {Q : α → Prop} {R : β → Prop} {x : Except Failure α}
    {f : α → Except Failure β} (hx : Returns Q x) (hf : ∀ a, Q a → Returns R (f a)) :
    Returns R (x >>= f) := by
  obtain ⟨a, e, q⟩ := hx.out
  obtain ⟨b, e1, r⟩ := (hf a q).out
  refine ⟨⟨b, ?_, r⟩⟩
  rw [e]
  exact e1

theorem Returns.and_post {α : Type} {Q R : α → Prop} {x : Except Failure α}
    (h1 : Returns Q x) (h2 : Post R x) : Returns (fun a => Q a ∧ R a) x := by
  obtain ⟨a, e, q⟩ := h1.out
  exact ⟨⟨a, e, q, h2.out a e⟩⟩

/-- A loop whose body returns the value of a function returns the fold of the
function. -/
theorem Returns.foldlM_eq {α β : Type} {f : β → α → Except Failure β} {g : β → α → β}
    (l : List α) (h : ∀ b, ∀ a ∈ l, Returns (fun b1 => b1 = g b a) (f b a)) (b : β) :
    Returns (fun b1 => b1 = l.foldl g b) (l.foldlM f b) := by
  induction l generalizing b with
  | nil => exact ⟨⟨b, rfl, rfl⟩⟩
  | cons a r ih =>
    obtain ⟨b1, e1, q1⟩ := (h b a (List.mem_cons_self _ _)).out
    obtain ⟨b2, e2, q2⟩ := (ih (fun b a ha => h b a (List.mem_cons_of_mem _ ha)) b1).out
    refine ⟨⟨b2, ?_, ?_⟩⟩
    · rw [List.foldlM_cons, e1]
      exact e2
    · rw [q2, q1]
      rfl

/-- A loop whose body returns and takes the invariant of a prefix to the
invariant of the next one returns. -/
theorem Returns.foldlM_pre_ret {α β : Type} {Q : List α → β → Prop}
    {f : β → α → Except Failure β} (l : List α)
    (hf : ∀ pre a b, a ∈ l → Q pre b → Returns (Q (pre ++ [a])) (f b a)) (b : β)
    (hb : Q [] b) : Returns (Q l) (l.foldlM f b) := by
  have key : ∀ (r pre : List α) (b : β), (∀ a ∈ r, a ∈ l) → Q pre b →
      Returns (Q (pre ++ r)) (r.foldlM f b) := by
    intro r
    induction r with
    | nil =>
      intro pre b _ hq
      rw [List.append_nil]
      exact ⟨⟨b, rfl, hq⟩⟩
    | cons a r ih =>
      intro pre b hr hq
      obtain ⟨b1, e1, q1⟩ := (hf pre a b (hr a (List.mem_cons_self _ _)) hq).out
      obtain ⟨b2, e2, q2⟩ :=
        (ih (pre ++ [a]) b1 (fun x hx => hr x (List.mem_cons_of_mem _ hx)) q1).out
      refine ⟨⟨b2, ?_, ?_⟩⟩
      · rw [List.foldlM_cons, e1]
        exact e2
      · rw [List.append_assoc] at q2
        exact q2
  exact key l [] b (fun _ h => h) hb

theorem ret_obj {d : KCudfData} {p : Nat} {o : Package} (h : d.heap p = some o) :
    Returns (fun o1 => o1 = o) (d.obj p) :=
  ⟨⟨o, KCudfData.obj_of_heap h, rfl⟩⟩

/-- The read of `packages` under a key that is there. -/
theorem Inv.ret_ptr {d : KCudfData} {dt : DTNode} (hi : Inv d dt) {k p : Nat}
    (h : (k, p) ∈ d.packages) : Returns (fun x => x = p) (d.ptr k) := by
  unfold KCudfData.ptr StdMap.find
  cases hf : List.find? (fun e => decide (e.1 = k)) d.packages with
  | none =>
    have := List.find?_eq_none.mp hf (k, p) h
    simp at this
  | some e =>
    have h1 : e.1 = k := by simpa using List.find?_some hf
    have h2 := List.mem_of_find?_eq_some hf
    have h3 : e.1 = e.2 := (hi.2.1 e.1 e.2 h2).1
    have h4 : k = p := (hi.2.1 k p h).1
    refine ⟨⟨e.2, rfl, ?_⟩⟩
    rw [← h3, h1, h4]

theorem KCudfData.Res.ret_isConcrete {d : KCudfData} {p t : Nat} {o : Package}
    (h : d.Res p t o) : Returns (fun b => b = o.nm.isSome) (d.isConcrete p) :=
  ⟨⟨_, h.isConcrete_res, rfl⟩⟩

/-- A registered `SelfPackage` passes the test `isConcrete`. -/
theorem KCudfData.Sure.ret_sure {d : KCudfData} {dt : DTNode} (hi : Inv d dt) {q : Nat}
    (h : d.Sure q) : Returns (fun b => b = true) (d.isConcrete q) := by
  obtain ⟨-, oq, hoq, hn⟩ := h
  have hf := (hi.1 q oq hoq).2.2 hn
  have hr : d.Res q q oq := ⟨KCudfData.target_self hoq hf, hoq, hf⟩
  exact hr.ret_isConcrete.mono_ret (fun b hb => hb.trans hn)

/-- The loops of `flat` that insert the elements of a set, each of which passes
the test `isConcrete`. -/
theorem Inv.ret_insertAll {d : KCudfData} {dt : DTNode} (hi : Inv d dt) (l : List Nat)
    (hl : ∀ q ∈ l, d.Sure q) (acc : IdSet) :
    Returns (fun ps => ps = l.foldl IdSet.insert acc)
      (l.foldlM (fun (ps : IdSet) q => do
        let y ← d.ptr q
        if (← d.isConcrete y) then pure (ps.insert q) else throw Failure.assertion) acc) := by
  refine Returns.foldlM_eq l ?_ acc
  intro ps q hq
  refine Returns.bind_ret (hi.ret_ptr (hl q hq).1) ?_
  rintro y rfl
  refine Returns.bind_ret ((hl y hq).ret_sure hi) ?_
  rintro b rfl
  exact Returns.pure_ret _ rfl

theorem KCudfData.mem_foldl_flatSet (c : Nat → List Nat) (l : List Nat) (acc : IdSet)
    (x : Nat) :
    x ∈ l.foldl (fun (acc : IdSet) q => (c q).foldl IdSet.insert acc) acc ↔
      x ∈ acc ∨ ∃ q ∈ l, x ∈ c q := by
  induction l generalizing acc with
  | nil => simp
  | cons a l ih =>
    rw [List.foldl_cons, ih, IdSet.mem_foldl_insert]
    constructor
    · rintro ((h | h) | ⟨q, hq, h⟩)
      · exact Or.inl h
      · exact Or.inr ⟨a, List.mem_cons_self _ _, h⟩
      · exact Or.inr ⟨q, List.mem_cons_of_mem _ hq, h⟩
    · rintro (h | ⟨q, hq, h⟩)
      · exact Or.inl (Or.inl h)
      · rcases List.mem_cons.mp hq with e | e
        · subst e
          exact Or.inl (Or.inr h)
        · exact Or.inr ⟨q, e, h⟩

theorem KCudfData.specLeaves_flat (n : Nat) {d : KCudfData} {p : Nat} {o : Package}
    (h : d.heap p = some o) (hf : o.flt = true) : d.specLeaves n p = o.providers := by
  cases n <;> simp [KCudfData.specLeaves, h, hf]

theorem KCudfData.mem_specLeaves_succ (n : Nat) {d : KCudfData} {p : Nat} {o : Package}
    (h : d.heap p = some o) (hf : o.flt = false) (x : Nat) :
    x ∈ d.specLeaves (n + 1) p ↔
      (∃ q ∈ o.providers, x ∈ (match d.heap q with
        | some oq => if oq.nm.isSome then [q] else d.specLeaves n q
        | none => [])) ∧ (o.has_but = true → x ≠ o.conf_but) := by
  simp only [KCudfData.specLeaves, h, hf, Bool.false_eq_true, if_false]
  by_cases hb : o.has_but = true
  · rw [if_pos hb, IdSet.mem_erase, List.mem_flatMap]
    exact ⟨fun ⟨a, b⟩ => ⟨a, fun _ => b⟩, fun ⟨a, b⟩ => ⟨a, b hb⟩⟩
  · rw [if_neg hb, List.mem_flatMap]
    exact ⟨fun a => ⟨a, fun h => absurd h hb⟩, fun a => a.1⟩

/-- The providers of the flat disjunctions are registered `SelfPackage`s when
the providers are keys of `packages`. -/
theorem Inv.strict_of_linked {d : KCudfData} (hi : Inv d DTNode.create) (hl : d.Linked) :
    d.Strict := by
  intro p o ho hn hf q hq
  obtain ⟨x, hx⟩ := hl p o ho hn q hq
  obtain ⟨e, -⟩ := hi.2.1 q x hx
  subst e
  obtain ⟨oq, hoq, h1 | ⟨h2, -⟩⟩ := hi.2.2.2.2 p o ho hn hf q hq
  · exact ⟨hx, oq, hoq, h1⟩
  · rw [hi.create_not_forwarded hoq] at h2
    cases h2

theorem KCudfData.FlatOf.refl_flatOf (rk : Nat → Nat) (d : KCudfData) : d.FlatOf rk d :=
  ⟨rfl, rfl, fun _ h => h, fun _ _ h => Or.inl h⟩

/-- An object of the flattened data that is still to flatten is the object of
the data. -/
theorem KCudfData.FlatOf.back_flatOf {rk : Nat → Nat} {d0 d : KCudfData}
    (h : d0.FlatOf rk d) {p : Nat} {o : Package} (hp : d.heap p = some o)
    (hf : o.flt = false) : d0.heap p = some o := by
  cases h0 : d0.heap p with
  | none =>
    rw [h.2.2.1 p h0] at hp
    cases hp
  | some o0 =>
    rcases h.2.2.2 p o0 h0 with e | ⟨-, -, ps, e, -⟩
    · rw [hp] at e
      exact e.symm
    · rw [hp] at e
      cases e
      cases hf

/-- An object of the data is in the flattened data, with its name. -/
theorem KCudfData.FlatOf.forth_flatOf {rk : Nat → Nat} {d0 d : KCudfData}
    (h : d0.FlatOf rk d) {p : Nat} {o0 : Package} (hp : d0.heap p = some o0) :
    ∃ o, d.heap p = some o ∧ o.nm = o0.nm := by
  rcases h.2.2.2 p o0 hp with e | ⟨-, -, ps, e, -⟩
  · exact ⟨o0, e, rfl⟩
  · exact ⟨_, e, rfl⟩

/-- What a provider stands for in the flattened data, when it is flat there, is
what the specification replaces it by. -/
theorem KCudfData.FlatOf.flatSet_spec {rk : Nat → Nat} {d0 d : KCudfData}
    (h : d0.FlatOf rk d) {q : Nat} {oq0 oq : Package} (h0 : d0.heap q = some oq0)
    (h1 : d.heap q = some oq) (hfl : oq.nm = none → oq.flt = true) (m : Nat)
    (hm : oq0.nm = none → oq0.flt = false → rk q < m) (x : Nat) :
    x ∈ d.flatSet q ↔ x ∈ (match d0.heap q with
        | some oq => if oq.nm.isSome then [q] else d0.specLeaves m q
        | none => []) := by
  unfold KCudfData.flatSet
  rw [h0, h1]
  dsimp only
  rcases h.2.2.2 q oq0 h0 with e | ⟨e1, e2, ps, e3, e4⟩
  · rw [h1] at e
    cases e
    cases hn : oq0.nm with
    | some nm => simp
    | none =>
      simp only [Option.isSome_none, Bool.false_eq_true, if_false]
      rw [KCudfData.specLeaves_flat m h0 (hfl hn)]
  · rw [h1] at e3
    cases e3
    simp only [e1, Option.isSome_none, Bool.false_eq_true, if_false]
    exact e4 m (hm e1 e2) x

/-- The method `flat` on a disjunction that is flat and not forwarded returns
and changes nothing. -/
theorem KCudfData.flatFrom_flat (fuel : Nat) {d : KCudfData} {p : Nat} {o : Package}
    (hp : d.heap p = some o) (hf : o.forwarded = false) (hn : o.nm = none)
    (hl : o.flt = true) : KCudfData.flatFrom (fuel + 1) d p = Except.ok d := by
  unfold KCudfData.flatFrom
  simp [bind, Except.bind, KCudfData.obj_of_heap hp, hf, hn, hl, pure, Except.pure]

/-- The loop of `flat` that collects the providers of the providers, which are
flat: for each provider it adds what the provider stands for. -/
theorem Inv.ret_collect {d1 : KCudfData} (hi : Inv d1 DTNode.create) (hs : d1.Strict)
    (l : List Nat)
    (hl : ∀ q ∈ l, (q, q) ∈ d1.packages ∧
      ∃ oq, d1.heap q = some oq ∧ (oq.nm = none → oq.flt = true)) :
    Returns (fun toAdd => ∀ x, x ∈ toAdd ↔ ∃ q ∈ l, x ∈ d1.flatSet q)
      (l.foldlM (fun (toAdd : IdSet) q => do
        let x ← d1.ptr q
        if (← d1.isConcrete x) then pure (toAdd.insert q)
        else do
          let ox ← d1.obj x
          if !ox.flt then throw Failure.assertion
          else
            (← d1.getProviders x).foldlM (fun (toAdd : IdSet) rp => do
              let y ← d1.ptr rp
              if (← d1.isConcrete y) then pure (toAdd.insert rp)
              else throw Failure.assertion) toAdd) []) := by
  refine (Returns.foldlM_eq
    (g := fun (acc : IdSet) q => (d1.flatSet q).foldl IdSet.insert acc) l ?_ []).mono_ret ?_
  · intro toAdd q hq
    obtain ⟨hreg, oq, hoq, hfl⟩ := hl q hq
    have hnf := hi.create_not_forwarded hoq
    have hr : d1.Res q q oq := ⟨KCudfData.target_self hoq hnf, hoq, hnf⟩
    refine Returns.bind_ret (hi.ret_ptr hreg) ?_
    rintro x rfl
    refine Returns.bind_ret hr.ret_isConcrete ?_
    rintro b rfl
    split
    · rename_i hc
      refine Returns.pure_ret _ ?_
      simp [KCudfData.flatSet, hoq, hc]
    · rename_i hc
      have hn : oq.nm = none := by simpa using hc
      refine Returns.bind_ret (ret_obj hoq) ?_
      rintro ox rfl
      split
      · rename_i h
        rw [hfl hn] at h
        cases h
      · refine Returns.bind_ret (Q := fun ps => ps = ox.providers)
          ⟨⟨_, hi.getProviders_res hoq hr hn, rfl⟩⟩ ?_
        rintro ps rfl
        refine (hi.ret_insertAll ox.providers (hs x ox hoq hn (hfl hn)) toAdd).mono_ret ?_
        intro r hr
        rw [hr]
        simp [KCudfData.flatSet, hoq, hn]
  · intro toAdd h x
    rw [h, KCudfData.mem_foldl_flatSet]
    simp

/-- The providers `flat` leaves in a disjunction are its flattened provider set
of the specification. -/
theorem KCudfData.FlatOf.put_spec {rk : Nat → Nat} {d0 d1 : KCudfData}
    (hf1 : d0.FlatOf rk d1) (hr0 : d0.Ranked rk) {p : Nat} {o : Package}
    (hp0 : d0.heap p = some o) (hn : o.nm = none) (hflt : o.flt = false)
    (hreg : ∀ q ∈ o.providers, ∃ oq, d1.heap q = some oq ∧ (oq.nm = none → oq.flt = true))
    (toAdd : IdSet) (hta : ∀ x, x ∈ toAdd ↔ ∃ q ∈ o.providers, x ∈ d1.flatSet q)
    (n1 : Nat) (hn1 : rk p < n1) (x : Nat) :
    x ∈ (if o.has_but then IdSet.erase (toAdd.foldl IdSet.insert []) o.conf_but
        else toAdd.foldl IdSet.insert []) ↔ x ∈ d0.specLeaves n1 p := by
  obtain ⟨m, rfl⟩ : ∃ m, n1 = m + 1 := ⟨n1 - 1, by omega⟩
  rw [KCudfData.mem_specLeaves_succ m hp0 hflt x]
  have hps : x ∈ toAdd.foldl IdSet.insert [] ↔
      ∃ q ∈ o.providers, x ∈ (match d0.heap q with
        | some oq => if oq.nm.isSome then [q] else d0.specLeaves m q
        | none => []) := by
    rw [IdSet.mem_foldl_insert, hta x]
    have hq : ∀ q ∈ o.providers, (x ∈ d1.flatSet q ↔ x ∈ (match d0.heap q with
        | some oq => if oq.nm.isSome then [q] else d0.specLeaves m q
        | none => [])) := by
      intro q hq
      obtain ⟨oq, hoq, hfl⟩ := hreg q hq
      cases h0 : d0.heap q with
      | none =>
        rw [hf1.2.2.1 q h0] at hoq
        cases hoq
      | some oq0 =>
        have := hf1.flatSet_spec h0 hoq hfl m
          (fun e1 e2 => by have := hr0 p o q oq0 hp0 hn hflt hq h0 e1 e2; omega) x
        rw [h0] at this
        exact this
    constructor
    · rintro (h | ⟨q, hq1, h⟩)
      · cases h
      · exact ⟨q, hq1, (hq q hq1).mp h⟩
    · rintro ⟨q, hq1, h⟩
      exact Or.inr ⟨q, hq1, (hq q hq1).mpr h⟩
  by_cases hb : o.has_but = true
  · rw [if_pos hb, IdSet.mem_erase, hps]
    exact ⟨fun ⟨a, b⟩ => ⟨a, fun _ => b⟩, fun ⟨a, b⟩ => ⟨a, b hb⟩⟩
  · rw [if_neg hb, hps]
    exact ⟨fun a => ⟨a, fun h => absurd h hb⟩, fun a => a.1⟩

/-- The method `flat` on a disjunction, before the trie is filled and while the
rank leaves it fuel: it returns, and the data it leaves is the data at the start
with some more disjunctions flattened, this one among them. -/
theorem KCudfData.FlatOf.flatFrom_ret {rk : Nat → Nat} {d0 : KCudfData} (hl0 : d0.Linked)
    (hr0 : d0.Ranked rk) (fuel : Nat) :
    ∀ (d : KCudfData) (p : Nat) (o : Package), d0.FlatOf rk d → Inv d DTNode.create →
      d.Strict → d.heap p = some o → o.nm = none → (o.flt = false → rk p + 1 < fuel) →
      0 < fuel →
      Returns (fun d1 => d0.FlatOf rk d1 ∧ ∃ o1, d1.heap p = some o1 ∧ o1.flt = true)
        (KCudfData.flatFrom fuel d p) := by
  induction fuel with
  | zero =>
    intro _ _ _ _ _ _ _ _ _ h
    cases h
  | succ n ih =>
    intro d p o hfo hi hs hp hn hk _
    cases hflt : o.flt with
    | true =>
      exact ⟨⟨d, KCudfData.flatFrom_flat n hp (hi.create_not_forwarded hp) hn hflt, hfo, o, hp,
        hflt⟩⟩
    | false =>
      have hk1 := hk hflt
      have hp0 := hfo.back_flatOf hp hflt
      unfold KCudfData.flatFrom
      refine Returns.bind_ret (ret_obj hp) ?_
      rintro o' rfl
      split
      · rename_i h
        rw [hi.create_not_forwarded hp] at h
        cases h
      split
      · rename_i h
        rw [hn] at h
        cases h
      split
      · rename_i h
        rw [hflt] at h
        cases h
      refine Returns.bind_ret
        (Q := fun d1 => d0.FlatOf rk d1 ∧ Inv d1 DTNode.create ∧ d1.Strict ∧
          ∀ q ∈ o'.providers, ∃ oq, d1.heap q = some oq ∧ (oq.nm = none → oq.flt = true))
        ?_ ?_
      · refine Returns.foldlM_pre_ret
          (Q := fun pre d1 => d0.FlatOf rk d1 ∧ Inv d1 DTNode.create ∧ d1.Strict ∧
            ∀ q ∈ pre, ∃ oq, d1.heap q = some oq ∧ (oq.nm = none → oq.flt = true))
          o'.providers ?_ d ⟨hfo, hi, hs, fun q hq => by cases hq⟩
        rintro pre q b hq ⟨hb1, hb2, hb3, hb4⟩
        obtain ⟨x, hx⟩ := hl0 p o' hp0 hn q hq
        have hxb : (q, x) ∈ b.packages := by rw [hb1.2.1]; exact hx
        obtain ⟨e, oqb, hoqb⟩ := hb2.2.1 q x hxb
        subst e
        have hnf := hb2.create_not_forwarded hoqb
        have hr : b.Res q q oqb := ⟨KCudfData.target_self hoqb hnf, hoqb, hnf⟩
        refine Returns.bind_ret (hb2.ret_ptr hxb) ?_
        rintro x rfl
        refine Returns.bind_ret hr.ret_isConcrete ?_
        rintro c rfl
        split
        · rename_i hc
          refine Returns.pure_ret _ ⟨hb1, hb2, hb3, ?_⟩
          intro q1 hq1
          rcases List.mem_append.mp hq1 with h | h
          · exact hb4 q1 h
          · have := List.mem_singleton.mp h
            subst this
            refine ⟨oqb, hoqb, ?_⟩
            intro hn1
            rw [hn1] at hc
            cases hc
        · rename_i hc
          have hnq : oqb.nm = none := by simpa using hc
          have hrank : oqb.flt = false → rk x + 1 < n := by
            intro hfq
            have h0q := hb1.back_flatOf hoqb hfq
            have := hr0 p o' x oqb hp0 hn hflt hq h0q hnq hfq
            omega
          have hpos : 0 < n := by omega
          refine ((ih b x oqb hb1 hb2 hb3 hoqb hnq hrank hpos).and_post
            (Post.and (Inv.flatFrom_create n b x hb2)
              (Inv.flatFrom_strict n b x hb2 hb3))).mono_ret ?_
          rintro b1 ⟨⟨g1, o1, g2, g3⟩, ⟨g4, g5, -⟩, g6⟩
          refine ⟨g1, g4, g6, ?_⟩
          intro q1 hq1
          rcases List.mem_append.mp hq1 with h | h
          · obtain ⟨ob, hob, hfb⟩ := hb4 q1 h
            obtain ⟨ob1, f1, f2, f3⟩ := g5.2.2 q1 ob hob
            exact ⟨ob1, f1, fun hn1 => f3 (hfb (f2 ▸ hn1))⟩
          · have := List.mem_singleton.mp h
            subst this
            exact ⟨o1, g2, fun _ => g3⟩
      · rintro d1 ⟨hf1, hi1, hs1, h4⟩
        have hreg : ∀ q ∈ o'.providers, (q, q) ∈ d1.packages ∧
            ∃ oq, d1.heap q = some oq ∧ (oq.nm = none → oq.flt = true) := by
          intro q hq
          obtain ⟨x, hx⟩ := hl0 p o' hp0 hn q hq
          have hxb : (q, x) ∈ d1.packages := by rw [hf1.2.1]; exact hx
          obtain ⟨e, -⟩ := hi1.2.1 q x hxb
          subst e
          exact ⟨hxb, h4 q hq⟩
        refine Returns.bind_ret (hi1.ret_collect hs1 o'.providers hreg) (fun toAdd hta => ?_)
        have hsure : ∀ x ∈ toAdd, d1.Sure x := by
          intro x hx
          obtain ⟨q, hq, hxq⟩ := (hta x).mp hx
          obtain ⟨hqr, oq, hoq, hfl⟩ := hreg q hq
          unfold KCudfData.flatSet at hxq
          rw [hoq] at hxq
          dsimp only at hxq
          split at hxq
          · rename_i hc
            have := List.mem_singleton.mp hxq
            subst this
            exact ⟨hqr, oq, hoq, hc⟩
          · rename_i hc
            have hnq : oq.nm = none := by simpa using hc
            exact hs1 q oq hoq hnq (hfl hnq) x hxq
        refine Returns.bind_ret (hi1.ret_insertAll toAdd hsure []) ?_
        rintro ps rfl
        obtain ⟨o1, ho1, -⟩ := hf1.forth_flatOf hp0
        refine Returns.bind_ret (ret_obj ho1) ?_
        rintro o1' rfl
        refine Returns.pure_ret _ ⟨?_, _, by rw [KCudfData.heap_put, if_pos rfl], rfl⟩
        refine ⟨hf1.1, hf1.2.1, ?_, ?_⟩
        · intro q hq
          rw [KCudfData.heap_put]
          by_cases e : q = p
          · subst e
            rw [hp0] at hq
            cases hq
          · rw [if_neg e]
            exact hf1.2.2.1 q hq
        · intro q oq0 hq0
          rw [KCudfData.heap_put]
          by_cases e : q = p
          · subst e
            rw [hp0] at hq0
            cases hq0
            rw [if_pos rfl]
            right
            refine ⟨hn, hflt, ?_⟩
            have hkey := fun n1 h1 x => hf1.put_spec hr0 hp0 hn hflt
              (fun q hq => (hreg q hq).2) toAdd hta n1 h1 x
            rcases hf1.2.2.2 q o' hp0 with e1 | ⟨-, -, ps1, e1, -⟩
            · rw [ho1] at e1
              cases e1
              exact ⟨_, rfl, hkey⟩
            · rw [ho1] at e1
              cases e1
              exact ⟨_, rfl, hkey⟩
          · rw [if_neg e]
            exact hf1.2.2.2 q oq0 hq0

/-- The test `linked` is the property `Linked`. -/
theorem Inv.linked_of_test {d : KCudfData} {dt : DTNode} (hi : Inv d dt)
    (h : d.linked = true) : d.Linked := by
  intro p o ho hn q hq
  have hlt := (hi.1 p o ho).2.1
  have h1 := List.all_eq_true.mp h p (List.mem_range.mpr hlt)
  rw [ho] at h1
  simp only [hn, Option.isSome_none, Bool.false_or] at h1
  have h2 := List.all_eq_true.mp h1 q hq
  unfold StdMap.has at h2
  cases hf : StdMap.find d.packages q with
  | none =>
    rw [hf] at h2
    cases h2
  | some x => exact ⟨x, StdMap.mem_of_find _ _ _ hf⟩

/-- The test `ranked` is the property `Ranked`. -/
theorem Inv.ranked_of_test {d : KCudfData} {dt : DTNode} (hi : Inv d dt) {rk : Nat → Nat}
    (h : d.ranked rk = true) : d.Ranked rk := by
  intro p o q oq ho hn hf hq hoq hnq hfq
  have hlt := (hi.1 p o ho).2.1
  have h1 := List.all_eq_true.mp h p (List.mem_range.mpr hlt)
  rw [ho] at h1
  simp only [hn, hf, Option.isSome_none, Bool.false_or] at h1
  have h2 := List.all_eq_true.mp h1 q hq
  rw [hoq] at h2
  simpa [hnq, hfq] using h2

theorem KCudfData.beforeFlatAll_unflattened (doc : CudfDoc)
    (hok : (KCudfData.beforeFlatAll Printer.plain 0 doc).isOk = true) :
    KCudfData.beforeFlatAll Printer.plain 0 doc = Except.ok (KCudfData.unflattened doc) := by
  unfold KCudfData.unflattened
  cases h : KCudfData.beforeFlatAll Printer.plain 0 doc with
  | ok r => rfl
  | error e =>
    rw [h] at hok
    cases hok

/-- C33: flattening computes the concrete leaves.  Before the trie is filled, on
data whose providers are keys of `packages`, for a disjunction `p` and a rank
`rk` below `next_id` at `p` that falls along the provider relation among the
disjunctions still to flatten, the method `flat` returns; the object has the
flag `flt` after it, its providers are the flattened provider set of the
specification, all of them registered `SelfPackage`s, and a second call of
`flat` returns the same data. -/
theorem flat_computes_leaves (d : KCudfData) (rk : Nat → Nat) (p : Nat) (o : Package)
    (hi : Inv d DTNode.create) (hl : d.Linked) (hr : d.Ranked rk)
    (hp : d.heap p = some o) (hn : o.nm = none) (hk : rk p < d.next_id) :
    ∃ d1 o1, d.flat p = Except.ok d1 ∧ d1.heap p = some o1 ∧ o1.flt = true ∧
      (∀ n, rk p < n → ∀ x, x ∈ o1.providers ↔ x ∈ d.specLeaves n p) ∧
      (∀ x ∈ o1.providers, d1.Sure x) ∧
      d1.flat p = Except.ok d1 := by
  have hs := hi.strict_of_linked hl
  have hret := KCudfData.FlatOf.flatFrom_ret hl hr (d.next_id + 1) d p o
    (KCudfData.FlatOf.refl_flatOf rk d) hi hs hp hn (fun _ => by omega) (Nat.succ_pos _)
  obtain ⟨d1, e1, ⟨hf1, o1, ho1, hfl1⟩, ⟨hi1, hk1, -⟩, hs1⟩ :=
    (hret.and_post (Post.and (Inv.flatFrom_create _ d p hi)
      (Inv.flatFrom_strict _ d p hi hs))).out
  have hn1 : o1.nm = none := by
    obtain ⟨o2, f1, f2, -⟩ := hk1.2.2 p o hp
    rw [ho1] at f1
    cases f1
    exact f2.trans hn
  refine ⟨d1, o1, e1, ho1, hfl1, ?_, hs1 p o1 ho1 hn1 hfl1, ?_⟩
  · intro n hn2 x
    rcases hf1.2.2.2 p o hp with e | ⟨-, -, ps, e, h⟩
    · rw [ho1] at e
      cases e
      rw [KCudfData.specLeaves_flat n hp hfl1]
    · rw [ho1] at e
      cases e
      exact h n hn2 x
  · unfold KCudfData.flat
    rw [hk1.1]
    exact KCudfData.flatFrom_flat _ ho1 (hi1.create_not_forwarded ho1) hn1 hfl1

theorem flat_computes_leaves_witness :
    ∃ o, (KCudfData.unflattened docUpgrade).heap 3 = some o ∧ o.nm = none ∧
      o.providers = [1, 2, 5] ∧
      ∃ d1 o1, (KCudfData.unflattened docUpgrade).flat 3 = Except.ok d1 ∧
        d1.heap 3 = some o1 ∧ o1.flt = true ∧
        (∀ n, 2 < n → ∀ x,
          x ∈ o1.providers ↔ x ∈ (KCudfData.unflattened docUpgrade).specLeaves n 3) ∧
        (∀ x ∈ o1.providers, d1.Sure x) ∧
        d1.flat 3 = Except.ok d1 := by
  have hu : InvU (KCudfData.unflattened docUpgrade) :=
    (InvU.beforeFlatAll Printer.plain 0 docUpgrade).out _
      (KCudfData.beforeFlatAll_unflattened docUpgrade rfl)
  have hi := hu.inv_invU
  have e1 : ((KCudfData.unflattened docUpgrade).heap 3).map (fun o => (o.nm, o.providers)) =
      some (none, [1, 2, 5]) := rfl
  cases g : (KCudfData.unflattened docUpgrade).heap 3 with
  | none =>
    rw [g] at e1
    cases e1
  | some o =>
    rw [g] at e1
    have f1 : o.nm = none := congrArg Prod.fst (Option.some.inj e1)
    have f2 : o.providers = [1, 2, 5] := congrArg Prod.snd (Option.some.inj e1)
    exact ⟨o, rfl, f1, f2,
      flat_computes_leaves (KCudfData.unflattened docUpgrade)
        (fun p => if p = 3 then 2 else if p = 2 then 0 else 1) 3 o hi
        (hi.linked_of_test rfl) (hi.ranked_of_test rfl) g f1 (by decide)⟩

end Leaves

/-! ## The numbers of the objects of a translation -/

section Numbering


theorem KCudfData.Dom.empty_dom (n : Nat) : (KCudfData.empty n).Dom n := by
  refine ⟨Nat.le_refl _, fun p => ?_⟩
  constructor
  · intro h
    cases h
  · intro h
    have h1 : n ≤ p := h.1
    have h2 : p < n := h.2
    omega

theorem KCudfData.Dom.put_dom {n : Nat} {d : KCudfData} {p : Nat} {o o1 : Package}
    (h : d.Dom n) (hp : d.heap p = some o) : (d.put p o1).Dom n := by
  refine ⟨h.1, fun q => ?_⟩
  rw [KCudfData.heap_put]
  by_cases e : q = p
  · subst e
    rw [if_pos rfl]
    have := (h.2 q).mp (by rw [hp]; rfl)
    exact ⟨fun _ => this, fun _ => rfl⟩
  · rw [if_neg e]
    exact h.2 q

theorem KCudfData.Dom.fresh_dom {n : Nat} {d : KCudfData} (h : d.Dom n) (d1 : KCudfData)
    (o : Package) (e1 : d1.heap = setAt d.heap d.next_id (some o))
    (e2 : d1.next_id = d.next_id + 1) : d1.Dom n := by
  refine ⟨by rw [e2]; exact Nat.le_succ_of_le h.1, fun q => ?_⟩
  rw [e1, e2]
  unfold setAt
  by_cases e : q = d.next_id
  · subst e
    rw [if_pos rfl]
    exact ⟨fun _ => ⟨h.1, Nat.lt_succ_self _⟩, fun _ => rfl⟩
  · rw [if_neg e, h.2 q]
    constructor
    · exact fun a => ⟨a.1, Nat.lt_succ_of_lt a.2⟩
    · exact fun a => ⟨a.1, by omega⟩

theorem dom_markInstall (n0 : Nat) (d : KCudfData) (p : Nat) (st : Bool) (h : d.Dom n0) :
    Post (KCudfData.Dom n0) (d.markInstall p st) := by
  unfold KCudfData.markInstall
  refine Post.bind_post (Post.trivial _) (fun t _ => ?_)
  refine Post.bind_post (post_obj d t) (fun o ho => ?_)
  split
  · split
    · exact Post.throw_post _
    · exact Post.pure_post _ (h.put_dom ho)
  · exact Post.pure_post _ h

theorem dom_markKeep (n0 : Nat) (d : KCudfData) (p : Nat) (st : Bool) (h : d.Dom n0) :
    Post (KCudfData.Dom n0) (d.markKeep p st) := by
  unfold KCudfData.markKeep
  refine Post.bind_post (Post.trivial _) (fun t _ => ?_)
  refine Post.bind_post (post_obj d t) (fun o ho => ?_)
  exact Post.pure_post _ (h.put_dom ho)

theorem dom_addConflict (n0 : Nat) (d : KCudfData) (p c : Nat) (h : d.Dom n0) :
    Post (KCudfData.Dom n0) (d.addConflict p c) := by
  unfold KCudfData.addConflict
  refine Post.bind_post (Post.trivial _) (fun t _ => ?_)
  refine Post.bind_post (post_obj d t) (fun o ho => ?_)
  exact Post.pure_post _ (h.put_dom ho)

theorem dom_addDependency (n0 : Nat) (d : KCudfData) (p q : Nat) (h : d.Dom n0) :
    Post (KCudfData.Dom n0) (d.addDependency p q) := by
  unfold KCudfData.addDependency
  refine Post.bind_post (Post.trivial _) (fun t _ => ?_)
  refine Post.bind_post (post_obj d t) (fun o ho => ?_)
  exact Post.pure_post _ (h.put_dom ho)

theorem dom_addProvider (n0 : Nat) (d : KCudfData) (p q : Nat) (h : d.Dom n0) :
    Post (KCudfData.Dom n0) (d.addProvider p q) := by
  unfold KCudfData.addProvider
  refine Post.bind_post (post_obj d p) (fun o ho => ?_)
  split
  · exact Post.throw_post _
  split
  · exact Post.throw_post _
  · exact Post.pure_post _ (h.put_dom ho)

theorem dom_addBut (n0 : Nat) (d : KCudfData) (p q : Nat) (h : d.Dom n0) :
    Post (KCudfData.Dom n0) (d.addBut p q) := by
  unfold KCudfData.addBut
  refine Post.bind_post (post_obj d p) (fun o ho => ?_)
  exact Post.pure_post _ (h.put_dom ho)

theorem dom_newSelfPackage (n0 : Nat) (d : KCudfData) (name : String) (inst : Bool) (v : Int)
    (h : d.Dom n0) : Post (fun r => KCudfData.Dom n0 r.2) (d.newSelfPackage name inst v) := by
  unfold KCudfData.newSelfPackage
  split
  · exact Post.throw_post _
  · exact Post.pure_post _ (h.fresh_dom _ _ rfl rfl)

theorem dom_register (n0 : Nat) (d : KCudfData) (p : Nat) (h : KCudfData.Dom n0 d) :
    Post (KCudfData.Dom n0) (d.register p) := by
  unfold KCudfData.register
  try simp only [KCudfData.newDisjunctionObject, KCudfData.specvAt, KCudfData.concreteAt]
  repeat (first
    | assumption
    | exact KCudfData.Dom.fresh_dom (by assumption) _ _ rfl rfl
    | exact KCudfData.Dom.put_dom (by assumption) (by assumption)
    | exact Post.throw_post _
    | (apply Post.pure_post; first | assumption | exact KCudfData.Dom.fresh_dom (by assumption) _ _ rfl rfl | exact KCudfData.Dom.put_dom (by assumption) (by assumption))
    | (refine Post.bind_post (post_obj _ _) ?_)
    | with_reducible apply Post.foldlM_post (Q := KCudfData.Dom n0)
    | with_reducible apply Post.foldlM_post (Q := fun (r : KCudfData × Marks) => KCudfData.Dom n0 r.1)
    | with_reducible apply Post.foldlM_post (Q := fun (r : KCudfData × Nat) => KCudfData.Dom n0 r.1)
    | with_reducible apply Post.foldlM_post (Q := fun (r : KCudfData × DTNode × Marks) => KCudfData.Dom n0 r.1)
    | with_reducible apply Post.foldlM_post (Q := fun (r : KCudfData × DTNode × Nat) => KCudfData.Dom n0 r.1)
    | exact Post.trivial _
    | with_reducible apply Post.bind_post (Q := KCudfData.Dom n0)
    | with_reducible apply Post.bind_post (Q := fun (r : Nat × KCudfData) => KCudfData.Dom n0 r.2)
    | with_reducible apply Post.bind_post (Q := fun (r : KCudfData × DTNode × Marks) => KCudfData.Dom n0 r.1)
    | with_reducible apply Post.bind_post (Q := fun (r : KCudfData × Marks) => KCudfData.Dom n0 r.1)
    | with_reducible apply Post.bind_post (Q := fun (r : KCudfData × Nat) => KCudfData.Dom n0 r.1)
    | with_reducible apply Post.bind_post (Q := fun (r : KCudfData × DTNode × Nat) => KCudfData.Dom n0 r.1)
    | with_reducible apply Post.bind_post (Q := fun (r : Bool × KCudfData) => KCudfData.Dom n0 r.2)
    | with_reducible apply Post.bind_post (Q := fun (r : KCudfData × DTNode) => KCudfData.Dom n0 r.1)
    | with_reducible apply Post.bind_post (Q := fun (r : KCudfData × TranslatorStats) => KCudfData.Dom n0 r.1)
    | with_reducible apply Post.bind_post (Q := fun _ => True)
    | intro _
    | split)

theorem dom_flatFrom (n0 : Nat) (fuel : Nat) (d : KCudfData) (p : Nat) (h : KCudfData.Dom n0 d) :
    Post (KCudfData.Dom n0) (KCudfData.flatFrom fuel d p) := by
  induction fuel generalizing d p with
  | zero => exact Post.throw_post _
  | succ n ih =>
    unfold KCudfData.flatFrom
    try simp only [KCudfData.newDisjunctionObject, KCudfData.specvAt, KCudfData.concreteAt]
    repeat (first
      | assumption
      | exact KCudfData.Dom.fresh_dom (by assumption) _ _ rfl rfl
      | exact KCudfData.Dom.put_dom (by assumption) (by assumption)
      | exact Post.throw_post _
      | (apply Post.pure_post; first | assumption | exact KCudfData.Dom.fresh_dom (by assumption) _ _ rfl rfl | exact KCudfData.Dom.put_dom (by assumption) (by assumption))
      | (apply ih; first | assumption | exact KCudfData.Dom.fresh_dom (by assumption) _ _ rfl rfl | exact KCudfData.Dom.put_dom (by assumption) (by assumption))
      | (refine Post.bind_post (post_obj _ _) ?_)
      | with_reducible apply Post.foldlM_post (Q := KCudfData.Dom n0)
      | with_reducible apply Post.foldlM_post (Q := fun (r : KCudfData × Marks) => KCudfData.Dom n0 r.1)
      | with_reducible apply Post.foldlM_post (Q := fun (r : KCudfData × Nat) => KCudfData.Dom n0 r.1)
      | with_reducible apply Post.foldlM_post (Q := fun (r : KCudfData × DTNode × Marks) => KCudfData.Dom n0 r.1)
      | with_reducible apply Post.foldlM_post (Q := fun (r : KCudfData × DTNode × Nat) => KCudfData.Dom n0 r.1)
      | exact Post.trivial _
      | with_reducible apply Post.bind_post (Q := KCudfData.Dom n0)
      | with_reducible apply Post.bind_post (Q := fun (r : Nat × KCudfData) => KCudfData.Dom n0 r.2)
      | with_reducible apply Post.bind_post (Q := fun (r : KCudfData × DTNode × Marks) => KCudfData.Dom n0 r.1)
      | with_reducible apply Post.bind_post (Q := fun (r : KCudfData × Marks) => KCudfData.Dom n0 r.1)
      | with_reducible apply Post.bind_post (Q := fun (r : KCudfData × Nat) => KCudfData.Dom n0 r.1)
      | with_reducible apply Post.bind_post (Q := fun (r : KCudfData × DTNode × Nat) => KCudfData.Dom n0 r.1)
      | with_reducible apply Post.bind_post (Q := fun (r : Bool × KCudfData) => KCudfData.Dom n0 r.2)
      | with_reducible apply Post.bind_post (Q := fun (r : KCudfData × DTNode) => KCudfData.Dom n0 r.1)
      | with_reducible apply Post.bind_post (Q := fun (r : KCudfData × TranslatorStats) => KCudfData.Dom n0 r.1)
      | with_reducible apply Post.bind_post (Q := fun _ => True)
      | intro _
      | split)

theorem dom_flat (n0 : Nat) (d : KCudfData) (p : Nat) (h : KCudfData.Dom n0 d) :
    Post (KCudfData.Dom n0) (d.flat p) := by
  unfold KCudfData.flat
  try simp only [KCudfData.newDisjunctionObject, KCudfData.specvAt, KCudfData.concreteAt]
  repeat (first
    | assumption
    | exact KCudfData.Dom.fresh_dom (by assumption) _ _ rfl rfl
    | exact KCudfData.Dom.put_dom (by assumption) (by assumption)
    | exact Post.throw_post _
    | (apply Post.pure_post; first | assumption | exact KCudfData.Dom.fresh_dom (by assumption) _ _ rfl rfl | exact KCudfData.Dom.put_dom (by assumption) (by assumption))
    | (apply dom_flatFrom; first | assumption | exact KCudfData.Dom.fresh_dom (by assumption) _ _ rfl rfl | exact KCudfData.Dom.put_dom (by assumption) (by assumption))
    | (refine Post.bind_post (post_obj _ _) ?_)
    | with_reducible apply Post.foldlM_post (Q := KCudfData.Dom n0)
    | with_reducible apply Post.foldlM_post (Q := fun (r : KCudfData × Marks) => KCudfData.Dom n0 r.1)
    | with_reducible apply Post.foldlM_post (Q := fun (r : KCudfData × Nat) => KCudfData.Dom n0 r.1)
    | with_reducible apply Post.foldlM_post (Q := fun (r : KCudfData × DTNode × Marks) => KCudfData.Dom n0 r.1)
    | with_reducible apply Post.foldlM_post (Q := fun (r : KCudfData × DTNode × Nat) => KCudfData.Dom n0 r.1)
    | exact Post.trivial _
    | with_reducible apply Post.bind_post (Q := KCudfData.Dom n0)
    | with_reducible apply Post.bind_post (Q := fun (r : Nat × KCudfData) => KCudfData.Dom n0 r.2)
    | with_reducible apply Post.bind_post (Q := fun (r : KCudfData × DTNode × Marks) => KCudfData.Dom n0 r.1)
    | with_reducible apply Post.bind_post (Q := fun (r : KCudfData × Marks) => KCudfData.Dom n0 r.1)
    | with_reducible apply Post.bind_post (Q := fun (r : KCudfData × Nat) => KCudfData.Dom n0 r.1)
    | with_reducible apply Post.bind_post (Q := fun (r : KCudfData × DTNode × Nat) => KCudfData.Dom n0 r.1)
    | with_reducible apply Post.bind_post (Q := fun (r : Bool × KCudfData) => KCudfData.Dom n0 r.2)
    | with_reducible apply Post.bind_post (Q := fun (r : KCudfData × DTNode) => KCudfData.Dom n0 r.1)
    | with_reducible apply Post.bind_post (Q := fun (r : KCudfData × TranslatorStats) => KCudfData.Dom n0 r.1)
    | with_reducible apply Post.bind_post (Q := fun _ => True)
    | intro _
    | split)

theorem dom_setForwardFrom (n0 : Nat) (fuel : Nat) (d : KCudfData) (a p : Nat)
    (h : KCudfData.Dom n0 d) :
    Post (KCudfData.Dom n0) (KCudfData.setForwardFrom fuel d a p) := by
  induction fuel generalizing d a with
  | zero => exact Post.throw_post _
  | succ n ih =>
    unfold KCudfData.setForwardFrom
    try simp only [KCudfData.newDisjunctionObject, KCudfData.specvAt, KCudfData.concreteAt]
    repeat (first
      | assumption
      | exact KCudfData.Dom.fresh_dom (by assumption) _ _ rfl rfl
      | exact KCudfData.Dom.put_dom (by assumption) (by assumption)
      | exact Post.throw_post _
      | (apply Post.pure_post; first | assumption | exact KCudfData.Dom.fresh_dom (by assumption) _ _ rfl rfl | exact KCudfData.Dom.put_dom (by assumption) (by assumption))
      | (apply ih; first | assumption | exact KCudfData.Dom.fresh_dom (by assumption) _ _ rfl rfl | exact KCudfData.Dom.put_dom (by assumption) (by assumption))
      | (apply dom_addConflict; first | assumption | exact KCudfData.Dom.fresh_dom (by assumption) _ _ rfl rfl | exact KCudfData.Dom.put_dom (by assumption) (by assumption))
      | (apply dom_addDependency; first | assumption | exact KCudfData.Dom.fresh_dom (by assumption) _ _ rfl rfl | exact KCudfData.Dom.put_dom (by assumption) (by assumption))
      | (refine Post.bind_post (post_obj _ _) ?_)
      | with_reducible apply Post.foldlM_post (Q := KCudfData.Dom n0)
      | with_reducible apply Post.foldlM_post (Q := fun (r : KCudfData × Marks) => KCudfData.Dom n0 r.1)
      | with_reducible apply Post.foldlM_post (Q := fun (r : KCudfData × Nat) => KCudfData.Dom n0 r.1)
      | with_reducible apply Post.foldlM_post (Q := fun (r : KCudfData × DTNode × Marks) => KCudfData.Dom n0 r.1)
      | with_reducible apply Post.foldlM_post (Q := fun (r : KCudfData × DTNode × Nat) => KCudfData.Dom n0 r.1)
      | exact Post.trivial _
      | with_reducible apply Post.bind_post (Q := KCudfData.Dom n0)
      | with_reducible apply Post.bind_post (Q := fun (r : Nat × KCudfData) => KCudfData.Dom n0 r.2)
      | with_reducible apply Post.bind_post (Q := fun (r : KCudfData × DTNode × Marks) => KCudfData.Dom n0 r.1)
      | with_reducible apply Post.bind_post (Q := fun (r : KCudfData × Marks) => KCudfData.Dom n0 r.1)
      | with_reducible apply Post.bind_post (Q := fun (r : KCudfData × Nat) => KCudfData.Dom n0 r.1)
      | with_reducible apply Post.bind_post (Q := fun (r : KCudfData × DTNode × Nat) => KCudfData.Dom n0 r.1)
      | with_reducible apply Post.bind_post (Q := fun (r : Bool × KCudfData) => KCudfData.Dom n0 r.2)
      | with_reducible apply Post.bind_post (Q := fun (r : KCudfData × DTNode) => KCudfData.Dom n0 r.1)
      | with_reducible apply Post.bind_post (Q := fun (r : KCudfData × TranslatorStats) => KCudfData.Dom n0 r.1)
      | with_reducible apply Post.bind_post (Q := fun _ => True)
      | intro _
      | split)

theorem dom_setForward (n0 : Nat) (d : KCudfData) (a p : Nat) (h : KCudfData.Dom n0 d) :
    Post (KCudfData.Dom n0) (d.setForward a p) := by
  unfold KCudfData.setForward
  try simp only [KCudfData.newDisjunctionObject, KCudfData.specvAt, KCudfData.concreteAt]
  repeat (first
    | assumption
    | exact KCudfData.Dom.fresh_dom (by assumption) _ _ rfl rfl
    | exact KCudfData.Dom.put_dom (by assumption) (by assumption)
    | exact Post.throw_post _
    | (apply Post.pure_post; first | assumption | exact KCudfData.Dom.fresh_dom (by assumption) _ _ rfl rfl | exact KCudfData.Dom.put_dom (by assumption) (by assumption))
    | (apply dom_setForwardFrom; first | assumption | exact KCudfData.Dom.fresh_dom (by assumption) _ _ rfl rfl | exact KCudfData.Dom.put_dom (by assumption) (by assumption))
    | (refine Post.bind_post (post_obj _ _) ?_)
    | with_reducible apply Post.foldlM_post (Q := KCudfData.Dom n0)
    | with_reducible apply Post.foldlM_post (Q := fun (r : KCudfData × Marks) => KCudfData.Dom n0 r.1)
    | with_reducible apply Post.foldlM_post (Q := fun (r : KCudfData × Nat) => KCudfData.Dom n0 r.1)
    | with_reducible apply Post.foldlM_post (Q := fun (r : KCudfData × DTNode × Marks) => KCudfData.Dom n0 r.1)
    | with_reducible apply Post.foldlM_post (Q := fun (r : KCudfData × DTNode × Nat) => KCudfData.Dom n0 r.1)
    | exact Post.trivial _
    | with_reducible apply Post.bind_post (Q := KCudfData.Dom n0)
    | with_reducible apply Post.bind_post (Q := fun (r : Nat × KCudfData) => KCudfData.Dom n0 r.2)
    | with_reducible apply Post.bind_post (Q := fun (r : KCudfData × DTNode × Marks) => KCudfData.Dom n0 r.1)
    | with_reducible apply Post.bind_post (Q := fun (r : KCudfData × Marks) => KCudfData.Dom n0 r.1)
    | with_reducible apply Post.bind_post (Q := fun (r : KCudfData × Nat) => KCudfData.Dom n0 r.1)
    | with_reducible apply Post.bind_post (Q := fun (r : KCudfData × DTNode × Nat) => KCudfData.Dom n0 r.1)
    | with_reducible apply Post.bind_post (Q := fun (r : Bool × KCudfData) => KCudfData.Dom n0 r.2)
    | with_reducible apply Post.bind_post (Q := fun (r : KCudfData × DTNode) => KCudfData.Dom n0 r.1)
    | with_reducible apply Post.bind_post (Q := fun (r : KCudfData × TranslatorStats) => KCudfData.Dom n0 r.1)
    | with_reducible apply Post.bind_post (Q := fun _ => True)
    | intro _
    | split)

theorem dom_newDisjunction (n0 : Nat) (d : KCudfData) (s : String) (h : KCudfData.Dom n0 d) :
    Post (fun r => KCudfData.Dom n0 r.2) (d.newDisjunction s) := by
  unfold KCudfData.newDisjunction
  try simp only [KCudfData.newDisjunctionObject, KCudfData.specvAt, KCudfData.concreteAt]
  repeat (first
    | assumption
    | exact KCudfData.Dom.fresh_dom (by assumption) _ _ rfl rfl
    | exact KCudfData.Dom.put_dom (by assumption) (by assumption)
    | exact Post.throw_post _
    | (apply Post.pure_post; first | assumption | exact KCudfData.Dom.fresh_dom (by assumption) _ _ rfl rfl | exact KCudfData.Dom.put_dom (by assumption) (by assumption))
    | (apply dom_register; first | assumption | exact KCudfData.Dom.fresh_dom (by assumption) _ _ rfl rfl | exact KCudfData.Dom.put_dom (by assumption) (by assumption))
    | (refine Post.bind_post (post_obj _ _) ?_)
    | with_reducible apply Post.foldlM_post (Q := KCudfData.Dom n0)
    | with_reducible apply Post.foldlM_post (Q := fun (r : KCudfData × Marks) => KCudfData.Dom n0 r.1)
    | with_reducible apply Post.foldlM_post (Q := fun (r : KCudfData × Nat) => KCudfData.Dom n0 r.1)
    | with_reducible apply Post.foldlM_post (Q := fun (r : KCudfData × DTNode × Marks) => KCudfData.Dom n0 r.1)
    | with_reducible apply Post.foldlM_post (Q := fun (r : KCudfData × DTNode × Nat) => KCudfData.Dom n0 r.1)
    | exact Post.trivial _
    | with_reducible apply Post.bind_post (Q := KCudfData.Dom n0)
    | with_reducible apply Post.bind_post (Q := fun (r : Nat × KCudfData) => KCudfData.Dom n0 r.2)
    | with_reducible apply Post.bind_post (Q := fun (r : KCudfData × DTNode × Marks) => KCudfData.Dom n0 r.1)
    | with_reducible apply Post.bind_post (Q := fun (r : KCudfData × Marks) => KCudfData.Dom n0 r.1)
    | with_reducible apply Post.bind_post (Q := fun (r : KCudfData × Nat) => KCudfData.Dom n0 r.1)
    | with_reducible apply Post.bind_post (Q := fun (r : KCudfData × DTNode × Nat) => KCudfData.Dom n0 r.1)
    | with_reducible apply Post.bind_post (Q := fun (r : Bool × KCudfData) => KCudfData.Dom n0 r.2)
    | with_reducible apply Post.bind_post (Q := fun (r : KCudfData × DTNode) => KCudfData.Dom n0 r.1)
    | with_reducible apply Post.bind_post (Q := fun (r : KCudfData × TranslatorStats) => KCudfData.Dom n0 r.1)
    | with_reducible apply Post.bind_post (Q := fun _ => True)
    | intro _
    | split)

theorem dom_getDisjunction (n0 : Nat) (d : KCudfData) (name : String) (h : KCudfData.Dom n0 d) :
    Post (fun r => KCudfData.Dom n0 r.2) (d.getDisjunction name) := by
  unfold KCudfData.getDisjunction
  try simp only [KCudfData.newDisjunctionObject, KCudfData.specvAt, KCudfData.concreteAt]
  repeat (first
    | assumption
    | exact KCudfData.Dom.fresh_dom (by assumption) _ _ rfl rfl
    | exact KCudfData.Dom.put_dom (by assumption) (by assumption)
    | exact Post.throw_post _
    | (apply Post.pure_post; first | assumption | exact KCudfData.Dom.fresh_dom (by assumption) _ _ rfl rfl | exact KCudfData.Dom.put_dom (by assumption) (by assumption))
    | (apply dom_newDisjunction; first | assumption | exact KCudfData.Dom.fresh_dom (by assumption) _ _ rfl rfl | exact KCudfData.Dom.put_dom (by assumption) (by assumption))
    | (refine Post.bind_post (post_obj _ _) ?_)
    | with_reducible apply Post.foldlM_post (Q := KCudfData.Dom n0)
    | with_reducible apply Post.foldlM_post (Q := fun (r : KCudfData × Marks) => KCudfData.Dom n0 r.1)
    | with_reducible apply Post.foldlM_post (Q := fun (r : KCudfData × Nat) => KCudfData.Dom n0 r.1)
    | with_reducible apply Post.foldlM_post (Q := fun (r : KCudfData × DTNode × Marks) => KCudfData.Dom n0 r.1)
    | with_reducible apply Post.foldlM_post (Q := fun (r : KCudfData × DTNode × Nat) => KCudfData.Dom n0 r.1)
    | exact Post.trivial _
    | with_reducible apply Post.bind_post (Q := KCudfData.Dom n0)
    | with_reducible apply Post.bind_post (Q := fun (r : Nat × KCudfData) => KCudfData.Dom n0 r.2)
    | with_reducible apply Post.bind_post (Q := fun (r : KCudfData × DTNode × Marks) => KCudfData.Dom n0 r.1)
    | with_reducible apply Post.bind_post (Q := fun (r : KCudfData × Marks) => KCudfData.Dom n0 r.1)
    | with_reducible apply Post.bind_post (Q := fun (r : KCudfData × Nat) => KCudfData.Dom n0 r.1)
    | with_reducible apply Post.bind_post (Q := fun (r : KCudfData × DTNode × Nat) => KCudfData.Dom n0 r.1)
    | with_reducible apply Post.bind_post (Q := fun (r : Bool × KCudfData) => KCudfData.Dom n0 r.2)
    | with_reducible apply Post.bind_post (Q := fun (r : KCudfData × DTNode) => KCudfData.Dom n0 r.1)
    | with_reducible apply Post.bind_post (Q := fun (r : KCudfData × TranslatorStats) => KCudfData.Dom n0 r.1)
    | with_reducible apply Post.bind_post (Q := fun _ => True)
    | intro _
    | split)

theorem dom_addDisjunction (n0 : Nat) (d : KCudfData) (name : String) (version : Int)
    (h : KCudfData.Dom n0 d) :
    Post (fun r => KCudfData.Dom n0 r.2) (d.addDisjunction name version) := by
  unfold KCudfData.addDisjunction
  try simp only [KCudfData.newDisjunctionObject, KCudfData.specvAt, KCudfData.concreteAt]
  repeat (first
    | assumption
    | exact KCudfData.Dom.fresh_dom (by assumption) _ _ rfl rfl
    | exact KCudfData.Dom.put_dom (by assumption) (by assumption)
    | exact Post.throw_post _
    | (apply Post.pure_post; first | assumption | exact KCudfData.Dom.fresh_dom (by assumption) _ _ rfl rfl | exact KCudfData.Dom.put_dom (by assumption) (by assumption))
    | (apply dom_register; first | assumption | exact KCudfData.Dom.fresh_dom (by assumption) _ _ rfl rfl | exact KCudfData.Dom.put_dom (by assumption) (by assumption))
    | (refine Post.bind_post (post_obj _ _) ?_)
    | with_reducible apply Post.foldlM_post (Q := KCudfData.Dom n0)
    | with_reducible apply Post.foldlM_post (Q := fun (r : KCudfData × Marks) => KCudfData.Dom n0 r.1)
    | with_reducible apply Post.foldlM_post (Q := fun (r : KCudfData × Nat) => KCudfData.Dom n0 r.1)
    | with_reducible apply Post.foldlM_post (Q := fun (r : KCudfData × DTNode × Marks) => KCudfData.Dom n0 r.1)
    | with_reducible apply Post.foldlM_post (Q := fun (r : KCudfData × DTNode × Nat) => KCudfData.Dom n0 r.1)
    | exact Post.trivial _
    | with_reducible apply Post.bind_post (Q := KCudfData.Dom n0)
    | with_reducible apply Post.bind_post (Q := fun (r : Nat × KCudfData) => KCudfData.Dom n0 r.2)
    | with_reducible apply Post.bind_post (Q := fun (r : KCudfData × DTNode × Marks) => KCudfData.Dom n0 r.1)
    | with_reducible apply Post.bind_post (Q := fun (r : KCudfData × Marks) => KCudfData.Dom n0 r.1)
    | with_reducible apply Post.bind_post (Q := fun (r : KCudfData × Nat) => KCudfData.Dom n0 r.1)
    | with_reducible apply Post.bind_post (Q := fun (r : KCudfData × DTNode × Nat) => KCudfData.Dom n0 r.1)
    | with_reducible apply Post.bind_post (Q := fun (r : Bool × KCudfData) => KCudfData.Dom n0 r.2)
    | with_reducible apply Post.bind_post (Q := fun (r : KCudfData × DTNode) => KCudfData.Dom n0 r.1)
    | with_reducible apply Post.bind_post (Q := fun (r : KCudfData × TranslatorStats) => KCudfData.Dom n0 r.1)
    | with_reducible apply Post.bind_post (Q := fun _ => True)
    | intro _
    | split)

theorem dom_addDepDisjunction (n0 : Nat) (d : KCudfData) (name : String) (version : Int)
    (h : KCudfData.Dom n0 d) :
    Post (fun r => KCudfData.Dom n0 r.2) (d.addDepDisjunction name version) := by
  unfold KCudfData.addDepDisjunction
  try simp only [KCudfData.newDisjunctionObject, KCudfData.specvAt, KCudfData.concreteAt]
  repeat (first
    | assumption
    | exact KCudfData.Dom.fresh_dom (by assumption) _ _ rfl rfl
    | exact KCudfData.Dom.put_dom (by assumption) (by assumption)
    | exact Post.throw_post _
    | (apply Post.pure_post; first | assumption | exact KCudfData.Dom.fresh_dom (by assumption) _ _ rfl rfl | exact KCudfData.Dom.put_dom (by assumption) (by assumption))
    | (apply dom_addProvider; first | assumption | exact KCudfData.Dom.fresh_dom (by assumption) _ _ rfl rfl | exact KCudfData.Dom.put_dom (by assumption) (by assumption))
    | (apply dom_register; first | assumption | exact KCudfData.Dom.fresh_dom (by assumption) _ _ rfl rfl | exact KCudfData.Dom.put_dom (by assumption) (by assumption))
    | (apply dom_getDisjunction; first | assumption | exact KCudfData.Dom.fresh_dom (by assumption) _ _ rfl rfl | exact KCudfData.Dom.put_dom (by assumption) (by assumption))
    | (refine Post.bind_post (post_obj _ _) ?_)
    | with_reducible apply Post.foldlM_post (Q := KCudfData.Dom n0)
    | with_reducible apply Post.foldlM_post (Q := fun (r : KCudfData × Marks) => KCudfData.Dom n0 r.1)
    | with_reducible apply Post.foldlM_post (Q := fun (r : KCudfData × Nat) => KCudfData.Dom n0 r.1)
    | with_reducible apply Post.foldlM_post (Q := fun (r : KCudfData × DTNode × Marks) => KCudfData.Dom n0 r.1)
    | with_reducible apply Post.foldlM_post (Q := fun (r : KCudfData × DTNode × Nat) => KCudfData.Dom n0 r.1)
    | exact Post.trivial _
    | with_reducible apply Post.bind_post (Q := KCudfData.Dom n0)
    | with_reducible apply Post.bind_post (Q := fun (r : Nat × KCudfData) => KCudfData.Dom n0 r.2)
    | with_reducible apply Post.bind_post (Q := fun (r : KCudfData × DTNode × Marks) => KCudfData.Dom n0 r.1)
    | with_reducible apply Post.bind_post (Q := fun (r : KCudfData × Marks) => KCudfData.Dom n0 r.1)
    | with_reducible apply Post.bind_post (Q := fun (r : KCudfData × Nat) => KCudfData.Dom n0 r.1)
    | with_reducible apply Post.bind_post (Q := fun (r : KCudfData × DTNode × Nat) => KCudfData.Dom n0 r.1)
    | with_reducible apply Post.bind_post (Q := fun (r : Bool × KCudfData) => KCudfData.Dom n0 r.2)
    | with_reducible apply Post.bind_post (Q := fun (r : KCudfData × DTNode) => KCudfData.Dom n0 r.1)
    | with_reducible apply Post.bind_post (Q := fun (r : KCudfData × TranslatorStats) => KCudfData.Dom n0 r.1)
    | with_reducible apply Post.bind_post (Q := fun _ => True)
    | intro _
    | split)

theorem dom_getDepDisjunction (n0 : Nat) (pr : Printer) (d : KCudfData) (cs : Vpkg)
    (h : KCudfData.Dom n0 d) :
    Post (fun r => KCudfData.Dom n0 r.2) (KCudfData.getDepDisjunction pr d cs) := by
  unfold KCudfData.getDepDisjunction
  try simp only [KCudfData.newDisjunctionObject, KCudfData.specvAt, KCudfData.concreteAt]
  repeat (first
    | assumption
    | exact KCudfData.Dom.fresh_dom (by assumption) _ _ rfl rfl
    | exact KCudfData.Dom.put_dom (by assumption) (by assumption)
    | exact Post.throw_post _
    | (apply Post.pure_post; first | assumption | exact KCudfData.Dom.fresh_dom (by assumption) _ _ rfl rfl | exact KCudfData.Dom.put_dom (by assumption) (by assumption))
    | (apply dom_addProvider; first | assumption | exact KCudfData.Dom.fresh_dom (by assumption) _ _ rfl rfl | exact KCudfData.Dom.put_dom (by assumption) (by assumption))
    | (apply dom_newDisjunction; first | assumption | exact KCudfData.Dom.fresh_dom (by assumption) _ _ rfl rfl | exact KCudfData.Dom.put_dom (by assumption) (by assumption))
    | (refine Post.bind_post (post_obj _ _) ?_)
    | with_reducible apply Post.foldlM_post (Q := KCudfData.Dom n0)
    | with_reducible apply Post.foldlM_post (Q := fun (r : KCudfData × Marks) => KCudfData.Dom n0 r.1)
    | with_reducible apply Post.foldlM_post (Q := fun (r : KCudfData × Nat) => KCudfData.Dom n0 r.1)
    | with_reducible apply Post.foldlM_post (Q := fun (r : KCudfData × DTNode × Marks) => KCudfData.Dom n0 r.1)
    | with_reducible apply Post.foldlM_post (Q := fun (r : KCudfData × DTNode × Nat) => KCudfData.Dom n0 r.1)
    | exact Post.trivial _
    | with_reducible apply Post.bind_post (Q := KCudfData.Dom n0)
    | with_reducible apply Post.bind_post (Q := fun (r : Nat × KCudfData) => KCudfData.Dom n0 r.2)
    | with_reducible apply Post.bind_post (Q := fun (r : KCudfData × DTNode × Marks) => KCudfData.Dom n0 r.1)
    | with_reducible apply Post.bind_post (Q := fun (r : KCudfData × Marks) => KCudfData.Dom n0 r.1)
    | with_reducible apply Post.bind_post (Q := fun (r : KCudfData × Nat) => KCudfData.Dom n0 r.1)
    | with_reducible apply Post.bind_post (Q := fun (r : KCudfData × DTNode × Nat) => KCudfData.Dom n0 r.1)
    | with_reducible apply Post.bind_post (Q := fun (r : Bool × KCudfData) => KCudfData.Dom n0 r.2)
    | with_reducible apply Post.bind_post (Q := fun (r : KCudfData × DTNode) => KCudfData.Dom n0 r.1)
    | with_reducible apply Post.bind_post (Q := fun (r : KCudfData × TranslatorStats) => KCudfData.Dom n0 r.1)
    | with_reducible apply Post.bind_post (Q := fun _ => True)
    | intro _
    | split)

theorem dom_getDisjunctionOf (n0 : Nat) (pr : Printer) (d : KCudfData) (cs : Vpkg)
    (h : KCudfData.Dom n0 d) :
    Post (fun r => KCudfData.Dom n0 r.2) (KCudfData.getDisjunctionOf pr d cs) := by
  unfold KCudfData.getDisjunctionOf
  try simp only [KCudfData.newDisjunctionObject, KCudfData.specvAt, KCudfData.concreteAt]
  repeat (first
    | assumption
    | exact KCudfData.Dom.fresh_dom (by assumption) _ _ rfl rfl
    | exact KCudfData.Dom.put_dom (by assumption) (by assumption)
    | exact Post.throw_post _
    | (apply Post.pure_post; first | assumption | exact KCudfData.Dom.fresh_dom (by assumption) _ _ rfl rfl | exact KCudfData.Dom.put_dom (by assumption) (by assumption))
    | (apply dom_addProvider; first | assumption | exact KCudfData.Dom.fresh_dom (by assumption) _ _ rfl rfl | exact KCudfData.Dom.put_dom (by assumption) (by assumption))
    | (apply dom_newDisjunction; first | assumption | exact KCudfData.Dom.fresh_dom (by assumption) _ _ rfl rfl | exact KCudfData.Dom.put_dom (by assumption) (by assumption))
    | (refine Post.bind_post (post_obj _ _) ?_)
    | with_reducible apply Post.foldlM_post (Q := KCudfData.Dom n0)
    | with_reducible apply Post.foldlM_post (Q := fun (r : KCudfData × Marks) => KCudfData.Dom n0 r.1)
    | with_reducible apply Post.foldlM_post (Q := fun (r : KCudfData × Nat) => KCudfData.Dom n0 r.1)
    | with_reducible apply Post.foldlM_post (Q := fun (r : KCudfData × DTNode × Marks) => KCudfData.Dom n0 r.1)
    | with_reducible apply Post.foldlM_post (Q := fun (r : KCudfData × DTNode × Nat) => KCudfData.Dom n0 r.1)
    | exact Post.trivial _
    | with_reducible apply Post.bind_post (Q := KCudfData.Dom n0)
    | with_reducible apply Post.bind_post (Q := fun (r : Nat × KCudfData) => KCudfData.Dom n0 r.2)
    | with_reducible apply Post.bind_post (Q := fun (r : KCudfData × DTNode × Marks) => KCudfData.Dom n0 r.1)
    | with_reducible apply Post.bind_post (Q := fun (r : KCudfData × Marks) => KCudfData.Dom n0 r.1)
    | with_reducible apply Post.bind_post (Q := fun (r : KCudfData × Nat) => KCudfData.Dom n0 r.1)
    | with_reducible apply Post.bind_post (Q := fun (r : KCudfData × DTNode × Nat) => KCudfData.Dom n0 r.1)
    | with_reducible apply Post.bind_post (Q := fun (r : Bool × KCudfData) => KCudfData.Dom n0 r.2)
    | with_reducible apply Post.bind_post (Q := fun (r : KCudfData × DTNode) => KCudfData.Dom n0 r.1)
    | with_reducible apply Post.bind_post (Q := fun (r : KCudfData × TranslatorStats) => KCudfData.Dom n0 r.1)
    | with_reducible apply Post.bind_post (Q := fun _ => True)
    | intro _
    | split)

theorem dom_pairwiseConflicting (n0 : Nat) (d : KCudfData) (s : IdSet) (h : KCudfData.Dom n0 d) :
    Post (KCudfData.Dom n0) (d.pairwiseConflicting s) := by
  unfold KCudfData.pairwiseConflicting
  try simp only [KCudfData.newDisjunctionObject, KCudfData.specvAt, KCudfData.concreteAt]
  repeat (first
    | assumption
    | exact KCudfData.Dom.fresh_dom (by assumption) _ _ rfl rfl
    | exact KCudfData.Dom.put_dom (by assumption) (by assumption)
    | exact Post.throw_post _
    | (apply Post.pure_post; first | assumption | exact KCudfData.Dom.fresh_dom (by assumption) _ _ rfl rfl | exact KCudfData.Dom.put_dom (by assumption) (by assumption))
    | (apply dom_addConflict; first | assumption | exact KCudfData.Dom.fresh_dom (by assumption) _ _ rfl rfl | exact KCudfData.Dom.put_dom (by assumption) (by assumption))
    | (refine Post.bind_post (post_obj _ _) ?_)
    | with_reducible apply Post.foldlM_post (Q := KCudfData.Dom n0)
    | with_reducible apply Post.foldlM_post (Q := fun (r : KCudfData × Marks) => KCudfData.Dom n0 r.1)
    | with_reducible apply Post.foldlM_post (Q := fun (r : KCudfData × Nat) => KCudfData.Dom n0 r.1)
    | with_reducible apply Post.foldlM_post (Q := fun (r : KCudfData × DTNode × Marks) => KCudfData.Dom n0 r.1)
    | with_reducible apply Post.foldlM_post (Q := fun (r : KCudfData × DTNode × Nat) => KCudfData.Dom n0 r.1)
    | exact Post.trivial _
    | with_reducible apply Post.bind_post (Q := KCudfData.Dom n0)
    | with_reducible apply Post.bind_post (Q := fun (r : Nat × KCudfData) => KCudfData.Dom n0 r.2)
    | with_reducible apply Post.bind_post (Q := fun (r : KCudfData × DTNode × Marks) => KCudfData.Dom n0 r.1)
    | with_reducible apply Post.bind_post (Q := fun (r : KCudfData × Marks) => KCudfData.Dom n0 r.1)
    | with_reducible apply Post.bind_post (Q := fun (r : KCudfData × Nat) => KCudfData.Dom n0 r.1)
    | with_reducible apply Post.bind_post (Q := fun (r : KCudfData × DTNode × Nat) => KCudfData.Dom n0 r.1)
    | with_reducible apply Post.bind_post (Q := fun (r : Bool × KCudfData) => KCudfData.Dom n0 r.2)
    | with_reducible apply Post.bind_post (Q := fun (r : KCudfData × DTNode) => KCudfData.Dom n0 r.1)
    | with_reducible apply Post.bind_post (Q := fun (r : KCudfData × TranslatorStats) => KCudfData.Dom n0 r.1)
    | with_reducible apply Post.bind_post (Q := fun _ => True)
    | intro _
    | split)

set_option maxRecDepth 10000 in
theorem dom_processConcretePackage (n0 : Nat) (d : KCudfData) (pi : CudfPackage)
    (h : KCudfData.Dom n0 d) :
    Post (KCudfData.Dom n0) (d.processConcretePackage pi) := by
  unfold KCudfData.processConcretePackage
  try simp only [KCudfData.newDisjunctionObject, KCudfData.specvAt, KCudfData.concreteAt]
  repeat (first
    | assumption
    | exact KCudfData.Dom.fresh_dom (by assumption) _ _ rfl rfl
    | exact KCudfData.Dom.put_dom (by assumption) (by assumption)
    | exact Post.throw_post _
    | (apply Post.pure_post; first | assumption | exact KCudfData.Dom.fresh_dom (by assumption) _ _ rfl rfl | exact KCudfData.Dom.put_dom (by assumption) (by assumption))
    | (apply dom_addDependency; first | assumption | exact KCudfData.Dom.fresh_dom (by assumption) _ _ rfl rfl | exact KCudfData.Dom.put_dom (by assumption) (by assumption))
    | (apply dom_addProvider; first | assumption | exact KCudfData.Dom.fresh_dom (by assumption) _ _ rfl rfl | exact KCudfData.Dom.put_dom (by assumption) (by assumption))
    | (apply dom_newSelfPackage; first | assumption | exact KCudfData.Dom.fresh_dom (by assumption) _ _ rfl rfl | exact KCudfData.Dom.put_dom (by assumption) (by assumption))
    | (apply dom_register; first | assumption | exact KCudfData.Dom.fresh_dom (by assumption) _ _ rfl rfl | exact KCudfData.Dom.put_dom (by assumption) (by assumption))
    | (apply dom_getDisjunction; first | assumption | exact KCudfData.Dom.fresh_dom (by assumption) _ _ rfl rfl | exact KCudfData.Dom.put_dom (by assumption) (by assumption))
    | (refine Post.bind_post (post_obj _ _) ?_)
    | with_reducible apply Post.foldlM_post (Q := KCudfData.Dom n0)
    | with_reducible apply Post.foldlM_post (Q := fun (r : KCudfData × Marks) => KCudfData.Dom n0 r.1)
    | with_reducible apply Post.foldlM_post (Q := fun (r : KCudfData × Nat) => KCudfData.Dom n0 r.1)
    | with_reducible apply Post.foldlM_post (Q := fun (r : KCudfData × DTNode × Marks) => KCudfData.Dom n0 r.1)
    | with_reducible apply Post.foldlM_post (Q := fun (r : KCudfData × DTNode × Nat) => KCudfData.Dom n0 r.1)
    | exact Post.trivial _
    | with_reducible apply Post.bind_post (Q := KCudfData.Dom n0)
    | with_reducible apply Post.bind_post (Q := fun (r : Nat × KCudfData) => KCudfData.Dom n0 r.2)
    | with_reducible apply Post.bind_post (Q := fun (r : KCudfData × DTNode × Marks) => KCudfData.Dom n0 r.1)
    | with_reducible apply Post.bind_post (Q := fun (r : KCudfData × Marks) => KCudfData.Dom n0 r.1)
    | with_reducible apply Post.bind_post (Q := fun (r : KCudfData × Nat) => KCudfData.Dom n0 r.1)
    | with_reducible apply Post.bind_post (Q := fun (r : KCudfData × DTNode × Nat) => KCudfData.Dom n0 r.1)
    | with_reducible apply Post.bind_post (Q := fun (r : Bool × KCudfData) => KCudfData.Dom n0 r.2)
    | with_reducible apply Post.bind_post (Q := fun (r : KCudfData × DTNode) => KCudfData.Dom n0 r.1)
    | with_reducible apply Post.bind_post (Q := fun (r : KCudfData × TranslatorStats) => KCudfData.Dom n0 r.1)
    | with_reducible apply Post.bind_post (Q := fun _ => True)
    | intro _
    | split)

theorem dom_processConcretePackages (n0 : Nat) (d : KCudfData) (doc : CudfDoc)
    (h : KCudfData.Dom n0 d) :
    Post (KCudfData.Dom n0) (d.processConcretePackages doc) := by
  unfold KCudfData.processConcretePackages
  try simp only [KCudfData.newDisjunctionObject, KCudfData.specvAt, KCudfData.concreteAt]
  repeat (first
    | assumption
    | exact KCudfData.Dom.fresh_dom (by assumption) _ _ rfl rfl
    | exact KCudfData.Dom.put_dom (by assumption) (by assumption)
    | exact Post.throw_post _
    | (apply Post.pure_post; first | assumption | exact KCudfData.Dom.fresh_dom (by assumption) _ _ rfl rfl | exact KCudfData.Dom.put_dom (by assumption) (by assumption))
    | (apply dom_processConcretePackage; first | assumption | exact KCudfData.Dom.fresh_dom (by assumption) _ _ rfl rfl | exact KCudfData.Dom.put_dom (by assumption) (by assumption))
    | (refine Post.bind_post (post_obj _ _) ?_)
    | with_reducible apply Post.foldlM_post (Q := KCudfData.Dom n0)
    | with_reducible apply Post.foldlM_post (Q := fun (r : KCudfData × Marks) => KCudfData.Dom n0 r.1)
    | with_reducible apply Post.foldlM_post (Q := fun (r : KCudfData × Nat) => KCudfData.Dom n0 r.1)
    | with_reducible apply Post.foldlM_post (Q := fun (r : KCudfData × DTNode × Marks) => KCudfData.Dom n0 r.1)
    | with_reducible apply Post.foldlM_post (Q := fun (r : KCudfData × DTNode × Nat) => KCudfData.Dom n0 r.1)
    | exact Post.trivial _
    | with_reducible apply Post.bind_post (Q := KCudfData.Dom n0)
    | with_reducible apply Post.bind_post (Q := fun (r : Nat × KCudfData) => KCudfData.Dom n0 r.2)
    | with_reducible apply Post.bind_post (Q := fun (r : KCudfData × DTNode × Marks) => KCudfData.Dom n0 r.1)
    | with_reducible apply Post.bind_post (Q := fun (r : KCudfData × Marks) => KCudfData.Dom n0 r.1)
    | with_reducible apply Post.bind_post (Q := fun (r : KCudfData × Nat) => KCudfData.Dom n0 r.1)
    | with_reducible apply Post.bind_post (Q := fun (r : KCudfData × DTNode × Nat) => KCudfData.Dom n0 r.1)
    | with_reducible apply Post.bind_post (Q := fun (r : Bool × KCudfData) => KCudfData.Dom n0 r.2)
    | with_reducible apply Post.bind_post (Q := fun (r : KCudfData × DTNode) => KCudfData.Dom n0 r.1)
    | with_reducible apply Post.bind_post (Q := fun (r : KCudfData × TranslatorStats) => KCudfData.Dom n0 r.1)
    | with_reducible apply Post.bind_post (Q := fun _ => True)
    | intro _
    | split)

theorem dom_processInstalledPackage (n0 : Nat) (d : KCudfData) (pi : CudfPackage)
    (h : KCudfData.Dom n0 d) :
    Post (KCudfData.Dom n0) (d.processInstalledPackage pi) := by
  unfold KCudfData.processInstalledPackage
  try simp only [KCudfData.newDisjunctionObject, KCudfData.specvAt, KCudfData.concreteAt]
  repeat (first
    | assumption
    | exact KCudfData.Dom.fresh_dom (by assumption) _ _ rfl rfl
    | exact KCudfData.Dom.put_dom (by assumption) (by assumption)
    | exact Post.throw_post _
    | (apply Post.pure_post; first | assumption | exact KCudfData.Dom.fresh_dom (by assumption) _ _ rfl rfl | exact KCudfData.Dom.put_dom (by assumption) (by assumption))
    | (apply dom_addDependency; first | assumption | exact KCudfData.Dom.fresh_dom (by assumption) _ _ rfl rfl | exact KCudfData.Dom.put_dom (by assumption) (by assumption))
    | (apply dom_addProvider; first | assumption | exact KCudfData.Dom.fresh_dom (by assumption) _ _ rfl rfl | exact KCudfData.Dom.put_dom (by assumption) (by assumption))
    | (refine Post.bind_post (post_obj _ _) ?_)
    | with_reducible apply Post.foldlM_post (Q := KCudfData.Dom n0)
    | with_reducible apply Post.foldlM_post (Q := fun (r : KCudfData × Marks) => KCudfData.Dom n0 r.1)
    | with_reducible apply Post.foldlM_post (Q := fun (r : KCudfData × Nat) => KCudfData.Dom n0 r.1)
    | with_reducible apply Post.foldlM_post (Q := fun (r : KCudfData × DTNode × Marks) => KCudfData.Dom n0 r.1)
    | with_reducible apply Post.foldlM_post (Q := fun (r : KCudfData × DTNode × Nat) => KCudfData.Dom n0 r.1)
    | exact Post.trivial _
    | with_reducible apply Post.bind_post (Q := KCudfData.Dom n0)
    | with_reducible apply Post.bind_post (Q := fun (r : Nat × KCudfData) => KCudfData.Dom n0 r.2)
    | with_reducible apply Post.bind_post (Q := fun (r : KCudfData × DTNode × Marks) => KCudfData.Dom n0 r.1)
    | with_reducible apply Post.bind_post (Q := fun (r : KCudfData × Marks) => KCudfData.Dom n0 r.1)
    | with_reducible apply Post.bind_post (Q := fun (r : KCudfData × Nat) => KCudfData.Dom n0 r.1)
    | with_reducible apply Post.bind_post (Q := fun (r : KCudfData × DTNode × Nat) => KCudfData.Dom n0 r.1)
    | with_reducible apply Post.bind_post (Q := fun (r : Bool × KCudfData) => KCudfData.Dom n0 r.2)
    | with_reducible apply Post.bind_post (Q := fun (r : KCudfData × DTNode) => KCudfData.Dom n0 r.1)
    | with_reducible apply Post.bind_post (Q := fun (r : KCudfData × TranslatorStats) => KCudfData.Dom n0 r.1)
    | with_reducible apply Post.bind_post (Q := fun _ => True)
    | intro _
    | split)

theorem dom_processInstalledPackages (n0 : Nat) (d : KCudfData) (doc : CudfDoc)
    (h : KCudfData.Dom n0 d) :
    Post (KCudfData.Dom n0) (d.processInstalledPackages doc) := by
  unfold KCudfData.processInstalledPackages
  try simp only [KCudfData.newDisjunctionObject, KCudfData.specvAt, KCudfData.concreteAt]
  repeat (first
    | assumption
    | exact KCudfData.Dom.fresh_dom (by assumption) _ _ rfl rfl
    | exact KCudfData.Dom.put_dom (by assumption) (by assumption)
    | exact Post.throw_post _
    | (apply Post.pure_post; first | assumption | exact KCudfData.Dom.fresh_dom (by assumption) _ _ rfl rfl | exact KCudfData.Dom.put_dom (by assumption) (by assumption))
    | (apply dom_processInstalledPackage; first | assumption | exact KCudfData.Dom.fresh_dom (by assumption) _ _ rfl rfl | exact KCudfData.Dom.put_dom (by assumption) (by assumption))
    | (refine Post.bind_post (post_obj _ _) ?_)
    | with_reducible apply Post.foldlM_post (Q := KCudfData.Dom n0)
    | with_reducible apply Post.foldlM_post (Q := fun (r : KCudfData × Marks) => KCudfData.Dom n0 r.1)
    | with_reducible apply Post.foldlM_post (Q := fun (r : KCudfData × Nat) => KCudfData.Dom n0 r.1)
    | with_reducible apply Post.foldlM_post (Q := fun (r : KCudfData × DTNode × Marks) => KCudfData.Dom n0 r.1)
    | with_reducible apply Post.foldlM_post (Q := fun (r : KCudfData × DTNode × Nat) => KCudfData.Dom n0 r.1)
    | exact Post.trivial _
    | with_reducible apply Post.bind_post (Q := KCudfData.Dom n0)
    | with_reducible apply Post.bind_post (Q := fun (r : Nat × KCudfData) => KCudfData.Dom n0 r.2)
    | with_reducible apply Post.bind_post (Q := fun (r : KCudfData × DTNode × Marks) => KCudfData.Dom n0 r.1)
    | with_reducible apply Post.bind_post (Q := fun (r : KCudfData × Marks) => KCudfData.Dom n0 r.1)
    | with_reducible apply Post.bind_post (Q := fun (r : KCudfData × Nat) => KCudfData.Dom n0 r.1)
    | with_reducible apply Post.bind_post (Q := fun (r : KCudfData × DTNode × Nat) => KCudfData.Dom n0 r.1)
    | with_reducible apply Post.bind_post (Q := fun (r : Bool × KCudfData) => KCudfData.Dom n0 r.2)
    | with_reducible apply Post.bind_post (Q := fun (r : KCudfData × DTNode) => KCudfData.Dom n0 r.1)
    | with_reducible apply Post.bind_post (Q := fun (r : KCudfData × TranslatorStats) => KCudfData.Dom n0 r.1)
    | with_reducible apply Post.bind_post (Q := fun _ => True)
    | intro _
    | split)

set_option maxRecDepth 10000 in
theorem dom_processEqualityPackage (n0 : Nat) (d : KCudfData) (pi : CudfPackage)
    (h : KCudfData.Dom n0 d) :
    Post (KCudfData.Dom n0) (d.processEqualityPackage pi) := by
  unfold KCudfData.processEqualityPackage
  try simp only [KCudfData.newDisjunctionObject, KCudfData.specvAt, KCudfData.concreteAt]
  repeat (first
    | assumption
    | exact KCudfData.Dom.fresh_dom (by assumption) _ _ rfl rfl
    | exact KCudfData.Dom.put_dom (by assumption) (by assumption)
    | exact Post.throw_post _
    | (apply Post.pure_post; first | assumption | exact KCudfData.Dom.fresh_dom (by assumption) _ _ rfl rfl | exact KCudfData.Dom.put_dom (by assumption) (by assumption))
    | (apply dom_markInstall; first | assumption | exact KCudfData.Dom.fresh_dom (by assumption) _ _ rfl rfl | exact KCudfData.Dom.put_dom (by assumption) (by assumption))
    | (apply dom_markKeep; first | assumption | exact KCudfData.Dom.fresh_dom (by assumption) _ _ rfl rfl | exact KCudfData.Dom.put_dom (by assumption) (by assumption))
    | (apply dom_addConflict; first | assumption | exact KCudfData.Dom.fresh_dom (by assumption) _ _ rfl rfl | exact KCudfData.Dom.put_dom (by assumption) (by assumption))
    | (apply dom_addDependency; first | assumption | exact KCudfData.Dom.fresh_dom (by assumption) _ _ rfl rfl | exact KCudfData.Dom.put_dom (by assumption) (by assumption))
    | (apply dom_addProvider; first | assumption | exact KCudfData.Dom.fresh_dom (by assumption) _ _ rfl rfl | exact KCudfData.Dom.put_dom (by assumption) (by assumption))
    | (apply dom_getDisjunction; first | assumption | exact KCudfData.Dom.fresh_dom (by assumption) _ _ rfl rfl | exact KCudfData.Dom.put_dom (by assumption) (by assumption))
    | (apply dom_addDisjunction; first | assumption | exact KCudfData.Dom.fresh_dom (by assumption) _ _ rfl rfl | exact KCudfData.Dom.put_dom (by assumption) (by assumption))
    | (apply dom_addDepDisjunction; first | assumption | exact KCudfData.Dom.fresh_dom (by assumption) _ _ rfl rfl | exact KCudfData.Dom.put_dom (by assumption) (by assumption))
    | (refine Post.bind_post (post_obj _ _) ?_)
    | with_reducible apply Post.foldlM_post (Q := KCudfData.Dom n0)
    | with_reducible apply Post.foldlM_post (Q := fun (r : KCudfData × Marks) => KCudfData.Dom n0 r.1)
    | with_reducible apply Post.foldlM_post (Q := fun (r : KCudfData × Nat) => KCudfData.Dom n0 r.1)
    | with_reducible apply Post.foldlM_post (Q := fun (r : KCudfData × DTNode × Marks) => KCudfData.Dom n0 r.1)
    | with_reducible apply Post.foldlM_post (Q := fun (r : KCudfData × DTNode × Nat) => KCudfData.Dom n0 r.1)
    | exact Post.trivial _
    | with_reducible apply Post.bind_post (Q := KCudfData.Dom n0)
    | with_reducible apply Post.bind_post (Q := fun (r : Nat × KCudfData) => KCudfData.Dom n0 r.2)
    | with_reducible apply Post.bind_post (Q := fun (r : KCudfData × DTNode × Marks) => KCudfData.Dom n0 r.1)
    | with_reducible apply Post.bind_post (Q := fun (r : KCudfData × Marks) => KCudfData.Dom n0 r.1)
    | with_reducible apply Post.bind_post (Q := fun (r : KCudfData × Nat) => KCudfData.Dom n0 r.1)
    | with_reducible apply Post.bind_post (Q := fun (r : KCudfData × DTNode × Nat) => KCudfData.Dom n0 r.1)
    | with_reducible apply Post.bind_post (Q := fun (r : Bool × KCudfData) => KCudfData.Dom n0 r.2)
    | with_reducible apply Post.bind_post (Q := fun (r : KCudfData × DTNode) => KCudfData.Dom n0 r.1)
    | with_reducible apply Post.bind_post (Q := fun (r : KCudfData × TranslatorStats) => KCudfData.Dom n0 r.1)
    | with_reducible apply Post.bind_post (Q := fun _ => True)
    | intro _
    | split)

theorem dom_processEqualityRequest (n0 : Nat) (d : KCudfData) (vpks : List Vpkg)
    (h : KCudfData.Dom n0 d) :
    Post (KCudfData.Dom n0) (d.processEqualityRequest vpks) := by
  unfold KCudfData.processEqualityRequest
  try simp only [KCudfData.newDisjunctionObject, KCudfData.specvAt, KCudfData.concreteAt]
  repeat (first
    | assumption
    | exact KCudfData.Dom.fresh_dom (by assumption) _ _ rfl rfl
    | exact KCudfData.Dom.put_dom (by assumption) (by assumption)
    | exact Post.throw_post _
    | (apply Post.pure_post; first | assumption | exact KCudfData.Dom.fresh_dom (by assumption) _ _ rfl rfl | exact KCudfData.Dom.put_dom (by assumption) (by assumption))
    | (apply dom_addDisjunction; first | assumption | exact KCudfData.Dom.fresh_dom (by assumption) _ _ rfl rfl | exact KCudfData.Dom.put_dom (by assumption) (by assumption))
    | (refine Post.bind_post (post_obj _ _) ?_)
    | with_reducible apply Post.foldlM_post (Q := KCudfData.Dom n0)
    | with_reducible apply Post.foldlM_post (Q := fun (r : KCudfData × Marks) => KCudfData.Dom n0 r.1)
    | with_reducible apply Post.foldlM_post (Q := fun (r : KCudfData × Nat) => KCudfData.Dom n0 r.1)
    | with_reducible apply Post.foldlM_post (Q := fun (r : KCudfData × DTNode × Marks) => KCudfData.Dom n0 r.1)
    | with_reducible apply Post.foldlM_post (Q := fun (r : KCudfData × DTNode × Nat) => KCudfData.Dom n0 r.1)
    | exact Post.trivial _
    | with_reducible apply Post.bind_post (Q := KCudfData.Dom n0)
    | with_reducible apply Post.bind_post (Q := fun (r : Nat × KCudfData) => KCudfData.Dom n0 r.2)
    | with_reducible apply Post.bind_post (Q := fun (r : KCudfData × DTNode × Marks) => KCudfData.Dom n0 r.1)
    | with_reducible apply Post.bind_post (Q := fun (r : KCudfData × Marks) => KCudfData.Dom n0 r.1)
    | with_reducible apply Post.bind_post (Q := fun (r : KCudfData × Nat) => KCudfData.Dom n0 r.1)
    | with_reducible apply Post.bind_post (Q := fun (r : KCudfData × DTNode × Nat) => KCudfData.Dom n0 r.1)
    | with_reducible apply Post.bind_post (Q := fun (r : Bool × KCudfData) => KCudfData.Dom n0 r.2)
    | with_reducible apply Post.bind_post (Q := fun (r : KCudfData × DTNode) => KCudfData.Dom n0 r.1)
    | with_reducible apply Post.bind_post (Q := fun (r : KCudfData × TranslatorStats) => KCudfData.Dom n0 r.1)
    | with_reducible apply Post.bind_post (Q := fun _ => True)
    | intro _
    | split)

theorem dom_processEqualityConstraints (n0 : Nat) (d : KCudfData) (doc : CudfDoc)
    (h : KCudfData.Dom n0 d) :
    Post (KCudfData.Dom n0) (d.processEqualityConstraints doc) := by
  unfold KCudfData.processEqualityConstraints
  try simp only [KCudfData.newDisjunctionObject, KCudfData.specvAt, KCudfData.concreteAt]
  repeat (first
    | assumption
    | exact KCudfData.Dom.fresh_dom (by assumption) _ _ rfl rfl
    | exact KCudfData.Dom.put_dom (by assumption) (by assumption)
    | exact Post.throw_post _
    | (apply Post.pure_post; first | assumption | exact KCudfData.Dom.fresh_dom (by assumption) _ _ rfl rfl | exact KCudfData.Dom.put_dom (by assumption) (by assumption))
    | (apply dom_processEqualityPackage; first | assumption | exact KCudfData.Dom.fresh_dom (by assumption) _ _ rfl rfl | exact KCudfData.Dom.put_dom (by assumption) (by assumption))
    | (apply dom_processEqualityRequest; first | assumption | exact KCudfData.Dom.fresh_dom (by assumption) _ _ rfl rfl | exact KCudfData.Dom.put_dom (by assumption) (by assumption))
    | (refine Post.bind_post (post_obj _ _) ?_)
    | with_reducible apply Post.foldlM_post (Q := KCudfData.Dom n0)
    | with_reducible apply Post.foldlM_post (Q := fun (r : KCudfData × Marks) => KCudfData.Dom n0 r.1)
    | with_reducible apply Post.foldlM_post (Q := fun (r : KCudfData × Nat) => KCudfData.Dom n0 r.1)
    | with_reducible apply Post.foldlM_post (Q := fun (r : KCudfData × DTNode × Marks) => KCudfData.Dom n0 r.1)
    | with_reducible apply Post.foldlM_post (Q := fun (r : KCudfData × DTNode × Nat) => KCudfData.Dom n0 r.1)
    | exact Post.trivial _
    | with_reducible apply Post.bind_post (Q := KCudfData.Dom n0)
    | with_reducible apply Post.bind_post (Q := fun (r : Nat × KCudfData) => KCudfData.Dom n0 r.2)
    | with_reducible apply Post.bind_post (Q := fun (r : KCudfData × DTNode × Marks) => KCudfData.Dom n0 r.1)
    | with_reducible apply Post.bind_post (Q := fun (r : KCudfData × Marks) => KCudfData.Dom n0 r.1)
    | with_reducible apply Post.bind_post (Q := fun (r : KCudfData × Nat) => KCudfData.Dom n0 r.1)
    | with_reducible apply Post.bind_post (Q := fun (r : KCudfData × DTNode × Nat) => KCudfData.Dom n0 r.1)
    | with_reducible apply Post.bind_post (Q := fun (r : Bool × KCudfData) => KCudfData.Dom n0 r.2)
    | with_reducible apply Post.bind_post (Q := fun (r : KCudfData × DTNode) => KCudfData.Dom n0 r.1)
    | with_reducible apply Post.bind_post (Q := fun (r : KCudfData × TranslatorStats) => KCudfData.Dom n0 r.1)
    | with_reducible apply Post.bind_post (Q := fun _ => True)
    | intro _
    | split)

theorem dom_processProvidesPackage (n0 : Nat) (d : KCudfData) (pi : CudfPackage)
    (h : KCudfData.Dom n0 d) :
    Post (KCudfData.Dom n0) (d.processProvidesPackage pi) := by
  unfold KCudfData.processProvidesPackage
  try simp only [KCudfData.newDisjunctionObject, KCudfData.specvAt, KCudfData.concreteAt]
  repeat (first
    | assumption
    | exact KCudfData.Dom.fresh_dom (by assumption) _ _ rfl rfl
    | exact KCudfData.Dom.put_dom (by assumption) (by assumption)
    | exact Post.throw_post _
    | (apply Post.pure_post; first | assumption | exact KCudfData.Dom.fresh_dom (by assumption) _ _ rfl rfl | exact KCudfData.Dom.put_dom (by assumption) (by assumption))
    | (apply dom_addDependency; first | assumption | exact KCudfData.Dom.fresh_dom (by assumption) _ _ rfl rfl | exact KCudfData.Dom.put_dom (by assumption) (by assumption))
    | (apply dom_addProvider; first | assumption | exact KCudfData.Dom.fresh_dom (by assumption) _ _ rfl rfl | exact KCudfData.Dom.put_dom (by assumption) (by assumption))
    | (apply dom_getDisjunction; first | assumption | exact KCudfData.Dom.fresh_dom (by assumption) _ _ rfl rfl | exact KCudfData.Dom.put_dom (by assumption) (by assumption))
    | (refine Post.bind_post (post_obj _ _) ?_)
    | with_reducible apply Post.foldlM_post (Q := KCudfData.Dom n0)
    | with_reducible apply Post.foldlM_post (Q := fun (r : KCudfData × Marks) => KCudfData.Dom n0 r.1)
    | with_reducible apply Post.foldlM_post (Q := fun (r : KCudfData × Nat) => KCudfData.Dom n0 r.1)
    | with_reducible apply Post.foldlM_post (Q := fun (r : KCudfData × DTNode × Marks) => KCudfData.Dom n0 r.1)
    | with_reducible apply Post.foldlM_post (Q := fun (r : KCudfData × DTNode × Nat) => KCudfData.Dom n0 r.1)
    | exact Post.trivial _
    | with_reducible apply Post.bind_post (Q := KCudfData.Dom n0)
    | with_reducible apply Post.bind_post (Q := fun (r : Nat × KCudfData) => KCudfData.Dom n0 r.2)
    | with_reducible apply Post.bind_post (Q := fun (r : KCudfData × DTNode × Marks) => KCudfData.Dom n0 r.1)
    | with_reducible apply Post.bind_post (Q := fun (r : KCudfData × Marks) => KCudfData.Dom n0 r.1)
    | with_reducible apply Post.bind_post (Q := fun (r : KCudfData × Nat) => KCudfData.Dom n0 r.1)
    | with_reducible apply Post.bind_post (Q := fun (r : KCudfData × DTNode × Nat) => KCudfData.Dom n0 r.1)
    | with_reducible apply Post.bind_post (Q := fun (r : Bool × KCudfData) => KCudfData.Dom n0 r.2)
    | with_reducible apply Post.bind_post (Q := fun (r : KCudfData × DTNode) => KCudfData.Dom n0 r.1)
    | with_reducible apply Post.bind_post (Q := fun (r : KCudfData × TranslatorStats) => KCudfData.Dom n0 r.1)
    | with_reducible apply Post.bind_post (Q := fun _ => True)
    | intro _
    | split)

theorem dom_processProvides (n0 : Nat) (d : KCudfData) (doc : CudfDoc) (h : KCudfData.Dom n0 d) :
    Post (KCudfData.Dom n0) (d.processProvides doc) := by
  unfold KCudfData.processProvides
  try simp only [KCudfData.newDisjunctionObject, KCudfData.specvAt, KCudfData.concreteAt]
  repeat (first
    | assumption
    | exact KCudfData.Dom.fresh_dom (by assumption) _ _ rfl rfl
    | exact KCudfData.Dom.put_dom (by assumption) (by assumption)
    | exact Post.throw_post _
    | (apply Post.pure_post; first | assumption | exact KCudfData.Dom.fresh_dom (by assumption) _ _ rfl rfl | exact KCudfData.Dom.put_dom (by assumption) (by assumption))
    | (apply dom_processProvidesPackage; first | assumption | exact KCudfData.Dom.fresh_dom (by assumption) _ _ rfl rfl | exact KCudfData.Dom.put_dom (by assumption) (by assumption))
    | (refine Post.bind_post (post_obj _ _) ?_)
    | with_reducible apply Post.foldlM_post (Q := KCudfData.Dom n0)
    | with_reducible apply Post.foldlM_post (Q := fun (r : KCudfData × Marks) => KCudfData.Dom n0 r.1)
    | with_reducible apply Post.foldlM_post (Q := fun (r : KCudfData × Nat) => KCudfData.Dom n0 r.1)
    | with_reducible apply Post.foldlM_post (Q := fun (r : KCudfData × DTNode × Marks) => KCudfData.Dom n0 r.1)
    | with_reducible apply Post.foldlM_post (Q := fun (r : KCudfData × DTNode × Nat) => KCudfData.Dom n0 r.1)
    | exact Post.trivial _
    | with_reducible apply Post.bind_post (Q := KCudfData.Dom n0)
    | with_reducible apply Post.bind_post (Q := fun (r : Nat × KCudfData) => KCudfData.Dom n0 r.2)
    | with_reducible apply Post.bind_post (Q := fun (r : KCudfData × DTNode × Marks) => KCudfData.Dom n0 r.1)
    | with_reducible apply Post.bind_post (Q := fun (r : KCudfData × Marks) => KCudfData.Dom n0 r.1)
    | with_reducible apply Post.bind_post (Q := fun (r : KCudfData × Nat) => KCudfData.Dom n0 r.1)
    | with_reducible apply Post.bind_post (Q := fun (r : KCudfData × DTNode × Nat) => KCudfData.Dom n0 r.1)
    | with_reducible apply Post.bind_post (Q := fun (r : Bool × KCudfData) => KCudfData.Dom n0 r.2)
    | with_reducible apply Post.bind_post (Q := fun (r : KCudfData × DTNode) => KCudfData.Dom n0 r.1)
    | with_reducible apply Post.bind_post (Q := fun (r : KCudfData × TranslatorStats) => KCudfData.Dom n0 r.1)
    | with_reducible apply Post.bind_post (Q := fun _ => True)
    | intro _
    | split)

theorem dom_newDependencyDisjunction (n0 : Nat) (pr : Printer) (d : KCudfData) (cpi_pkg : Nat) (cni : List Vpkg)
    (h : KCudfData.Dom n0 d) :
    Post (KCudfData.Dom n0) (KCudfData.newDependencyDisjunction pr d cpi_pkg cni) := by
  unfold KCudfData.newDependencyDisjunction
  try simp only [KCudfData.newDisjunctionObject, KCudfData.specvAt, KCudfData.concreteAt]
  repeat (first
    | assumption
    | exact KCudfData.Dom.fresh_dom (by assumption) _ _ rfl rfl
    | exact KCudfData.Dom.put_dom (by assumption) (by assumption)
    | exact Post.throw_post _
    | (apply Post.pure_post; first | assumption | exact KCudfData.Dom.fresh_dom (by assumption) _ _ rfl rfl | exact KCudfData.Dom.put_dom (by assumption) (by assumption))
    | (apply dom_addDependency; first | assumption | exact KCudfData.Dom.fresh_dom (by assumption) _ _ rfl rfl | exact KCudfData.Dom.put_dom (by assumption) (by assumption))
    | (apply dom_addProvider; first | assumption | exact KCudfData.Dom.fresh_dom (by assumption) _ _ rfl rfl | exact KCudfData.Dom.put_dom (by assumption) (by assumption))
    | (apply dom_newDisjunction; first | assumption | exact KCudfData.Dom.fresh_dom (by assumption) _ _ rfl rfl | exact KCudfData.Dom.put_dom (by assumption) (by assumption))
    | (refine Post.bind_post (post_obj _ _) ?_)
    | with_reducible apply Post.foldlM_post (Q := KCudfData.Dom n0)
    | with_reducible apply Post.foldlM_post (Q := fun (r : KCudfData × Marks) => KCudfData.Dom n0 r.1)
    | with_reducible apply Post.foldlM_post (Q := fun (r : KCudfData × Nat) => KCudfData.Dom n0 r.1)
    | with_reducible apply Post.foldlM_post (Q := fun (r : KCudfData × DTNode × Marks) => KCudfData.Dom n0 r.1)
    | with_reducible apply Post.foldlM_post (Q := fun (r : KCudfData × DTNode × Nat) => KCudfData.Dom n0 r.1)
    | exact Post.trivial _
    | with_reducible apply Post.bind_post (Q := KCudfData.Dom n0)
    | with_reducible apply Post.bind_post (Q := fun (r : Nat × KCudfData) => KCudfData.Dom n0 r.2)
    | with_reducible apply Post.bind_post (Q := fun (r : KCudfData × DTNode × Marks) => KCudfData.Dom n0 r.1)
    | with_reducible apply Post.bind_post (Q := fun (r : KCudfData × Marks) => KCudfData.Dom n0 r.1)
    | with_reducible apply Post.bind_post (Q := fun (r : KCudfData × Nat) => KCudfData.Dom n0 r.1)
    | with_reducible apply Post.bind_post (Q := fun (r : KCudfData × DTNode × Nat) => KCudfData.Dom n0 r.1)
    | with_reducible apply Post.bind_post (Q := fun (r : Bool × KCudfData) => KCudfData.Dom n0 r.2)
    | with_reducible apply Post.bind_post (Q := fun (r : KCudfData × DTNode) => KCudfData.Dom n0 r.1)
    | with_reducible apply Post.bind_post (Q := fun (r : KCudfData × TranslatorStats) => KCudfData.Dom n0 r.1)
    | with_reducible apply Post.bind_post (Q := fun _ => True)
    | intro _
    | split)

theorem dom_processRangeDependency (n0 : Nat) (pr : Printer) (cpi_pkg : Nat) (d : KCudfData) (cni : List Vpkg)
    (h : KCudfData.Dom n0 d) :
    Post (KCudfData.Dom n0) (KCudfData.processRangeDependency pr cpi_pkg d cni) := by
  unfold KCudfData.processRangeDependency
  try simp only [KCudfData.newDisjunctionObject, KCudfData.specvAt, KCudfData.concreteAt]
  repeat (first
    | assumption
    | exact KCudfData.Dom.fresh_dom (by assumption) _ _ rfl rfl
    | exact KCudfData.Dom.put_dom (by assumption) (by assumption)
    | exact Post.throw_post _
    | (apply Post.pure_post; first | assumption | exact KCudfData.Dom.fresh_dom (by assumption) _ _ rfl rfl | exact KCudfData.Dom.put_dom (by assumption) (by assumption))
    | (apply dom_addDependency; first | assumption | exact KCudfData.Dom.fresh_dom (by assumption) _ _ rfl rfl | exact KCudfData.Dom.put_dom (by assumption) (by assumption))
    | (apply dom_getDepDisjunction; first | assumption | exact KCudfData.Dom.fresh_dom (by assumption) _ _ rfl rfl | exact KCudfData.Dom.put_dom (by assumption) (by assumption))
    | (apply dom_newDependencyDisjunction; first | assumption | exact KCudfData.Dom.fresh_dom (by assumption) _ _ rfl rfl | exact KCudfData.Dom.put_dom (by assumption) (by assumption))
    | (refine Post.bind_post (post_obj _ _) ?_)
    | with_reducible apply Post.foldlM_post (Q := KCudfData.Dom n0)
    | with_reducible apply Post.foldlM_post (Q := fun (r : KCudfData × Marks) => KCudfData.Dom n0 r.1)
    | with_reducible apply Post.foldlM_post (Q := fun (r : KCudfData × Nat) => KCudfData.Dom n0 r.1)
    | with_reducible apply Post.foldlM_post (Q := fun (r : KCudfData × DTNode × Marks) => KCudfData.Dom n0 r.1)
    | with_reducible apply Post.foldlM_post (Q := fun (r : KCudfData × DTNode × Nat) => KCudfData.Dom n0 r.1)
    | exact Post.trivial _
    | with_reducible apply Post.bind_post (Q := KCudfData.Dom n0)
    | with_reducible apply Post.bind_post (Q := fun (r : Nat × KCudfData) => KCudfData.Dom n0 r.2)
    | with_reducible apply Post.bind_post (Q := fun (r : KCudfData × DTNode × Marks) => KCudfData.Dom n0 r.1)
    | with_reducible apply Post.bind_post (Q := fun (r : KCudfData × Marks) => KCudfData.Dom n0 r.1)
    | with_reducible apply Post.bind_post (Q := fun (r : KCudfData × Nat) => KCudfData.Dom n0 r.1)
    | with_reducible apply Post.bind_post (Q := fun (r : KCudfData × DTNode × Nat) => KCudfData.Dom n0 r.1)
    | with_reducible apply Post.bind_post (Q := fun (r : Bool × KCudfData) => KCudfData.Dom n0 r.2)
    | with_reducible apply Post.bind_post (Q := fun (r : KCudfData × DTNode) => KCudfData.Dom n0 r.1)
    | with_reducible apply Post.bind_post (Q := fun (r : KCudfData × TranslatorStats) => KCudfData.Dom n0 r.1)
    | with_reducible apply Post.bind_post (Q := fun _ => True)
    | intro _
    | split)

set_option maxRecDepth 10000 in
theorem dom_processRangePackage (n0 : Nat) (pr : Printer) (doc : CudfDoc) (d : KCudfData) (pi : CudfPackage)
    (h : KCudfData.Dom n0 d) :
    Post (KCudfData.Dom n0) (KCudfData.processRangePackage pr doc d pi) := by
  unfold KCudfData.processRangePackage
  try simp only [KCudfData.newDisjunctionObject, KCudfData.specvAt, KCudfData.concreteAt]
  repeat (first
    | assumption
    | exact KCudfData.Dom.fresh_dom (by assumption) _ _ rfl rfl
    | exact KCudfData.Dom.put_dom (by assumption) (by assumption)
    | exact Post.throw_post _
    | (apply Post.pure_post; first | assumption | exact KCudfData.Dom.fresh_dom (by assumption) _ _ rfl rfl | exact KCudfData.Dom.put_dom (by assumption) (by assumption))
    | (apply dom_addConflict; first | assumption | exact KCudfData.Dom.fresh_dom (by assumption) _ _ rfl rfl | exact KCudfData.Dom.put_dom (by assumption) (by assumption))
    | (apply dom_addProvider; first | assumption | exact KCudfData.Dom.fresh_dom (by assumption) _ _ rfl rfl | exact KCudfData.Dom.put_dom (by assumption) (by assumption))
    | (apply dom_addBut; first | assumption | exact KCudfData.Dom.fresh_dom (by assumption) _ _ rfl rfl | exact KCudfData.Dom.put_dom (by assumption) (by assumption))
    | (apply dom_getDisjunction; first | assumption | exact KCudfData.Dom.fresh_dom (by assumption) _ _ rfl rfl | exact KCudfData.Dom.put_dom (by assumption) (by assumption))
    | (apply dom_getDepDisjunction; first | assumption | exact KCudfData.Dom.fresh_dom (by assumption) _ _ rfl rfl | exact KCudfData.Dom.put_dom (by assumption) (by assumption))
    | (apply dom_getDisjunctionOf; first | assumption | exact KCudfData.Dom.fresh_dom (by assumption) _ _ rfl rfl | exact KCudfData.Dom.put_dom (by assumption) (by assumption))
    | (apply dom_processRangeDependency; first | assumption | exact KCudfData.Dom.fresh_dom (by assumption) _ _ rfl rfl | exact KCudfData.Dom.put_dom (by assumption) (by assumption))
    | (refine Post.bind_post (post_obj _ _) ?_)
    | with_reducible apply Post.foldlM_post (Q := KCudfData.Dom n0)
    | with_reducible apply Post.foldlM_post (Q := fun (r : KCudfData × Marks) => KCudfData.Dom n0 r.1)
    | with_reducible apply Post.foldlM_post (Q := fun (r : KCudfData × Nat) => KCudfData.Dom n0 r.1)
    | with_reducible apply Post.foldlM_post (Q := fun (r : KCudfData × DTNode × Marks) => KCudfData.Dom n0 r.1)
    | with_reducible apply Post.foldlM_post (Q := fun (r : KCudfData × DTNode × Nat) => KCudfData.Dom n0 r.1)
    | exact Post.trivial _
    | with_reducible apply Post.bind_post (Q := KCudfData.Dom n0)
    | with_reducible apply Post.bind_post (Q := fun (r : Nat × KCudfData) => KCudfData.Dom n0 r.2)
    | with_reducible apply Post.bind_post (Q := fun (r : KCudfData × DTNode × Marks) => KCudfData.Dom n0 r.1)
    | with_reducible apply Post.bind_post (Q := fun (r : KCudfData × Marks) => KCudfData.Dom n0 r.1)
    | with_reducible apply Post.bind_post (Q := fun (r : KCudfData × Nat) => KCudfData.Dom n0 r.1)
    | with_reducible apply Post.bind_post (Q := fun (r : KCudfData × DTNode × Nat) => KCudfData.Dom n0 r.1)
    | with_reducible apply Post.bind_post (Q := fun (r : Bool × KCudfData) => KCudfData.Dom n0 r.2)
    | with_reducible apply Post.bind_post (Q := fun (r : KCudfData × DTNode) => KCudfData.Dom n0 r.1)
    | with_reducible apply Post.bind_post (Q := fun (r : KCudfData × TranslatorStats) => KCudfData.Dom n0 r.1)
    | with_reducible apply Post.bind_post (Q := fun _ => True)
    | intro _
    | split)

theorem dom_processRangeConstraints (n0 : Nat) (pr : Printer) (d : KCudfData) (doc : CudfDoc)
    (h : KCudfData.Dom n0 d) :
    Post (KCudfData.Dom n0) (KCudfData.processRangeConstraints pr d doc) := by
  unfold KCudfData.processRangeConstraints
  try simp only [KCudfData.newDisjunctionObject, KCudfData.specvAt, KCudfData.concreteAt]
  repeat (first
    | assumption
    | exact KCudfData.Dom.fresh_dom (by assumption) _ _ rfl rfl
    | exact KCudfData.Dom.put_dom (by assumption) (by assumption)
    | exact Post.throw_post _
    | (apply Post.pure_post; first | assumption | exact KCudfData.Dom.fresh_dom (by assumption) _ _ rfl rfl | exact KCudfData.Dom.put_dom (by assumption) (by assumption))
    | (apply dom_processRangePackage; first | assumption | exact KCudfData.Dom.fresh_dom (by assumption) _ _ rfl rfl | exact KCudfData.Dom.put_dom (by assumption) (by assumption))
    | (refine Post.bind_post (post_obj _ _) ?_)
    | with_reducible apply Post.foldlM_post (Q := KCudfData.Dom n0)
    | with_reducible apply Post.foldlM_post (Q := fun (r : KCudfData × Marks) => KCudfData.Dom n0 r.1)
    | with_reducible apply Post.foldlM_post (Q := fun (r : KCudfData × Nat) => KCudfData.Dom n0 r.1)
    | with_reducible apply Post.foldlM_post (Q := fun (r : KCudfData × DTNode × Marks) => KCudfData.Dom n0 r.1)
    | with_reducible apply Post.foldlM_post (Q := fun (r : KCudfData × DTNode × Nat) => KCudfData.Dom n0 r.1)
    | exact Post.trivial _
    | with_reducible apply Post.bind_post (Q := KCudfData.Dom n0)
    | with_reducible apply Post.bind_post (Q := fun (r : Nat × KCudfData) => KCudfData.Dom n0 r.2)
    | with_reducible apply Post.bind_post (Q := fun (r : KCudfData × DTNode × Marks) => KCudfData.Dom n0 r.1)
    | with_reducible apply Post.bind_post (Q := fun (r : KCudfData × Marks) => KCudfData.Dom n0 r.1)
    | with_reducible apply Post.bind_post (Q := fun (r : KCudfData × Nat) => KCudfData.Dom n0 r.1)
    | with_reducible apply Post.bind_post (Q := fun (r : KCudfData × DTNode × Nat) => KCudfData.Dom n0 r.1)
    | with_reducible apply Post.bind_post (Q := fun (r : Bool × KCudfData) => KCudfData.Dom n0 r.2)
    | with_reducible apply Post.bind_post (Q := fun (r : KCudfData × DTNode) => KCudfData.Dom n0 r.1)
    | with_reducible apply Post.bind_post (Q := fun (r : KCudfData × TranslatorStats) => KCudfData.Dom n0 r.1)
    | with_reducible apply Post.bind_post (Q := fun _ => True)
    | intro _
    | split)

theorem dom_fixInstallVirtuals (n0 : Nat) (d : KCudfData) (h : KCudfData.Dom n0 d) :
    Post (KCudfData.Dom n0) (d.fixInstallVirtuals) := by
  unfold KCudfData.fixInstallVirtuals
  try simp only [KCudfData.newDisjunctionObject, KCudfData.specvAt, KCudfData.concreteAt]
  repeat (first
    | assumption
    | exact KCudfData.Dom.fresh_dom (by assumption) _ _ rfl rfl
    | exact KCudfData.Dom.put_dom (by assumption) (by assumption)
    | exact Post.throw_post _
    | (apply Post.pure_post; first | assumption | exact KCudfData.Dom.fresh_dom (by assumption) _ _ rfl rfl | exact KCudfData.Dom.put_dom (by assumption) (by assumption))
    | (apply dom_markInstall; first | assumption | exact KCudfData.Dom.fresh_dom (by assumption) _ _ rfl rfl | exact KCudfData.Dom.put_dom (by assumption) (by assumption))
    | (refine Post.bind_post (post_obj _ _) ?_)
    | with_reducible apply Post.foldlM_post (Q := KCudfData.Dom n0)
    | with_reducible apply Post.foldlM_post (Q := fun (r : KCudfData × Marks) => KCudfData.Dom n0 r.1)
    | with_reducible apply Post.foldlM_post (Q := fun (r : KCudfData × Nat) => KCudfData.Dom n0 r.1)
    | with_reducible apply Post.foldlM_post (Q := fun (r : KCudfData × DTNode × Marks) => KCudfData.Dom n0 r.1)
    | with_reducible apply Post.foldlM_post (Q := fun (r : KCudfData × DTNode × Nat) => KCudfData.Dom n0 r.1)
    | exact Post.trivial _
    | with_reducible apply Post.bind_post (Q := KCudfData.Dom n0)
    | with_reducible apply Post.bind_post (Q := fun (r : Nat × KCudfData) => KCudfData.Dom n0 r.2)
    | with_reducible apply Post.bind_post (Q := fun (r : KCudfData × DTNode × Marks) => KCudfData.Dom n0 r.1)
    | with_reducible apply Post.bind_post (Q := fun (r : KCudfData × Marks) => KCudfData.Dom n0 r.1)
    | with_reducible apply Post.bind_post (Q := fun (r : KCudfData × Nat) => KCudfData.Dom n0 r.1)
    | with_reducible apply Post.bind_post (Q := fun (r : KCudfData × DTNode × Nat) => KCudfData.Dom n0 r.1)
    | with_reducible apply Post.bind_post (Q := fun (r : Bool × KCudfData) => KCudfData.Dom n0 r.2)
    | with_reducible apply Post.bind_post (Q := fun (r : KCudfData × DTNode) => KCudfData.Dom n0 r.1)
    | with_reducible apply Post.bind_post (Q := fun (r : KCudfData × TranslatorStats) => KCudfData.Dom n0 r.1)
    | with_reducible apply Post.bind_post (Q := fun _ => True)
    | intro _
    | split)

set_option maxRecDepth 10000 in
theorem dom_keepPackage (n0 : Nat) (d : KCudfData) (dsj : DTNode) (ms : Marks) (pi : CudfPackage)
    (h : KCudfData.Dom n0 d) :
    Post (fun r => KCudfData.Dom n0 r.1) (d.keepPackage dsj ms pi) := by
  unfold KCudfData.keepPackage
  try simp only [KCudfData.newDisjunctionObject, KCudfData.specvAt, KCudfData.concreteAt]
  repeat (first
    | assumption
    | exact KCudfData.Dom.fresh_dom (by assumption) _ _ rfl rfl
    | exact KCudfData.Dom.put_dom (by assumption) (by assumption)
    | exact Post.throw_post _
    | (apply Post.pure_post; first | assumption | exact KCudfData.Dom.fresh_dom (by assumption) _ _ rfl rfl | exact KCudfData.Dom.put_dom (by assumption) (by assumption))
    | (apply dom_addProvider; first | assumption | exact KCudfData.Dom.fresh_dom (by assumption) _ _ rfl rfl | exact KCudfData.Dom.put_dom (by assumption) (by assumption))
    | (apply dom_flat; first | assumption | exact KCudfData.Dom.fresh_dom (by assumption) _ _ rfl rfl | exact KCudfData.Dom.put_dom (by assumption) (by assumption))
    | (apply dom_setForward; first | assumption | exact KCudfData.Dom.fresh_dom (by assumption) _ _ rfl rfl | exact KCudfData.Dom.put_dom (by assumption) (by assumption))
    | (apply dom_getDisjunction; first | assumption | exact KCudfData.Dom.fresh_dom (by assumption) _ _ rfl rfl | exact KCudfData.Dom.put_dom (by assumption) (by assumption))
    | (apply dom_addDisjunction; first | assumption | exact KCudfData.Dom.fresh_dom (by assumption) _ _ rfl rfl | exact KCudfData.Dom.put_dom (by assumption) (by assumption))
    | (refine Post.bind_post (post_obj _ _) ?_)
    | with_reducible apply Post.foldlM_post (Q := KCudfData.Dom n0)
    | with_reducible apply Post.foldlM_post (Q := fun (r : KCudfData × Marks) => KCudfData.Dom n0 r.1)
    | with_reducible apply Post.foldlM_post (Q := fun (r : KCudfData × Nat) => KCudfData.Dom n0 r.1)
    | with_reducible apply Post.foldlM_post (Q := fun (r : KCudfData × DTNode × Marks) => KCudfData.Dom n0 r.1)
    | with_reducible apply Post.foldlM_post (Q := fun (r : KCudfData × DTNode × Nat) => KCudfData.Dom n0 r.1)
    | exact Post.trivial _
    | with_reducible apply Post.bind_post (Q := KCudfData.Dom n0)
    | with_reducible apply Post.bind_post (Q := fun (r : Nat × KCudfData) => KCudfData.Dom n0 r.2)
    | with_reducible apply Post.bind_post (Q := fun (r : KCudfData × DTNode × Marks) => KCudfData.Dom n0 r.1)
    | with_reducible apply Post.bind_post (Q := fun (r : KCudfData × Marks) => KCudfData.Dom n0 r.1)
    | with_reducible apply Post.bind_post (Q := fun (r : KCudfData × Nat) => KCudfData.Dom n0 r.1)
    | with_reducible apply Post.bind_post (Q := fun (r : KCudfData × DTNode × Nat) => KCudfData.Dom n0 r.1)
    | with_reducible apply Post.bind_post (Q := fun (r : Bool × KCudfData) => KCudfData.Dom n0 r.2)
    | with_reducible apply Post.bind_post (Q := fun (r : KCudfData × DTNode) => KCudfData.Dom n0 r.1)
    | with_reducible apply Post.bind_post (Q := fun (r : KCudfData × TranslatorStats) => KCudfData.Dom n0 r.1)
    | with_reducible apply Post.bind_post (Q := fun _ => True)
    | intro _
    | split)

theorem dom_keepFeature (n0 : Nat) (d : KCudfData) (ms : Marks) (pi : CudfPackage)
    (h : KCudfData.Dom n0 d) :
    Post (fun r => KCudfData.Dom n0 r.1) (d.keepFeature ms pi) := by
  unfold KCudfData.keepFeature
  try simp only [KCudfData.newDisjunctionObject, KCudfData.specvAt, KCudfData.concreteAt]
  repeat (first
    | assumption
    | exact KCudfData.Dom.fresh_dom (by assumption) _ _ rfl rfl
    | exact KCudfData.Dom.put_dom (by assumption) (by assumption)
    | exact Post.throw_post _
    | (apply Post.pure_post; first | assumption | exact KCudfData.Dom.fresh_dom (by assumption) _ _ rfl rfl | exact KCudfData.Dom.put_dom (by assumption) (by assumption))
    | (refine Post.bind_post (post_obj _ _) ?_)
    | with_reducible apply Post.foldlM_post (Q := KCudfData.Dom n0)
    | with_reducible apply Post.foldlM_post (Q := fun (r : KCudfData × Marks) => KCudfData.Dom n0 r.1)
    | with_reducible apply Post.foldlM_post (Q := fun (r : KCudfData × Nat) => KCudfData.Dom n0 r.1)
    | with_reducible apply Post.foldlM_post (Q := fun (r : KCudfData × DTNode × Marks) => KCudfData.Dom n0 r.1)
    | with_reducible apply Post.foldlM_post (Q := fun (r : KCudfData × DTNode × Nat) => KCudfData.Dom n0 r.1)
    | exact Post.trivial _
    | with_reducible apply Post.bind_post (Q := KCudfData.Dom n0)
    | with_reducible apply Post.bind_post (Q := fun (r : Nat × KCudfData) => KCudfData.Dom n0 r.2)
    | with_reducible apply Post.bind_post (Q := fun (r : KCudfData × DTNode × Marks) => KCudfData.Dom n0 r.1)
    | with_reducible apply Post.bind_post (Q := fun (r : KCudfData × Marks) => KCudfData.Dom n0 r.1)
    | with_reducible apply Post.bind_post (Q := fun (r : KCudfData × Nat) => KCudfData.Dom n0 r.1)
    | with_reducible apply Post.bind_post (Q := fun (r : KCudfData × DTNode × Nat) => KCudfData.Dom n0 r.1)
    | with_reducible apply Post.bind_post (Q := fun (r : Bool × KCudfData) => KCudfData.Dom n0 r.2)
    | with_reducible apply Post.bind_post (Q := fun (r : KCudfData × DTNode) => KCudfData.Dom n0 r.1)
    | with_reducible apply Post.bind_post (Q := fun (r : KCudfData × TranslatorStats) => KCudfData.Dom n0 r.1)
    | with_reducible apply Post.bind_post (Q := fun _ => True)
    | intro _
    | split)

theorem dom_processKeep (n0 : Nat) (s : KCudfData × DTNode × Marks) (pi : CudfPackage)
    (h : KCudfData.Dom n0 s.1) :
    Post (fun r => KCudfData.Dom n0 r.1) (KCudfData.processKeep s pi) := by
  unfold KCudfData.processKeep
  try simp only [KCudfData.newDisjunctionObject, KCudfData.specvAt, KCudfData.concreteAt]
  repeat (first
    | assumption
    | exact KCudfData.Dom.fresh_dom (by assumption) _ _ rfl rfl
    | exact KCudfData.Dom.put_dom (by assumption) (by assumption)
    | exact Post.throw_post _
    | (apply Post.pure_post; first | assumption | exact KCudfData.Dom.fresh_dom (by assumption) _ _ rfl rfl | exact KCudfData.Dom.put_dom (by assumption) (by assumption))
    | (apply dom_keepPackage; first | assumption | exact KCudfData.Dom.fresh_dom (by assumption) _ _ rfl rfl | exact KCudfData.Dom.put_dom (by assumption) (by assumption))
    | (apply dom_keepFeature; first | assumption | exact KCudfData.Dom.fresh_dom (by assumption) _ _ rfl rfl | exact KCudfData.Dom.put_dom (by assumption) (by assumption))
    | (refine Post.bind_post (post_obj _ _) ?_)
    | with_reducible apply Post.foldlM_post (Q := KCudfData.Dom n0)
    | with_reducible apply Post.foldlM_post (Q := fun (r : KCudfData × Marks) => KCudfData.Dom n0 r.1)
    | with_reducible apply Post.foldlM_post (Q := fun (r : KCudfData × Nat) => KCudfData.Dom n0 r.1)
    | with_reducible apply Post.foldlM_post (Q := fun (r : KCudfData × DTNode × Marks) => KCudfData.Dom n0 r.1)
    | with_reducible apply Post.foldlM_post (Q := fun (r : KCudfData × DTNode × Nat) => KCudfData.Dom n0 r.1)
    | exact Post.trivial _
    | with_reducible apply Post.bind_post (Q := KCudfData.Dom n0)
    | with_reducible apply Post.bind_post (Q := fun (r : Nat × KCudfData) => KCudfData.Dom n0 r.2)
    | with_reducible apply Post.bind_post (Q := fun (r : KCudfData × DTNode × Marks) => KCudfData.Dom n0 r.1)
    | with_reducible apply Post.bind_post (Q := fun (r : KCudfData × Marks) => KCudfData.Dom n0 r.1)
    | with_reducible apply Post.bind_post (Q := fun (r : KCudfData × Nat) => KCudfData.Dom n0 r.1)
    | with_reducible apply Post.bind_post (Q := fun (r : KCudfData × DTNode × Nat) => KCudfData.Dom n0 r.1)
    | with_reducible apply Post.bind_post (Q := fun (r : Bool × KCudfData) => KCudfData.Dom n0 r.2)
    | with_reducible apply Post.bind_post (Q := fun (r : KCudfData × DTNode) => KCudfData.Dom n0 r.1)
    | with_reducible apply Post.bind_post (Q := fun (r : KCudfData × TranslatorStats) => KCudfData.Dom n0 r.1)
    | with_reducible apply Post.bind_post (Q := fun _ => True)
    | intro _
    | split)

set_option maxRecDepth 10000 in
theorem dom_processUpgrade (n0 : Nat) (pr : Printer) (s : KCudfData × DTNode × Marks) (vpk : Vpkg)
    (h : KCudfData.Dom n0 s.1) :
    Post (fun r => KCudfData.Dom n0 r.1) (KCudfData.processUpgrade pr s vpk) := by
  unfold KCudfData.processUpgrade
  try simp only [KCudfData.newDisjunctionObject, KCudfData.specvAt, KCudfData.concreteAt]
  repeat (first
    | assumption
    | exact KCudfData.Dom.fresh_dom (by assumption) _ _ rfl rfl
    | exact KCudfData.Dom.put_dom (by assumption) (by assumption)
    | exact Post.throw_post _
    | (apply Post.pure_post; first | assumption | exact KCudfData.Dom.fresh_dom (by assumption) _ _ rfl rfl | exact KCudfData.Dom.put_dom (by assumption) (by assumption))
    | (apply dom_addProvider; first | assumption | exact KCudfData.Dom.fresh_dom (by assumption) _ _ rfl rfl | exact KCudfData.Dom.put_dom (by assumption) (by assumption))
    | (apply dom_register; first | assumption | exact KCudfData.Dom.fresh_dom (by assumption) _ _ rfl rfl | exact KCudfData.Dom.put_dom (by assumption) (by assumption))
    | (apply dom_flat; first | assumption | exact KCudfData.Dom.fresh_dom (by assumption) _ _ rfl rfl | exact KCudfData.Dom.put_dom (by assumption) (by assumption))
    | (apply dom_addDisjunction; first | assumption | exact KCudfData.Dom.fresh_dom (by assumption) _ _ rfl rfl | exact KCudfData.Dom.put_dom (by assumption) (by assumption))
    | (apply dom_pairwiseConflicting; first | assumption | exact KCudfData.Dom.fresh_dom (by assumption) _ _ rfl rfl | exact KCudfData.Dom.put_dom (by assumption) (by assumption))
    | (refine Post.bind_post (post_obj _ _) ?_)
    | with_reducible apply Post.foldlM_post (Q := KCudfData.Dom n0)
    | with_reducible apply Post.foldlM_post (Q := fun (r : KCudfData × Marks) => KCudfData.Dom n0 r.1)
    | with_reducible apply Post.foldlM_post (Q := fun (r : KCudfData × Nat) => KCudfData.Dom n0 r.1)
    | with_reducible apply Post.foldlM_post (Q := fun (r : KCudfData × DTNode × Marks) => KCudfData.Dom n0 r.1)
    | with_reducible apply Post.foldlM_post (Q := fun (r : KCudfData × DTNode × Nat) => KCudfData.Dom n0 r.1)
    | exact Post.trivial _
    | with_reducible apply Post.bind_post (Q := KCudfData.Dom n0)
    | with_reducible apply Post.bind_post (Q := fun (r : Nat × KCudfData) => KCudfData.Dom n0 r.2)
    | with_reducible apply Post.bind_post (Q := fun (r : KCudfData × DTNode × Marks) => KCudfData.Dom n0 r.1)
    | with_reducible apply Post.bind_post (Q := fun (r : KCudfData × Marks) => KCudfData.Dom n0 r.1)
    | with_reducible apply Post.bind_post (Q := fun (r : KCudfData × Nat) => KCudfData.Dom n0 r.1)
    | with_reducible apply Post.bind_post (Q := fun (r : KCudfData × DTNode × Nat) => KCudfData.Dom n0 r.1)
    | with_reducible apply Post.bind_post (Q := fun (r : Bool × KCudfData) => KCudfData.Dom n0 r.2)
    | with_reducible apply Post.bind_post (Q := fun (r : KCudfData × DTNode) => KCudfData.Dom n0 r.1)
    | with_reducible apply Post.bind_post (Q := fun (r : KCudfData × TranslatorStats) => KCudfData.Dom n0 r.1)
    | with_reducible apply Post.bind_post (Q := fun _ => True)
    | intro _
    | split)

theorem dom_processInstall (n0 : Nat) (pr : Printer) (s : KCudfData × Marks) (vpk : Vpkg)
    (h : KCudfData.Dom n0 s.1) :
    Post (fun r => KCudfData.Dom n0 r.1) (KCudfData.processInstall pr s vpk) := by
  unfold KCudfData.processInstall
  try simp only [KCudfData.newDisjunctionObject, KCudfData.specvAt, KCudfData.concreteAt]
  repeat (first
    | assumption
    | exact KCudfData.Dom.fresh_dom (by assumption) _ _ rfl rfl
    | exact KCudfData.Dom.put_dom (by assumption) (by assumption)
    | exact Post.throw_post _
    | (apply Post.pure_post; first | assumption | exact KCudfData.Dom.fresh_dom (by assumption) _ _ rfl rfl | exact KCudfData.Dom.put_dom (by assumption) (by assumption))
    | (refine Post.bind_post (post_obj _ _) ?_)
    | with_reducible apply Post.foldlM_post (Q := KCudfData.Dom n0)
    | with_reducible apply Post.foldlM_post (Q := fun (r : KCudfData × Marks) => KCudfData.Dom n0 r.1)
    | with_reducible apply Post.foldlM_post (Q := fun (r : KCudfData × Nat) => KCudfData.Dom n0 r.1)
    | with_reducible apply Post.foldlM_post (Q := fun (r : KCudfData × DTNode × Marks) => KCudfData.Dom n0 r.1)
    | with_reducible apply Post.foldlM_post (Q := fun (r : KCudfData × DTNode × Nat) => KCudfData.Dom n0 r.1)
    | exact Post.trivial _
    | with_reducible apply Post.bind_post (Q := KCudfData.Dom n0)
    | with_reducible apply Post.bind_post (Q := fun (r : Nat × KCudfData) => KCudfData.Dom n0 r.2)
    | with_reducible apply Post.bind_post (Q := fun (r : KCudfData × DTNode × Marks) => KCudfData.Dom n0 r.1)
    | with_reducible apply Post.bind_post (Q := fun (r : KCudfData × Marks) => KCudfData.Dom n0 r.1)
    | with_reducible apply Post.bind_post (Q := fun (r : KCudfData × Nat) => KCudfData.Dom n0 r.1)
    | with_reducible apply Post.bind_post (Q := fun (r : KCudfData × DTNode × Nat) => KCudfData.Dom n0 r.1)
    | with_reducible apply Post.bind_post (Q := fun (r : Bool × KCudfData) => KCudfData.Dom n0 r.2)
    | with_reducible apply Post.bind_post (Q := fun (r : KCudfData × DTNode) => KCudfData.Dom n0 r.1)
    | with_reducible apply Post.bind_post (Q := fun (r : KCudfData × TranslatorStats) => KCudfData.Dom n0 r.1)
    | with_reducible apply Post.bind_post (Q := fun _ => True)
    | intro _
    | split)

theorem dom_processRemove (n0 : Nat) (pr : Printer) (s : KCudfData × Marks) (vpk : Vpkg)
    (h : KCudfData.Dom n0 s.1) :
    Post (fun r => KCudfData.Dom n0 r.1) (KCudfData.processRemove pr s vpk) := by
  unfold KCudfData.processRemove
  try simp only [KCudfData.newDisjunctionObject, KCudfData.specvAt, KCudfData.concreteAt]
  repeat (first
    | assumption
    | exact KCudfData.Dom.fresh_dom (by assumption) _ _ rfl rfl
    | exact KCudfData.Dom.put_dom (by assumption) (by assumption)
    | exact Post.throw_post _
    | (apply Post.pure_post; first | assumption | exact KCudfData.Dom.fresh_dom (by assumption) _ _ rfl rfl | exact KCudfData.Dom.put_dom (by assumption) (by assumption))
    | (refine Post.bind_post (post_obj _ _) ?_)
    | with_reducible apply Post.foldlM_post (Q := KCudfData.Dom n0)
    | with_reducible apply Post.foldlM_post (Q := fun (r : KCudfData × Marks) => KCudfData.Dom n0 r.1)
    | with_reducible apply Post.foldlM_post (Q := fun (r : KCudfData × Nat) => KCudfData.Dom n0 r.1)
    | with_reducible apply Post.foldlM_post (Q := fun (r : KCudfData × DTNode × Marks) => KCudfData.Dom n0 r.1)
    | with_reducible apply Post.foldlM_post (Q := fun (r : KCudfData × DTNode × Nat) => KCudfData.Dom n0 r.1)
    | exact Post.trivial _
    | with_reducible apply Post.bind_post (Q := KCudfData.Dom n0)
    | with_reducible apply Post.bind_post (Q := fun (r : Nat × KCudfData) => KCudfData.Dom n0 r.2)
    | with_reducible apply Post.bind_post (Q := fun (r : KCudfData × DTNode × Marks) => KCudfData.Dom n0 r.1)
    | with_reducible apply Post.bind_post (Q := fun (r : KCudfData × Marks) => KCudfData.Dom n0 r.1)
    | with_reducible apply Post.bind_post (Q := fun (r : KCudfData × Nat) => KCudfData.Dom n0 r.1)
    | with_reducible apply Post.bind_post (Q := fun (r : KCudfData × DTNode × Nat) => KCudfData.Dom n0 r.1)
    | with_reducible apply Post.bind_post (Q := fun (r : Bool × KCudfData) => KCudfData.Dom n0 r.2)
    | with_reducible apply Post.bind_post (Q := fun (r : KCudfData × DTNode) => KCudfData.Dom n0 r.1)
    | with_reducible apply Post.bind_post (Q := fun (r : KCudfData × TranslatorStats) => KCudfData.Dom n0 r.1)
    | with_reducible apply Post.bind_post (Q := fun _ => True)
    | intro _
    | split)

theorem dom_markPackages (n0 : Nat) (d : KCudfData) (ms : Marks) (h : KCudfData.Dom n0 d) :
    Post (KCudfData.Dom n0) (d.markPackages ms) := by
  unfold KCudfData.markPackages
  try simp only [KCudfData.newDisjunctionObject, KCudfData.specvAt, KCudfData.concreteAt]
  repeat (first
    | assumption
    | exact KCudfData.Dom.fresh_dom (by assumption) _ _ rfl rfl
    | exact KCudfData.Dom.put_dom (by assumption) (by assumption)
    | exact Post.throw_post _
    | (apply Post.pure_post; first | assumption | exact KCudfData.Dom.fresh_dom (by assumption) _ _ rfl rfl | exact KCudfData.Dom.put_dom (by assumption) (by assumption))
    | (apply dom_markInstall; first | assumption | exact KCudfData.Dom.fresh_dom (by assumption) _ _ rfl rfl | exact KCudfData.Dom.put_dom (by assumption) (by assumption))
    | (apply dom_markKeep; first | assumption | exact KCudfData.Dom.fresh_dom (by assumption) _ _ rfl rfl | exact KCudfData.Dom.put_dom (by assumption) (by assumption))
    | (refine Post.bind_post (post_obj _ _) ?_)
    | with_reducible apply Post.foldlM_post (Q := KCudfData.Dom n0)
    | with_reducible apply Post.foldlM_post (Q := fun (r : KCudfData × Marks) => KCudfData.Dom n0 r.1)
    | with_reducible apply Post.foldlM_post (Q := fun (r : KCudfData × Nat) => KCudfData.Dom n0 r.1)
    | with_reducible apply Post.foldlM_post (Q := fun (r : KCudfData × DTNode × Marks) => KCudfData.Dom n0 r.1)
    | with_reducible apply Post.foldlM_post (Q := fun (r : KCudfData × DTNode × Nat) => KCudfData.Dom n0 r.1)
    | exact Post.trivial _
    | with_reducible apply Post.bind_post (Q := KCudfData.Dom n0)
    | with_reducible apply Post.bind_post (Q := fun (r : Nat × KCudfData) => KCudfData.Dom n0 r.2)
    | with_reducible apply Post.bind_post (Q := fun (r : KCudfData × DTNode × Marks) => KCudfData.Dom n0 r.1)
    | with_reducible apply Post.bind_post (Q := fun (r : KCudfData × Marks) => KCudfData.Dom n0 r.1)
    | with_reducible apply Post.bind_post (Q := fun (r : KCudfData × Nat) => KCudfData.Dom n0 r.1)
    | with_reducible apply Post.bind_post (Q := fun (r : KCudfData × DTNode × Nat) => KCudfData.Dom n0 r.1)
    | with_reducible apply Post.bind_post (Q := fun (r : Bool × KCudfData) => KCudfData.Dom n0 r.2)
    | with_reducible apply Post.bind_post (Q := fun (r : KCudfData × DTNode) => KCudfData.Dom n0 r.1)
    | with_reducible apply Post.bind_post (Q := fun (r : KCudfData × TranslatorStats) => KCudfData.Dom n0 r.1)
    | with_reducible apply Post.bind_post (Q := fun _ => True)
    | intro _
    | split)

theorem dom_processRequest (n0 : Nat) (pr : Printer) (d : KCudfData) (doc : CudfDoc) (dsj : DTNode)
    (h : KCudfData.Dom n0 d) :
    Post (fun r => KCudfData.Dom n0 r.1) (KCudfData.processRequest pr d doc dsj) := by
  unfold KCudfData.processRequest
  try simp only [KCudfData.newDisjunctionObject, KCudfData.specvAt, KCudfData.concreteAt]
  repeat (first
    | assumption
    | exact KCudfData.Dom.fresh_dom (by assumption) _ _ rfl rfl
    | exact KCudfData.Dom.put_dom (by assumption) (by assumption)
    | exact Post.throw_post _
    | (apply Post.pure_post; first | assumption | exact KCudfData.Dom.fresh_dom (by assumption) _ _ rfl rfl | exact KCudfData.Dom.put_dom (by assumption) (by assumption))
    | (apply dom_processKeep; first | assumption | exact KCudfData.Dom.fresh_dom (by assumption) _ _ rfl rfl | exact KCudfData.Dom.put_dom (by assumption) (by assumption))
    | (apply dom_processUpgrade; first | assumption | exact KCudfData.Dom.fresh_dom (by assumption) _ _ rfl rfl | exact KCudfData.Dom.put_dom (by assumption) (by assumption))
    | (apply dom_processInstall; first | assumption | exact KCudfData.Dom.fresh_dom (by assumption) _ _ rfl rfl | exact KCudfData.Dom.put_dom (by assumption) (by assumption))
    | (apply dom_processRemove; first | assumption | exact KCudfData.Dom.fresh_dom (by assumption) _ _ rfl rfl | exact KCudfData.Dom.put_dom (by assumption) (by assumption))
    | (apply dom_markPackages; first | assumption | exact KCudfData.Dom.fresh_dom (by assumption) _ _ rfl rfl | exact KCudfData.Dom.put_dom (by assumption) (by assumption))
    | (refine Post.bind_post (post_obj _ _) ?_)
    | with_reducible apply Post.foldlM_post (Q := KCudfData.Dom n0)
    | with_reducible apply Post.foldlM_post (Q := fun (r : KCudfData × Marks) => KCudfData.Dom n0 r.1)
    | with_reducible apply Post.foldlM_post (Q := fun (r : KCudfData × Nat) => KCudfData.Dom n0 r.1)
    | with_reducible apply Post.foldlM_post (Q := fun (r : KCudfData × DTNode × Marks) => KCudfData.Dom n0 r.1)
    | with_reducible apply Post.foldlM_post (Q := fun (r : KCudfData × DTNode × Nat) => KCudfData.Dom n0 r.1)
    | exact Post.trivial _
    | with_reducible apply Post.bind_post (Q := KCudfData.Dom n0)
    | with_reducible apply Post.bind_post (Q := fun (r : Nat × KCudfData) => KCudfData.Dom n0 r.2)
    | with_reducible apply Post.bind_post (Q := fun (r : KCudfData × DTNode × Marks) => KCudfData.Dom n0 r.1)
    | with_reducible apply Post.bind_post (Q := fun (r : KCudfData × Marks) => KCudfData.Dom n0 r.1)
    | with_reducible apply Post.bind_post (Q := fun (r : KCudfData × Nat) => KCudfData.Dom n0 r.1)
    | with_reducible apply Post.bind_post (Q := fun (r : KCudfData × DTNode × Nat) => KCudfData.Dom n0 r.1)
    | with_reducible apply Post.bind_post (Q := fun (r : Bool × KCudfData) => KCudfData.Dom n0 r.2)
    | with_reducible apply Post.bind_post (Q := fun (r : KCudfData × DTNode) => KCudfData.Dom n0 r.1)
    | with_reducible apply Post.bind_post (Q := fun (r : KCudfData × TranslatorStats) => KCudfData.Dom n0 r.1)
    | with_reducible apply Post.bind_post (Q := fun _ => True)
    | intro _
    | split)

theorem dom_consistent (n0 : Nat) (d : KCudfData) (h : KCudfData.Dom n0 d) :
    Post (fun r => KCudfData.Dom n0 r.2) (d.consistent) := by
  unfold KCudfData.consistent
  try simp only [KCudfData.newDisjunctionObject, KCudfData.specvAt, KCudfData.concreteAt]
  repeat (first
    | assumption
    | exact KCudfData.Dom.fresh_dom (by assumption) _ _ rfl rfl
    | exact KCudfData.Dom.put_dom (by assumption) (by assumption)
    | exact Post.throw_post _
    | (apply Post.pure_post; first | assumption | exact KCudfData.Dom.fresh_dom (by assumption) _ _ rfl rfl | exact KCudfData.Dom.put_dom (by assumption) (by assumption))
    | (refine Post.bind_post (post_obj _ _) ?_)
    | with_reducible apply Post.foldlM_post (Q := KCudfData.Dom n0)
    | with_reducible apply Post.foldlM_post (Q := fun (r : KCudfData × Marks) => KCudfData.Dom n0 r.1)
    | with_reducible apply Post.foldlM_post (Q := fun (r : KCudfData × Nat) => KCudfData.Dom n0 r.1)
    | with_reducible apply Post.foldlM_post (Q := fun (r : KCudfData × DTNode × Marks) => KCudfData.Dom n0 r.1)
    | with_reducible apply Post.foldlM_post (Q := fun (r : KCudfData × DTNode × Nat) => KCudfData.Dom n0 r.1)
    | exact Post.trivial _
    | with_reducible apply Post.bind_post (Q := KCudfData.Dom n0)
    | with_reducible apply Post.bind_post (Q := fun (r : Nat × KCudfData) => KCudfData.Dom n0 r.2)
    | with_reducible apply Post.bind_post (Q := fun (r : KCudfData × DTNode × Marks) => KCudfData.Dom n0 r.1)
    | with_reducible apply Post.bind_post (Q := fun (r : KCudfData × Marks) => KCudfData.Dom n0 r.1)
    | with_reducible apply Post.bind_post (Q := fun (r : KCudfData × Nat) => KCudfData.Dom n0 r.1)
    | with_reducible apply Post.bind_post (Q := fun (r : KCudfData × DTNode × Nat) => KCudfData.Dom n0 r.1)
    | with_reducible apply Post.bind_post (Q := fun (r : Bool × KCudfData) => KCudfData.Dom n0 r.2)
    | with_reducible apply Post.bind_post (Q := fun (r : KCudfData × DTNode) => KCudfData.Dom n0 r.1)
    | with_reducible apply Post.bind_post (Q := fun (r : KCudfData × TranslatorStats) => KCudfData.Dom n0 r.1)
    | with_reducible apply Post.bind_post (Q := fun _ => True)
    | intro _
    | split)

theorem dom_fillBigPackages (n0 : Nat) (d : KCudfData) (h : KCudfData.Dom n0 d) :
    Post (KCudfData.Dom n0) (d.fillBigPackages) := by
  unfold KCudfData.fillBigPackages
  try simp only [KCudfData.newDisjunctionObject, KCudfData.specvAt, KCudfData.concreteAt]
  repeat (first
    | assumption
    | exact KCudfData.Dom.fresh_dom (by assumption) _ _ rfl rfl
    | exact KCudfData.Dom.put_dom (by assumption) (by assumption)
    | exact Post.throw_post _
    | (apply Post.pure_post; first | assumption | exact KCudfData.Dom.fresh_dom (by assumption) _ _ rfl rfl | exact KCudfData.Dom.put_dom (by assumption) (by assumption))
    | (refine Post.bind_post (post_obj _ _) ?_)
    | with_reducible apply Post.foldlM_post (Q := KCudfData.Dom n0)
    | with_reducible apply Post.foldlM_post (Q := fun (r : KCudfData × Marks) => KCudfData.Dom n0 r.1)
    | with_reducible apply Post.foldlM_post (Q := fun (r : KCudfData × Nat) => KCudfData.Dom n0 r.1)
    | with_reducible apply Post.foldlM_post (Q := fun (r : KCudfData × DTNode × Marks) => KCudfData.Dom n0 r.1)
    | with_reducible apply Post.foldlM_post (Q := fun (r : KCudfData × DTNode × Nat) => KCudfData.Dom n0 r.1)
    | exact Post.trivial _
    | with_reducible apply Post.bind_post (Q := KCudfData.Dom n0)
    | with_reducible apply Post.bind_post (Q := fun (r : Nat × KCudfData) => KCudfData.Dom n0 r.2)
    | with_reducible apply Post.bind_post (Q := fun (r : KCudfData × DTNode × Marks) => KCudfData.Dom n0 r.1)
    | with_reducible apply Post.bind_post (Q := fun (r : KCudfData × Marks) => KCudfData.Dom n0 r.1)
    | with_reducible apply Post.bind_post (Q := fun (r : KCudfData × Nat) => KCudfData.Dom n0 r.1)
    | with_reducible apply Post.bind_post (Q := fun (r : KCudfData × DTNode × Nat) => KCudfData.Dom n0 r.1)
    | with_reducible apply Post.bind_post (Q := fun (r : Bool × KCudfData) => KCudfData.Dom n0 r.2)
    | with_reducible apply Post.bind_post (Q := fun (r : KCudfData × DTNode) => KCudfData.Dom n0 r.1)
    | with_reducible apply Post.bind_post (Q := fun (r : KCudfData × TranslatorStats) => KCudfData.Dom n0 r.1)
    | with_reducible apply Post.bind_post (Q := fun _ => True)
    | intro _
    | split)

theorem dom_flatAll (n0 : Nat) (d : KCudfData) (h : KCudfData.Dom n0 d) :
    Post (KCudfData.Dom n0) (d.flatAll) := by
  unfold KCudfData.flatAll
  try simp only [KCudfData.newDisjunctionObject, KCudfData.specvAt, KCudfData.concreteAt]
  repeat (first
    | assumption
    | exact KCudfData.Dom.fresh_dom (by assumption) _ _ rfl rfl
    | exact KCudfData.Dom.put_dom (by assumption) (by assumption)
    | exact Post.throw_post _
    | (apply Post.pure_post; first | assumption | exact KCudfData.Dom.fresh_dom (by assumption) _ _ rfl rfl | exact KCudfData.Dom.put_dom (by assumption) (by assumption))
    | (apply dom_flat; first | assumption | exact KCudfData.Dom.fresh_dom (by assumption) _ _ rfl rfl | exact KCudfData.Dom.put_dom (by assumption) (by assumption))
    | (refine Post.bind_post (post_obj _ _) ?_)
    | with_reducible apply Post.foldlM_post (Q := KCudfData.Dom n0)
    | with_reducible apply Post.foldlM_post (Q := fun (r : KCudfData × Marks) => KCudfData.Dom n0 r.1)
    | with_reducible apply Post.foldlM_post (Q := fun (r : KCudfData × Nat) => KCudfData.Dom n0 r.1)
    | with_reducible apply Post.foldlM_post (Q := fun (r : KCudfData × DTNode × Marks) => KCudfData.Dom n0 r.1)
    | with_reducible apply Post.foldlM_post (Q := fun (r : KCudfData × DTNode × Nat) => KCudfData.Dom n0 r.1)
    | exact Post.trivial _
    | with_reducible apply Post.bind_post (Q := KCudfData.Dom n0)
    | with_reducible apply Post.bind_post (Q := fun (r : Nat × KCudfData) => KCudfData.Dom n0 r.2)
    | with_reducible apply Post.bind_post (Q := fun (r : KCudfData × DTNode × Marks) => KCudfData.Dom n0 r.1)
    | with_reducible apply Post.bind_post (Q := fun (r : KCudfData × Marks) => KCudfData.Dom n0 r.1)
    | with_reducible apply Post.bind_post (Q := fun (r : KCudfData × Nat) => KCudfData.Dom n0 r.1)
    | with_reducible apply Post.bind_post (Q := fun (r : KCudfData × DTNode × Nat) => KCudfData.Dom n0 r.1)
    | with_reducible apply Post.bind_post (Q := fun (r : Bool × KCudfData) => KCudfData.Dom n0 r.2)
    | with_reducible apply Post.bind_post (Q := fun (r : KCudfData × DTNode) => KCudfData.Dom n0 r.1)
    | with_reducible apply Post.bind_post (Q := fun (r : KCudfData × TranslatorStats) => KCudfData.Dom n0 r.1)
    | with_reducible apply Post.bind_post (Q := fun _ => True)
    | intro _
    | split)

set_option maxRecDepth 10000 in
theorem dom_compress (n0 : Nat) (d : KCudfData) (dt : DTNode) (h : KCudfData.Dom n0 d) :
    Post (fun r => KCudfData.Dom n0 r.1) (d.compress dt) := by
  unfold KCudfData.compress
  try simp only [KCudfData.newDisjunctionObject, KCudfData.specvAt, KCudfData.concreteAt]
  repeat (first
    | assumption
    | exact KCudfData.Dom.fresh_dom (by assumption) _ _ rfl rfl
    | exact KCudfData.Dom.put_dom (by assumption) (by assumption)
    | exact Post.throw_post _
    | (apply Post.pure_post; first | assumption | exact KCudfData.Dom.fresh_dom (by assumption) _ _ rfl rfl | exact KCudfData.Dom.put_dom (by assumption) (by assumption))
    | (apply dom_setForward; first | assumption | exact KCudfData.Dom.fresh_dom (by assumption) _ _ rfl rfl | exact KCudfData.Dom.put_dom (by assumption) (by assumption))
    | (apply dom_addDisjunction; first | assumption | exact KCudfData.Dom.fresh_dom (by assumption) _ _ rfl rfl | exact KCudfData.Dom.put_dom (by assumption) (by assumption))
    | (refine Post.bind_post (post_obj _ _) ?_)
    | with_reducible apply Post.foldlM_post (Q := KCudfData.Dom n0)
    | with_reducible apply Post.foldlM_post (Q := fun (r : KCudfData × Marks) => KCudfData.Dom n0 r.1)
    | with_reducible apply Post.foldlM_post (Q := fun (r : KCudfData × Nat) => KCudfData.Dom n0 r.1)
    | with_reducible apply Post.foldlM_post (Q := fun (r : KCudfData × DTNode × Marks) => KCudfData.Dom n0 r.1)
    | with_reducible apply Post.foldlM_post (Q := fun (r : KCudfData × DTNode × Nat) => KCudfData.Dom n0 r.1)
    | exact Post.trivial _
    | with_reducible apply Post.bind_post (Q := KCudfData.Dom n0)
    | with_reducible apply Post.bind_post (Q := fun (r : Nat × KCudfData) => KCudfData.Dom n0 r.2)
    | with_reducible apply Post.bind_post (Q := fun (r : KCudfData × DTNode × Marks) => KCudfData.Dom n0 r.1)
    | with_reducible apply Post.bind_post (Q := fun (r : KCudfData × Marks) => KCudfData.Dom n0 r.1)
    | with_reducible apply Post.bind_post (Q := fun (r : KCudfData × Nat) => KCudfData.Dom n0 r.1)
    | with_reducible apply Post.bind_post (Q := fun (r : KCudfData × DTNode × Nat) => KCudfData.Dom n0 r.1)
    | with_reducible apply Post.bind_post (Q := fun (r : Bool × KCudfData) => KCudfData.Dom n0 r.2)
    | with_reducible apply Post.bind_post (Q := fun (r : KCudfData × DTNode) => KCudfData.Dom n0 r.1)
    | with_reducible apply Post.bind_post (Q := fun (r : KCudfData × TranslatorStats) => KCudfData.Dom n0 r.1)
    | with_reducible apply Post.bind_post (Q := fun _ => True)
    | intro _
    | split)

theorem dom_zeroProviders (n0 : Nat) (d : KCudfData) (h : KCudfData.Dom n0 d) :
    Post (fun r => KCudfData.Dom n0 r.1) (d.zeroProviders) := by
  unfold KCudfData.zeroProviders
  try simp only [KCudfData.newDisjunctionObject, KCudfData.specvAt, KCudfData.concreteAt]
  repeat (first
    | assumption
    | exact KCudfData.Dom.fresh_dom (by assumption) _ _ rfl rfl
    | exact KCudfData.Dom.put_dom (by assumption) (by assumption)
    | exact Post.throw_post _
    | (apply Post.pure_post; first | assumption | exact KCudfData.Dom.fresh_dom (by assumption) _ _ rfl rfl | exact KCudfData.Dom.put_dom (by assumption) (by assumption))
    | (apply dom_markInstall; first | assumption | exact KCudfData.Dom.fresh_dom (by assumption) _ _ rfl rfl | exact KCudfData.Dom.put_dom (by assumption) (by assumption))
    | (apply dom_markKeep; first | assumption | exact KCudfData.Dom.fresh_dom (by assumption) _ _ rfl rfl | exact KCudfData.Dom.put_dom (by assumption) (by assumption))
    | (refine Post.bind_post (post_obj _ _) ?_)
    | with_reducible apply Post.foldlM_post (Q := KCudfData.Dom n0)
    | with_reducible apply Post.foldlM_post (Q := fun (r : KCudfData × Marks) => KCudfData.Dom n0 r.1)
    | with_reducible apply Post.foldlM_post (Q := fun (r : KCudfData × Nat) => KCudfData.Dom n0 r.1)
    | with_reducible apply Post.foldlM_post (Q := fun (r : KCudfData × DTNode × Marks) => KCudfData.Dom n0 r.1)
    | with_reducible apply Post.foldlM_post (Q := fun (r : KCudfData × DTNode × Nat) => KCudfData.Dom n0 r.1)
    | exact Post.trivial _
    | with_reducible apply Post.bind_post (Q := KCudfData.Dom n0)
    | with_reducible apply Post.bind_post (Q := fun (r : Nat × KCudfData) => KCudfData.Dom n0 r.2)
    | with_reducible apply Post.bind_post (Q := fun (r : KCudfData × DTNode × Marks) => KCudfData.Dom n0 r.1)
    | with_reducible apply Post.bind_post (Q := fun (r : KCudfData × Marks) => KCudfData.Dom n0 r.1)
    | with_reducible apply Post.bind_post (Q := fun (r : KCudfData × Nat) => KCudfData.Dom n0 r.1)
    | with_reducible apply Post.bind_post (Q := fun (r : KCudfData × DTNode × Nat) => KCudfData.Dom n0 r.1)
    | with_reducible apply Post.bind_post (Q := fun (r : Bool × KCudfData) => KCudfData.Dom n0 r.2)
    | with_reducible apply Post.bind_post (Q := fun (r : KCudfData × DTNode) => KCudfData.Dom n0 r.1)
    | with_reducible apply Post.bind_post (Q := fun (r : KCudfData × TranslatorStats) => KCudfData.Dom n0 r.1)
    | with_reducible apply Post.bind_post (Q := fun _ => True)
    | intro _
    | split)

theorem dom_complete (n0 : Nat) (d : KCudfData) (compressed zero_prov : Nat)
    (h : KCudfData.Dom n0 d) :
    Post (fun r => KCudfData.Dom n0 r.1) (d.complete compressed zero_prov) := by
  unfold KCudfData.complete
  try simp only [KCudfData.newDisjunctionObject, KCudfData.specvAt, KCudfData.concreteAt]
  repeat (first
    | assumption
    | exact KCudfData.Dom.fresh_dom (by assumption) _ _ rfl rfl
    | exact KCudfData.Dom.put_dom (by assumption) (by assumption)
    | exact Post.throw_post _
    | (apply Post.pure_post; first | assumption | exact KCudfData.Dom.fresh_dom (by assumption) _ _ rfl rfl | exact KCudfData.Dom.put_dom (by assumption) (by assumption))
    | (apply dom_fixInstallVirtuals; first | assumption | exact KCudfData.Dom.fresh_dom (by assumption) _ _ rfl rfl | exact KCudfData.Dom.put_dom (by assumption) (by assumption))
    | (apply dom_consistent; first | assumption | exact KCudfData.Dom.fresh_dom (by assumption) _ _ rfl rfl | exact KCudfData.Dom.put_dom (by assumption) (by assumption))
    | (apply dom_fillBigPackages; first | assumption | exact KCudfData.Dom.fresh_dom (by assumption) _ _ rfl rfl | exact KCudfData.Dom.put_dom (by assumption) (by assumption))
    | (refine Post.bind_post (post_obj _ _) ?_)
    | with_reducible apply Post.foldlM_post (Q := KCudfData.Dom n0)
    | with_reducible apply Post.foldlM_post (Q := fun (r : KCudfData × Marks) => KCudfData.Dom n0 r.1)
    | with_reducible apply Post.foldlM_post (Q := fun (r : KCudfData × Nat) => KCudfData.Dom n0 r.1)
    | with_reducible apply Post.foldlM_post (Q := fun (r : KCudfData × DTNode × Marks) => KCudfData.Dom n0 r.1)
    | with_reducible apply Post.foldlM_post (Q := fun (r : KCudfData × DTNode × Nat) => KCudfData.Dom n0 r.1)
    | exact Post.trivial _
    | with_reducible apply Post.bind_post (Q := KCudfData.Dom n0)
    | with_reducible apply Post.bind_post (Q := fun (r : Nat × KCudfData) => KCudfData.Dom n0 r.2)
    | with_reducible apply Post.bind_post (Q := fun (r : KCudfData × DTNode × Marks) => KCudfData.Dom n0 r.1)
    | with_reducible apply Post.bind_post (Q := fun (r : KCudfData × Marks) => KCudfData.Dom n0 r.1)
    | with_reducible apply Post.bind_post (Q := fun (r : KCudfData × Nat) => KCudfData.Dom n0 r.1)
    | with_reducible apply Post.bind_post (Q := fun (r : KCudfData × DTNode × Nat) => KCudfData.Dom n0 r.1)
    | with_reducible apply Post.bind_post (Q := fun (r : Bool × KCudfData) => KCudfData.Dom n0 r.2)
    | with_reducible apply Post.bind_post (Q := fun (r : KCudfData × DTNode) => KCudfData.Dom n0 r.1)
    | with_reducible apply Post.bind_post (Q := fun (r : KCudfData × TranslatorStats) => KCudfData.Dom n0 r.1)
    | with_reducible apply Post.bind_post (Q := fun _ => True)
    | intro _
    | split)

theorem dom_beforeRequest (pr : Printer) (n : Nat) (doc : CudfDoc) :
    Post (fun r => KCudfData.Dom n r.1) (KCudfData.beforeRequest pr n doc) := by
  unfold KCudfData.beforeRequest
  refine Post.bind_post (dom_processConcretePackages n _ doc (KCudfData.Dom.empty_dom n))
    (fun d1 h1 => ?_)
  refine Post.bind_post (dom_processInstalledPackages n _ doc h1) (fun d2 h2 => ?_)
  refine Post.bind_post (dom_processEqualityConstraints n _ doc h2) (fun d3 h3 => ?_)
  refine Post.bind_post (dom_processProvides n _ doc h3) (fun d4 h4 => ?_)
  refine Post.bind_post (dom_processRangeConstraints n pr _ doc h4) (fun d5 h5 => ?_)
  refine Post.bind_post (dom_flatAll n _ h5) (fun d6 h6 => ?_)
  refine Post.bind_post (Post.trivial _) (fun dt7 _ => ?_)
  refine Post.bind_post (dom_compress n d6 dt7 h6) ?_
  rintro ⟨d8, dt8, c8⟩ h8
  dsimp only at h8 ⊢
  refine Post.bind_post (dom_zeroProviders n d8 h8) ?_
  rintro ⟨d9, z9⟩ h9
  dsimp only at h9 ⊢
  refine Post.bind_post (dom_fixInstallVirtuals n d9 h9) (fun d10 h10 => ?_)
  exact Post.pure_post _ h10

/-- The constructor leaves the objects numbered from the counter it started
with. -/
theorem dom_create (pr : Printer) (n : Nat) (doc : CudfDoc) :
    Post (fun r => KCudfData.Dom n r.1) (KCudfData.create pr n doc) := by
  unfold KCudfData.create
  refine Post.bind_post (dom_beforeRequest pr n doc) ?_
  rintro ⟨d1, dt1, c1, z1⟩ h1
  dsimp only at h1 ⊢
  refine Post.bind_post (dom_processRequest n pr d1 doc dt1 h1) ?_
  rintro ⟨d2, dt2⟩ h2
  dsimp only at h2 ⊢
  exact dom_complete n d2 c1 z1 h2

/-- The identifier `getId` returns is the number of an object. -/
theorem getId_within {d : KCudfData} {dt : DTNode} {n : Nat} (hi : Inv d dt) (hd : d.Dom n)
    (p : Nat) : Post (fun k => n ≤ k ∧ k < d.next_id) (d.getId p) := by
  refine Post.mono_post (d.post_getId p) ?_
  rintro k ⟨t, o, hr, rfl⟩
  rw [(hi.1 t o hr.2.1).1]
  exact (hd.2 t).mp (by rw [hr.2.1]; rfl)

theorem forall_snoc {α : Type} {P : α → Prop} {l : List α} {a : α} (h : ∀ x ∈ l, P x)
    (ha : P a) : ∀ x ∈ l ++ [a], P x := by
  intro x hx
  rcases List.mem_append.mp hx with g | g
  · exact h x g
  · rw [List.mem_singleton.mp g]
    exact ha

theorem forall_snoc_two {α : Type} {P : α → Prop} {l : List α} {a b : α} (h : ∀ x ∈ l, P x)
    (ha : P a) (hb : P b) : ∀ x ∈ l ++ [a, b], P x := by
  intro x hx
  rcases List.mem_append.mp hx with g | g
  · exact h x g
  · rcases List.mem_cons.mp g with g1 | g1
    · rw [g1]
      exact ha
    · rw [List.mem_singleton.mp g1]
      exact hb

theorem within_writePackages {d : KCudfData} {dt : DTNode} {n : Nat} (hi : Inv d dt)
    (hd : d.Dom n) :
    Post (fun r => (∀ c ∈ r.1, Call.within n d.next_id c) ∧
        ∀ c ∈ r.2, n ≤ InfoCall.id c ∧ InfoCall.id c < d.next_id)
      (KCudfTranslator.writePackages d) := by
  unfold KCudfTranslator.writePackages
  refine Post.bind_post (Q := fun (s : IdSet × List Call × List InfoCall) =>
    (∀ c ∈ s.2.1, Call.within n d.next_id c) ∧
      ∀ c ∈ s.2.2, n ≤ InfoCall.id c ∧ InfoCall.id c < d.next_id) ?_ ?_
  · refine Post.foldlM_post ?_ _ _ ⟨by simp, by simp⟩
    intro s e hs
    unfold KCudfTranslator.writeConcrete
    repeat (first
      | exact Post.throw_post _
      | exact Post.pure_post _ hs
      | exact Post.pure_post _ ⟨forall_snoc hs.1 (by assumption), forall_snoc hs.2 (by assumption)⟩
      | refine Post.bind_post (getId_within hi hd _) (fun _ _ => ?_)
      | refine Post.bind_post (Post.trivial _) (fun _ _ => ?_)
      | split)
  · intro s1 hs1
    refine Post.bind_post (Q := fun (s : IdSet × List Call × List InfoCall) =>
      (∀ c ∈ s.2.1, Call.within n d.next_id c) ∧
        ∀ c ∈ s.2.2, n ≤ InfoCall.id c ∧ InfoCall.id c < d.next_id) ?_
      (fun s hs => Post.pure_post _ hs)
    refine Post.foldlM_post ?_ _ _ hs1
    intro s e hs
    unfold KCudfTranslator.writeArtificial
    repeat (first
      | exact Post.throw_post _
      | exact Post.pure_post _ hs
      | exact Post.pure_post _ ⟨forall_snoc hs.1 (by assumption), forall_snoc hs.2 (by assumption)⟩
      | refine Post.bind_post (getId_within hi hd _) (fun _ _ => ?_)
      | refine Post.bind_post (Post.trivial _) (fun _ _ => ?_)
      | split)

theorem within_writeDependencies {d : KCudfData} {dt : DTNode} {n : Nat} (hi : Inv d dt)
    (hd : d.Dom n) :
    Post (fun r => ∀ c ∈ r, Call.within n d.next_id c) (KCudfTranslator.writeDependencies d) := by
  unfold KCudfTranslator.writeDependencies
  refine Post.bind_post (Q := fun (s : IdSet × List Call) =>
    ∀ c ∈ s.2, Call.within n d.next_id c) ?_ (fun s hs => Post.pure_post _ hs)
  refine Post.foldlM_post ?_ _ _ (by simp)
  intro s e hs
  refine Post.bind_post (Post.trivial _) (fun pi_id _ => ?_)
  split
  · refine Post.bind_post (Post.trivial _) (fun i1 _ => ?_)
    refine Post.bind_post (Post.trivial _) (fun rp _ => ?_)
    refine Post.bind_post (getId_within hi hd _) (fun id hid => ?_)
    refine Post.bind_post (Post.trivial _) (fun cs _ => ?_)
    refine Post.bind_post (Q := fun (out : List Call) =>
      ∀ c ∈ out, Call.within n d.next_id c) ?_ ?_
    · refine Post.foldlM_post ?_ _ _ hs
      intro out c hout
      refine Post.bind_post (Post.trivial _) (fun p2 _ => ?_)
      refine Post.bind_post (getId_within hi hd _) (fun i2 h2 => ?_)
      exact Post.pure_post _ (forall_snoc hout ⟨hid, h2⟩)
    · intro out hout
      refine Post.bind_post (Post.trivial _) (fun i4 _ => ?_)
      exact Post.pure_post _ hout
  · exact Post.pure_post _ hs

theorem within_writeConflicts {d : KCudfData} {dt : DTNode} {n : Nat} (hi : Inv d dt)
    (hd : d.Dom n) :
    Post (fun r => ∀ c ∈ r, Call.within n d.next_id c) (KCudfTranslator.writeConflicts d) := by
  unfold KCudfTranslator.writeConflicts
  refine Post.bind_post (Q := fun (s : IdSet × List Call) =>
    ∀ c ∈ s.2, Call.within n d.next_id c) ?_ (fun s hs => Post.pure_post _ hs)
  refine Post.foldlM_post ?_ _ _ (by simp)
  intro s e hs
  refine Post.bind_post (Post.trivial _) (fun pi_id _ => ?_)
  split
  · refine Post.bind_post (Post.trivial _) (fun i1 _ => ?_)
    refine Post.bind_post (Post.trivial _) (fun rp _ => ?_)
    refine Post.bind_post (getId_within hi hd _) (fun id hid => ?_)
    refine Post.bind_post (Post.trivial _) (fun cs _ => ?_)
    refine Post.bind_post (Q := fun (out : List Call) =>
      ∀ c ∈ out, Call.within n d.next_id c) ?_ ?_
    · refine Post.foldlM_post ?_ _ _ hs
      intro out c hout
      refine Post.bind_post (Post.trivial _) (fun p2 _ => ?_)
      refine Post.bind_post (Post.trivial _) (fun i2 _ => ?_)
      split
      · refine Post.bind_post (getId_within hi hd _) (fun i3 h3 => ?_)
        exact Post.pure_post _ (forall_snoc hout ⟨hid, h3⟩)
      · refine Post.bind_post (getId_within hi hd _) (fun i3 h3 => ?_)
        exact Post.pure_post _ (forall_snoc hout ⟨h3, hid⟩)
    · intro out hout
      refine Post.bind_post (Post.trivial _) (fun i4 _ => ?_)
      exact Post.pure_post _ hout
  · exact Post.pure_post _ hs

theorem within_writeConcreteSelfProvided {d : KCudfData} {dt : DTNode} {n : Nat}
    (hi : Inv d dt) (hd : d.Dom n) :
    Post (fun r => ∀ c ∈ r, Call.within n d.next_id c)
      (KCudfTranslator.writeConcreteSelfProvided d) := by
  unfold KCudfTranslator.writeConcreteSelfProvided
  refine Post.bind_post (Q := fun (s : IdSet × List Call) =>
    ∀ c ∈ s.2, Call.within n d.next_id c) ?_ (fun s hs => Post.pure_post _ hs)
  refine Post.foldlM_post ?_ _ _ (by simp)
  intro s e hs
  repeat (first
    | exact Post.throw_post _
    | exact Post.pure_post _ hs
    | exact Post.pure_post _ (forall_snoc hs ⟨by assumption, by assumption⟩)
    | refine Post.bind_post (getId_within hi hd _) (fun _ _ => ?_)
    | refine Post.bind_post (Post.trivial _) (fun _ _ => ?_)
    | split)

theorem within_writeProvides {d : KCudfData} {dt : DTNode} {n : Nat} (hi : Inv d dt)
    (hd : d.Dom n) :
    Post (fun r => ∀ c ∈ r, Call.within n d.next_id c) (KCudfTranslator.writeProvides d) := by
  unfold KCudfTranslator.writeProvides
  refine Post.bind_post (Q := fun (s : IdSet × List Call) =>
    ∀ c ∈ s.2, Call.within n d.next_id c) ?_ (fun s hs => Post.pure_post _ hs)
  refine Post.foldlM_post ?_ _ _ (by simp)
  intro s e hs
  refine Post.bind_post (Post.trivial _) (fun pi_id _ => ?_)
  refine Post.bind_post (Post.trivial _) (fun b _ => ?_)
  split
  · refine Post.bind_post (Post.trivial _) (fun i1 _ => ?_)
    refine Post.bind_post (Post.trivial _) (fun rp _ => ?_)
    refine Post.bind_post (getId_within hi hd _) (fun id hid => ?_)
    refine Post.bind_post (Post.trivial _) (fun cs _ => ?_)
    refine Post.bind_post (Q := fun (out : List Call) =>
      ∀ c ∈ out, Call.within n d.next_id c) ?_ ?_
    · refine Post.foldlM_post ?_ _ _ hs
      intro out c hout
      refine Post.bind_post (Post.trivial _) (fun p2 _ => ?_)
      refine Post.bind_post (getId_within hi hd _) (fun i2 h2 => ?_)
      refine Post.bind_post (getId_within hi hd _) (fun i3 h3 => ?_)
      exact Post.pure_post _ (forall_snoc_two hout ⟨h2, hid⟩ ⟨h3, hid⟩)
    · intro out hout
      refine Post.bind_post (Post.trivial _) (fun i4 _ => ?_)
      exact Post.pure_post _ hout
  · exact Post.pure_post _ hs

/-- The calls of `KCudfTranslator::translate` name objects only. -/
theorem within_translate {d : KCudfData} {dt : DTNode} {n : Nat} (hi : Inv d dt)
    (hd : d.Dom n) :
    Post (fun r => (∀ c ∈ r.1, Call.within n d.next_id c) ∧
        ∀ c ∈ r.2, n ≤ InfoCall.id c ∧ InfoCall.id c < d.next_id)
      (KCudfTranslator.translate d) := by
  unfold KCudfTranslator.translate
  refine Post.bind_post (within_writePackages hi hd) (fun p hp => ?_)
  refine Post.bind_post (within_writeDependencies hi hd) (fun deps hdeps => ?_)
  refine Post.bind_post (within_writeConflicts hi hd) (fun confs hconfs => ?_)
  refine Post.bind_post (within_writeConcreteSelfProvided hi hd) (fun self hself => ?_)
  refine Post.bind_post (within_writeProvides hi hd) (fun pvds hpvds => ?_)
  refine Post.pure_post _ ⟨?_, hp.2⟩
  intro c hc
  simp only [List.mem_append] at hc
  rcases hc with (((g | g) | g) | g) | g
  · exact hp.1 c g
  · exact hdeps c g
  · exact hconfs c g
  · exact hself c g
  · exact hpvds c g

/-- C24, as the code has it: the numbering of a translation.  The translation is
a function of the document and of the value `n` of the counter
`Package::next_id` when it starts: two translations of a document that start
with the counter at the same value return the same two files and leave the
counter at the same value.  When a translation returns the files `kcudf` and
`info` and leaves the counter at `n1`, the objects it created are those numbered
from `n` up to `n1`, one after the other, each with its number as identifier,
the keys of the map `packages` are among these numbers, and every identifier in
a call of the two writers is one of them; `kcudf` is what the file writer writes
on these calls and `info` the lines of the calls of the info writer. -/
theorem translation_numbers_from_counter (pr : Printer) (n : Nat) (doc : CudfDoc)
    (kcudf info : List Char) (n1 : Nat)
    (h : translateFiles pr n doc = Except.ok (kcudf, info, n1)) :
    (∀ r, translateFiles pr n doc = Except.ok r → r = (kcudf, info, n1)) ∧
    ∃ d st calls infos w,
      KCudfData.create pr n doc = Except.ok (d, st) ∧
      KCudfTranslator.translate d = Except.ok (calls, infos) ∧
      calls.foldlM KCudfFileWriter.call KCudfFileWriter.create = Except.ok w ∧
      w.os = kcudf ∧ (infos.map InfoCall.line).flatten = info ∧
      d.next_id = n1 ∧ n ≤ n1 ∧
      (∀ p, (d.heap p).isSome = true ↔ n ≤ p ∧ p < n1) ∧
      (∀ p o, d.heap p = some o → Package.id o = p) ∧
      (∀ k p, (k, p) ∈ d.packages → k = p ∧ n ≤ k ∧ k < n1) ∧
      (∀ c ∈ calls, Call.within n n1 c) ∧
      (∀ c ∈ infos, n ≤ InfoCall.id c ∧ InfoCall.id c < n1) := by
  refine ⟨fun r hr => (Except.ok.inj (hr.symm.trans h)).symm ▸ rfl, ?_⟩
  unfold translateFiles at h
  cases hc : KCudfData.create pr n doc with
  | error e =>
    rw [hc] at h
    cases h
  | ok r =>
    obtain ⟨d, st⟩ := r
    rw [hc] at h
    cases ht : KCudfTranslator.translate d with
    | error e =>
      simp only [bind, Except.bind, ht] at h
      cases h
    | ok out =>
      obtain ⟨calls, infos⟩ := out
      cases hw : calls.foldlM KCudfFileWriter.call KCudfFileWriter.create with
      | error e =>
        simp only [bind, Except.bind, ht, hw] at h
        cases h
      | ok w =>
        simp only [bind, Except.bind, ht, hw, pure, Except.pure, Except.ok.injEq,
          Prod.mk.injEq] at h
        obtain ⟨h1, h2, h3⟩ := h
        obtain ⟨dt, m, hu⟩ := (UpgInv.create pr n doc).out (d, st) hc
        have hi : Inv d dt := hu.1
        have hd : d.Dom n := (dom_create pr n doc).out (d, st) hc
        have hwi := (within_translate hi hd).out (calls, infos) ht
        subst h3
        refine ⟨d, st, calls, infos, w, rfl, ht, hw, h1, h2, rfl, hd.1, hd.2,
          fun p o ho => (hi.1 p o ho).1, ?_, hwi.1, hwi.2⟩
        intro k p hkp
        obtain ⟨e, o, ho⟩ := hi.2.1 k p hkp
        subst e
        exact ⟨rfl, (hd.2 k).mp (by rw [ho]; rfl)⟩

theorem translation_numbers_from_counter_witness :
    translateFiles Printer.plain 4 docSingle =
        Except.ok ("P 4 k I # 1a\nP 6 K i # \nD 6 4 # \nD 6 4 # \nR 4 4 # \n".toList,
          "4 1 a\n6 999 \n".toList, 8) ∧
      ((∀ r, translateFiles Printer.plain 4 docSingle = Except.ok r →
        r = ("P 4 k I # 1a\nP 6 K i # \nD 6 4 # \nD 6 4 # \nR 4 4 # \n".toList,
          "4 1 a\n6 999 \n".toList, 8)) ∧
      ∃ d st calls infos w,
        KCudfData.create Printer.plain 4 docSingle = Except.ok (d, st) ∧
        KCudfTranslator.translate d = Except.ok (calls, infos) ∧
        calls.foldlM KCudfFileWriter.call KCudfFileWriter.create = Except.ok w ∧
        w.os = "P 4 k I # 1a\nP 6 K i # \nD 6 4 # \nD 6 4 # \nR 4 4 # \n".toList ∧
        (infos.map InfoCall.line).flatten = "4 1 a\n6 999 \n".toList ∧
        d.next_id = 8 ∧ 4 ≤ 8 ∧
        (∀ p, (d.heap p).isSome = true ↔ 4 ≤ p ∧ p < 8) ∧
        (∀ p o, d.heap p = some o → Package.id o = p) ∧
        (∀ k p, (k, p) ∈ d.packages → k = p ∧ 4 ≤ k ∧ k < 8) ∧
        (∀ c ∈ calls, Call.within 4 8 c) ∧
        (∀ c ∈ infos, 4 ≤ InfoCall.id c ∧ InfoCall.id c < 8)) :=
  ⟨rfl, translation_numbers_from_counter Printer.plain 4 docSingle _ _ 8 rfl⟩

end Numbering

/-! ## The transition table -/

/-- C9: the transition function `tf` equals the specified table on all 5 x 4
entries; the failure state arises only for `MU + PK_MI` and `MI + PK_MU`, the
abort state only for `SR + PK_MU` and `SR + PK_MI`. -/
theorem tf_eq_table :
    (tf PKR_CU PK_MU = some PKR_MU ∧ tf PKR_CU PK_MI = some PKR_MI ∧
      tf PKR_CU PK_CI = some PKR_SR ∧ tf PKR_CU PK_CU = some PKR_CU) ∧
    (tf PKR_CI PK_MU = some PKR_MU ∧ tf PKR_CI PK_MI = some PKR_MI ∧
      tf PKR_CI PK_CI = some PKR_CI ∧ tf PKR_CI PK_CU = some PKR_SR) ∧
    (tf PKR_MU PK_MU = some PKR_MU ∧ tf PKR_MU PK_MI = some PKR_FL ∧
      tf PKR_MU PK_CI = some PKR_MU ∧ tf PKR_MU PK_CU = some PKR_MU) ∧
    (tf PKR_MI PK_MU = some PKR_FL ∧ tf PKR_MI PK_MI = some PKR_MI ∧
      tf PKR_MI PK_CI = some PKR_MI ∧ tf PKR_MI PK_CU = some PKR_MI) ∧
    (tf PKR_SR PK_MU = some PKR_AB ∧ tf PKR_SR PK_MI = some PKR_AB ∧
      tf PKR_SR PK_CI = some PKR_SR ∧ tf PKR_SR PK_CU = some PKR_SR) ∧
    (∀ st op, tf st op = some PKR_FL ↔
      (st = PKR_MU ∧ op = PK_MI) ∨ (st = PKR_MI ∧ op = PK_MU)) ∧
    (∀ st op, tf st op = some PKR_AB ↔
      (st = PKR_SR ∧ op = PK_MU) ∨ (st = PKR_SR ∧ op = PK_MI)) := by
  refine ⟨by decide, by decide, by decide, by decide, by decide, ?_, ?_⟩ <;>
  · intro st op
    cases st <;> cases op <;> decide

end KCudf
